import Mathlib

/-!
Astra stream module tree and main loop job queue.

A shallow embedding of `src/astra/luaapi/stream.c` (streaming module tree and
PID membership) and of the callback queue of `src/core/mainloop.c`.

Modules are identified by natural numbers.  The heap maps a module to its
`module_stream_t` (`none` stands for `mod->stream == NULL`).  Every invocation
of a hook (`join_pid`, `leave_pid`, `on_ts`) and every error log line is
recorded in a trace, so that statements about "calls received" are statements
about that trace.  Recursion through function pointers is bounded by a fuel
argument: one unit per nested call.
-/

namespace Astra

/-! ## Data model -/

/-- Modelled from the spec: the number of PIDs (`pid_refs[0..8192)`); the
constant `TS_MAX_PIDS` is declared in a header outside the sources. -/
def TS_MAX_PIDS : Nat := 8192

/-- Modelled from the spec: `ts_pid_valid` is the precondition `0 ≤ pid < 8192`
of the demux operations; the helper is declared in a header outside the
sources. -/
def ts_pid_valid (pid : Nat) : Bool := decide (pid < TS_MAX_PIDS)

/-- Values a `demux_callback_t` slot can hold: `NULL`, one of the two functions
of `stream.c`, or a function of some other module (identified by a number). -/
inductive demux_callback_t where
  | null
  | demux_join
  | demux_leave
  | foreign (f : Nat)
  deriving DecidableEq, Repr

/-- The `struct module_stream_t`.  `self` is the index of the record in the
heap; `on_ts` is `none` for `NULL` and otherwise names the callback;
`pid_list` holds `uint8_t` counters. -/
structure module_stream_t where
  parent : Option Nat
  on_ts : Option Nat
  children : List Nat
  join_pid : demux_callback_t
  leave_pid : demux_callback_t
  pid_list : Nat → Nat

/-- Observable actions: hook invocations and the error log line of
`module_demux_leave`. -/
inductive Event where
  | join_pid (src dst pid : Nat)
  | leave_pid (src dst pid : Nat)
  | double_leave (mod pid : Nat)
  | on_ts (src dst cb : Nat) (ts : List Nat)
  deriving DecidableEq, Repr

/-- The module that performs the action. -/
def Event.actor : Event → Nat
  | .join_pid src _ _ => src
  | .leave_pid src _ _ => src
  | .double_leave mod _ => mod
  | .on_ts src _ _ _ => src

/-- Ways a call can fail to return: a failed `ASC_ASSERT`, a dereference of a
`NULL` pointer, or exhaustion of the recursion budget of the model. -/
inductive Fault where
  | assertion
  | null_deref
  | out_of_fuel
  deriving DecidableEq, Repr

/-- Program state: `mod->stream` for every module, and the trace, oldest
event first. -/
structure State where
  stream : Nat → Option module_stream_t
  trace : List Event

/-- Store a stream record for a module. -/
def State.set (s : State) (mod : Nat) (st : module_stream_t) : State :=
  { s with stream := Function.update s.stream mod (some st) }

/-- Append an event to the trace. -/
def State.emit (s : State) (e : Event) : State :=
  { s with trace := s.trace ++ [e] }

/-- Counter increment of a `uint8_t` cell: `++st->pid_list[pid]`. -/
def pid_incr (st : module_stream_t) (pid : Nat) : module_stream_t :=
  { st with pid_list := Function.update st.pid_list pid ((st.pid_list pid + 1) % 256) }

/-- Counter decrement of a positive `uint8_t` cell: `--st->pid_list[pid]`. -/
def pid_decr (st : module_stream_t) (pid : Nat) : module_stream_t :=
  { st with pid_list := Function.update st.pid_list pid (st.pid_list pid - 1) }

/-- Invocation of a non-`NULL` `demux_callback_t` on module `mod`: the two
functions of `stream.c` are passed in, a foreign function is outside the
model and leaves the tree as it is. -/
def demux_invoke (join leave : State → Nat → Nat → Except Fault State)
    (cb : demux_callback_t) (s : State) (mod pid : Nat) : Except Fault State :=
  match cb with
  | .null => .error .null_deref
  | .demux_join => join s mod pid
  | .demux_leave => leave s mod pid
  | .foreign _ => .ok s

mutual
/-- The function `module_demux_join`. -/
def module_demux_join : Nat → State → Nat → Nat → Except Fault State
  | 0, _, _, _ => .error .out_of_fuel
  | fuel + 1, s, mod, pid =>
    if ts_pid_valid pid = false then .error .assertion else
    match s.stream mod with
    | none => .error .null_deref
    | some st =>
      let st1 := pid_incr st pid
      let s1 := s.set mod st1
      if st1.pid_list pid = 1 then
        match st1.parent with
        | none => .ok s1
        | some par =>
          match s1.stream par with
          | none => .error .null_deref
          | some ps =>
            if ps.join_pid = .null then .ok s1
            else demux_invoke (module_demux_join fuel) (module_demux_leave fuel)
              ps.join_pid (s1.emit (.join_pid mod par pid)) par pid
      else .ok s1
/-- The function `module_demux_leave`. -/
def module_demux_leave : Nat → State → Nat → Nat → Except Fault State
  | 0, _, _, _ => .error .out_of_fuel
  | fuel + 1, s, mod, pid =>
    if ts_pid_valid pid = false then .error .assertion else
    match s.stream mod with
    | none => .error .null_deref
    | some st =>
      if 0 < st.pid_list pid then
        let st1 := pid_decr st pid
        let s1 := s.set mod st1
        if st1.pid_list pid = 0 then
          match st1.parent with
          | none => .ok s1
          | some par =>
            match s1.stream par with
            | none => .error .null_deref
            | some ps =>
              if ps.leave_pid = .null then .ok s1
              else demux_invoke (module_demux_join fuel) (module_demux_leave fuel)
                ps.leave_pid (s1.emit (.leave_pid mod par pid)) par pid
        else .ok s1
      else .ok (s.emit (.double_leave mod pid))
end

/-- The function `module_demux_check`. -/
def module_demux_check (s : State) (mod pid : Nat) : Except Fault Bool :=
  if ts_pid_valid pid = false then .error .assertion else
  match s.stream mod with
  | none => .error .null_deref
  | some st => .ok (decide (0 < st.pid_list pid))

/-- Update of the record a `module_stream_t *` points to; nothing is written
when the module has no stream. -/
def State.modify (s : State) (mod : Nat) (f : module_stream_t → module_stream_t) : State :=
  match s.stream mod with
  | none => s
  | some st => s.set mod (f st)

/-- The function `module_stream_init`, called without a Lua state
(`L == NULL`): `ASC_ALLOC` returns zeroed memory. -/
def module_stream_init (s : State) (mod : Nat) (on_ts : Option Nat) : Except Fault State :=
  match s.stream mod with
  | some _ => .error .assertion
  | none =>
    .ok (s.set mod
      { parent := none, on_ts := on_ts, children := [],
        join_pid := .demux_join, leave_pid := .demux_leave, pid_list := fun _ => 0 })

/-- The function `module_demux_set`. -/
def module_demux_set (s : State) (mod : Nat) (join_pid leave_pid : demux_callback_t) :
    Except Fault State :=
  match s.stream mod with
  | none => .error .null_deref
  | some st => .ok (s.set mod { st with join_pid := join_pid, leave_pid := leave_pid })

/-- The loop `while (module_demux_check(mod, i)) { module_demux_leave(mod, i);
saved_list[i]++; }` of `module_stream_attach`; `module_stream_destroy` runs
the same loop without the counter.  The first argument bounds the number of
iterations, `saved` is the `uint8_t` cell `saved_list[i]`. -/
def leave_while (fuel : Nat) : Nat → State → Nat → Nat → Nat → Except Fault (State × Nat)
  | 0, _, _, _, _ => .error .out_of_fuel
  | n + 1, s, mod, i, saved =>
    match module_demux_check s mod i with
    | .error e => .error e
    | .ok false => .ok (s, saved)
    | .ok true =>
      match module_demux_leave fuel s mod i with
      | .error e => .error e
      | .ok s1 => leave_while fuel n s1 mod i ((saved + 1) % 256)

/-- The loop `for (i = 0; i < TS_MAX_PIDS; i++)` around `leave_while`, over
the given list of PIDs. -/
def leave_all (fuel : Nat) : List Nat → State → Nat → (Nat → Nat) →
    Except Fault (State × (Nat → Nat))
  | [], s, _, saved => .ok (s, saved)
  | i :: rest, s, mod, saved =>
    match leave_while fuel fuel s mod i (saved i) with
    | .error e => .error e
    | .ok (s1, k) => leave_all fuel rest s1 mod (Function.update saved i k)

/-- The loop `while (saved_list[i]-- > 0) module_demux_join(child, i);`; the
first argument is the value of `saved_list[i]`. -/
def join_times (fuel : Nat) : Nat → State → Nat → Nat → Except Fault State
  | 0, s, _, _ => .ok s
  | k + 1, s, child, i =>
    match module_demux_join fuel s child i with
    | .error e => .error e
    | .ok s1 => join_times fuel k s1 child i

/-- The loop `for (i = 0; i < TS_MAX_PIDS; i++)` around `join_times`. -/
def join_all (fuel : Nat) : List Nat → State → Nat → (Nat → Nat) → Except Fault State
  | [], s, _, _ => .ok s
  | i :: rest, s, child, saved =>
    match join_times fuel (saved i) s child i with
    | .error e => .error e
    | .ok s1 => join_all fuel rest s1 child saved

/-- Modelled from the spec: `asc_list_remove_item` ("remove the child from
that parent's children list") deletes the first occurrence of the item; the
list library is outside the sources. -/
def asc_list_remove_item (l : List Nat) (x : Nat) : List Nat := l.erase x

/-- Modelled from the spec: `asc_list_insert_tail` ("append to
`parent.children`"); the list library is outside the sources. -/
def asc_list_insert_tail (l : List Nat) (x : Nat) : List Nat := l ++ [x]

/-- The "switch parents" block of `module_stream_attach`, first half:
`if (cs->parent != NULL) { asc_list_remove_item(...); cs->parent = NULL; }`. -/
def detach_parent (s : State) (child : Nat) : Except Fault State :=
  match s.stream child with
  | none => .error .null_deref
  | some cs =>
    match cs.parent with
    | none => .ok s
    | some par =>
      match s.stream par with
      | none => .error .null_deref
      | some _ =>
        let s1 := s.modify par
          (fun ps => { ps with children := asc_list_remove_item ps.children child })
        .ok (s1.modify child (fun c => { c with parent := none }))

/-- The "switch parents" block of `module_stream_attach`, second half:
`if (mod != NULL) { ... }` with its two assertions. -/
def attach_parent (s : State) (mod : Option Nat) (child : Nat) : Except Fault State :=
  match mod with
  | none => .ok s
  | some m =>
    match s.stream m with
    | none => .error .assertion
    | some _ =>
      match s.stream child with
      | none => .error .null_deref
      | some cs =>
        if cs.on_ts = none then .error .assertion
        else
          let s1 := s.modify child (fun c => { c with parent := some m })
          .ok (s1.modify m
            (fun ps => { ps with children := asc_list_insert_tail ps.children child }))

/-- The function `module_stream_attach`; `mod = none` is the call with
`NULL`. -/
def module_stream_attach (fuel : Nat) (s : State) (mod : Option Nat) (child : Nat) :
    Except Fault State :=
  match leave_all fuel (List.range TS_MAX_PIDS) s child (fun _ => 0) with
  | .error e => .error e
  | .ok (s1, saved_list) =>
    match detach_parent s1 child with
    | .error e => .error e
    | .ok s2 =>
      match attach_parent s2 mod child with
      | .error e => .error e
      | .ok s3 => join_all fuel (List.range TS_MAX_PIDS) s3 child saved_list

/-- The loop of `module_stream_send` over the children list:
`i->on_ts(i->self, ts)`.  The callback belongs to the child module and is
recorded in the trace. -/
def send_children (s : State) (mod : Nat) (ts : List Nat) : List Nat → Except Fault State
  | [] => .ok s
  | c :: rest =>
    match s.stream c with
    | none => .error .null_deref
    | some cs =>
      match cs.on_ts with
      | none => .error .null_deref
      | some cb => send_children (s.emit (.on_ts mod c cb ts)) mod ts rest

/-- The function `module_stream_send`. -/
def module_stream_send (s : State) (mod : Nat) (ts : List Nat) : Except Fault State :=
  match s.stream mod with
  | none => .error .null_deref
  | some st => send_children s mod ts st.children

/-- The "detach children" loop of `module_stream_destroy`:
`i->parent = NULL` for every item of the list. -/
def clear_parents (s : State) : List Nat → Except Fault State
  | [] => .ok s
  | c :: rest =>
    match s.stream c with
    | none => .error .null_deref
    | some cs => clear_parents (s.set c { cs with parent := none }) rest

/-- The function `module_stream_destroy`; `ASC_FREE` resets `mod->stream` to
`NULL`. -/
def module_stream_destroy (fuel : Nat) (s : State) (mod : Nat) : Except Fault State :=
  match s.stream mod with
  | none => .ok s
  | some _ =>
    match leave_all fuel (List.range TS_MAX_PIDS) s mod (fun _ => 0) with
    | .error e => .error e
    | .ok (s1, _) =>
      match module_stream_attach fuel s1 none mod with
      | .error e => .error e
      | .ok s2 =>
        match s2.stream mod with
        | none => .error .null_deref
        | some st =>
          match clear_parents s2 st.children with
          | .error e => .error e
          | .ok s3 => .ok { s3 with stream := Function.update s3.stream mod none }

/-! ## Specification vocabulary -/

/-- Everything of a stream record except its counters. -/
def shape (st : module_stream_t) :
    Option Nat × Option Nat × List Nat × demux_callback_t × demux_callback_t :=
  (st.parent, st.on_ts, st.children, st.join_pid, st.leave_pid)

/-- Two states have the same modules, with the same links and hooks. -/
def SameShape (s s' : State) : Prop :=
  ∀ n, (s'.stream n).map shape = (s.stream n).map shape

/-- The parent links are ranked by `d`: every parent pointer leads to an
initialised module of smaller rank, so the links form a forest; and every
counter is in the range of `uint8_t`. -/
structure WF (d : Nat → Nat) (s : State) : Prop where
  ranked : ∀ n st m, s.stream n = some st → st.parent = some m →
    (∃ ps, s.stream m = some ps) ∧ d m < d n
  bytes : ∀ n st p, s.stream n = some st → st.pid_list p < 256

/-- The parent of `mod` when that parent has a non-`NULL` hook in the slot
`sel`. -/
def hook_target (s : State) (mod : Nat) (sel : module_stream_t → demux_callback_t) :
    Option Nat :=
  match s.stream mod with
  | none => none
  | some st =>
    match st.parent with
    | none => none
    | some par =>
      match s.stream par with
      | none => none
      | some ps => if sel ps = .null then none else some par

/-- The events of a list that are performed by `mod`. -/
def by_actor (mod : Nat) (evs : List Event) : List Event :=
  evs.filter (fun e => decide (e.actor = mod))

/-- Summary of a run of demux operations on `mod` in a ranked forest: links and
hooks are kept, modules that are not below the rank of `mod` are untouched,
the counters of `mod` are transformed by `F`, and the actions performed by
`mod` itself are `direct`. -/
structure Effect (d : Nat → Nat) (s s' : State) (mod : Nat)
    (F : (Nat → Nat) → (Nat → Nat)) (direct : List Event) : Prop where
  shape : SameShape s s'
  frame : ∀ n, n ≠ mod → d mod ≤ d n → s'.stream n = s.stream n
  self : ∀ st, s.stream mod = some st →
    ∃ st', s'.stream mod = some st' ∧ st'.pid_list = F st.pid_list
  bytes : ∀ n st p, s'.stream n = some st → st.pid_list p < 256
  trace : ∃ evs, s'.trace = s.trace ++ evs ∧ by_actor mod evs = direct ∧
    ∀ e ∈ evs, d e.actor ≤ d mod

/-- One `++` on the counter of `pid`. -/
def incr_step (pl : Nat → Nat) (pid : Nat) : Nat → Nat :=
  Function.update pl pid ((pl pid + 1) % 256)

/-- One `module_demux_leave` on the counter of `pid`. -/
def leave_step (pl : Nat → Nat) (pid : Nat) : Nat → Nat :=
  if 0 < pl pid then Function.update pl pid (pl pid - 1) else pl

/-- The hook invocation `module_demux_join` performs itself. -/
def join_direct (s : State) (mod pid : Nat) : List Event :=
  match s.stream mod with
  | none => []
  | some st =>
    if (st.pid_list pid + 1) % 256 = 1 then
      match hook_target s mod (fun ps => ps.join_pid) with
      | some par => [.join_pid mod par pid]
      | none => []
    else []

/-- The hook invocation or log line `module_demux_leave` performs itself. -/
def leave_direct (s : State) (mod pid : Nat) : List Event :=
  match s.stream mod with
  | none => []
  | some st =>
    if 0 < st.pid_list pid then
      if st.pid_list pid - 1 = 0 then
        match hook_target s mod (fun ps => ps.leave_pid) with
        | some par => [.leave_pid mod par pid]
        | none => []
      else []
    else [.double_leave mod pid]

/-- Summary of what a call on a module of rank at most `k` can do. -/
structure Below (d : Nat → Nat) (k : Nat) (s s' : State) : Prop where
  shape : SameShape s s'
  frame : ∀ n, k < d n → s'.stream n = s.stream n
  bytes : ∀ n st p, s'.stream n = some st → st.pid_list p < 256
  trace : ∃ evs, s'.trace = s.trace ++ evs ∧ ∀ e ∈ evs, d e.actor ≤ k

/-- The hook invocation performed by the loop `leave_while` on `mod`: one
`leave_pid` when the counter was positive and the parent has the hook. -/
def drain_direct (s : State) (mod i : Nat) : List Event :=
  match s.stream mod with
  | none => []
  | some st =>
    if 0 < st.pid_list i then
      match hook_target s mod (fun ps => ps.leave_pid) with
      | some par => [.leave_pid mod par i]
      | none => []
    else []

/-- The hook invocations performed by `leave_all` on `mod`: one `leave_pid`
for every PID of the list with a positive counter, in list order. -/
def drain_all_direct (s : State) (mod : Nat) (pids : List Nat) : List Event :=
  match s.stream mod with
  | none => []
  | some st =>
    match hook_target s mod (fun ps => ps.leave_pid) with
    | none => []
    | some par =>
      (pids.filter (fun p => decide (0 < st.pid_list p))).map (fun p => .leave_pid mod par p)

/-- The hook invocations performed by `join_all` on `child`: one `join_pid`
for every PID of the list with a positive saved count, in list order. -/
def replay_direct (s : State) (child : Nat) (pids : List Nat) (saved : Nat → Nat) :
    List Event :=
  match hook_target s child (fun ps => ps.join_pid) with
  | none => []
  | some par =>
    (pids.filter (fun p => decide (0 < saved p))).map (fun p => .join_pid child par p)

/-- The record of module `n` after `child` has been moved from parent `old`
to parent `new` (the "switch parents" block of `module_stream_attach`, for a
child that is neither its old nor its new parent). -/
def relink (st : module_stream_t) (n child : Nat) (old new : Option Nat) : module_stream_t :=
  { st with
    parent := if n = child then new else st.parent
    children :=
      if new = some n then
        asc_list_insert_tail
          (if old = some n then asc_list_remove_item st.children child else st.children) child
      else if old = some n then asc_list_remove_item st.children child else st.children }

/-- A stream record as `module_stream_init` creates it. -/
def fresh (on_ts : Option Nat) : module_stream_t :=
  { parent := none, on_ts := on_ts, children := [],
    join_pid := .demux_join, leave_pid := .demux_leave, pid_list := fun _ => 0 }

/-- Example forest: module 0 is a root with the single child 1, which has the
single child 3; module 2 is a second root.  Module 1 holds two references on
PID 5 (one of them for module 3) and one on PID 6, each of which module 0 sees
as one. -/
def demo : State :=
  { stream := fun n =>
      if n = 0 then
        some { fresh (some 10) with
          children := [1], pid_list := fun p => if p = 5 then 1 else if p = 6 then 1 else 0 }
      else if n = 1 then
        some { fresh (some 11) with
          parent := some 0, children := [3],
          pid_list := fun p => if p = 5 then 2 else if p = 6 then 1 else 0 }
      else if n = 2 then some (fresh (some 12))
      else if n = 3 then
        some { fresh (some 13) with
          parent := some 1, pid_list := fun p => if p = 5 then 1 else 0 }
      else none,
    trace := [] }

/-- The record of module 1 in `demo`. -/
def demo_child : module_stream_t :=
  { fresh (some 11) with
    parent := some 0, children := [3],
    pid_list := fun p => if p = 5 then 2 else if p = 6 then 1 else 0 }

/-- The record of module 3 in `demo`. -/
def demo_leaf : module_stream_t :=
  { fresh (some 13) with parent := some 1, pid_list := fun p => if p = 5 then 1 else 0 }

/-- The record of module 0 in `demo`. -/
def demo_root : module_stream_t :=
  { fresh (some 10) with children := [1], pid_list := fun p => if p = 5 then 1 else if p = 6 then 1 else 0 }

/-- A call of one of the two PID membership functions on a fixed module. -/
inductive DemuxOp where
  | join (pid : Nat)
  | leave (pid : Nat)
  deriving DecidableEq, Repr

/-- The PID argument of the call. -/
def DemuxOp.pid : DemuxOp → Nat
  | .join p => p
  | .leave p => p

/-- One call on `child`. -/
def run_op (fuel : Nat) (s : State) (child : Nat) : DemuxOp → Except Fault State
  | .join p => module_demux_join fuel s child p
  | .leave p => module_demux_leave fuel s child p

/-- A finite sequence of `module_demux_join` / `module_demux_leave` calls on
`child`. -/
def run_ops (fuel : Nat) (child : Nat) : State → List DemuxOp → Except Fault State
  | s, [] => .ok s
  | s, op :: rest =>
    match run_op fuel s child op with
    | .ok s1 => run_ops fuel child s1 rest
    | .error e => .error e

/-- Number of `join_pid(pid)` calls minus number of `leave_pid(pid)` calls that
`par` has received from `child`. -/
def balance (s : State) (child par pid : Nat) : Int :=
  (s.trace.count (.join_pid child par pid) : Int) - s.trace.count (.leave_pid child par pid)

/-- The result of `module_demux_check`, `false` when the call does not
return. -/
def subscribed (s : State) (mod pid : Nat) : Bool :=
  match module_demux_check s mod pid with
  | .ok b => b
  | .error _ => false

/-- No `join` of the sequence is made on a counter that holds 255, the largest
value of `uint8_t`. -/
def no_wrap (fuel : Nat) (child : Nat) : State → List DemuxOp → Bool
  | _, [] => true
  | s, op :: rest =>
    (match op, s.stream child with
      | .join p, some st => decide (st.pid_list p < 255)
      | _, _ => true) &&
    (match run_op fuel s child op with
      | .ok s1 => no_wrap fuel child s1 rest
      | .error _ => true)

/-- The PIDs a stream record is subscribed to, in increasing order. -/
def joined_pids (st : module_stream_t) : List Nat :=
  (List.range TS_MAX_PIDS).filter (fun p => decide (0 < st.pid_list p))

/-- The `join_pid` invocations of the replay loop of `module_stream_attach`:
one per subscribed PID on the new parent, when it has the hook. -/
def replay_calls (s : State) (mod : Option Nat) (child : Nat) (cs : module_stream_t) :
    List Event :=
  match mod with
  | none => []
  | some m =>
    match s.stream m with
    | none => []
    | some ps =>
      if ps.join_pid = .null then []
      else (joined_pids cs).map (fun p => .join_pid child m p)

/-- The `on_ts` callback of a module, 0 when it has none. -/
def on_ts_of (s : State) (c : Nat) : Nat :=
  match s.stream c with
  | some cs => cs.on_ts.getD 0
  | none => 0

/-- Consistency of the children lists: every entry of a list is an initialised
module that can receive TS and whose parent pointer leads back to the owner of
the list, and no list has a duplicate. -/
structure ChildrenOk (s : State) : Prop where
  member : ∀ p ps c, s.stream p = some ps → c ∈ ps.children →
    ∃ cs, s.stream c = some cs ∧ cs.parent = some p ∧ cs.on_ts ≠ none
  nodup : ∀ p ps, s.stream p = some ps → ps.children.Nodup

/-- The module is in no children list and has no parent. -/
structure Detached (s : State) (child : Nat) : Prop where
  unlisted : ∀ p ps, s.stream p = some ps → child ∉ ps.children
  orphan : ∀ cs, s.stream child = some cs → cs.parent = none

/-- A call of the stream module API. -/
inductive ApiCall where
  | init (mod : Nat) (on_ts : Option Nat)
  | destroy (mod : Nat)
  | attach (parent : Option Nat) (child : Nat)
  | demux_set (mod : Nat) (join_pid leave_pid : demux_callback_t)
  | join (mod pid : Nat)
  | leave (mod pid : Nat)
  | send (mod : Nat) (ts : List Nat)

/-- Execution of one API call. -/
def api (fuel : Nat) (s : State) : ApiCall → Except Fault State
  | .init mod on_ts => module_stream_init s mod on_ts
  | .destroy mod => module_stream_destroy fuel s mod
  | .attach parent child => module_stream_attach fuel s parent child
  | .demux_set mod j l => module_demux_set s mod j l
  | .join mod pid => module_demux_join fuel s mod pid
  | .leave mod pid => module_demux_leave fuel s mod pid
  | .send mod ts => module_stream_send s mod ts

/-- The states a program can reach from the state without any stream, by API
calls that return. -/
inductive Reachable : State → Prop where
  | start : Reachable { stream := fun _ => none, trace := [] }
  | call {s s' : State} (fuel : Nat) (c : ApiCall) :
      Reachable s → api fuel s c = .ok s' → Reachable s'

/-! ## Main loop job queue -/

/-- The constant `JOB_QUEUE_SIZE`. -/
def JOB_QUEUE_SIZE : Nat := 256

/-- The `struct loop_job_t`; callbacks, arguments and owners are pointers,
identified by numbers. -/
structure loop_job_t where
  proc : Nat
  arg : Nat
  owner : Nat
  deriving DecidableEq, Repr

/-- Observable actions of the main loop: a callback invocation `proc(arg)`,
the overflow log line of `asc_job_queue`, the warning of `astra_shutdown`, and
process exit. -/
inductive LoopEvent where
  | call (proc arg : Nat)
  | overflow
  | blocked
  | exit
  deriving DecidableEq, Repr

/-- The `struct asc_main_loop_t` (the mutex is not modelled), together with the
trace of actions. -/
structure asc_main_loop_t where
  flags : Nat
  stop_cnt : Nat
  jobs : Nat → loop_job_t
  job_cnt : Nat
  trace : List LoopEvent

/-- The call `memmove(&jobs[dst], &jobs[dst + 1], n * sizeof(*jobs))`. -/
def memmove_jobs (jobs : Nat → loop_job_t) (dst n : Nat) : Nat → loop_job_t :=
  fun k => if dst ≤ k ∧ k < dst + n then jobs (k + 1) else jobs k

/-- The function `asc_job_queue`. -/
def asc_job_queue (ml : asc_main_loop_t) (owner proc arg : Nat) : asc_main_loop_t :=
  if ml.job_cnt < JOB_QUEUE_SIZE then
    { ml with
      jobs := Function.update ml.jobs ml.job_cnt { proc := proc, arg := arg, owner := owner }
      job_cnt := ml.job_cnt + 1 }
  else
    { ml with job_cnt := 0, trace := ml.trace ++ [.overflow] }

/-- The `while (i < main_loop->job_cnt)` loop of `asc_job_prune`.  Every
iteration decreases `job_cnt - i`, which bounds the number of iterations
(first argument). -/
def prune_loop (owner : Nat) : Nat → Nat → asc_main_loop_t → asc_main_loop_t
  | 0, _, ml => ml
  | n + 1, i, ml =>
    if i < ml.job_cnt then
      if (ml.jobs i).owner = owner then
        prune_loop owner n i
          { ml with
            job_cnt := ml.job_cnt - 1
            jobs := memmove_jobs ml.jobs i (ml.job_cnt - 1 - i) }
      else prune_loop owner n (i + 1) ml
    else ml

/-- The function `asc_job_prune`. -/
def asc_job_prune (ml : asc_main_loop_t) (owner : Nat) : asc_main_loop_t :=
  prune_loop owner ml.job_cnt 0 ml

/-- The `while (main_loop->job_cnt > 0)` loop of `run_jobs`; the callback
`job.proc(job.arg)` is foreign code, recorded in the trace.  Every iteration
decreases `job_cnt`, which bounds the number of iterations (first
argument). -/
def run_jobs_loop : Nat → asc_main_loop_t → asc_main_loop_t
  | 0, ml => ml
  | n + 1, ml =>
    if 0 < ml.job_cnt then
      let job := ml.jobs 0
      run_jobs_loop n
        { ml with
          job_cnt := ml.job_cnt - 1
          jobs := memmove_jobs ml.jobs 0 (ml.job_cnt - 1)
          trace := ml.trace ++ [.call job.proc job.arg] }
    else ml

/-- The function `run_jobs`. -/
def run_jobs (ml : asc_main_loop_t) : asc_main_loop_t :=
  run_jobs_loop ml.job_cnt ml

/-- The entries `jobs[a] .. jobs[b - 1]` of the array. -/
def job_segment (jobs : Nat → loop_job_t) (a b : Nat) : List loop_job_t :=
  (List.range' a (b - a)).map jobs

/-- The queue content: the first `job_cnt` entries of the array. -/
def queue_list (ml : asc_main_loop_t) : List loop_job_t :=
  job_segment ml.jobs 0 ml.job_cnt

/-- A sequence of `asc_job_queue` calls. -/
def queue_all (ml : asc_main_loop_t) (js : List loop_job_t) : asc_main_loop_t :=
  js.foldl (fun m j => asc_job_queue m j.owner j.proc j.arg) ml

/-- Modelled from the spec: the main-loop flag `SHUTDOWN` (the spec lists the
flags `SHUTDOWN`, `RELOAD`, `SIGHUP`, `NO_SLEEP`); the enumeration is declared
in a header outside the sources and is one bit per flag. -/
def MAIN_LOOP_SHUTDOWN : Nat := 1

/-- Modelled from the spec: the main-loop flag `RELOAD`. -/
def MAIN_LOOP_RELOAD : Nat := 2

/-- The function `asc_main_loop_set`: `main_loop->flags |= flag`. -/
def asc_main_loop_set (ml : asc_main_loop_t) (flag : Nat) : asc_main_loop_t :=
  { ml with flags := ml.flags ||| flag }

/-- The function `astra_shutdown`; `none` is the call of `_exit`, after which
nothing else runs.  `stop_cnt` is an `unsigned int`. -/
def astra_shutdown (ml : asc_main_loop_t) : Option asc_main_loop_t :=
  if ml.flags &&& MAIN_LOOP_SHUTDOWN ≠ 0 then
    let ml1 := { ml with stop_cnt := (ml.stop_cnt + 1) % 2 ^ 32 }
    if 3 ≤ ml1.stop_cnt then none
    else if 2 ≤ ml1.stop_cnt then
      some (asc_main_loop_set { ml1 with trace := ml1.trace ++ [.blocked] } MAIN_LOOP_SHUTDOWN)
    else some (asc_main_loop_set ml1 MAIN_LOOP_SHUTDOWN)
  else some (asc_main_loop_set ml MAIN_LOOP_SHUTDOWN)

/-- The block `if (main_loop->flags) { ... }` of `asc_main_loop_run`, as far as
a pending `SHUTDOWN` is concerned: the flags are taken and cleared, and on
`SHUTDOWN` the counter is reset and the loop returns (`true` in the second
component). -/
def consume_flags (ml : asc_main_loop_t) : asc_main_loop_t × Bool :=
  if ml.flags ≠ 0 then
    let flags := ml.flags
    let ml1 := { ml with flags := 0 }
    if flags &&& MAIN_LOOP_SHUTDOWN ≠ 0 then ({ ml1 with stop_cnt := 0 }, true)
    else (ml1, false)
  else (ml, false)

/-! ## Channel module: data model -/

/-- Modelled from the spec: a TS packet has 188 bytes. -/
def TS_PACKET_SIZE : Nat := 188

/-- Modelled from the spec: the null PID `0x1FFF`. -/
def TS_NULL_PID : Nat := 0x1FFF

/-- Modelled from the spec: a PSI section ends with a 32-bit CRC. -/
def CRC32_SIZE : Nat := 4

/-- Modelled from the spec: the type tags of `stream_type[]` (`UNKNOWN` is the
zero value that `memset` writes) together with the packet types `VIDEO`,
`AUDIO`, `SUB`, `DATA` that the stream-type tables return; the enumeration
`ts_type_t` is declared in a header outside the sources. -/
inductive ts_type_t where
  | UNKNOWN | PAT | CAT | PMT | SDT | EIT | TDT | PES | VIDEO | AUDIO | SUB | DATA | CA
  deriving DecidableEq, Repr

open ts_type_t ( AUDIO)

/-- The `struct map_item_t`; `type` is a C string, held as its characters. -/
structure map_item_t where
  type : List Nat
  origin_pid : Nat
  custom_pid : Nat
  is_set : Bool
  deriving DecidableEq, Repr

/-- Modelled from the spec: the fields of `ts_psi_t` that the channel uses: the
PID, the continuity counter, the latched CRC, and the section buffer with its
size; the type is declared in a header outside the sources. -/
structure ts_psi_t where
  pid : Nat
  cc : Nat
  crc32 : Nat
  buffer : Nat → Nat
  buffer_size : Nat

/-- The anonymous `struct config` of the channel (without `name`). -/
structure channel_config_t where
  pnr : Nat
  set_pnr : Nat
  no_sdt : Bool
  no_eit : Bool
  no_reload : Bool
  cas : Bool
  pass_sdt : Bool
  pass_eit : Bool

/-- What the channel hands to the outside: a packet passed to
`module_stream_send`, a section passed to `ts_psi_demux` (PID, continuity
counter and section bytes at that moment), or a log line. -/
inductive ChanEvent where
  | send (ts : List Nat)
  | psi (pid cc : Nat) (bytes : List Nat)
  | log (msg : String)
  deriving DecidableEq, Repr

/-- The `struct module_data_t` of `channel.c`; `map` and `sdt_checksum_list`
are `none` for `NULL`; `out` is the trace of the channel. -/
structure module_data_t where
  config : channel_config_t
  map : Option (List map_item_t)
  pid_map : Nat → Nat
  custom_ts : List Nat
  pat : ts_psi_t
  cat : ts_psi_t
  pmt : ts_psi_t
  sdt : ts_psi_t
  eit : ts_psi_t
  stream : Nat → ts_type_t
  tsid : Nat
  custom_pat : ts_psi_t
  custom_cat : ts_psi_t
  custom_pmt : ts_psi_t
  custom_sdt : ts_psi_t
  sdt_original_section_id : Nat
  sdt_max_section_id : Nat
  sdt_checksum_list : Option (Nat → Nat)
  eit_cc : Nat
  pat_version : Nat
  out : List ChanEvent

/-- Modelled from the spec: the parts of the MPEG-TS library that the channel
calls and that are outside the sources: the packet type of an elementary
stream type (`ts_stream_type(...)->pkt_type`), the refinement of private
streams by descriptor tag (`ts_priv_type`), and the packetiser behind
`ts_psi_demux`: the TS packets it cuts a section into and the continuity
counter it leaves in the section. -/
structure mpegts_lib where
  ts_stream_type : Nat → ts_type_t
  ts_priv_type : Nat → ts_type_t
  demux_packets : ts_psi_t → List (List Nat)
  demux_cc : ts_psi_t → Nat

/-! ## Channel module: byte and PSI primitives -/

/-- The call `memcpy(&dst[doff], &src[soff], n)`. -/
def memcpy (dst : Nat → Nat) (doff : Nat) (src : Nat → Nat) (soff n : Nat) : Nat → Nat :=
  fun k => if doff ≤ k ∧ k < doff + n then src (soff + (k - doff)) else dst k

/-- One byte of the CRC: eight shift steps, MSB first, over a 32-bit
register. -/
def crc32_bits : Nat → Nat → Nat
  | 0, crc => crc
  | n + 1, crc =>
    crc32_bits n
      (if crc &&& 0x80000000 ≠ 0 then ((crc <<< 1) ^^^ 0x04C11DB7) % 2 ^ 32
       else (crc <<< 1) % 2 ^ 32)

/-- Modelled from the spec: the MPEG-2 PSI CRC32 (polynomial `0x04C11DB7`,
MSB-first, init `0xFFFFFFFF`, no output xor) over the first `n` bytes of a
buffer; the primitive is outside the sources. -/
def crc32b (buf : Nat → Nat) (n : Nat) : Nat :=
  (List.range n).foldl (fun crc k => crc32_bits 8 (crc ^^^ ((buf k % 256) <<< 24))) 0xFFFFFFFF

/-- Modelled from the spec: `PSI_GET_CRC32`, the 32-bit CRC trailer of the
section, big-endian. -/
def PSI_GET_CRC32 (psi : ts_psi_t) : Nat :=
  let o := psi.buffer_size - CRC32_SIZE
  (psi.buffer o <<< 24) ||| (psi.buffer (o + 1) <<< 16) ||| (psi.buffer (o + 2) <<< 8)
    ||| psi.buffer (o + 3)

/-- Modelled from the spec: `PSI_CALC_CRC32`, the CRC of the section without
its trailer. -/
def PSI_CALC_CRC32 (psi : ts_psi_t) : Nat :=
  crc32b psi.buffer (psi.buffer_size - CRC32_SIZE)

/-- Modelled from the spec: `PSI_SET_CRC32` stores the recomputed CRC in the
trailer. -/
def PSI_SET_CRC32 (psi : ts_psi_t) : ts_psi_t :=
  let crc := PSI_CALC_CRC32 psi
  let o := psi.buffer_size - CRC32_SIZE
  { psi with
    buffer := Function.update (Function.update (Function.update (Function.update psi.buffer
      o ((crc >>> 24) &&& 0xFF)) (o + 1) ((crc >>> 16) &&& 0xFF))
      (o + 2) ((crc >>> 8) &&& 0xFF)) (o + 3) (crc &&& 0xFF) }

/-- Modelled from the spec: `PSI_SET_SIZE` stores the 12-bit `section_length`
(the size without the 3-byte header) in bytes 1 and 2, keeping the upper
nibble of byte 1. -/
def PSI_SET_SIZE (psi : ts_psi_t) : ts_psi_t :=
  let size := psi.buffer_size - 3
  { psi with
    buffer := Function.update
      (Function.update psi.buffer 1 ((psi.buffer 1 &&& 0xF0) ||| ((size >>> 8) &&& 0x0F)))
      2 (size &&& 0xFF) }

/-- The callback `module_stream_send` applied to a run of packets, in order. -/
def send_packets (s : State) (self : Nat) : List (List Nat) → Except Fault State
  | [] => .ok s
  | ts :: rest =>
    match module_stream_send s self ts with
    | .error e => .error e
    | .ok s1 => send_packets s1 self rest

/-- Modelled from the spec: `ts_psi_demux(psi, module_stream_send, mod)` cuts
the section into TS packets and hands each to `module_stream_send`; the
packetiser is outside the sources and comes from the library record.  The
emission is also recorded as one event of the channel trace. -/
def ts_psi_demux (lib : mpegts_lib) (s : State) (self : Nat) (psi : ts_psi_t)
    (out : List ChanEvent) : Except Fault (State × ts_psi_t × List ChanEvent) :=
  match send_packets s self (lib.demux_packets psi) with
  | .error e => .error e
  | .ok s1 =>
    .ok (s1, { psi with cc := lib.demux_cc psi },
      out ++ [.psi psi.pid psi.cc ((List.range psi.buffer_size).map psi.buffer)])

/-- Modelled from the spec: `TS_GET_PID`, the 13-bit PID in bytes 1 and 2 of
the packet header. -/
def TS_GET_PID (ts : List Nat) : Nat :=
  ((ts.getD 1 0 &&& 0x1F) <<< 8) ||| ts.getD 2 0

/-- Modelled from the spec: `TS_SET_PID` overwrites the 13-bit PID field and
nothing else. -/
def TS_SET_PID (ts : List Nat) (pid : Nat) : List Nat :=
  (ts.set 1 ((ts.getD 1 0 &&& 0xE0) ||| ((pid >>> 8) &&& 0x1F))).set 2 (pid &&& 0xFF)

/-- Modelled from the spec: `PAT_GET_TSID`, bytes 3 and 4. -/
def PAT_GET_TSID (psi : ts_psi_t) : Nat := (psi.buffer 3 <<< 8) ||| psi.buffer 4

/-- Modelled from the spec: `PAT_GET_VERSION`, the 5-bit `version_number` in
byte 5. -/
def PAT_GET_VERSION (psi : ts_psi_t) : Nat := (psi.buffer 5 &&& 0x3E) >>> 1

/-- Modelled from the spec: `PAT_SET_VERSION` writes the 5-bit
`version_number`, keeps `current_next_indicator` and sets the reserved
bits. -/
def PAT_SET_VERSION (psi : ts_psi_t) (version : Nat) : ts_psi_t :=
  { psi with
    buffer := Function.update psi.buffer 5
      (0xC0 ||| ((version <<< 1) &&& 0x3E) ||| (psi.buffer 5 &&& 0x01)) }

/-- Modelled from the spec: `PAT_INIT` writes the 8-byte header of an empty
PAT (table id 0, the given TSID and version, current, section 0 of 0) and
sets the size to header plus CRC. -/
def PAT_INIT (psi : ts_psi_t) (tsid version : Nat) : ts_psi_t :=
  let b0 := Function.update psi.buffer 0 0x00
  let b1 := Function.update b0 1 (0x80 ||| 0x30)
  let b3 := Function.update b1 3 ((tsid >>> 8) &&& 0xFF)
  let b4 := Function.update b3 4 (tsid &&& 0xFF)
  let b5 := Function.update b4 5 0x01
  let p5 := PAT_SET_VERSION { psi with buffer := b5 } version
  let b6 := Function.update p5.buffer 6 0x00
  let b7 := Function.update b6 7 0x00
  PSI_SET_SIZE { p5 with buffer := b7, buffer_size := 8 + CRC32_SIZE }

/-- Modelled from the spec: `PAT_ITEMS_EOL`: the pointer has reached the CRC
trailer. -/
def PAT_ITEMS_EOL (psi : ts_psi_t) (pointer : Nat) : Bool :=
  decide (psi.buffer_size - CRC32_SIZE ≤ pointer)

/-- Modelled from the spec: `PAT_ITEM_GET_PNR`, bytes 0 and 1 of the entry. -/
def PAT_ITEM_GET_PNR (psi : ts_psi_t) (pointer : Nat) : Nat :=
  (psi.buffer pointer <<< 8) ||| psi.buffer (pointer + 1)

/-- Modelled from the spec: `PAT_ITEM_GET_PID`, the 13-bit PID in bytes 2 and
3 of the entry. -/
def PAT_ITEM_GET_PID (psi : ts_psi_t) (pointer : Nat) : Nat :=
  ((psi.buffer (pointer + 2) &&& 0x1F) <<< 8) ||| psi.buffer (pointer + 3)

/-- Modelled from the spec: `PAT_ITEM_SET_PNR`. -/
def PAT_ITEM_SET_PNR (psi : ts_psi_t) (pointer pnr : Nat) : ts_psi_t :=
  { psi with
    buffer := Function.update (Function.update psi.buffer pointer ((pnr >>> 8) &&& 0xFF))
      (pointer + 1) (pnr &&& 0xFF) }

/-- Modelled from the spec: `PAT_ITEM_SET_PID` writes the 13-bit PID below the
three reserved bits. -/
def PAT_ITEM_SET_PID (psi : ts_psi_t) (pointer pid : Nat) : ts_psi_t :=
  { psi with
    buffer := Function.update
      (Function.update psi.buffer (pointer + 2) (0xE0 ||| ((pid >>> 8) &&& 0x1F)))
      (pointer + 3) (pid &&& 0xFF) }

/-- Modelled from the spec: `DESC_CA_PID`, the 13-bit CA PID in bytes 4 and 5
of a CA descriptor. -/
def DESC_CA_PID (buf : Nat → Nat) (desc : Nat) : Nat :=
  ((buf (desc + 4) &&& 0x1F) <<< 8) ||| buf (desc + 5)

/-- Modelled from the spec: `PMT_GET_PNR`, bytes 3 and 4. -/
def PMT_GET_PNR (psi : ts_psi_t) : Nat := (psi.buffer 3 <<< 8) ||| psi.buffer 4

/-- Modelled from the spec: `PMT_SET_PNR`. -/
def PMT_SET_PNR (psi : ts_psi_t) (pnr : Nat) : ts_psi_t :=
  { psi with
    buffer := Function.update (Function.update psi.buffer 3 ((pnr >>> 8) &&& 0xFF))
      4 (pnr &&& 0xFF) }

/-- Modelled from the spec: `PMT_GET_PCR`, the 13-bit PCR PID in bytes 8 and
9. -/
def PMT_GET_PCR (psi : ts_psi_t) : Nat := ((psi.buffer 8 &&& 0x1F) <<< 8) ||| psi.buffer 9

/-- Modelled from the spec: `PMT_SET_PCR` writes the 13-bit PCR PID below the
three reserved bits. -/
def PMT_SET_PCR (psi : ts_psi_t) (pcr : Nat) : ts_psi_t :=
  { psi with
    buffer := Function.update (Function.update psi.buffer 8 (0xE0 ||| ((pcr >>> 8) &&& 0x1F)))
      9 (pcr &&& 0xFF) }

/-- Modelled from the spec: the 12-bit `program_info_length` in bytes 10 and
11 of a PMT (`__PMT_DESC_SIZE`). -/
def PMT_DESC_SIZE (psi : ts_psi_t) : Nat := ((psi.buffer 10 &&& 0x0F) <<< 8) ||| psi.buffer 11

/-- Modelled from the spec: `PMT_ITEMS_FIRST`, the first entry after the
program descriptors. -/
def PMT_ITEMS_FIRST (psi : ts_psi_t) : Nat := 12 + PMT_DESC_SIZE psi

/-- Modelled from the spec: the 12-bit `ES_info_length` in bytes 3 and 4 of a
PMT entry (`__PMT_ITEM_DESC_SIZE`); SDT entries use the same layout. -/
def PMT_ITEM_DESC_SIZE (buf : Nat → Nat) (pointer : Nat) : Nat :=
  ((buf (pointer + 3) &&& 0x0F) <<< 8) ||| buf (pointer + 4)

/-- Modelled from the spec: `PMT_ITEM_GET_PID`, the 13-bit PID in bytes 1 and
2 of the entry. -/
def PMT_ITEM_GET_PID (buf : Nat → Nat) (pointer : Nat) : Nat :=
  ((buf (pointer + 1) &&& 0x1F) <<< 8) ||| buf (pointer + 2)

/-- Modelled from the spec: `PMT_ITEM_SET_PID` overwrites the 13-bit PID of
the entry and keeps its reserved bits. -/
def PMT_ITEM_SET_PID (psi : ts_psi_t) (pointer pid : Nat) : ts_psi_t :=
  { psi with
    buffer := Function.update
      (Function.update psi.buffer (pointer + 1)
        ((psi.buffer (pointer + 1) &&& 0xE0) ||| ((pid >>> 8) &&& 0x1F)))
      (pointer + 2) (pid &&& 0xFF) }

/-- Modelled from the spec: `SDT_GET_TSID`, bytes 3 and 4. -/
def SDT_GET_TSID (psi : ts_psi_t) : Nat := (psi.buffer 3 <<< 8) ||| psi.buffer 4

/-- Modelled from the spec: `SDT_ITEM_GET_SID`, bytes 0 and 1 of the
entry. -/
def SDT_ITEM_GET_SID (psi : ts_psi_t) (pointer : Nat) : Nat :=
  (psi.buffer pointer <<< 8) ||| psi.buffer (pointer + 1)

/-- Modelled from the spec: `SDT_ITEM_SET_SID`. -/
def SDT_ITEM_SET_SID (psi : ts_psi_t) (pointer sid : Nat) : ts_psi_t :=
  { psi with
    buffer := Function.update (Function.update psi.buffer pointer ((sid >>> 8) &&& 0xFF))
      (pointer + 1) (sid &&& 0xFF) }

/-- Modelled from the spec: `EIT_GET_PNR`, the service id in bytes 3 and
4. -/
def EIT_GET_PNR (psi : ts_psi_t) : Nat := (psi.buffer 3 <<< 8) ||| psi.buffer 4

/-- Modelled from the spec: `EIT_SET_PNR`. -/
def EIT_SET_PNR (psi : ts_psi_t) (pnr : Nat) : ts_psi_t :=
  { psi with
    buffer := Function.update (Function.update psi.buffer 3 ((pnr >>> 8) &&& 0xFF))
      4 (pnr &&& 0xFF) }

/-- Modelled from the spec: `EIT_GET_TSID`, bytes 8 and 9. -/
def EIT_GET_TSID (psi : ts_psi_t) : Nat := (psi.buffer 8 <<< 8) ||| psi.buffer 9

/-! ## Channel module: handlers

The handlers run on the tree state `s`, in which the channel is the module
`self`, and on the channel record `mod`.  A `ts_psi_t *psi` argument is
always one of the sections owned by the channel (`on_ts` is the only caller),
so each handler reads and writes that field of `mod`. -/

/-- The statement pair `mod->stream[pid] = type; module_demux_join(mod, pid);`
that the channel uses for every PID it subscribes. -/
def mark_join (fuel : Nat) (s : State) (self : Nat) (mod : module_data_t) (pid : Nat)
    (type : ts_type_t) : Except Fault (State × module_data_t) :=
  match module_demux_join fuel s self pid with
  | .error e => .error e
  | .ok s1 => .ok (s1, { mod with stream := Function.update mod.stream pid type })

/-- The loop `for(__i = 0; __i < TS_MAX_PIDS; ++__i) if(module_demux_check(mod,
__i)) module_demux_leave(mod, __i);` of `stream_reload`: one leave per joined
PID. -/
def reload_leave (fuel : Nat) : List Nat → State → Nat → Except Fault State
  | [], s, _ => .ok s
  | i :: rest, s, self =>
    match module_demux_check s self i with
    | .error e => .error e
    | .ok false => reload_leave fuel rest s self
    | .ok true =>
      match module_demux_leave fuel s self i with
      | .error e => .error e
      | .ok s1 => reload_leave fuel rest s1 self

/-- The function `stream_reload`. -/
def stream_reload (fuel : Nat) (s : State) (self : Nat) (mod : module_data_t) :
    Except Fault (State × module_data_t) :=
  let mod0 := { mod with stream := fun _ => ts_type_t.UNKNOWN }
  match reload_leave fuel (List.range TS_MAX_PIDS) s self with
  | .error e => .error e
  | .ok s0 =>
    let mod1 := { mod0 with pat := { mod0.pat with crc32 := 0 },
                            pmt := { mod0.pmt with crc32 := 0 } }
    match mark_join fuel s0 self mod1 0x00 .PAT with
    | .error e => .error e
    | .ok (s1, mod2) =>
      match (if mod2.config.cas then
              mark_join fuel s1 self { mod2 with cat := { mod2.cat with crc32 := 0 } } 0x01 .CAT
             else .ok (s1, mod2)) with
      | .error e => .error e
      | .ok (s2, mod3) =>
        match (if mod3.config.no_sdt = false then
                match mark_join fuel s2 self mod3 0x11 .SDT with
                | .error e => .error e
                | .ok (s3, m) => .ok (s3, { m with sdt_checksum_list := none })
               else .ok (s2, mod3) : Except Fault (State × module_data_t)) with
        | .error e => .error e
        | .ok (s3, mod4) =>
          match (if mod4.config.no_eit = false then
                  match mark_join fuel s3 self mod4 0x12 .EIT with
                  | .error e => .error e
                  | .ok (s4, m) => mark_join fuel s4 self m 0x14 .TDT
                 else .ok (s3, mod4) : Except Fault (State × module_data_t)) with
          | .error e => .error e
          | .ok (s5, mod5) =>
            .ok (s5, { mod5 with
              map := mod5.map.map (fun l => l.map (fun item => { item with is_set := false })) })

/-- What the CA block writes in the channel record for the PID `ca_pid`: the
stream type `CA`, and a filter marker is cleared. -/
def ca_mark (mod : module_data_t) (ca_pid : Nat) : module_data_t :=
  let mod1 := { mod with stream := Function.update mod.stream ca_pid .CA }
  if mod1.pid_map ca_pid = TS_MAX_PIDS then
    { mod1 with pid_map := Function.update mod1.pid_map ca_pid 0 }
  else mod1

/-- The block that the CAT and PMT handlers run on a CA descriptor at offset
`desc` of the section `buf`: an unknown PID other than the null PID is marked
`CA`, loses a filter marker, and is joined. -/
def ca_join (fuel : Nat) (s : State) (self : Nat) (mod : module_data_t) (buf : Nat → Nat)
    (desc : Nat) : Except Fault (State × module_data_t) :=
  let ca_pid := DESC_CA_PID buf desc
  if mod.stream ca_pid = .UNKNOWN ∧ ca_pid ≠ TS_NULL_PID then
    match module_demux_join fuel s self ca_pid with
    | .error e => .error e
    | .ok s1 => .ok (s1, ca_mark mod ca_pid)
  else .ok (s, mod)

/-- The search shared by `map_custom_pid` and the map loop of `on_pat`: the
first rule that is not consumed and matches by a non-zero origin PID or by
its selector is consumed; the result is the new list and the custom PID of
that rule. -/
def map_take : List map_item_t → Nat → List Nat → Option (List map_item_t × Nat)
  | [], _, _ => none
  | item :: rest, pid, type =>
    if item.is_set = false ∧
        ((item.origin_pid ≠ 0 ∧ item.origin_pid = pid) ∨ item.type = type) then
      some ({ item with is_set := true } :: rest, item.custom_pid)
    else (map_take rest pid type).map (fun r => (item :: r.1, r.2))

/-- The function `map_custom_pid`; the caller has checked `mod->map`. -/
def map_custom_pid (mod : module_data_t) (pid : Nat) (type : List Nat) :
    module_data_t × Nat :=
  match mod.map with
  | none => (mod, 0)
  | some l =>
    match map_take l pid type with
    | none => (mod, 0)
    | some (l1, custom_pid) =>
      ({ mod with map := some l1, pid_map := Function.update mod.pid_map pid custom_pid },
        custom_pid)

/-- The loop `PAT_ITEMS_FOREACH` of `on_pat` over the section `psi`; the
result carries the position of `pointer` when the loop is left. -/
def pat_items_loop (fuel : Nat) (self : Nat) (psi : ts_psi_t) :
    Nat → Nat → State → module_data_t → Except Fault (State × module_data_t × Nat)
  | 0, _, _, _ => .error .out_of_fuel
  | n + 1, pointer, s, mod =>
    if PAT_ITEMS_EOL psi pointer then .ok (s, mod, pointer)
    else
      let pnr := PAT_ITEM_GET_PNR psi pointer
      if pnr = 0 then pat_items_loop fuel self psi n (pointer + 4) s mod
      else
        let mod1 := if mod.config.pnr = 0 then
            { mod with config := { mod.config with pnr := pnr } } else mod
        if pnr = mod1.config.pnr then
          let pid := PAT_ITEM_GET_PID psi pointer
          match mark_join fuel s self mod1 pid .PMT with
          | .error e => .error e
          | .ok (s1, mod2) =>
            .ok (s1, { mod2 with pmt := { mod2.pmt with pid := pid, crc32 := 0 } }, pointer)
        else pat_items_loop fuel self psi n (pointer + 4) s mod1

/-- The characters of the C string `"pmt"`. -/
def str_pmt : List Nat := [112, 109, 116]

/-- The part of `on_pat` after the entry of the program has been found at
`pointer`, up to `PSI_SET_CRC32`: the custom PAT is rebuilt. -/
def pat_build (mod : module_data_t) (pointer : Nat) : module_data_t :=
  let psi := mod.pat
  let pat_version := (PAT_GET_VERSION mod.custom_pat + 1) % 256
  let cp0 := PAT_INIT mod.custom_pat mod.tsid pat_version
  let cp1 := { cp0 with buffer := memcpy cp0.buffer 8 psi.buffer pointer 4 }
  let mod1 := { mod with custom_pat := cp1,
                         custom_pmt := { mod.custom_pmt with pid := mod.pmt.pid } }
  let mod2 := if mod1.config.set_pnr ≠ 0 then
      { mod1 with custom_pat := PAT_ITEM_SET_PNR mod1.custom_pat 8 mod1.config.set_pnr }
    else mod1
  let mod3 :=
    match mod2.map with
    | none => mod2
    | some l =>
      match map_take l mod2.pmt.pid str_pmt with
      | none => mod2
      | some (l1, custom_pid) =>
        { mod2 with map := some l1,
                    pid_map := Function.update mod2.pid_map mod2.pmt.pid custom_pid,
                    custom_pat := PAT_ITEM_SET_PID mod2.custom_pat 8 custom_pid,
                    custom_pmt := { mod2.custom_pmt with pid := custom_pid } }
  let mod4 := { mod3 with pat_version := (mod3.pat_version + 1) &&& 0x0F }
  let cp2 := PAT_SET_VERSION mod4.custom_pat mod4.pat_version
  { mod4 with
    custom_pat := PSI_SET_CRC32 (PSI_SET_SIZE { cp2 with buffer_size := 8 + 4 + CRC32_SIZE }) }

/-- The last statement of `on_pat`: with `no_reload` the PID of the PAT is
marked `UNKNOWN`. -/
def pat_finish (mod : module_data_t) : module_data_t :=
  if mod.config.no_reload then
    { mod with stream := Function.update mod.stream mod.pat.pid .UNKNOWN }
  else mod

/-- The end of `on_pat`: the rebuilt custom PAT is sent, and with `no_reload`
the PAT PID is marked `UNKNOWN`. -/
def pat_rebuild (lib : mpegts_lib) (s : State) (self : Nat) (mod : module_data_t)
    (pointer : Nat) : Except Fault (State × module_data_t) :=
  let mod4 := pat_build mod pointer
  match ts_psi_demux lib s self mod4.custom_pat mod4.out with
  | .error e => .error e
  | .ok (s1, cp4, out) => .ok (s1, pat_finish { mod4 with custom_pat := cp4, out := out })

/-- The part of `on_pat` from the entry loop on: the program is looked up; when
it is missing the custom PAT is emptied, otherwise it is rebuilt. -/
def pat_walk (lib : mpegts_lib) (fuel : Nat) (s : State) (self : Nat) (mod : module_data_t) :
    Except Fault (State × module_data_t) :=
  match pat_items_loop fuel self mod.pat (mod.pat.buffer_size + 1) 8 s mod with
  | .error e => .error e
  | .ok (s2, mod3, pointer) =>
    if PAT_ITEMS_EOL mod3.pat pointer then
      .ok (s2, { mod3 with
        custom_pat := { mod3.custom_pat with buffer_size := 0 },
        out := mod3.out ++ [.log "PAT: stream is not found"] })
    else pat_rebuild lib s2 self mod3 pointer

/-- The function `on_pat`, called on the section `mod->pat`. -/
def on_pat (lib : mpegts_lib) (fuel : Nat) (s : State) (self : Nat) (mod : module_data_t) :
    Except Fault (State × module_data_t) :=
  let psi := mod.pat
  if psi.buffer 0 ≠ 0x00 then .ok (s, mod) else
  let crc32 := PSI_GET_CRC32 psi
  if crc32 = psi.crc32 then
    match ts_psi_demux lib s self mod.custom_pat mod.out with
    | .error e => .error e
    | .ok (s1, cp, out) => .ok (s1, { mod with custom_pat := cp, out := out })
  else if crc32 ≠ PSI_CALC_CRC32 psi then
    .ok (s, { mod with out := mod.out ++ [.log "PAT checksum error"] })
  else
    match (if psi.crc32 ≠ 0 then
            stream_reload fuel s self
              { mod with out := mod.out ++ [.log "PAT changed. Reload stream info"] }
           else .ok (s, mod)) with
    | .error e => .error e
    | .ok (s1, mod1) =>
      pat_walk lib fuel s1 self
        { mod1 with pat := { mod1.pat with crc32 := crc32 }, tsid := PAT_GET_TSID mod1.pat }

/-- The loop `CAT_DESC_FOREACH` of `on_cat` over the section `psi`. -/
def cat_desc_loop (fuel : Nat) (self : Nat) (psi : ts_psi_t) :
    Nat → Nat → State → module_data_t → Except Fault (State × module_data_t)
  | 0, _, _, _ => .error .out_of_fuel
  | n + 1, desc, s, mod =>
    if psi.buffer_size - CRC32_SIZE ≤ desc then .ok (s, mod)
    else
      match (if psi.buffer desc = 0x09 then ca_join fuel s self mod psi.buffer desc
             else .ok (s, mod)) with
      | .error e => .error e
      | .ok (s1, mod1) =>
        cat_desc_loop fuel self psi n (desc + 2 + psi.buffer (desc + 1)) s1 mod1

/-- The function `on_cat`, called on the section `mod->cat`. -/
def on_cat (lib : mpegts_lib) (fuel : Nat) (s : State) (self : Nat) (mod : module_data_t) :
    Except Fault (State × module_data_t) :=
  let psi := mod.cat
  if psi.buffer 0 ≠ 0x01 then .ok (s, mod) else
  let crc32 := PSI_GET_CRC32 psi
  if crc32 = psi.crc32 then
    match ts_psi_demux lib s self mod.custom_cat mod.out with
    | .error e => .error e
    | .ok (s1, cc, out) => .ok (s1, { mod with custom_cat := cc, out := out })
  else if crc32 ≠ PSI_CALC_CRC32 psi then
    .ok (s, { mod with out := mod.out ++ [.log "CAT checksum error"] })
  else if psi.crc32 ≠ 0 then
    stream_reload fuel s self
      { mod with out := mod.out ++ [.log "CAT changed. Reload stream info"] }
  else
    let mod1 := { mod with cat := { mod.cat with crc32 := crc32 } }
    match cat_desc_loop fuel self mod1.cat (mod1.cat.buffer_size + 1) 8 s mod1 with
    | .error e => .error e
    | .ok (s1, mod2) =>
      let cc0 := { mod2.custom_cat with
        buffer := memcpy mod2.custom_cat.buffer 0 mod2.cat.buffer 0 mod2.cat.buffer_size,
        buffer_size := mod2.cat.buffer_size, cc := 0 }
      match ts_psi_demux lib s1 self cc0 mod2.out with
      | .error e => .error e
      | .ok (s2, cc1, out) =>
        let mod3 := { mod2 with custom_cat := cc1, out := out }
        .ok (s2, if mod3.config.no_reload then
            { mod3 with stream := Function.update mod3.stream mod3.cat.pid .UNKNOWN }
          else mod3)

/-- The copy of the descriptor at `desc` of the section `psi` to the offset
`skip` of the custom PMT: `size = desc_pointer[1] + 2` is a `uint8_t`. -/
def desc_copy (mod : module_data_t) (psi : ts_psi_t) (desc skip : Nat) : module_data_t :=
  { mod with custom_pmt := { mod.custom_pmt with
    buffer := memcpy mod.custom_pmt.buffer skip psi.buffer desc ((psi.buffer (desc + 1) + 2) % 256) } }

/-- The loop `PMT_DESC_FOREACH` of `on_pmt` over the program descriptors of the
section `psi`; `skip` is the `uint16_t` write offset in the custom PMT. -/
def pmt_desc_loop (fuel : Nat) (self : Nat) (psi : ts_psi_t) :
    Nat → Nat → Nat → State → module_data_t → Except Fault (State × module_data_t × Nat)
  | 0, _, _, _, _ => .error .out_of_fuel
  | n + 1, desc, skip, s, mod =>
    if 12 + PMT_DESC_SIZE psi ≤ desc then .ok (s, mod, skip)
    else
      let next := desc + 2 + psi.buffer (desc + 1)
      if psi.buffer desc = 0x09 ∧ mod.config.cas = false then
        pmt_desc_loop fuel self psi n next skip s mod
      else
        match (if psi.buffer desc = 0x09 then ca_join fuel s self mod psi.buffer desc
               else .ok (s, mod)) with
        | .error e => .error e
        | .ok (s1, mod1) =>
          pmt_desc_loop fuel self psi n next
            ((skip + (psi.buffer (desc + 1) + 2) % 256) % 65536) s1 (desc_copy mod1 psi desc skip)

/-- The loop `PMT_ITEM_DESC_FOREACH` of `on_pmt` over the descriptors of the
entry at `pointer`; the result carries `skip`, `ts_type` and
`language_desc`. -/
def pmt_item_desc_loop (lib : mpegts_lib) (fuel : Nat) (self : Nat) (psi : ts_psi_t)
    (pointer item_type : Nat) :
    Nat → Nat → Nat → ts_type_t → Option Nat → State → module_data_t →
      Except Fault (State × module_data_t × Nat × ts_type_t × Option Nat)
  | 0, _, _, _, _, _, _ => .error .out_of_fuel
  | n + 1, desc, skip, ts_type, language_desc, s, mod =>
    if pointer + 5 + PMT_ITEM_DESC_SIZE psi.buffer pointer ≤ desc then
      .ok (s, mod, skip, ts_type, language_desc)
    else
      let desc_type := psi.buffer desc
      let next := desc + 2 + psi.buffer (desc + 1)
      if desc_type = 0x09 ∧ mod.config.cas = false then
        pmt_item_desc_loop lib fuel self psi pointer item_type n next skip ts_type
          language_desc s mod
      else
        match (if desc_type = 0x09 then ca_join fuel s self mod psi.buffer desc
               else .ok (s, mod)) with
        | .error e => .error e
        | .ok (s1, mod1) =>
          let language_desc1 := if desc_type = 0x0A then some desc else language_desc
          let ts_type1 :=
            if desc_type ≠ 0x09 ∧ desc_type ≠ 0x0A ∧ item_type = 0x06 ∧ ts_type = .DATA then
              lib.ts_priv_type desc_type
            else ts_type
          pmt_item_desc_loop lib fuel self psi pointer item_type n next
            ((skip + (psi.buffer (desc + 1) + 2) % 256) % 65536) ts_type1 language_desc1 s1
            (desc_copy mod1 psi desc skip)

/-- A C string read from a `char` array: the characters before the first
NUL. -/
def cstr (chars : List Nat) : List Nat := chars.takeWhile (fun c => c ≠ 0)

/-- The characters of the C string `"video"`. -/
def str_video : List Nat := [118, 105, 100, 101, 111]

/-- The characters of the C string `"audio"`. -/
def str_audio : List Nat := [97, 117, 100, 105, 111]

/-- The characters of the C string `"sub"`. -/
def str_sub : List Nat := [115, 117, 98]

/-- The `switch(ts_type)` of `on_pmt` that asks the map for a custom PID of the
entry. -/
def pmt_item_map (mod : module_data_t) (psi : ts_psi_t) (pid : Nat) (ts_type : ts_type_t)
    (language_desc : Option Nat) : module_data_t × Nat :=
  match ts_type with
  | .VIDEO => map_custom_pid mod pid str_video
  | AUDIO =>
    let r :=
      match language_desc with
      | some d =>
        map_custom_pid mod pid (cstr [psi.buffer (d + 2), psi.buffer (d + 3), psi.buffer (d + 4)])
      | none => (mod, 0)
    if r.2 = 0 then map_custom_pid r.1 pid str_audio else r
  | .SUB => map_custom_pid mod pid str_sub
  | _ => map_custom_pid mod pid []

/-- The start of an entry of `on_pmt`: its five header bytes are copied to the
offset `skip` of the custom PMT and its PID is marked `PES`. -/
def item_head (mod : module_data_t) (psi : ts_psi_t) (pointer skip : Nat) : module_data_t :=
  { mod with
    custom_pmt := { mod.custom_pmt with
      buffer := memcpy mod.custom_pmt.buffer skip psi.buffer pointer 5 },
    stream := Function.update mod.stream (PMT_ITEM_GET_PID psi.buffer pointer) .PES }

/-- The end of an entry of `on_pmt`: the two `ES_info_length` bytes of the
copy at `skip_last` are written from the `uint16_t` difference of the
offsets, and with a map the PID of the copy is replaced. -/
def item_close (mod : module_data_t) (psi : ts_psi_t) (pid skip_last skip : Nat)
    (ts_type : ts_type_t) (language_desc : Option Nat) : module_data_t :=
  let size := (skip + 2 * 65536 - skip_last - 5) % 65536
  let mod4 := { mod with custom_pmt := { mod.custom_pmt with
    buffer := Function.update
      (Function.update mod.custom_pmt.buffer (skip_last + 3) ((size <<< 8) &&& 0x0F))
      (skip_last + 4) (size &&& 0xFF) } }
  if mod4.map.isSome then
    let r := pmt_item_map mod4 psi pid ts_type language_desc
    if r.2 ≠ 0 then
      { r.1 with custom_pmt := PMT_ITEM_SET_PID r.1.custom_pmt skip_last r.2 }
    else r.1
  else mod4

/-- The loop `PMT_ITEMS_FOREACH` of `on_pmt` over the entries of the section
`psi`; the result carries `skip` and `join_pcr`. -/
def pmt_items_loop (lib : mpegts_lib) (fuel : Nat) (self : Nat) (psi : ts_psi_t)
    (pcr_pid : Nat) :
    Nat → Nat → Nat → Bool → State → module_data_t →
      Except Fault (State × module_data_t × Nat × Bool)
  | 0, _, _, _, _, _ => .error .out_of_fuel
  | n + 1, pointer, skip, join_pcr, s, mod =>
    if psi.buffer_size - CRC32_SIZE ≤ pointer then .ok (s, mod, skip, join_pcr)
    else
      let next := pointer + 5 + PMT_ITEM_DESC_SIZE psi.buffer pointer
      let pid := PMT_ITEM_GET_PID psi.buffer pointer
      if mod.pid_map pid = TS_MAX_PIDS then
        pmt_items_loop lib fuel self psi pcr_pid n next skip join_pcr s mod
      else
        let item_type := psi.buffer pointer
        match module_demux_join fuel s self pid with
        | .error e => .error e
        | .ok s1 =>
          match pmt_item_desc_loop lib fuel self psi pointer item_type
              (PMT_ITEM_DESC_SIZE psi.buffer pointer + 1) (pointer + 5) ((skip + 5) % 65536)
              (lib.ts_stream_type item_type) none s1 (item_head mod psi pointer skip) with
          | .error e => .error e
          | .ok (s2, mod3, skip2, ts_type2, language_desc) =>
            pmt_items_loop lib fuel self psi pcr_pid n next skip2
              (if pid = pcr_pid then false else join_pcr) s2
              (item_close mod3 psi pid skip skip2 ts_type2 language_desc)

/-- The start of the rebuild of the custom PMT: ten header bytes are
copied. -/
def pmt_head (mod : module_data_t) : module_data_t :=
  { mod with custom_pmt := { mod.custom_pmt with
    buffer := memcpy mod.custom_pmt.buffer 0 mod.pmt.buffer 0 10 } }

/-- The statements of `on_pmt` between the two loops: `program_info_length` is
written from the `uint16_t` offset `skip`, and `set_pnr` replaces the program
number. -/
def pmt_info_close (mod : module_data_t) (skip : Nat) : module_data_t :=
  let size := (skip + 65536 - 12) % 65536
  let mod3 := { mod with custom_pmt := { mod.custom_pmt with
    buffer := Function.update
      (Function.update mod.custom_pmt.buffer 10
        ((mod.pmt.buffer 10 &&& 0xF0) ||| ((size >>> 8) &&& 0x0F)))
      11 (size &&& 0xFF) } }
  if mod3.config.set_pnr ≠ 0 then
    { mod3 with custom_pmt := PMT_SET_PNR mod3.custom_pmt mod3.config.set_pnr }
  else mod3

/-- The `join_pcr` block of `on_pmt` in the channel record: the PCR PID is
marked `PES` and loses a filter marker. -/
def pcr_mark (mod : module_data_t) (pcr_pid : Nat) : module_data_t :=
  let mod1 := { mod with stream := Function.update mod.stream pcr_pid .PES }
  if mod1.pid_map pcr_pid = TS_MAX_PIDS then
    { mod1 with pid_map := Function.update mod1.pid_map pcr_pid 0 }
  else mod1

/-- The statements of `on_pmt` after the `join_pcr` block, up to
`PSI_SET_CRC32`: with a map the PCR PID is replaced, then size and CRC are
set. -/
def pmt_seal (mod : module_data_t) (pcr_pid : Nat) : module_data_t :=
  let mod8 := if mod.map.isSome ∧ mod.pid_map pcr_pid ≠ 0 then
      { mod with custom_pmt := PMT_SET_PCR mod.custom_pmt (mod.pid_map pcr_pid) }
    else mod
  { mod8 with custom_pmt := PSI_SET_CRC32 (PSI_SET_SIZE mod8.custom_pmt) }

/-- The last statement of `on_pmt`: with `no_reload` the PID of the PMT is
marked `UNKNOWN`. -/
def pmt_finish (mod : module_data_t) : module_data_t :=
  if mod.config.no_reload then
    { mod with stream := Function.update mod.stream mod.pmt.pid .UNKNOWN }
  else mod

/-- The part of `on_pmt` that runs on a first-seen section with a valid CRC:
the custom PMT is rebuilt and sent. -/
def pmt_rebuild (lib : mpegts_lib) (fuel : Nat) (s : State) (self : Nat)
    (mod : module_data_t) : Except Fault (State × module_data_t) :=
  let psi := mod.pmt
  let pcr_pid := PMT_GET_PCR psi
  match pmt_desc_loop fuel self psi (PMT_DESC_SIZE psi + 1) 12 12 s (pmt_head mod) with
  | .error e => .error e
  | .ok (s1, mod2, skip) =>
    match pmt_items_loop lib fuel self psi pcr_pid (psi.buffer_size + 1) (PMT_ITEMS_FIRST psi)
        skip true s1 (pmt_info_close mod2 skip) with
    | .error e => .error e
    | .ok (s2, mod5, skip2, join_pcr) =>
      let mod6 := { mod5 with custom_pmt := { mod5.custom_pmt with
        buffer_size := skip2 + CRC32_SIZE } }
      match (if join_pcr then
              match module_demux_join fuel s2 self pcr_pid with
              | .error e => .error e
              | .ok s3 => .ok (s3, pcr_mark mod6 pcr_pid)
             else .ok (s2, mod6) : Except Fault (State × module_data_t)) with
      | .error e => .error e
      | .ok (s3, mod7) =>
        let mod8 := pmt_seal mod7 pcr_pid
        match ts_psi_demux lib s3 self mod8.custom_pmt mod8.out with
        | .error e => .error e
        | .ok (s4, cp1, out) => .ok (s4, pmt_finish { mod8 with custom_pmt := cp1, out := out })

/-- The function `on_pmt`, called on the section `mod->pmt`. -/
def on_pmt (lib : mpegts_lib) (fuel : Nat) (s : State) (self : Nat) (mod : module_data_t) :
    Except Fault (State × module_data_t) :=
  let psi := mod.pmt
  if psi.buffer 0 ≠ 0x02 then .ok (s, mod) else
  if PMT_GET_PNR psi ≠ mod.config.pnr then .ok (s, mod) else
  let crc32 := PSI_GET_CRC32 psi
  if crc32 = psi.crc32 then
    match ts_psi_demux lib s self mod.custom_pmt mod.out with
    | .error e => .error e
    | .ok (s1, cp, out) => .ok (s1, { mod with custom_pmt := cp, out := out })
  else if crc32 ≠ PSI_CALC_CRC32 psi then
    .ok (s, { mod with out := mod.out ++ [.log "PMT checksum error"] })
  else if psi.crc32 ≠ 0 then
    stream_reload fuel s self
      { mod with out := mod.out ++ [.log "PMT changed. Reload stream info"] }
  else
    pmt_rebuild lib fuel s self { mod with pmt := { mod.pmt with crc32 := crc32 } }

/-- The loop `SDT_ITEMS_FOREACH` of `on_sdt`: the search for the entry of the
program; the result is the position of `pointer` when the loop is left. -/
def sdt_items_loop (psi : ts_psi_t) (pnr : Nat) : Nat → Nat → Except Fault Nat
  | 0, _ => .error .out_of_fuel
  | n + 1, pointer =>
    if psi.buffer_size - CRC32_SIZE ≤ pointer then .ok pointer
    else if SDT_ITEM_GET_SID psi pointer = pnr then .ok pointer
    else sdt_items_loop psi pnr n (pointer + 5 + PMT_ITEM_DESC_SIZE psi.buffer pointer)

/-- The function `on_sdt`, called on the section `mod->sdt`.  The section
numbers are bytes 6 and 7 of the section. -/
def on_sdt (lib : mpegts_lib) (fuel : Nat) (s : State) (self : Nat) (mod : module_data_t) :
    Except Fault (State × module_data_t) :=
  let psi := mod.sdt
  if psi.buffer 0 ≠ 0x42 then .ok (s, mod) else
  if mod.tsid ≠ SDT_GET_TSID psi then .ok (s, mod) else
  let crc32 := PSI_GET_CRC32 psi
  if crc32 ≠ PSI_CALC_CRC32 psi then
    .ok (s, { mod with out := mod.out ++ [.log "SDT checksum error"] })
  else
    let mod1 :=
      match mod.sdt_checksum_list with
      | some _ => mod
      | none => { mod with sdt_max_section_id := psi.buffer 7 % 256,
                           sdt_checksum_list := some (fun _ => 0) }
    let list := mod1.sdt_checksum_list.getD (fun _ => 0)
    let section_id := psi.buffer 6 % 256
    if mod1.sdt_max_section_id < section_id then
      .ok (s, { mod1 with out := mod1.out ++
        [.log "SDT: section_number is greater then section_last_number"] })
    else if list section_id = crc32 then
      if mod1.sdt_original_section_id = section_id then
        match ts_psi_demux lib s self mod1.custom_sdt mod1.out with
        | .error e => .error e
        | .ok (s1, cs, out) => .ok (s1, { mod1 with custom_sdt := cs, out := out })
      else .ok (s, mod1)
    else if list section_id ≠ 0 then
      stream_reload fuel s self
        { mod1 with out := mod1.out ++ [.log "SDT changed. Reload stream info"] }
    else
      let mod2 := { mod1 with
        sdt_checksum_list := some (Function.update list section_id crc32) }
      match sdt_items_loop psi mod2.config.pnr (psi.buffer_size + 1) 11 with
      | .error e => .error e
      | .ok pointer =>
        if psi.buffer_size - CRC32_SIZE ≤ pointer then .ok (s, mod2)
        else
          let mod3 := { mod2 with sdt_original_section_id := section_id }
          let b0 := memcpy mod3.custom_sdt.buffer 0 psi.buffer 0 11
          let b1 := Function.update (Function.update b0 6 0) 7 0
          let item_length := (PMT_ITEM_DESC_SIZE psi.buffer pointer + 5) % 65536
          let b2 := memcpy b1 11 psi.buffer pointer item_length
          let section_length := (item_length + 8 + CRC32_SIZE) % 65536
          let cs0 := { mod3.custom_sdt with buffer := b2, buffer_size := 3 + section_length }
          let cs1 := if mod3.config.set_pnr ≠ 0 then
              SDT_ITEM_SET_SID cs0 11 mod3.config.set_pnr else cs0
          let cs2 := PSI_SET_CRC32 (PSI_SET_SIZE cs1)
          match ts_psi_demux lib s self cs2 mod3.out with
          | .error e => .error e
          | .ok (s1, cs3, out) =>
            let mod4 := { mod3 with custom_sdt := cs3, out := out }
            .ok (s1, if mod4.config.no_reload then
                { mod4 with stream := Function.update mod4.stream psi.pid .UNKNOWN }
              else mod4)

/-- The function `on_eit`, called on the section `mod->eit`. -/
def on_eit (lib : mpegts_lib) (s : State) (self : Nat) (mod : module_data_t) :
    Except Fault (State × module_data_t) :=
  let psi := mod.eit
  let table_id := psi.buffer 0
  let is_actual_eit := table_id = 0x4E ∨ (0x50 ≤ table_id ∧ table_id ≤ 0x5F)
  if ¬ is_actual_eit then .ok (s, mod) else
  if mod.tsid ≠ EIT_GET_TSID psi then .ok (s, mod) else
  if mod.config.pnr ≠ EIT_GET_PNR psi then .ok (s, mod) else
  let psi1 := { psi with cc := mod.eit_cc }
  let psi2 := if mod.config.set_pnr ≠ 0 then
      PSI_SET_CRC32 (EIT_SET_PNR psi1 mod.config.set_pnr) else psi1
  match ts_psi_demux lib s self psi2 mod.out with
  | .error e => .error e
  | .ok (s1, psi3, out) =>
    .ok (s1, { mod with eit := psi3, out := out, eit_cc := psi3.cc })

/-- Modelled from the spec: `ts_psi_mux(psi, ts, callback, mod)` feeds the
packet to the section assembler of `psi` and calls the callback once for
every section that the packet completes.  The assembler is outside the
sources, so the completed sections (bytes and size) are an input: each is
loaded into the section selected by `load` and handed to the callback. -/
def ts_psi_mux (load : module_data_t → (Nat → Nat) × Nat → module_data_t)
    (callback : State → module_data_t → Except Fault (State × module_data_t)) :
    List ((Nat → Nat) × Nat) → State → module_data_t → Except Fault (State × module_data_t)
  | [], s, mod => .ok (s, mod)
  | sec :: rest, s, mod =>
    match callback s (load mod sec) with
    | .error e => .error e
    | .ok (s1, mod1) => ts_psi_mux load callback rest s1 mod1

/-- The last part of `on_ts`: the filter check, the PID rewrite and the
fan-out.  The packet handed to `module_stream_send` is also recorded in the
channel trace. -/
def ts_forward (s : State) (self : Nat) (mod : module_data_t) (ts : List Nat) (pid : Nat) :
    Except Fault (State × module_data_t) :=
  if mod.pid_map pid = TS_MAX_PIDS then .ok (s, mod)
  else if mod.map.isSome ∧ mod.pid_map pid ≠ 0 then
    let custom_ts := TS_SET_PID (ts.take TS_PACKET_SIZE) (mod.pid_map pid)
    match module_stream_send s self custom_ts with
    | .error e => .error e
    | .ok s1 => .ok (s1, { mod with custom_ts := custom_ts, out := mod.out ++ [.send custom_ts] })
  else
    match module_stream_send s self ts with
    | .error e => .error e
    | .ok s1 => .ok (s1, { mod with out := mod.out ++ [.send ts] })

/-- The function `on_ts` of the channel; `secs` are the sections that the
assembler completes with this packet. -/
def on_ts (lib : mpegts_lib) (fuel : Nat) (s : State) (self : Nat) (mod : module_data_t)
    (ts : List Nat) (secs : List ((Nat → Nat) × Nat)) : Except Fault (State × module_data_t) :=
  let pid := TS_GET_PID ts
  match module_demux_check s self pid with
  | .error e => .error e
  | .ok false => .ok (s, mod)
  | .ok true =>
    if pid = TS_NULL_PID then .ok (s, mod) else
    match mod.stream pid with
    | .PES => ts_forward s self mod ts pid
    | .PAT =>
      ts_psi_mux (fun m sec => { m with pat := { m.pat with buffer := sec.1, buffer_size := sec.2 } })
        (fun s1 m => on_pat lib fuel s1 self m) secs s mod
    | .CAT =>
      ts_psi_mux (fun m sec => { m with cat := { m.cat with buffer := sec.1, buffer_size := sec.2 } })
        (fun s1 m => on_cat lib fuel s1 self m) secs s mod
    | .PMT =>
      ts_psi_mux (fun m sec => { m with pmt := { m.pmt with buffer := sec.1, buffer_size := sec.2 } })
        (fun s1 m => on_pmt lib fuel s1 self m) secs s mod
    | .SDT =>
      if mod.config.pass_sdt then ts_forward s self mod ts pid
      else
        ts_psi_mux
          (fun m sec => { m with sdt := { m.sdt with buffer := sec.1, buffer_size := sec.2 } })
          (fun s1 m => on_sdt lib fuel s1 self m) secs s mod
    | .EIT =>
      if mod.config.pass_eit then ts_forward s self mod ts pid
      else
        ts_psi_mux
          (fun m sec => { m with eit := { m.eit with buffer := sec.1, buffer_size := sec.2 } })
          (fun s1 m => on_eit lib s1 self m) secs s mod
    | .UNKNOWN => .ok (s, mod)
    | _ => ts_forward s self mod ts pid

/-! ## Channel module: initialisation -/

/-- Modelled from the spec: `ts_psi_init(type, pid)` returns a zeroed section
for the PID; the constructor is outside the sources. -/
def ts_psi_init (pid : Nat) : ts_psi_t :=
  { pid := pid, cc := 0, crc32 := 0, buffer := fun _ => 0, buffer_size := 0 }

/-- The options table that `module_init` reads through the Lua API: `pnr`,
`set_pnr` and the switches, the `pid` list, the `map` pairs (key characters
and value), and the two filter lists; an absent option is `none`, `0` or
`false`. -/
structure channel_options_t where
  pnr : Option Nat
  set_pnr : Nat
  cas : Bool
  no_sdt : Bool
  pass_sdt : Bool
  no_eit : Bool
  pass_eit : Bool
  no_reload : Bool
  pid : List Nat
  map : Option (List (List Nat × Nat))
  filter : Option (List Nat)
  filter_inv : Option (List Nat)

/-- The C function `atoi` on a key of digits: the value of the leading decimal
digits. -/
def atoi (key : List Nat) : Nat :=
  (key.takeWhile (fun c => decide (48 ≤ c ∧ c ≤ 57))).foldl (fun n c => 10 * n + (c - 48)) 0

/-- The zeroed channel record that the module allocator hands to
`module_init`. -/
def module_data_zero : module_data_t :=
  { config := { pnr := 0, set_pnr := 0, no_sdt := false, no_eit := false, no_reload := false,
                cas := false, pass_sdt := false, pass_eit := false },
    map := none, pid_map := fun _ => 0, custom_ts := [],
    pat := ts_psi_init 0, cat := ts_psi_init 0, pmt := ts_psi_init 0, sdt := ts_psi_init 0,
    eit := ts_psi_init 0, stream := fun _ => .UNKNOWN, tsid := 0,
    custom_pat := ts_psi_init 0, custom_cat := ts_psi_init 0, custom_pmt := ts_psi_init 0,
    custom_sdt := ts_psi_init 0, sdt_original_section_id := 0, sdt_max_section_id := 0,
    sdt_checksum_list := none, eit_cc := 0, pat_version := 0, out := [] }

/-- The `pnr` branch of `module_init`: sections are allocated and the
mandatory PIDs are joined. -/
def init_pnr (fuel : Nat) (s : State) (self : Nat) (mod : module_data_t)
    (opts : channel_options_t) (pnr : Nat) : Except Fault (State × module_data_t) :=
  let mod1 := { mod with
    config := { mod.config with pnr := pnr, set_pnr := opts.set_pnr, cas := opts.cas },
    pat := ts_psi_init 0, pmt := ts_psi_init TS_MAX_PIDS,
    custom_pat := ts_psi_init 0, custom_pmt := ts_psi_init TS_MAX_PIDS }
  match mark_join fuel s self mod1 0 .PAT with
  | .error e => .error e
  | .ok (s1, mod2) =>
    match (if mod2.config.cas then
            mark_join fuel s1 self
              { mod2 with cat := ts_psi_init 1, custom_cat := ts_psi_init 1 } 1 .CAT
           else .ok (s1, mod2)) with
    | .error e => .error e
    | .ok (s2, mod3) =>
      let mod4 := { mod3 with config := { mod3.config with no_sdt := opts.no_sdt } }
      match (if mod4.config.no_sdt = false then
              match mark_join fuel s2 self
                  { mod4 with sdt := ts_psi_init 0x11, custom_sdt := ts_psi_init 0x11 }
                  0x11 .SDT with
              | .error e => .error e
              | .ok (s3, m) =>
                .ok (s3, { m with config := { m.config with pass_sdt := opts.pass_sdt } })
             else .ok (s2, mod4) : Except Fault (State × module_data_t)) with
      | .error e => .error e
      | .ok (s3, mod5) =>
        let mod6 := { mod5 with config := { mod5.config with no_eit := opts.no_eit } }
        match (if mod6.config.no_eit = false then
                match mark_join fuel s3 self { mod6 with eit := ts_psi_init 0x12 }
                    0x12 .EIT with
                | .error e => .error e
                | .ok (s4, m) =>
                  match mark_join fuel s4 self m 0x14 .TDT with
                  | .error e => .error e
                  | .ok (s5, m1) =>
                    .ok (s5, { m1 with config := { m1.config with pass_eit := opts.pass_eit } })
               else .ok (s3, mod6) : Except Fault (State × module_data_t)) with
        | .error e => .error e
        | .ok (s5, mod7) =>
          .ok (s5, { mod7 with config := { mod7.config with no_reload := opts.no_reload } })

/-- The `pid` branch of `module_init`: every listed PID is joined as `PES`; a
PID out of range raises a Lua error. -/
def init_pids (fuel : Nat) (self : Nat) :
    List Nat → State → module_data_t → Except Fault (State × module_data_t)
  | [], s, mod => .ok (s, mod)
  | pid :: rest, s, mod =>
    if ts_pid_valid pid = false then .error .assertion
    else
      match mark_join fuel s self mod pid .PES with
      | .error e => .error e
      | .ok (s1, mod1) => init_pids fuel self rest s1 mod1

/-- The `map` option of `module_init`: one rule per pair, in table order; a
key of more than five characters or a value outside `1 .. 0x1FFE` raises a
Lua error. -/
def init_map : List (List Nat × Nat) → Except Fault (List map_item_t)
  | [] => .ok []
  | (key, val) :: rest =>
    if 5 < key.length then .error .assertion
    else if ¬ (0 < val ∧ val < TS_NULL_PID) then .error .assertion
    else
      match init_map rest with
      | .error e => .error e
      | .ok l =>
        .ok ({ type := key,
               origin_pid := if 49 ≤ key.headD 0 ∧ key.headD 0 ≤ 57 then atoi key % 65536 else 0,
               custom_pid := val, is_set := false } :: l)

/-- A filter list of `module_init`: `pid_map[pid] = val` for every listed PID;
a PID out of range raises a Lua error. -/
def init_filter (val : Nat) : List Nat → (Nat → Nat) → Except Fault (Nat → Nat)
  | [], pid_map => .ok pid_map
  | pid :: rest, pid_map =>
    if ts_pid_valid pid = false then .error .assertion
    else init_filter val rest (Function.update pid_map pid val)

/-- The function `module_init` of the channel; `cb` identifies its `on_ts`
callback.  A Lua error is the fault `assertion`. -/
def module_init (fuel : Nat) (s : State) (self cb : Nat) (opts : channel_options_t) :
    Except Fault (State × module_data_t) :=
  match module_stream_init s self (some cb) with
  | .error e => .error e
  | .ok s1 =>
    match module_demux_set s1 self .null .null with
    | .error e => .error e
    | .ok s2 =>
      match (match opts.pnr with
             | some pnr => init_pnr fuel s2 self module_data_zero opts pnr
             | none => init_pids fuel self opts.pid s2 module_data_zero) with
      | .error e => .error e
      | .ok (s3, mod1) =>
        match (match opts.map with
               | none => .ok none
               | some l => (init_map l).map some : Except Fault (Option (List map_item_t))) with
        | .error e => .error e
        | .ok map =>
          let mod2 := { mod1 with map := map }
          match (match opts.filter with
                 | none => .ok mod2.pid_map
                 | some l => init_filter TS_MAX_PIDS l mod2.pid_map :
                   Except Fault (Nat → Nat)) with
          | .error e => .error e
          | .ok pm1 =>
            match (match opts.filter_inv with
                   | none => .ok pm1
                   | some l =>
                     init_filter 0 l (fun i => if i < TS_MAX_PIDS then TS_MAX_PIDS else pm1 i) :
                     Except Fault (Nat → Nat)) with
            | .error e => .error e
            | .ok pm2 => .ok (s3, { mod2 with pid_map := pm2 })

/-! ## Channel module: an example instance -/

/-- An example of the library record: MPEG video and audio stream types, a
packetiser that is not looked at, and a counter that steps modulo 16. -/
def demo_lib : mpegts_lib :=
  { ts_stream_type := fun t =>
      if t = 0x02 ∨ t = 0x1B then .VIDEO else if t = 0x03 ∨ t = 0x04 then AUDIO else .DATA,
    ts_priv_type := fun _ => .DATA,
    demux_packets := fun _ => [],
    demux_cc := fun psi => (psi.cc + 1) % 16 }

/-- An example tree: the channel is module 1, fed by the root 0 and feeding the
sink 2; it has joined the mandatory PIDs `0x00`, `0x11`, `0x12` and `0x14`,
as `module_init` does for program 10. -/
def chan_tree : State :=
  { stream := fun n =>
      if n = 0 then
        some { parent := none, on_ts := none, children := [1], join_pid := .demux_join,
               leave_pid := .demux_leave,
               pid_list := fun p => if p = 0 ∨ p = 0x11 ∨ p = 0x12 ∨ p = 0x14 then 1 else 0 }
      else if n = 1 then
        some { parent := some 0, on_ts := some 7, children := [2], join_pid := .null,
               leave_pid := .null,
               pid_list := fun p => if p = 0 ∨ p = 0x11 ∨ p = 0x12 ∨ p = 0x14 then 1 else 0 }
      else if n = 2 then
        some { parent := some 1, on_ts := some 9, children := [], join_pid := .demux_join,
               leave_pid := .demux_leave, pid_list := fun _ => 0 }
      else none,
    trace := [] }

/-- The channel record of the example: program 10, no map, no filter, the
mandatory PIDs marked. -/
def chan_mod : module_data_t :=
  { module_data_zero with
    config := { module_data_zero.config with pnr := 10 },
    pmt := ts_psi_init TS_MAX_PIDS, custom_pmt := ts_psi_init TS_MAX_PIDS,
    sdt := ts_psi_init 0x11, custom_sdt := ts_psi_init 0x11, eit := ts_psi_init 0x12,
    stream := fun p =>
      if p = 0 then .PAT else if p = 0x11 then .SDT else if p = 0x12 then .EIT
      else if p = 0x14 then .TDT else .UNKNOWN }

/-- A TS packet of the example: sync byte, the PID, payload only, 184 stuffing
bytes. -/
def demo_packet (pid : Nat) : List Nat :=
  [0x47, (pid >>> 8) &&& 0x1F, pid &&& 0xFF, 0x10] ++ List.replicate 184 0xFF

/-- A section of the example: the bytes followed by their CRC. -/
def demo_section (l : List Nat) : (Nat → Nat) × Nat :=
  let crc := crc32b (fun k => l.getD k 0) l.length
  (fun k => (l ++ [(crc >>> 24) &&& 0xFF, (crc >>> 16) &&& 0xFF, (crc >>> 8) &&& 0xFF,
      crc &&& 0xFF]).getD k 0, l.length + 4)

/-- The example tree after a PMT has been processed: the channel has also
joined the PMT PID `0x100` and the elementary streams `0x101` and
`0x102`. -/
def chan_tree_pes : State :=
  chan_tree.modify 1 (fun st => { st with
    pid_list := fun p =>
      if p = 0 ∨ p = 0x11 ∨ p = 0x12 ∨ p = 0x14 ∨ p = 0x100 ∨ p = 0x101 ∨ p = 0x102 then 1
      else 0 })

/-- The channel record of the example after a PMT has been processed, with a
map whose rule `video` has sent PID `0x101` to `0x200`. -/
def chan_mod_map : module_data_t :=
  { chan_mod with
    map := some [{ type := str_video, origin_pid := 0, custom_pid := 0x200, is_set := true }],
    pid_map := fun p => if p = 0x101 then 0x200 else 0,
    stream := fun p =>
      if p = 0x100 then .PMT else if p = 0x101 ∨ p = 0x102 then .PES else chan_mod.stream p }

/-- The CRC of `crc32b` as a loop over the bytes `k, k + 1, ...` whose register
is inspected at every byte, so that it is evaluated step by step. -/
def crc32_loop (buf : Nat → Nat) : Nat → Nat → Nat → Nat
  | 0, _, crc => crc
  | n + 1, k, crc =>
    match crc32_bits 8 (crc ^^^ ((buf k % 256) <<< 24)) with
    | 0 => crc32_loop buf n (k + 1) 0
    | m + 1 => crc32_loop buf n (k + 1) (m + 1)

/-- The example tree after the PAT has been processed: the channel has also
joined the PMT PID `0x100`. -/
def chan_tree_pat : State :=
  chan_tree.modify 1 (fun st => { st with
    pid_list := fun p =>
      if p = 0 ∨ p = 0x11 ∨ p = 0x12 ∨ p = 0x14 ∨ p = 0x100 then 1 else 0 })

/-- The channel record of the example after the PAT has been processed: the
PMT of program 10 is expected on PID `0x100`. -/
def chan_mod_pat : module_data_t :=
  { chan_mod with
    pmt := ts_psi_init 0x100, custom_pmt := ts_psi_init 0x100, tsid := 1, pat_version := 1,
    stream := fun p => if p = 0x100 then .PMT else chan_mod.stream p }

/-- The channel record with the section `bytes` assembled in `mod->pmt`. -/
def load_pmt (mod : module_data_t) (bytes : List Nat) : module_data_t :=
  { mod with pmt := { mod.pmt with buffer := fun k => bytes.getD k 0,
                                   buffer_size := bytes.length } }

/-- A PMT of program 10 with one entry, a private stream on PID `0x101`, that
carries two descriptors of 128 bytes each (`ES_info_length` 256), with its
CRC. -/
def pmt_long_desc : List Nat :=
  [0x02, 0xB1, 0x12, 0x00, 0x0A, 0xC1, 0x00, 0x00, 0xE1, 0x01, 0xF0, 0x00,
   0x06, 0xE1, 0x01, 0xF1, 0x00] ++
  (0x05 :: 126 :: List.replicate 126 0) ++ (0x05 :: 126 :: List.replicate 126 0) ++
  [0xB5, 0x05, 0x20, 0x07]

/-- The counters `pid_list` of a module (all zero when it has no stream). -/
def pid_refs (s : State) (mod : Nat) : Nat → Nat :=
  match s.stream mod with
  | some st => st.pid_list
  | none => fun _ => 0

/-- The channel `chan` can run in the tree `s` with the given fuel: the tree is
a ranked forest, the channel is initialised and its rank is below the fuel,
and every child of the channel has an `on_ts` callback. -/
structure Ready (d : Nat → Nat) (fuel : Nat) (s : State) (chan : Nat) : Prop where
  wf : WF d s
  self_ok : ∃ st, s.stream chan = some st
  fuel_ok : d chan < fuel
  sinks : ∀ st c, s.stream chan = some st → c ∈ st.children →
    ∃ cs cb, s.stream c = some cs ∧ cs.on_ts = some cb

/-- The PIDs that `stream_reload` (and `module_init`) joins for a
configuration, in the order of the joins. -/
def mandatory_pids (config : channel_config_t) : List Nat :=
  [0x00] ++ (if config.cas then [0x01] else []) ++
    (if config.no_sdt = false then [0x11] else []) ++
    (if config.no_eit = false then [0x12, 0x14] else [])

/-- The stream types that `stream_reload` leaves: the table type on each
mandatory PID, `UNKNOWN` elsewhere. -/
def mandatory_types (config : channel_config_t) (p : Nat) : ts_type_t :=
  if p = 0x14 ∧ config.no_eit = false then .TDT
  else if p = 0x12 ∧ config.no_eit = false then .EIT
  else if p = 0x11 ∧ config.no_sdt = false then .SDT
  else if p = 0x01 ∧ config.cas = true then .CAT
  else if p = 0x00 then .PAT
  else .UNKNOWN

/-- The channel record that `stream_reload` leaves. -/
def reload_data (mod : module_data_t) : module_data_t :=
  { mod with
    stream := mandatory_types mod.config,
    pat := { mod.pat with crc32 := 0 },
    pmt := { mod.pmt with crc32 := 0 },
    cat := if mod.config.cas then { mod.cat with crc32 := 0 } else mod.cat,
    sdt_checksum_list := if mod.config.no_sdt = false then none else mod.sdt_checksum_list,
    map := mod.map.map (fun l => l.map (fun item => { item with is_set := false })) }

/-- The counters that `stream_reload` leaves: one decrement of every positive
counter, then one increment for each mandatory PID. -/
def reload_refs (config : channel_config_t) (pl : Nat → Nat) : Nat → Nat :=
  (mandatory_pids config).foldl incr_step
    (fun p => if p < TS_MAX_PIDS then pl p - 1 else pl p)

/-- The example tree with the counters of the channel replaced. -/
def chan_tree_refs (f : Nat → Nat) : State :=
  chan_tree.modify 1 (fun st => { st with pid_list := f })

/-- A PMT of program 10 that lists the PID `0x101` in two entries (a video and
an audio stream), with its CRC. -/
def pmt_twice : List Nat :=
  [0x02, 0xB0, 0x17, 0x00, 0x0A, 0xC1, 0x00, 0x00, 0xE1, 0x01, 0xF0, 0x00,
   0x02, 0xE1, 0x01, 0xF0, 0x00, 0x04, 0xE1, 0x01, 0xF0, 0x00, 0x21, 0xFF, 0x00, 0xD2]

/-- The counters of the channel after `pmt_twice`: the mandatory PIDs and the
PMT PID once, the PID `0x101` twice. -/
def refs_twice (p : Nat) : Nat :=
  if p = 0x101 then 2
  else if p = 0 ∨ p = 0x11 ∨ p = 0x12 ∨ p = 0x14 ∨ p = 0x100 then 1 else 0

/-- The PAT entry at `pointer` is the one `on_pat` selects for the configured
program number `pnr`: its program number is not 0 and equals `pnr`, or `pnr`
is 0 (the first real program is adopted). -/
def pat_entry_selected (psi : ts_psi_t) (pnr pointer : Nat) : Prop :=
  PAT_ITEM_GET_PNR psi pointer ≠ 0 ∧ (pnr = 0 ∨ PAT_ITEM_GET_PNR psi pointer = pnr)

/-- The entry number `k` of the PAT is inside the section and is the first
one that is selected for `pnr`. -/
def pat_selects (psi : ts_psi_t) (pnr k : Nat) : Prop :=
  PAT_ITEMS_EOL psi (8 + 4 * k) = false ∧ pat_entry_selected psi pnr (8 + 4 * k) ∧
    ∀ j < k, ¬ pat_entry_selected psi pnr (8 + 4 * j)

/-- The channel record after the entry loop of `on_pat` has matched the entry
at `pointer`. -/
def pat_matched (mod : module_data_t) (psi : ts_psi_t) (pointer : Nat) : module_data_t :=
  { mod with
    config := { mod.config with pnr := PAT_ITEM_GET_PNR psi pointer },
    stream := Function.update mod.stream (PAT_ITEM_GET_PID psi pointer) .PMT,
    pmt := { mod.pmt with pid := PAT_ITEM_GET_PID psi pointer, crc32 := 0 } }

/-- The tree after `module_demux_join(self, pid)` has returned. -/
def after_join (fuel : Nat) (s : State) (self pid : Nat) : State :=
  match module_demux_join fuel s self pid with
  | .ok s1 => s1
  | .error _ => s

/-- The tree after `ts_psi_demux` has handed the packets of a section to the
children. -/
def after_demux (lib : mpegts_lib) (s : State) (self : Nat) (psi : ts_psi_t) : State :=
  match send_packets s self (lib.demux_packets psi) with
  | .ok s1 => s1
  | .error _ => s

/-- The section in `mod->pat` is one that `on_pat` processes: a PAT whose CRC
differs from the latched one and is valid. -/
def pat_is_new (mod : module_data_t) : Prop :=
  mod.pat.buffer 0 = 0x00 ∧ PSI_GET_CRC32 mod.pat ≠ mod.pat.crc32 ∧
    PSI_GET_CRC32 mod.pat = PSI_CALC_CRC32 mod.pat

/-- The channel record when `on_pat` starts to walk the entries of a section it
processes: reloaded if the PAT has changed, CRC and TSID latched. -/
def pat_base (mod : module_data_t) : module_data_t :=
  let mod1 := if mod.pat.crc32 ≠ 0 then
      reload_data { mod with out := mod.out ++ [.log "PAT changed. Reload stream info"] }
    else mod
  { mod1 with pat := { mod1.pat with crc32 := PSI_GET_CRC32 mod.pat },
              tsid := PAT_GET_TSID mod1.pat }

/-- The channel record after `on_pat` has rebuilt and sent the custom PAT for
the entry at `pointer`. -/
def pat_sent (lib : mpegts_lib) (mod : module_data_t) (pointer : Nat) : module_data_t :=
  let mod4 := pat_build mod pointer
  pat_finish { mod4 with
    custom_pat := { mod4.custom_pat with cc := lib.demux_cc mod4.custom_pat },
    out := mod4.out ++ [.psi mod4.custom_pat.pid mod4.custom_pat.cc
      ((List.range mod4.custom_pat.buffer_size).map mod4.custom_pat.buffer)] }

/-- The counters of the channel when `on_pat` starts to walk the entries:
reloaded if the PAT has changed. -/
def pat_base_refs (mod : module_data_t) (pl : Nat → Nat) : Nat → Nat :=
  if mod.pat.crc32 ≠ 0 then reload_refs mod.config pl else pl

/-- The channel record with the section `bytes` assembled in `mod->pat`. -/
def load_pat (mod : module_data_t) (bytes : List Nat) : module_data_t :=
  { mod with pat := { mod.pat with buffer := fun k => bytes.getD k 0,
                                   buffer_size := bytes.length } }

/-- A PAT of the transport stream 1 with the single entry "program 10 on PID
`0x100`", with its CRC. -/
def pat_demo : List Nat :=
  [0x00, 0xB0, 0x0D, 0x00, 0x01, 0xC1, 0x00, 0x00, 0x00, 0x0A, 0xE1, 0x00,
   0xE4, 0x55, 0xCF, 0xCC]

/-- The counters of the channel after `module_init`: the mandatory PIDs. -/
def refs_init (p : Nat) : Nat :=
  if p = 0 ∨ p = 0x11 ∨ p = 0x12 ∨ p = 0x14 then 1 else 0

/-- The map rule is one that the search of `map_custom_pid` takes for the PID
and selector: not consumed, and matching by a non-zero origin PID or by its
selector string. -/
def map_matches (item : map_item_t) (pid : Nat) (type : List Nat) : Prop :=
  item.is_set = false ∧ ((item.origin_pid ≠ 0 ∧ item.origin_pid = pid) ∨ item.type = type)

/-- A PAT of the transport stream 1 whose single entry sends program 10 to the
PID `0x0000`, the PID of the PAT itself, with its CRC. -/
def pat_on_pid_zero : List Nat :=
  [0x00, 0xB0, 0x0D, 0x00, 0x01, 0xC1, 0x00, 0x00, 0x00, 0x0A, 0xE0, 0x00,
   0x36, 0x4C, 0x0E, 0x10]

/-- The channel record of the example with the option `no_reload`. -/
def chan_mod_no_reload : module_data_t :=
  { chan_mod with config := { chan_mod.config with no_reload := true } }

/-! ## Channel module: the record part of the PMT loops

The loops of `on_pmt` write the channel record and join PIDs.  The functions
below compute what they write and list the PIDs they join, in order; the
theorems `pmt_desc_loop_eq`, `pmt_item_desc_loop_eq` and `pmt_items_loop_eq`
prove that the loops do exactly this. -/

/-- The tree after a run of joins of the channel. -/
def after_joins (fuel : Nat) (s : State) (self : Nat) (joins : List Nat) : State :=
  joins.foldl (fun s1 pid => after_join fuel s1 self pid) s

/-- The CA block in the channel record, and the PID it joins, if any. -/
def ca_data (mod : module_data_t) (buf : Nat → Nat) (desc : Nat) : module_data_t × List Nat :=
  let ca_pid := DESC_CA_PID buf desc
  if mod.stream ca_pid = .UNKNOWN ∧ ca_pid ≠ TS_NULL_PID then (ca_mark mod ca_pid, [ca_pid])
  else (mod, [])

/-- The record part of `pmt_desc_loop`: the channel record, `skip`, and the
PIDs joined; `none` when the iteration bound is used up. -/
def pmt_desc_data (psi : ts_psi_t) :
    Nat → Nat → Nat → module_data_t → Option (module_data_t × Nat × List Nat)
  | 0, _, _, _ => none
  | n + 1, desc, skip, mod =>
    if 12 + PMT_DESC_SIZE psi ≤ desc then some (mod, skip, [])
    else
      let next := desc + 2 + psi.buffer (desc + 1)
      if psi.buffer desc = 0x09 ∧ mod.config.cas = false then
        pmt_desc_data psi n next skip mod
      else
        let r := if psi.buffer desc = 0x09 then ca_data mod psi.buffer desc else (mod, [])
        (pmt_desc_data psi n next ((skip + (psi.buffer (desc + 1) + 2) % 256) % 65536)
          (desc_copy r.1 psi desc skip)).map (fun x => (x.1, x.2.1, r.2 ++ x.2.2))

/-- The record part of `pmt_item_desc_loop`: the channel record, `skip`,
`ts_type`, `language_desc`, and the PIDs joined. -/
def pmt_item_desc_data (lib : mpegts_lib) (psi : ts_psi_t) (pointer item_type : Nat) :
    Nat → Nat → Nat → ts_type_t → Option Nat → module_data_t →
      Option (module_data_t × Nat × ts_type_t × Option Nat × List Nat)
  | 0, _, _, _, _, _ => none
  | n + 1, desc, skip, ts_type, language_desc, mod =>
    if pointer + 5 + PMT_ITEM_DESC_SIZE psi.buffer pointer ≤ desc then
      some (mod, skip, ts_type, language_desc, [])
    else
      let desc_type := psi.buffer desc
      let next := desc + 2 + psi.buffer (desc + 1)
      if desc_type = 0x09 ∧ mod.config.cas = false then
        pmt_item_desc_data lib psi pointer item_type n next skip ts_type language_desc mod
      else
        let r := if desc_type = 0x09 then ca_data mod psi.buffer desc else (mod, [])
        let language_desc1 := if desc_type = 0x0A then some desc else language_desc
        let ts_type1 :=
          if desc_type ≠ 0x09 ∧ desc_type ≠ 0x0A ∧ item_type = 0x06 ∧ ts_type = .DATA then
            lib.ts_priv_type desc_type
          else ts_type
        (pmt_item_desc_data lib psi pointer item_type n next
          ((skip + (psi.buffer (desc + 1) + 2) % 256) % 65536) ts_type1 language_desc1
          (desc_copy r.1 psi desc skip)).map
          (fun x => (x.1, x.2.1, x.2.2.1, x.2.2.2.1, r.2 ++ x.2.2.2.2))

/-- The record part of `pmt_items_loop`: the channel record, `skip`,
`join_pcr`, the PIDs joined, and for every entry that is copied its offset in
the section and the offset of its copy in the custom PMT. -/
def pmt_items_data (lib : mpegts_lib) (psi : ts_psi_t) (pcr_pid : Nat) :
    Nat → Nat → Nat → Bool → module_data_t →
      Option (module_data_t × Nat × Bool × List Nat × List (Nat × Nat))
  | 0, _, _, _, _ => none
  | n + 1, pointer, skip, join_pcr, mod =>
    if psi.buffer_size - CRC32_SIZE ≤ pointer then some (mod, skip, join_pcr, [], [])
    else
      let next := pointer + 5 + PMT_ITEM_DESC_SIZE psi.buffer pointer
      let pid := PMT_ITEM_GET_PID psi.buffer pointer
      if mod.pid_map pid = TS_MAX_PIDS then
        pmt_items_data lib psi pcr_pid n next skip join_pcr mod
      else
        let item_type := psi.buffer pointer
        match pmt_item_desc_data lib psi pointer item_type
            (PMT_ITEM_DESC_SIZE psi.buffer pointer + 1) (pointer + 5) ((skip + 5) % 65536)
            (lib.ts_stream_type item_type) none (item_head mod psi pointer skip) with
        | none => none
        | some (mod3, skip2, ts_type2, language_desc, joins) =>
          (pmt_items_data lib psi pcr_pid n next skip2
            (if pid = pcr_pid then false else join_pcr)
            (item_close mod3 psi pid skip skip2 ts_type2 language_desc)).map
            (fun x => (x.1, x.2.1, x.2.2.1, pid :: joins ++ x.2.2.2.1,
              (pointer, skip) :: x.2.2.2.2))

/-- The values of the map are PIDs, as `module_init` checks: no rule sends a
PID to a value of 8192 or more. -/
def MapOk (mod : module_data_t) : Prop :=
  ∀ l, mod.map = some l → ∀ item ∈ l, item.custom_pid < TS_MAX_PIDS

/-- What a run of the PMT loops does to the channel record outside the custom
PMT buffer, relative to a set `P` of filtered PIDs that no CA descriptor of
the run names: the configuration, the inbound section and the trace are
kept; the PIDs of `P` keep their marker and their type and are not joined;
no marker is added; a PID of type `PES` keeps that type. -/
structure PmtStep (P : Nat → Prop) (mod mod' : module_data_t) (joins : List Nat) : Prop where
  config : mod'.config = mod.config
  pmt : mod'.pmt = mod.pmt
  out_eq : mod'.out = mod.out
  custom : mod'.custom_pmt.pid = mod.custom_pmt.pid ∧ mod'.custom_pmt.cc = mod.custom_pmt.cc
  map_some : mod'.map.isSome = mod.map.isSome
  map_ok : MapOk mod → MapOk mod'
  marker : ∀ q, P q → mod'.pid_map q = mod.pid_map q
  kind : ∀ q, P q → mod'.stream q = mod.stream q
  fresh : ∀ q ∈ joins, ¬ P q
  nf : MapOk mod → ∀ q, mod.pid_map q ≠ TS_MAX_PIDS → mod'.pid_map q ≠ TS_MAX_PIDS
  pes : ∀ q, mod.stream q = .PES → mod'.stream q = .PES

/-- The offsets of the descriptors that a descriptor loop visits: from `desc`,
each `2 + length` bytes after the other, up to `stop`. -/
def desc_positions (buf : Nat → Nat) (stop : Nat) : Nat → Nat → List Nat
  | 0, _ => []
  | n + 1, desc =>
    if stop ≤ desc then []
    else desc :: desc_positions buf stop n (desc + 2 + buf (desc + 1))

/-- The offsets of the entries that the entry loop of a PMT visits. -/
def item_positions (psi : ts_psi_t) : Nat → Nat → List Nat
  | 0, _ => []
  | n + 1, pointer =>
    if psi.buffer_size - CRC32_SIZE ≤ pointer then []
    else pointer :: item_positions psi n (pointer + 5 + PMT_ITEM_DESC_SIZE psi.buffer pointer)

/-- The program descriptors of a PMT. -/
def pmt_descs (psi : ts_psi_t) : List Nat :=
  desc_positions psi.buffer (12 + PMT_DESC_SIZE psi) (PMT_DESC_SIZE psi + 1) 12

/-- The entries of a PMT. -/
def pmt_items (psi : ts_psi_t) : List Nat :=
  item_positions psi (psi.buffer_size + 1) (PMT_ITEMS_FIRST psi)

/-- The descriptors of the entry at `pointer` of a PMT. -/
def item_descs (psi : ts_psi_t) (pointer : Nat) : List Nat :=
  desc_positions psi.buffer (pointer + 5 + PMT_ITEM_DESC_SIZE psi.buffer pointer)
    (PMT_ITEM_DESC_SIZE psi.buffer pointer + 1) (pointer + 5)

/-- The CA PIDs named by the CA descriptors (tag `0x09`) among `descs`. -/
def ca_pids_at (buf : Nat → Nat) (descs : List Nat) : List Nat :=
  (descs.filter (fun x => decide (buf x = 0x09))).map (DESC_CA_PID buf)

/-- The CA PIDs named by the CA descriptors of a PMT, program level first, then
entry by entry. -/
def pmt_ca_pids (psi : ts_psi_t) : List Nat :=
  ca_pids_at psi.buffer (pmt_descs psi) ++
    (pmt_items psi).flatMap (fun pointer => ca_pids_at psi.buffer (item_descs psi pointer))

/-! ## Channel module: vocabulary for the map rules -/

/-- The position of the rule that the search of `map_custom_pid` takes: the
first one that is not consumed and matches. -/
def map_index : List map_item_t → Nat → List Nat → Option Nat
  | [], _, _ => none
  | item :: rest, pid, type =>
    if item.is_set = false ∧
        ((item.origin_pid ≠ 0 ∧ item.origin_pid = pid) ∨ item.type = type) then some 0
    else (map_index rest pid type).map (fun i => i + 1)

/-- A run of calls of `map_custom_pid` with no `stream_reload` in between:
for every call that binds a PID, the position of the rule it takes and the
PID. -/
def map_binds : module_data_t → List (Nat × List Nat) → List (Nat × Nat)
  | _, [] => []
  | mod, call :: rest =>
    match map_index (mod.map.getD []) call.1 call.2 with
    | some i => (i, call.1) :: map_binds (map_custom_pid mod call.1 call.2).1 rest
    | none => map_binds (map_custom_pid mod call.1 call.2).1 rest

/-- An example map with two rules: `video` to `0x200` and PID `0x102` to
`0x201`. -/
def map_demo : List map_item_t :=
  [{ type := str_video, origin_pid := 0, custom_pid := 0x200, is_set := false },
   { type := [], origin_pid := 0x102, custom_pid := 0x201, is_set := false }]

/-- The channel record of the example after the PAT `pat_demo` has been
processed, with the same section assembled again: its CRC is the latched
one. -/
def chan_mod_pat_again : module_data_t :=
  let m := load_pat chan_mod_pat pat_demo
  { m with pat := { m.pat with crc32 := PSI_GET_CRC32 m.pat } }

/-! ## Channel module: vocabulary for the EIT and SDT handlers -/

/-- The section in `mod->eit` is one that `on_eit` passes on: an actual EIT
(present/following or schedule) of the latched transport stream and of the
configured program. -/
def eit_accepted (mod : module_data_t) : Prop :=
  (mod.eit.buffer 0 = 0x4E ∨ (0x50 ≤ mod.eit.buffer 0 ∧ mod.eit.buffer 0 ≤ 0x5F)) ∧
    mod.tsid = EIT_GET_TSID mod.eit ∧ mod.config.pnr = EIT_GET_PNR mod.eit

/-- An EIT section (present/following, actual) of transport stream 1 for
service 10, without events, with four bytes in the place of the CRC. -/
def eit_demo : List Nat :=
  [0x4E, 0xF0, 0x0F, 0x00, 0x0A, 0xC1, 0x00, 0x00, 0x00, 0x01, 0x00, 0x01, 0x00, 0x4E,
   0x00, 0x00, 0x00, 0x00]

/-- The channel record of the example with `set_pnr = 20` and the section
`eit_demo` assembled in `mod->eit`. -/
def chan_mod_eit : module_data_t :=
  { chan_mod_pat with
    config := { chan_mod_pat.config with set_pnr := 20 },
    eit_cc := 5,
    eit := { chan_mod_pat.eit with buffer := fun k => eit_demo.getD k 0,
                                   buffer_size := eit_demo.length } }

/-- The section in `mod->sdt` passes the first checks of `on_sdt`: it is an
SDT (actual) of the latched transport stream with a valid CRC. -/
def sdt_valid (mod : module_data_t) : Prop :=
  mod.sdt.buffer 0 = 0x42 ∧ mod.tsid = SDT_GET_TSID mod.sdt ∧
    PSI_GET_CRC32 mod.sdt = PSI_CALC_CRC32 mod.sdt

/-- The `section_number` of the section in `mod->sdt`, a `uint8_t`. -/
def sdt_section (mod : module_data_t) : Nat := mod.sdt.buffer 6 % 256

/-- The channel record after `on_sdt` has made sure that the list of
snapshots exists: a missing list is allocated zeroed, with the
`last_section_number` of this section as its last index. -/
def sdt_base (mod : module_data_t) : module_data_t :=
  match mod.sdt_checksum_list with
  | some _ => mod
  | none => { mod with sdt_max_section_id := mod.sdt.buffer 7 % 256,
                       sdt_checksum_list := some (fun _ => 0) }

/-- The snapshot stored for the section number `n` (0 when none is). -/
def sdt_stored (mod : module_data_t) (n : Nat) : Nat :=
  (sdt_base mod).sdt_checksum_list.getD (fun _ => 0) n

/-- The offsets of the service entries of an SDT section; an entry has the
layout of a PMT entry (five bytes, then a descriptor loop with a 12-bit
length). -/
def sdt_items (psi : ts_psi_t) : List Nat :=
  item_positions psi (psi.buffer_size + 1) 11

/-- The first service entry of the section whose service id is `pnr`. -/
def sdt_found (psi : ts_psi_t) (pnr : Nat) : Option Nat :=
  (sdt_items psi).find? (fun p => decide (SDT_ITEM_GET_SID psi p = pnr))

/-- An SDT section (actual) of transport stream 1 with the services 10 and 11,
each without descriptors, `section_number` 0 of 1, with its CRC. -/
def sdt_demo : List Nat :=
  [0x42, 0xF0, 0x16, 0x00, 0x01, 0xC1, 0x00, 0x01, 0x00, 0x01, 0xFF,
   0x00, 0x0A, 0xFC, 0x80, 0x00, 0x00, 0x0B, 0xFC, 0x80, 0x00, 0x02, 0x84, 0x57, 0x78]

/-- The channel record with the section `bytes` assembled in `mod->sdt`. -/
def load_sdt (mod : module_data_t) (bytes : List Nat) : module_data_t :=
  { mod with sdt := { mod.sdt with buffer := fun k => bytes.getD k 0,
                                   buffer_size := bytes.length } }

/-- The channel record of the example after `sdt_demo` has been processed
once (its CRC is the snapshot of section 0, which carried service 10), with
the same section assembled again. -/
def chan_mod_sdt_again : module_data_t :=
  let m := load_sdt chan_mod_pat sdt_demo
  { m with sdt_max_section_id := 1, sdt_original_section_id := 0,
           sdt_checksum_list := some (fun n => if n = 0 then PSI_GET_CRC32 m.sdt else 0) }

/-- The custom SDT that `on_sdt` builds from the service entry at `pointer` of
the section in `mod->sdt`, up to `PSI_SET_CRC32`. -/
def sdt_build (mod : module_data_t) (pointer : Nat) : ts_psi_t :=
  let psi := mod.sdt
  let b0 := memcpy mod.custom_sdt.buffer 0 psi.buffer 0 11
  let b1 := Function.update (Function.update b0 6 0) 7 0
  let item_length := (PMT_ITEM_DESC_SIZE psi.buffer pointer + 5) % 65536
  let b2 := memcpy b1 11 psi.buffer pointer item_length
  let section_length := (item_length + 8 + CRC32_SIZE) % 65536
  let cs0 := { mod.custom_sdt with buffer := b2, buffer_size := 3 + section_length }
  let cs1 := if mod.config.set_pnr ≠ 0 then SDT_ITEM_SET_SID cs0 11 mod.config.set_pnr else cs0
  PSI_SET_CRC32 (PSI_SET_SIZE cs1)

/-- The channel record after `on_sdt` has stored the CRC of a first-seen
section as its snapshot. -/
def sdt_noted (mod : module_data_t) : module_data_t :=
  { sdt_base mod with
    sdt_checksum_list := some (Function.update (sdt_stored mod) (sdt_section mod)
      (PSI_GET_CRC32 mod.sdt)) }

/-- The section in `mod->sdt` is seen for the first time: it is valid, its
number is within the last section number, no snapshot is stored for it, and
its CRC is not 0. -/
def sdt_first_seen (mod : module_data_t) : Prop :=
  sdt_valid mod ∧ sdt_section mod ≤ (sdt_base mod).sdt_max_section_id ∧
    sdt_stored mod (sdt_section mod) = 0 ∧ PSI_GET_CRC32 mod.sdt ≠ 0

/-- The channel record of the example after a section 0 of the SDT has been
processed whose CRC was `0x11223344`, with the section `sdt_demo` assembled:
section 0 has changed. -/
def chan_mod_sdt_changed : module_data_t :=
  { load_sdt chan_mod_pat sdt_demo with
    sdt_max_section_id := 1,
    sdt_checksum_list := some (fun n => if n = 0 then 0x11223344 else 0) }

/-! ## Channel module: vocabulary for the descriptors of a PMT -/

/-- The bytes of the descriptor at offset `x`: tag, length, and `length`
payload bytes. -/
def desc_bytes (buf : Nat → Nat) (x : Nat) : List Nat :=
  (List.range (buf (x + 1) + 2)).map (fun k => buf (x + k))

/-- The descriptors among `positions` that the loops of `on_pmt` copy: all of
them with `cas`, all but the CA descriptors (tag `0x09`) without. -/
def kept_descs (cas : Bool) (buf : Nat → Nat) (positions : List Nat) : List Nat :=
  positions.filter (fun x => decide (¬ (buf x = 0x09 ∧ cas = false)))

/-- The bytes of the kept descriptors, one after the other. -/
def copied_descs (cas : Bool) (buf : Nat → Nat) (positions : List Nat) : List Nat :=
  (kept_descs cas buf positions).flatMap (desc_bytes buf)

/-- The record part of `pmt_rebuild` up to `PSI_SET_CRC32`: the channel record
with the custom PMT rebuilt, the PIDs joined, in order, and the entries
copied (offset in the section, offset of the copy). -/
def pmt_data (lib : mpegts_lib) (mod : module_data_t) :
    Option (module_data_t × List Nat × List (Nat × Nat)) :=
  let psi := mod.pmt
  let pcr_pid := PMT_GET_PCR psi
  match pmt_desc_data psi (PMT_DESC_SIZE psi + 1) 12 12 (pmt_head mod) with
  | none => none
  | some (mod2, skip, joins1) =>
    match pmt_items_data lib psi pcr_pid (psi.buffer_size + 1) (PMT_ITEMS_FIRST psi) skip true
        (pmt_info_close mod2 skip) with
    | none => none
    | some (mod5, skip2, join_pcr, joins2, copied) =>
      let mod6 := { mod5 with custom_pmt := { mod5.custom_pmt with
        buffer_size := skip2 + CRC32_SIZE } }
      let mod7 := if join_pcr then pcr_mark mod6 pcr_pid else mod6
      some (pmt_seal mod7 pcr_pid, joins1 ++ joins2 ++ (if join_pcr then [pcr_pid] else []),
        copied)

/-- The channel record after `pmt_rebuild` has sent the custom PMT of the
record `m`. -/
def pmt_sent (lib : mpegts_lib) (m : module_data_t) : module_data_t :=
  pmt_finish { m with
    custom_pmt := { m.custom_pmt with cc := lib.demux_cc m.custom_pmt },
    out := m.out ++ [.psi m.custom_pmt.pid m.custom_pmt.cc
      ((List.range m.custom_pmt.buffer_size).map m.custom_pmt.buffer)] }

/-- The section in `mod->pmt` is one that `on_pmt` rebuilds the custom PMT
from: a PMT of the configured program, seen for the first time (no CRC is
latched), with a valid CRC that is not 0. -/
def pmt_is_new (mod : module_data_t) : Prop :=
  mod.pmt.buffer 0 = 0x02 ∧ PMT_GET_PNR mod.pmt = mod.config.pnr ∧ mod.pmt.crc32 = 0 ∧
    PSI_GET_CRC32 mod.pmt = PSI_CALC_CRC32 mod.pmt ∧ PSI_GET_CRC32 mod.pmt ≠ 0

/-- The channel record with the CRC of the section in `mod->pmt` latched. -/
def pmt_latched (mod : module_data_t) : module_data_t :=
  { mod with pmt := { mod.pmt with crc32 := PSI_GET_CRC32 mod.pmt } }

/-! ## Channel module: further example sections -/

/-- A PMT of program 10 with one entry, an MPEG-2 video stream on PID `0x101`
without descriptors, PCR on `0x101`, with its CRC. -/
def pmt_plain : List Nat :=
  [0x02, 0xB0, 0x12, 0x00, 0x0A, 0xC1, 0x00, 0x00, 0xE1, 0x01, 0xF0, 0x00,
   0x02, 0xE1, 0x01, 0xF0, 0x00, 0xA2, 0xBA, 0x54, 0x09]

/-- The channel record of the example after the PAT, with `cas` enabled. -/
def chan_mod_cas : module_data_t :=
  { chan_mod_pat with config := { chan_mod_pat.config with cas := true } }

/-- A later version of the PMT of program 10: PID `0x101` now carries an audio
stream and PID `0x102` the video stream (PCR on `0x102`), with its CRC. -/
def pmt_swapped : List Nat :=
  [0x02, 0xB0, 0x17, 0x00, 0x0A, 0xC3, 0x00, 0x00, 0xE1, 0x02, 0xF0, 0x00,
   0x04, 0xE1, 0x01, 0xF0, 0x00, 0x02, 0xE1, 0x02, 0xF0, 0x00, 0x8D, 0xD3, 0xDB, 0x4B]

/-- The entries of `pid_map` are PIDs or the filter marker, as `module_init`
leaves them: no entry is above 8192. -/
def PidMapOk (mod : module_data_t) : Prop :=
  ∀ q, mod.pid_map q ≤ TS_MAX_PIDS

/-- A PMT of program 10 whose PCR PID is `0x100`, the PID of the PMT itself,
with one video entry on PID `0x101`, with its CRC. -/
def pmt_pcr_on_pmt_pid : List Nat :=
  [0x02, 0xB0, 0x12, 0x00, 0x0A, 0xC1, 0x00, 0x00, 0xE1, 0x00, 0xF0, 0x00,
   0x02, 0xE1, 0x01, 0xF0, 0x00, 0xF9, 0x1B, 0x88, 0xC3]

/-- The channel record of the example after the PAT, with the option
`no_reload`. -/
def chan_mod_pat_no_reload : module_data_t :=
  { chan_mod_pat with config := { chan_mod_pat.config with no_reload := true } }

/-- A PMT of program 10 with a program-level CA descriptor (CA system 1, CA
PID `0x200`) and one video entry on PID `0x101`, with its CRC. -/
def pmt_ca_prog : List Nat :=
  [0x02, 0xB0, 0x18, 0x00, 0x0A, 0xC1, 0x00, 0x00, 0xE1, 0x01, 0xF0, 0x06,
   0x09, 0x04, 0x00, 0x01, 0xE2, 0x00, 0x02, 0xE1, 0x01, 0xF0, 0x00, 0xC2, 0x05, 0x2C, 0xBA]

/-- A PMT of program 10 with one entry, a private stream on PID `0x101`, that
carries one descriptor with 254 payload bytes (`ES_info_length` 256), with its
CRC. -/
def pmt_desc_254 : List Nat :=
  [0x02, 0xB1, 0x12, 0x00, 0x0A, 0xC1, 0x00, 0x00, 0xE1, 0x01, 0xF0, 0x00,
   0x06, 0xE1, 0x01, 0xF1, 0x00] ++ (0x05 :: 0xFE :: List.replicate 254 0) ++
  [0x24, 0xE2, 0xD5, 0xC0]

/-- A PMT of program 10 whose first entry (video on PID `0x101`) carries a CA
descriptor with the CA PID `0x102`, and whose second entry is an audio stream
on that PID `0x102`, with its CRC. -/
def pmt_ca_names_entry : List Nat :=
  [0x02, 0xB0, 0x1D, 0x00, 0x0A, 0xC1, 0x00, 0x00, 0xE1, 0x01, 0xF0, 0x00,
   0x02, 0xE1, 0x01, 0xF0, 0x06, 0x09, 0x04, 0x00, 0x01, 0xE1, 0x02,
   0x04, 0xE1, 0x02, 0xF0, 0x00, 0xDD, 0xAD, 0xAD, 0x91]

/-- A PMT of program 10 with a video entry on PID `0x101` and an audio entry
on PID `0x100`, the PID of the PMT itself, with its CRC. -/
def pmt_entry_on_pmt_pid : List Nat :=
  [0x02, 0xB0, 0x17, 0x00, 0x0A, 0xC1, 0x00, 0x00, 0xE1, 0x01, 0xF0, 0x00,
   0x02, 0xE1, 0x01, 0xF0, 0x00, 0x04, 0xE1, 0x00, 0xF0, 0x00, 0x20, 0x27, 0xAC, 0x55]

/-- The channel record of the example after the PAT, with `cas` enabled and
the PID `0x102` filtered. -/
def chan_mod_cas_filter : module_data_t :=
  { chan_mod_cas with pid_map := fun p => if p = 0x102 then TS_MAX_PIDS else 0 }

/-- The channel record of the example after the PAT, with the PID `0x102`
filtered (no `cas`). -/
def chan_mod_filter : module_data_t :=
  { chan_mod_pat with pid_map := fun p => if p = 0x102 then TS_MAX_PIDS else 0 }

/-! ## Channel module: vocabulary for the filter -/

/-- The offsets of the descriptors of a CAT section. -/
def cat_descs (psi : ts_psi_t) : List Nat :=
  desc_positions psi.buffer (psi.buffer_size - CRC32_SIZE) (psi.buffer_size + 1) 8

/-- The section in `mod->cat` is one that `on_cat` walks: a CAT seen for the
first time whose CRC is valid. -/
def cat_is_new (mod : module_data_t) : Prop :=
  mod.cat.buffer 0 = 0x01 ∧ PSI_GET_CRC32 mod.cat ≠ mod.cat.crc32 ∧
    PSI_GET_CRC32 mod.cat = PSI_CALC_CRC32 mod.cat ∧ mod.cat.crc32 = 0

/-- The section assembled in `mod->pat` is made of bytes, and if `on_pat`
processes it and the entry that it selects for the program has the PID `p`,
then no rule of the map applies to that PID when `on_pat` looks (no
unconsumed rule of type `pmt` or with the origin PID `p`). -/
def pat_spares (p : Nat) (mod : module_data_t) : Prop :=
  (∀ k, mod.pat.buffer k < 256) ∧
    (pat_is_new mod → ∀ k, pat_selects (pat_base mod).pat mod.config.pnr k →
      PAT_ITEM_GET_PID (pat_base mod).pat (8 + 4 * k) = p →
      ∀ l, (pat_base mod).map = some l → map_take l p str_pmt = none)

/-- The section assembled in `mod->cat` is made of bytes, and if `on_cat`
walks it, none of its CA descriptors has the CA PID `p`. -/
def cat_spares (p : Nat) (mod : module_data_t) : Prop :=
  (∀ k, mod.cat.buffer k < 256) ∧
    (cat_is_new mod → p ∉ ca_pids_at mod.cat.buffer (cat_descs mod.cat))

/-- The section assembled in `mod->pmt` is made of bytes, and if `on_pmt`
rebuilds the custom PMT from it, its PCR PID is not `p` and, with `cas`
enabled, none of its CA descriptors has the CA PID `p`. -/
def pmt_spares (p : Nat) (mod : module_data_t) : Prop :=
  (∀ k, mod.pmt.buffer k < 256) ∧
    (pmt_is_new mod → PMT_GET_PCR mod.pmt ≠ p ∧
      (mod.config.cas = false ∨ p ∉ pmt_ca_pids mod.pmt))

/-- The sections that `ts_psi_mux` hands to the callback satisfy `C`, each in
the channel record in which the callback is called on it. -/
def psi_mux_spares (load : module_data_t → (Nat → Nat) × Nat → module_data_t)
    (callback : State → module_data_t → Except Fault (State × module_data_t))
    (C : module_data_t → Prop) : List ((Nat → Nat) × Nat) → State → module_data_t → Prop
  | [], _, _ => True
  | sec :: rest, s, mod =>
    C (load mod sec) ∧
      match callback s (load mod sec) with
      | .error _ => True
      | .ok (s1, mod1) => psi_mux_spares load callback C rest s1 mod1

/-- The packet `ts` is made of bytes, and the sections `secs` that it
completes spare the PID `p`, for the table that the PID of the packet
carries. -/
def packet_spares (lib : mpegts_lib) (fuel : Nat) (s : State) (self : Nat)
    (mod : module_data_t) (p : Nat) (ts : List Nat) (secs : List ((Nat → Nat) × Nat)) : Prop :=
  (∀ b ∈ ts, b < 256) ∧
    match mod.stream (TS_GET_PID ts) with
    | .PAT =>
      psi_mux_spares
        (fun m sec => { m with pat := { m.pat with buffer := sec.1, buffer_size := sec.2 } })
        (fun s1 m => on_pat lib fuel s1 self m) (pat_spares p) secs s mod
    | .CAT =>
      psi_mux_spares
        (fun m sec => { m with cat := { m.cat with buffer := sec.1, buffer_size := sec.2 } })
        (fun s1 m => on_cat lib fuel s1 self m) (cat_spares p) secs s mod
    | .PMT =>
      psi_mux_spares
        (fun m sec => { m with pmt := { m.pmt with buffer := sec.1, buffer_size := sec.2 } })
        (fun s1 m => on_pmt lib fuel s1 self m) (pmt_spares p) secs s mod
    | _ => True

/-- The channel fed with a run of packets: `on_ts` is called once for each
packet, in order; each packet comes with the sections that the assembler
completes with it. -/
def chan_run (lib : mpegts_lib) (fuel : Nat) (self : Nat) :
    List (List Nat × List ((Nat → Nat) × Nat)) → State → module_data_t →
      Except Fault (State × module_data_t)
  | [], s, mod => .ok (s, mod)
  | x :: rest, s, mod =>
    match on_ts lib fuel s self mod x.1 x.2 with
    | .error e => .error e
    | .ok (s1, mod1) => chan_run lib fuel self rest s1 mod1

/-- A run of packets spares the PID `p`: each packet does, in the state in
which it arrives. -/
def run_spares (lib : mpegts_lib) (fuel : Nat) (self : Nat) (p : Nat) :
    List (List Nat × List ((Nat → Nat) × Nat)) → State → module_data_t → Prop
  | [], _, _ => True
  | x :: rest, s, mod =>
    packet_spares lib fuel s self mod p x.1 x.2 ∧
      match on_ts lib fuel s self mod x.1 x.2 with
      | .error _ => True
      | .ok (s1, mod1) => run_spares lib fuel self p rest s1 mod1

/-- The channel record with the section `sec` assembled in `mod->pmt`, as
`on_ts` hands it to `on_pmt`. -/
def pmt_loaded (mod : module_data_t) (sec : (Nat → Nat) × Nat) : module_data_t :=
  { mod with pmt := { mod.pmt with buffer := sec.1, buffer_size := sec.2 } }

/-- The channel record of the example after `module_init`, with a map whose
rule `pmt` sends the PMT to PID `0x300`, and with the PID `0x100` filtered. -/
def chan_mod_pmt_rule : module_data_t :=
  { chan_mod with
    map := some [{ type := str_pmt, origin_pid := 0, custom_pid := 0x300, is_set := false }],
    pid_map := fun p => if p = 0x100 then TS_MAX_PIDS else 0 }

/-- A run of the example: a packet on the PMT PID `0x100` that completes the
section `pmt_plain`, then a packet on PID `0x102`. -/
def run_demo : List (List Nat × List ((Nat → Nat) × Nat)) :=
  [(demo_packet 0x100, [(fun k => pmt_plain.getD k 0, pmt_plain.length)]),
   (demo_packet 0x102, [])]

/-- The channel record `chan_mod_map` (PID `0x101` sent to `0x200` by the rule
`video`, which is consumed) with the PID `0x102` filtered as well. -/
def chan_mod_map_filter : module_data_t :=
  { chan_mod_map with
    pid_map := fun p => if p = 0x101 then 0x200 else if p = 0x102 then TS_MAX_PIDS else 0 }

/-! ## Stream tree: vocabulary for the invariants -/

/-- The parent link: `n` is initialised and `n->parent` is `q`. -/
def Parent (s : State) (n q : Nat) : Prop :=
  ∃ st, s.stream n = some st ∧ st.parent = some q

/-- The parent links are acyclic: no module is reached from itself by
following one or more parent links. -/
def Acyclic (s : State) : Prop :=
  ∀ n, ¬ Relation.TransGen (Parent s) n n

/-- Example forest without subscriptions: module 0 is a root with the single
child 1. -/
def demo_idle : State :=
  { stream := fun n =>
      if n = 0 then some { fresh (some 10) with children := [1] }
      else if n = 1 then some { fresh (some 11) with parent := some 0 }
      else none,
    trace := [] }

/-- Every parent pointer leads to an initialised module whose children list
holds the module. -/
def Linked (s : State) : Prop :=
  ∀ c cs p, s.stream c = some cs → cs.parent = some p →
    ∃ ps, s.stream p = some ps ∧ c ∈ ps.children

/-- Tree consistency, as an inductive invariant: the children lists are
consistent (`ChildrenOk`) and the parent pointers are (`Linked`). -/
structure TreeOk (s : State) : Prop where
  lists : ChildrenOk s
  linked : Linked s

/-- Tree consistency between live nodes: `c` is in the children list of `p`
exactly when the parent pointer of `c` is `p`, and then it is there once. -/
def Consistent (s : State) : Prop :=
  ∀ c p cs ps, s.stream c = some cs → s.stream p = some ps →
    (c ∈ ps.children ↔ cs.parent = some p) ∧ (c ∈ ps.children → ps.children.count c = 1)

/-! ## Stream tree: vocabulary for the reference counts -/

/-- The number of modules of the list `ch` that are subscribed to `p`. -/
def wanting (s : State) (ch : List Nat) (p : Nat) : Nat :=
  ch.countP (fun c => decide (0 < pid_refs s c p))

/-- The counter of `p` on module `n` minus the number of children of `n` that
are subscribed to `p`: the references that `n` holds for itself. -/
def excess (s : State) (n p : Nat) : Int :=
  match s.stream n with
  | some st => (st.pid_list p : Int) - (wanting s st.children p : Int)
  | none => 0

/-- The reference counts add up: for every node `n` and valid PID `p` the
counter is `g n p`, the number of outstanding direct joins made on `n`, plus
the number of children of `n` that are subscribed to `p`. -/
def Counted (s : State) (g : Nat → Nat → Nat) : Prop :=
  ∀ n st p, s.stream n = some st → p < TS_MAX_PIDS →
    st.pid_list p = g n p + wanting s st.children p

/-- Every node has the hooks that `module_stream_init` installs. -/
def DefaultHooks (s : State) : Prop :=
  ∀ n st, s.stream n = some st → st.join_pid = .demux_join ∧ st.leave_pid = .demux_leave

/-- One more outstanding direct join of `p` on `n`. -/
def bump (g : Nat → Nat → Nat) (n p : Nat) : Nat → Nat → Nat :=
  fun m q => if m = n ∧ q = p then g m q + 1 else g m q

/-- One outstanding direct join of `p` on `n` less. -/
def unbump (g : Nat → Nat → Nat) (n p : Nat) : Nat → Nat → Nat :=
  fun m q => if m = n ∧ q = p then g m q - 1 else g m q

/-- Summary of a run of `module_demux_leave` calls on `c` for the counts: links
and hooks are kept, the forest stays ranked, the counts of the other modules
are as before, and no counter has grown. -/
structure Drained (d : Nat → Nat) (c : Nat) (s s' : State) : Prop where
  shape : SameShape s s'
  wf : WF d s'
  keep : ∀ m q, m ≠ c → excess s' m q = excess s m q
  le : ∀ m q, pid_refs s' m q ≤ pid_refs s m q

/-- Summary of a run of `module_demux_join` calls on `c` for PIDs in `P`: links
and hooks are kept, the forest stays ranked, the counts of the other modules
are as before, and the counters of the PIDs outside `P` are as before. -/
structure Refilled (d : Nat → Nat) (c : Nat) (P : Nat → Prop) (s s' : State) : Prop where
  shape : SameShape s s'
  wf : WF d s'
  keep : ∀ m q, m ≠ c → excess s' m q = excess s m q
  frame : ∀ m q, ¬ P q → pid_refs s' m q = pid_refs s m q

/-- The setting of the reference-count invariant: a forest ranked by `d` with
consistent children lists, in which every node has the default hooks, and in
which the counters are the direct joins `g` plus the subscribed children. -/
structure Forest (d : Nat → Nat) (s : State) (g : Nat → Nat → Nat) : Prop where
  wf : WF d s
  tree : TreeOk s
  hooks : DefaultHooks s
  counted : Counted s g

/-- The outstanding direct joins in the forest `demo`: PID 5 on the modules 1
and 3, PID 6 on module 1. -/
def demo_direct : Nat → Nat → Nat :=
  fun n p => if (n = 3 ∧ p = 5) ∨ (n = 1 ∧ p = 5) ∨ (n = 1 ∧ p = 6) then 1 else 0

/-! ## Channel module: the custom tables read back -/

/-- The number of bytes by which a descriptor loop of `on_pmt` advances the
write offset for the descriptors at `positions`: each kept descriptor counts
with its `uint8_t size = length + 2`. -/
def desc_sizes (cas : Bool) (buf : Nat → Nat) (positions : List Nat) : Nat :=
  ((kept_descs cas buf positions).map (fun y => (buf (y + 1) + 2) % 256)).sum

/-- Every custom PID of the map rules of the channel satisfies `Q`. -/
def MapVals (Q : Nat → Prop) (mod : module_data_t) : Prop :=
  ∀ l, mod.map = some l → ∀ item ∈ l, Q item.custom_pid

/-- The map rules and the bytes of the custom PMT are carried over from the
channel record `mod` to `mod'`: every property of the custom PIDs of the rules
is kept, and the custom PMT has the same bytes and the same size. -/
structure SameCustom (mod mod' : module_data_t) : Prop where
  rules : ∀ Q : Nat → Prop, MapVals Q mod → MapVals Q mod'
  buffer : mod'.custom_pmt.buffer = mod.custom_pmt.buffer
  size : mod'.custom_pmt.buffer_size = mod.custom_pmt.buffer_size

/-- The PMT section `psi` lists the PID `p` as an elementary stream: one of its
entries, read with the entry macros, has the PID `p`. -/
def pmt_lists (psi : ts_psi_t) (p : Nat) : Prop :=
  ∃ o ∈ pmt_items psi, PMT_ITEM_GET_PID psi.buffer o = p

/-- The channel record drops the PID `p`: it is marked FILTERED in `pid_map`,
no map rule has `p` as its custom PID (the custom PIDs are PIDs, as
`module_init` checks), and the custom PMT does not list `p`. -/
structure Spared (p : Nat) (mod : module_data_t) : Prop where
  marker : mod.pid_map p = TS_MAX_PIDS
  rules : MapVals (fun q => q ≠ p ∧ q < TS_MAX_PIDS) mod
  unlisted : ¬ pmt_lists mod.custom_pmt p

/-- If `on_pmt` rebuilds the custom PMT from the section assembled in
`mod->pmt`, the section has at most 1024 bytes, its program descriptors end
inside it, and the descriptors of each entry take fewer than 256 bytes in the
copy. -/
def pmt_short (mod : module_data_t) : Prop :=
  pmt_is_new mod → mod.pmt.buffer_size ≤ 1024 ∧ PMT_ITEMS_FIRST mod.pmt ≤ mod.pmt.buffer_size ∧
    ∀ ptr ∈ pmt_items mod.pmt,
      desc_sizes mod.config.cas mod.pmt.buffer (item_descs mod.pmt ptr) < 256

/-- The PMT sections that the packet `ts` completes are short, each in the
channel record in which `on_pmt` is called on it. -/
def packet_short (lib : mpegts_lib) (fuel : Nat) (s : State) (self : Nat)
    (mod : module_data_t) (ts : List Nat) (secs : List ((Nat → Nat) × Nat)) : Prop :=
  match mod.stream (TS_GET_PID ts) with
  | .PMT =>
    psi_mux_spares
      (fun m sec => { m with pmt := { m.pmt with buffer := sec.1, buffer_size := sec.2 } })
      (fun s1 m => on_pmt lib fuel s1 self m) pmt_short secs s mod
  | _ => True

/-- The PMT sections of a run of packets are short: those of each packet are,
in the state in which it arrives. -/
def run_short (lib : mpegts_lib) (fuel : Nat) (self : Nat) :
    List (List Nat × List ((Nat → Nat) × Nat)) → State → module_data_t → Prop
  | [], _, _ => True
  | x :: rest, s, mod =>
    packet_short lib fuel s self mod x.1 x.2 ∧
      match on_ts lib fuel s self mod x.1 x.2 with
      | .error _ => True
      | .ok (s1, mod1) => run_short lib fuel self rest s1 mod1

/-- The channel record of the example after the PAT, with the PID `0x200`
filtered and a map whose rule `video` sends a video stream to that PID
`0x200`. -/
def chan_mod_map_target : module_data_t :=
  { chan_mod_pat with
    map := some [{ type := str_video, origin_pid := 0, custom_pid := 0x200, is_set := false }],
    pid_map := fun p => if p = 0x200 then TS_MAX_PIDS else 0 }

/-- A CAT with one CA descriptor whose CA PID is `0x102`, with its CRC. -/
def cat_demo : List Nat :=
  [0x01, 0xB0, 0x0F, 0xFF, 0xFF, 0xC1, 0x00, 0x00, 0x09, 0x04, 0x0B, 0x00, 0xE1, 0x02,
   0x62, 0x0A, 0xFB, 0x4F]

/-- The channel record with the section `bytes` assembled in `mod->cat`. -/
def load_cat (mod : module_data_t) (bytes : List Nat) : module_data_t :=
  { mod with cat := { mod.cat with buffer := fun k => bytes.getD k 0,
                                   buffer_size := bytes.length } }

/-- A PMT of program 10 with one entry, a private stream on PID `0x101`, that
carries 256 bytes of descriptors (`ES_info_length` 256): one of a single byte,
whose three bytes `05 01 02` read as the head of an entry with the PID
`0x102`, and one of 251 bytes, with its CRC. -/
def pmt_desc_as_entry : List Nat :=
  [0x02, 0xB1, 0x12, 0x00, 0x0A, 0xC1, 0x00, 0x00, 0xE1, 0x01, 0xF0, 0x00,
   0x06, 0xE1, 0x01, 0xF1, 0x00] ++
  [0x05, 0x01, 0x02] ++ (0x05 :: 251 :: List.replicate 251 0) ++
  [0x21, 0x5A, 0x2C, 0xDA]

/-! # Theorems -/

/-! ## Links and hooks are never changed by the demux operations -/

theorem sameShape_refl (s : State) : SameShape s s := fun _ => rfl

theorem sameShape_trans {a b c : State} (h1 : SameShape a b) (h2 : SameShape b c) :
    SameShape a c := fun n => (h2 n).trans (h1 n)

theorem sameShape_set {s : State} {mod : Nat} {st st' : module_stream_t}
    (h : s.stream mod = some st) (hs : shape st' = shape st) : SameShape s (s.set mod st') := by
  intro n
  by_cases hn : n = mod
  · subst hn; simp [State.set, h, hs]
  · simp [State.set, Function.update_noteq hn]

theorem sameShape_emit (s : State) (e : Event) : SameShape s (s.emit e) := fun _ => rfl

theorem shape_pid_incr (st : module_stream_t) (pid : Nat) : shape (pid_incr st pid) = shape st := rfl

theorem shape_pid_decr (st : module_stream_t) (pid : Nat) : shape (pid_decr st pid) = shape st := rfl

theorem SameShape.back {s s' : State} (h : SameShape s s') {n : Nat} {st' : module_stream_t}
    (hn : s'.stream n = some st') : ∃ st, s.stream n = some st ∧ shape st = shape st' := by
  have := h n
  rw [hn] at this
  cases hs : s.stream n with
  | none => simp [hs] at this
  | some st => exact ⟨st, rfl, by simpa [hs] using this.symm⟩

theorem SameShape.fwd {s s' : State} (h : SameShape s s') {n : Nat} {st : module_stream_t}
    (hn : s.stream n = some st) : ∃ st', s'.stream n = some st' ∧ shape st' = shape st := by
  have := h n
  rw [hn] at this
  cases hs : s'.stream n with
  | none => simp [hs] at this
  | some st' => exact ⟨st', rfl, by simpa [hs] using this⟩

theorem demux_shape (fuel : Nat) : ∀ (s : State) (mod pid : Nat) (s' : State),
    (module_demux_join fuel s mod pid = .ok s' → SameShape s s') ∧
    (module_demux_leave fuel s mod pid = .ok s' → SameShape s s') := by
  induction fuel with
  | zero => intro s mod pid s'; simp [module_demux_join, module_demux_leave]
  | succ fuel ih =>
    intro s mod pid s'
    have hinv : ∀ (cb : demux_callback_t) (t : State) (m : Nat),
        demux_invoke (module_demux_join fuel) (module_demux_leave fuel) cb t m pid = .ok s' →
        SameShape t s' := by
      intro cb t m h
      cases cb with
      | null => simp [demux_invoke] at h
      | demux_join => exact (ih t m pid s').1 h
      | demux_leave => exact (ih t m pid s').2 h
      | foreign f =>
        simp only [demux_invoke, Except.ok.injEq] at h
        subst h; exact sameShape_refl _
    constructor
    · intro h
      simp only [module_demux_join] at h
      split at h
      · cases h
      · split at h
        · cases h
        · rename_i st hst
          have h1 : SameShape s (s.set mod (pid_incr st pid)) :=
            sameShape_set hst (shape_pid_incr st pid)
          split at h
          · split at h
            · cases h; exact h1
            · split at h
              · cases h
              · split at h
                · cases h; exact h1
                · exact sameShape_trans h1 (sameShape_trans (sameShape_emit _ _) (hinv _ _ _ h))
          · cases h; exact h1
    · intro h
      simp only [module_demux_leave] at h
      split at h
      · cases h
      · split at h
        · cases h
        · rename_i st hst
          have h1 : SameShape s (s.set mod (pid_decr st pid)) :=
            sameShape_set hst (shape_pid_decr st pid)
          split at h
          · split at h
            · split at h
              · cases h; exact h1
              · split at h
                · cases h
                · split at h
                  · cases h; exact h1
                  · exact sameShape_trans h1 (sameShape_trans (sameShape_emit _ _) (hinv _ _ _ h))
            · cases h; exact h1
          · cases h; exact sameShape_emit _ _

/-! ## Effect of the demux operations in a ranked forest -/

theorem WF.of_shape {d : Nat → Nat} {s s' : State} (hw : WF d s) (h : SameShape s s')
    (hb : ∀ n st p, s'.stream n = some st → st.pid_list p < 256) : WF d s' := by
  refine ⟨?_, hb⟩
  intro n st' m hn hp
  obtain ⟨st, hst, hsh⟩ := h.back hn
  have hpar : st.parent = some m := by
    have := congrArg Prod.fst hsh
    simp only [shape] at this
    rw [this, hp]
  obtain ⟨⟨ps, hps⟩, hlt⟩ := hw.ranked n st m hst hpar
  obtain ⟨ps', hps', _⟩ := h.fwd hps
  exact ⟨⟨ps', hps'⟩, hlt⟩

theorem Effect.below {d : Nat → Nat} {s s' : State} {mod : Nat} {F : (Nat → Nat) → (Nat → Nat)}
    {direct : List Event} (h : Effect d s s' mod F direct) : Below d (d mod) s s' := by
  refine ⟨h.shape, ?_, h.bytes, ?_⟩
  · intro n hn
    exact h.frame n (fun e => by subst e; exact Nat.lt_irrefl _ hn) (Nat.le_of_lt hn)
  · obtain ⟨evs, h1, _, h3⟩ := h.trace
    exact ⟨evs, h1, h3⟩

theorem Effect.wf {d : Nat → Nat} {s s' : State} {mod : Nat} {F : (Nat → Nat) → (Nat → Nat)}
    {direct : List Event} (h : Effect d s s' mod F direct) (hw : WF d s) : WF d s' :=
  hw.of_shape h.shape h.bytes

theorem below_refl {d : Nat → Nat} {s : State} (k : Nat)
    (hb : ∀ n st p, s.stream n = some st → st.pid_list p < 256) : Below d k s s :=
  ⟨sameShape_refl s, fun _ _ => rfl, hb, ⟨[], by simp, by simp⟩⟩

theorem by_actor_append (mod : Nat) (a b : List Event) :
    by_actor mod (a ++ b) = by_actor mod a ++ by_actor mod b := by
  simp [by_actor]

theorem by_actor_self {mod : Nat} {evs : List Event} (h : ∀ e ∈ evs, e.actor = mod) :
    by_actor mod evs = evs := by
  simp only [by_actor, List.filter_eq_self]
  intro e he; simp [h e he]

theorem by_actor_lower {d : Nat → Nat} {mod k : Nat} {evs : List Event}
    (h : ∀ e ∈ evs, d e.actor ≤ k) (hk : k < d mod) : by_actor mod evs = [] := by
  simp only [by_actor, List.filter_eq_nil_iff]
  intro e he
  have := h e he
  simp only [decide_eq_true_eq]
  intro heq
  rw [heq] at this
  omega

/-- The local part of a demux call: the record of `mod` is replaced and `mod`
performs `evs`. -/
theorem effect_local {d : Nat → Nat} {s s1 : State} {mod : Nat} {st st1 : module_stream_t}
    {F : (Nat → Nat) → (Nat → Nat)} {evs : List Event}
    (hw : WF d s) (hst : s.stream mod = some st)
    (h1 : s1.stream = Function.update s.stream mod (some st1))
    (ht : s1.trace = s.trace ++ evs)
    (hsh : shape st1 = shape st) (hb : ∀ p, st1.pid_list p < 256)
    (hF : st1.pid_list = F st.pid_list) (hev : ∀ e ∈ evs, e.actor = mod) :
    Effect d s s1 mod F evs := by
  refine ⟨?_, ?_, ?_, ?_, ⟨evs, ht, by_actor_self hev, ?_⟩⟩
  · intro n
    rw [h1]
    by_cases hn : n = mod
    · subst hn; simp [hst, hsh]
    · simp [Function.update_noteq hn]
  · intro n hn _
    rw [h1, Function.update_noteq hn]
  · intro st0 h0
    rw [hst] at h0; cases h0
    exact ⟨st1, by rw [h1]; simp, hF⟩
  · intro n st0 p h0
    rw [h1] at h0
    by_cases hn : n = mod
    · subst hn
      simp only [Function.update_same, Option.some.injEq] at h0
      subst h0; exact hb p
    · rw [Function.update_noteq hn] at h0
      exact hw.bytes n st0 p h0
  · intro e he
    rw [hev e he]

/-- A nested call on a module of smaller rank does not disturb the local
part. -/
theorem effect_nested {d : Nat → Nat} {s s1 s' : State} {mod k : Nat}
    {F : (Nat → Nat) → (Nat → Nat)} {evs : List Event}
    (h1 : Effect d s s1 mod F evs) (h2 : Below d k s1 s') (hk : k < d mod) :
    Effect d s s' mod F evs := by
  refine ⟨sameShape_trans h1.shape h2.shape, ?_, ?_, h2.bytes, ?_⟩
  · intro n hn hle
    rw [h2.frame n (by omega), h1.frame n hn hle]
  · intro st hst
    obtain ⟨st', hst', hF⟩ := h1.self st hst
    exact ⟨st', by rw [h2.frame mod hk, hst'], hF⟩
  · obtain ⟨e1, ht1, ha1, hr1⟩ := h1.trace
    obtain ⟨e2, ht2, hr2⟩ := h2.trace
    refine ⟨e1 ++ e2, by rw [ht2, ht1, List.append_assoc], ?_, ?_⟩
    · rw [by_actor_append, ha1, by_actor_lower hr2 hk, List.append_nil]
    · intro e he
      rcases List.mem_append.mp he with h | h
      · exact hr1 e h
      · have := hr2 e h; omega

theorem emit_wf {d : Nat → Nat} {s : State} (hw : WF d s) (e : Event) : WF d (s.emit e) :=
  ⟨hw.ranked, hw.bytes⟩

theorem incr_lt (pl : Nat → Nat) (pid p : Nat) (h : pl p < 256) : incr_step pl pid p < 256 := by
  unfold incr_step
  by_cases hp : p = pid
  · subst hp; simp only [Function.update_same]; omega
  · simp only [Function.update_noteq hp]; exact h

theorem decr_lt (pl : Nat → Nat) (pid p : Nat) (h : pl p < 256) :
    Function.update pl pid (pl pid - 1) p < 256 := by
  by_cases hp : p = pid
  · subst hp; simp only [Function.update_same]; omega
  · simp only [Function.update_noteq hp]; exact h

/-- In a ranked forest, with fuel above the rank of the module, both demux
operations return, and their effect is the local counter step followed by
activity strictly below the module. -/
theorem demux_effect (d : Nat → Nat) (fuel : Nat) :
    ∀ (s : State) (mod pid : Nat) (st : module_stream_t), WF d s → pid < TS_MAX_PIDS →
      s.stream mod = some st → d mod < fuel →
      (∃ s', module_demux_join fuel s mod pid = .ok s' ∧
        Effect d s s' mod (fun pl => incr_step pl pid) (join_direct s mod pid)) ∧
      (∃ s', module_demux_leave fuel s mod pid = .ok s' ∧
        Effect d s s' mod (fun pl => leave_step pl pid) (leave_direct s mod pid)) := by
  induction fuel with
  | zero => intro s mod pid st _ _ _ h; omega
  | succ fuel ih =>
    intro s mod pid st hw hpid hst hfuel
    have hvalid : ts_pid_valid pid = true := by simp [ts_pid_valid, hpid]
    -- nested invocation of a hook of the parent
    have hinv : ∀ (cb : demux_callback_t) (t : State) (par : Nat) (ps : module_stream_t),
        cb ≠ .null → WF d t → t.stream par = some ps → d par < d mod →
        ∃ s', demux_invoke (module_demux_join fuel) (module_demux_leave fuel) cb t par pid
          = .ok s' ∧ Below d (d par) t s' := by
      intro cb t par ps hcb hwt hps hlt
      cases cb with
      | null => exact absurd rfl hcb
      | demux_join =>
        obtain ⟨s', h1, h2⟩ := (ih t par pid ps hwt hpid hps (by omega)).1
        exact ⟨s', h1, h2.below⟩
      | demux_leave =>
        obtain ⟨s', h1, h2⟩ := (ih t par pid ps hwt hpid hps (by omega)).2
        exact ⟨s', h1, h2.below⟩
      | foreign f => exact ⟨t, rfl, below_refl _ hwt.bytes⟩
    constructor
    · -- module_demux_join
      have hloc : ∀ evs : List Event, (∀ e ∈ evs, e.actor = mod) →
          Effect d s { (s.set mod (pid_incr st pid)) with trace := s.trace ++ evs } mod
            (fun pl => incr_step pl pid) evs := fun evs hev =>
        effect_local hw hst rfl rfl (shape_pid_incr st pid)
          (fun p => incr_lt _ _ _ (hw.bytes mod st p hst)) rfl hev
      simp only [module_demux_join, hvalid, hst, Bool.true_eq_false, if_false]
      by_cases hone : (pid_incr st pid).pid_list pid = 1
      · have hone' : (st.pid_list pid + 1) % 256 = 1 := by
          simpa [pid_incr] using hone
        simp only [hone, if_true]
        cases hpar : st.parent with
        | none =>
          have hp1 : (pid_incr st pid).parent = none := hpar
          simp only [hp1]
          refine ⟨_, rfl, ?_⟩
          have : join_direct s mod pid = [] := by
            simp [join_direct, hst, hone', hook_target, hpar]
          rw [this]
          simpa [State.set] using hloc [] (by simp)
        | some par =>
          have hp1 : (pid_incr st pid).parent = some par := hpar
          obtain ⟨⟨ps, hps⟩, hlt⟩ := hw.ranked mod st par hst hpar
          have hne : par ≠ mod := fun e => by subst e; exact Nat.lt_irrefl _ hlt
          have hps1 : (s.set mod (pid_incr st pid)).stream par = some ps := by
            simp [State.set, Function.update_noteq hne, hps]
          simp only [hp1, hps1]
          by_cases hnull : ps.join_pid = .null
          · simp only [hnull, if_true]
            refine ⟨_, rfl, ?_⟩
            have : join_direct s mod pid = [] := by
              simp [join_direct, hst, hone', hook_target, hpar, hps, hnull]
            rw [this]
            simpa [State.set] using hloc [] (by simp)
          · simp only [hnull, if_false]
            have hdir : join_direct s mod pid = [.join_pid mod par pid] := by
              simp [join_direct, hst, hone', hook_target, hpar, hps, hnull]
            have hl := hloc [.join_pid mod par pid] (by simp [Event.actor])
            have hwt : WF d ((s.set mod (pid_incr st pid)).emit (.join_pid mod par pid)) :=
              hl.wf hw
            obtain ⟨s', hs', hb⟩ := hinv ps.join_pid _ par ps hnull hwt
              (by simpa [State.emit] using hps1) hlt
            refine ⟨s', hs', ?_⟩
            rw [hdir]
            exact effect_nested hl hb hlt
      · have hone' : ¬ (st.pid_list pid + 1) % 256 = 1 := by
          simpa [pid_incr] using hone
        simp only [hone, if_false]
        refine ⟨_, rfl, ?_⟩
        have : join_direct s mod pid = [] := by
          simp [join_direct, hst, hone']
        rw [this]
        simpa [State.set] using hloc [] (by simp)
    · -- module_demux_leave
      simp only [module_demux_leave, hvalid, hst, Bool.true_eq_false, if_false]
      by_cases hpos : 0 < st.pid_list pid
      · have hF : (pid_decr st pid).pid_list = leave_step st.pid_list pid := by
          simp [pid_decr, leave_step, hpos]
        have hloc : ∀ evs : List Event, (∀ e ∈ evs, e.actor = mod) →
            Effect d s { (s.set mod (pid_decr st pid)) with trace := s.trace ++ evs } mod
              (fun pl => leave_step pl pid) evs := fun evs hev =>
          effect_local hw hst rfl rfl (shape_pid_decr st pid)
            (fun p => decr_lt _ _ _ (hw.bytes mod st p hst)) hF hev
        simp only [hpos, if_true]
        by_cases hzero : (pid_decr st pid).pid_list pid = 0
        · have hzero' : st.pid_list pid - 1 = 0 := by
            simpa [pid_decr] using hzero
          simp only [hzero, if_true]
          cases hpar : st.parent with
          | none =>
            have hp1 : (pid_decr st pid).parent = none := hpar
            simp only [hp1]
            refine ⟨_, rfl, ?_⟩
            have : leave_direct s mod pid = [] := by
              simp [leave_direct, hst, hpos, hzero', hook_target, hpar]
            rw [this]
            simpa [State.set] using hloc [] (by simp)
          | some par =>
            have hp1 : (pid_decr st pid).parent = some par := hpar
            obtain ⟨⟨ps, hps⟩, hlt⟩ := hw.ranked mod st par hst hpar
            have hne : par ≠ mod := fun e => by subst e; exact Nat.lt_irrefl _ hlt
            have hps1 : (s.set mod (pid_decr st pid)).stream par = some ps := by
              simp [State.set, Function.update_noteq hne, hps]
            simp only [hp1, hps1]
            by_cases hnull : ps.leave_pid = .null
            · simp only [hnull, if_true]
              refine ⟨_, rfl, ?_⟩
              have : leave_direct s mod pid = [] := by
                simp [leave_direct, hst, hpos, hzero', hook_target, hpar, hps, hnull]
              rw [this]
              simpa [State.set] using hloc [] (by simp)
            · simp only [hnull, if_false]
              have hdir : leave_direct s mod pid = [.leave_pid mod par pid] := by
                simp [leave_direct, hst, hpos, hzero', hook_target, hpar, hps, hnull]
              have hl := hloc [.leave_pid mod par pid] (by simp [Event.actor])
              have hwt : WF d ((s.set mod (pid_decr st pid)).emit (.leave_pid mod par pid)) :=
                hl.wf hw
              obtain ⟨s', hs', hb⟩ := hinv ps.leave_pid _ par ps hnull hwt
                (by simpa [State.emit] using hps1) hlt
              refine ⟨s', hs', ?_⟩
              rw [hdir]
              exact effect_nested hl hb hlt
        · have hzero' : ¬ st.pid_list pid - 1 = 0 := by
            simpa [pid_decr] using hzero
          simp only [hzero, if_false]
          refine ⟨_, rfl, ?_⟩
          have : leave_direct s mod pid = [] := by
            simp [leave_direct, hst, hpos, hzero']
          rw [this]
          simpa [State.set] using hloc [] (by simp)
      · simp only [hpos, if_false]
        refine ⟨_, rfl, ?_⟩
        have hdir : leave_direct s mod pid = [.double_leave mod pid] := by
          simp [leave_direct, hst, hpos]
        rw [hdir]
        have hF : st.pid_list = leave_step st.pid_list pid := by
          simp [leave_step, hpos]
        refine effect_local hw hst ?_ rfl rfl (fun p => hw.bytes mod st p hst) hF
          (by simp [Event.actor])
        simp [State.emit, hst]

/-! ## Effect of the loops of attach and destroy -/

theorem effect_refl {d : Nat → Nat} {s : State} (mod : Nat)
    (hb : ∀ n st p, s.stream n = some st → st.pid_list p < 256) :
    Effect d s s mod (fun pl => pl) [] :=
  ⟨sameShape_refl s, fun _ _ _ => rfl, fun st h => ⟨st, h, rfl⟩, hb,
    ⟨[], by simp, rfl, by simp⟩⟩

theorem effect_trans {d : Nat → Nat} {s s1 s2 : State} {mod : Nat}
    {F G : (Nat → Nat) → (Nat → Nat)} {e1 e2 : List Event}
    (h1 : Effect d s s1 mod F e1) (h2 : Effect d s1 s2 mod G e2) :
    Effect d s s2 mod (fun pl => G (F pl)) (e1 ++ e2) := by
  refine ⟨sameShape_trans h1.shape h2.shape, ?_, ?_, h2.bytes, ?_⟩
  · intro n hn hle
    rw [h2.frame n hn hle, h1.frame n hn hle]
  · intro st hst
    obtain ⟨st1, hst1, hF⟩ := h1.self st hst
    obtain ⟨st2, hst2, hG⟩ := h2.self st1 hst1
    exact ⟨st2, hst2, by rw [hG, hF]⟩
  · obtain ⟨a, ha, haa, har⟩ := h1.trace
    obtain ⟨b, hb, hba, hbr⟩ := h2.trace
    refine ⟨a ++ b, by rw [hb, ha, List.append_assoc], by rw [by_actor_append, haa, hba], ?_⟩
    intro e he
    rcases List.mem_append.mp he with h | h
    · exact har e h
    · exact hbr e h

theorem Effect.congr {d : Nat → Nat} {s s' : State} {mod : Nat}
    {F G : (Nat → Nat) → (Nat → Nat)} {e1 e2 : List Event}
    (h : Effect d s s' mod F e1)
    (hF : ∀ st, s.stream mod = some st → F st.pid_list = G st.pid_list) (he : e1 = e2) :
    Effect d s s' mod G e2 := by
  subst he
  refine ⟨h.shape, h.frame, ?_, h.bytes, h.trace⟩
  intro st hst
  obtain ⟨st', h1, h2⟩ := h.self st hst
  exact ⟨st', h1, by rw [h2, hF st hst]⟩

theorem hook_target_shape {s s' : State} (h : SameShape s s') (mod : Nat) :
    hook_target s' mod (fun ps => ps.leave_pid) = hook_target s mod (fun ps => ps.leave_pid) ∧
    hook_target s' mod (fun ps => ps.join_pid) = hook_target s mod (fun ps => ps.join_pid) := by
  have key : ∀ n, (match s'.stream n with
      | none => none | some st => some (shape st)) = (match s.stream n with
      | none => none | some st => some (shape st)) := by
    intro n
    have := h n
    cases h1 : s'.stream n <;> cases h2 : s.stream n <;> simp_all
  unfold hook_target
  have hm := key mod
  cases h1 : s'.stream mod with
  | none =>
    cases h2 : s.stream mod with
    | none => simp
    | some st => rw [h1, h2] at hm; simp at hm
  | some st' =>
    cases h2 : s.stream mod with
    | none => rw [h1, h2] at hm; simp at hm
    | some st =>
      rw [h1, h2] at hm
      simp only [Option.some.injEq, shape, Prod.mk.injEq] at hm
      obtain ⟨hp, -⟩ := hm
      simp only [hp]
      cases hpar : st.parent with
      | none => simp
      | some par =>
        have hq := key par
        cases h3 : s'.stream par with
        | none =>
          cases h4 : s.stream par with
          | none => simp [h3, h4]
          | some ps => rw [h3, h4] at hq; simp at hq
        | some ps' =>
          cases h4 : s.stream par with
          | none => rw [h3, h4] at hq; simp at hq
          | some ps =>
            rw [h3, h4] at hq
            simp only [Option.some.injEq, shape, Prod.mk.injEq] at hq
            obtain ⟨-, -, -, hj, hl⟩ := hq
            simp [h3, h4, hj, hl]

theorem leave_while_effect (d : Nat → Nat) (fuel : Nat) :
    ∀ (n : Nat) (s : State) (mod i saved : Nat) (st : module_stream_t), WF d s →
      i < TS_MAX_PIDS → s.stream mod = some st → d mod < fuel → st.pid_list i < n →
      saved < 256 →
      ∃ s', leave_while fuel n s mod i saved = .ok (s', (saved + st.pid_list i) % 256) ∧
        Effect d s s' mod (fun pl => Function.update pl i 0) (drain_direct s mod i) := by
  intro n
  induction n with
  | zero => intro s mod i saved st _ _ _ _ h; omega
  | succ n ih =>
    intro s mod i saved st hw hi hst hfuel hn hsaved
    have hvalid : ts_pid_valid i = true := by simp [ts_pid_valid, hi]
    simp only [leave_while, module_demux_check, hvalid, hst, Bool.true_eq_false, if_false]
    by_cases hpos : 0 < st.pid_list i
    · simp only [hpos, decide_True]
      obtain ⟨s1, hs1, he1⟩ := (demux_effect d fuel s mod i st hw hi hst hfuel).2
      simp only [hs1]
      obtain ⟨st1, hst1, hpl1⟩ := he1.self st hst
      have hk1 : st1.pid_list i = st.pid_list i - 1 := by
        rw [hpl1]; simp [leave_step, hpos]
      obtain ⟨s', hs', he'⟩ := ih s1 mod i ((saved + 1) % 256) st1 (he1.wf hw) hi hst1 hfuel
        (by omega) (by omega)
      refine ⟨s', ?_, ?_⟩
      · rw [hs']
        congr 2
        rw [hk1]
        omega
      · refine (effect_trans he1 he').congr ?_ ?_
        · intro st0 _
          show Function.update (leave_step st0.pid_list i) i 0 = Function.update st0.pid_list i 0
          unfold leave_step
          split <;> simp
        · have hts := (hook_target_shape he1.shape mod).1
          simp only [leave_direct, drain_direct, hst, hst1, hpos, hts, if_true, hk1]
          by_cases h1 : st.pid_list i - 1 = 0
          · simp [h1]
          · have h2 : 0 < st.pid_list i - 1 := by omega
            simp [h1, h2]
    · simp only [hpos, decide_False]
      have hz : st.pid_list i = 0 := by omega
      refine ⟨s, ?_, ?_⟩
      · congr 2
        rw [hz]; omega
      · refine (effect_refl mod hw.bytes).congr ?_ ?_
        · intro st0 h0
          rw [hst] at h0; cases h0
          rw [← hz]; simp
        · simp [drain_direct, hst, hpos]

theorem join_times_effect (d : Nat → Nat) (fuel : Nat) :
    ∀ (k : Nat) (s : State) (child i : Nat) (st : module_stream_t), WF d s →
      i < TS_MAX_PIDS → s.stream child = some st → d child < fuel →
      st.pid_list i + k < 256 →
      ∃ s', join_times fuel k s child i = .ok s' ∧
        Effect d s s' child (fun pl => Function.update pl i (pl i + k))
          (if st.pid_list i = 0 ∧ 0 < k then
            (match hook_target s child (fun ps => ps.join_pid) with
              | some par => [.join_pid child par i]
              | none => [])
          else []) := by
  intro k
  induction k with
  | zero =>
    intro s child i st hw hi hst hfuel hk
    refine ⟨s, rfl, (effect_refl child hw.bytes).congr ?_ ?_⟩
    · intro st0 _; simp
    · simp
  | succ k ih =>
    intro s child i st hw hi hst hfuel hk
    obtain ⟨s1, hs1, he1⟩ := (demux_effect d fuel s child i st hw hi hst hfuel).1
    simp only [join_times, hs1]
    obtain ⟨st1, hst1, hpl1⟩ := he1.self st hst
    have hk1 : st1.pid_list i = st.pid_list i + 1 := by
      rw [hpl1]; simp only [incr_step, Function.update_same]; omega
    obtain ⟨s', hs', he'⟩ := ih s1 child i st1 (he1.wf hw) hi hst1 hfuel (by omega)
    refine ⟨s', hs', (effect_trans he1 he').congr ?_ ?_⟩
    · intro st0 h0
      rw [hst] at h0; cases h0
      simp only [incr_step, Function.update_same, Function.update_idem]
      have : (st.pid_list i + 1) % 256 + k = st.pid_list i + (k + 1) := by omega
      rw [this]
    · have h1 : ¬ (st1.pid_list i = 0 ∧ 0 < k) := fun h => by omega
      simp only [h1, if_false, List.append_nil, join_direct, hst]
      by_cases hz : st.pid_list i = 0
      · simp [hz]
      · have : ¬ (st.pid_list i + 1) % 256 = 1 := by omega
        simp [hz, this]

theorem leave_all_effect (d : Nat → Nat) (fuel : Nat) :
    ∀ (pids : List Nat) (s : State) (mod : Nat) (saved : Nat → Nat) (st : module_stream_t),
      WF d s → (∀ i ∈ pids, i < TS_MAX_PIDS) → pids.Nodup → s.stream mod = some st →
      d mod < fuel → 256 ≤ fuel → (∀ i ∈ pids, saved i = 0) →
      ∃ s' saved', leave_all fuel pids s mod saved = .ok (s', saved') ∧
        Effect d s s' mod (fun pl p => if p ∈ pids then 0 else pl p)
          (drain_all_direct s mod pids) ∧
        ∀ p, saved' p = if p ∈ pids then st.pid_list p else saved p := by
  intro pids
  induction pids with
  | nil =>
    intro s mod saved st hw _ _ hst _ _ _
    refine ⟨s, saved, rfl, (effect_refl mod hw.bytes).congr ?_ ?_, ?_⟩
    · intro st0 _; simp
    · simp only [drain_all_direct, hst]
      split <;> simp
    · intro p; simp
  | cons i rest ih =>
    intro s mod saved st hw hval hnd hst hfuel h256 hsaved
    have hi : i < TS_MAX_PIDS := hval i (List.mem_cons_self _ _)
    have hk : st.pid_list i < 256 := hw.bytes mod st i hst
    obtain ⟨s1, hs1, he1⟩ := leave_while_effect d fuel fuel s mod i (saved i) st hw hi hst
      hfuel (by omega) (by rw [hsaved i (List.mem_cons_self _ _)]; omega)
    obtain ⟨st1, hst1, hpl1⟩ := he1.self st hst
    have hnd' := List.nodup_cons.mp hnd
    obtain ⟨s', saved', hs', he', hsv'⟩ := ih s1 mod
      (Function.update saved i ((saved i + st.pid_list i) % 256)) st1 (he1.wf hw)
      (fun j hj => hval j (List.mem_cons_of_mem _ hj)) hnd'.2 hst1 hfuel h256
      (by
        intro j hj
        have hne : j ≠ i := fun e => hnd'.1 (e ▸ hj)
        rw [Function.update_noteq hne]
        exact hsaved j (List.mem_cons_of_mem _ hj))
    refine ⟨s', saved', ?_, (effect_trans he1 he').congr ?_ ?_, ?_⟩
    · simp only [leave_all, hs1, hs']
    · intro st0 _
      funext p
      by_cases hp : p ∈ rest
      · simp [hp]
      · by_cases hpi : p = i
        · subst hpi; simp [hp]
        · simp [hp, hpi, Function.update_noteq hpi]
    · have hts := (hook_target_shape he1.shape mod).1
      simp only [drain_direct, drain_all_direct, hst, hst1, hts]
      have hfil : rest.filter (fun p => decide (0 < st1.pid_list p)) =
          rest.filter (fun p => decide (0 < st.pid_list p)) := by
        apply List.filter_congr
        intro p hp
        have hne : p ≠ i := fun e => hnd'.1 (e ▸ hp)
        rw [hpl1, Function.update_noteq hne]
      rw [hfil]
      cases hook_target s mod (fun ps => ps.leave_pid) with
      | none => simp
      | some par =>
        by_cases hpos : 0 < st.pid_list i
        · simp [hpos, List.filter_cons]
        · simp [hpos, List.filter_cons]
    · intro p
      rw [hsv' p]
      by_cases hp : p ∈ rest
      · have hne : p ≠ i := fun e => hnd'.1 (e ▸ hp)
        simp [hp, hpl1, Function.update_noteq hne]
      · by_cases hpi : p = i
        · subst hpi
          simp only [hp, if_false, Function.update_same, List.mem_cons, true_or, if_true]
          rw [hsaved p (List.mem_cons_self _ _)]
          omega
        · simp [hp, hpi, Function.update_noteq hpi]

theorem join_all_effect (d : Nat → Nat) (fuel : Nat) :
    ∀ (pids : List Nat) (s : State) (child : Nat) (saved : Nat → Nat) (st : module_stream_t),
      WF d s → (∀ i ∈ pids, i < TS_MAX_PIDS) → pids.Nodup → s.stream child = some st →
      d child < fuel → (∀ i ∈ pids, st.pid_list i = 0) → (∀ i, saved i < 256) →
      ∃ s', join_all fuel pids s child saved = .ok s' ∧
        Effect d s s' child (fun pl p => if p ∈ pids then saved p else pl p)
          (replay_direct s child pids saved) := by
  intro pids
  induction pids with
  | nil =>
    intro s child saved st hw _ _ hst _ _ _
    refine ⟨s, rfl, (effect_refl child hw.bytes).congr ?_ ?_⟩
    · intro st0 _; simp
    · simp only [replay_direct]
      split <;> simp
  | cons i rest ih =>
    intro s child saved st hw hval hnd hst hfuel hzero hsaved
    have hi : i < TS_MAX_PIDS := hval i (List.mem_cons_self _ _)
    have hz : st.pid_list i = 0 := hzero i (List.mem_cons_self _ _)
    obtain ⟨s1, hs1, he1⟩ := join_times_effect d fuel (saved i) s child i st hw hi hst hfuel
      (by rw [hz]; have := hsaved i; omega)
    obtain ⟨st1, hst1, hpl1⟩ := he1.self st hst
    have hnd' := List.nodup_cons.mp hnd
    obtain ⟨s', hs', he'⟩ := ih s1 child saved st1 (he1.wf hw)
      (fun j hj => hval j (List.mem_cons_of_mem _ hj)) hnd'.2 hst1 hfuel
      (by
        intro j hj
        have hne : j ≠ i := fun e => hnd'.1 (e ▸ hj)
        rw [hpl1, Function.update_noteq hne]
        exact hzero j (List.mem_cons_of_mem _ hj))
      hsaved
    refine ⟨s', ?_, (effect_trans he1 he').congr ?_ ?_⟩
    · simp only [join_all, hs1, hs']
    · intro st0 h0
      rw [hst] at h0; cases h0
      funext p
      by_cases hp : p ∈ rest
      · simp [hp]
      · by_cases hpi : p = i
        · subst hpi; simp [hp, hz]
        · simp [hp, hpi, Function.update_noteq hpi]
    · have hts := (hook_target_shape he1.shape child).2
      simp only [replay_direct, hts, hz, true_and]
      cases hook_target s child (fun ps => ps.join_pid) with
      | none => simp
      | some par =>
        by_cases hpos : 0 < saved i
        · simp [hpos, List.filter_cons]
        · simp [hpos, List.filter_cons]

/-! ## The "switch parents" block of attach -/

theorem relink_spec {d : Nat → Nat} {s1 : State} {child : Nat} {cs1 : module_stream_t}
    {mod : Option Nat} (hw : WF d s1) (hcs : s1.stream child = some cs1)
    (hmod : ∀ m, mod = some m →
      (∃ ps, s1.stream m = some ps) ∧ cs1.on_ts ≠ none ∧ d m < d child) :
    ∃ s2 s3, detach_parent s1 child = .ok s2 ∧ attach_parent s2 mod child = .ok s3 ∧
      s3.trace = s1.trace ∧
      ∀ n, s3.stream n = (s1.stream n).map (fun st => relink st n child cs1.parent mod) := by
  -- first half
  have h2 : ∃ s2, detach_parent s1 child = .ok s2 ∧ s2.trace = s1.trace ∧
      ∀ n, s2.stream n = (s1.stream n).map (fun st => relink st n child cs1.parent none) := by
    cases hpar : cs1.parent with
    | none =>
      refine ⟨s1, by simp [detach_parent, hcs, hpar], rfl, ?_⟩
      intro n
      cases hn : s1.stream n with
      | none => simp
      | some st =>
        by_cases hnc : n = child
        · subst hnc
          rw [hcs] at hn; cases hn
          cases cs1
          simp_all [relink]
        · simp [relink, hnc]
    | some par =>
      obtain ⟨⟨ps, hps⟩, hlt⟩ := hw.ranked child cs1 par hcs hpar
      have hne : par ≠ child := fun e => by subst e; exact Nat.lt_irrefl _ hlt
      refine ⟨_, by simp only [detach_parent, hcs, hpar, hps]; rfl, ?_, ?_⟩
      · simp [State.modify, hps, State.set, Function.update_noteq hne.symm, hcs]
      · intro n
        simp only [State.modify, hps, State.set, Function.update_noteq hne.symm, hcs]
        by_cases hnc : n = child
        · subst hnc
          simp [hcs, relink, hne.symm, hne]
        · rw [Function.update_noteq hnc]
          by_cases hnp : n = par
          · subst hnp
            simp [hps, relink, hnc]
          · rw [Function.update_noteq hnp]
            cases hn : s1.stream n with
            | none => simp
            | some st =>
              have : ¬ par = n := fun e => hnp e.symm
              simp [relink, hnc, this]
  obtain ⟨s2, hs2, ht2, hst2⟩ := h2
  refine ⟨s2, ?_⟩
  cases mod with
  | none => exact ⟨s2, hs2, rfl, ht2, hst2⟩
  | some m =>
    obtain ⟨⟨ps, hps⟩, hon, hlt⟩ := hmod m rfl
    have hne : m ≠ child := fun e => by subst e; exact Nat.lt_irrefl _ hlt
    have hm2 : s2.stream m = some (relink ps m child cs1.parent none) := by
      rw [hst2, hps]; rfl
    have hc2 : s2.stream child = some (relink cs1 child child cs1.parent none) := by
      rw [hst2, hcs]; rfl
    have hon2 : ¬ (relink cs1 child child cs1.parent none).on_ts = none := hon
    refine ⟨_, hs2, by simp only [attach_parent, hm2, hc2, hon2, if_false]; rfl, ?_, ?_⟩
    · simp [State.modify, hc2, State.set, Function.update_noteq hne, hm2, ht2]
    · intro n
      simp only [State.modify, hc2, State.set, Function.update_noteq hne, hm2]
      by_cases hnm : n = m
      · subst hnm
        simp [hps, relink, hne]
      · rw [Function.update_noteq hnm]
        by_cases hnc : n = child
        · subst hnc
          simp [hcs, relink, hne]
        · rw [Function.update_noteq hnc, hst2]
          cases hn : s1.stream n with
          | none => simp
          | some st =>
            have : ¬ m = n := fun e => hnm e.symm
            simp [relink, hnc, this]

theorem relink_wf {d : Nat → Nat} {s1 s3 : State} {child : Nat} {old mod : Option Nat}
    (hw : WF d s1)
    (hmod : ∀ m, mod = some m → (∃ ps, s1.stream m = some ps) ∧ d m < d child)
    (h3 : ∀ n, s3.stream n = (s1.stream n).map (fun st => relink st n child old mod)) :
    WF d s3 := by
  have hsome : ∀ m ps, s1.stream m = some ps → ∃ ps', s3.stream m = some ps' := by
    intro m ps hps
    exact ⟨_, by rw [h3, hps]; rfl⟩
  constructor
  · intro n st3 m hn hp
    rw [h3] at hn
    cases h1 : s1.stream n with
    | none => rw [h1] at hn; simp at hn
    | some st =>
      rw [h1] at hn
      simp only [Option.map_some', Option.some.injEq] at hn
      subst hn
      by_cases hnc : n = child
      · subst hnc
        have hm : mod = some m := by simpa [relink] using hp
        obtain ⟨⟨ps, hps⟩, hlt⟩ := hmod m hm
        exact ⟨hsome m ps hps, hlt⟩
      · have hm : st.parent = some m := by simpa [relink, hnc] using hp
        obtain ⟨⟨ps, hps⟩, hlt⟩ := hw.ranked n st m h1 hm
        exact ⟨hsome m ps hps, hlt⟩
  · intro n st3 p hn
    rw [h3] at hn
    cases h1 : s1.stream n with
    | none => rw [h1] at hn; simp at hn
    | some st =>
      rw [h1] at hn
      simp only [Option.map_some', Option.some.injEq] at hn
      subst hn
      exact hw.bytes n st p h1

/-- In a ranked forest, with enough fuel, `module_stream_attach` returns; its
run splits into the drain of the old chain, the switch of parents, and the
replay on the new chain. -/
theorem attach_effect {d : Nat → Nat} {fuel : Nat} {s : State} {mod : Option Nat} {child : Nat}
    {cs : module_stream_t} (hw : WF d s) (hcs : s.stream child = some cs)
    (hfuel : d child < fuel) (h256 : 256 ≤ fuel)
    (hmod : ∀ m, mod = some m →
      (∃ ps, s.stream m = some ps) ∧ cs.on_ts ≠ none ∧ d m < d child) :
    ∃ s1 s3 s' saved, module_stream_attach fuel s mod child = .ok s' ∧
      Effect d s s1 child (fun pl p => if p ∈ List.range TS_MAX_PIDS then 0 else pl p)
        (drain_all_direct s child (List.range TS_MAX_PIDS)) ∧
      (∀ p, saved p = if p ∈ List.range TS_MAX_PIDS then cs.pid_list p else 0) ∧
      s3.trace = s1.trace ∧
      (∀ n, s3.stream n = (s1.stream n).map (fun st => relink st n child cs.parent mod)) ∧
      WF d s3 ∧
      Effect d s3 s' child (fun pl p => if p ∈ List.range TS_MAX_PIDS then saved p else pl p)
        (replay_direct s3 child (List.range TS_MAX_PIDS) saved) := by
  have hval : ∀ i ∈ List.range TS_MAX_PIDS, i < TS_MAX_PIDS := fun i hi => List.mem_range.mp hi
  have hnd : (List.range TS_MAX_PIDS).Nodup := List.nodup_range _
  obtain ⟨s1, saved, hs1, he1, hsv⟩ := leave_all_effect d fuel (List.range TS_MAX_PIDS) s child
    (fun _ => 0) cs hw hval hnd hcs hfuel h256 (fun _ _ => rfl)
  have hw1 : WF d s1 := he1.wf hw
  obtain ⟨cs1, hcs1, hpl1⟩ := he1.self cs hcs
  have hsh1 : shape cs1 = shape cs := by
    have := he1.shape child
    rw [hcs1, hcs] at this
    simpa using this
  simp only [shape, Prod.mk.injEq] at hsh1
  obtain ⟨hpar1, hon1, -⟩ := hsh1
  have hmod1 : ∀ m, mod = some m →
      (∃ ps, s1.stream m = some ps) ∧ cs1.on_ts ≠ none ∧ d m < d child := by
    intro m hm
    obtain ⟨⟨ps, hps⟩, hon, hlt⟩ := hmod m hm
    obtain ⟨ps1, hps1, _⟩ := he1.shape.fwd hps
    exact ⟨⟨ps1, hps1⟩, by rw [hon1]; exact hon, hlt⟩
  obtain ⟨s2, s3, hs2, hs3, ht3, hst3⟩ := relink_spec hw1 hcs1 hmod1
  rw [hpar1] at hst3
  have hw3 : WF d s3 := relink_wf hw1 (fun m hm => ⟨(hmod1 m hm).1, (hmod1 m hm).2.2⟩) hst3
  have hcs3 : s3.stream child = some (relink cs1 child child cs.parent mod) := by
    rw [hst3, hcs1]; rfl
  have hsaved : ∀ i, saved i < 256 := by
    intro i
    rw [hsv i]
    split
    · exact hw.bytes child cs i hcs
    · omega
  obtain ⟨s', hs', he3⟩ := join_all_effect d fuel (List.range TS_MAX_PIDS) s3 child saved _ hw3
    hval hnd hcs3 hfuel
    (by
      intro i hi
      show cs1.pid_list i = 0
      rw [hpl1]; simp only [hi, if_true])
    hsaved
  refine ⟨s1, s3, s', saved, ?_, he1, hsv, ht3, hst3, hw3, he3⟩
  simp only [module_stream_attach, hs1, hs2, hs3, hs']

/-! ## The example forest -/

theorem demo_stream_child : demo.stream 1 = some demo_child := by
  simp [demo, demo_child]

theorem demo_stream_root : demo.stream 0 = some demo_root := by
  simp [demo, demo_root]

theorem demo_stream_other : demo.stream 2 = some (fresh (some 12)) := by
  simp [demo]

theorem demo_stream_leaf : demo.stream 3 = some demo_leaf := by
  simp [demo, demo_leaf]

theorem demo_cases {n : Nat} {st : module_stream_t} (h : demo.stream n = some st) :
    (n = 0 ∧ st = demo_root) ∨ (n = 1 ∧ st = demo_child) ∨
    (n = 2 ∧ st = fresh (some 12)) ∨ (n = 3 ∧ st = demo_leaf) := by
  simp only [demo] at h
  split at h
  · cases h; exact Or.inl ⟨by assumption, rfl⟩
  · split at h
    · cases h; exact Or.inr (Or.inl ⟨by assumption, rfl⟩)
    · split at h
      · cases h; exact Or.inr (Or.inr (Or.inl ⟨by assumption, rfl⟩))
      · split at h
        · cases h; exact Or.inr (Or.inr (Or.inr ⟨by assumption, rfl⟩))
        · cases h

theorem demo_wf_of (d : Nat → Nat) (h01 : d 0 < d 1) (h13 : d 1 < d 3) : WF d demo := by
  constructor
  · intro n st m hn hp
    rcases demo_cases hn with ⟨rfl, rfl⟩ | ⟨rfl, rfl⟩ | ⟨rfl, rfl⟩ | ⟨rfl, rfl⟩
    · simp [demo_root, fresh] at hp
    · simp only [demo_child, fresh, Option.some.injEq] at hp
      subst hp
      exact ⟨⟨_, demo_stream_root⟩, h01⟩
    · simp [fresh] at hp
    · simp only [demo_leaf, fresh, Option.some.injEq] at hp
      subst hp
      exact ⟨⟨_, demo_stream_child⟩, h13⟩
  · intro n st p hn
    rcases demo_cases hn with ⟨rfl, rfl⟩ | ⟨rfl, rfl⟩ | ⟨rfl, rfl⟩ | ⟨rfl, rfl⟩
    · simp only [demo_root, fresh]; split_ifs <;> omega
    · simp only [demo_child, fresh]; split_ifs <;> omega
    · simp [fresh]
    · simp only [demo_leaf, fresh]; split_ifs <;> omega

theorem demo_wf : WF (fun n => n) demo := demo_wf_of _ (by decide) (by decide)

/-- A ranking of the example forest that puts module 1 above both roots. -/
theorem demo_wf_top : WF (fun n => if n = 1 then 3 else if n = 3 then 4 else n) demo :=
  demo_wf_of _ (by decide) (by decide)

theorem demo_childrenOk : ChildrenOk demo := by
  constructor
  · intro p ps c hp hmem
    rcases demo_cases hp with ⟨rfl, rfl⟩ | ⟨rfl, rfl⟩ | ⟨rfl, rfl⟩ | ⟨rfl, rfl⟩
    · have : c = 1 := by simpa [demo_root] using hmem
      subst this
      exact ⟨demo_child, demo_stream_child, rfl, by decide⟩
    · have : c = 3 := by simpa [demo_child] using hmem
      subst this
      exact ⟨demo_leaf, demo_stream_leaf, rfl, by decide⟩
    · simp [fresh] at hmem
    · simp [demo_leaf, fresh] at hmem
  · intro p ps hp
    rcases demo_cases hp with ⟨rfl, rfl⟩ | ⟨rfl, rfl⟩ | ⟨rfl, rfl⟩ | ⟨rfl, rfl⟩
    · simp [demo_root]
    · simp [demo_child]
    · simp [fresh]
    · simp [demo_leaf, fresh]

/-! ## PID membership: hook calls, balance, leave on zero -/

/-- C1: in a forest, for a module `n` with parent `par` and a valid PID,
`module_demux_join` returns and the hook invocations `n` performs are exactly
one `join_pid` on `par` with that PID when the counter goes from 0 to 1 (and
`par` has the hook), and none otherwise; `module_demux_leave` on a positive
counter returns and `n` performs exactly one `leave_pid` on `par` with that PID
when the counter goes from 1 to 0, and none otherwise. -/
theorem demux_calls_parent_on_transition (d : Nat → Nat) (fuel : Nat) (s : State)
    (n par pid : Nat) (st ps : module_stream_t)
    (hw : WF d s) (hpid : pid < TS_MAX_PIDS) (hst : s.stream n = some st)
    (hpar : st.parent = some par) (hps : s.stream par = some ps) (hfuel : d n < fuel) :
    (∃ s' st' evs, module_demux_join fuel s n pid = .ok s' ∧ s'.stream n = some st' ∧
      st'.pid_list pid = (st.pid_list pid + 1) % 256 ∧
      s'.trace = s.trace ++ evs ∧
      by_actor n evs =
        if st.pid_list pid = 0 ∧ st'.pid_list pid = 1 ∧ ps.join_pid ≠ .null
        then [.join_pid n par pid] else []) ∧
    (0 < st.pid_list pid →
      ∃ s' st' evs, module_demux_leave fuel s n pid = .ok s' ∧ s'.stream n = some st' ∧
        st'.pid_list pid = st.pid_list pid - 1 ∧
        s'.trace = s.trace ++ evs ∧
        by_actor n evs =
          if st.pid_list pid = 1 ∧ st'.pid_list pid = 0 ∧ ps.leave_pid ≠ .null
          then [.leave_pid n par pid] else []) := by
  have hb := hw.bytes n st pid hst
  obtain ⟨⟨sj, hsj, hej⟩, ⟨sl, hsl, hel⟩⟩ := demux_effect d fuel s n pid st hw hpid hst hfuel
  constructor
  · obtain ⟨st', hst', hpl⟩ := hej.self st hst
    obtain ⟨evs, ht, ha, -⟩ := hej.trace
    have hc : st'.pid_list pid = (st.pid_list pid + 1) % 256 := by
      rw [hpl]; simp [incr_step]
    refine ⟨sj, st', evs, hsj, hst', hc, ht, ?_⟩
    rw [ha, hc]
    simp only [join_direct, hst, hook_target, hpar, hps]
    by_cases h0 : st.pid_list pid = 0
    · by_cases hn : ps.join_pid = .null <;> simp [h0, hn]
    · have : ¬ (st.pid_list pid + 1) % 256 = 1 := by omega
      simp [h0, this]
  · intro hpos
    obtain ⟨st', hst', hpl⟩ := hel.self st hst
    obtain ⟨evs, ht, ha, -⟩ := hel.trace
    have hc : st'.pid_list pid = st.pid_list pid - 1 := by
      rw [hpl]; simp [leave_step, hpos]
    refine ⟨sl, st', evs, hsl, hst', hc, ht, ?_⟩
    rw [ha, hc]
    simp only [leave_direct, hst, hook_target, hpar, hps, hpos, if_true]
    by_cases h1 : st.pid_list pid = 1
    · by_cases hn : ps.leave_pid = .null <;> simp [h1, hn]
    · have : ¬ st.pid_list pid - 1 = 0 := by omega
      simp [h1, this]

theorem demux_calls_parent_on_transition_witness :
    (∃ s' st' evs, module_demux_join 2 demo 1 6 = .ok s' ∧ s'.stream 1 = some st' ∧
      st'.pid_list 6 = (demo_child.pid_list 6 + 1) % 256 ∧
      s'.trace = demo.trace ++ evs ∧
      by_actor 1 evs =
        if demo_child.pid_list 6 = 0 ∧ st'.pid_list 6 = 1 ∧ demo_root.join_pid ≠ .null
        then [.join_pid 1 0 6] else []) ∧
    (∃ s' st' evs, module_demux_leave 2 demo 1 6 = .ok s' ∧ s'.stream 1 = some st' ∧
      st'.pid_list 6 = demo_child.pid_list 6 - 1 ∧
      s'.trace = demo.trace ++ evs ∧
      by_actor 1 evs =
        if demo_child.pid_list 6 = 1 ∧ st'.pid_list 6 = 0 ∧ demo_root.leave_pid ≠ .null
        then [.leave_pid 1 0 6] else []) :=
  have h := demux_calls_parent_on_transition (fun n => n) 2 demo 1 0 6 demo_child demo_root
    demo_wf (by decide) demo_stream_child rfl demo_stream_root (by decide)
  ⟨h.1, h.2 (by decide)⟩

/-- C5: `module_demux_leave` on a counter that is 0 returns with every stream
record unchanged (no counter is decremented or wraps); the only action is the
"double leave" log line, so no `leave_pid` hook is invoked. -/
theorem demux_leave_on_zero (fuel : Nat) (s : State) (n p : Nat) (st : module_stream_t)
    (hp : p < TS_MAX_PIDS) (hst : s.stream n = some st) (hz : st.pid_list p = 0) :
    ∃ s', module_demux_leave (fuel + 1) s n p = .ok s' ∧ s'.stream = s.stream ∧
      s'.trace = s.trace ++ [.double_leave n p] := by
  have hvalid : ts_pid_valid p = true := by simp [ts_pid_valid, hp]
  refine ⟨s.emit (.double_leave n p), ?_, rfl, rfl⟩
  simp [module_demux_leave, hvalid, hst, hz]

theorem demux_leave_on_zero_witness :
    ∃ s', module_demux_leave (0 + 1) demo 1 7 = .ok s' ∧ s'.stream = demo.stream ∧
      s'.trace = demo.trace ++ [.double_leave 1 7] :=
  demux_leave_on_zero 0 demo 1 7 demo_child (by decide) demo_stream_child rfl

theorem count_by_actor {mod : Nat} {e : Event} (evs : List Event) (he : e.actor = mod) :
    (by_actor mod evs).count e = evs.count e := by
  unfold by_actor
  exact List.count_filter (by simp [he])

theorem subscribed_eq {s : State} {mod pid : Nat} {st : module_stream_t}
    (hp : pid < TS_MAX_PIDS) (hst : s.stream mod = some st) :
    subscribed s mod pid = decide (0 < st.pid_list pid) := by
  have hvalid : ts_pid_valid pid = true := by simp [ts_pid_valid, hp]
  simp [subscribed, module_demux_check, hvalid, hst]

/-- One call keeps the balance of joins and leaves seen by the parent, as
long as the counter does not wrap. -/
theorem balance_step {d : Nat → Nat} {fuel : Nat} {s : State} {child par p : Nat}
    {st ps : module_stream_t} (op : DemuxOp)
    (hw : WF d s) (hst : s.stream child = some st) (hpar : st.parent = some par)
    (hps : s.stream par = some ps) (hj : ps.join_pid ≠ .null) (hl : ps.leave_pid ≠ .null)
    (hop : op.pid < TS_MAX_PIDS) (hp : p < TS_MAX_PIDS) (hfuel : d child < fuel)
    (hnw : ∀ q, op = .join q → st.pid_list q < 255)
    (hbal : balance s child par p = if subscribed s child p then 1 else 0) :
    ∃ s1 st1 ps1, run_op fuel s child op = .ok s1 ∧ WF d s1 ∧ s1.stream child = some st1 ∧
      st1.parent = some par ∧ s1.stream par = some ps1 ∧ ps1.join_pid ≠ .null ∧
      ps1.leave_pid ≠ .null ∧
      balance s1 child par p = if subscribed s1 child p then 1 else 0 := by
  have hb := hw.bytes child st
  have key : ∀ (s1 : State) (F : (Nat → Nat) → (Nat → Nat)) (direct : List Event),
      Effect d s s1 child F direct →
      ((direct.count (.join_pid child par p) : Int) - direct.count (.leave_pid child par p)
        = (if 0 < F st.pid_list p then 1 else 0) - (if 0 < st.pid_list p then 1 else 0)) →
      ∃ st1 ps1, WF d s1 ∧ s1.stream child = some st1 ∧
        st1.parent = some par ∧ s1.stream par = some ps1 ∧ ps1.join_pid ≠ .null ∧
        ps1.leave_pid ≠ .null ∧
        balance s1 child par p = if subscribed s1 child p then 1 else 0 := by
    intro s1 F direct he hcount
    obtain ⟨st1, hst1, hpl1⟩ := he.self st hst
    obtain ⟨st1', hst1', hsh1⟩ := he.shape.fwd hst
    rw [hst1] at hst1'; cases hst1'
    obtain ⟨ps1, hps1, hshp⟩ := he.shape.fwd hps
    simp only [shape, Prod.mk.injEq] at hsh1 hshp
    obtain ⟨evs, ht, ha, -⟩ := he.trace
    refine ⟨st1, ps1, he.wf hw, hst1, by rw [hsh1.1, hpar], hps1, by rw [hshp.2.2.2.1]; exact hj,
      by rw [hshp.2.2.2.2]; exact hl, ?_⟩
    rw [subscribed_eq hp hst] at hbal
    rw [subscribed_eq hp hst1, hpl1]
    have c1 : evs.count (.join_pid child par p) = direct.count (.join_pid child par p) := by
      rw [← ha]; exact (count_by_actor evs rfl).symm
    have c2 : evs.count (.leave_pid child par p) = direct.count (.leave_pid child par p) := by
      rw [← ha]; exact (count_by_actor evs rfl).symm
    simp only [balance, ht, List.count_append, c1, c2] at hbal ⊢
    simp only [decide_eq_true_eq] at hbal ⊢
    push_cast
    omega
  cases op with
  | join q =>
    obtain ⟨s1, hs1, he⟩ := (demux_effect d fuel s child q st hw hop hst hfuel).1
    obtain ⟨st1, ps1, h⟩ := key s1 _ _ he (by
      have hq := hnw q rfl
      simp only [join_direct, hst, hook_target, hpar, hps, hj, if_false, incr_step]
      by_cases hqp : q = p
      · subst hqp
        simp only [Function.update_same]
        by_cases h0 : st.pid_list q = 0
        · simp [h0]
        · have h1 : ¬ (st.pid_list q + 1) % 256 = 1 := by omega
          have h2 : 0 < (st.pid_list q + 1) % 256 := by omega
          have h3 : 0 < st.pid_list q := by omega
          simp [h1, h2, h3]
      · have hne : p ≠ q := fun e => hqp e.symm
        simp only [Function.update_noteq hne]
        by_cases h1 : (st.pid_list q + 1) % 256 = 1
        · simp [h1, hqp, List.count_cons]
        · simp [h1])
    exact ⟨s1, st1, ps1, hs1, h⟩
  | leave q =>
    obtain ⟨s1, hs1, he⟩ := (demux_effect d fuel s child q st hw hop hst hfuel).2
    obtain ⟨st1, ps1, h⟩ := key s1 _ _ he (by
      simp only [leave_direct, hst, hook_target, hpar, hps, hl, if_false, leave_step]
      by_cases hpos : 0 < st.pid_list q
      · simp only [hpos, if_true]
        by_cases hqp : q = p
        · subst hqp
          simp only [Function.update_same]
          by_cases h1 : st.pid_list q - 1 = 0
          · simp [h1, hpos]
          · have h2 : 0 < st.pid_list q - 1 := by omega
            simp [h1, h2, hpos]
        · have hne : p ≠ q := fun e => hqp e.symm
          simp only [Function.update_noteq hne]
          by_cases h1 : st.pid_list q - 1 = 0
          · simp [h1, hqp, List.count_cons]
          · simp [h1]
      · simp [hpos])
    exact ⟨s1, st1, ps1, hs1, h⟩

/-- C2 (amended): for a child attached in a forest to a parent with both hooks
installed, every finite sequence of `module_demux_join` / `module_demux_leave`
calls on the child returns, and as long as no join is made on a counter that
holds 255, the number of `join_pid(p)` calls minus the number of
`leave_pid(p)` calls the parent has received from the child stays 1 while
`module_demux_check` is true and 0 while it is false. -/
theorem demux_balance_invariant (d : Nat → Nat) (fuel : Nat) (child par p : Nat)
    (ops : List DemuxOp) (s : State) (st ps : module_stream_t)
    (hw : WF d s) (hst : s.stream child = some st) (hpar : st.parent = some par)
    (hps : s.stream par = some ps) (hj : ps.join_pid ≠ .null) (hl : ps.leave_pid ≠ .null)
    (hops : ∀ op ∈ ops, op.pid < TS_MAX_PIDS) (hp : p < TS_MAX_PIDS) (hfuel : d child < fuel)
    (hnw : no_wrap fuel child s ops = true)
    (hbal : balance s child par p = if subscribed s child p then 1 else 0) :
    ∃ s', run_ops fuel child s ops = .ok s' ∧
      balance s' child par p = if subscribed s' child p then 1 else 0 := by
  induction ops generalizing s st ps with
  | nil => exact ⟨s, rfl, hbal⟩
  | cons op rest ih =>
    simp only [no_wrap, Bool.and_eq_true] at hnw
    obtain ⟨hnw1, hnw2⟩ := hnw
    obtain ⟨s1, st1, ps1, hs1, hw1, hst1, hpar1, hps1, hj1, hl1, hbal1⟩ :=
      balance_step op hw hst hpar hps hj hl (hops op (List.mem_cons_self _ _)) hp hfuel
        (by
          intro q hq
          subst hq
          simpa [hst] using hnw1)
        hbal
    rw [hs1] at hnw2
    obtain ⟨s', hs', hbal'⟩ := ih s1 st1 ps1 hw1 hst1 hpar1 hps1 hj1 hl1
      (fun o ho => hops o (List.mem_cons_of_mem _ ho)) hnw2 hbal1
    exact ⟨s', by simp only [run_ops, hs1, hs'], hbal'⟩

theorem demux_balance_invariant_witness :
    ∃ s', run_ops 2 1 demo [.join 7, .join 7, .leave 7, .leave 7, .leave 7] = .ok s' ∧
      balance s' 1 0 7 = if subscribed s' 1 7 then 1 else 0 :=
  demux_balance_invariant (fun n => n) 2 1 0 7 [.join 7, .join 7, .leave 7, .leave 7, .leave 7]
    demo demo_child demo_root demo_wf demo_stream_child rfl demo_stream_root (by decide)
    (by decide) (by decide) (by decide) (by decide) (by decide) (by decide)

set_option maxRecDepth 100000 in
/-- C2 (as stated) fails: 256 joins of PID 7 by module 1 of the example forest
wrap its `uint8_t` counter to 0, so `module_demux_check` is false although its
parent has received one `join_pid(7)` and no `leave_pid(7)`. -/
theorem demux_balance_breaks_on_wrap :
    ∃ s', run_ops 2 1 demo (List.replicate 256 (.join 7)) = .ok s' ∧
      balance demo 1 0 7 = (if subscribed demo 1 7 then 1 else 0) ∧
      subscribed s' 1 7 = false ∧ balance s' 1 0 7 = 1 ∧
      ¬ (balance s' 1 0 7 = if subscribed s' 1 7 then 1 else 0) :=
  ⟨_, rfl, by decide, by decide, by decide, by decide⟩

/-! ## Summary of attach in a ranked forest -/

theorem relink_shape {a b : module_stream_t} (h : shape a = shape b) (n child : Nat)
    (old new : Option Nat) : shape (relink a n child old new) = shape (relink b n child old new) := by
  simp only [shape, Prod.mk.injEq] at h
  obtain ⟨h1, h2, h3, h4, h5⟩ := h
  simp [shape, relink, h1, h2, h3, h4, h5]

theorem relink_other {st : module_stream_t} {n child : Nat} {old new : Option Nat}
    (h1 : n ≠ child) (h2 : old ≠ some n) (h3 : new ≠ some n) :
    relink st n child old new = st := by
  cases st
  simp [relink, h1, h2, h3]

theorem attach_summary {d : Nat → Nat} {fuel : Nat} {s : State} {mod : Option Nat} {child : Nat}
    {cs : module_stream_t} (hw : WF d s) (hcs : s.stream child = some cs)
    (hfuel : d child < fuel) (h256 : 256 ≤ fuel)
    (hmod : ∀ m, mod = some m →
      (∃ ps, s.stream m = some ps) ∧ cs.on_ts ≠ none ∧ d m < d child) :
    ∃ s' evs cs', module_stream_attach fuel s mod child = .ok s' ∧
      s'.trace = s.trace ++ evs ∧
      by_actor child evs =
        drain_all_direct s child (List.range TS_MAX_PIDS) ++ replay_calls s mod child cs ∧
      (∀ n st, s.stream n = some st →
        ∃ st', s'.stream n = some st' ∧ shape st' = shape (relink st n child cs.parent mod)) ∧
      (∀ n, s.stream n = none → s'.stream n = none) ∧
      s'.stream child = some cs' ∧ cs'.pid_list = cs.pid_list ∧
      WF d s' ∧
      (∀ n, n ≠ child → d child ≤ d n → s'.stream n = s.stream n) := by
  obtain ⟨s1, s3, s', saved, hs', he1, hsv, ht3, hst3, hw3, he3⟩ :=
    attach_effect hw hcs hfuel h256 hmod
  obtain ⟨e1, ht1, ha1, -⟩ := he1.trace
  obtain ⟨e3, ht', ha3, -⟩ := he3.trace
  obtain ⟨cs1, hcs1, hpl1⟩ := he1.self cs hcs
  have hcs3 : s3.stream child = some (relink cs1 child child cs.parent mod) := by
    rw [hst3, hcs1]; rfl
  obtain ⟨cs', hcs', hpl'⟩ := he3.self _ hcs3
  have hfil : (List.range TS_MAX_PIDS).filter (fun p => decide (0 < saved p)) = joined_pids cs := by
    unfold joined_pids
    apply List.filter_congr
    intro p hp
    rw [hsv p]; simp only [hp, if_true]
  refine ⟨s', e1 ++ e3, cs', hs', ?_, ?_, ?_, ?_, hcs', ?_, he3.wf hw3, ?_⟩
  · rw [ht', ht3, ht1, List.append_assoc]
  · rw [by_actor_append, ha1, ha3]
    refine congrArg (fun l => drain_all_direct s child (List.range TS_MAX_PIDS) ++ l) ?_
    unfold replay_direct
    rw [hfil]
    simp only [replay_calls, hook_target, hcs3]
    cases mod with
    | none => simp only [relink, if_true]
    | some m =>
      obtain ⟨⟨ps, hps⟩, -, -⟩ := hmod m rfl
      obtain ⟨ps1, hps1, hsh⟩ := he1.shape.fwd hps
      simp only [shape, Prod.mk.injEq] at hsh
      have hm3 : s3.stream m = some (relink ps1 m child cs.parent (some m)) := by
        rw [hst3, hps1]; rfl
      have hj : (relink ps1 m child cs.parent (some m)).join_pid = ps.join_pid := hsh.2.2.2.1
      have hp3 : (relink cs1 child child cs.parent (some m)).parent = some m := by
        simp only [relink, if_true]
      simp only [hp3, hm3, hps, hj]
      by_cases hn : ps.join_pid = .null
      · simp only [hn, if_true]
      · simp only [hn, if_false]
  · intro n st hn
    obtain ⟨st1, hst1, hsh1⟩ := he1.shape.fwd hn
    have h3 : s3.stream n = some (relink st1 n child cs.parent mod) := by
      rw [hst3, hst1]; rfl
    obtain ⟨st', hst', hsh'⟩ := he3.shape.fwd h3
    exact ⟨st', hst', by rw [hsh', relink_shape hsh1]⟩
  · intro n hn
    have h1 : s1.stream n = none := by
      have := he1.shape n
      rw [hn] at this
      simpa using this
    have h3 : s3.stream n = none := by rw [hst3, h1]; rfl
    have := he3.shape n
    rw [h3] at this
    simpa using this
  · rw [hpl']
    funext p
    show (if p ∈ List.range TS_MAX_PIDS then saved p else cs1.pid_list p) = cs.pid_list p
    rw [hsv p, hpl1]
    by_cases hp : p ∈ List.range TS_MAX_PIDS <;> simp only [hp, if_true, if_false]
  · intro n hn hle
    rw [he3.frame n hn hle, hst3, he1.frame n hn hle]
    cases hsn : s.stream n with
    | none => rfl
    | some st =>
      have h2 : cs.parent ≠ some n := by
        intro hp
        have := (hw.ranked child cs n hcs hp).2
        omega
      have h3 : mod ≠ some n := by
        intro hp
        have := (hmod n hp).2.2
        omega
      simp [relink_other hn h2 h3]

/-! ## Re-parenting: calls per PID, preserved subscriptions -/

theorem count_leave_map (child par p : Nat) (l : List Nat) :
    (l.map (fun q => Event.leave_pid child par q)).count (.leave_pid child par p) = l.count p ∧
    (l.map (fun q => Event.join_pid child par q)).count (.join_pid child par p) = l.count p := by
  induction l with
  | nil => simp
  | cons a l ih =>
    simp only [List.map_cons, List.count_cons, ih.1, ih.2]
    by_cases h : a = p <;> simp [h]

theorem count_map_other (l : List Nat) (f : Nat → Event) (e : Event) (h : ∀ q, f q ≠ e) :
    (l.map f).count e = 0 := by
  rw [List.count_eq_zero]
  intro hm
  obtain ⟨q, -, hq⟩ := List.mem_map.mp hm
  exact h q hq

theorem count_joined_pids (cs : module_stream_t) (p : Nat) (hp : p < TS_MAX_PIDS) :
    (joined_pids cs).count p = if 0 < cs.pid_list p then 1 else 0 := by
  have hnd : (joined_pids cs).Nodup := (List.nodup_range _).filter _
  rw [List.count_eq_of_nodup hnd]
  have : p ∈ joined_pids cs ↔ 0 < cs.pid_list p := by
    simp only [joined_pids, List.mem_filter, List.mem_range, decide_eq_true_eq]
    exact ⟨fun h => h.2, fun h => ⟨hp, h⟩⟩
  by_cases h : 0 < cs.pid_list p
  · simp only [this.mpr h, h, if_true]
  · have hn : ¬ p ∈ joined_pids cs := fun hm => h (this.mp hm)
    simp only [hn, h, if_false]

theorem drain_all_direct_eq {s : State} {child old : Nat} {cs os : module_stream_t}
    (hcs : s.stream child = some cs) (hold : cs.parent = some old)
    (hos : s.stream old = some os) :
    drain_all_direct s child (List.range TS_MAX_PIDS) =
      if os.leave_pid = .null then []
      else (joined_pids cs).map (fun q => .leave_pid child old q) := by
  simp only [drain_all_direct, hcs, hook_target, hold, hos, joined_pids]
  by_cases h : os.leave_pid = .null
  · simp only [h, if_true]
  · simp only [h, if_false]

/-- Calls a child makes on its old and new parent during a re-parenting, per
PID. -/
theorem attach_counts {d : Nat → Nat} {fuel : Nat} {s : State} {child old m p : Nat}
    {cs os ms : module_stream_t}
    (hw : WF d s) (hcs : s.stream child = some cs) (hold : cs.parent = some old)
    (hos : s.stream old = some os) (hol : os.leave_pid ≠ .null)
    (hms : s.stream m = some ms) (hmj : ms.join_pid ≠ .null) (hon : cs.on_ts ≠ none)
    (hdm : d m < d child) (hp : p < TS_MAX_PIDS) (hfuel : d child < fuel) (h256 : 256 ≤ fuel) :
    ∃ s' evs, module_stream_attach fuel s (some m) child = .ok s' ∧
      s'.trace = s.trace ++ evs ∧
      evs.count (.leave_pid child old p) = (if 0 < cs.pid_list p then 1 else 0) ∧
      evs.count (.join_pid child m p) = (if 0 < cs.pid_list p then 1 else 0) ∧
      (old ≠ m → evs.count (.join_pid child old p) = 0 ∧
        evs.count (.leave_pid child m p) = 0) := by
  obtain ⟨s', evs, cs', hs', ht, ha, -⟩ := @attach_summary d fuel s (some m) child cs hw hcs hfuel h256
    (by
      intro m' hm'
      cases hm'
      exact ⟨⟨ms, hms⟩, hon, hdm⟩)
  rw [drain_all_direct_eq hcs hold hos] at ha
  simp only [hol, if_false, replay_calls, hms, hmj] at ha
  have hc : ∀ e : Event, e.actor = child → evs.count e =
      ((joined_pids cs).map (fun q => Event.leave_pid child old q)).count e +
      ((joined_pids cs).map (fun q => Event.join_pid child m q)).count e := by
    intro e he
    rw [← count_by_actor evs he, ha, List.count_append]
  refine ⟨s', evs, hs', ht, ?_, ?_, ?_⟩
  · rw [hc (.leave_pid child old p) rfl, (count_leave_map child old p _).1,
      count_joined_pids cs p hp, count_map_other _ _ _ (by intro q; simp)]
    rfl
  · rw [hc (.join_pid child m p) rfl, (count_leave_map child m p _).2,
      count_joined_pids cs p hp, count_map_other _ _ _ (by intro q; simp)]
    simp
  · intro hne
    constructor
    · rw [hc (.join_pid child old p) rfl, count_map_other _ _ _ (by intro q; simp),
        count_map_other _ _ _ (by intro q; simp [hne.symm])]
    · rw [hc (.leave_pid child m p) rfl, count_map_other _ _ _ (by intro q; simp [hne]),
        count_map_other _ _ _ (by intro q; simp)]

/-- C3 (amended): across `module_stream_attach(new_parent, child)` in a forest,
where the child had `pid_refs[p] = k` and both parents have their hooks
installed, the call returns and the child invokes the old parent's `leave_pid`
with `p` exactly once if `k > 0` and not at all if `k = 0` (not `k` times), and
the new parent's `join_pid` with `p` exactly once if `k > 0` and not at all if
`k = 0`; when the two parents are different modules the child invokes neither
`join_pid(p)` on the old one nor `leave_pid(p)` on the new one. -/
theorem attach_calls_once_per_pid (d : Nat → Nat) (fuel : Nat) (s : State)
    (child old m p : Nat) (cs os ms : module_stream_t)
    (hw : WF d s) (hcs : s.stream child = some cs) (hold : cs.parent = some old)
    (hos : s.stream old = some os) (hol : os.leave_pid ≠ .null)
    (hms : s.stream m = some ms) (hmj : ms.join_pid ≠ .null) (hon : cs.on_ts ≠ none)
    (hdm : d m < d child) (hp : p < TS_MAX_PIDS) (hfuel : d child < fuel) (h256 : 256 ≤ fuel) :
    ∃ s' evs, module_stream_attach fuel s (some m) child = .ok s' ∧
      s'.trace = s.trace ++ evs ∧
      evs.count (.leave_pid child old p) = (if 0 < cs.pid_list p then 1 else 0) ∧
      evs.count (.join_pid child m p) = (if 0 < cs.pid_list p then 1 else 0) ∧
      (old ≠ m → evs.count (.join_pid child old p) = 0 ∧
        evs.count (.leave_pid child m p) = 0) :=
  attach_counts hw hcs hold hos hol hms hmj hon hdm hp hfuel h256

theorem attach_calls_once_per_pid_witness :
    ∃ s' evs, module_stream_attach 300 demo (some 2) 1 = .ok s' ∧
      s'.trace = demo.trace ++ evs ∧
      evs.count (.leave_pid 1 0 6) = (if 0 < demo_child.pid_list 6 then 1 else 0) ∧
      evs.count (.join_pid 1 2 6) = (if 0 < demo_child.pid_list 6 then 1 else 0) ∧
      ((0 : Nat) ≠ 2 → evs.count (.join_pid 1 0 6) = 0 ∧ evs.count (.leave_pid 1 2 6) = 0) :=
  attach_calls_once_per_pid (fun n => if n = 1 then 3 else if n = 3 then 4 else n) 300 demo 1 0 2 6
    demo_child demo_root (fresh (some 12)) demo_wf_top demo_stream_child rfl demo_stream_root
    (by decide) demo_stream_other (by decide) (by decide) (by decide) (by decide) (by decide)
    (by decide)

/-- C3 (as stated) fails: module 1 of the example forest holds two references
on PID 5; re-parenting it from module 0 to module 2 makes it invoke
`leave_pid(5)` on module 0 once, not twice, and `join_pid(5)` on module 2 once,
not twice. -/
theorem attach_one_call_for_two_refs :
    demo_child.pid_list 5 = 2 ∧
    ∃ s' evs, module_stream_attach 300 demo (some 2) 1 = .ok s' ∧
      s'.trace = demo.trace ++ evs ∧
      evs.count (.leave_pid 1 0 5) = 1 ∧ evs.count (.join_pid 1 2 5) = 1 := by
  refine ⟨rfl, ?_⟩
  obtain ⟨s', evs, h1, h2, h3, h4, -⟩ := @attach_counts (fun n => if n = 1 then 3 else if n = 3 then 4 else n)
    300 demo 1 0 2 5 demo_child demo_root (fresh (some 12)) demo_wf_top demo_stream_child
    (rfl : demo_child.parent = some 0) demo_stream_root (by decide) demo_stream_other (by decide) (by decide) (by decide)
    (by decide) (by decide) (by decide)
  exact ⟨s', evs, h1, h2, h3, h4⟩

/-- C4: in a forest, for a target parent that is `NULL` or an initialised
module ranked below the child (so neither the child nor one of its
descendants), `module_stream_attach` returns and every counter of the child
has the value it had before the call. -/
theorem attach_preserves_pid_refs (d : Nat → Nat) (fuel : Nat) (s : State)
    (mod : Option Nat) (child : Nat) (cs : module_stream_t)
    (hw : WF d s) (hcs : s.stream child = some cs)
    (hfuel : d child < fuel) (h256 : 256 ≤ fuel)
    (hmod : ∀ m, mod = some m →
      (∃ ps, s.stream m = some ps) ∧ cs.on_ts ≠ none ∧ d m < d child) :
    ∃ s' cs', module_stream_attach fuel s mod child = .ok s' ∧
      s'.stream child = some cs' ∧ ∀ p, cs'.pid_list p = cs.pid_list p := by
  obtain ⟨s', evs, cs', hs', -, -, -, -, hcs', hpl, -⟩ := attach_summary hw hcs hfuel h256 hmod
  exact ⟨s', cs', hs', hcs', fun p => by rw [hpl]⟩

theorem attach_preserves_pid_refs_witness :
    ∃ s' cs', module_stream_attach 300 demo (some 2) 1 = .ok s' ∧
      s'.stream 1 = some cs' ∧ ∀ p, cs'.pid_list p = demo_child.pid_list p :=
  attach_preserves_pid_refs (fun n => if n = 1 then 3 else if n = 3 then 4 else n) 300 demo (some 2) 1 demo_child
    demo_wf_top demo_stream_child (by decide) (by decide)
    (by
      intro m hm
      cases hm
      exact ⟨⟨_, demo_stream_other⟩, by decide, by decide⟩)

/-! ## Packet fan-out -/

theorem send_children_spec (mod : Nat) (ts : List Nat) :
    ∀ (l : List Nat) (s : State),
      (∀ c ∈ l, ∃ cs cb, s.stream c = some cs ∧ cs.on_ts = some cb) →
      ∃ s', send_children s mod ts l = .ok s' ∧ s'.stream = s.stream ∧
        s'.trace = s.trace ++ l.map (fun c => .on_ts mod c (on_ts_of s c) ts) := by
  intro l
  induction l with
  | nil => intro s _; exact ⟨s, rfl, rfl, by simp⟩
  | cons c rest ih =>
    intro s h
    obtain ⟨cs, cb, hcs, hcb⟩ := h c (List.mem_cons_self _ _)
    obtain ⟨s', hs', hst', ht'⟩ := ih (s.emit (.on_ts mod c cb ts))
      (fun x hx => h x (List.mem_cons_of_mem _ hx))
    refine ⟨s', by simp only [send_children, hcs, hcb, hs'], hst', ?_⟩
    rw [ht']
    have : on_ts_of s c = cb := by simp [on_ts_of, hcs, hcb]
    simp only [State.emit, List.map_cons, this, List.append_assoc, List.singleton_append]
    rfl

theorem count_on_ts_map (mod : Nat) (ts : List Nat) (f : Nat → Nat) (c : Nat) (l : List Nat) :
    (l.map (fun x => Event.on_ts mod x (f x) ts)).count (.on_ts mod c (f c) ts) = l.count c := by
  induction l with
  | nil => simp
  | cons a l ih =>
    simp only [List.map_cons, List.count_cons, ih]
    by_cases h : a = c
    · subst h; simp
    · simp [h]

/-- C6: `module_stream_send` returns, changes no stream record, and its
actions are exactly one `on_ts` invocation per entry of the children list, with
the packet it was given, in list order (so each child exactly once when the
list has no duplicates); and `module_stream_attach` puts the child at the tail
of the parent's list, so that a following `module_stream_send` delivers to the
earlier children in their order and to the newly attached child last. -/
theorem send_in_attach_order (d : Nat → Nat) (fuel : Nat) (s : State) (m child : Nat)
    (ts : List Nat) (ms cs : module_stream_t)
    (hw : WF d s) (hms : s.stream m = some ms) (hcs : s.stream child = some cs)
    (hon : cs.on_ts ≠ none) (hdm : d m < d child) (hfuel : d child < fuel) (h256 : 256 ≤ fuel)
    (hch : ∀ c ∈ ms.children, ∃ st cb, s.stream c = some st ∧ st.on_ts = some cb) :
    (∃ s', module_stream_send s m ts = .ok s' ∧ s'.stream = s.stream ∧
      s'.trace = s.trace ++ ms.children.map (fun c => .on_ts m c (on_ts_of s c) ts) ∧
      (ms.children.Nodup → ∀ c ∈ ms.children,
        (ms.children.map (fun c => Event.on_ts m c (on_ts_of s c) ts)).count
          (.on_ts m c (on_ts_of s c) ts) = 1)) ∧
    (∃ s1 ms1 s2, module_stream_attach fuel s (some m) child = .ok s1 ∧
      s1.stream m = some ms1 ∧
      ms1.children = asc_list_insert_tail
        (if cs.parent = some m then asc_list_remove_item ms.children child else ms.children)
        child ∧
      module_stream_send s1 m ts = .ok s2 ∧
      s2.trace = s1.trace ++
        (if cs.parent = some m then asc_list_remove_item ms.children child
          else ms.children).map (fun c => .on_ts m c (on_ts_of s c) ts) ++
        [.on_ts m child (on_ts_of s child) ts]) := by
  constructor
  · obtain ⟨s', hs', hst', ht'⟩ := send_children_spec m ts ms.children s hch
    refine ⟨s', by simp only [module_stream_send, hms, hs'], hst', ht', ?_⟩
    intro hnd c hc
    rw [count_on_ts_map m ts (on_ts_of s) c, List.count_eq_of_nodup hnd]
    simp [hc]
  · obtain ⟨s1, evs, cs', hs1, -, -, hshape, hnone, hcs', -, -, -⟩ :=
      @attach_summary d fuel s (some m) child cs hw hcs hfuel h256
        (by
          intro m' hm'
          cases hm'
          exact ⟨⟨ms, hms⟩, hon, hdm⟩)
    obtain ⟨ms1, hms1, hsh1⟩ := hshape m ms hms
    have hne : m ≠ child := fun e => by subst e; exact Nat.lt_irrefl _ hdm
    have hch1 : ms1.children = asc_list_insert_tail
        (if cs.parent = some m then asc_list_remove_item ms.children child else ms.children)
        child := by
      have := congrArg (fun x => x.2.2.1) hsh1
      simpa [shape, relink] using this
    -- callbacks are the same before and after
    have hcb : ∀ c, on_ts_of s1 c = on_ts_of s c := by
      intro c
      unfold on_ts_of
      cases hc : s.stream c with
      | none =>
        rw [hnone c hc]
      | some st =>
        obtain ⟨st', hst', hsh⟩ := hshape c st hc
        have := congrArg (fun x => x.2.1) hsh
        simp only [shape, relink] at this
        rw [hst']
        simp only [this]
    have hsub : ∀ c ∈ (if cs.parent = some m then asc_list_remove_item ms.children child
        else ms.children), c ∈ ms.children := by
      intro c hc
      split at hc
      · exact List.mem_of_mem_erase hc
      · exact hc
    have hch' : ∀ c ∈ ms1.children, ∃ st cb, s1.stream c = some st ∧ st.on_ts = some cb := by
      intro c hc
      rw [hch1] at hc
      simp only [asc_list_insert_tail, List.mem_append, List.mem_singleton] at hc
      have hin : ∃ st cb, s.stream c = some st ∧ st.on_ts = some cb := by
        rcases hc with h | h
        · exact hch c (hsub c h)
        · subst h
          cases hcb' : cs.on_ts with
          | none => exact absurd hcb' hon
          | some cb => exact ⟨cs, cb, hcs, hcb'⟩
      obtain ⟨st, cb, hst, hcbx⟩ := hin
      obtain ⟨st', hst', hsh⟩ := hshape c st hst
      have := congrArg (fun x => x.2.1) hsh
      simp only [shape, relink] at this
      exact ⟨st', cb, hst', by rw [this, hcbx]⟩
    obtain ⟨s2, hs2, -, ht2⟩ := send_children_spec m ts ms1.children s1 hch'
    refine ⟨s1, ms1, s2, hs1, hms1, hch1, by simp only [module_stream_send, hms1, hs2], ?_⟩
    rw [ht2, hch1]
    simp only [asc_list_insert_tail, List.map_append, List.map_cons, List.map_nil, hcb,
      List.append_assoc]

theorem send_in_attach_order_witness :
    ∃ s1 s2, module_stream_attach 300 demo (some 0) 2 = .ok s1 ∧
      module_stream_send s1 0 [71] = .ok s2 ∧
      s2.trace = s1.trace ++ [.on_ts 0 1 11 [71], .on_ts 0 2 12 [71]] := by
  obtain ⟨-, s1, ms1, s2, h1, -, -, h2, h3⟩ :=
    send_in_attach_order (fun n => n) 300 demo 0 2 [71] demo_root (fresh (some 12)) demo_wf
      demo_stream_root demo_stream_other (by decide) (by decide) (by decide) (by decide)
      (by
        intro c hc
        have : c = 1 := by simpa [demo_root] using hc
        subst this
        exact ⟨demo_child, 11, demo_stream_child, rfl⟩)
  refine ⟨s1, s2, h1, h2, ?_⟩
  rw [h3]
  simp [fresh, demo_root, on_ts_of, demo, asc_list_remove_item]

/-! ## Consistency of the children lists -/

theorem modify_stream (s : State) (m : Nat) (f : module_stream_t → module_stream_t) (n : Nat) :
    (s.modify m f).stream n = if n = m then (s.stream m).map f else s.stream n := by
  unfold State.modify
  cases h : s.stream m with
  | none =>
    by_cases hn : n = m
    · subst hn; simp [h]
    · simp [hn]
  | some st =>
    by_cases hn : n = m
    · subst hn; simp [State.set]
    · simp [State.set, Function.update_noteq hn, hn]

theorem modify_trace (s : State) (m : Nat) (f : module_stream_t → module_stream_t) :
    (s.modify m f).trace = s.trace := by
  unfold State.modify
  cases s.stream m <;> rfl

theorem detach_parent_stream {s s2 : State} {child : Nat} (h : detach_parent s child = .ok s2) :
    ∃ cs, s.stream child = some cs ∧ s2.trace = s.trace ∧
      (cs.parent = none → s2 = s) ∧
      ∀ par, cs.parent = some par → (∃ ps, s.stream par = some ps) ∧
        ∀ n, s2.stream n = (s.stream n).map (fun st =>
          { st with
            parent := if n = child then none else st.parent
            children := if n = par then asc_list_remove_item st.children child
              else st.children }) := by
  unfold detach_parent at h
  cases hcs : s.stream child with
  | none => rw [hcs] at h; cases h
  | some cs =>
    rw [hcs] at h
    simp only at h
    cases hpar : cs.parent with
    | none =>
      rw [hpar] at h
      cases h
      exact ⟨cs, rfl, rfl, fun _ => rfl, fun par hp => by rw [hpar] at hp; cases hp⟩
    | some par =>
      rw [hpar] at h
      simp only at h
      cases hps : s.stream par with
      | none => rw [hps] at h; cases h
      | some ps =>
        rw [hps] at h
        simp only [Except.ok.injEq] at h
        subst h
        refine ⟨cs, rfl, (by rw [modify_trace, modify_trace]),
          (fun hn => by rw [hpar] at hn; cases hn), ?_⟩
        intro par' hp'
        rw [hpar] at hp'
        cases hp'
        refine ⟨⟨ps, hps⟩, ?_⟩
        intro n
        rw [modify_stream, modify_stream, modify_stream]
        by_cases hnc : n = child
        · subst hnc
          by_cases hnp : n = par
          · subst hnp
            simp [hps]
          · simp [hnp, hcs]
        · by_cases hnp : n = par
          · subst hnp
            simp [hnc, hps]
          · cases hn : s.stream n <;> simp [hnc, hnp]

theorem attach_parent_stream {s s3 : State} {m child : Nat}
    (h : attach_parent s (some m) child = .ok s3) :
    ∃ cs, s.stream child = some cs ∧ cs.on_ts ≠ none ∧ (∃ ps, s.stream m = some ps) ∧
      s3.trace = s.trace ∧
      ∀ n, s3.stream n = (s.stream n).map (fun st =>
        { st with
          parent := if n = child then some m else st.parent
          children := if n = m then asc_list_insert_tail st.children child
            else st.children }) := by
  unfold attach_parent at h
  simp only at h
  cases hps : s.stream m with
  | none => rw [hps] at h; cases h
  | some ps =>
    rw [hps] at h
    simp only at h
    cases hcs : s.stream child with
    | none => rw [hcs] at h; cases h
    | some cs =>
      rw [hcs] at h
      simp only at h
      by_cases hon : cs.on_ts = none
      · simp [hon] at h
      · simp only [hon, if_false, Except.ok.injEq] at h
        subst h
        refine ⟨cs, rfl, hon, ⟨ps, rfl⟩, (by rw [modify_trace, modify_trace]), ?_⟩
        intro n
        rw [modify_stream, modify_stream, modify_stream]
        by_cases hnc : n = child
        · subst hnc
          by_cases hnm : n = m
          · subst hnm
            simp [hcs]
          · have : ¬ m = n := fun e => hnm e.symm
            simp [hnm, hcs, this]
        · by_cases hnm : n = m
          · subst hnm
            have : ¬ child = n := fun e => hnc e.symm
            simp [hnc, hps, this]
          · cases hn : s.stream n <;> simp [hnc, hnm]

theorem childrenOk_shape {s s' : State} (h : SameShape s s') (hc : ChildrenOk s) :
    ChildrenOk s' := by
  constructor
  · intro p ps' c hp hmem
    obtain ⟨ps, hps, hsh⟩ := h.back hp
    simp only [shape, Prod.mk.injEq] at hsh
    obtain ⟨cs, hcs, hpar, hon⟩ := hc.member p ps c hps (by rw [hsh.2.2.1]; exact hmem)
    obtain ⟨cs', hcs', hsh'⟩ := h.fwd hcs
    simp only [shape, Prod.mk.injEq] at hsh'
    exact ⟨cs', hcs', by rw [hsh'.1, hpar], by rw [hsh'.2.1]; exact hon⟩
  · intro p ps' hp
    obtain ⟨ps, hps, hsh⟩ := h.back hp
    simp only [shape, Prod.mk.injEq] at hsh
    rw [← hsh.2.2.1]
    exact hc.nodup p ps hps

theorem detached_shape {s s' : State} {child : Nat} (h : SameShape s s')
    (hd : Detached s child) : Detached s' child := by
  constructor
  · intro p ps' hp
    obtain ⟨ps, hps, hsh⟩ := h.back hp
    simp only [shape, Prod.mk.injEq] at hsh
    rw [← hsh.2.2.1]
    exact hd.unlisted p ps hps
  · intro cs' hcs'
    obtain ⟨cs, hcs, hsh⟩ := h.back hcs'
    simp only [shape, Prod.mk.injEq] at hsh
    rw [← hsh.1]
    exact hd.orphan cs hcs

theorem leave_while_shape (fuel : Nat) :
    ∀ (n : Nat) (s : State) (mod i saved : Nat) (s' : State) (k : Nat),
      leave_while fuel n s mod i saved = .ok (s', k) → SameShape s s' := by
  intro n
  induction n with
  | zero => intro s mod i saved s' k h; simp [leave_while] at h
  | succ n ih =>
    intro s mod i saved s' k h
    simp only [leave_while] at h
    split at h
    · cases h
    · cases h; exact sameShape_refl _
    · split at h
      · cases h
      · rename_i s1 hs1
        exact sameShape_trans ((demux_shape fuel s mod i s1).2 hs1) (ih _ _ _ _ _ _ h)

theorem leave_all_shape (fuel : Nat) :
    ∀ (pids : List Nat) (s : State) (mod : Nat) (saved : Nat → Nat) (s' : State)
      (saved' : Nat → Nat),
      leave_all fuel pids s mod saved = .ok (s', saved') → SameShape s s' := by
  intro pids
  induction pids with
  | nil => intro s mod saved s' saved' h; cases h; exact sameShape_refl _
  | cons i rest ih =>
    intro s mod saved s' saved' h
    simp only [leave_all] at h
    split at h
    · cases h
    · rename_i s1 k hs1
      exact sameShape_trans (leave_while_shape fuel _ _ _ _ _ _ _ hs1) (ih _ _ _ _ _ h)

theorem join_times_shape (fuel : Nat) :
    ∀ (k : Nat) (s : State) (child i : Nat) (s' : State),
      join_times fuel k s child i = .ok s' → SameShape s s' := by
  intro k
  induction k with
  | zero => intro s child i s' h; cases h; exact sameShape_refl _
  | succ k ih =>
    intro s child i s' h
    simp only [join_times] at h
    split at h
    · cases h
    · rename_i s1 hs1
      exact sameShape_trans ((demux_shape fuel s child i s1).1 hs1) (ih _ _ _ _ h)

theorem join_all_shape (fuel : Nat) :
    ∀ (pids : List Nat) (s : State) (child : Nat) (saved : Nat → Nat) (s' : State),
      join_all fuel pids s child saved = .ok s' → SameShape s s' := by
  intro pids
  induction pids with
  | nil => intro s child saved s' h; cases h; exact sameShape_refl _
  | cons i rest ih =>
    intro s child saved s' h
    simp only [join_all] at h
    split at h
    · cases h
    · rename_i s1 hs1
      exact sameShape_trans (join_times_shape fuel _ _ _ _ _ hs1) (ih _ _ _ _ h)

theorem detach_parent_ok {s s2 : State} {child : Nat} (hc : ChildrenOk s)
    (h : detach_parent s child = .ok s2) : ChildrenOk s2 ∧ Detached s2 child := by
  obtain ⟨cs, hcs, -, hnone, hsome⟩ := detach_parent_stream h
  cases hpar : cs.parent with
  | none =>
    rw [hnone hpar]
    refine ⟨hc, ?_, ?_⟩
    · intro p ps hp hmem
      obtain ⟨cs', hcs', hp', -⟩ := hc.member p ps child hp hmem
      rw [hcs] at hcs'; cases hcs'
      rw [hpar] at hp'; cases hp'
    · intro cs' hcs'
      rw [hcs] at hcs'; cases hcs'
      exact hpar
  | some par =>
    obtain ⟨-, hst⟩ := hsome par hpar
    have hunl : ∀ p ps2, s2.stream p = some ps2 → child ∉ ps2.children := by
      intro p ps2 hp hmem
      rw [hst] at hp
      cases hps : s.stream p with
      | none => rw [hps] at hp; cases hp
      | some ps =>
        rw [hps] at hp
        simp only [Option.map_some', Option.some.injEq] at hp
        subst hp
        simp only at hmem
        by_cases hpp : p = par
        · simp only [hpp, if_true, asc_list_remove_item] at hmem
          have hnd := hc.nodup p ps hps
          exact (List.Nodup.mem_erase_iff hnd).mp hmem |>.1 rfl
        · simp only [hpp, if_false] at hmem
          obtain ⟨cs', hcs', hp', -⟩ := hc.member p ps child hps hmem
          rw [hcs] at hcs'; cases hcs'
          rw [hpar] at hp'; cases hp'
          exact hpp rfl
    refine ⟨⟨?_, ?_⟩, ⟨hunl, ?_⟩⟩
    · intro p ps2 c hp hmem
      have hne : c ≠ child := fun e => hunl p ps2 hp (e ▸ hmem)
      rw [hst] at hp
      cases hps : s.stream p with
      | none => rw [hps] at hp; cases hp
      | some ps =>
        rw [hps] at hp
        simp only [Option.map_some', Option.some.injEq] at hp
        subst hp
        have hmem' : c ∈ ps.children := by
          simp only at hmem
          split at hmem
          · exact List.mem_of_mem_erase hmem
          · exact hmem
        obtain ⟨cs', hcs', hp', hon'⟩ := hc.member p ps c hps hmem'
        have h2 := hst c
        rw [hcs'] at h2
        simp only [Option.map_some'] at h2
        refine ⟨_, h2, ?_, hon'⟩
        simp only [hne, if_false]
        exact hp'
    · intro p ps2 hp
      rw [hst] at hp
      cases hps : s.stream p with
      | none => rw [hps] at hp; cases hp
      | some ps =>
        rw [hps] at hp
        simp only [Option.map_some', Option.some.injEq] at hp
        subst hp
        simp only
        split
        · exact (hc.nodup p ps hps).erase _
        · exact hc.nodup p ps hps
    · intro cs2 hcs2
      rw [hst, hcs] at hcs2
      simp only [Option.map_some', Option.some.injEq] at hcs2
      subst hcs2
      simp

theorem attach_parent_ok {s s3 : State} {mod : Option Nat} {child : Nat} (hc : ChildrenOk s)
    (hd : Detached s child) (h : attach_parent s mod child = .ok s3) :
    ChildrenOk s3 ∧ (mod = none → Detached s3 child) := by
  cases mod with
  | none =>
    simp only [attach_parent, Except.ok.injEq] at h
    subst h
    exact ⟨hc, fun _ => hd⟩
  | some m =>
    refine ⟨?_, fun hn => by cases hn⟩
    obtain ⟨cs, hcs, hon, -, -, hst⟩ := attach_parent_stream h
    constructor
    · intro p ps3 c hp hmem
      rw [hst] at hp
      cases hps : s.stream p with
      | none => rw [hps] at hp; cases hp
      | some ps =>
        rw [hps] at hp
        simp only [Option.map_some', Option.some.injEq] at hp
        subst hp
        simp only at hmem
        by_cases hcc : c = child
        · subst hcc
          have hpm : p = m := by
            by_contra hpm
            simp only [hpm, if_false] at hmem
            exact hd.unlisted p ps hps hmem
          subst hpm
          have h2 := hst c
          rw [hcs] at h2
          simp only [Option.map_some'] at h2
          exact ⟨_, h2, by simp, hon⟩
        · have hmem' : c ∈ ps.children := by
            split at hmem
            · simp only [asc_list_insert_tail, List.mem_append, List.mem_singleton] at hmem
              rcases hmem with h1 | h1
              · exact h1
              · exact absurd h1 hcc
            · exact hmem
          obtain ⟨cs', hcs', hp', hon'⟩ := hc.member p ps c hps hmem'
          have h2 := hst c
          rw [hcs'] at h2
          simp only [Option.map_some'] at h2
          exact ⟨_, h2, by simp only [hcc, if_false]; exact hp', hon'⟩
    · intro p ps3 hp
      rw [hst] at hp
      cases hps : s.stream p with
      | none => rw [hps] at hp; cases hp
      | some ps =>
        rw [hps] at hp
        simp only [Option.map_some', Option.some.injEq] at hp
        subst hp
        simp only
        split
        · simp only [asc_list_insert_tail]
          refine List.Nodup.append (hc.nodup p ps hps) (List.nodup_singleton _) ?_
          intro x hx hx'
          simp only [List.mem_singleton] at hx'
          subst hx'
          exact hd.unlisted p ps hps hx
        · exact hc.nodup p ps hps

/-- Every successful `module_stream_attach` keeps the children lists
consistent, whatever the shape of the graph. -/
theorem attach_childrenOk {fuel : Nat} {s s' : State} {mod : Option Nat} {child : Nat}
    (hc : ChildrenOk s) (h : module_stream_attach fuel s mod child = .ok s') :
    ChildrenOk s' ∧ (mod = none → Detached s' child) := by
  simp only [module_stream_attach] at h
  split at h
  · cases h
  · rename_i s1 saved hs1
    split at h
    · cases h
    · rename_i s2 hs2
      split at h
      · cases h
      · rename_i s3 hs3
        have h1 := childrenOk_shape (leave_all_shape _ _ _ _ _ _ _ hs1) hc
        obtain ⟨h2, hd2⟩ := detach_parent_ok h1 hs2
        obtain ⟨h3, hd3⟩ := attach_parent_ok h2 hd2 hs3
        have hsh := join_all_shape _ _ _ _ _ _ h
        exact ⟨childrenOk_shape hsh h3, fun hn => detached_shape hsh (hd3 hn)⟩

theorem clear_parents_spec :
    ∀ (l : List Nat) (s s' : State), clear_parents s l = .ok s' →
      s'.trace = s.trace ∧
      ∀ n, s'.stream n =
        if n ∈ l then (s.stream n).map (fun st => { st with parent := none })
        else s.stream n := by
  intro l
  induction l with
  | nil => intro s s' h; cases h; exact ⟨rfl, fun n => by simp⟩
  | cons c rest ih =>
    intro s s' h
    simp only [clear_parents] at h
    split at h
    · cases h
    · rename_i cs hcs
      obtain ⟨ht, hst⟩ := ih _ _ h
      refine ⟨ht, ?_⟩
      intro n
      rw [hst]
      by_cases hnc : n = c
      · subst hnc
        simp [State.set, hcs]
      · simp [State.set, Function.update_noteq hnc, hnc]

theorem destroy_childrenOk {fuel : Nat} {s s' : State} {mod : Nat} (hc : ChildrenOk s)
    (h : module_stream_destroy fuel s mod = .ok s') : ChildrenOk s' := by
  simp only [module_stream_destroy] at h
  split at h
  · cases h; exact hc
  · split at h
    · cases h
    · rename_i s1 saved hs1
      split at h
      · cases h
      · rename_i s2 hs2
        split at h
        · cases h
        · rename_i st hst
          split at h
          · cases h
          · rename_i s3 hs3
            simp only [Except.ok.injEq] at h
            subst h
            have h1 := childrenOk_shape (leave_all_shape _ _ _ _ _ _ _ hs1) hc
            obtain ⟨h2, hd2⟩ := attach_childrenOk h1 hs2
            have hd := hd2 rfl
            obtain ⟨-, hst3⟩ := clear_parents_spec _ _ _ hs3
            have hstr : ∀ n ps', (Function.update s3.stream mod none) n = some ps' →
                n ≠ mod ∧ ∃ ps, s2.stream n = some ps ∧ ps'.children = ps.children ∧
                  ps'.on_ts = ps.on_ts ∧ (n ∉ st.children → ps' = ps) := by
              intro n ps' hn
              by_cases hnm : n = mod
              · subst hnm; simp at hn
              · rw [Function.update_noteq hnm, hst3] at hn
                refine ⟨hnm, ?_⟩
                cases h2n : s2.stream n with
                | none => rw [h2n] at hn; simp at hn
                | some ps =>
                  rw [h2n] at hn
                  by_cases hin : n ∈ st.children
                  · simp only [hin, if_true, Option.map_some', Option.some.injEq] at hn
                    subst hn
                    exact ⟨ps, rfl, rfl, rfl, fun hx => absurd hin hx⟩
                  · simp only [hin, if_false, Option.some.injEq] at hn
                    subst hn
                    exact ⟨ps, rfl, rfl, rfl, fun _ => rfl⟩
            constructor
            · intro p ps' c hp hmem
              obtain ⟨hpm, ps, hps, hch, -, -⟩ := hstr p ps' hp
              rw [hch] at hmem
              obtain ⟨cs, hcs, hpar, hon⟩ := h2.member p ps c hps hmem
              have hcm : c ≠ mod := fun e => hd.unlisted p ps hps (e ▸ hmem)
              have hcn : c ∉ st.children := by
                intro hin
                obtain ⟨cs', hcs', hpar', -⟩ := h2.member mod st c hst hin
                rw [hcs] at hcs'; cases hcs'
                rw [hpar] at hpar'; cases hpar'
                exact hpm rfl
              refine ⟨cs, ?_, hpar, hon⟩
              show (Function.update s3.stream mod none) c = some cs
              rw [Function.update_noteq hcm, hst3]
              simp only [hcn, if_false]
              exact hcs
            · intro p ps' hp
              obtain ⟨-, ps, hps, hch, -, -⟩ := hstr p ps' hp
              rw [hch]
              exact h2.nodup p ps hps

theorem api_childrenOk {fuel : Nat} {s s' : State} (c : ApiCall) (hc : ChildrenOk s)
    (h : api fuel s c = .ok s') : ChildrenOk s' := by
  cases c with
  | init mod on_ts =>
    simp only [api, module_stream_init] at h
    split at h
    · cases h
    · rename_i hnone
      simp only [Except.ok.injEq] at h
      subst h
      have hne : ∀ n st, s.stream n = some st → n ≠ mod := by
        intro n st hn e
        subst e
        rw [hnone] at hn; cases hn
      have hget : ∀ n st', (s.set mod
          { parent := none, on_ts := on_ts, children := [],
            join_pid := .demux_join, leave_pid := .demux_leave,
            pid_list := fun _ => 0 }).stream n = some st' →
          (n = mod ∧ st'.children = []) ∨ (n ≠ mod ∧ s.stream n = some st') := by
        intro n st' hn
        by_cases hnm : n = mod
        · subst hnm
          simp only [State.set, Function.update_same, Option.some.injEq] at hn
          subst hn
          exact Or.inl ⟨rfl, rfl⟩
        · simp only [State.set, Function.update_noteq hnm] at hn
          exact Or.inr ⟨hnm, hn⟩
      constructor
      · intro p ps c hp hmem
        rcases hget p ps hp with ⟨-, hnil⟩ | ⟨-, hps⟩
        · rw [hnil] at hmem; cases hmem
        · obtain ⟨cs, hcs, hpar, hon⟩ := hc.member p ps c hps hmem
          refine ⟨cs, ?_, hpar, hon⟩
          simp only [State.set, Function.update_noteq (hne c cs hcs)]
          exact hcs
      · intro p ps hp
        rcases hget p ps hp with ⟨-, hnil⟩ | ⟨-, hps⟩
        · rw [hnil]; exact List.nodup_nil
        · exact hc.nodup p ps hps
  | destroy mod =>
    simp only [api] at h
    exact destroy_childrenOk hc h
  | attach parent child =>
    simp only [api] at h
    exact (attach_childrenOk hc h).1
  | demux_set mod j l =>
    simp only [api, module_demux_set] at h
    split at h
    · cases h
    · rename_i st hst
      simp only [Except.ok.injEq] at h
      subst h
      have hget : ∀ n st', (s.set mod { st with join_pid := j, leave_pid := l }).stream n
          = some st' → ∃ st0, s.stream n = some st0 ∧ st'.children = st0.children := by
        intro n st' hn
        by_cases hnm : n = mod
        · subst hnm
          simp only [State.set, Function.update_same, Option.some.injEq] at hn
          subst hn
          exact ⟨st, hst, rfl⟩
        · simp only [State.set, Function.update_noteq hnm] at hn
          exact ⟨st', hn, rfl⟩
      constructor
      · intro p ps c hp hmem
        obtain ⟨ps0, hps0, hch⟩ := hget p ps hp
        rw [hch] at hmem
        obtain ⟨cs, hcs, hpar, hon⟩ := hc.member p ps0 c hps0 hmem
        by_cases hcm : c = mod
        · subst hcm
          rw [hst] at hcs; cases hcs
          have hnew : (s.set c { st with join_pid := j, leave_pid := l }).stream c =
              some { st with join_pid := j, leave_pid := l } := by
            simp only [State.set, Function.update_same]
          exact ⟨_, hnew, hpar, hon⟩
        · exact ⟨cs, by simp only [State.set, Function.update_noteq hcm]; exact hcs, hpar, hon⟩
      · intro p ps hp
        obtain ⟨ps0, hps0, hch⟩ := hget p ps hp
        rw [hch]
        exact hc.nodup p ps0 hps0
  | join mod pid =>
    simp only [api] at h
    exact childrenOk_shape ((demux_shape fuel s mod pid s').1 h) hc
  | leave mod pid =>
    simp only [api] at h
    exact childrenOk_shape ((demux_shape fuel s mod pid s').2 h) hc
  | send mod ts =>
    simp only [api, module_stream_send] at h
    split at h
    · cases h
    · rename_i st hst
      have hsame : ∀ (l : List Nat) (t t' : State), send_children t mod ts l = .ok t' →
          SameShape t t' := by
        intro l
        induction l with
        | nil => intro t t' ht; cases ht; exact sameShape_refl _
        | cons c rest ih =>
          intro t t' ht
          simp only [send_children] at ht
          split at ht
          · cases ht
          · split at ht
            · cases ht
            · exact sameShape_trans (sameShape_emit _ _) (ih _ _ ht)
      exact childrenOk_shape (hsame _ _ _ h) hc

theorem reachable_childrenOk {s : State} (h : Reachable s) : ChildrenOk s := by
  induction h with
  | start =>
    constructor
    · intro p ps c hp; cases hp
    · intro p ps hp; cases hp
  | call fuel c _ hstep ih => exact api_childrenOk c ih hstep

/-! ## Attach-time checks and destroy -/

/-- C7: in a forest, `module_stream_attach` with a non-`NULL` parent fails an
assertion whenever the parent is uninitialised or the child's `on_ts` is
`NULL`; and in every state reachable through the API, every member of every
children list is an initialised module with a non-`NULL` `on_ts`. -/
theorem attach_rejects_non_sink (d : Nat → Nat) (fuel : Nat) (s : State) (m child : Nat)
    (cs : module_stream_t) (hw : WF d s) (hcs : s.stream child = some cs)
    (hfuel : d child < fuel) (h256 : 256 ≤ fuel)
    (hbad : s.stream m = none ∨ cs.on_ts = none) :
    module_stream_attach fuel s (some m) child = .error .assertion ∧
    (∀ t, Reachable t → ∀ p ps c, t.stream p = some ps → c ∈ ps.children →
      ∃ cs', t.stream c = some cs' ∧ cs'.on_ts ≠ none) := by
  constructor
  · have hval : ∀ i ∈ List.range TS_MAX_PIDS, i < TS_MAX_PIDS :=
      fun i hi => List.mem_range.mp hi
    obtain ⟨s1, saved, hs1, he1, -⟩ := leave_all_effect d fuel (List.range TS_MAX_PIDS) s child
      (fun _ => 0) cs hw hval (List.nodup_range _) hcs hfuel h256 (fun _ _ => rfl)
    obtain ⟨cs1, hcs1, -⟩ := he1.self cs hcs
    obtain ⟨s2, s3, hs2, hs3, -, hst3⟩ := @relink_spec d s1 child cs1 none (he1.wf hw) hcs1
      (fun m' hm' => by cases hm')
    simp only [attach_parent, Except.ok.injEq] at hs3
    subst hs3
    have hsh : shape cs1 = shape cs := by
      have := he1.shape child
      rw [hcs1, hcs] at this
      simpa using this
    simp only [shape, Prod.mk.injEq] at hsh
    simp only [module_stream_attach, hs1, hs2, attach_parent]
    cases hm : s.stream m with
    | none =>
      have h1 : s1.stream m = none := by
        have := he1.shape m
        rw [hm] at this
        simpa using this
      have h2 : s2.stream m = none := by rw [hst3, h1]; rfl
      simp only [h2]
    | some ps =>
      have hon : cs.on_ts = none := by
        rcases hbad with h | h
        · rw [hm] at h; cases h
        · exact h
      obtain ⟨ps1, hps1, -⟩ := he1.shape.fwd hm
      have h2 : s2.stream m = some (relink ps1 m child cs1.parent none) := by
        rw [hst3, hps1]; rfl
      have h2c : s2.stream child = some (relink cs1 child child cs1.parent none) := by
        rw [hst3, hcs1]; rfl
      have hon2 : (relink cs1 child child cs1.parent none).on_ts = none := by
        show cs1.on_ts = none
        rw [hsh.2.1, hon]
      simp only [h2, h2c, hon2, if_true]
  · intro t ht p ps c hp hmem
    obtain ⟨cs', hcs', -, hon⟩ := (reachable_childrenOk ht).member p ps c hp hmem
    exact ⟨cs', hcs', hon⟩

theorem attach_rejects_non_sink_witness :
    module_stream_attach 300 demo (some 7) 1 = .error .assertion :=
  (attach_rejects_non_sink (fun n => n) 300 demo 7 1 demo_child demo_wf demo_stream_child
    (by decide) (by decide) (Or.inl rfl)).1

theorem clear_parents_total :
    ∀ (l : List Nat) (s : State), (∀ c ∈ l, ∃ cs, s.stream c = some cs) →
      ∃ s', clear_parents s l = .ok s' := by
  intro l
  induction l with
  | nil => intro s _; exact ⟨s, rfl⟩
  | cons c rest ih =>
    intro s h
    obtain ⟨cs, hcs⟩ := h c (List.mem_cons_self _ _)
    obtain ⟨s', hs'⟩ := ih (s.set c { cs with parent := none }) (by
      intro x hx
      obtain ⟨xs, hxs⟩ := h x (List.mem_cons_of_mem _ hx)
      by_cases hxc : x = c
      · subst hxc
        exact ⟨{ cs with parent := none }, by simp only [State.set, Function.update_same]⟩
      · exact ⟨xs, by simp only [State.set, Function.update_noteq hxc]; exact hxs⟩)
    exact ⟨s', by simp only [clear_parents, hcs, hs']⟩

theorem count_joined_pids_all (cs : module_stream_t) (p : Nat) :
    (joined_pids cs).count p = if p < TS_MAX_PIDS ∧ 0 < cs.pid_list p then 1 else 0 := by
  by_cases hp : p < TS_MAX_PIDS
  · rw [count_joined_pids cs p hp]
    simp only [hp, true_and]
  · have : p ∉ joined_pids cs := by
      intro hm
      simp only [joined_pids, List.mem_filter, List.mem_range] at hm
      exact hp hm.1
    rw [List.count_eq_zero.mpr this]
    simp only [hp, false_and, if_false]

/-- C8: `module_stream_destroy` on an initialised module of a forest with
consistent children lists returns; the module invokes its parent's `leave_pid`
exactly once for each PID it was subscribed to and for no other PID; it is
removed from its parent's children list; its stream is freed; and every former
child ends with no parent and with its own counters unchanged. -/
theorem destroy_leaves_and_detaches (d : Nat → Nat) (fuel : Nat) (s : State) (node par : Nat)
    (st ps : module_stream_t) (hw : WF d s) (hco : ChildrenOk s)
    (hst : s.stream node = some st) (hpar : st.parent = some par)
    (hps : s.stream par = some ps) (hl : ps.leave_pid ≠ .null)
    (hfuel : d node < fuel) (h256 : 256 ≤ fuel) :
    ∃ s' evs ps', module_stream_destroy fuel s node = .ok s' ∧
      s'.trace = s.trace ++ evs ∧
      (∀ p, evs.count (.leave_pid node par p) =
        if p < TS_MAX_PIDS ∧ 0 < st.pid_list p then 1 else 0) ∧
      s'.stream node = none ∧
      s'.stream par = some ps' ∧
      ps'.children = asc_list_remove_item ps.children node ∧ node ∉ ps'.children ∧
      (∀ c ∈ st.children, ∃ cs cs', s.stream c = some cs ∧ s'.stream c = some cs' ∧
        cs'.parent = none ∧ cs'.pid_list = cs.pid_list) := by
  have hval : ∀ i ∈ List.range TS_MAX_PIDS, i < TS_MAX_PIDS :=
    fun i hi => List.mem_range.mp hi
  -- leave all joined pids
  obtain ⟨s1, saved, hs1, he1, -⟩ := leave_all_effect d fuel (List.range TS_MAX_PIDS) s node
    (fun _ => 0) st hw hval (List.nodup_range _) hst hfuel h256 (fun _ _ => rfl)
  obtain ⟨st1, hst1, hpl1⟩ := he1.self st hst
  have hw1 : WF d s1 := he1.wf hw
  have hsh1 : shape st1 = shape st := by
    have := he1.shape node
    rw [hst1, hst] at this
    simpa using this
  simp only [shape, Prod.mk.injEq] at hsh1
  obtain ⟨ps1, hps1, hshp⟩ := he1.shape.fwd hps
  simp only [shape, Prod.mk.injEq] at hshp
  -- detach from upstream
  obtain ⟨s2, evs2, st2, hs2, ht2, ha2, hshape2, -, hst2, -, -, hframe2⟩ :=
    @attach_summary d fuel s1 none node st1 hw1 hst1 hfuel h256 (fun m hm => by cases hm)
  have hdrain1 : drain_all_direct s1 node (List.range TS_MAX_PIDS) = [] := by
    simp only [drain_all_direct, hst1]
    have : (List.range TS_MAX_PIDS).filter (fun p => decide (0 < st1.pid_list p)) = [] := by
      rw [List.filter_eq_nil_iff]
      intro p hp
      rw [hpl1]
      simp only [hp, if_true, Nat.lt_irrefl, decide_False, Bool.false_eq_true, not_false_iff]
    rw [this]
    split <;> rfl
  rw [hdrain1] at ha2
  simp only [replay_calls, List.append_nil] at ha2
  obtain ⟨st2', hst2', hsh2⟩ := hshape2 node st1 hst1
  rw [hst2] at hst2'; cases hst2'
  have hpn : par ≠ node := by
    intro e
    have := (hw.ranked node st par hst hpar).2
    rw [e] at this
    exact Nat.lt_irrefl _ this
  have hch2 : st2.children = st.children := by
    have := congrArg (fun x => x.2.2.1) hsh2
    simp only [shape, relink, hsh1.1, hpar] at this
    have hne : ¬ (some par = some node) := fun e => hpn (Option.some.inj e)
    have hnn : ¬ ((none : Option Nat) = some node) := fun e => by cases e
    simp only [hne, hnn, if_false] at this
    rw [this, hsh1.2.2.1]
  -- the children are initialised modules above the node
  have hkids : ∀ c ∈ st.children, ∃ cs, s.stream c = some cs ∧ cs.parent = some node ∧
      c ≠ node ∧ d node ≤ d c ∧ c ≠ par := by
    intro c hc
    obtain ⟨cs, hcs, hcp, -⟩ := hco.member node st c hst hc
    have h1 := (hw.ranked c cs node hcs hcp).2
    have h2 := (hw.ranked node st par hst hpar).2
    refine ⟨cs, hcs, hcp, ?_, Nat.le_of_lt h1, ?_⟩
    · intro e; rw [e] at h1; exact Nat.lt_irrefl _ h1
    · intro e; rw [e] at h1; omega
  have hkids2 : ∀ c ∈ st.children, ∀ cs, s.stream c = some cs → s2.stream c = some cs := by
    intro c hc cs hcs
    obtain ⟨_, _, _, hne, hle, _⟩ := hkids c hc
    rw [hframe2 c hne hle, he1.frame c hne hle, hcs]
  -- detach children
  obtain ⟨s3, hs3⟩ := clear_parents_total st2.children s2 (by
    intro c hc
    rw [hch2] at hc
    obtain ⟨cs, hcs, _⟩ := hkids c hc
    exact ⟨cs, hkids2 c hc cs hcs⟩)
  obtain ⟨ht3, hst3⟩ := clear_parents_spec _ _ _ hs3
  obtain ⟨e1, ht1, ha1, -⟩ := he1.trace
  -- the parent's record
  obtain ⟨ps2, hps2, hshp2⟩ := hshape2 par ps1 hps1
  have hpch : ps2.children = asc_list_remove_item ps.children node := by
    have := congrArg (fun x => x.2.2.1) hshp2
    simp only [shape, relink, hsh1.1, hpar] at this
    have hnn : ¬ ((none : Option Nat) = some par) := fun e => by cases e
    simp only [hnn, if_false, if_true] at this
    rw [this, hshp.2.2.1]
  have hpar_not_kid : par ∉ st2.children := by
    intro hin
    rw [hch2] at hin
    obtain ⟨_, _, _, _, _, hne⟩ := hkids par hin
    exact hne rfl
  refine ⟨{ s3 with stream := Function.update s3.stream node none }, e1 ++ evs2, ps2, ?_, ?_, ?_,
    ?_, ?_, hpch, ?_, ?_⟩
  · simp only [module_stream_destroy, hst, hs1, hs2, hst2, hs3]
  · show s3.trace = s.trace ++ (e1 ++ evs2)
    rw [ht3, ht2, ht1, List.append_assoc]
  · intro p
    have hcnt := @count_by_actor node (Event.leave_pid node par p) (e1 ++ evs2) rfl
    rw [← hcnt, by_actor_append, ha1, ha2, List.append_nil, drain_all_direct_eq hst hpar hps]
    simp only [hl, if_false]
    rw [(count_leave_map node par p _).1, count_joined_pids_all]
  · show Function.update s3.stream node none node = none
    simp only [Function.update_same]
  · show Function.update s3.stream node none par = some ps2
    rw [Function.update_noteq hpn, hst3]
    simp only [hpar_not_kid, if_false]
    exact hps2
  · rw [hpch]
    intro hin
    exact (List.Nodup.mem_erase_iff (hco.nodup par ps hps)).mp hin |>.1 rfl
  · intro c hc
    obtain ⟨cs, hcs, _, hne, _, _⟩ := hkids c hc
    refine ⟨cs, { cs with parent := none }, hcs, ?_, rfl, rfl⟩
    show Function.update s3.stream node none c = _
    rw [Function.update_noteq hne, hst3]
    have hin : c ∈ st2.children := by rw [hch2]; exact hc
    simp only [hin, if_true, hkids2 c hc cs hcs, Option.map_some']

theorem destroy_leaves_and_detaches_witness :
    ∃ s' evs ps', module_stream_destroy 300 demo 1 = .ok s' ∧
      s'.trace = demo.trace ++ evs ∧
      evs.count (.leave_pid 1 0 5) = 1 ∧ evs.count (.leave_pid 1 0 7) = 0 ∧
      s'.stream 1 = none ∧ s'.stream 0 = some ps' ∧ ps'.children = [] ∧
      ∃ cs', s'.stream 3 = some cs' ∧ cs'.parent = none ∧ cs'.pid_list 5 = 1 := by
  obtain ⟨s', evs, ps', h1, h2, h3, h4, h5, h6, -, h8⟩ :=
    destroy_leaves_and_detaches (fun n => n) 300 demo 1 0 demo_child demo_root demo_wf
      demo_childrenOk demo_stream_child rfl demo_stream_root (by decide) (by decide) (by decide)
  obtain ⟨cs, cs', hcs, hcs', hp, hpl⟩ := h8 3 (by simp [demo_child])
  rw [demo_stream_leaf] at hcs
  cases hcs
  refine ⟨s', evs, ps', h1, h2, ?_, ?_, h4, h5, ?_, cs', hcs', hp, ?_⟩
  · rw [h3 5]; simp [demo_child, TS_MAX_PIDS]
  · rw [h3 7]; simp [demo_child]
  · rw [h6]; simp [demo_root, asc_list_remove_item]
  · rw [hpl]; simp [demo_leaf]

/-! ## Job queue: FIFO order and pruning -/

theorem job_segment_self (jobs : Nat → loop_job_t) (a : Nat) : job_segment jobs a a = [] := by
  simp [job_segment]

theorem job_segment_cons (jobs : Nat → loop_job_t) {a b : Nat} (h : a < b) :
    job_segment jobs a b = jobs a :: job_segment jobs (a + 1) b := by
  unfold job_segment
  have : b - a = (b - (a + 1)) + 1 := by omega
  rw [this, List.range'_succ]
  rfl

theorem job_segment_snoc (jobs : Nat → loop_job_t) {a b : Nat} (h : a ≤ b) :
    job_segment jobs a (b + 1) = job_segment jobs a b ++ [jobs b] := by
  unfold job_segment
  have : b + 1 - a = (b - a) + 1 := by omega
  rw [this, List.range'_concat, List.map_append]
  simp only [List.map_cons, List.map_nil, Nat.one_mul]
  have : a + (b - a) = b := by omega
  rw [this]

theorem job_segment_congr {f g : Nat → loop_job_t} {a b : Nat}
    (h : ∀ k, a ≤ k → k < b → f k = g k) : job_segment f a b = job_segment g a b := by
  unfold job_segment
  apply List.map_congr_left
  intro k hk
  rw [List.mem_range'_1] at hk
  exact h k hk.1 (by omega)

theorem job_segment_shift (jobs : Nat → loop_job_t) (a b : Nat) :
    job_segment (fun k => jobs (k + 1)) a b = job_segment jobs (a + 1) (b + 1) := by
  unfold job_segment
  have : b + 1 - (a + 1) = b - a := by omega
  rw [this]
  have key : ∀ (n s : Nat), List.range' (s + 1) n = (List.range' s n).map (fun k => k + 1) := by
    intro n
    induction n with
    | zero => intro s; rfl
    | succ n ih => intro s; simp only [List.range'_succ, List.map_cons, ih]
  rw [key, List.map_map]
  rfl

theorem prune_loop_spec (owner : Nat) :
    ∀ (n i : Nat) (ml : asc_main_loop_t), i ≤ ml.job_cnt → ml.job_cnt - i ≤ n →
      queue_list (prune_loop owner n i ml) =
        job_segment ml.jobs 0 i ++
          (job_segment ml.jobs i ml.job_cnt).filter (fun j => decide (j.owner ≠ owner)) ∧
      (prune_loop owner n i ml).trace = ml.trace ∧
      (prune_loop owner n i ml).flags = ml.flags ∧
      (prune_loop owner n i ml).stop_cnt = ml.stop_cnt := by
  intro n
  induction n with
  | zero =>
    intro i ml hi hn
    have : i = ml.job_cnt := by omega
    subst this
    simp [prune_loop, queue_list, job_segment_self]
  | succ n ih =>
    intro i ml hi hn
    simp only [prune_loop]
    by_cases hlt : i < ml.job_cnt
    · simp only [hlt, if_true]
      by_cases hown : (ml.jobs i).owner = owner
      · simp only [hown, if_true]
        obtain ⟨h1, h2, h3, h4⟩ := ih i
          { ml with
            job_cnt := ml.job_cnt - 1
            jobs := memmove_jobs ml.jobs i (ml.job_cnt - 1 - i) }
          (by simp only; omega) (by simp only; omega)
        refine ⟨?_, h2, h3, h4⟩
        rw [h1]
        simp only
        have e1 : job_segment (memmove_jobs ml.jobs i (ml.job_cnt - 1 - i)) 0 i =
            job_segment ml.jobs 0 i := by
          apply job_segment_congr
          intro k _ hk
          have : ¬ (i ≤ k ∧ k < i + (ml.job_cnt - 1 - i)) := fun h => by omega
          simp only [memmove_jobs, this, if_false]
        have e2 : job_segment (memmove_jobs ml.jobs i (ml.job_cnt - 1 - i)) i (ml.job_cnt - 1) =
            job_segment ml.jobs (i + 1) ml.job_cnt := by
          have : ml.job_cnt = (ml.job_cnt - 1) + 1 := by omega
          rw [this, ← job_segment_shift]
          apply job_segment_congr
          intro k hk1 hk2
          have : i ≤ k ∧ k < i + (ml.job_cnt - 1 + 1 - 1 - i) := ⟨hk1, by omega⟩
          simp only [memmove_jobs, this, and_self, if_true]
        rw [e1, e2, job_segment_cons ml.jobs hlt, List.filter_cons]
        simp [hown]
      · simp only [hown, if_false]
        obtain ⟨h1, h2, h3, h4⟩ := ih (i + 1) ml (by omega) (by omega)
        refine ⟨?_, h2, h3, h4⟩
        rw [h1, job_segment_snoc ml.jobs (Nat.zero_le i), job_segment_cons ml.jobs hlt,
          List.filter_cons]
        simp [hown]
    · simp only [hlt, if_false]
      have : i = ml.job_cnt := by omega
      subst this
      simp [queue_list, job_segment_self]

theorem run_jobs_loop_spec :
    ∀ (n : Nat) (ml : asc_main_loop_t), ml.job_cnt ≤ n →
      (run_jobs_loop n ml).trace =
        ml.trace ++ (queue_list ml).map (fun j => .call j.proc j.arg) ∧
      (run_jobs_loop n ml).job_cnt = 0 := by
  intro n
  induction n with
  | zero =>
    intro ml h
    have : ml.job_cnt = 0 := by omega
    simp [run_jobs_loop, queue_list, this, job_segment_self]
  | succ n ih =>
    intro ml h
    simp only [run_jobs_loop]
    by_cases hpos : 0 < ml.job_cnt
    · simp only [hpos, if_true]
      obtain ⟨h1, h2⟩ := ih
        { ml with
          job_cnt := ml.job_cnt - 1
          jobs := memmove_jobs ml.jobs 0 (ml.job_cnt - 1)
          trace := ml.trace ++ [.call (ml.jobs 0).proc (ml.jobs 0).arg] }
        (by simp only; omega)
      refine ⟨?_, h2⟩
      rw [h1]
      simp only [queue_list]
      have e2 : job_segment (memmove_jobs ml.jobs 0 (ml.job_cnt - 1)) 0 (ml.job_cnt - 1) =
          job_segment ml.jobs 1 ml.job_cnt := by
        have : ml.job_cnt = (ml.job_cnt - 1) + 1 := by omega
        rw [this, ← job_segment_shift]
        apply job_segment_congr
        intro k hk1 hk2
        have : 0 ≤ k ∧ k < 0 + (ml.job_cnt - 1 + 1 - 1) := ⟨hk1, by omega⟩
        simp only [memmove_jobs, this, and_self, if_true]
      rw [e2, job_segment_cons ml.jobs hpos]
      simp
    · simp only [hpos, if_false]
      have : ml.job_cnt = 0 := by omega
      simp [queue_list, this, job_segment_self]

theorem queue_all_spec :
    ∀ (js : List loop_job_t) (ml : asc_main_loop_t),
      ml.job_cnt + js.length ≤ JOB_QUEUE_SIZE →
      queue_list (queue_all ml js) = queue_list ml ++ js ∧
      (queue_all ml js).trace = ml.trace ∧
      (queue_all ml js).job_cnt = ml.job_cnt + js.length := by
  intro js
  induction js with
  | nil => intro ml _; simp [queue_all]
  | cons j rest ih =>
    intro ml h
    simp only [List.length_cons] at h
    have hlt : ml.job_cnt < JOB_QUEUE_SIZE := by omega
    have hq : asc_job_queue ml j.owner j.proc j.arg =
        { ml with
          jobs := Function.update ml.jobs ml.job_cnt j
          job_cnt := ml.job_cnt + 1 } := by
      simp only [asc_job_queue, hlt, if_true]
    obtain ⟨h1, h2, h3⟩ := ih (asc_job_queue ml j.owner j.proc j.arg)
      (by rw [hq]; simp only; omega)
    have hstep : queue_all ml (j :: rest) =
        queue_all (asc_job_queue ml j.owner j.proc j.arg) rest := rfl
    rw [hstep]
    refine ⟨?_, ?_, ?_⟩
    · rw [h1, hq]
      simp only [queue_list]
      rw [job_segment_snoc _ (Nat.zero_le _), Function.update_same, List.append_assoc]
      have : job_segment (Function.update ml.jobs ml.job_cnt j) 0 ml.job_cnt =
          job_segment ml.jobs 0 ml.job_cnt := by
        apply job_segment_congr
        intro k _ hk
        rw [Function.update_noteq (by omega)]
      rw [this]
      rfl
    · rw [h2, hq]
    · rw [h3, hq]
      simp only [List.length_cons]
      omega

/-- C9: for every sequence of at most 256 `asc_job_queue` calls on an empty
queue, the queue then holds exactly those jobs in call order, and a following
`run_jobs` invokes exactly their callbacks, each once with its own argument, in
the order they were queued, and leaves the queue empty (callbacks are foreign
code that does not touch the queue). -/
theorem jobs_run_fifo (ml0 : asc_main_loop_t) (js : List loop_job_t)
    (h0 : ml0.job_cnt = 0) (hn : js.length ≤ JOB_QUEUE_SIZE) :
    queue_list (queue_all ml0 js) = js ∧
    (queue_all ml0 js).trace = ml0.trace ∧
    (run_jobs (queue_all ml0 js)).trace =
      ml0.trace ++ js.map (fun j => .call j.proc j.arg) ∧
    (run_jobs (queue_all ml0 js)).job_cnt = 0 := by
  obtain ⟨h1, h2, -⟩ := queue_all_spec js ml0 (by omega)
  have hq0 : queue_list ml0 = [] := by simp [queue_list, h0, job_segment_self]
  rw [hq0, List.nil_append] at h1
  obtain ⟨h3, h4⟩ := run_jobs_loop_spec (queue_all ml0 js).job_cnt (queue_all ml0 js)
    (Nat.le_refl _)
  refine ⟨h1, h2, ?_, h4⟩
  show (run_jobs_loop (queue_all ml0 js).job_cnt (queue_all ml0 js)).trace = _
  rw [h3, h1, h2]

theorem jobs_run_fifo_witness :
    (run_jobs (queue_all ⟨0, 0, fun _ => ⟨0, 0, 0⟩, 0, []⟩
      [⟨10, 1, 7⟩, ⟨20, 2, 8⟩, ⟨10, 3, 7⟩])).trace =
      [.call 10 1, .call 20 2, .call 10 3] :=
  (jobs_run_fifo ⟨0, 0, fun _ => ⟨0, 0, 0⟩, 0, []⟩ [⟨10, 1, 7⟩, ⟨20, 2, 8⟩, ⟨10, 3, 7⟩] rfl
    (by decide)).2.2.1

/-- C10: for every queue content and every owner, after `asc_job_prune` the
queue is the previous queue with every entry of that owner removed: no entry of
the owner remains, the other entries remain unchanged in their FIFO order; a
following `run_jobs` invokes exactly the callbacks of the remaining entries,
in order. -/
theorem prune_removes_owner (ml : asc_main_loop_t) (owner : Nat) :
    queue_list (asc_job_prune ml owner) =
      (queue_list ml).filter (fun j => decide (j.owner ≠ owner)) ∧
    (∀ j ∈ queue_list (asc_job_prune ml owner), j.owner ≠ owner) ∧
    (asc_job_prune ml owner).trace = ml.trace ∧
    (run_jobs (asc_job_prune ml owner)).trace =
      ml.trace ++ ((queue_list ml).filter (fun j => decide (j.owner ≠ owner))).map
        (fun j => .call j.proc j.arg) ∧
    (run_jobs (asc_job_prune ml owner)).job_cnt = 0 := by
  obtain ⟨h1, h2, -, -⟩ := prune_loop_spec owner ml.job_cnt 0 ml (Nat.zero_le _) (by omega)
  rw [job_segment_self, List.nil_append] at h1
  have hq : queue_list (asc_job_prune ml owner) =
      (queue_list ml).filter (fun j => decide (j.owner ≠ owner)) := h1
  obtain ⟨h3, h4⟩ := run_jobs_loop_spec (asc_job_prune ml owner).job_cnt
    (asc_job_prune ml owner) (Nat.le_refl _)
  refine ⟨hq, ?_, h2, ?_, h4⟩
  · intro j hj
    rw [hq, List.mem_filter] at hj
    simpa using hj.2
  · show (run_jobs_loop (asc_job_prune ml owner).job_cnt (asc_job_prune ml owner)).trace = _
    rw [h3, hq]
    congr 1

/-! ## Job queue overflow and shutdown requests -/

theorem queue_list_length (ml : asc_main_loop_t) : (queue_list ml).length = ml.job_cnt := by
  simp [queue_list, job_segment]

/-- C11: `asc_job_queue` on a queue that holds 256 jobs flushes it: the queue is
empty afterwards, the overflow is logged, and a following `run_jobs` invokes
no callback (neither one of the 256 earlier jobs nor the new one); on a queue
with fewer than 256 jobs the new job is appended at the tail and nothing is
logged; and `job_cnt <= 256` is kept by `asc_job_queue`, `asc_job_prune` and
`run_jobs`. -/
theorem queue_overflow_flushes (ml : asc_main_loop_t) (owner proc arg : Nat)
    (hcnt : ml.job_cnt ≤ JOB_QUEUE_SIZE) :
    (ml.job_cnt = JOB_QUEUE_SIZE →
      queue_list (asc_job_queue ml owner proc arg) = [] ∧
      (asc_job_queue ml owner proc arg).job_cnt = 0 ∧
      (asc_job_queue ml owner proc arg).trace = ml.trace ++ [.overflow] ∧
      (run_jobs (asc_job_queue ml owner proc arg)).trace = ml.trace ++ [.overflow]) ∧
    (ml.job_cnt < JOB_QUEUE_SIZE →
      queue_list (asc_job_queue ml owner proc arg) =
        queue_list ml ++ [{ proc := proc, arg := arg, owner := owner }] ∧
      (asc_job_queue ml owner proc arg).trace = ml.trace) ∧
    (asc_job_queue ml owner proc arg).job_cnt ≤ JOB_QUEUE_SIZE ∧
    (asc_job_prune ml owner).job_cnt ≤ JOB_QUEUE_SIZE ∧
    (run_jobs ml).job_cnt ≤ JOB_QUEUE_SIZE := by
  refine ⟨?_, ?_, ?_, ?_, ?_⟩
  · intro hfull
    have hq : asc_job_queue ml owner proc arg =
        { ml with job_cnt := 0, trace := ml.trace ++ [.overflow] } := by
      simp [asc_job_queue, hfull]
    rw [hq]
    refine ⟨by simp [queue_list, job_segment_self], rfl, rfl, ?_⟩
    simp [run_jobs, run_jobs_loop]
  · intro hlt
    have h := queue_all_spec [{ proc := proc, arg := arg, owner := owner }] ml
      (by simp only [List.length_singleton]; omega)
    simp only [queue_all, List.foldl_cons, List.foldl_nil] at h
    exact ⟨h.1, h.2.1⟩
  · unfold asc_job_queue
    split
    · simp only; omega
    · simp
  · have h := (prune_loop_spec owner ml.job_cnt 0 ml (Nat.zero_le _) (by omega)).1
    have hl := congrArg List.length h
    rw [queue_list_length, job_segment_self, List.nil_append] at hl
    have hle := List.length_filter_le (fun j => decide (j.owner ≠ owner))
      (job_segment ml.jobs 0 ml.job_cnt)
    have hq := queue_list_length ml
    simp only [queue_list] at hq
    show (prune_loop owner ml.job_cnt 0 ml).job_cnt ≤ JOB_QUEUE_SIZE
    omega
  · have h := (run_jobs_loop_spec ml.job_cnt ml (Nat.le_refl _)).2
    show (run_jobs_loop ml.job_cnt ml).job_cnt ≤ JOB_QUEUE_SIZE
    omega

theorem queue_overflow_flushes_witness :
    (run_jobs (asc_job_queue ⟨0, 0, fun k => ⟨k, k, 7⟩, 256, []⟩ 8 99 1)).trace = [.overflow] :=
  ((queue_overflow_flushes ⟨0, 0, fun k => ⟨k, k, 7⟩, 256, []⟩ 8 99 1 (by decide)).1 rfl).2.2.2

theorem shutdown_flag_set (ml : asc_main_loop_t) :
    (asc_main_loop_set ml MAIN_LOOP_SHUTDOWN).flags &&& MAIN_LOOP_SHUTDOWN ≠ 0 := by
  simp only [asc_main_loop_set, MAIN_LOOP_SHUTDOWN, Nat.and_one_is_mod]
  have : (ml.flags ||| 1) % 2 = 1 := Nat.or_mod_two_eq_one.mpr (Or.inr rfl)
  omega

theorem shutdown_step (m : asc_main_loop_t) (hflag : m.flags &&& MAIN_LOOP_SHUTDOWN ≠ 0) :
    (m.stop_cnt = 0 → astra_shutdown m =
      some (asc_main_loop_set { m with stop_cnt := 1 } MAIN_LOOP_SHUTDOWN)) ∧
    (m.stop_cnt = 1 → astra_shutdown m =
      some (asc_main_loop_set { m with stop_cnt := 2, trace := m.trace ++ [.blocked] }
        MAIN_LOOP_SHUTDOWN)) ∧
    (m.stop_cnt = 2 → astra_shutdown m = none) := by
  refine ⟨?_, ?_, ?_⟩ <;> intro h <;>
    simp [astra_shutdown, hflag, h]

/-- Four shutdown requests in a row, starting from a state without a pending
request. -/
theorem shutdown_sequence (ml : asc_main_loop_t)
    (hflag : ml.flags &&& MAIN_LOOP_SHUTDOWN = 0) (hcnt : ml.stop_cnt = 0) :
    ∃ m1 m2 m3, astra_shutdown ml = some m1 ∧ astra_shutdown m1 = some m2 ∧
      astra_shutdown m2 = some m3 ∧ astra_shutdown m3 = none ∧
      m1.flags &&& MAIN_LOOP_SHUTDOWN ≠ 0 ∧ m2.flags &&& MAIN_LOOP_SHUTDOWN ≠ 0 ∧
      m3.flags &&& MAIN_LOOP_SHUTDOWN ≠ 0 ∧
      m1.trace = ml.trace ∧ m2.trace = ml.trace ∧ m3.trace = ml.trace ++ [.blocked] ∧
      (consume_flags m3).1.stop_cnt = 0 ∧
      (consume_flags m3).1.flags &&& MAIN_LOOP_SHUTDOWN = 0 ∧ (consume_flags m3).2 = true := by
  have h1 : astra_shutdown ml = some (asc_main_loop_set ml MAIN_LOOP_SHUTDOWN) := by
    simp [astra_shutdown, hflag]
  have f1 := shutdown_flag_set ml
  have h2 := (shutdown_step _ f1).1 hcnt
  have f2 := shutdown_flag_set { asc_main_loop_set ml MAIN_LOOP_SHUTDOWN with stop_cnt := 1 }
  have h3 := (shutdown_step _ f2).2.1 rfl
  have f3 := shutdown_flag_set
    { asc_main_loop_set { asc_main_loop_set ml MAIN_LOOP_SHUTDOWN with stop_cnt := 1 }
        MAIN_LOOP_SHUTDOWN with
      stop_cnt := 2
      trace := (asc_main_loop_set { asc_main_loop_set ml MAIN_LOOP_SHUTDOWN with stop_cnt := 1 }
        MAIN_LOOP_SHUTDOWN).trace ++ [.blocked] }
  have h4 := (shutdown_step _ f3).2.2 rfl
  have hne : ∀ m : asc_main_loop_t, m.flags &&& MAIN_LOOP_SHUTDOWN ≠ 0 → m.flags ≠ 0 := by
    intro m hm h0
    rw [h0] at hm
    exact hm rfl
  have hc : consume_flags (asc_main_loop_set
      { asc_main_loop_set { asc_main_loop_set ml MAIN_LOOP_SHUTDOWN with stop_cnt := 1 }
          MAIN_LOOP_SHUTDOWN with
        stop_cnt := 2
        trace := (asc_main_loop_set { asc_main_loop_set ml MAIN_LOOP_SHUTDOWN with stop_cnt := 1 }
          MAIN_LOOP_SHUTDOWN).trace ++ [.blocked] } MAIN_LOOP_SHUTDOWN) =
      ({ (asc_main_loop_set
        { asc_main_loop_set { asc_main_loop_set ml MAIN_LOOP_SHUTDOWN with stop_cnt := 1 }
            MAIN_LOOP_SHUTDOWN with
          stop_cnt := 2
          trace := (asc_main_loop_set
            { asc_main_loop_set ml MAIN_LOOP_SHUTDOWN with stop_cnt := 1 }
            MAIN_LOOP_SHUTDOWN).trace ++ [.blocked] } MAIN_LOOP_SHUTDOWN) with
        flags := 0, stop_cnt := 0 }, true) := by
    simp only [consume_flags, hne _ f3, f3, ne_eq, not_false_eq_true, if_true]
  refine ⟨_, _, _, h1, h2, h3, h4, f1, f2, f3, rfl, rfl, rfl, ?_, ?_, ?_⟩
  · rw [hc]
  · rw [hc]; exact Nat.zero_and _
  · rw [hc]

/-- C12 (amended): when `astra_shutdown` is called four times in a row without
the main loop consuming the `SHUTDOWN` flag in between, the fourth call takes
the `_exit` branch; the first three calls return with the flag set, the third
one after logging that the main thread appears to be blocked; and the main
loop's consumption of the flag resets the count. -/
theorem shutdown_exits_on_fourth_call (ml : asc_main_loop_t)
    (hflag : ml.flags &&& MAIN_LOOP_SHUTDOWN = 0) (hcnt : ml.stop_cnt = 0) :
    ∃ m1 m2 m3, astra_shutdown ml = some m1 ∧ astra_shutdown m1 = some m2 ∧
      astra_shutdown m2 = some m3 ∧ astra_shutdown m3 = none ∧
      m1.flags &&& MAIN_LOOP_SHUTDOWN ≠ 0 ∧ m2.flags &&& MAIN_LOOP_SHUTDOWN ≠ 0 ∧
      m3.flags &&& MAIN_LOOP_SHUTDOWN ≠ 0 ∧
      m1.trace = ml.trace ∧ m2.trace = ml.trace ∧ m3.trace = ml.trace ++ [.blocked] ∧
      (consume_flags m3).1.stop_cnt = 0 ∧
      (consume_flags m3).1.flags &&& MAIN_LOOP_SHUTDOWN = 0 ∧ (consume_flags m3).2 = true :=
  shutdown_sequence ml hflag hcnt

theorem shutdown_exits_on_fourth_call_witness :
    ∃ m1 m2 m3, astra_shutdown ⟨0, 0, fun _ => ⟨0, 0, 0⟩, 0, []⟩ = some m1 ∧
      astra_shutdown m1 = some m2 ∧ astra_shutdown m2 = some m3 ∧ astra_shutdown m3 = none := by
  obtain ⟨m1, m2, m3, h1, h2, h3, h4, -⟩ :=
    shutdown_exits_on_fourth_call ⟨0, 0, fun _ => ⟨0, 0, 0⟩, 0, []⟩ rfl rfl
  exact ⟨m1, m2, m3, h1, h2, h3, h4⟩

/-- C12 (as stated) fails: three `astra_shutdown` calls in a row on the freshly
initialised main loop all return; the third one does not take the `_exit`
branch. -/
theorem shutdown_third_call_returns :
    ∃ m1 m2 m3, astra_shutdown ⟨0, 0, fun _ => ⟨0, 0, 0⟩, 0, []⟩ = some m1 ∧
      astra_shutdown m1 = some m2 ∧ astra_shutdown m2 = some m3 ∧
      m3.stop_cnt = 2 ∧ m3.trace = [.blocked] :=
  ⟨_, _, _, rfl, rfl, rfl, rfl, rfl⟩

/-! ## Channel: packet dispatch -/

theorem getD_byte (ts : List Nat) (hts : ∀ b ∈ ts, b < 256) (i : Nat) : ts.getD i 0 < 256 := by
  by_cases h : i < ts.length
  · rw [List.getD_eq_getElem _ _ h]
    exact hts _ (List.getElem_mem _)
  · rw [List.getD_eq_default _ _ (by omega)]
    decide

theorem TS_GET_PID_lt (ts : List Nat) (hts : ∀ b ∈ ts, b < 256) :
    TS_GET_PID ts < TS_MAX_PIDS := by
  have h1 : ts.getD 1 0 &&& 0x1F ≤ 0x1F := Nat.and_le_right
  have h2 := getD_byte ts hts 2
  have h3 : (ts.getD 1 0 &&& 0x1F) <<< 8 < 2 ^ 13 := by
    rw [Nat.shiftLeft_eq]
    omega
  have h4 : ts.getD 2 0 < 2 ^ 13 := by omega
  exact Nat.or_lt_two_pow h3 h4

/-- Claim C13: `on_ts` returns the tree and the channel record unchanged (so
nothing is forwarded and no state is written) for a packet whose PID is not
subscribed, is the null PID, or has stream type `UNKNOWN`. -/
theorem on_ts_discards (lib : mpegts_lib) (fuel : Nat) (s : State) (self : Nat)
    (mod : module_data_t) (ts : List Nat) (secs : List ((Nat → Nat) × Nat))
    (st : module_stream_t) (hts : ∀ b ∈ ts, b < 256) (hst : s.stream self = some st)
    (h : module_demux_check s self (TS_GET_PID ts) = .ok false ∨
      TS_GET_PID ts = TS_NULL_PID ∨ mod.stream (TS_GET_PID ts) = .UNKNOWN) :
    on_ts lib fuel s self mod ts secs = .ok (s, mod) := by
  have hv : ts_pid_valid (TS_GET_PID ts) = true := by
    simp [ts_pid_valid, TS_GET_PID_lt ts hts]
  have hc : module_demux_check s self (TS_GET_PID ts) =
      .ok (decide (0 < st.pid_list (TS_GET_PID ts))) := by
    simp [module_demux_check, hv, hst]
  unfold on_ts
  simp only []
  generalize TS_GET_PID ts = pid at hc h
  rcases h with h | h | h
  · rw [h]
  · rw [hc]
    cases decide (0 < st.pid_list pid) <;> simp [h]
  · rw [hc]
    cases decide (0 < st.pid_list pid) <;> simp [h]
theorem demo_packet_bytes (pid : Nat) : ∀ b ∈ demo_packet pid, b < 256 := by
  intro b hb
  simp only [demo_packet, List.mem_append, List.mem_cons, List.mem_singleton,
    List.mem_replicate, List.not_mem_nil, or_false] at hb
  have h1 : (pid >>> 8) &&& 0x1F ≤ 0x1F := Nat.and_le_right
  have h2 : pid &&& 0xFF ≤ 0xFF := Nat.and_le_right
  rcases hb with (hb | hb | hb | hb) | hb
  · omega
  · omega
  · omega
  · omega
  · omega

theorem on_ts_discards_witness :
    on_ts demo_lib 4 chan_tree 1 chan_mod (demo_packet 0x500) [] = .ok (chan_tree, chan_mod) :=
  on_ts_discards demo_lib 4 chan_tree 1 chan_mod (demo_packet 0x500) [] _
    (demo_packet_bytes 0x500) rfl (Or.inl rfl)

/-! ## Bit fields -/

theorem and_and_zero (x y a b : Nat) (h : a &&& b = 0) : (x &&& a) &&& (y &&& b) = 0 := by
  have : (x &&& a) &&& (y &&& b) = (x &&& y) &&& (a &&& b) := by
    rw [Nat.and_assoc, Nat.and_assoc, ← Nat.and_assoc a y b, Nat.land_comm a y, Nat.and_assoc]
  rw [this, h, Nat.and_zero]

theorem or_and_mask (u v m : Nat) : (u ||| v) &&& m = (u &&& m) ||| (v &&& m) := by
  rw [Nat.land_comm, Nat.and_or_distrib_left, Nat.land_comm m u, Nat.land_comm m v]

/-- The low 13 bits written as five bits of one byte and eight of the next
read back as the PID. -/
theorem pid_field_roundtrip (u p : Nat) (hu : u &&& 0x1F = 0) (hp : p < 8192) :
    (((u ||| ((p >>> 8) &&& 0x1F)) &&& 0x1F) <<< 8) ||| (p &&& 0xFF) = p := by
  rw [or_and_mask, hu, Nat.zero_or, Nat.and_assoc]
  have h1 : (0x1F : Nat) &&& 0x1F = 2 ^ 5 - 1 := by decide
  have h2 : (0xFF : Nat) = 2 ^ 8 - 1 := by decide
  rw [h1, h2, Nat.and_pow_two_sub_one_eq_mod, Nat.and_pow_two_sub_one_eq_mod,
    Nat.shiftRight_eq_div_pow, Nat.shiftLeft_eq, Nat.mul_comm,
    ← Nat.mul_add_lt_is_or (Nat.mod_lt _ (by decide))]
  have : p / 2 ^ 8 % 2 ^ 5 = p / 2 ^ 8 := Nat.mod_eq_of_lt (by omega)
  rw [this]
  omega

theorem and_E0_1F (x : Nat) : (x &&& 0xE0) &&& 0x1F = 0 := by
  rw [Nat.and_assoc]
  exact Nat.and_zero x

/-- Writing the low five bits of a byte keeps its upper three bits. -/
theorem pid_field_keeps_high (x q : Nat) :
    ((x &&& 0xE0) ||| (q &&& 0x1F)) &&& 0xE0 = x &&& 0xE0 := by
  rw [or_and_mask, Nat.and_assoc, Nat.and_assoc]
  have h1 : (0xE0 : Nat) &&& 0xE0 = 0xE0 := by decide
  have h2 : (0x1F : Nat) &&& 0xE0 = 0 := by decide
  rw [h1, h2, Nat.and_zero, Nat.or_zero]

theorem TS_SET_PID_length (ts : List Nat) (p : Nat) : (TS_SET_PID ts p).length = ts.length := by
  simp [TS_SET_PID]

theorem TS_SET_PID_getD (ts : List Nat) (p i : Nat) (h1 : i ≠ 1) (h2 : i ≠ 2) :
    (TS_SET_PID ts p).getD i 0 = ts.getD i 0 := by
  simp only [TS_SET_PID, List.getD_eq_getElem?_getD]
  rw [List.getElem?_set_ne (Ne.symm h2), List.getElem?_set_ne (Ne.symm h1)]

theorem TS_SET_PID_high (ts : List Nat) (p : Nat) (hlen : 3 ≤ ts.length) :
    (TS_SET_PID ts p).getD 1 0 &&& 0xE0 = ts.getD 1 0 &&& 0xE0 := by
  simp only [TS_SET_PID, List.getD_eq_getElem?_getD]
  rw [List.getElem?_set_ne (by decide), List.getElem?_set_eq_of_lt _ (by omega)]
  exact pid_field_keeps_high _ _

theorem TS_GET_SET_PID (ts : List Nat) (p : Nat) (hlen : 3 ≤ ts.length) (hp : p < TS_MAX_PIDS) :
    TS_GET_PID (TS_SET_PID ts p) = p := by
  simp only [TS_GET_PID, TS_SET_PID, List.getD_eq_getElem?_getD]
  rw [List.getElem?_set_ne (by decide), List.getElem?_set_eq_of_lt _ (by omega),
    List.getElem?_set_eq_of_lt _ (by simp; omega)]
  exact pid_field_roundtrip _ p (and_E0_1F _) hp

/-! ## Channel: forwarding and PID rewrite -/

theorem stream_send_spec (s : State) (self : Nat) (ts : List Nat) (st : module_stream_t)
    (hst : s.stream self = some st)
    (hch : ∀ c ∈ st.children, ∃ cs cb, s.stream c = some cs ∧ cs.on_ts = some cb) :
    ∃ s', module_stream_send s self ts = .ok s' ∧ s'.stream = s.stream ∧
      s'.trace = s.trace ++ st.children.map (fun c => .on_ts self c (on_ts_of s c) ts) := by
  simp only [module_stream_send, hst]
  exact send_children_spec self ts st.children s hch

theorem on_ts_forward (lib : mpegts_lib) (fuel : Nat) (s : State) (self : Nat)
    (mod : module_data_t) (ts : List Nat) (secs : List ((Nat → Nat) × Nat))
    (st : module_stream_t) (hts : ∀ b ∈ ts, b < 256) (hst : s.stream self = some st)
    (hsub : 0 < st.pid_list (TS_GET_PID ts)) (hnull : TS_GET_PID ts ≠ TS_NULL_PID)
    (hty : mod.stream (TS_GET_PID ts) ≠ .PAT ∧ mod.stream (TS_GET_PID ts) ≠ .CAT ∧
      mod.stream (TS_GET_PID ts) ≠ .PMT ∧ mod.stream (TS_GET_PID ts) ≠ .UNKNOWN ∧
      (mod.stream (TS_GET_PID ts) = .SDT → mod.config.pass_sdt = true) ∧
      (mod.stream (TS_GET_PID ts) = .EIT → mod.config.pass_eit = true)) :
    on_ts lib fuel s self mod ts secs = ts_forward s self mod ts (TS_GET_PID ts) := by
  have hv : ts_pid_valid (TS_GET_PID ts) = true := by
    simp [ts_pid_valid, TS_GET_PID_lt ts hts]
  have hc : module_demux_check s self (TS_GET_PID ts) = .ok true := by
    simp [module_demux_check, hv, hst, hsub]
  unfold on_ts
  simp only []
  generalize TS_GET_PID ts = pid at hc hnull hty ⊢
  rw [hc]
  obtain ⟨h1, h2, h3, h4, h5, h6⟩ := hty
  simp only [hnull, if_false]
  cases hs : mod.stream pid <;> simp_all

theorem ts_forward_spec (s : State) (self : Nat) (mod : module_data_t) (ts : List Nat)
    (pid : Nat) (st : module_stream_t) (hst : s.stream self = some st)
    (hch : ∀ c ∈ st.children, ∃ cs cb, s.stream c = some cs ∧ cs.on_ts = some cb)
    (hmap : mod.pid_map pid ≠ TS_MAX_PIDS) :
    ∃ s' pkt, ts_forward s self mod ts pid = .ok (s', { mod with
          custom_ts := if mod.map.isSome = true ∧ mod.pid_map pid ≠ 0 then pkt
            else mod.custom_ts,
          out := mod.out ++ [.send pkt] }) ∧
      s'.stream = s.stream ∧
      s'.trace = s.trace ++ st.children.map (fun c => .on_ts self c (on_ts_of s c) pkt) ∧
      pkt = if mod.map.isSome = true ∧ mod.pid_map pid ≠ 0 then
          TS_SET_PID (ts.take TS_PACKET_SIZE) (mod.pid_map pid) else ts := by
  unfold ts_forward
  simp only [hmap, if_false]
  by_cases hr : mod.map.isSome = true ∧ mod.pid_map pid ≠ 0
  · obtain ⟨s', h1, h2, h3⟩ := stream_send_spec s self
      (TS_SET_PID (ts.take TS_PACKET_SIZE) (mod.pid_map pid)) st hst hch
    refine ⟨s', _, ?_, h2, h3, ?_⟩
    · simp only [hr, and_self, if_true, h1, ne_eq, not_false_eq_true]
    · simp only [hr, and_self, if_true, ne_eq, not_false_eq_true]
  · obtain ⟨s', h1, h2, h3⟩ := stream_send_spec s self ts st hst hch
    refine ⟨s', _, ?_, h2, h3, ?_⟩
    · simp only [hr, if_false, h1]
    · simp only [hr, if_false]

/-- Claim C15: a payload packet that `on_ts` forwards is emitted, when a map
is configured and `pid_map[p]` is non-zero, as a copy that carries the PID
`pid_map[p]` and agrees with the input in every bit outside the 13-bit PID
field (only the scratch buffer `custom_ts` is written); otherwise the input
packet itself is emitted. -/
theorem on_ts_rewrites_pid (lib : mpegts_lib) (fuel : Nat) (s : State) (self : Nat)
    (mod : module_data_t) (ts : List Nat) (secs : List ((Nat → Nat) × Nat))
    (st : module_stream_t) (hts : ∀ b ∈ ts, b < 256) (hlen : ts.length = TS_PACKET_SIZE)
    (hst : s.stream self = some st)
    (hch : ∀ c ∈ st.children, ∃ cs cb, s.stream c = some cs ∧ cs.on_ts = some cb)
    (hsub : 0 < st.pid_list (TS_GET_PID ts)) (hnull : TS_GET_PID ts ≠ TS_NULL_PID)
    (hty : mod.stream (TS_GET_PID ts) ≠ .PAT ∧ mod.stream (TS_GET_PID ts) ≠ .CAT ∧
      mod.stream (TS_GET_PID ts) ≠ .PMT ∧ mod.stream (TS_GET_PID ts) ≠ .UNKNOWN ∧
      (mod.stream (TS_GET_PID ts) = .SDT → mod.config.pass_sdt = true) ∧
      (mod.stream (TS_GET_PID ts) = .EIT → mod.config.pass_eit = true))
    (hmap : mod.pid_map (TS_GET_PID ts) < TS_MAX_PIDS) :
    ∃ s' pkt,
      on_ts lib fuel s self mod ts secs = .ok (s', { mod with
          custom_ts := if mod.map.isSome = true ∧ mod.pid_map (TS_GET_PID ts) ≠ 0 then pkt
            else mod.custom_ts,
          out := mod.out ++ [.send pkt] }) ∧
      s'.stream = s.stream ∧
      s'.trace = s.trace ++ st.children.map (fun c => .on_ts self c (on_ts_of s c) pkt) ∧
      (mod.map.isSome = true ∧ mod.pid_map (TS_GET_PID ts) ≠ 0 →
        TS_GET_PID pkt = mod.pid_map (TS_GET_PID ts) ∧ pkt.length = TS_PACKET_SIZE ∧
        (∀ i, i ≠ 1 → i ≠ 2 → pkt.getD i 0 = ts.getD i 0) ∧
        pkt.getD 1 0 &&& 0xE0 = ts.getD 1 0 &&& 0xE0) ∧
      (¬ (mod.map.isSome = true ∧ mod.pid_map (TS_GET_PID ts) ≠ 0) → pkt = ts) := by
  rw [on_ts_forward lib fuel s self mod ts secs st hts hst hsub hnull hty]
  obtain ⟨s', pkt, h1, h2, h3, h4⟩ :=
    ts_forward_spec s self mod ts (TS_GET_PID ts) st hst hch (Nat.ne_of_lt hmap)
  have ht : ts.take TS_PACKET_SIZE = ts := List.take_of_length_le (by omega)
  refine ⟨s', pkt, h1, h2, h3, ?_, ?_⟩
  · intro hr
    rw [if_pos hr, ht] at h4
    subst h4
    have h3len : 3 ≤ ts.length := by rw [hlen]; decide
    exact ⟨TS_GET_SET_PID ts _ h3len hmap, by rw [TS_SET_PID_length, hlen],
      fun i hi1 hi2 => TS_SET_PID_getD ts _ i hi1 hi2, TS_SET_PID_high ts _ h3len⟩
  · intro hr
    rw [if_neg hr] at h4
    exact h4
theorem on_ts_rewrites_pid_witness :
    ∃ s' m' pkt, on_ts demo_lib 4 chan_tree_pes 1 chan_mod_map (demo_packet 0x101) [] =
        .ok (s', m') ∧
      m'.out = [.send pkt] ∧ s'.trace = [.on_ts 1 2 9 pkt] ∧ TS_GET_PID pkt = 0x200 ∧
      ∀ i, i ≠ 1 → i ≠ 2 → pkt.getD i 0 = (demo_packet 0x101).getD i 0 := by
  obtain ⟨s', pkt, h1, -, h3, h4, -⟩ :=
    on_ts_rewrites_pid demo_lib 4 chan_tree_pes 1 chan_mod_map (demo_packet 0x101) [] _
      (demo_packet_bytes 0x101) rfl rfl
      (fun c hc => by
        rw [List.mem_singleton.mp hc]
        exact ⟨_, 9, rfl, rfl⟩)
      (by decide) (by decide) (by decide) (by decide)
  have hr : chan_mod_map.map.isSome = true ∧
      chan_mod_map.pid_map (TS_GET_PID (demo_packet 0x101)) ≠ 0 := by decide
  exact ⟨s', _, pkt, h1, rfl, h3, (h4 hr).1, (h4 hr).2.2.1⟩

/-! ## Channel: sections and their CRC -/

theorem crc32_loop_step (buf : Nat → Nat) (n k crc : Nat) :
    crc32_loop buf (n + 1) k crc =
      crc32_loop buf n (k + 1) (crc32_bits 8 (crc ^^^ ((buf k % 256) <<< 24))) := by
  rw [crc32_loop]
  cases crc32_bits 8 (crc ^^^ ((buf k % 256) <<< 24)) <;> rfl

theorem crc32_loop_foldl (buf : Nat → Nat) :
    ∀ (n k crc : Nat), crc32_loop buf n k crc =
      (List.range' k n).foldl (fun c i => crc32_bits 8 (c ^^^ ((buf i % 256) <<< 24))) crc := by
  intro n
  induction n with
  | zero => intro k crc; rfl
  | succ n ih =>
    intro k crc
    rw [crc32_loop_step, ih, List.range'_succ, List.foldl_cons]

theorem crc32b_eq_loop (buf : Nat → Nat) (n : Nat) :
    crc32b buf n = crc32_loop buf n 0 0xFFFFFFFF := by
  rw [crc32_loop_foldl, crc32b, List.range_eq_range']

/-- A first-seen PMT of the program with a valid CRC is latched and
rebuilt. -/
theorem on_pmt_first_seen (lib : mpegts_lib) (fuel : Nat) (s : State) (self : Nat)
    (mod : module_data_t) (h0 : mod.pmt.buffer 0 = 0x02)
    (hpnr : PMT_GET_PNR mod.pmt = mod.config.pnr) (hnew : mod.pmt.crc32 = 0)
    (hcrc : PSI_GET_CRC32 mod.pmt = PSI_CALC_CRC32 mod.pmt)
    (hne : PSI_GET_CRC32 mod.pmt ≠ 0) :
    on_pmt lib fuel s self mod =
      pmt_rebuild lib fuel s self
        { mod with pmt := { mod.pmt with crc32 := PSI_GET_CRC32 mod.pmt } } := by
  unfold on_pmt
  simp only [h0, hpnr, hnew, hne, ← hcrc, ne_eq, not_true_eq_false, if_false]

/-- Claim C20, the code at a failing input: for a PMT entry with 256
descriptor bytes `on_pmt` writes the entry and all 256 bytes (the custom PMT
has 12 + 5 + 256 + 4 bytes), and the `ES_info_length` field of the entry in
the custom PMT reads 0. -/
theorem es_info_length_loses_high_bits :
    (match on_pmt demo_lib 4 chan_tree_pat 1 (load_pmt chan_mod_pat pmt_long_desc) with
      | .ok (_, m) =>
        some (m.custom_pmt.buffer_size, PMT_ITEM_DESC_SIZE m.custom_pmt.buffer 12,
          (List.range 256).all (fun k => m.custom_pmt.buffer (17 + k) = pmt_long_desc.getD (17 + k) 0))
      | .error _ => none) = some (12 + 5 + 256 + 4, 0, true) := by
  rw [on_pmt_first_seen demo_lib 4 chan_tree_pat 1 (load_pmt chan_mod_pat pmt_long_desc)
    (by decide!) (by decide!) (by decide!)
    (by rw [PSI_CALC_CRC32, crc32b_eq_loop]; decide!) (by decide!)]
  decide!

/-! ## Channel: running in a tree -/

theorem Ready.of_same_shape {d : Nat → Nat} {fuel : Nat} {s s' : State} {self : Nat}
    (hr : Ready d fuel s self) (h : SameShape s s')
    (hb : ∀ n st p, s'.stream n = some st → st.pid_list p < 256) : Ready d fuel s' self := by
  refine ⟨hr.wf.of_shape h hb, ?_, hr.fuel_ok, ?_⟩
  · obtain ⟨st, hst⟩ := hr.self_ok
    obtain ⟨st', hst', _⟩ := h.fwd hst
    exact ⟨st', hst'⟩
  · intro st' c hst' hc
    obtain ⟨st, hst, hsh⟩ := h.back hst'
    have hch : st.children = st'.children := by
      have := congrArg (fun x => x.2.2.1) hsh
      simpa [shape] using this
    obtain ⟨cs, cb, hcs, hcb⟩ := hr.sinks st c hst (hch ▸ hc)
    obtain ⟨cs', hcs', hsh'⟩ := h.fwd hcs
    have hon : cs'.on_ts = cs.on_ts := by
      have := congrArg (fun x => x.2.1) hsh'
      simpa [shape] using this
    exact ⟨cs', cb, hcs', hon.trans hcb⟩

theorem Ready.of_stream {d : Nat → Nat} {fuel : Nat} {s s' : State} {self : Nat}
    (hr : Ready d fuel s self) (h : s'.stream = s.stream) : Ready d fuel s' self := by
  refine hr.of_same_shape (fun n => by rw [h]) ?_
  intro n st p hn
  rw [h] at hn
  exact hr.wf.bytes n st p hn

theorem pid_refs_of_stream {s s' : State} (h : s'.stream = s.stream) (mod : Nat) :
    pid_refs s' mod = pid_refs s mod := by
  simp only [pid_refs, h]

theorem ready_join {d : Nat → Nat} {fuel : Nat} {s : State} {self : Nat}
    (hr : Ready d fuel s self) (pid : Nat) (hp : pid < TS_MAX_PIDS) :
    ∃ s', module_demux_join fuel s self pid = .ok s' ∧ Ready d fuel s' self ∧
      pid_refs s' self = incr_step (pid_refs s self) pid := by
  obtain ⟨st, hst⟩ := hr.self_ok
  obtain ⟨⟨s', h1, he⟩, _⟩ := demux_effect d fuel s self pid st hr.wf hp hst hr.fuel_ok
  obtain ⟨st', hst', hF⟩ := he.self st hst
  exact ⟨s', h1, hr.of_same_shape he.shape he.bytes, by simp only [pid_refs, hst, hst', hF]⟩

theorem ready_leave {d : Nat → Nat} {fuel : Nat} {s : State} {self : Nat}
    (hr : Ready d fuel s self) (pid : Nat) (hp : pid < TS_MAX_PIDS) :
    ∃ s', module_demux_leave fuel s self pid = .ok s' ∧ Ready d fuel s' self ∧
      pid_refs s' self = leave_step (pid_refs s self) pid := by
  obtain ⟨st, hst⟩ := hr.self_ok
  obtain ⟨_, ⟨s', h1, he⟩⟩ := demux_effect d fuel s self pid st hr.wf hp hst hr.fuel_ok
  obtain ⟨st', hst', hF⟩ := he.self st hst
  exact ⟨s', h1, hr.of_same_shape he.shape he.bytes, by simp only [pid_refs, hst, hst', hF]⟩

theorem ready_check {d : Nat → Nat} {fuel : Nat} {s : State} {self : Nat}
    (hr : Ready d fuel s self) (pid : Nat) (hp : pid < TS_MAX_PIDS) :
    module_demux_check s self pid = .ok (decide (0 < pid_refs s self pid)) := by
  obtain ⟨st, hst⟩ := hr.self_ok
  simp [module_demux_check, ts_pid_valid, hp, hst, pid_refs]

theorem ready_send {d : Nat → Nat} {fuel : Nat} {s : State} {self : Nat}
    (hr : Ready d fuel s self) (ts : List Nat) :
    ∃ s', module_stream_send s self ts = .ok s' ∧ s'.stream = s.stream := by
  obtain ⟨st, hst⟩ := hr.self_ok
  obtain ⟨s', h1, h2, _⟩ := stream_send_spec s self ts st hst (hr.sinks st · hst)
  exact ⟨s', h1, h2⟩

theorem ready_send_packets {d : Nat → Nat} {fuel : Nat} {self : Nat} :
    ∀ (l : List (List Nat)) (s : State), Ready d fuel s self →
      ∃ s', send_packets s self l = .ok s' ∧ s'.stream = s.stream := by
  intro l
  induction l with
  | nil => intro s _; exact ⟨s, rfl, rfl⟩
  | cons ts rest ih =>
    intro s hr
    obtain ⟨s1, h1, h2⟩ := ready_send hr ts
    obtain ⟨s2, h3, h4⟩ := ih s1 (hr.of_stream h2)
    exact ⟨s2, by simp only [send_packets, h1, h3], h4.trans h2⟩

theorem ready_psi_demux {d : Nat → Nat} {fuel : Nat} {s : State} {self : Nat}
    (hr : Ready d fuel s self) (lib : mpegts_lib) (psi : ts_psi_t) (out : List ChanEvent) :
    ∃ s', ts_psi_demux lib s self psi out =
        .ok (s', { psi with cc := lib.demux_cc psi },
          out ++ [.psi psi.pid psi.cc ((List.range psi.buffer_size).map psi.buffer)]) ∧
      s'.stream = s.stream := by
  obtain ⟨s', h1, h2⟩ := ready_send_packets (lib.demux_packets psi) s hr
  exact ⟨s', by simp only [ts_psi_demux, h1], h2⟩

theorem ready_mark_join {d : Nat → Nat} {fuel : Nat} {s : State} {self : Nat}
    (hr : Ready d fuel s self) (mod : module_data_t) (pid : Nat) (type : ts_type_t)
    (hp : pid < TS_MAX_PIDS) :
    ∃ s', mark_join fuel s self mod pid type =
        .ok (s', { mod with stream := Function.update mod.stream pid type }) ∧
      Ready d fuel s' self ∧ pid_refs s' self = incr_step (pid_refs s self) pid := by
  obtain ⟨s', h1, h2, h3⟩ := ready_join hr pid hp
  exact ⟨s', by simp only [mark_join, h1], h2, h3⟩

theorem reload_leave_spec {d : Nat → Nat} {fuel : Nat} {self : Nat} :
    ∀ (pids : List Nat) (s : State), Ready d fuel s self → (∀ i ∈ pids, i < TS_MAX_PIDS) →
      pids.Nodup →
      ∃ s', reload_leave fuel pids s self = .ok s' ∧ Ready d fuel s' self ∧
        pid_refs s' self = fun p => if p ∈ pids then pid_refs s self p - 1 else pid_refs s self p := by
  intro pids
  induction pids with
  | nil => intro s hr _ _; exact ⟨s, rfl, hr, by simp⟩
  | cons i rest ih =>
    intro s hr hp hn
    have hi : i < TS_MAX_PIDS := hp i (List.mem_cons_self _ _)
    have hrest : ∀ j ∈ rest, j < TS_MAX_PIDS := fun j hj => hp j (List.mem_cons_of_mem _ hj)
    obtain ⟨hni, hnr⟩ := List.nodup_cons.mp hn
    by_cases hz : 0 < pid_refs s self i
    · obtain ⟨s1, h1, hr1, hf1⟩ := ready_leave hr i hi
      obtain ⟨s2, h2, hr2, hf2⟩ := ih s1 hr1 hrest hnr
      refine ⟨s2, ?_, hr2, ?_⟩
      · simp only [reload_leave, ready_check hr i hi, hz, decide_True, h1, h2]
      · rw [hf2, hf1]
        funext p
        simp only [leave_step, hz, if_true, List.mem_cons]
        by_cases hpi : p = i
        · subst hpi
          simp [hni]
        · simp [hpi, Function.update_noteq hpi]
    · obtain ⟨s2, h2, hr2, hf2⟩ := ih s hr hrest hnr
      refine ⟨s2, ?_, hr2, ?_⟩
      · simp only [reload_leave, ready_check hr i hi, hz, decide_False, h2]
      · rw [hf2]
        funext p
        simp only [List.mem_cons]
        by_cases hpi : p = i
        · subst hpi
          have : pid_refs s self p = 0 := by omega
          simp [hni, this]
        · simp [hpi]

theorem exists_ok_pair {P : State → Prop} (a : State) (m m' : module_data_t) (hm : m = m')
    (hp : P a) :
    ∃ s', (Except.ok (a, m) : Except Fault (State × module_data_t)) = .ok (s', m') ∧ P s' :=
  ⟨a, by rw [hm], hp⟩

theorem reload_data_eq (mod : module_data_t) (stream : Nat → ts_type_t) (cat : ts_psi_t)
    (list : Option (Nat → Nat)) (h1 : stream = mandatory_types mod.config)
    (h2 : cat = if mod.config.cas then { mod.cat with crc32 := 0 } else mod.cat)
    (h3 : list = if mod.config.no_sdt = false then none else mod.sdt_checksum_list) :
    { mod with
      stream := stream,
      pat := { mod.pat with crc32 := 0 },
      pmt := { mod.pmt with crc32 := 0 },
      cat := cat,
      sdt_checksum_list := list,
      map := mod.map.map (fun l => l.map (fun item => { item with is_set := false })) } =
    reload_data mod := by
  subst h1 h2 h3
  rfl

theorem stream_reload_spec {d : Nat → Nat} {fuel : Nat} {s : State} {self : Nat}
    (hr : Ready d fuel s self) (mod : module_data_t) :
    ∃ s', stream_reload fuel s self mod = .ok (s', reload_data mod) ∧ Ready d fuel s' self ∧
      pid_refs s' self = reload_refs mod.config (pid_refs s self) := by
  obtain ⟨s0, h0, hr0, f0⟩ := reload_leave_spec (List.range TS_MAX_PIDS) s hr
    (fun i hi => List.mem_range.mp hi) (List.nodup_range _)
  have f0' : pid_refs s0 self = fun p => if p < TS_MAX_PIDS then pid_refs s self p - 1
      else pid_refs s self p := by
    rw [f0]
    funext p
    simp only [List.mem_range]
  unfold stream_reload
  simp only [h0, mark_join]
  obtain ⟨s1, h1, hr1, f1⟩ := ready_join hr0 0x00 (by decide)
  obtain ⟨sa, ha, hra, fa⟩ := ready_join hr1 0x01 (by decide)
  obtain ⟨sb, hb, hrb, fb⟩ := ready_join hr1 0x11 (by decide)
  obtain ⟨sc, hc', hrc, fc⟩ := ready_join hr1 0x12 (by decide)
  obtain ⟨sab, hab, hrab, fab⟩ := ready_join hra 0x11 (by decide)
  obtain ⟨sac, hac, hrac, fac⟩ := ready_join hra 0x12 (by decide)
  obtain ⟨sbc, hbc, hrbc, fbc⟩ := ready_join hrb 0x12 (by decide)
  obtain ⟨sabc, habc, hrabc, fabc⟩ := ready_join hrab 0x12 (by decide)
  obtain ⟨sc2, hc2, hrc2, fc2⟩ := ready_join hrc 0x14 (by decide)
  obtain ⟨sac2, hac2, hrac2, fac2⟩ := ready_join hrac 0x14 (by decide)
  obtain ⟨sbc2, hbc2, hrbc2, fbc2⟩ := ready_join hrbc 0x14 (by decide)
  obtain ⟨sabc2, habc2, hrabc2, fabc2⟩ := ready_join hrabc 0x14 (by decide)
  simp only [h1]
  cases hc : mod.config.cas <;> cases hs : mod.config.no_sdt <;> cases he : mod.config.no_eit
  all_goals simp only [hc, hs, he, if_true, if_false, Bool.false_eq_true, Bool.true_eq_false, ha, hb, hc', hab, hac, hbc, habc,
    hc2, hac2, hbc2, habc2]
  all_goals
    refine exists_ok_pair _ _ _ (reload_data_eq mod _ _ _ ?_ ?_ ?_) ⟨?_, ?_⟩
    · funext p
      simp [mandatory_types, hc, hs, he, Function.update_apply]
    · simp [hc]
    · simp [hs]
    · assumption
    · simp only [fa, fb, fc, fab, fac, fbc, fabc, fc2, fac2, fbc2, fabc2, f1, f0', reload_refs,
        mandatory_pids, hc, hs, he, if_true, if_false, Bool.false_eq_true, Bool.true_eq_false,
        List.append_nil, List.nil_append, List.cons_append, List.foldl_cons, List.foldl_nil]

/-! ## Channel: the example instance can run -/

theorem chan_tree_refs_stream (f : Nat → Nat) (n : Nat) :
    (chan_tree_refs f).stream n =
      if n = 1 then (chan_tree.stream 1).map (fun st => { st with pid_list := f })
      else chan_tree.stream n := by
  by_cases h : n = 1
  · subst h
    simp [chan_tree_refs, State.modify, State.set, chan_tree]
  · simp [chan_tree_refs, State.modify, State.set, chan_tree, h, Function.update_noteq h]

theorem chan_tree_refs_ready (f : Nat → Nat) (hf : ∀ p, f p < 256) :
    Ready id 4 (chan_tree_refs f) 1 := by
  have hcases : ∀ n st, (chan_tree_refs f).stream n = some st →
      (n = 0 ∧ st.parent = none) ∨ (n = 1 ∧ st.parent = some 0 ∧ st.pid_list = f ∧
        st.children = [2]) ∨ (n = 2 ∧ st.parent = some 1 ∧ st.pid_list = fun _ => 0) := by
    intro n st h
    rw [chan_tree_refs_stream] at h
    by_cases h1 : n = 1
    · subst h1
      simp [chan_tree] at h
      subst h
      simp
    · by_cases h0 : n = 0
      · subst h0
        simp [chan_tree] at h
        subst h
        simp
      · by_cases h2 : n = 2
        · subst h2
          simp [chan_tree] at h
          subst h
          simp
        · simp [chan_tree, h0, h1, h2] at h
  have h0 : ∃ st, (chan_tree_refs f).stream 0 = some st := by
    rw [chan_tree_refs_stream]; exact ⟨_, rfl⟩
  have h1 : ∃ st, (chan_tree_refs f).stream 1 = some st := by
    rw [chan_tree_refs_stream]; exact ⟨_, rfl⟩
  refine ⟨⟨?_, ?_⟩, h1, by decide, ?_⟩
  · intro n st m hn hp
    rcases hcases n st hn with ⟨rfl, h⟩ | ⟨rfl, h, _⟩ | ⟨rfl, h, _⟩
    · rw [h] at hp; cases hp
    · rw [h] at hp; cases hp; exact ⟨h0, by decide⟩
    · rw [h] at hp; cases hp; exact ⟨h1, by decide⟩
  · intro n st p hn
    rw [chan_tree_refs_stream] at hn
    by_cases hn1 : n = 1
    · subst hn1
      simp [chan_tree] at hn
      subst hn
      exact hf p
    · by_cases hn0 : n = 0
      · subst hn0
        simp [chan_tree] at hn
        subst hn
        simp only
        split <;> decide
      · by_cases hn2 : n = 2
        · subst hn2
          simp [chan_tree] at hn
          subst hn
          simp
        · simp [chan_tree, hn0, hn1, hn2] at hn
  · intro st c hst hc
    rcases hcases 1 st hst with ⟨h, _⟩ | ⟨_, _, _, h⟩ | ⟨h, _⟩
    · cases h
    · rw [h] at hc
      rw [List.mem_singleton.mp hc, chan_tree_refs_stream]
      exact ⟨_, 9, rfl, rfl⟩
    · cases h

theorem chan_tree_refs_pid (f : Nat → Nat) : pid_refs (chan_tree_refs f) 1 = f := by
  simp [pid_refs, chan_tree_refs_stream, chan_tree]

/-- Claim C18, the code at a failing input: a PMT that lists the PID `0x101`
twice leaves the channel with two references to it, and `stream_reload` on
that state returns with `0x101` still subscribed, although it is not a
mandatory PID and its stream type has been reset to `UNKNOWN`. -/
theorem reload_leaves_second_reference :
    (match on_pmt demo_lib 4 chan_tree_pat 1 (load_pmt chan_mod_pat pmt_twice) with
      | .ok (s, _) => some (pid_refs s 1 0x101)
      | .error _ => none) = some 2 ∧
    ∃ s' mod', stream_reload 4 (chan_tree_refs refs_twice) 1 chan_mod_map = .ok (s', mod') ∧
      module_demux_check s' 1 0x101 = .ok true ∧ mod'.stream 0x101 = .UNKNOWN ∧
      0x101 ∉ mandatory_pids chan_mod_map.config := by
  constructor
  · rw [on_pmt_first_seen demo_lib 4 chan_tree_pat 1 (load_pmt chan_mod_pat pmt_twice)
      (by decide!) (by decide!) (by decide!)
      (by rw [PSI_CALC_CRC32, crc32b_eq_loop]; decide!) (by decide!)]
    decide!
  · have hr : Ready id 4 (chan_tree_refs refs_twice) 1 :=
      chan_tree_refs_ready refs_twice (fun p => by unfold refs_twice; split <;> [decide; (split <;> decide)])
    obtain ⟨s', h1, hr', hf⟩ := stream_reload_spec hr chan_mod_map
    refine ⟨s', _, h1, ?_, by decide, by decide⟩
    have h2 : reload_refs chan_mod_map.config refs_twice 0x101 = 1 := by decide
    rw [ready_check hr' 0x101 (by decide), hf, chan_tree_refs_pid, h2]
    rfl

/-! ## Channel: the PAT handler -/

theorem pid13_lt (a b : Nat) (hb : b < 256) : ((a &&& 0x1F) <<< 8) ||| b < TS_MAX_PIDS := by
  have h1 : a &&& 0x1F ≤ 0x1F := Nat.and_le_right
  have h3 : (a &&& 0x1F) <<< 8 < 2 ^ 13 := by
    rw [Nat.shiftLeft_eq]
    omega
  have h4 : b < 2 ^ 13 := by omega
  exact Nat.or_lt_two_pow h3 h4

theorem pat_items_loop_spec {d : Nat → Nat} {fuel : Nat} {self : Nat} (psi : ts_psi_t)
    (hb : ∀ k, psi.buffer k < 256) (pnr : Nat) :
    ∀ (n k : Nat) (s : State) (mod : module_data_t), Ready d fuel s self →
      mod.config.pnr = pnr →
      0 < n → psi.buffer_size - CRC32_SIZE + 4 ≤ 8 + 4 * k + 4 * n →
      (∀ j < k, ¬ pat_entry_selected psi pnr (8 + 4 * j)) →
      ∃ s' mod' p', pat_items_loop fuel self psi n (8 + 4 * k) s mod = .ok (s', mod', p') ∧
        ((PAT_ITEMS_EOL psi p' = true ∧ s' = s ∧ mod' = mod ∧
            ∀ j, ¬ pat_selects psi pnr j) ∨
         (∃ k', p' = 8 + 4 * k' ∧ pat_selects psi pnr k' ∧ mod' = pat_matched mod psi p' ∧
            Ready d fuel s' self ∧
            pid_refs s' self = incr_step (pid_refs s self) (PAT_ITEM_GET_PID psi p'))) := by
  intro n
  induction n with
  | zero =>
    intro k s mod _ _ hn
    omega
  | succ n ih =>
    intro k s mod hr hpnr _ hbud hprev
    simp only [CRC32_SIZE] at hbud ih
    have hpos : PAT_ITEMS_EOL psi (8 + 4 * k) = false → 0 < n := by
      intro h
      simp only [PAT_ITEMS_EOL, CRC32_SIZE, decide_eq_false_iff_not] at h
      omega
    unfold pat_items_loop
    by_cases heol : PAT_ITEMS_EOL psi (8 + 4 * k) = true
    · simp only [heol, if_true]
      refine ⟨s, mod, _, rfl, Or.inl ⟨heol, rfl, rfl, ?_⟩⟩
      intro j hj
      obtain ⟨hj1, hj2, hj3⟩ := hj
      simp only [PAT_ITEMS_EOL, decide_eq_true_eq, decide_eq_false_iff_not] at heol hj1
      have : j < k := by omega
      exact hprev j this hj2
    · have heol' : PAT_ITEMS_EOL psi (8 + 4 * k) = false := by
        cases h : PAT_ITEMS_EOL psi (8 + 4 * k) <;> simp_all
      simp only [heol', Bool.false_eq_true, if_false]
      have hnext : ∀ (hsel : ¬ pat_entry_selected psi pnr (8 + 4 * k)),
          ∀ j < k + 1, ¬ pat_entry_selected psi pnr (8 + 4 * j) := by
        intro hsel j hj
        by_cases hjk : j = k
        · subst hjk; exact hsel
        · exact hprev j (by omega)
      have hstep : 8 + 4 * k + 4 = 8 + 4 * (k + 1) := by omega
      by_cases hz : PAT_ITEM_GET_PNR psi (8 + 4 * k) = 0
      · simp only [hz, if_true]
        rw [hstep]
        exact ih (k + 1) s mod hr hpnr (hpos heol') (by omega) (hnext (fun h => h.1 hz))
      · simp only [hz, if_false]
        by_cases hc : pnr = 0
        · have hcfg : mod.config.pnr = 0 := hpnr.trans hc
          simp only [hcfg, if_true]
          obtain ⟨s1, h1, hr1, hf1⟩ := ready_mark_join hr
            { mod with config := { mod.config with pnr := PAT_ITEM_GET_PNR psi (8 + 4 * k) } }
            (PAT_ITEM_GET_PID psi (8 + 4 * k)) .PMT (pid13_lt _ _ (hb _))
          simp only [h1]
          exact ⟨s1, _, _, rfl, Or.inr ⟨k, rfl, ⟨heol', ⟨hz, Or.inl hc⟩, hprev⟩, rfl, hr1, hf1⟩⟩
        · have hcfg : ¬ mod.config.pnr = 0 := fun h => hc (hpnr ▸ h)
          simp only [hcfg, if_false]
          by_cases hm : PAT_ITEM_GET_PNR psi (8 + 4 * k) = mod.config.pnr
          · simp only [hm, if_true]
            obtain ⟨s1, h1, hr1, hf1⟩ := ready_mark_join hr mod
              (PAT_ITEM_GET_PID psi (8 + 4 * k)) .PMT (pid13_lt _ _ (hb _))
            simp only [h1]
            refine ⟨s1, _, _, rfl, Or.inr ⟨k, rfl, ⟨heol', ⟨hz, Or.inr (hm.trans hpnr)⟩, hprev⟩,
              ?_, hr1, hf1⟩⟩
            simp only [pat_matched, hm]
          · simp only [hm, if_false]
            rw [hstep]
            exact ih (k + 1) s mod hr hpnr (hpos heol') (by omega)
              (hnext (fun h => h.2.elim hc (fun h2 => hm (h2.trans hpnr.symm))))

theorem u16_roundtrip (x : Nat) :
    (((x >>> 8) &&& 0xFF) <<< 8) ||| (x &&& 0xFF) = x % 65536 := by
  have h2 : (0xFF : Nat) = 2 ^ 8 - 1 := by decide
  rw [h2, Nat.and_pow_two_sub_one_eq_mod, Nat.and_pow_two_sub_one_eq_mod,
    Nat.shiftRight_eq_div_pow, Nat.shiftLeft_eq, Nat.mul_comm,
    ← Nat.mul_add_lt_is_or (Nat.mod_lt _ (by decide))]
  omega

theorem u16_of_bytes (a b : Nat) (ha : a < 256) (hb : b < 256) : (a <<< 8) ||| b < 65536 := by
  have h3 : a <<< 8 < 2 ^ 16 := by
    rw [Nat.shiftLeft_eq]
    omega
  have h4 : b < 2 ^ 16 := by omega
  exact Nat.or_lt_two_pow h3 h4

theorem version_roundtrip (b v : Nat) :
    (((0xC0 ||| ((v <<< 1) &&& 0x3E)) ||| (b &&& 0x01)) &&& 0x3E) >>> 1 = v % 32 := by
  rw [or_and_mask, or_and_mask, Nat.and_assoc, Nat.and_assoc]
  have h1 : (0xC0 : Nat) &&& 0x3E = 0 := by decide
  have h2 : (0x3E : Nat) &&& 0x3E = 0x3E := by decide
  have h3 : (0x01 : Nat) &&& 0x3E = 0 := by decide
  have h4 : (0x3E : Nat) >>> 1 = 2 ^ 5 - 1 := by decide
  rw [h1, h2, h3, Nat.and_zero, Nat.or_zero, Nat.zero_or]
  apply Nat.eq_of_testBit_eq
  intro j
  have h5 : (0x3E : Nat).testBit (1 + j) = decide (j < 5) := by
    rw [← Nat.testBit_shiftRight, h4, Nat.testBit_two_pow_sub_one]
  have h6 : v % 32 = v % 2 ^ 5 := rfl
  rw [Nat.testBit_shiftRight, Nat.testBit_and, Nat.testBit_shiftLeft, h5, h6,
    Nat.testBit_mod_two_pow]
  simp [Bool.and_comm]

theorem join_eq {d : Nat → Nat} {fuel : Nat} {s : State} {self : Nat}
    (hr : Ready d fuel s self) (pid : Nat) (hp : pid < TS_MAX_PIDS) :
    module_demux_join fuel s self pid = .ok (after_join fuel s self pid) ∧
      Ready d fuel (after_join fuel s self pid) self ∧
      pid_refs (after_join fuel s self pid) self = incr_step (pid_refs s self) pid := by
  obtain ⟨s', h1, h2, h3⟩ := ready_join hr pid hp
  have : after_join fuel s self pid = s' := by simp only [after_join, h1]
  rw [this]
  exact ⟨h1, h2, h3⟩

theorem mark_join_eq {d : Nat → Nat} {fuel : Nat} {s : State} {self : Nat}
    (hr : Ready d fuel s self) (mod : module_data_t) (pid : Nat) (type : ts_type_t)
    (hp : pid < TS_MAX_PIDS) :
    mark_join fuel s self mod pid type =
      .ok (after_join fuel s self pid,
        { mod with stream := Function.update mod.stream pid type }) := by
  simp only [mark_join, (join_eq hr pid hp).1]

theorem psi_demux_eq {d : Nat → Nat} {fuel : Nat} {s : State} {self : Nat}
    (hr : Ready d fuel s self) (lib : mpegts_lib) (psi : ts_psi_t) (out : List ChanEvent) :
    ts_psi_demux lib s self psi out =
      .ok (after_demux lib s self psi, { psi with cc := lib.demux_cc psi },
        out ++ [.psi psi.pid psi.cc ((List.range psi.buffer_size).map psi.buffer)]) := by
  obtain ⟨s', h1, _⟩ := ready_send_packets (lib.demux_packets psi) s hr
  simp only [ts_psi_demux, after_demux, h1]

theorem after_demux_stream {d : Nat → Nat} {fuel : Nat} {s : State} {self : Nat}
    (hr : Ready d fuel s self) (lib : mpegts_lib) (psi : ts_psi_t) :
    (after_demux lib s self psi).stream = s.stream := by
  obtain ⟨s', h1, h2⟩ := ready_send_packets (lib.demux_packets psi) s hr
  simp only [after_demux, h1, h2]

theorem after_demux_ready {d : Nat → Nat} {fuel : Nat} {s : State} {self : Nat}
    (hr : Ready d fuel s self) (lib : mpegts_lib) (psi : ts_psi_t) :
    Ready d fuel (after_demux lib s self psi) self :=
  hr.of_stream (after_demux_stream hr lib psi)

theorem after_demux_refs {d : Nat → Nat} {fuel : Nat} {s : State} {self : Nat}
    (hr : Ready d fuel s self) (lib : mpegts_lib) (psi : ts_psi_t) :
    pid_refs (after_demux lib s self psi) self = pid_refs s self :=
  pid_refs_of_stream (after_demux_stream hr lib psi) self

theorem pat_build_frame (mod : module_data_t) (pointer : Nat) :
    (pat_build mod pointer).config = mod.config ∧ (pat_build mod pointer).stream = mod.stream ∧
    (pat_build mod pointer).pat = mod.pat ∧ (pat_build mod pointer).pmt = mod.pmt ∧
    (pat_build mod pointer).out = mod.out ∧ (pat_build mod pointer).tsid = mod.tsid ∧
    (pat_build mod pointer).custom_pat.pid = mod.custom_pat.pid ∧
    (pat_build mod pointer).custom_pat.cc = mod.custom_pat.cc ∧
    (pat_build mod pointer).custom_pat.buffer_size = 8 + 4 + CRC32_SIZE := by
  unfold pat_build
  cases hm : mod.map with
  | none => by_cases hs : mod.config.set_pnr = 0 <;>
      simp [hm, hs, PSI_SET_CRC32, PSI_SET_SIZE, PAT_SET_VERSION, PAT_ITEM_SET_PNR, PAT_INIT]
  | some l =>
    cases ht : map_take l mod.pmt.pid str_pmt <;> by_cases hs : mod.config.set_pnr = 0 <;>
      simp [hm, ht, hs, PSI_SET_CRC32, PSI_SET_SIZE, PAT_SET_VERSION, PAT_ITEM_SET_PNR,
        PAT_ITEM_SET_PID, PAT_INIT]

theorem pat_build_version (mod : module_data_t) (pointer : Nat) :
    (pat_build mod pointer).pat_version = (mod.pat_version + 1) % 16 ∧
    PAT_GET_VERSION (pat_build mod pointer).custom_pat = (mod.pat_version + 1) % 16 := by
  have h16 : ∀ x : Nat, x &&& 0x0F = x % 16 := fun x => Nat.and_pow_two_sub_one_eq_mod x 4
  have hv : ∀ b : Nat, (((0xC0 ||| ((((mod.pat_version + 1) % 16) <<< 1) &&& 0x3E)) |||
      (b % 2)) &&& 0x3E) >>> 1 = (mod.pat_version + 1) % 16 := by
    intro b
    rw [← Nat.and_one_is_mod, version_roundtrip]
    omega
  unfold pat_build
  cases hm : mod.map with
  | none => by_cases hs : mod.config.set_pnr = 0 <;>
      (simp [hm, hs, PSI_SET_CRC32, PSI_SET_SIZE, PAT_SET_VERSION, PAT_ITEM_SET_PNR, PAT_INIT,
        PAT_GET_VERSION, CRC32_SIZE, Function.update_apply, h16]; exact hv _)
  | some l =>
    cases ht : map_take l mod.pmt.pid str_pmt <;> by_cases hs : mod.config.set_pnr = 0 <;>
      (simp [hm, ht, hs, PSI_SET_CRC32, PSI_SET_SIZE, PAT_SET_VERSION, PAT_ITEM_SET_PNR,
        PAT_ITEM_SET_PID, PAT_INIT, PAT_GET_VERSION, CRC32_SIZE, Function.update_apply, h16];
       exact hv _)

theorem pat_rebuild_eq {d : Nat → Nat} {fuel : Nat} {s : State} {self : Nat}
    (hr : Ready d fuel s self) (lib : mpegts_lib) (mod : module_data_t) (pointer : Nat) :
    pat_rebuild lib s self mod pointer =
      .ok (after_demux lib s self (pat_build mod pointer).custom_pat, pat_sent lib mod pointer) := by
  simp only [pat_rebuild, psi_demux_eq hr, pat_sent]

theorem pat_base_frame (mod : module_data_t) :
    (pat_base mod).config = mod.config ∧ (pat_base mod).pat.buffer = mod.pat.buffer ∧
    (pat_base mod).pat.buffer_size = mod.pat.buffer_size ∧
    (pat_base mod).custom_pat = mod.custom_pat ∧
    (pat_base mod).pat_version = mod.pat_version ∧ (pat_base mod).pid_map = mod.pid_map ∧
    (pat_base mod).pat.pid = mod.pat.pid ∧ (pat_base mod).tsid = PAT_GET_TSID mod.pat := by
  unfold pat_base
  by_cases h : mod.pat.crc32 = 0 <;> simp [h, reload_data, PAT_GET_TSID]

/-- The entry loop of `on_pat` and what follows it: either no entry is
selected and the custom PAT is emptied, or the first selected entry is joined
as the PMT and the custom PAT is rebuilt and sent. -/
theorem pat_walk_spec {d : Nat → Nat} {fuel : Nat} {s : State} {self : Nat}
    (hr : Ready d fuel s self) (lib : mpegts_lib) (mod : module_data_t)
    (hb : ∀ k, mod.pat.buffer k < 256) :
    ((∀ j, ¬ pat_selects mod.pat mod.config.pnr j) ∧
        pat_walk lib fuel s self mod = .ok (s, { mod with
          custom_pat := { mod.custom_pat with buffer_size := 0 },
          out := mod.out ++ [.log "PAT: stream is not found"] })) ∨
     ∃ k s', pat_selects mod.pat mod.config.pnr k ∧ Ready d fuel s' self ∧
        pid_refs s' self = incr_step (pid_refs s self) (PAT_ITEM_GET_PID mod.pat (8 + 4 * k)) ∧
        pat_walk lib fuel s self mod =
          .ok (s', pat_sent lib (pat_matched mod mod.pat (8 + 4 * k)) (8 + 4 * k)) := by
  obtain ⟨s2, mod3, p', hl, hres⟩ := pat_items_loop_spec mod.pat hb mod.config.pnr
    (mod.pat.buffer_size + 1) 0 s mod hr rfl
    (Nat.succ_pos _) (by simp only [CRC32_SIZE]; omega) (fun j hj => absurd hj (Nat.not_lt_zero j))
  simp only [Nat.mul_zero, Nat.add_zero] at hl
  unfold pat_walk
  rw [hl]
  rcases hres with ⟨heol, rfl, rfl, hno⟩ | ⟨k, rfl, hsel, rfl, hr2, hf2⟩
  · left
    exact ⟨hno, by simp only [heol, if_true]⟩
  · right
    have heol : PAT_ITEMS_EOL (pat_matched mod mod.pat (8 + 4 * k)).pat (8 + 4 * k) = false :=
      hsel.1
    refine ⟨k, after_demux lib s2 self
      (pat_build (pat_matched mod mod.pat (8 + 4 * k)) (8 + 4 * k)).custom_pat, hsel,
      after_demux_ready hr2 lib _, ?_, ?_⟩
    · rw [after_demux_refs hr2, hf2]
    · simp only [heol, Bool.false_eq_true, if_false, pat_rebuild_eq hr2]

theorem on_pat_new_eq {d : Nat → Nat} {fuel : Nat} {s : State} {self : Nat}
    (hr : Ready d fuel s self) (lib : mpegts_lib) (mod : module_data_t)
    (hnew : pat_is_new mod) :
    ∃ s1, Ready d fuel s1 self ∧ pid_refs s1 self = pat_base_refs mod (pid_refs s self) ∧
      on_pat lib fuel s self mod = pat_walk lib fuel s1 self (pat_base mod) := by
  obtain ⟨h0, hne, hcrc⟩ := hnew
  have hne' : ¬ PSI_GET_CRC32 mod.pat = mod.pat.crc32 := hne
  unfold on_pat
  simp only [h0, hne', ← hcrc, ne_eq, not_true_eq_false, if_false]
  by_cases hz : mod.pat.crc32 = 0
  · refine ⟨s, hr, by simp only [pat_base_refs, hz, ne_eq, not_true_eq_false, if_false], ?_⟩
    simp only [hz, not_true_eq_false, if_false, pat_base, ne_eq]
  · obtain ⟨s1, h1, hr1, hf1⟩ := stream_reload_spec hr
      { mod with out := mod.out ++ [.log "PAT changed. Reload stream info"] }
    refine ⟨s1, hr1, by simp only [pat_base_refs, hz, ne_eq, not_false_eq_true, if_true, hf1], ?_⟩
    simp only [hz, not_false_eq_true, if_true, h1, pat_base, ne_eq]

/-- Every call of `on_pat` returns; it either leaves the program data alone
(wrong table, repeated section, CRC error), or processes the section as
`pat_walk_spec` says. -/
theorem on_pat_spec {d : Nat → Nat} {fuel : Nat} {s : State} {self : Nat}
    (hr : Ready d fuel s self) (lib : mpegts_lib) (mod : module_data_t)
    (hb : ∀ k, mod.pat.buffer k < 256) :
    ∃ s' mod', on_pat lib fuel s self mod = .ok (s', mod') ∧ Ready d fuel s' self ∧
      ((¬ pat_is_new mod ∧ pid_refs s' self = pid_refs s self ∧
          (mod' = mod ∨
           mod' = { mod with
              custom_pat := { mod.custom_pat with cc := lib.demux_cc mod.custom_pat },
              out := mod.out ++ [.psi mod.custom_pat.pid mod.custom_pat.cc
                ((List.range mod.custom_pat.buffer_size).map mod.custom_pat.buffer)] } ∨
           mod' = { mod with out := mod.out ++ [.log "PAT checksum error"] })) ∨
       (pat_is_new mod ∧ (∀ j, ¬ pat_selects (pat_base mod).pat mod.config.pnr j) ∧
          pid_refs s' self = pat_base_refs mod (pid_refs s self) ∧
          mod' = { pat_base mod with
            custom_pat := { (pat_base mod).custom_pat with buffer_size := 0 },
            out := (pat_base mod).out ++ [.log "PAT: stream is not found"] }) ∨
       (pat_is_new mod ∧ ∃ k, pat_selects (pat_base mod).pat mod.config.pnr k ∧
          pid_refs s' self = incr_step (pat_base_refs mod (pid_refs s self))
            (PAT_ITEM_GET_PID (pat_base mod).pat (8 + 4 * k)) ∧
          mod' = pat_sent lib (pat_matched (pat_base mod) (pat_base mod).pat (8 + 4 * k))
            (8 + 4 * k))) := by
  by_cases hnew : pat_is_new mod
  · obtain ⟨s1, hr1, hf1, heq⟩ := on_pat_new_eq hr lib mod hnew
    have hb' : ∀ k, (pat_base mod).pat.buffer k < 256 := by
      intro k
      rw [(pat_base_frame mod).2.1]
      exact hb k
    have hcfg := (pat_base_frame mod).1
    rcases pat_walk_spec hr1 lib (pat_base mod) hb' with ⟨hno, hw⟩ | ⟨k, s', hsel, hr', hf', hw⟩
    · rw [hcfg] at hno
      exact ⟨s1, _, heq.trans hw, hr1, Or.inr (Or.inl ⟨hnew, hno, hf1, rfl⟩)⟩
    · rw [hcfg] at hsel
      exact ⟨s', _, heq.trans hw, hr', Or.inr (Or.inr ⟨hnew, k, hsel, by rw [hf', hf1], rfl⟩)⟩
  · unfold on_pat
    by_cases h0 : mod.pat.buffer 0 = 0x00
    · by_cases heq : PSI_GET_CRC32 mod.pat = mod.pat.crc32
      · simp only [h0, heq, ne_eq, not_true_eq_false, if_false, if_true, psi_demux_eq hr]
        exact ⟨_, _, rfl, after_demux_ready hr lib _, Or.inl ⟨hnew, after_demux_refs hr lib _,
          Or.inr (Or.inl rfl)⟩⟩
      · have hbad : PSI_GET_CRC32 mod.pat ≠ PSI_CALC_CRC32 mod.pat :=
          fun h => hnew ⟨h0, heq, h⟩
        simp only [h0, heq, hbad, ne_eq, not_true_eq_false, not_false_eq_true, if_false, if_true]
        exact ⟨_, _, rfl, hr, Or.inl ⟨hnew, rfl, Or.inr (Or.inr rfl)⟩⟩
    · simp only [h0, ne_eq, not_false_eq_true, if_true]
      exact ⟨_, _, rfl, hr, Or.inl ⟨hnew, rfl, Or.inl rfl⟩⟩

theorem pat_sent_frame (lib : mpegts_lib) (mod : module_data_t) (pointer : Nat) :
    (pat_sent lib mod pointer).pat_version = (pat_build mod pointer).pat_version ∧
    (pat_sent lib mod pointer).custom_pat.buffer = (pat_build mod pointer).custom_pat.buffer ∧
    (pat_sent lib mod pointer).custom_pat.buffer_size = 8 + 4 + CRC32_SIZE ∧
    (pat_sent lib mod pointer).out = mod.out ++ [.psi mod.custom_pat.pid mod.custom_pat.cc
      ((List.range (8 + 4 + CRC32_SIZE)).map (pat_build mod pointer).custom_pat.buffer)] ∧
    (pat_sent lib mod pointer).config = mod.config ∧
    (pat_sent lib mod pointer).map = (pat_build mod pointer).map ∧
    (pat_sent lib mod pointer).pid_map = (pat_build mod pointer).pid_map ∧
    (pat_sent lib mod pointer).pmt = mod.pmt ∧
    (pat_sent lib mod pointer).custom_pmt = (pat_build mod pointer).custom_pmt ∧
    (pat_sent lib mod pointer).stream =
      if mod.config.no_reload then Function.update mod.stream mod.pat.pid .UNKNOWN
      else mod.stream := by
  obtain ⟨h1, h2, h3, h4, h5, h6, h7, h8, h9⟩ := pat_build_frame mod pointer
  unfold pat_sent pat_finish
  simp only [h1, h5, h7, h8, h9]
  cases hn : mod.config.no_reload <;> simp [h1, h2, h3, h4, h5, h6, h7, h8, h9]

theorem PAT_GET_VERSION_congr (a b : ts_psi_t) (h : a.buffer = b.buffer) :
    PAT_GET_VERSION a = PAT_GET_VERSION b := by
  simp only [PAT_GET_VERSION, h]

/-- Claim C17: every call of `on_pat` returns; when it rebuilds the custom PAT
(a new valid section in which the program is found) the version of the
custom PAT that it emits is the version of the previous custom PAT plus one
modulo 16, otherwise the version is kept; the custom PAT carries
`pat_version`, and `pat_version` stays below 16. -/
theorem pat_version_steps {d : Nat → Nat} {fuel : Nat} {s : State} {self : Nat}
    (hr : Ready d fuel s self) (lib : mpegts_lib) (mod : module_data_t)
    (hb : ∀ k, mod.pat.buffer k < 256)
    (hinv : PAT_GET_VERSION mod.custom_pat = mod.pat_version) (hlt : mod.pat_version < 16) :
    ∃ s' mod', on_pat lib fuel s self mod = .ok (s', mod') ∧
      PAT_GET_VERSION mod'.custom_pat = mod'.pat_version ∧ mod'.pat_version < 16 ∧
      ((pat_is_new mod ∧ ∃ k, pat_selects (pat_base mod).pat mod.config.pnr k) →
        PAT_GET_VERSION mod'.custom_pat = (PAT_GET_VERSION mod.custom_pat + 1) % 16 ∧
        mod'.out = (pat_base mod).out ++ [.psi mod.custom_pat.pid mod.custom_pat.cc
          ((List.range mod'.custom_pat.buffer_size).map mod'.custom_pat.buffer)]) ∧
      (¬ (pat_is_new mod ∧ ∃ k, pat_selects (pat_base mod).pat mod.config.pnr k) →
        PAT_GET_VERSION mod'.custom_pat = PAT_GET_VERSION mod.custom_pat ∧
        mod'.pat_version = mod.pat_version) := by
  obtain ⟨s', mod', h1, _, hres⟩ := on_pat_spec hr lib mod hb
  refine ⟨s', mod', h1, ?_⟩
  obtain ⟨hb1, _, _, hb4, hb5, _, _, _⟩ := pat_base_frame mod
  rcases hres with ⟨hnew, _, hm⟩ | ⟨hnew, hno, _, hm⟩ | ⟨hnew, k, hsel, _, hm⟩
  · have hkeep : PAT_GET_VERSION mod'.custom_pat = PAT_GET_VERSION mod.custom_pat ∧
        mod'.pat_version = mod.pat_version := by
      rcases hm with rfl | rfl | rfl
      · exact ⟨rfl, rfl⟩
      · exact ⟨rfl, rfl⟩
      · exact ⟨rfl, rfl⟩
    exact ⟨by rw [hkeep.1, hkeep.2, hinv], by rw [hkeep.2]; exact hlt,
      fun h => absurd h.1 hnew, fun _ => hkeep⟩
  · have hkeep : PAT_GET_VERSION mod'.custom_pat = PAT_GET_VERSION mod.custom_pat ∧
        mod'.pat_version = mod.pat_version := by
      subst hm
      exact ⟨PAT_GET_VERSION_congr _ _ (by simp only [hb4]), hb5⟩
    exact ⟨by rw [hkeep.1, hkeep.2, hinv], by rw [hkeep.2]; exact hlt,
      fun h => absurd h.2 (fun ⟨j, hj⟩ => hno j hj), fun _ => hkeep⟩
  · obtain ⟨f1, f2, f3, f4, _⟩ := pat_sent_frame lib
      (pat_matched (pat_base mod) (pat_base mod).pat (8 + 4 * k)) (8 + 4 * k)
    obtain ⟨v1, v2⟩ := pat_build_version
      (pat_matched (pat_base mod) (pat_base mod).pat (8 + 4 * k)) (8 + 4 * k)
    have hpv : (pat_matched (pat_base mod) (pat_base mod).pat (8 + 4 * k)).pat_version =
        mod.pat_version := hb5
    have hcp : (pat_matched (pat_base mod) (pat_base mod).pat (8 + 4 * k)).custom_pat =
        mod.custom_pat := hb4
    rw [hpv] at v1 v2
    have hver : PAT_GET_VERSION mod'.custom_pat = (mod.pat_version + 1) % 16 := by
      rw [hm, PAT_GET_VERSION_congr _ _ f2, v2]
    have hpv' : mod'.pat_version = (mod.pat_version + 1) % 16 := by rw [hm, f1, v1]
    refine ⟨by rw [hver, hpv'], by rw [hpv']; omega, fun _ => ⟨by rw [hver, hinv], ?_⟩,
      fun h => absurd ⟨hnew, k, hsel⟩ h⟩
    rw [hm, f4, f3, f2, hcp]
    rfl
theorem load_pat_bytes (mod : module_data_t) (bytes : List Nat) (h : ∀ b ∈ bytes, b < 256) :
    ∀ k, (load_pat mod bytes).pat.buffer k < 256 :=
  fun k => getD_byte bytes h k

theorem pat_demo_new : pat_is_new (load_pat chan_mod pat_demo) :=
  ⟨by decide, by decide, by rw [PSI_CALC_CRC32, crc32b_eq_loop]; decide!⟩

theorem pat_demo_selects :
    pat_selects (pat_base (load_pat chan_mod pat_demo)).pat
      (load_pat chan_mod pat_demo).config.pnr 0 :=
  ⟨by decide, ⟨by decide, Or.inr (by decide)⟩, fun j hj => absurd hj (Nat.not_lt_zero j)⟩

theorem refs_init_lt (p : Nat) : refs_init p < 256 := by
  unfold refs_init
  split <;> decide

theorem pat_version_steps_witness :
    ∃ s' mod', on_pat demo_lib 4 (chan_tree_refs refs_init) 1 (load_pat chan_mod pat_demo) =
        .ok (s', mod') ∧
      PAT_GET_VERSION mod'.custom_pat = 1 ∧ mod'.pat_version = 1 := by
  obtain ⟨s', mod', h1, h2, _, h4, _⟩ :=
    pat_version_steps (chan_tree_refs_ready refs_init refs_init_lt) demo_lib
      (load_pat chan_mod pat_demo) (load_pat_bytes chan_mod pat_demo (by decide))
      (by decide) (by decide)
  have h5 := (h4 ⟨pat_demo_new, 0, pat_demo_selects⟩).1
  have h6 : (PAT_GET_VERSION (load_pat chan_mod pat_demo).custom_pat + 1) % 16 = 1 := by decide
  exact ⟨s', mod', h1, h5.trans h6, by rw [← h2, h5, h6]⟩

/-! ## Channel: map rules -/

theorem map_take_none (pid : Nat) (type : List Nat) :
    ∀ l : List map_item_t, (∀ x ∈ l, ¬ map_matches x pid type) → map_take l pid type = none := by
  intro l
  induction l with
  | nil => intro _; rfl
  | cons item rest ih =>
    intro h
    have h1 : ¬ map_matches item pid type := h item (List.mem_cons_self _ _)
    have h2 := ih (fun x hx => h x (List.mem_cons_of_mem _ hx))
    unfold map_matches at h1
    simp only [map_take, h1, if_false, h2, Option.map_none']

theorem map_take_some (pid : Nat) (type : List Nat) (item : map_item_t) (post : List map_item_t)
    (hm : map_matches item pid type) :
    ∀ pre : List map_item_t, (∀ x ∈ pre, ¬ map_matches x pid type) →
      map_take (pre ++ item :: post) pid type =
        some (pre ++ { item with is_set := true } :: post, item.custom_pid) := by
  intro pre
  induction pre with
  | nil =>
    intro _
    have hm' := hm
    unfold map_matches at hm'
    rw [List.nil_append, map_take, if_pos hm']
    rfl
  | cons x rest ih =>
    intro h
    have h1 : ¬ map_matches x pid type := h x (List.mem_cons_self _ _)
    have h2 := ih (fun y hy => h y (List.mem_cons_of_mem _ hy))
    unfold map_matches at h1
    rw [List.cons_append, map_take, if_neg h1, h2]
    rfl

theorem map_take_pid (pid : Nat) (type : List Nat) :
    ∀ (l l1 : List map_item_t) (c : Nat), map_take l pid type = some (l1, c) →
      ∃ item ∈ l, item.custom_pid = c := by
  intro l
  induction l with
  | nil => intro l1 c h; simp [map_take] at h
  | cons item rest ih =>
    intro l1 c h
    unfold map_take at h
    split at h
    · simp only [Option.some.injEq, Prod.mk.injEq] at h
      exact ⟨item, List.mem_cons_self _ _, h.2⟩
    · cases hr : map_take rest pid type with
      | none => simp [hr] at h
      | some r =>
        obtain ⟨x, hx, hc⟩ := ih r.1 r.2 (by rw [hr])
        simp only [hr, Option.map_some', Option.some.injEq, Prod.mk.injEq] at h
        exact ⟨x, List.mem_cons_of_mem _ hx, hc.trans h.2⟩

theorem pat_build_entry (mod : module_data_t) (pointer : Nat) :
    (pat_build mod pointer).custom_pat.buffer 0 = 0 ∧
    PAT_GET_TSID (pat_build mod pointer).custom_pat = mod.tsid % 65536 ∧
    PAT_ITEM_GET_PNR (pat_build mod pointer).custom_pat 8 =
      (if mod.config.set_pnr ≠ 0 then mod.config.set_pnr % 65536
       else PAT_ITEM_GET_PNR mod.pat pointer) := by
  unfold pat_build
  cases hm : mod.map with
  | none => by_cases hs : mod.config.set_pnr = 0 <;>
      simp [hm, hs, PSI_SET_CRC32, PSI_SET_SIZE, PAT_SET_VERSION, PAT_ITEM_SET_PNR, PAT_INIT,
        PAT_GET_TSID, PAT_ITEM_GET_PNR, CRC32_SIZE, Function.update_apply, memcpy, u16_roundtrip]
  | some l =>
    cases ht : map_take l mod.pmt.pid str_pmt <;> by_cases hs : mod.config.set_pnr = 0 <;>
      simp [hm, ht, hs, PSI_SET_CRC32, PSI_SET_SIZE, PAT_SET_VERSION, PAT_ITEM_SET_PNR,
        PAT_ITEM_SET_PID, PAT_INIT, PAT_GET_TSID, PAT_ITEM_GET_PNR, CRC32_SIZE,
        Function.update_apply, memcpy, u16_roundtrip]

theorem pat_build_map_none (mod : module_data_t) (pointer : Nat)
    (h : ∀ l, mod.map = some l → map_take l mod.pmt.pid str_pmt = none) :
    PAT_ITEM_GET_PID (pat_build mod pointer).custom_pat 8 = PAT_ITEM_GET_PID mod.pat pointer ∧
    (pat_build mod pointer).map = mod.map ∧ (pat_build mod pointer).pid_map = mod.pid_map ∧
    (pat_build mod pointer).custom_pmt.pid = mod.pmt.pid := by
  unfold pat_build
  cases hm : mod.map with
  | none => by_cases hs : mod.config.set_pnr = 0 <;>
      simp [hm, hs, PSI_SET_CRC32, PSI_SET_SIZE, PAT_SET_VERSION, PAT_ITEM_SET_PNR, PAT_INIT,
        PAT_ITEM_GET_PID, CRC32_SIZE, Function.update_apply, memcpy]
  | some l =>
    have ht := h l hm
    by_cases hs : mod.config.set_pnr = 0 <;>
      simp [hm, ht, hs, PSI_SET_CRC32, PSI_SET_SIZE, PAT_SET_VERSION, PAT_ITEM_SET_PNR,
        PAT_INIT, PAT_ITEM_GET_PID, CRC32_SIZE, Function.update_apply, memcpy]

theorem pat_build_map_some (mod : module_data_t) (pointer : Nat) (l l1 : List map_item_t)
    (c : Nat) (hm : mod.map = some l) (ht : map_take l mod.pmt.pid str_pmt = some (l1, c))
    (hc : c < TS_MAX_PIDS) :
    PAT_ITEM_GET_PID (pat_build mod pointer).custom_pat 8 = c ∧
    (pat_build mod pointer).map = some l1 ∧
    (pat_build mod pointer).pid_map = Function.update mod.pid_map mod.pmt.pid c ∧
    (pat_build mod pointer).custom_pmt.pid = c := by
  have hrt := pid_field_roundtrip 0xE0 c (by decide) hc
  unfold pat_build
  by_cases hs : mod.config.set_pnr = 0 <;>
    simp [hm, ht, hs, PSI_SET_CRC32, PSI_SET_SIZE, PAT_SET_VERSION, PAT_ITEM_SET_PNR,
      PAT_ITEM_SET_PID, PAT_INIT, PAT_ITEM_GET_PID, CRC32_SIZE, Function.update_apply, memcpy]
    <;> exact hrt

theorem PAT_ITEM_GET_PNR_congr (a b : ts_psi_t) (h : a.buffer = b.buffer) (p : Nat) :
    PAT_ITEM_GET_PNR a p = PAT_ITEM_GET_PNR b p := by
  simp only [PAT_ITEM_GET_PNR, h]

theorem PAT_ITEM_GET_PID_congr (a b : ts_psi_t) (h : a.buffer = b.buffer) (p : Nat) :
    PAT_ITEM_GET_PID a p = PAT_ITEM_GET_PID b p := by
  simp only [PAT_ITEM_GET_PID, h]

theorem PAT_GET_TSID_congr (a b : ts_psi_t) (h : a.buffer = b.buffer) :
    PAT_GET_TSID a = PAT_GET_TSID b := by
  simp only [PAT_GET_TSID, h]

/-- Claim C16 (amended): after `on_pat` has processed a new CRC-valid PAT in
which entry `k` is the one selected for the program, the custom PAT is a PAT
of 8 + 4 + 4 bytes with one entry, the TSID of the inbound PAT, the program
number `set_pnr` (or the selected one when `set_pnr` is 0), and as PMT PID
the custom PID of the first unconsumed map rule that matches by origin PID
or by the selector `pmt` (that rule becomes consumed), or the inbound PMT
PID when there is none; the inbound PMT PID has been joined once, and it has
the stream type `PMT` unless `no_reload` is set and it is the PID of the PAT
itself. -/
theorem pat_entry_rewritten {d : Nat → Nat} {fuel : Nat} {s : State} {self : Nat}
    (hr : Ready d fuel s self) (lib : mpegts_lib) (mod : module_data_t)
    (hb : ∀ k, mod.pat.buffer k < 256) (hnew : pat_is_new mod) (k : Nat)
    (hsel : pat_selects (pat_base mod).pat mod.config.pnr k)
    (hset : mod.config.set_pnr < 65536)
    (hmap : ∀ l, (pat_base mod).map = some l → ∀ item ∈ l, item.custom_pid < TS_MAX_PIDS) :
    ∃ s' mod', on_pat lib fuel s self mod = .ok (s', mod') ∧
      (mod'.custom_pat.buffer 0 = 0x00 ∧ mod'.custom_pat.buffer_size = 8 + 4 + CRC32_SIZE ∧
        PAT_ITEMS_EOL mod'.custom_pat 8 = false ∧ PAT_ITEMS_EOL mod'.custom_pat 12 = true) ∧
      PAT_GET_TSID mod'.custom_pat = PAT_GET_TSID mod.pat ∧
      PAT_ITEM_GET_PNR mod'.custom_pat 8 =
        (if mod.config.set_pnr ≠ 0 then mod.config.set_pnr
         else PAT_ITEM_GET_PNR mod.pat (8 + 4 * k)) ∧
      ((∀ l, (pat_base mod).map = some l →
          ∀ x ∈ l, ¬ map_matches x (PAT_ITEM_GET_PID mod.pat (8 + 4 * k)) str_pmt) →
        PAT_ITEM_GET_PID mod'.custom_pat 8 = PAT_ITEM_GET_PID mod.pat (8 + 4 * k) ∧
        mod'.map = (pat_base mod).map) ∧
      (∀ pre item post, (pat_base mod).map = some (pre ++ item :: post) →
        (∀ x ∈ pre, ¬ map_matches x (PAT_ITEM_GET_PID mod.pat (8 + 4 * k)) str_pmt) →
        map_matches item (PAT_ITEM_GET_PID mod.pat (8 + 4 * k)) str_pmt →
        PAT_ITEM_GET_PID mod'.custom_pat 8 = item.custom_pid ∧
        mod'.map = some (pre ++ { item with is_set := true } :: post)) ∧
      pid_refs s' self (PAT_ITEM_GET_PID mod.pat (8 + 4 * k)) =
        (pat_base_refs mod (pid_refs s self) (PAT_ITEM_GET_PID mod.pat (8 + 4 * k)) + 1) % 256 ∧
      module_demux_check s' self (PAT_ITEM_GET_PID mod.pat (8 + 4 * k)) =
        .ok (decide (0 < (pat_base_refs mod (pid_refs s self)
          (PAT_ITEM_GET_PID mod.pat (8 + 4 * k)) + 1) % 256)) ∧
      (¬ (mod.config.no_reload = true ∧ PAT_ITEM_GET_PID mod.pat (8 + 4 * k) = mod.pat.pid) →
        mod'.stream (PAT_ITEM_GET_PID mod.pat (8 + 4 * k)) = .PMT) := by
  obtain ⟨s', mod', h1, hr', hres⟩ := on_pat_spec hr lib mod hb
  refine ⟨s', mod', h1, ?_⟩
  obtain ⟨hb1, hb2, hb3, hb4, hb5, hb6, hb7, hb8⟩ := pat_base_frame mod
  rcases hres with ⟨hn, _⟩ | ⟨_, hno, _⟩ | ⟨_, k', hsel', hf, hm⟩
  · exact absurd hnew hn
  · exact absurd hsel (hno k)
  · have hk : k' = k := by
      rcases Nat.lt_trichotomy k' k with h | h | h
      · exact absurd hsel'.2.1 (hsel.2.2 k' h)
      · exact h
      · exact absurd hsel.2.1 (hsel'.2.2 k h)
    subst hk
    have hpid : PAT_ITEM_GET_PID (pat_base mod).pat (8 + 4 * k') =
        PAT_ITEM_GET_PID mod.pat (8 + 4 * k') := PAT_ITEM_GET_PID_congr _ _ hb2 _
    have hpnr : PAT_ITEM_GET_PNR (pat_base mod).pat (8 + 4 * k') =
        PAT_ITEM_GET_PNR mod.pat (8 + 4 * k') := PAT_ITEM_GET_PNR_congr _ _ hb2 _
    have hlt : PAT_ITEM_GET_PID mod.pat (8 + 4 * k') < TS_MAX_PIDS := pid13_lt _ _ (hb _)
    rw [hpid] at hf
    generalize hM : pat_matched (pat_base mod) (pat_base mod).pat (8 + 4 * k') = M at hm
    have hMcfg : M.config.set_pnr = mod.config.set_pnr ∧
        M.config.no_reload = mod.config.no_reload := by
      rw [← hM]; simp only [pat_matched, hb1, and_self]
    have hMpat : M.pat = (pat_base mod).pat := by rw [← hM]; rfl
    have hMtsid : M.tsid = PAT_GET_TSID mod.pat := by rw [← hM]; exact hb8
    have hMmap : M.map = (pat_base mod).map := by rw [← hM]; rfl
    have hMpmt : M.pmt.pid = PAT_ITEM_GET_PID mod.pat (8 + 4 * k') := by
      rw [← hM]; exact hpid
    have hMstream : M.stream = Function.update (pat_base mod).stream
        (PAT_ITEM_GET_PID mod.pat (8 + 4 * k')) .PMT := by
      rw [← hM]; simp only [pat_matched, hpid]
    obtain ⟨f1, f2, f3, f4, f5, f6, f7, f8, f9, f10⟩ := pat_sent_frame lib M (8 + 4 * k')
    obtain ⟨e1, e2, e3⟩ := pat_build_entry M (8 + 4 * k')
    subst hm
    refine ⟨⟨by rw [f2, e1], f3, ?_, ?_⟩, ?_, ?_, ?_, ?_, ?_, ?_, ?_⟩
    · simp [PAT_ITEMS_EOL, f3, CRC32_SIZE]
    · simp [PAT_ITEMS_EOL, f3, CRC32_SIZE]
    · rw [PAT_GET_TSID_congr _ _ f2, e2, hMtsid]
      exact Nat.mod_eq_of_lt (u16_of_bytes _ _ (hb 3) (hb 4))
    · rw [PAT_ITEM_GET_PNR_congr _ _ f2, e3, hMcfg.1, PAT_ITEM_GET_PNR_congr _ _
        (congrArg ts_psi_t.buffer hMpat), hpnr, Nat.mod_eq_of_lt hset]
    · intro hnone
      have hnone' : ∀ l, M.map = some l → map_take l M.pmt.pid str_pmt = none := by
        intro l hl
        rw [hMmap] at hl
        rw [hMpmt]
        exact map_take_none _ _ l (hnone l hl)
      obtain ⟨g1, g2, _, _⟩ := pat_build_map_none M (8 + 4 * k') hnone'
      rw [PAT_ITEM_GET_PID_congr _ _ f2, g1, f6, g2, hMmap, PAT_ITEM_GET_PID_congr _ _
        (congrArg ts_psi_t.buffer hMpat), hpid]
      exact ⟨rfl, rfl⟩
    · intro pre item post hl hpre hit
      have hl' : M.map = some (pre ++ item :: post) := hMmap.trans hl
      have ht : map_take (pre ++ item :: post) M.pmt.pid str_pmt =
          some (pre ++ { item with is_set := true } :: post, item.custom_pid) := by
        rw [hMpmt]
        exact map_take_some _ _ item post hit pre hpre
      have hc : item.custom_pid < TS_MAX_PIDS :=
        hmap _ hl item (List.mem_append_right _ (List.mem_cons_self _ _))
      obtain ⟨g1, g2, _, _⟩ := pat_build_map_some M (8 + 4 * k') _ _ _ hl' ht hc
      rw [PAT_ITEM_GET_PID_congr _ _ f2, g1, f6, g2]
      exact ⟨rfl, rfl⟩
    · rw [hf]
      simp [incr_step]
    · rw [ready_check hr' _ hlt, hf]
      simp [incr_step]
    · intro hnr
      rw [f10, hMcfg.2, hMstream, hMpat, hb7]
      by_cases hn : mod.config.no_reload = true
      · have hne : PAT_ITEM_GET_PID mod.pat (8 + 4 * k') ≠ mod.pat.pid :=
          fun h => hnr ⟨hn, h⟩
        simp [hn, Function.update_noteq hne]
      · simp [hn]

theorem pat_entry_rewritten_witness :
    ∃ s' mod', on_pat demo_lib 4 (chan_tree_refs refs_init) 1 (load_pat chan_mod pat_demo) =
        .ok (s', mod') ∧
      PAT_ITEM_GET_PNR mod'.custom_pat 8 = 10 ∧ PAT_ITEM_GET_PID mod'.custom_pat 8 = 0x100 ∧
      module_demux_check s' 1 0x100 = .ok true ∧ mod'.stream 0x100 = .PMT := by
  have hmapn : (pat_base (load_pat chan_mod pat_demo)).map = none := rfl
  obtain ⟨s', mod', h1, _, _, h4, h5, _, _, h8, h9⟩ :=
    pat_entry_rewritten (chan_tree_refs_ready refs_init refs_init_lt) demo_lib
      (load_pat chan_mod pat_demo) (load_pat_bytes chan_mod pat_demo (by decide))
      pat_demo_new 0 pat_demo_selects (by decide)
      (fun l hl => by rw [hmapn] at hl; cases hl)
  have hpid : PAT_ITEM_GET_PID (load_pat chan_mod pat_demo).pat (8 + 4 * 0) = 0x100 := by decide
  rw [hpid] at h5 h8 h9
  rw [chan_tree_refs_pid] at h8
  refine ⟨s', mod', h1, h4.trans (by decide),
    (h5 (fun l hl => by rw [hmapn] at hl; cases hl)).1, h8.trans ?_, h9 (by decide)⟩
  have : pat_base_refs (load_pat chan_mod pat_demo) refs_init 0x100 = 0 := by decide
  rw [this]
  rfl

/-- Claim C16, counterexample: with `no_reload`, a CRC-valid PAT whose entry
for program 10 names the PID 0 is processed, and afterwards the stream type
of the inbound PMT PID is `UNKNOWN`, not `PMT`. -/
theorem pat_pid_zero_marked_unknown :
    pat_is_new (load_pat chan_mod_no_reload pat_on_pid_zero) ∧
    pat_selects (pat_base (load_pat chan_mod_no_reload pat_on_pid_zero)).pat
      (load_pat chan_mod_no_reload pat_on_pid_zero).config.pnr 0 ∧
    PAT_ITEM_GET_PID (load_pat chan_mod_no_reload pat_on_pid_zero).pat 8 = 0 ∧
    (match on_pat demo_lib 4 (chan_tree_refs refs_init) 1
        (load_pat chan_mod_no_reload pat_on_pid_zero) with
      | .ok (_, m) => some (m.stream 0)
      | .error _ => none) = some .UNKNOWN := by
  refine ⟨⟨by decide, by decide, by rw [PSI_CALC_CRC32, crc32b_eq_loop]; decide!⟩,
    ⟨by decide, ⟨by decide, Or.inr (by decide)⟩, fun j hj => absurd hj (Nat.not_lt_zero j)⟩,
    by decide, ?_⟩
  decide!

/-! ## Channel: the PMT loops and their record part -/

theorem after_joins_spec {d : Nat → Nat} {fuel : Nat} {self : Nat} :
    ∀ (joins : List Nat) (s : State), Ready d fuel s self → (∀ q ∈ joins, q < TS_MAX_PIDS) →
      Ready d fuel (after_joins fuel s self joins) self ∧
      pid_refs (after_joins fuel s self joins) self = joins.foldl incr_step (pid_refs s self) := by
  intro joins
  induction joins with
  | nil => intro s hr _; exact ⟨hr, rfl⟩
  | cons q rest ih =>
    intro s hr h
    obtain ⟨_, h2, h3⟩ := join_eq hr q (h q (List.mem_cons_self _ _))
    obtain ⟨h4, h5⟩ := ih (after_join fuel s self q) h2
      (fun x hx => h x (List.mem_cons_of_mem _ hx))
    exact ⟨h4, by rw [List.foldl_cons, ← h3]; exact h5⟩

theorem after_joins_append (fuel : Nat) (s : State) (self : Nat) (a b : List Nat) :
    after_joins fuel s self (a ++ b) = after_joins fuel (after_joins fuel s self a) self b := by
  simp only [after_joins, List.foldl_append]

theorem ca_join_eq {d : Nat → Nat} {fuel : Nat} {s : State} {self : Nat}
    (hr : Ready d fuel s self) (mod : module_data_t) (buf : Nat → Nat) (desc : Nat)
    (hb : ∀ k, buf k < 256) :
    ca_join fuel s self mod buf desc =
        .ok (after_joins fuel s self (ca_data mod buf desc).2, (ca_data mod buf desc).1) ∧
      ∀ q ∈ (ca_data mod buf desc).2, q < TS_MAX_PIDS := by
  have hlt : DESC_CA_PID buf desc < TS_MAX_PIDS := pid13_lt _ _ (hb _)
  unfold ca_join ca_data
  by_cases hc : mod.stream (DESC_CA_PID buf desc) = .UNKNOWN ∧ DESC_CA_PID buf desc ≠ TS_NULL_PID
  · simp only [hc, and_self, if_true, (join_eq hr _ hlt).1, ne_eq, not_false_eq_true]
    exact ⟨rfl, fun q hq => by rw [List.mem_singleton.mp hq]; exact hlt⟩
  · simp only [hc, if_false]
    exact ⟨rfl, fun q hq => by cases hq⟩

theorem pmt_desc_loop_eq {d : Nat → Nat} {fuel : Nat} {self : Nat} (psi : ts_psi_t)
    (hb : ∀ k, psi.buffer k < 256) :
    ∀ (n desc skip : Nat) (s : State) (mod : module_data_t), Ready d fuel s self →
      pmt_desc_loop fuel self psi n desc skip s mod =
        (match pmt_desc_data psi n desc skip mod with
          | none => .error .out_of_fuel
          | some (m, k, joins) => .ok (after_joins fuel s self joins, m, k)) ∧
      ∀ r, pmt_desc_data psi n desc skip mod = some r → ∀ q ∈ r.2.2, q < TS_MAX_PIDS := by
  intro n
  induction n with
  | zero => intro desc skip s mod _; exact ⟨rfl, fun r h => by cases h⟩
  | succ n ih =>
    intro desc skip s mod hr
    unfold pmt_desc_loop pmt_desc_data
    by_cases hend : 12 + PMT_DESC_SIZE psi ≤ desc
    · simp only [hend, if_true]
      exact ⟨rfl, fun r h => by cases h; intro q hq; cases hq⟩
    · simp only [hend, if_false]
      by_cases hskip : psi.buffer desc = 0x09 ∧ mod.config.cas = false
      · simp only [hskip, and_self, if_true]
        exact ih _ _ s mod hr
      · simp only [hskip, if_false]
        by_cases hca : psi.buffer desc = 0x09
        · obtain ⟨hj, hlt⟩ := ca_join_eq hr mod psi.buffer desc hb
          obtain ⟨hr1, _⟩ := after_joins_spec (ca_data mod psi.buffer desc).2 s hr hlt
          obtain ⟨h1, h2⟩ := ih (desc + 2 + psi.buffer (desc + 1))
            ((skip + (psi.buffer (desc + 1) + 2) % 256) % 65536) _
            (desc_copy (ca_data mod psi.buffer desc).1 psi desc skip) hr1
          simp only [hca, if_true, hj, h1]
          cases hd : pmt_desc_data psi n (desc + 2 + psi.buffer (desc + 1))
              ((skip + (psi.buffer (desc + 1) + 2) % 256) % 65536)
              (desc_copy (ca_data mod psi.buffer desc).1 psi desc skip) with
          | none => exact ⟨rfl, fun r h => by cases h⟩
          | some x =>
            refine ⟨by simp only [Option.map_some', after_joins_append], ?_⟩
            intro r h q hq
            simp only [Option.map_some', Option.some.injEq] at h
            subst h
            rcases List.mem_append.mp hq with hq | hq
            · exact hlt q hq
            · exact h2 x hd q hq
        · obtain ⟨h1, h2⟩ := ih (desc + 2 + psi.buffer (desc + 1))
            ((skip + (psi.buffer (desc + 1) + 2) % 256) % 65536) s
            (desc_copy mod psi desc skip) hr
          simp only [hca, if_false, h1]
          cases hd : pmt_desc_data psi n (desc + 2 + psi.buffer (desc + 1))
              ((skip + (psi.buffer (desc + 1) + 2) % 256) % 65536)
              (desc_copy mod psi desc skip) with
          | none => exact ⟨rfl, fun r h => by cases h⟩
          | some x =>
            refine ⟨by simp only [Option.map_some', List.nil_append], ?_⟩
            intro r h q hq
            simp only [Option.map_some', Option.some.injEq] at h
            subst h
            exact h2 x hd q (by simpa using hq)

theorem pmt_item_desc_loop_eq {d : Nat → Nat} {fuel : Nat} {self : Nat} (lib : mpegts_lib)
    (psi : ts_psi_t) (pointer item_type : Nat) (hb : ∀ k, psi.buffer k < 256) :
    ∀ (n desc skip : Nat) (ts_type : ts_type_t) (lang : Option Nat) (s : State)
      (mod : module_data_t), Ready d fuel s self →
      pmt_item_desc_loop lib fuel self psi pointer item_type n desc skip ts_type lang s mod =
        (match pmt_item_desc_data lib psi pointer item_type n desc skip ts_type lang mod with
          | none => .error .out_of_fuel
          | some (m, k, t, l, joins) => .ok (after_joins fuel s self joins, m, k, t, l)) ∧
      ∀ r, pmt_item_desc_data lib psi pointer item_type n desc skip ts_type lang mod = some r →
        ∀ q ∈ r.2.2.2.2, q < TS_MAX_PIDS := by
  intro n
  induction n with
  | zero => intro desc skip ts_type lang s mod _; exact ⟨rfl, fun r h => by cases h⟩
  | succ n ih =>
    intro desc skip ts_type lang s mod hr
    unfold pmt_item_desc_loop pmt_item_desc_data
    by_cases hend : pointer + 5 + PMT_ITEM_DESC_SIZE psi.buffer pointer ≤ desc
    · simp only [hend, if_true]
      exact ⟨rfl, fun r h => by cases h; intro q hq; cases hq⟩
    · simp only [hend, if_false]
      by_cases hskip : psi.buffer desc = 0x09 ∧ mod.config.cas = false
      · simp only [hskip, and_self, if_true]
        exact ih _ _ _ _ s mod hr
      · simp only [hskip, if_false]
        by_cases hca : psi.buffer desc = 0x09
        · obtain ⟨hj, hlt⟩ := ca_join_eq hr mod psi.buffer desc hb
          obtain ⟨hr1, _⟩ := after_joins_spec (ca_data mod psi.buffer desc).2 s hr hlt
          simp only [hca, if_true, hj]
          obtain ⟨h1, h2⟩ := ih (desc + 2 + psi.buffer (desc + 1))
            ((skip + (psi.buffer (desc + 1) + 2) % 256) % 65536)
            (if (9 : Nat) ≠ 9 ∧ (9 : Nat) ≠ 10 ∧ item_type = 6 ∧ ts_type = .DATA then
              lib.ts_priv_type 9 else ts_type)
            (if (9 : Nat) = 10 then some desc else lang) _
            (desc_copy (ca_data mod psi.buffer desc).1 psi desc skip) hr1
          rw [h1]
          cases hd : pmt_item_desc_data lib psi pointer item_type n
              (desc + 2 + psi.buffer (desc + 1))
              ((skip + (psi.buffer (desc + 1) + 2) % 256) % 65536)
              (if (9 : Nat) ≠ 9 ∧ (9 : Nat) ≠ 10 ∧ item_type = 6 ∧ ts_type = .DATA then
                lib.ts_priv_type 9 else ts_type)
              (if (9 : Nat) = 10 then some desc else lang)
              (desc_copy (ca_data mod psi.buffer desc).1 psi desc skip) with
          | none => exact ⟨rfl, fun r h => by cases h⟩
          | some x =>
            refine ⟨by simp only [Option.map_some', after_joins_append], ?_⟩
            intro r h q hq
            simp only [Option.map_some', Option.some.injEq] at h
            subst h
            rcases List.mem_append.mp hq with hq | hq
            · exact hlt q hq
            · exact h2 x hd q hq
        · simp only [hca, if_false]
          obtain ⟨h1, h2⟩ := ih (desc + 2 + psi.buffer (desc + 1))
            ((skip + (psi.buffer (desc + 1) + 2) % 256) % 65536)
            (if psi.buffer desc ≠ 9 ∧ psi.buffer desc ≠ 10 ∧ item_type = 6 ∧ ts_type = .DATA then
              lib.ts_priv_type (psi.buffer desc) else ts_type)
            (if psi.buffer desc = 10 then some desc else lang) s
            (desc_copy mod psi desc skip) hr
          rw [h1]
          cases hd : pmt_item_desc_data lib psi pointer item_type n
              (desc + 2 + psi.buffer (desc + 1))
              ((skip + (psi.buffer (desc + 1) + 2) % 256) % 65536)
              (if psi.buffer desc ≠ 9 ∧ psi.buffer desc ≠ 10 ∧ item_type = 6 ∧ ts_type = .DATA then
                lib.ts_priv_type (psi.buffer desc) else ts_type)
              (if psi.buffer desc = 10 then some desc else lang)
              (desc_copy mod psi desc skip) with
          | none => exact ⟨rfl, fun r h => by cases h⟩
          | some x =>
            refine ⟨by simp only [Option.map_some', List.nil_append], ?_⟩
            intro r h q hq
            simp only [Option.map_some', Option.some.injEq] at h
            subst h
            exact h2 x hd q (by simpa using hq)

theorem pmt_items_loop_eq {d : Nat → Nat} {fuel : Nat} {self : Nat} (lib : mpegts_lib)
    (psi : ts_psi_t) (pcr_pid : Nat) (hb : ∀ k, psi.buffer k < 256) :
    ∀ (n pointer skip : Nat) (jp : Bool) (s : State) (mod : module_data_t),
      Ready d fuel s self →
      pmt_items_loop lib fuel self psi pcr_pid n pointer skip jp s mod =
        (match pmt_items_data lib psi pcr_pid n pointer skip jp mod with
          | none => .error .out_of_fuel
          | some (m, k, j, joins, _) => .ok (after_joins fuel s self joins, m, k, j)) ∧
      ∀ r, pmt_items_data lib psi pcr_pid n pointer skip jp mod = some r →
        ∀ q ∈ r.2.2.2.1, q < TS_MAX_PIDS := by
  intro n
  induction n with
  | zero => intro pointer skip jp s mod _; exact ⟨rfl, fun r h => by cases h⟩
  | succ n ih =>
    intro pointer skip jp s mod hr
    unfold pmt_items_loop pmt_items_data
    by_cases hend : psi.buffer_size - CRC32_SIZE ≤ pointer
    · simp only [hend, if_true]
      exact ⟨rfl, fun r h => by cases h; intro q hq; cases hq⟩
    · simp only [hend, if_false]
      by_cases hf : mod.pid_map (PMT_ITEM_GET_PID psi.buffer pointer) = TS_MAX_PIDS
      · simp only [hf, if_true]
        exact ih _ _ _ s mod hr
      · simp only [hf, if_false]
        have hlt : PMT_ITEM_GET_PID psi.buffer pointer < TS_MAX_PIDS := pid13_lt _ _ (hb _)
        obtain ⟨hj, hr1, _⟩ := join_eq hr _ hlt
        obtain ⟨h1, h2⟩ := pmt_item_desc_loop_eq lib psi pointer (psi.buffer pointer) hb
          (PMT_ITEM_DESC_SIZE psi.buffer pointer + 1) (pointer + 5) ((skip + 5) % 65536)
          (lib.ts_stream_type (psi.buffer pointer)) none _ (item_head mod psi pointer skip) hr1
        simp only [hj, h1]
        cases hd : pmt_item_desc_data lib psi pointer (psi.buffer pointer)
            (PMT_ITEM_DESC_SIZE psi.buffer pointer + 1) (pointer + 5) ((skip + 5) % 65536)
            (lib.ts_stream_type (psi.buffer pointer)) none (item_head mod psi pointer skip) with
        | none => exact ⟨rfl, fun r h => by cases h⟩
        | some x =>
          obtain ⟨mod3, skip2, ts_type2, lang, joins⟩ := x
          have hjl : ∀ q ∈ joins, q < TS_MAX_PIDS := h2 _ hd
          obtain ⟨hr2, _⟩ := after_joins_spec joins _ hr1 hjl
          obtain ⟨h3, h4⟩ := ih (pointer + 5 + PMT_ITEM_DESC_SIZE psi.buffer pointer) skip2
            (if PMT_ITEM_GET_PID psi.buffer pointer = pcr_pid then false else jp) _
            (item_close mod3 psi (PMT_ITEM_GET_PID psi.buffer pointer) skip skip2 ts_type2 lang)
            hr2
          simp only [h3]
          cases hd2 : pmt_items_data lib psi pcr_pid n
              (pointer + 5 + PMT_ITEM_DESC_SIZE psi.buffer pointer) skip2
              (if PMT_ITEM_GET_PID psi.buffer pointer = pcr_pid then false else jp)
              (item_close mod3 psi (PMT_ITEM_GET_PID psi.buffer pointer) skip skip2 ts_type2
                lang) with
          | none => exact ⟨rfl, fun r h => by cases h⟩
          | some y =>
            refine ⟨?_, ?_⟩
            · simp only [Option.map_some', after_joins, List.foldl_cons, List.foldl_append]
            · intro r h q hq
              simp only [Option.map_some', Option.some.injEq] at h
              subst h
              rcases List.mem_cons.mp hq with hq | hq
              · rw [hq]; exact hlt
              · rcases List.mem_append.mp hq with hq | hq
                · exact hjl q hq
                · exact h4 y hd2 q hq

/-! ## Channel: what the PMT loops keep -/

theorem pmtStep_refl (P : Nat → Prop) (mod : module_data_t) : PmtStep P mod mod [] :=
  ⟨rfl, rfl, rfl, ⟨rfl, rfl⟩, rfl, id, fun _ _ => rfl, fun _ _ => rfl,
    fun _ h => (by cases h), fun _ _ h => h, fun _ h => h⟩

theorem PmtStep.trans {P : Nat → Prop} {a b c : module_data_t} {j1 j2 : List Nat}
    (h1 : PmtStep P a b j1) (h2 : PmtStep P b c j2) : PmtStep P a c (j1 ++ j2) := by
  refine ⟨h2.config.trans h1.config, h2.pmt.trans h1.pmt, h2.out_eq.trans h1.out_eq,
    ⟨h2.custom.1.trans h1.custom.1, h2.custom.2.trans h1.custom.2⟩,
    h2.map_some.trans h1.map_some, fun h => h2.map_ok (h1.map_ok h), ?_, ?_, ?_, ?_,
    fun q h => h2.pes q (h1.pes q h)⟩
  · intro q hq; rw [h2.marker q hq, h1.marker q hq]
  · intro q hq; rw [h2.kind q hq, h1.kind q hq]
  · intro q hq
    rcases List.mem_append.mp hq with h | h
    · exact h1.fresh q h
    · exact h2.fresh q h
  · intro hm q hq; exact h2.nf (h1.map_ok hm) q (h1.nf hm q hq)

theorem pmtStep_ca (P : Nat → Prop) (mod : module_data_t) (buf : Nat → Nat) (desc : Nat)
    (hp : ¬ P (DESC_CA_PID buf desc)) :
    PmtStep P mod (ca_data mod buf desc).1 (ca_data mod buf desc).2 := by
  unfold ca_data
  by_cases hc : mod.stream (DESC_CA_PID buf desc) = .UNKNOWN ∧ DESC_CA_PID buf desc ≠ TS_NULL_PID
  · simp only [hc, and_self, if_true, ne_eq, not_false_eq_true]
    have hne : ∀ q, P q → q ≠ DESC_CA_PID buf desc := fun q hq h => hp (h ▸ hq)
    unfold ca_mark
    by_cases hf : mod.pid_map (DESC_CA_PID buf desc) = TS_MAX_PIDS
    · simp only [hf, if_true]
      refine ⟨rfl, rfl, rfl, ⟨rfl, rfl⟩, rfl, id, ?_, ?_, ?_, ?_, ?_⟩
      · intro q hq; exact Function.update_noteq (hne q hq) _ _
      · intro q hq; exact Function.update_noteq (hne q hq) _ _
      · intro q hq; rw [List.mem_singleton.mp hq]; exact hp
      · intro _ q hq
        by_cases h : q = DESC_CA_PID buf desc
        · subst h; simp [TS_MAX_PIDS]
        · simp only [Function.update_noteq h]; exact hq
      · intro q hq
        by_cases h : q = DESC_CA_PID buf desc
        · subst h; rw [hc.1] at hq; cases hq
        · simp only [Function.update_noteq h]; exact hq
    · simp only [hf, if_false]
      refine ⟨rfl, rfl, rfl, ⟨rfl, rfl⟩, rfl, id, fun _ _ => rfl, ?_, ?_, fun _ _ h => h, ?_⟩
      · intro q hq; exact Function.update_noteq (hne q hq) _ _
      · intro q hq; rw [List.mem_singleton.mp hq]; exact hp
      · intro q hq
        by_cases h : q = DESC_CA_PID buf desc
        · subst h; rw [hc.1] at hq; cases hq
        · simp only [Function.update_noteq h]; exact hq
  · simp only [hc, if_false]
    exact pmtStep_refl P mod

theorem pmtStep_copy (P : Nat → Prop) (mod : module_data_t) (psi : ts_psi_t) (desc skip : Nat) :
    PmtStep P mod (desc_copy mod psi desc skip) [] :=
  ⟨rfl, rfl, rfl, ⟨rfl, rfl⟩, rfl, id, fun _ _ => rfl, fun _ _ => rfl,
    fun _ h => (by cases h), fun _ _ h => h, fun _ h => h⟩

theorem pmtStep_head (P : Nat → Prop) (mod : module_data_t) (psi : ts_psi_t)
    (pointer skip : Nat) (hp : ¬ P (PMT_ITEM_GET_PID psi.buffer pointer)) :
    PmtStep P mod (item_head mod psi pointer skip) [PMT_ITEM_GET_PID psi.buffer pointer] := by
  have hne : ∀ q, P q → q ≠ PMT_ITEM_GET_PID psi.buffer pointer := fun q hq h => hp (h ▸ hq)
  refine ⟨rfl, rfl, rfl, ⟨rfl, rfl⟩, rfl, id, fun _ _ => rfl, ?_, ?_, fun _ _ h => h, ?_⟩
  · intro q hq; exact Function.update_noteq (hne q hq) _ _
  · intro q hq; rw [List.mem_singleton.mp hq]; exact hp
  · intro q hq
    by_cases h : q = PMT_ITEM_GET_PID psi.buffer pointer
    · subst h; simp [item_head]
    · simp only [item_head, Function.update_noteq h]; exact hq

theorem map_take_mem (pid : Nat) (type : List Nat) :
    ∀ (l l1 : List map_item_t) (c : Nat), map_take l pid type = some (l1, c) →
      ∀ x ∈ l1, ∃ y ∈ l, y.custom_pid = x.custom_pid := by
  intro l
  induction l with
  | nil => intro l1 c h; simp [map_take] at h
  | cons item rest ih =>
    intro l1 c h x hx
    unfold map_take at h
    split at h
    · simp only [Option.some.injEq, Prod.mk.injEq] at h
      rw [← h.1] at hx
      rcases List.mem_cons.mp hx with hx | hx
      · exact ⟨item, List.mem_cons_self _ _, by rw [hx]⟩
      · exact ⟨x, List.mem_cons_of_mem _ hx, rfl⟩
    · cases hr : map_take rest pid type with
      | none => simp [hr] at h
      | some r =>
        simp only [hr, Option.map_some', Option.some.injEq, Prod.mk.injEq] at h
        rw [← h.1] at hx
        rcases List.mem_cons.mp hx with hx | hx
        · exact ⟨item, List.mem_cons_self _ _, by rw [hx]⟩
        · obtain ⟨y, hy, hc⟩ := ih r.1 r.2 (by rw [hr]) x hx
          exact ⟨y, List.mem_cons_of_mem _ hy, hc⟩

theorem pmtStep_map (P : Nat → Prop) (mod : module_data_t) (pid : Nat) (type : List Nat)
    (hp : ¬ P pid) : PmtStep P mod (map_custom_pid mod pid type).1 [] := by
  unfold map_custom_pid
  split
  · exact pmtStep_refl P mod
  · rename_i l hm
    split
    · exact pmtStep_refl P mod
    · rename_i l1 c ht
      have hne : ∀ q, P q → q ≠ pid := fun q hq h => hp (h ▸ hq)
      refine ⟨rfl, rfl, rfl, ⟨rfl, rfl⟩, by simp [hm], ?_, ?_, fun _ _ => rfl,
        fun _ h => (by cases h), ?_, fun _ h => h⟩
      · intro hok l' hl' x hx
        simp only [Option.some.injEq] at hl'
        subst hl'
        obtain ⟨y, hy, hc⟩ := map_take_mem pid type l l1 c ht x hx
        rw [← hc]
        exact hok l hm y hy
      · intro q hq; exact Function.update_noteq (hne q hq) _ _
      · intro hok q hq
        by_cases h : q = pid
        · subst h
          obtain ⟨y, hy, hc⟩ := map_take_pid q type l l1 c ht
          have := hok l hm y hy
          simp only [Function.update_same]
          rw [← hc]
          exact Nat.ne_of_lt this
        · simp only [Function.update_noteq h]; exact hq

theorem pmtStep_item_map (P : Nat → Prop) (mod : module_data_t) (psi : ts_psi_t) (pid : Nat)
    (ts_type : ts_type_t) (lang : Option Nat) (hp : ¬ P pid) :
    PmtStep P mod (pmt_item_map mod psi pid ts_type lang).1 [] := by
  have haudio : ∀ (r : module_data_t × Nat), PmtStep P mod r.1 [] →
      PmtStep P mod (if r.2 = 0 then map_custom_pid r.1 pid str_audio else r).1 [] := by
    intro r hr
    by_cases h : r.2 = 0
    · simp only [h, if_true]
      exact hr.trans (pmtStep_map P r.1 pid str_audio hp)
    · simp only [h, if_false]
      exact hr
  unfold pmt_item_map
  cases ts_type
  case AUDIO =>
    cases lang with
    | none => exact haudio (mod, 0) (pmtStep_refl P mod)
    | some d => exact haudio _ (pmtStep_map P mod pid _ hp)
  all_goals exact pmtStep_map P mod pid _ hp

theorem pmtStep_close (P : Nat → Prop) (mod : module_data_t) (psi : ts_psi_t)
    (pid skip_last skip : Nat) (ts_type : ts_type_t) (lang : Option Nat) (hp : ¬ P pid) :
    PmtStep P mod (item_close mod psi pid skip_last skip ts_type lang) [] := by
  have hbuf : ∀ (b : Nat → Nat), PmtStep P mod
      { mod with custom_pmt := { mod.custom_pmt with buffer := b } } [] := fun b =>
    ⟨rfl, rfl, rfl, ⟨rfl, rfl⟩, rfl, id, fun _ _ => rfl, fun _ _ => rfl,
      fun _ h => (by cases h), fun _ _ h => h, fun _ h => h⟩
  have hset : ∀ (m : module_data_t) (o c : Nat), PmtStep P m
      { m with custom_pmt := PMT_ITEM_SET_PID m.custom_pmt o c } [] := fun m o c =>
    ⟨rfl, rfl, rfl, ⟨rfl, rfl⟩, rfl, id, fun _ _ => rfl, fun _ _ => rfl,
      fun _ h => (by cases h), fun _ _ h => h, fun _ h => h⟩
  unfold item_close
  simp only []
  split
  · split
    · exact ((hbuf _).trans (pmtStep_item_map P _ psi pid ts_type lang hp)).trans (hset _ _ _)
    · exact (hbuf _).trans (pmtStep_item_map P _ psi pid ts_type lang hp)
  · exact hbuf _

theorem mem_ca_pids_at (buf : Nat → Nat) (descs : List Nat) (x : Nat) (hx : x ∈ descs)
    (h9 : buf x = 0x09) : DESC_CA_PID buf x ∈ ca_pids_at buf descs :=
  List.mem_map.mpr ⟨x, List.mem_filter.mpr ⟨hx, by simp [h9]⟩, rfl⟩

theorem pmt_desc_data_step (P : Nat → Prop) (psi : ts_psi_t) :
    ∀ (n desc skip : Nat) (mod : module_data_t) (r : module_data_t × Nat × List Nat),
      pmt_desc_data psi n desc skip mod = some r →
      (mod.config.cas = false ∨ ∀ q ∈ ca_pids_at psi.buffer
        (desc_positions psi.buffer (12 + PMT_DESC_SIZE psi) n desc), ¬ P q) →
      PmtStep P mod r.1 r.2.2 := by
  intro n
  induction n with
  | zero => intro desc skip mod r h; cases h
  | succ n ih =>
    intro desc skip mod r h hca
    unfold pmt_desc_data at h
    by_cases hend : 12 + PMT_DESC_SIZE psi ≤ desc
    · simp only [hend, if_true, Option.some.injEq] at h
      subst h
      exact pmtStep_refl P mod
    · simp only [hend, if_false] at h
      have hpos : desc_positions psi.buffer (12 + PMT_DESC_SIZE psi) (n + 1) desc =
          desc :: desc_positions psi.buffer (12 + PMT_DESC_SIZE psi) n
            (desc + 2 + psi.buffer (desc + 1)) := by
        simp only [desc_positions, hend, if_false]
      have hca' : ∀ m : module_data_t, m.config = mod.config →
          (m.config.cas = false ∨ ∀ q ∈ ca_pids_at psi.buffer
            (desc_positions psi.buffer (12 + PMT_DESC_SIZE psi) n
              (desc + 2 + psi.buffer (desc + 1))), ¬ P q) := by
        intro m hm
        rcases hca with hc | hc
        · left; rw [hm]; exact hc
        · right
          intro q hq
          apply hc q
          rw [hpos]
          unfold ca_pids_at at hq ⊢
          obtain ⟨x, hx, rfl⟩ := List.mem_map.mp hq
          obtain ⟨hx1, hx2⟩ := List.mem_filter.mp hx
          exact List.mem_map.mpr ⟨x, List.mem_filter.mpr ⟨List.mem_cons_of_mem _ hx1, hx2⟩, rfl⟩
      by_cases hskip : psi.buffer desc = 0x09 ∧ mod.config.cas = false
      · simp only [hskip, and_self, if_true] at h
        exact ih _ _ mod r h (hca' mod rfl)
      · simp only [hskip, if_false] at h
        by_cases h9 : psi.buffer desc = 0x09
        · have hcas : ¬ mod.config.cas = false := fun hc => hskip ⟨h9, hc⟩
          have hp : ¬ P (DESC_CA_PID psi.buffer desc) := by
            rcases hca with hc | hc
            · exact absurd hc hcas
            · exact hc _ (by rw [hpos]; exact mem_ca_pids_at _ _ desc (List.mem_cons_self _ _) h9)
          have s1 := pmtStep_ca P mod psi.buffer desc hp
          have s2 := s1.trans (pmtStep_copy P (ca_data mod psi.buffer desc).1 psi desc skip)
          simp only [h9, if_true] at h
          cases hd : pmt_desc_data psi n (desc + 2 + psi.buffer (desc + 1))
              ((skip + (psi.buffer (desc + 1) + 2) % 256) % 65536)
              (desc_copy (ca_data mod psi.buffer desc).1 psi desc skip) with
          | none => simp [hd] at h
          | some x =>
            simp only [hd, Option.map_some', Option.some.injEq] at h
            subst h
            have s3 := ih _ _ _ x hd (hca' _ s2.config)
            have := s2.trans s3
            simpa using this
        · have s2 := pmtStep_copy P mod psi desc skip
          simp only [h9, if_false] at h
          cases hd : pmt_desc_data psi n (desc + 2 + psi.buffer (desc + 1))
              ((skip + (psi.buffer (desc + 1) + 2) % 256) % 65536)
              (desc_copy mod psi desc skip) with
          | none => simp [hd] at h
          | some x =>
            simp only [hd, Option.map_some', Option.some.injEq] at h
            subst h
            have s3 := ih _ _ _ x hd (hca' _ s2.config)
            have := s2.trans s3
            simpa using this

theorem ca_pids_at_tail (buf : Nat → Nat) (x : Nat) (l : List Nat) (q : Nat)
    (hq : q ∈ ca_pids_at buf l) : q ∈ ca_pids_at buf (x :: l) := by
  unfold ca_pids_at at hq ⊢
  obtain ⟨y, hy, rfl⟩ := List.mem_map.mp hq
  obtain ⟨hy1, hy2⟩ := List.mem_filter.mp hy
  exact List.mem_map.mpr ⟨y, List.mem_filter.mpr ⟨List.mem_cons_of_mem _ hy1, hy2⟩, rfl⟩

theorem pmt_item_desc_data_step (P : Nat → Prop) (lib : mpegts_lib) (psi : ts_psi_t)
    (pointer item_type : Nat) :
    ∀ (n desc skip : Nat) (ts_type : ts_type_t) (lang : Option Nat) (mod : module_data_t)
      (r : module_data_t × Nat × ts_type_t × Option Nat × List Nat),
      pmt_item_desc_data lib psi pointer item_type n desc skip ts_type lang mod = some r →
      (mod.config.cas = false ∨ ∀ q ∈ ca_pids_at psi.buffer
        (desc_positions psi.buffer (pointer + 5 + PMT_ITEM_DESC_SIZE psi.buffer pointer) n desc),
        ¬ P q) →
      PmtStep P mod r.1 r.2.2.2.2 := by
  intro n
  induction n with
  | zero => intro desc skip ts_type lang mod r h; cases h
  | succ n ih =>
    intro desc skip ts_type lang mod r h hca
    unfold pmt_item_desc_data at h
    by_cases hend : pointer + 5 + PMT_ITEM_DESC_SIZE psi.buffer pointer ≤ desc
    · simp only [hend, if_true, Option.some.injEq] at h
      subst h
      exact pmtStep_refl P mod
    · simp only [hend, if_false] at h
      have hpos : desc_positions psi.buffer (pointer + 5 + PMT_ITEM_DESC_SIZE psi.buffer pointer)
          (n + 1) desc =
          desc :: desc_positions psi.buffer (pointer + 5 + PMT_ITEM_DESC_SIZE psi.buffer pointer)
            n (desc + 2 + psi.buffer (desc + 1)) := by
        simp only [desc_positions, hend, if_false]
      have hca' : ∀ m : module_data_t, m.config = mod.config →
          (m.config.cas = false ∨ ∀ q ∈ ca_pids_at psi.buffer
            (desc_positions psi.buffer (pointer + 5 + PMT_ITEM_DESC_SIZE psi.buffer pointer) n
              (desc + 2 + psi.buffer (desc + 1))), ¬ P q) := by
        intro m hm
        rcases hca with hc | hc
        · left; rw [hm]; exact hc
        · right
          intro q hq
          apply hc q
          rw [hpos]
          exact ca_pids_at_tail _ _ _ q hq
      by_cases hskip : psi.buffer desc = 0x09 ∧ mod.config.cas = false
      · simp only [hskip, and_self, if_true] at h
        exact ih _ _ _ _ mod r h (hca' mod rfl)
      · simp only [hskip, if_false] at h
        by_cases h9 : psi.buffer desc = 0x09
        · have hcas : ¬ mod.config.cas = false := fun hc => hskip ⟨h9, hc⟩
          have hp : ¬ P (DESC_CA_PID psi.buffer desc) := by
            rcases hca with hc | hc
            · exact absurd hc hcas
            · exact hc _ (by rw [hpos]; exact mem_ca_pids_at _ _ desc (List.mem_cons_self _ _) h9)
          have s1 := pmtStep_ca P mod psi.buffer desc hp
          have s2 := s1.trans (pmtStep_copy P (ca_data mod psi.buffer desc).1 psi desc skip)
          simp only [h9, if_true] at h
          cases hd : pmt_item_desc_data lib psi pointer item_type n
              (desc + 2 + psi.buffer (desc + 1))
              ((skip + (psi.buffer (desc + 1) + 2) % 256) % 65536)
              (if (9 : Nat) ≠ 9 ∧ (9 : Nat) ≠ 10 ∧ item_type = 6 ∧ ts_type = .DATA then
                lib.ts_priv_type 9 else ts_type)
              (if (9 : Nat) = 10 then some desc else lang)
              (desc_copy (ca_data mod psi.buffer desc).1 psi desc skip) with
          | none => rw [hd] at h; cases h
          | some x =>
            rw [hd] at h
            simp only [Option.map_some', Option.some.injEq] at h
            subst h
            have s3 := ih _ _ _ _ _ x hd (hca' _ s2.config)
            have := s2.trans s3
            simpa using this
        · have s2 := pmtStep_copy P mod psi desc skip
          simp only [h9, if_false] at h
          cases hd : pmt_item_desc_data lib psi pointer item_type n
              (desc + 2 + psi.buffer (desc + 1))
              ((skip + (psi.buffer (desc + 1) + 2) % 256) % 65536)
              (if psi.buffer desc ≠ 9 ∧ psi.buffer desc ≠ 10 ∧ item_type = 6 ∧ ts_type = .DATA then
                lib.ts_priv_type (psi.buffer desc) else ts_type)
              (if psi.buffer desc = 10 then some desc else lang)
              (desc_copy mod psi desc skip) with
          | none => rw [hd] at h; cases h
          | some x =>
            rw [hd] at h
            simp only [Option.map_some', Option.some.injEq] at h
            subst h
            have s3 := ih _ _ _ _ _ x hd (hca' _ s2.config)
            have := s2.trans s3
            simpa using this

theorem pmt_items_data_step (P : Nat → Prop) (lib : mpegts_lib) (psi : ts_psi_t)
    (pcr_pid : Nat) :
    ∀ (n pointer skip : Nat) (jp : Bool) (mod : module_data_t)
      (r : module_data_t × Nat × Bool × List Nat × List (Nat × Nat)),
      pmt_items_data lib psi pcr_pid n pointer skip jp mod = some r →
      (∀ q, P q → mod.pid_map q = TS_MAX_PIDS) →
      (mod.config.cas = false ∨ ∀ q ∈ (item_positions psi n pointer).flatMap
        (fun ptr => ca_pids_at psi.buffer (item_descs psi ptr)), ¬ P q) →
      PmtStep P mod r.1 r.2.2.2.1 ∧
      (∀ x ∈ r.2.2.2.2, ¬ P (PMT_ITEM_GET_PID psi.buffer x.1)) ∧
      (∀ x ∈ r.2.2.2.2, PMT_ITEM_GET_PID psi.buffer x.1 ∈ r.2.2.2.1) ∧
      (MapOk mod → (∀ q, mod.pid_map q = TS_MAX_PIDS → P q) →
        r.2.2.2.2.map Prod.fst = (item_positions psi n pointer).filter
          (fun ptr => decide (mod.pid_map (PMT_ITEM_GET_PID psi.buffer ptr) ≠ TS_MAX_PIDS))) := by
  intro n
  induction n with
  | zero => intro pointer skip jp mod r h; cases h
  | succ n ih =>
    intro pointer skip jp mod r h hP hca
    unfold pmt_items_data at h
    by_cases hend : psi.buffer_size - CRC32_SIZE ≤ pointer
    · simp only [hend, if_true, Option.some.injEq] at h
      subst h
      exact ⟨pmtStep_refl P mod, fun x hx => (by cases hx), fun x hx => (by cases hx),
        fun _ _ => by simp [item_positions, hend]⟩
    · simp only [hend, if_false] at h
      have hpos : item_positions psi (n + 1) pointer =
          pointer :: item_positions psi n (pointer + 5 + PMT_ITEM_DESC_SIZE psi.buffer pointer) := by
        simp only [item_positions, hend, if_false]
      have hca' : ∀ m : module_data_t, m.config = mod.config →
          (m.config.cas = false ∨ ∀ q ∈ (item_positions psi n
            (pointer + 5 + PMT_ITEM_DESC_SIZE psi.buffer pointer)).flatMap
            (fun ptr => ca_pids_at psi.buffer (item_descs psi ptr)), ¬ P q) := by
        intro m hm
        rcases hca with hc | hc
        · left; rw [hm]; exact hc
        · right
          intro q hq
          apply hc q
          rw [hpos, List.flatMap_cons]
          exact List.mem_append_right _ hq
      by_cases hf : mod.pid_map (PMT_ITEM_GET_PID psi.buffer pointer) = TS_MAX_PIDS
      · simp only [hf, if_true] at h
        obtain ⟨a1, a2, a3, a4⟩ := ih _ _ _ mod r h hP (hca' mod rfl)
        refine ⟨a1, a2, a3, fun hok hall => ?_⟩
        rw [a4 hok hall, hpos, List.filter_cons_of_neg (by simp [hf])]
      · simp only [hf, if_false] at h
        have hp : ¬ P (PMT_ITEM_GET_PID psi.buffer pointer) := fun hq => hf (hP _ hq)
        have s1 := pmtStep_head P mod psi pointer skip hp
        cases hd : pmt_item_desc_data lib psi pointer (psi.buffer pointer)
            (PMT_ITEM_DESC_SIZE psi.buffer pointer + 1) (pointer + 5) ((skip + 5) % 65536)
            (lib.ts_stream_type (psi.buffer pointer)) none (item_head mod psi pointer skip) with
        | none => rw [hd] at h; cases h
        | some x =>
          obtain ⟨mod3, skip2, ts_type2, lang, joins⟩ := x
          rw [hd] at h
          simp only [] at h
          have hcad : (item_head mod psi pointer skip).config.cas = false ∨
              ∀ q ∈ ca_pids_at psi.buffer (desc_positions psi.buffer
                (pointer + 5 + PMT_ITEM_DESC_SIZE psi.buffer pointer)
                (PMT_ITEM_DESC_SIZE psi.buffer pointer + 1) (pointer + 5)), ¬ P q := by
            rcases hca with hc | hc
            · left; exact hc
            · right
              intro q hq
              apply hc q
              rw [hpos, List.flatMap_cons]
              exact List.mem_append_left _ hq
          have s2 := pmt_item_desc_data_step P lib psi pointer (psi.buffer pointer) _ _ _ _ _ _ _
            hd hcad
          have s3 := pmtStep_close P mod3 psi (PMT_ITEM_GET_PID psi.buffer pointer) skip skip2
            ts_type2 lang hp
          have s123 := (s1.trans s2).trans s3
          cases hd2 : pmt_items_data lib psi pcr_pid n
              (pointer + 5 + PMT_ITEM_DESC_SIZE psi.buffer pointer) skip2
              (if PMT_ITEM_GET_PID psi.buffer pointer = pcr_pid then false else jp)
              (item_close mod3 psi (PMT_ITEM_GET_PID psi.buffer pointer) skip skip2 ts_type2
                lang) with
          | none => rw [hd2] at h; cases h
          | some y =>
            rw [hd2] at h
            simp only [Option.map_some', Option.some.injEq] at h
            subst h
            have hP' : ∀ q, P q → (item_close mod3 psi (PMT_ITEM_GET_PID psi.buffer pointer) skip
                skip2 ts_type2 lang).pid_map q = TS_MAX_PIDS := by
              intro q hq
              rw [s123.marker q hq]
              exact hP q hq
            obtain ⟨s4, c4, j4, f4⟩ := ih _ _ _ _ y hd2 hP' (hca' _ s123.config)
            refine ⟨?_, ?_, ?_, ?_⟩
            · have := s123.trans s4
              simpa using this
            · intro x hx
              rcases List.mem_cons.mp hx with hx | hx
              · rw [hx]; exact hp
              · exact c4 x hx
            · intro x hx
              rcases List.mem_cons.mp hx with hx | hx
              · rw [hx]; exact List.mem_cons_self _ _
              · exact List.mem_cons_of_mem _ (List.mem_append_right _ (j4 x hx))
            · intro hok hall
              have hall' : ∀ q, (item_close mod3 psi (PMT_ITEM_GET_PID psi.buffer pointer) skip
                  skip2 ts_type2 lang).pid_map q = TS_MAX_PIDS → P q := by
                intro q hq
                apply hall q
                by_contra hne
                exact s123.nf hok q hne hq
              rw [hpos, List.filter_cons_of_pos (by simp [hf]), List.map_cons,
                f4 (s123.map_ok hok) hall']
              congr 1
              apply List.filter_congr
              intro ptr _
              by_cases hq : mod.pid_map (PMT_ITEM_GET_PID psi.buffer ptr) = TS_MAX_PIDS
              · have := hP' _ (hall _ hq)
                simp [hq, this]
              · have := s123.nf hok _ hq
                simp [hq, this]

/-! ## Channel: `map_custom_pid` -/

theorem map_index_spec (pid : Nat) (type : List Nat) :
    ∀ l : List map_item_t,
      (map_index l pid type = none ∧ map_take l pid type = none) ∨
      ∃ i item, map_index l pid type = some i ∧ l[i]? = some item ∧ item.is_set = false ∧
        map_take l pid type = some (l.set i { item with is_set := true }, item.custom_pid) := by
  intro l
  induction l with
  | nil => exact Or.inl ⟨rfl, rfl⟩
  | cons x rest ih =>
    by_cases hx : x.is_set = false ∧ ((x.origin_pid ≠ 0 ∧ x.origin_pid = pid) ∨ x.type = type)
    · refine Or.inr ⟨0, x, ?_, by simp, hx.1, ?_⟩
      · rw [map_index, if_pos hx]
      · rw [map_take, if_pos hx]
        rfl
    · rcases ih with ⟨h1, h2⟩ | ⟨i, item, h1, h2, h3, h4⟩
      · refine Or.inl ⟨?_, ?_⟩
        · rw [map_index, if_neg hx, h1]; rfl
        · rw [map_take, if_neg hx, h2]; rfl
      · refine Or.inr ⟨i + 1, item, ?_, ?_, h3, ?_⟩
        · rw [map_index, if_neg hx, h1]; rfl
        · simpa using h2
        · rw [map_take, if_neg hx, h4]
          rfl

theorem map_binds_fresh :
    ∀ (calls : List (Nat × List Nat)) (mod : module_data_t),
      ((map_binds mod calls).map Prod.fst).Nodup ∧
      ∀ i ∈ (map_binds mod calls).map Prod.fst,
        ∃ item, (mod.map.getD [])[i]? = some item ∧ item.is_set = false := by
  intro calls
  induction calls with
  | nil => intro mod; exact ⟨List.nodup_nil, fun i hi => by cases hi⟩
  | cons call rest ih =>
    intro mod
    obtain ⟨ihn, ihf⟩ := ih (map_custom_pid mod call.1 call.2).1
    cases hm : mod.map with
    | none =>
      have hidx : map_index (mod.map.getD []) call.1 call.2 = none := by
        rw [hm]; rfl
      have hcall : (map_custom_pid mod call.1 call.2).1 = mod := by
        unfold map_custom_pid
        rw [hm]
      rw [map_binds, hidx]
      simp only []
      rw [hcall] at ihn ihf ⊢
      refine ⟨ihn, fun i hi => ?_⟩
      have := ihf i hi
      rw [hm] at this
      exact this
    | some l =>
      have hget : mod.map.getD [] = l := by rw [hm]; rfl
      rcases map_index_spec call.1 call.2 l with ⟨h1, h2⟩ | ⟨i, item, h1, h2, h3, h4⟩
      · have hcall : (map_custom_pid mod call.1 call.2).1 = mod := by
          unfold map_custom_pid
          rw [hm]
          simp only [h2]
        rw [map_binds, hget, h1]
        simp only []
        rw [hcall] at ihn ihf ⊢
        refine ⟨ihn, fun j hj => ?_⟩
        have := ihf j hj
        rw [hget] at this
        exact this
      · have hcall : (map_custom_pid mod call.1 call.2).1.map =
            some (l.set i { item with is_set := true }) := by
          unfold map_custom_pid
          rw [hm]
          simp only [h4]
        have hget1 : (map_custom_pid mod call.1 call.2).1.map.getD [] =
            l.set i { item with is_set := true } := by rw [hcall]; rfl
        rw [map_binds, hget, h1]
        simp only [List.map_cons, List.nodup_cons, List.mem_cons]
        rw [hget1] at ihf
        have hlt : i < l.length := by
          rcases Nat.lt_or_ge i l.length with h | h
          · exact h
          · rw [List.getElem?_eq_none h] at h2; cases h2
        refine ⟨⟨fun hi => ?_, ihn⟩, fun j hj => ?_⟩
        · obtain ⟨it, hit, hset⟩ := ihf i hi
          rw [List.getElem?_set_self hlt] at hit
          cases hit
          cases hset
        · rcases hj with rfl | hj
          · exact ⟨item, h2, h3⟩
          · obtain ⟨it, hit, hset⟩ := ihf j hj
            by_cases hij : i = j
            · subst hij
              rw [List.getElem?_set_self hlt] at hit
              cases hit
              cases hset
            · rw [List.getElem?_set_ne hij] at hit
              exact ⟨it, hit, hset⟩

/-- Claim C23: `map_custom_pid(pid, selector)` takes the first rule in list
order that is not consumed and matches (by a non-zero origin PID equal to
`pid`, or by its selector): it returns the custom PID of that rule, marks
exactly that rule consumed and sets `pid_map[pid]`, and writes nothing else;
when no such rule exists it returns 0 and changes nothing.  Consequently, in
a run of calls without a reload, no rule is taken twice: each rule binds at
most one input PID. -/
theorem map_custom_pid_first_match (mod : module_data_t) (l : List map_item_t)
    (pid : Nat) (type : List Nat) (hmap : mod.map = some l) :
    (∀ pre item post, l = pre ++ item :: post → (∀ x ∈ pre, ¬ map_matches x pid type) →
        map_matches item pid type →
        map_custom_pid mod pid type =
          ({ mod with map := some (pre ++ { item with is_set := true } :: post),
                      pid_map := Function.update mod.pid_map pid item.custom_pid },
            item.custom_pid)) ∧
      ((∀ x ∈ l, ¬ map_matches x pid type) → map_custom_pid mod pid type = (mod, 0)) ∧
      ∀ calls : List (Nat × List Nat), ((map_binds mod calls).map Prod.fst).Nodup := by
  refine ⟨fun pre item post hl hpre hitem => ?_, fun hnone => ?_, fun calls => ?_⟩
  · unfold map_custom_pid
    rw [hmap]
    simp only [hl, map_take_some pid type item post hitem pre hpre]
  · unfold map_custom_pid
    rw [hmap]
    simp only [map_take_none pid type l hnone]
  · exact (map_binds_fresh calls mod).1

/-- Witness for C23: with the rules `video` and `0x102`, the audio PID `0x102`
takes the second rule. -/
theorem map_custom_pid_first_match_witness :
    map_custom_pid { chan_mod with map := some map_demo } 0x102 str_audio =
        ({ chan_mod with
            map := some ([map_demo.get ⟨0, by decide⟩] ++
              { map_demo.get ⟨1, by decide⟩ with is_set := true } :: []),
            pid_map := Function.update chan_mod.pid_map 0x102 0x201 }, 0x201) :=
  (map_custom_pid_first_match { chan_mod with map := some map_demo } map_demo 0x102 str_audio
    rfl).1 [map_demo.get ⟨0, by decide⟩] (map_demo.get ⟨1, by decide⟩) [] rfl
    (by
      intro x hx
      simp only [List.mem_singleton] at hx
      subst hx
      unfold map_matches
      decide)
    (by unfold map_matches; decide)

/-! ## Channel: a PAT that has not changed -/

/-- Claim C29: a PAT section (table id 0) whose CRC equals the latched PAT CRC
makes `on_pat` return with the channel record unchanged except for the
re-emission of the cached custom PAT (one section event in the trace, and the
continuity counter that the packetiser leaves in the custom PAT): stream
types, PID subscriptions, `pid_map`, TSID, map rules, `pat_version` and the
bytes of the custom PAT are all the same, and so are the modules of the
tree. -/
theorem on_pat_same_crc_reemits {d : Nat → Nat} {fuel : Nat} {s : State} {self : Nat}
    (hr : Ready d fuel s self) (lib : mpegts_lib) (mod : module_data_t)
    (htab : mod.pat.buffer 0 = 0x00) (hcrc : PSI_GET_CRC32 mod.pat = mod.pat.crc32) :
    ∃ s' mod', on_pat lib fuel s self mod = .ok (s', mod') ∧
      mod' = { mod with
        custom_pat := { mod.custom_pat with cc := lib.demux_cc mod.custom_pat },
        out := mod.out ++ [.psi mod.custom_pat.pid mod.custom_pat.cc
          ((List.range mod.custom_pat.buffer_size).map mod.custom_pat.buffer)] } ∧
      mod'.stream = mod.stream ∧ mod'.pid_map = mod.pid_map ∧ mod'.tsid = mod.tsid ∧
      mod'.map = mod.map ∧ mod'.pat_version = mod.pat_version ∧ mod'.pat = mod.pat ∧
      mod'.custom_pat.buffer = mod.custom_pat.buffer ∧
      mod'.custom_pat.buffer_size = mod.custom_pat.buffer_size ∧
      s'.stream = s.stream ∧ pid_refs s' self = pid_refs s self := by
  refine ⟨after_demux lib s self mod.custom_pat, _, ?_, rfl, rfl, rfl, rfl, rfl, rfl, rfl, rfl,
    rfl, after_demux_stream hr lib _, after_demux_refs hr lib _⟩
  unfold on_pat
  simp only [htab, ne_eq, not_true_eq_false, if_false, hcrc, if_true,
    psi_demux_eq hr lib mod.custom_pat mod.out]

/-- Witness for C29: the PAT of the example arrives a second time. -/
theorem on_pat_same_crc_reemits_witness :
    ∃ s' mod', on_pat demo_lib 4 (chan_tree_refs refs_init) 1 chan_mod_pat_again =
        .ok (s', mod') ∧
      mod'.stream = chan_mod_pat_again.stream ∧
      pid_refs s' 1 = pid_refs (chan_tree_refs refs_init) 1 := by
  obtain ⟨s', mod', h1, _, h3, _, _, _, _, _, _, _, _, h12⟩ :=
    on_pat_same_crc_reemits (chan_tree_refs_ready refs_init refs_init_lt) demo_lib
      chan_mod_pat_again (by decide) (by decide)
  exact ⟨s', mod', h1, h3, h12⟩

/-! ## Channel: the EIT handler -/

theorem PSI_SET_CRC32_below (psi : ts_psi_t) (k : Nat) (hk : k < psi.buffer_size - CRC32_SIZE) :
    (PSI_SET_CRC32 psi).buffer k = psi.buffer k := by
  simp only [PSI_SET_CRC32]
  rw [Function.update_noteq (by omega), Function.update_noteq (by omega),
    Function.update_noteq (by omega), Function.update_noteq (by omega)]

/-- Claim C27: `on_eit` emits the section if and only if its table id is
`0x4E` or in `0x50..0x5F`, its TSID is the latched one and its service id is
`config.pnr`.  The section it emits has the PID and size of the inbound one,
the continuity counter `eit_cc`, and, when `set_pnr` is not 0, the service id
`set_pnr` (bytes 3 and 4; the other bytes before the CRC are kept); afterwards
`eit_cc` is the counter that the packetiser has left.  In every other case
the tree and the channel record (so `eit_cc` and the section) are returned
unchanged. -/
theorem on_eit_emits_iff_accepted {d : Nat → Nat} {fuel : Nat} {s : State} {self : Nat}
    (hr : Ready d fuel s self) (lib : mpegts_lib) (mod : module_data_t) :
    (eit_accepted mod →
      ∃ sec : ts_psi_t,
        on_eit lib s self mod =
          .ok (after_demux lib s self sec,
            { mod with
              eit := { sec with cc := lib.demux_cc sec },
              out := mod.out ++ [.psi mod.eit.pid mod.eit_cc
                ((List.range mod.eit.buffer_size).map sec.buffer)],
              eit_cc := lib.demux_cc sec }) ∧
        sec.pid = mod.eit.pid ∧ sec.cc = mod.eit_cc ∧
        sec.buffer_size = mod.eit.buffer_size ∧
        (mod.config.set_pnr = 0 → sec.buffer = mod.eit.buffer) ∧
        (mod.config.set_pnr ≠ 0 →
          (∀ k, k < mod.eit.buffer_size - CRC32_SIZE → k ≠ 3 → k ≠ 4 →
            sec.buffer k = mod.eit.buffer k) ∧
          (9 ≤ mod.eit.buffer_size → EIT_GET_PNR sec = mod.config.set_pnr % 65536))) ∧
    (¬ eit_accepted mod → on_eit lib s self mod = .ok (s, mod)) := by
  constructor
  · intro hacc
    obtain ⟨h1, h2, h3⟩ := hacc
    by_cases hset : mod.config.set_pnr = 0
    · refine ⟨{ mod.eit with cc := mod.eit_cc }, ?_, rfl, rfl, rfl, fun _ => rfl,
        fun h => absurd hset h⟩
      unfold on_eit
      simp only [h1, not_true_eq_false, if_false, h2, ne_eq, h3, hset,
        psi_demux_eq hr lib _ mod.out]
    · refine ⟨PSI_SET_CRC32 (EIT_SET_PNR { mod.eit with cc := mod.eit_cc } mod.config.set_pnr),
        ?_, rfl, rfl, rfl, fun h => absurd h hset, fun _ => ⟨fun k hk k3 k4 => ?_, fun h9 => ?_⟩⟩
      · unfold on_eit
        simp only [h1, not_true_eq_false, if_false, h2, ne_eq, h3, hset, if_true,
          psi_demux_eq hr lib _ mod.out]
        rfl
      · rw [PSI_SET_CRC32_below (EIT_SET_PNR { mod.eit with cc := mod.eit_cc } mod.config.set_pnr)
          k hk]
        simp only [EIT_SET_PNR]
        rw [Function.update_noteq k4, Function.update_noteq k3]
      · have hsz : (EIT_SET_PNR { mod.eit with cc := mod.eit_cc } mod.config.set_pnr).buffer_size
            = mod.eit.buffer_size := rfl
        unfold EIT_GET_PNR
        rw [PSI_SET_CRC32_below _ 3 (by rw [hsz]; simp only [CRC32_SIZE]; omega),
          PSI_SET_CRC32_below _ 4 (by rw [hsz]; simp only [CRC32_SIZE]; omega)]
        simp only [EIT_SET_PNR]
        rw [Function.update_noteq (by decide), Function.update_same, Function.update_same]
        exact u16_roundtrip _
  · intro hacc
    unfold eit_accepted at hacc
    unfold on_eit
    by_cases h1 : mod.eit.buffer 0 = 0x4E ∨ (0x50 ≤ mod.eit.buffer 0 ∧ mod.eit.buffer 0 ≤ 0x5F)
    · by_cases h2 : mod.tsid = EIT_GET_TSID mod.eit
      · have h3 : mod.config.pnr ≠ EIT_GET_PNR mod.eit := fun h => hacc ⟨h1, h2, h⟩
        simp only [h1, not_true_eq_false, if_false, h2, ne_eq, h3, not_false_eq_true, if_true]
      · simp only [h1, not_true_eq_false, if_false, ne_eq, h2, not_false_eq_true, if_true]
    · simp only [h1, not_false_eq_true, if_true]

/-- Witness for C27: the EIT of service 10 is emitted with the continuity
counter 5 and the service id 20. -/
theorem on_eit_emits_iff_accepted_witness :
    ∃ sec : ts_psi_t, ∃ s' mod', on_eit demo_lib (chan_tree_refs refs_init) 1 chan_mod_eit =
        .ok (s', mod') ∧
      mod'.out = [.psi 0x12 5 ((List.range 18).map sec.buffer)] ∧ EIT_GET_PNR sec = 20 := by
  obtain ⟨sec, h1, _, _, _, _, h6⟩ :=
    (on_eit_emits_iff_accepted (chan_tree_refs_ready refs_init refs_init_lt) demo_lib
      chan_mod_eit).1 ⟨Or.inl (by decide), by decide, by decide⟩
  exact ⟨sec, _, _, h1, rfl, (h6 (by decide)).2 (by decide)⟩

/-! ## Channel: the SDT handler -/

theorem sdt_items_loop_spec (psi : ts_psi_t) (pnr : Nat) :
    ∀ (n pointer : Nat), 0 < n → psi.buffer_size - CRC32_SIZE ≤ pointer + 5 * (n - 1) →
      ∃ p, sdt_items_loop psi pnr n pointer = .ok p ∧
        (((item_positions psi n pointer).find?
            (fun p => decide (SDT_ITEM_GET_SID psi p = pnr)) = some p ∧
            p < psi.buffer_size - CRC32_SIZE ∧ SDT_ITEM_GET_SID psi p = pnr) ∨
         ((item_positions psi n pointer).find?
            (fun p => decide (SDT_ITEM_GET_SID psi p = pnr)) = none ∧
            psi.buffer_size - CRC32_SIZE ≤ p)) := by
  intro n
  induction n with
  | zero => intro pointer h; exact absurd h (Nat.lt_irrefl 0)
  | succ m ih =>
    intro pointer _ hb
    by_cases hend : psi.buffer_size - CRC32_SIZE ≤ pointer
    · refine ⟨pointer, ?_, Or.inr ⟨?_, hend⟩⟩
      · rw [sdt_items_loop, if_pos hend]
      · rw [item_positions, if_pos hend]; rfl
    · by_cases hsid : SDT_ITEM_GET_SID psi pointer = pnr
      · refine ⟨pointer, ?_, Or.inl ⟨?_, by omega, hsid⟩⟩
        · rw [sdt_items_loop, if_neg hend, if_pos hsid]
        · rw [item_positions, if_neg hend, List.find?_cons_of_pos]
          exact decide_eq_true hsid
      · have hm : 0 < m := by
          rcases Nat.eq_zero_or_pos m with h | h
          · subst h; simp only [Nat.add_sub_cancel, Nat.mul_zero, Nat.add_zero] at hb
            exact absurd hb hend
          · exact h
        obtain ⟨p, hp, hcase⟩ := ih (pointer + 5 + PMT_ITEM_DESC_SIZE psi.buffer pointer) hm
          (by simp only [Nat.add_sub_cancel] at hb; omega)
        refine ⟨p, ?_, ?_⟩
        · rw [sdt_items_loop, if_neg hend, if_neg hsid, hp]
        · rw [item_positions, if_neg hend, List.find?_cons_of_neg]
          · exact hcase
          · simpa using hsid

theorem sdt_items_loop_found (psi : ts_psi_t) (pnr : Nat) :
    ∃ p, sdt_items_loop psi pnr (psi.buffer_size + 1) 11 = .ok p ∧
      ((sdt_found psi pnr = some p ∧ p < psi.buffer_size - CRC32_SIZE ∧
          SDT_ITEM_GET_SID psi p = pnr) ∨
       (sdt_found psi pnr = none ∧ psi.buffer_size - CRC32_SIZE ≤ p)) :=
  sdt_items_loop_spec psi pnr (psi.buffer_size + 1) 11 (Nat.succ_pos _)
    (by simp only [Nat.add_sub_cancel, CRC32_SIZE]; omega)

theorem sdt_base_list (mod : module_data_t) :
    (sdt_base mod).sdt_checksum_list = some (sdt_stored mod) := by
  unfold sdt_stored sdt_base
  cases h : mod.sdt_checksum_list with
  | none => rfl
  | some l => simp only [h, Option.getD_some]

/-- The handler `on_sdt` on a valid section, after the list of snapshots has
been made sure of: the four branches. -/
theorem on_sdt_valid_eq (lib : mpegts_lib) (fuel : Nat) (s : State) (self : Nat)
    (mod : module_data_t) (hv : sdt_valid mod) :
    on_sdt lib fuel s self mod =
      if (sdt_base mod).sdt_max_section_id < sdt_section mod then
        .ok (s, { sdt_base mod with out := mod.out ++
          [.log "SDT: section_number is greater then section_last_number"] })
      else if sdt_stored mod (sdt_section mod) = PSI_GET_CRC32 mod.sdt then
        if (sdt_base mod).sdt_original_section_id = sdt_section mod then
          match ts_psi_demux lib s self mod.custom_sdt mod.out with
          | .error e => .error e
          | .ok (s1, cs, out) => .ok (s1, { sdt_base mod with custom_sdt := cs, out := out })
        else .ok (s, sdt_base mod)
      else if sdt_stored mod (sdt_section mod) ≠ 0 then
        stream_reload fuel s self
          { sdt_base mod with out := mod.out ++ [.log "SDT changed. Reload stream info"] }
      else
        let psi := mod.sdt
        let mod2 := { sdt_base mod with
          sdt_checksum_list := some (Function.update (sdt_stored mod) (sdt_section mod)
            (PSI_GET_CRC32 mod.sdt)) }
        match sdt_items_loop psi mod.config.pnr (psi.buffer_size + 1) 11 with
        | .error e => .error e
        | .ok pointer =>
          if psi.buffer_size - CRC32_SIZE ≤ pointer then .ok (s, mod2)
          else
            let mod3 := { mod2 with sdt_original_section_id := sdt_section mod }
            let b0 := memcpy mod3.custom_sdt.buffer 0 psi.buffer 0 11
            let b1 := Function.update (Function.update b0 6 0) 7 0
            let item_length := (PMT_ITEM_DESC_SIZE psi.buffer pointer + 5) % 65536
            let b2 := memcpy b1 11 psi.buffer pointer item_length
            let section_length := (item_length + 8 + CRC32_SIZE) % 65536
            let cs0 := { mod3.custom_sdt with buffer := b2, buffer_size := 3 + section_length }
            let cs1 := if mod3.config.set_pnr ≠ 0 then
                SDT_ITEM_SET_SID cs0 11 mod3.config.set_pnr else cs0
            let cs2 := PSI_SET_CRC32 (PSI_SET_SIZE cs1)
            match ts_psi_demux lib s self cs2 mod3.out with
            | .error e => .error e
            | .ok (s1, cs3, out) =>
              let mod4 := { mod3 with custom_sdt := cs3, out := out }
              .ok (s1, if mod4.config.no_reload then
                  { mod4 with stream := Function.update mod4.stream psi.pid .UNKNOWN }
                else mod4) := by
  obtain ⟨h1, h2, h3⟩ := hv
  unfold on_sdt sdt_stored sdt_section sdt_base
  simp only [h1, ne_eq, not_true_eq_false, if_false, h2, h3]
  cases h : mod.sdt_checksum_list <;> rfl

/-- The branch of `on_sdt` for an unchanged section: a CRC-valid SDT section
`n` of the latched transport stream, within the recorded last section number,
whose CRC equals the snapshot stored for `n`, makes `on_sdt` re-emit the
cached custom SDT when `n` equals the field `sdt_original_section_id`, and do
nothing at all otherwise; in both cases nothing is reloaded and the channel
record is unchanged apart from the re-emission (trace and the continuity
counter of the custom SDT), and no module of the tree changes. -/
theorem on_sdt_unchanged_section {d : Nat → Nat} {fuel : Nat} {s : State} {self : Nat}
    (hr : Ready d fuel s self) (lib : mpegts_lib) (mod : module_data_t) (l : Nat → Nat)
    (hv : sdt_valid mod) (hl : mod.sdt_checksum_list = some l)
    (hn : sdt_section mod ≤ mod.sdt_max_section_id)
    (hcrc : l (sdt_section mod) = PSI_GET_CRC32 mod.sdt) :
    (mod.sdt_original_section_id = sdt_section mod →
      on_sdt lib fuel s self mod =
        .ok (after_demux lib s self mod.custom_sdt,
          { mod with
            custom_sdt := { mod.custom_sdt with cc := lib.demux_cc mod.custom_sdt },
            out := mod.out ++ [.psi mod.custom_sdt.pid mod.custom_sdt.cc
              ((List.range mod.custom_sdt.buffer_size).map mod.custom_sdt.buffer)] })) ∧
    (mod.sdt_original_section_id ≠ sdt_section mod → on_sdt lib fuel s self mod = .ok (s, mod)) ∧
    (after_demux lib s self mod.custom_sdt).stream = s.stream := by
  have hbase : sdt_base mod = mod := by unfold sdt_base; rw [hl]
  have hst : sdt_stored mod (sdt_section mod) = PSI_GET_CRC32 mod.sdt := by
    unfold sdt_stored; rw [hbase, hl]; exact hcrc
  refine ⟨fun ho => ?_, fun ho => ?_, after_demux_stream hr lib _⟩
  · rw [on_sdt_valid_eq lib fuel s self mod hv, hbase, if_neg (Nat.not_lt.mpr hn), if_pos hst,
      if_pos ho, psi_demux_eq hr lib mod.custom_sdt mod.out]
  · rw [on_sdt_valid_eq lib fuel s self mod hv, hbase, if_neg (Nat.not_lt.mpr hn), if_pos hst,
      if_neg ho]

theorem sdt_demo_valid : sdt_valid chan_mod_sdt_again :=
  ⟨by decide, by decide, by rw [PSI_CALC_CRC32, crc32b_eq_loop]; decide!⟩

/-- Section 0 of the example arrives again and the cached custom SDT is
re-emitted. -/
theorem on_sdt_unchanged_section_witness :
    on_sdt demo_lib 4 (chan_tree_refs refs_init) 1 chan_mod_sdt_again =
      .ok (after_demux demo_lib (chan_tree_refs refs_init) 1 chan_mod_sdt_again.custom_sdt,
        { chan_mod_sdt_again with
          custom_sdt := { chan_mod_sdt_again.custom_sdt with
            cc := demo_lib.demux_cc chan_mod_sdt_again.custom_sdt },
          out := chan_mod_sdt_again.out ++ [.psi chan_mod_sdt_again.custom_sdt.pid
            chan_mod_sdt_again.custom_sdt.cc
            ((List.range chan_mod_sdt_again.custom_sdt.buffer_size).map
              chan_mod_sdt_again.custom_sdt.buffer)] }) :=
  (on_sdt_unchanged_section (chan_tree_refs_ready refs_init refs_init_lt) demo_lib
    chan_mod_sdt_again _ sdt_demo_valid rfl (by decide) (by decide)).1 (by decide)

theorem sdt_base_frame (mod : module_data_t) :
    (sdt_base mod).config = mod.config ∧ (sdt_base mod).sdt = mod.sdt ∧
    (sdt_base mod).custom_sdt = mod.custom_sdt ∧ (sdt_base mod).out = mod.out ∧
    (sdt_base mod).stream = mod.stream ∧ (sdt_base mod).pat = mod.pat ∧
    (sdt_base mod).pmt = mod.pmt ∧ (sdt_base mod).cat = mod.cat ∧
    (sdt_base mod).map = mod.map ∧ (sdt_base mod).pid_map = mod.pid_map ∧
    (sdt_base mod).sdt_original_section_id = mod.sdt_original_section_id := by
  unfold sdt_base
  cases mod.sdt_checksum_list <;> exact ⟨rfl, rfl, rfl, rfl, rfl, rfl, rfl, rfl, rfl, rfl, rfl⟩

/-- The handler `on_sdt` on a first-seen section: the snapshot is stored; when
the service is missing nothing else happens, otherwise the custom SDT is
built from its entry and sent. -/
theorem on_sdt_first_seen_eq {d : Nat → Nat} {fuel : Nat} {s : State} {self : Nat}
    (hr : Ready d fuel s self) (lib : mpegts_lib) (mod : module_data_t)
    (hf : sdt_first_seen mod) :
    (sdt_found mod.sdt mod.config.pnr = none →
      on_sdt lib fuel s self mod = .ok (s, sdt_noted mod)) ∧
    (∀ pointer, sdt_found mod.sdt mod.config.pnr = some pointer →
      on_sdt lib fuel s self mod =
        .ok (after_demux lib s self (sdt_build mod pointer),
          let mod4 := { sdt_noted mod with
            sdt_original_section_id := sdt_section mod,
            custom_sdt := { sdt_build mod pointer with
              cc := lib.demux_cc (sdt_build mod pointer) },
            out := mod.out ++ [.psi (sdt_build mod pointer).pid (sdt_build mod pointer).cc
              ((List.range (sdt_build mod pointer).buffer_size).map
                (sdt_build mod pointer).buffer)] }
          if mod.config.no_reload then
            { mod4 with stream := Function.update mod4.stream mod.sdt.pid .UNKNOWN }
          else mod4)) := by
  obtain ⟨hv, hn, h0, hne⟩ := hf
  obtain ⟨b1, b2, b3, b4, _⟩ := sdt_base_frame mod
  have hst : sdt_stored mod (sdt_section mod) ≠ PSI_GET_CRC32 mod.sdt := by
    rw [h0]; exact fun h => hne h.symm
  obtain ⟨p, hp, hcase⟩ := sdt_items_loop_found mod.sdt mod.config.pnr
  constructor
  · intro hnone
    rcases hcase with ⟨hs, _⟩ | ⟨_, hend⟩
    · rw [hnone] at hs; cases hs
    · rw [on_sdt_valid_eq lib fuel s self mod hv, if_neg (Nat.not_lt.mpr hn), if_neg hst,
        if_neg (by rw [h0]; exact fun h => h rfl)]
      simp only [hp, hend, if_true]
      rfl
  · intro pointer hsome
    rcases hcase with ⟨hs, hlt, _⟩ | ⟨hs, _⟩
    · rw [hsome] at hs
      cases hs
      rw [on_sdt_valid_eq lib fuel s self mod hv, if_neg (Nat.not_lt.mpr hn), if_neg hst,
        if_neg (by rw [h0]; exact fun h => h rfl)]
      simp only [hp, Nat.not_le.mpr hlt, if_false]
      have hb : (PSI_SET_CRC32 (PSI_SET_SIZE
          (if (sdt_base mod).config.set_pnr ≠ 0 then
            SDT_ITEM_SET_SID
              { (sdt_base mod).custom_sdt with
                buffer := memcpy (Function.update (Function.update
                  (memcpy (sdt_base mod).custom_sdt.buffer 0 mod.sdt.buffer 0 11) 6 0) 7 0) 11
                  mod.sdt.buffer p ((PMT_ITEM_DESC_SIZE mod.sdt.buffer p + 5) % 65536),
                buffer_size := 3 + ((PMT_ITEM_DESC_SIZE mod.sdt.buffer p + 5) % 65536 + 8 +
                  CRC32_SIZE) % 65536 } 11 (sdt_base mod).config.set_pnr
          else
            { (sdt_base mod).custom_sdt with
              buffer := memcpy (Function.update (Function.update
                (memcpy (sdt_base mod).custom_sdt.buffer 0 mod.sdt.buffer 0 11) 6 0) 7 0) 11
                mod.sdt.buffer p ((PMT_ITEM_DESC_SIZE mod.sdt.buffer p + 5) % 65536),
              buffer_size := 3 + ((PMT_ITEM_DESC_SIZE mod.sdt.buffer p + 5) % 65536 + 8 +
                CRC32_SIZE) % 65536 }))) = sdt_build mod p := by
        unfold sdt_build
        rw [b1, b3]
      rw [hb, psi_demux_eq hr lib (sdt_build mod p) _]
      simp only [b1, b4, sdt_noted]
    · rw [hsome] at hs; cases hs

theorem len12_lt (a b : Nat) (hb : b < 256) : ((a &&& 0x0F) <<< 8) ||| b < 4096 := by
  have h1 : a &&& 0x0F ≤ 0x0F := Nat.and_le_right
  have h3 : (a &&& 0x0F) <<< 8 < 2 ^ 12 := by
    rw [Nat.shiftLeft_eq]
    omega
  have h4 : b < 2 ^ 12 := by omega
  exact Nat.or_lt_two_pow h3 h4

theorem sdt_build_size (mod : module_data_t) (pointer : Nat)
    (hb : ∀ k, mod.sdt.buffer k < 256) :
    (sdt_build mod pointer).buffer_size = 11 + (PMT_ITEM_DESC_SIZE mod.sdt.buffer pointer + 5) + 4 ∧
    (sdt_build mod pointer).pid = mod.custom_sdt.pid ∧
    (sdt_build mod pointer).cc = mod.custom_sdt.cc := by
  have hl : PMT_ITEM_DESC_SIZE mod.sdt.buffer pointer < 4096 := len12_lt _ _ (hb _)
  have hsz : (sdt_build mod pointer).buffer_size =
      3 + ((PMT_ITEM_DESC_SIZE mod.sdt.buffer pointer + 5) % 65536 + 8 + CRC32_SIZE) % 65536 := by
    unfold sdt_build
    simp only [PSI_SET_CRC32, PSI_SET_SIZE]
    split <;> rfl
  refine ⟨?_, ?_, ?_⟩
  · rw [hsz]
    simp only [CRC32_SIZE]
    omega
  · unfold sdt_build
    simp only [PSI_SET_CRC32, PSI_SET_SIZE]
    split <;> rfl
  · unfold sdt_build
    simp only [PSI_SET_CRC32, PSI_SET_SIZE]
    split <;> rfl

/-- The bytes of the custom SDT that `on_sdt` builds, before the CRC. -/
theorem sdt_build_bytes (mod : module_data_t) (pointer : Nat)
    (hb : ∀ k, mod.sdt.buffer k < 256) (k : Nat)
    (hk : k < 11 + (PMT_ITEM_DESC_SIZE mod.sdt.buffer pointer + 5)) :
    (sdt_build mod pointer).buffer k =
      if k = 1 then (mod.sdt.buffer 1 &&& 0xF0) |||
          (((PMT_ITEM_DESC_SIZE mod.sdt.buffer pointer + 5 + 12) >>> 8) &&& 0x0F)
      else if k = 2 then (PMT_ITEM_DESC_SIZE mod.sdt.buffer pointer + 5 + 12) &&& 0xFF
      else if k = 6 ∨ k = 7 then 0
      else if k < 11 then mod.sdt.buffer k
      else if mod.config.set_pnr ≠ 0 ∧ k = 11 then (mod.config.set_pnr >>> 8) &&& 0xFF
      else if mod.config.set_pnr ≠ 0 ∧ k = 12 then mod.config.set_pnr &&& 0xFF
      else mod.sdt.buffer (pointer + (k - 11)) := by
  have hl : PMT_ITEM_DESC_SIZE mod.sdt.buffer pointer < 4096 := len12_lt _ _ (hb _)
  generalize hL : PMT_ITEM_DESC_SIZE mod.sdt.buffer pointer = L at hl hk ⊢
  have hmod : (L + 5) % 65536 = L + 5 := Nat.mod_eq_of_lt (by omega)
  have hmod2 : (L + 5 + 8 + 4) % 65536 = L + 5 + 12 := by omega
  have hsub : 3 + (L + 5 + 12) - 3 = L + 5 + 12 := by omega
  have hcs1 : ∀ cs0 : ts_psi_t,
      (if mod.config.set_pnr ≠ 0 then SDT_ITEM_SET_SID cs0 11 mod.config.set_pnr
        else cs0).buffer_size = cs0.buffer_size := by
    intro cs0; split <;> rfl
  have hb1 : ∀ cs0 : ts_psi_t, cs0.buffer 1 = mod.sdt.buffer 1 →
      (if mod.config.set_pnr ≠ 0 then SDT_ITEM_SET_SID cs0 11 mod.config.set_pnr
        else cs0).buffer 1 = mod.sdt.buffer 1 := by
    intro cs0 h
    split
    · simp only [SDT_ITEM_SET_SID]
      rw [Function.update_noteq (by decide), Function.update_noteq (by decide)]
      exact h
    · exact h
  unfold sdt_build
  simp only []
  rw [PSI_SET_CRC32_below _ k (by
    simp only [PSI_SET_SIZE, hcs1, hL, hmod, CRC32_SIZE]
    omega)]
  simp only [PSI_SET_SIZE, hcs1, hL, hmod, CRC32_SIZE, hmod2, hsub]
  rw [hb1 _ (by
    simp [memcpy, Function.update_apply])]
  by_cases k1 : k = 1
  · subst k1
    rw [Function.update_noteq (by decide), Function.update_same, if_pos rfl]
  by_cases k2 : k = 2
  · subst k2
    rw [Function.update_same, if_neg (by decide), if_pos rfl]
  rw [Function.update_noteq k2, Function.update_noteq k1, if_neg k1, if_neg k2]
  by_cases hset : mod.config.set_pnr = 0
  · simp only [hset, ne_eq, not_true_eq_false, if_false, false_and, memcpy,
      Function.update_apply, Nat.zero_add, Nat.sub_zero]
    split_ifs <;> first | rfl | omega
  · simp only [hset, ne_eq, not_false_eq_true, if_true, true_and, SDT_ITEM_SET_SID, memcpy,
      Function.update_apply, Nat.zero_add, Nat.sub_zero]
    split_ifs <;> first | rfl | omega

theorem sdt_found_sid (psi : ts_psi_t) (pnr pointer : Nat)
    (h : sdt_found psi pnr = some pointer) :
    pointer ∈ sdt_items psi ∧ SDT_ITEM_GET_SID psi pointer = pnr := by
  unfold sdt_found at h
  exact ⟨List.mem_of_find?_eq_some h, by simpa using List.find?_some h⟩

/-- Claim C26: on a first-seen section in which the first service entry with
`service_id == config.pnr` is at `pointer`, `on_sdt` builds and emits a custom
SDT of `11 + entry length + 4` bytes: the 11 header bytes of the inbound
section with `section_number` and `last_section_number` (bytes 6 and 7) set
to 0 and the `section_length` field (low nibble of byte 1, byte 2) set to the
new length, followed by the bytes of that one entry (5-byte header and
descriptor loop) as they are, except that the service id is `set_pnr` when
`set_pnr` is not 0.  When no entry matches, the custom SDT is left unchanged
and nothing is emitted. -/
theorem on_sdt_builds_single_entry {d : Nat → Nat} {fuel : Nat} {s : State} {self : Nat}
    (hr : Ready d fuel s self) (lib : mpegts_lib) (mod : module_data_t)
    (hb : ∀ k, mod.sdt.buffer k < 256) (hf : sdt_first_seen mod) :
    (∀ pointer, sdt_found mod.sdt mod.config.pnr = some pointer →
      ∃ s' mod', on_sdt lib fuel s self mod = .ok (s', mod') ∧
        SDT_ITEM_GET_SID mod.sdt pointer = mod.config.pnr ∧
        mod'.custom_sdt.buffer_size =
          11 + (PMT_ITEM_DESC_SIZE mod.sdt.buffer pointer + 5) + 4 ∧
        (∀ k, k < 11 → k ≠ 1 → k ≠ 2 → k ≠ 6 → k ≠ 7 →
          mod'.custom_sdt.buffer k = mod.sdt.buffer k) ∧
        mod'.custom_sdt.buffer 6 = 0 ∧ mod'.custom_sdt.buffer 7 = 0 ∧
        mod'.custom_sdt.buffer 1 = (mod.sdt.buffer 1 &&& 0xF0) |||
          (((PMT_ITEM_DESC_SIZE mod.sdt.buffer pointer + 5 + 12) >>> 8) &&& 0x0F) ∧
        mod'.custom_sdt.buffer 2 = (PMT_ITEM_DESC_SIZE mod.sdt.buffer pointer + 5 + 12) &&& 0xFF ∧
        (∀ k, k < PMT_ITEM_DESC_SIZE mod.sdt.buffer pointer + 5 →
          (mod.config.set_pnr = 0 ∨ 2 ≤ k) →
          mod'.custom_sdt.buffer (11 + k) = mod.sdt.buffer (pointer + k)) ∧
        (mod.config.set_pnr ≠ 0 →
          SDT_ITEM_GET_SID mod'.custom_sdt 11 = mod.config.set_pnr % 65536) ∧
        mod'.out = mod.out ++ [.psi mod.custom_sdt.pid mod.custom_sdt.cc
          ((List.range mod'.custom_sdt.buffer_size).map mod'.custom_sdt.buffer)]) ∧
    (sdt_found mod.sdt mod.config.pnr = none →
      ∃ mod', on_sdt lib fuel s self mod = .ok (s, mod') ∧
        mod'.custom_sdt = mod.custom_sdt ∧ mod'.out = mod.out) := by
  obtain ⟨hnone, hsome⟩ := on_sdt_first_seen_eq hr lib mod hf
  obtain ⟨_, _, b3, b4, _⟩ := sdt_base_frame mod
  constructor
  · intro pointer hp
    obtain ⟨hsz, hpid, hcc⟩ := sdt_build_size mod pointer hb
    have hbytes := sdt_build_bytes mod pointer hb
    have hfin : ∀ m : module_data_t,
        (if mod.config.no_reload then
          { m with stream := Function.update m.stream mod.sdt.pid .UNKNOWN } else m).custom_sdt
          = m.custom_sdt ∧
        (if mod.config.no_reload then
          { m with stream := Function.update m.stream mod.sdt.pid .UNKNOWN } else m).out
          = m.out := by
      intro m; split <;> exact ⟨rfl, rfl⟩
    refine ⟨_, _, hsome pointer hp, (sdt_found_sid _ _ _ hp).2, ?_, ?_, ?_, ?_, ?_, ?_, ?_, ?_, ?_⟩
    · rw [(hfin _).1]; exact hsz
    · intro k h11 k1 k2 k6 k7
      rw [(hfin _).1]
      show (sdt_build mod pointer).buffer k = _
      rw [hbytes k (by omega), if_neg k1, if_neg k2, if_neg (by omega), if_pos h11]
    · rw [(hfin _).1]
      show (sdt_build mod pointer).buffer 6 = _
      rw [hbytes 6 (by omega)]; rfl
    · rw [(hfin _).1]
      show (sdt_build mod pointer).buffer 7 = _
      rw [hbytes 7 (by omega)]; rfl
    · rw [(hfin _).1]
      show (sdt_build mod pointer).buffer 1 = _
      rw [hbytes 1 (by omega)]; rfl
    · rw [(hfin _).1]
      show (sdt_build mod pointer).buffer 2 = _
      rw [hbytes 2 (by omega)]; rfl
    · intro k hk hset
      rw [(hfin _).1]
      show (sdt_build mod pointer).buffer (11 + k) = _
      rw [hbytes (11 + k) (by omega), if_neg (by omega), if_neg (by omega), if_neg (by omega),
        if_neg (by omega), if_neg (by rcases hset with h | h <;> [exact fun c => c.1 h; omega]),
        if_neg (by rcases hset with h | h <;> [exact fun c => c.1 h; omega]),
        Nat.add_sub_cancel_left]
    · intro hset
      rw [(hfin _).1]
      show SDT_ITEM_GET_SID { sdt_build mod pointer with cc := _ } 11 = _
      unfold SDT_ITEM_GET_SID
      show ((sdt_build mod pointer).buffer 11 <<< 8) ||| (sdt_build mod pointer).buffer (11 + 1) = _
      rw [hbytes 11 (by omega), hbytes (11 + 1) (by omega)]
      simp only [hset, ne_eq, not_false_eq_true, true_and]
      exact u16_roundtrip _
    · rw [(hfin _).2, (hfin _).1]
      show mod.out ++ _ = _
      rw [hpid, hcc]
  · intro hn
    refine ⟨_, hnone hn, ?_, ?_⟩
    · show (sdt_base mod).custom_sdt = _
      exact b3
    · show (sdt_base mod).out = _
      exact b4

theorem sdt_demo_first_seen : sdt_first_seen (load_sdt chan_mod_pat sdt_demo) :=
  ⟨⟨by decide, by decide, by rw [PSI_CALC_CRC32, crc32b_eq_loop]; decide!⟩, by decide,
    by decide, by decide⟩

/-- Witness for C26: the SDT of the example with the services 10 and 11 gives a
custom SDT of 20 bytes for the entry of service 10. -/
theorem on_sdt_builds_single_entry_witness :
    ∃ s' mod', on_sdt demo_lib 4 (chan_tree_refs refs_init) 1 (load_sdt chan_mod_pat sdt_demo) =
        .ok (s', mod') ∧
      mod'.custom_sdt.buffer_size = 20 ∧ mod'.custom_sdt.buffer 7 = 0 ∧
      mod'.custom_sdt.buffer 12 = 0x0A := by
  obtain ⟨s', mod', h1, _, h3, _, _, h6, _, _, h9, _⟩ :=
    (on_sdt_builds_single_entry (chan_tree_refs_ready refs_init refs_init_lt) demo_lib
      (load_sdt chan_mod_pat sdt_demo) (load_pat_bytes chan_mod_pat sdt_demo (by decide))
      sdt_demo_first_seen).1 11 (by decide)
  exact ⟨s', mod', h1, h3, h6, h9 1 (by decide) (Or.inl rfl)⟩

theorem on_sdt_rejected (lib : mpegts_lib) (fuel : Nat) (s : State) (self : Nat)
    (mod : module_data_t)
    (h : ¬ sdt_valid mod ∨ (sdt_base mod).sdt_max_section_id < sdt_section mod) :
    ∃ mod', on_sdt lib fuel s self mod = .ok (s, mod') ∧
      (mod'.out = mod.out ∨ ∃ msg, mod'.out = mod.out ++ [.log msg]) ∧
      mod'.stream = mod.stream ∧ mod'.pat = mod.pat ∧ mod'.pmt = mod.pmt ∧
      mod'.cat = mod.cat ∧ mod'.map = mod.map ∧ mod'.pid_map = mod.pid_map ∧
      mod'.custom_sdt = mod.custom_sdt := by
  by_cases hv : sdt_valid mod
  · have hgt : (sdt_base mod).sdt_max_section_id < sdt_section mod := by
      rcases h with h | h
      · exact absurd hv h
      · exact h
    obtain ⟨_, _, b3, _, b5, b6, b7, b8, b9, b10, _⟩ := sdt_base_frame mod
    exact ⟨{ sdt_base mod with out := mod.out ++
        [.log "SDT: section_number is greater then section_last_number"] },
      by rw [on_sdt_valid_eq lib fuel s self mod hv, if_pos hgt],
      Or.inr ⟨_, rfl⟩, b5, b6, b7, b8, b9, b10, b3⟩
  · unfold sdt_valid at hv
    by_cases h1 : mod.sdt.buffer 0 = 0x42
    · by_cases h2 : mod.tsid = SDT_GET_TSID mod.sdt
      · have h3 : PSI_GET_CRC32 mod.sdt ≠ PSI_CALC_CRC32 mod.sdt := fun c => hv ⟨h1, h2, c⟩
        refine ⟨{ mod with out := mod.out ++ [.log "SDT checksum error"] }, ?_,
          Or.inr ⟨_, rfl⟩, rfl, rfl, rfl, rfl, rfl, rfl, rfl⟩
        unfold on_sdt
        simp only [h1, ne_eq, not_true_eq_false, if_false, h2, h3, not_false_eq_true, if_true]
      · refine ⟨mod, ?_, Or.inl rfl, rfl, rfl, rfl, rfl, rfl, rfl, rfl⟩
        unfold on_sdt
        simp only [h1, ne_eq, not_true_eq_false, if_false, h2, not_false_eq_true, if_true]
    · refine ⟨mod, ?_, Or.inl rfl, rfl, rfl, rfl, rfl, rfl, rfl, rfl⟩
      unfold on_sdt
      simp only [ne_eq, h1, not_false_eq_true, if_true]

theorem on_sdt_records {d : Nat → Nat} {fuel : Nat} {s : State} {self : Nat}
    (hr : Ready d fuel s self) (lib : mpegts_lib) (mod : module_data_t)
    (hv : sdt_valid mod) (hn : sdt_section mod ≤ (sdt_base mod).sdt_max_section_id)
    (h0 : sdt_stored mod (sdt_section mod) = 0) :
    ∃ s' mod' l', on_sdt lib fuel s self mod = .ok (s', mod') ∧
      mod'.sdt_checksum_list = some l' ∧ l' (sdt_section mod) = PSI_GET_CRC32 mod.sdt ∧
      (∀ k, k ≠ sdt_section mod → l' k = sdt_stored mod k) ∧
      s'.stream = s.stream ∧ mod'.pat = mod.pat ∧ mod'.pmt = mod.pmt ∧ mod'.cat = mod.cat ∧
      mod'.map = mod.map ∧ mod'.pid_map = mod.pid_map ∧
      ∀ p, p ≠ mod.sdt.pid → mod'.stream p = mod.stream p := by
  obtain ⟨_, _, b3, b4, b5, b6, b7, b8, b9, b10, _⟩ := sdt_base_frame mod
  by_cases hne : PSI_GET_CRC32 mod.sdt = 0
  · have hst : sdt_stored mod (sdt_section mod) = PSI_GET_CRC32 mod.sdt := by rw [h0, hne]
    by_cases ho : (sdt_base mod).sdt_original_section_id = sdt_section mod
    · refine ⟨after_demux lib s self mod.custom_sdt,
        { sdt_base mod with
          custom_sdt := { mod.custom_sdt with cc := lib.demux_cc mod.custom_sdt },
          out := mod.out ++ [.psi mod.custom_sdt.pid mod.custom_sdt.cc
            ((List.range mod.custom_sdt.buffer_size).map mod.custom_sdt.buffer)] },
        sdt_stored mod, ?_, sdt_base_list mod,
        hst, fun _ _ => rfl, after_demux_stream hr lib _, b6, b7, b8, b9, b10,
        fun p _ => by rw [← b5]⟩
      rw [on_sdt_valid_eq lib fuel s self mod hv, if_neg (Nat.not_lt.mpr hn), if_pos hst,
        if_pos ho, psi_demux_eq hr lib mod.custom_sdt mod.out]
    · refine ⟨s, sdt_base mod, sdt_stored mod, ?_, sdt_base_list mod, hst, fun _ _ => rfl, rfl,
        b6, b7, b8, b9, b10, fun p _ => by rw [← b5]⟩
      rw [on_sdt_valid_eq lib fuel s self mod hv, if_neg (Nat.not_lt.mpr hn), if_pos hst,
        if_neg ho]
  · obtain ⟨hnone, hsome⟩ := on_sdt_first_seen_eq hr lib mod ⟨hv, hn, h0, hne⟩
    cases hf : sdt_found mod.sdt mod.config.pnr with
    | none =>
      exact ⟨s, _, _, hnone hf, rfl, Function.update_same _ _ _,
        fun k hk => Function.update_noteq hk _ _, rfl, b6, b7, b8, b9, b10,
        fun p _ => by rw [← b5]; rfl⟩
    | some pointer =>
      refine ⟨_, _, Function.update (sdt_stored mod) (sdt_section mod) (PSI_GET_CRC32 mod.sdt),
        hsome pointer hf, ?_, Function.update_same _ _ _,
        fun k hk => Function.update_noteq hk _ _, after_demux_stream hr lib _, ?_, ?_, ?_, ?_, ?_,
        fun p hp => ?_⟩
      · split <;> rfl
      · split <;> exact b6
      · split <;> exact b7
      · split <;> exact b8
      · split <;> exact b9
      · split <;> exact b10
      · split
        · show Function.update (sdt_base mod).stream mod.sdt.pid ts_type_t.UNKNOWN p = _
          rw [Function.update_noteq hp, b5]
        · show (sdt_base mod).stream p = _
          rw [b5]

/-- Claim C25: a CRC-valid SDT section `n` of the latched transport stream: if
a snapshot other than 0 is stored for `n` and the CRC of the section differs
from it, `on_sdt` performs `stream_reload` and emits nothing (the trace gets
the log line only); if no snapshot is stored (0), `on_sdt` returns with the
CRC recorded as the snapshot for `n` (the other snapshots kept) and without a
reload: no module of the tree changes, the latched PAT, CAT and PMT, the map
and `pid_map` are kept, and so is every stream type except that of the SDT
PID.  A section with a wrong table id, a wrong TSID, a bad CRC, or a section
number above the recorded last section number is dropped: the tree is
unchanged, the trace gets at most a log line, and nothing is reloaded. -/
theorem on_sdt_change_detection {d : Nat → Nat} {fuel : Nat} {s : State} {self : Nat}
    (hr : Ready d fuel s self) (lib : mpegts_lib) (mod : module_data_t) :
    (sdt_valid mod → sdt_section mod ≤ (sdt_base mod).sdt_max_section_id →
      sdt_stored mod (sdt_section mod) ≠ 0 →
      sdt_stored mod (sdt_section mod) ≠ PSI_GET_CRC32 mod.sdt →
      ∃ s' mod', on_sdt lib fuel s self mod = .ok (s', mod') ∧
        on_sdt lib fuel s self mod = stream_reload fuel s self
          { sdt_base mod with out := mod.out ++ [.log "SDT changed. Reload stream info"] } ∧
        mod' = reload_data
          { sdt_base mod with out := mod.out ++ [.log "SDT changed. Reload stream info"] } ∧
        mod'.out = mod.out ++ [.log "SDT changed. Reload stream info"] ∧
        pid_refs s' self = reload_refs mod.config (pid_refs s self)) ∧
    (sdt_valid mod → sdt_section mod ≤ (sdt_base mod).sdt_max_section_id →
      sdt_stored mod (sdt_section mod) = 0 →
      ∃ s' mod' l', on_sdt lib fuel s self mod = .ok (s', mod') ∧
        mod'.sdt_checksum_list = some l' ∧ l' (sdt_section mod) = PSI_GET_CRC32 mod.sdt ∧
        (∀ k, k ≠ sdt_section mod → l' k = sdt_stored mod k) ∧
        s'.stream = s.stream ∧ mod'.pat = mod.pat ∧ mod'.pmt = mod.pmt ∧ mod'.cat = mod.cat ∧
        mod'.map = mod.map ∧ mod'.pid_map = mod.pid_map ∧
        ∀ p, p ≠ mod.sdt.pid → mod'.stream p = mod.stream p) ∧
    (¬ sdt_valid mod ∨ (sdt_base mod).sdt_max_section_id < sdt_section mod →
      ∃ mod', on_sdt lib fuel s self mod = .ok (s, mod') ∧
        (mod'.out = mod.out ∨ ∃ msg, mod'.out = mod.out ++ [.log msg]) ∧
        mod'.stream = mod.stream ∧ mod'.pat = mod.pat ∧ mod'.pmt = mod.pmt ∧
        mod'.cat = mod.cat ∧ mod'.map = mod.map ∧ mod'.pid_map = mod.pid_map ∧
        mod'.custom_sdt = mod.custom_sdt) := by
  refine ⟨fun hv hn h0 hne => ?_, fun hv hn h0 => on_sdt_records hr lib mod hv hn h0,
    fun h => on_sdt_rejected lib fuel s self mod h⟩
  have heq : on_sdt lib fuel s self mod = stream_reload fuel s self
      { sdt_base mod with out := mod.out ++ [.log "SDT changed. Reload stream info"] } := by
    rw [on_sdt_valid_eq lib fuel s self mod hv, if_neg (Nat.not_lt.mpr hn), if_neg hne,
      if_pos h0]
  obtain ⟨s', h1, _, h3⟩ := stream_reload_spec hr
    { sdt_base mod with out := mod.out ++ [.log "SDT changed. Reload stream info"] }
  exact ⟨s', _, heq.trans h1, heq, rfl, rfl, by rw [h3]; rw [(sdt_base_frame mod).1]⟩

/-- Witness for C25: section 0 of the example arrives with a CRC that differs
from the stored snapshot, and the channel reloads. -/
theorem on_sdt_change_detection_witness :
    ∃ s' mod', on_sdt demo_lib 4 (chan_tree_refs refs_init) 1 chan_mod_sdt_changed =
        .ok (s', mod') ∧
      mod'.out = [.log "SDT changed. Reload stream info"] ∧ mod'.sdt_checksum_list = none := by
  obtain ⟨s', mod', h1, _, h3, h4, _⟩ :=
    (on_sdt_change_detection (chan_tree_refs_ready refs_init refs_init_lt) demo_lib
      chan_mod_sdt_changed).1
      ⟨by decide, by decide, by rw [PSI_CALC_CRC32, crc32b_eq_loop]; decide!⟩
      (by decide) (by decide) (by decide)
  exact ⟨s', mod', h1, h4, by rw [h3]; rfl⟩

theorem ca_data_custom (mod : module_data_t) (buf : Nat → Nat) (desc : Nat) :
    (ca_data mod buf desc).1.custom_pmt = mod.custom_pmt := by
  unfold ca_data
  by_cases h : mod.stream (DESC_CA_PID buf desc) = .UNKNOWN ∧ DESC_CA_PID buf desc ≠ TS_NULL_PID
  · simp only [h, ne_eq, not_false_eq_true, and_self, if_true]
    unfold ca_mark
    simp only []
    split <;> rfl
  · simp only [h, if_false]

theorem desc_copy_buffer (mod : module_data_t) (psi : ts_psi_t) (desc skip o : Nat)
    (ho : o < skip) :
    (desc_copy mod psi desc skip).custom_pmt.buffer o = mod.custom_pmt.buffer o := by
  simp only [desc_copy, memcpy]
  rw [if_neg (by omega)]

theorem pmt_desc_data_writes (psi : ts_psi_t) :
    ∀ (n desc skip : Nat) (mod : module_data_t) (r : module_data_t × Nat × List Nat),
      pmt_desc_data psi n desc skip mod = some r →
      skip + (12 + PMT_DESC_SIZE psi - desc) + 255 < 65536 →
      skip ≤ r.2.1 ∧ r.2.1 ≤ skip + (12 + PMT_DESC_SIZE psi - desc) + 255 ∧
      ∀ o < skip, r.1.custom_pmt.buffer o = mod.custom_pmt.buffer o := by
  intro n
  induction n with
  | zero => intro desc skip mod r h; cases h
  | succ n ih =>
    intro desc skip mod r h hbound
    unfold pmt_desc_data at h
    by_cases hend : 12 + PMT_DESC_SIZE psi ≤ desc
    · simp only [hend, if_true, Option.some.injEq] at h
      subst h
      exact ⟨Nat.le_refl _, by show skip ≤ _; omega, fun _ _ => rfl⟩
    · simp only [hend, if_false] at h
      by_cases hskip : psi.buffer desc = 0x09 ∧ mod.config.cas = false
      · simp only [hskip, and_self, if_true] at h
        obtain ⟨a1, a2, a3⟩ := ih _ _ mod r h (by omega)
        exact ⟨a1, by omega, a3⟩
      · simp only [hskip, if_false] at h
        have hsz : (psi.buffer (desc + 1) + 2) % 256 ≤ 255 := by omega
        have hsz2 : (psi.buffer (desc + 1) + 2) % 256 ≤ psi.buffer (desc + 1) + 2 :=
          Nat.mod_le _ _
        have hlt : skip + (psi.buffer (desc + 1) + 2) % 256 < 65536 := by omega
        rw [Nat.mod_eq_of_lt hlt] at h
        have key : ∀ (m : module_data_t) (j : List Nat), m.custom_pmt = mod.custom_pmt →
            Option.map (fun x => (x.1, x.2.1, j ++ x.2.2))
              (pmt_desc_data psi n (desc + 2 + psi.buffer (desc + 1))
                (skip + (psi.buffer (desc + 1) + 2) % 256) (desc_copy m psi desc skip)) = some r →
            skip ≤ r.2.1 ∧ r.2.1 ≤ skip + (12 + PMT_DESC_SIZE psi - desc) + 255 ∧
            ∀ o < skip, r.1.custom_pmt.buffer o = mod.custom_pmt.buffer o := by
          intro m j hm h
          cases hd : pmt_desc_data psi n (desc + 2 + psi.buffer (desc + 1))
              (skip + (psi.buffer (desc + 1) + 2) % 256) (desc_copy m psi desc skip) with
          | none => rw [hd] at h; cases h
          | some x =>
            rw [hd] at h
            simp only [Option.map_some', Option.some.injEq] at h
            subst h
            simp only []
            by_cases hnext : 12 + PMT_DESC_SIZE psi ≤ desc + 2 + psi.buffer (desc + 1)
            · have hx : pmt_desc_data psi n (desc + 2 + psi.buffer (desc + 1))
                  (skip + (psi.buffer (desc + 1) + 2) % 256) (desc_copy m psi desc skip) =
                  some x := hd
              cases n with
              | zero => simp [pmt_desc_data] at hx
              | succ n' =>
                unfold pmt_desc_data at hx
                simp only [hnext, if_true, Option.some.injEq] at hx
                subst hx
                simp only []
                refine ⟨by omega, by omega, fun o ho => ?_⟩
                rw [desc_copy_buffer m psi desc skip o ho, hm]
            · obtain ⟨a1, a2, a3⟩ := ih _ _ _ x hd (by omega)
              refine ⟨by omega, by omega, fun o ho => ?_⟩
              rw [a3 o (by omega), desc_copy_buffer m psi desc skip o ho, hm]
        by_cases h9 : psi.buffer desc = 0x09
        · simp only [h9, if_true] at h
          exact key _ _ (ca_data_custom mod psi.buffer desc) h
        · simp only [h9, if_false] at h
          exact key mod [] rfl h

theorem pmt_item_desc_data_writes (lib : mpegts_lib) (psi : ts_psi_t) (pointer item_type : Nat) :
    ∀ (n desc skip : Nat) (ts_type : ts_type_t) (lang : Option Nat) (mod : module_data_t)
      (r : module_data_t × Nat × ts_type_t × Option Nat × List Nat),
      pmt_item_desc_data lib psi pointer item_type n desc skip ts_type lang mod = some r →
      skip + (pointer + 5 + PMT_ITEM_DESC_SIZE psi.buffer pointer - desc) + 255 < 65536 →
      skip ≤ r.2.1 ∧
      r.2.1 ≤ skip + (pointer + 5 + PMT_ITEM_DESC_SIZE psi.buffer pointer - desc) + 255 ∧
      ∀ o < skip, r.1.custom_pmt.buffer o = mod.custom_pmt.buffer o := by
  intro n
  induction n with
  | zero => intro desc skip ts_type lang mod r h; cases h
  | succ n ih =>
    intro desc skip ts_type lang mod r h hbound
    unfold pmt_item_desc_data at h
    by_cases hend : pointer + 5 + PMT_ITEM_DESC_SIZE psi.buffer pointer ≤ desc
    · simp only [hend, if_true, Option.some.injEq] at h
      subst h
      exact ⟨Nat.le_refl _, by show skip ≤ _; omega, fun _ _ => rfl⟩
    · simp only [hend, if_false] at h
      by_cases hskip : psi.buffer desc = 0x09 ∧ mod.config.cas = false
      · simp only [hskip, and_self, if_true] at h
        obtain ⟨a1, a2, a3⟩ := ih _ _ _ _ mod r h (by omega)
        exact ⟨a1, by omega, a3⟩
      · simp only [hskip, if_false] at h
        have hsz : (psi.buffer (desc + 1) + 2) % 256 ≤ 255 := by omega
        have hlt : skip + (psi.buffer (desc + 1) + 2) % 256 < 65536 := by omega
        rw [Nat.mod_eq_of_lt hlt] at h
        have key : ∀ (m : module_data_t) (j : List Nat) (t : ts_type_t) (l : Option Nat),
            m.custom_pmt = mod.custom_pmt →
            Option.map (fun x => (x.1, x.2.1, x.2.2.1, x.2.2.2.1, j ++ x.2.2.2.2))
              (pmt_item_desc_data lib psi pointer item_type n (desc + 2 + psi.buffer (desc + 1))
                (skip + (psi.buffer (desc + 1) + 2) % 256) t l (desc_copy m psi desc skip)) =
              some r →
            skip ≤ r.2.1 ∧
            r.2.1 ≤ skip + (pointer + 5 + PMT_ITEM_DESC_SIZE psi.buffer pointer - desc) + 255 ∧
            ∀ o < skip, r.1.custom_pmt.buffer o = mod.custom_pmt.buffer o := by
          intro m j t l hm h
          cases hd : pmt_item_desc_data lib psi pointer item_type n
              (desc + 2 + psi.buffer (desc + 1))
              (skip + (psi.buffer (desc + 1) + 2) % 256) t l (desc_copy m psi desc skip) with
          | none => rw [hd] at h; cases h
          | some x =>
            rw [hd] at h
            simp only [Option.map_some', Option.some.injEq] at h
            subst h
            simp only []
            by_cases hnext : pointer + 5 + PMT_ITEM_DESC_SIZE psi.buffer pointer ≤
                desc + 2 + psi.buffer (desc + 1)
            · have hx := hd
              cases n with
              | zero => simp [pmt_item_desc_data] at hx
              | succ n' =>
                unfold pmt_item_desc_data at hx
                simp only [hnext, if_true, Option.some.injEq] at hx
                subst hx
                simp only []
                refine ⟨by omega, by omega, fun o ho => ?_⟩
                rw [desc_copy_buffer m psi desc skip o ho, hm]
            · obtain ⟨a1, a2, a3⟩ := ih _ _ _ _ _ x hd (by omega)
              refine ⟨by omega, by omega, fun o ho => ?_⟩
              rw [a3 o (by omega), desc_copy_buffer m psi desc skip o ho, hm]
        by_cases h9 : psi.buffer desc = 0x09
        · simp only [h9, if_true] at h
          exact key _ _ _ _ (ca_data_custom mod psi.buffer desc) h
        · simp only [h9, if_false] at h
          exact key mod [] _ _ rfl h

/-! ## Channel: the descriptors that the PMT loops copy -/

theorem ca_data_cas (mod : module_data_t) (buf : Nat → Nat) (desc : Nat) :
    (ca_data mod buf desc).1.config = mod.config :=
  (pmtStep_ca (fun _ => False) mod buf desc (fun h => h)).config

theorem desc_bytes_length (buf : Nat → Nat) (x : Nat) :
    (desc_bytes buf x).length = buf (x + 1) + 2 := by
  simp [desc_bytes]

theorem desc_bytes_getD (buf : Nat → Nat) (x k : Nat) (hk : k < buf (x + 1) + 2) :
    (desc_bytes buf x).getD k 0 = buf (x + k) := by
  unfold desc_bytes
  rw [List.getD_eq_getElem?_getD, List.getElem?_map, List.getElem?_range hk]
  rfl

theorem desc_copy_bytes (mod : module_data_t) (psi : ts_psi_t) (desc skip k : Nat)
    (hl : psi.buffer (desc + 1) ≤ 253) (hk : k < psi.buffer (desc + 1) + 2) :
    (desc_copy mod psi desc skip).custom_pmt.buffer (skip + k) = psi.buffer (desc + k) := by
  simp only [desc_copy, memcpy]
  rw [Nat.mod_eq_of_lt (by omega), if_pos ⟨by omega, by omega⟩, Nat.add_sub_cancel_left]

theorem copied_descs_cons_kept (cas : Bool) (buf : Nat → Nat) (x : Nat) (l : List Nat)
    (h : ¬ (buf x = 0x09 ∧ cas = false)) :
    copied_descs cas buf (x :: l) = desc_bytes buf x ++ copied_descs cas buf l := by
  unfold copied_descs kept_descs
  simp only [List.filter_cons]
  rw [if_pos (decide_eq_true h), List.flatMap_cons]

theorem copied_descs_cons_drop (cas : Bool) (buf : Nat → Nat) (x : Nat) (l : List Nat)
    (h : buf x = 0x09 ∧ cas = false) :
    copied_descs cas buf (x :: l) = copied_descs cas buf l := by
  unfold copied_descs kept_descs
  simp only [List.filter_cons]
  rw [if_neg (fun c => (of_decide_eq_true c) h)]

theorem kept_descs_cons_kept (cas : Bool) (buf : Nat → Nat) (x : Nat) (l : List Nat)
    (h : ¬ (buf x = 0x09 ∧ cas = false)) :
    kept_descs cas buf (x :: l) = x :: kept_descs cas buf l := by
  unfold kept_descs
  simp only [List.filter_cons]
  rw [if_pos (decide_eq_true h)]

theorem kept_descs_cons_drop (cas : Bool) (buf : Nat → Nat) (x : Nat) (l : List Nat)
    (h : buf x = 0x09 ∧ cas = false) :
    kept_descs cas buf (x :: l) = kept_descs cas buf l := by
  unfold kept_descs
  simp only [List.filter_cons]
  rw [if_neg (fun c => (of_decide_eq_true c) h)]

theorem pmt_desc_data_bytes (psi : ts_psi_t) :
    ∀ (n desc skip : Nat) (mod : module_data_t) (r : module_data_t × Nat × List Nat),
      pmt_desc_data psi n desc skip mod = some r →
      (∀ x ∈ kept_descs mod.config.cas psi.buffer
        (desc_positions psi.buffer (12 + PMT_DESC_SIZE psi) n desc), psi.buffer (x + 1) ≤ 253) →
      skip + (12 + PMT_DESC_SIZE psi - desc) + 255 < 65536 →
      r.2.1 = skip + (copied_descs mod.config.cas psi.buffer
        (desc_positions psi.buffer (12 + PMT_DESC_SIZE psi) n desc)).length ∧
      ∀ k, k < (copied_descs mod.config.cas psi.buffer
          (desc_positions psi.buffer (12 + PMT_DESC_SIZE psi) n desc)).length →
        r.1.custom_pmt.buffer (skip + k) = (copied_descs mod.config.cas psi.buffer
          (desc_positions psi.buffer (12 + PMT_DESC_SIZE psi) n desc)).getD k 0 := by
  intro n
  induction n with
  | zero => intro desc skip mod r h; cases h
  | succ n ih =>
    intro desc skip mod r h hlen hbound
    unfold pmt_desc_data at h
    by_cases hend : 12 + PMT_DESC_SIZE psi ≤ desc
    · simp only [hend, if_true, Option.some.injEq] at h
      subst h
      rw [desc_positions, if_pos hend]
      exact ⟨rfl, fun k hk => absurd hk (Nat.not_lt_zero k)⟩
    · simp only [hend, if_false] at h
      rw [desc_positions, if_neg hend] at hlen ⊢
      by_cases hskip : psi.buffer desc = 0x09 ∧ mod.config.cas = false
      · simp only [hskip, and_self, if_true] at h
        rw [copied_descs_cons_drop _ _ _ _ hskip]
        rw [kept_descs_cons_drop _ _ _ _ hskip] at hlen
        exact ih _ _ mod r h hlen (by omega)
      · simp only [hskip, if_false] at h
        rw [copied_descs_cons_kept _ _ _ _ hskip]
        rw [kept_descs_cons_kept _ _ _ _ hskip] at hlen
        have hl : psi.buffer (desc + 1) ≤ 253 := hlen desc (List.mem_cons_self _ _)
        have hsz : (psi.buffer (desc + 1) + 2) % 256 = psi.buffer (desc + 1) + 2 :=
          Nat.mod_eq_of_lt (by omega)
        have hlt : skip + (psi.buffer (desc + 1) + 2) < 65536 := by omega
        rw [hsz, Nat.mod_eq_of_lt hlt] at h
        have key : ∀ (m : module_data_t) (j : List Nat), m.config = mod.config →
            Option.map (fun x => (x.1, x.2.1, j ++ x.2.2))
              (pmt_desc_data psi n (desc + 2 + psi.buffer (desc + 1))
                (skip + (psi.buffer (desc + 1) + 2)) (desc_copy m psi desc skip)) = some r →
            r.2.1 = skip + (desc_bytes psi.buffer desc ++ copied_descs mod.config.cas psi.buffer
              (desc_positions psi.buffer (12 + PMT_DESC_SIZE psi) n
                (desc + 2 + psi.buffer (desc + 1)))).length ∧
            ∀ k, k < (desc_bytes psi.buffer desc ++ copied_descs mod.config.cas psi.buffer
                (desc_positions psi.buffer (12 + PMT_DESC_SIZE psi) n
                  (desc + 2 + psi.buffer (desc + 1)))).length →
              r.1.custom_pmt.buffer (skip + k) =
                (desc_bytes psi.buffer desc ++ copied_descs mod.config.cas psi.buffer
                  (desc_positions psi.buffer (12 + PMT_DESC_SIZE psi) n
                    (desc + 2 + psi.buffer (desc + 1)))).getD k 0 := by
          intro m j hm h
          cases hd : pmt_desc_data psi n (desc + 2 + psi.buffer (desc + 1))
              (skip + (psi.buffer (desc + 1) + 2)) (desc_copy m psi desc skip) with
          | none => rw [hd] at h; cases h
          | some x =>
            rw [hd] at h
            simp only [Option.map_some', Option.some.injEq] at h
            subst h
            simp only []
            have hcfg : (desc_copy m psi desc skip).config = mod.config := hm
            rw [List.length_append, desc_bytes_length]
            by_cases hnext : 12 + PMT_DESC_SIZE psi ≤ desc + 2 + psi.buffer (desc + 1)
            · have hx := hd
              cases n with
              | zero => simp [pmt_desc_data] at hx
              | succ n' =>
                unfold pmt_desc_data at hx
                simp only [hnext, if_true, Option.some.injEq] at hx
                subst hx
                rw [desc_positions, if_pos hnext]
                simp only [copied_descs, kept_descs, List.filter_nil, List.flatMap_nil,
                  List.length_nil, Nat.add_zero, List.append_nil]
                refine ⟨trivial, fun k hk => ?_⟩
                rw [desc_copy_bytes m psi desc skip k hl hk, desc_bytes_getD _ _ _ hk]
            · have hb2 : skip + (psi.buffer (desc + 1) + 2) +
                  (12 + PMT_DESC_SIZE psi - (desc + 2 + psi.buffer (desc + 1))) + 255 < 65536 := by
                omega
              obtain ⟨a1, a2⟩ := ih _ _ _ x hd (by
                rw [hcfg]
                exact fun y hy => hlen y (List.mem_cons_of_mem _ hy)) hb2
              obtain ⟨_, _, w3⟩ := pmt_desc_data_writes psi _ _ _ _ x hd hb2
              rw [hcfg] at a1 a2
              refine ⟨by rw [a1]; omega, fun k hk => ?_⟩
              by_cases hk1 : k < psi.buffer (desc + 1) + 2
              · rw [w3 (skip + k) (by omega), desc_copy_bytes m psi desc skip k hl hk1,
                  List.getD_append _ _ _ _ (by rw [desc_bytes_length]; exact hk1),
                  desc_bytes_getD _ _ _ hk1]
              · have hk2 : skip + k = skip + (psi.buffer (desc + 1) + 2) +
                    (k - (psi.buffer (desc + 1) + 2)) := by omega
                rw [hk2, a2 _ (by omega),
                  List.getD_append_right _ _ _ _ (by rw [desc_bytes_length]; omega),
                  desc_bytes_length]
        by_cases h9 : psi.buffer desc = 0x09
        · simp only [h9, if_true] at h
          exact key _ _ (ca_data_cas mod psi.buffer desc) h
        · simp only [h9, if_false] at h
          exact key mod [] rfl h

theorem pmt_item_desc_data_bytes (lib : mpegts_lib) (psi : ts_psi_t) (pointer item_type : Nat) :
    ∀ (n desc skip : Nat) (ts_type : ts_type_t) (lang : Option Nat) (mod : module_data_t)
      (r : module_data_t × Nat × ts_type_t × Option Nat × List Nat),
      pmt_item_desc_data lib psi pointer item_type n desc skip ts_type lang mod = some r →
      (∀ x ∈ kept_descs mod.config.cas psi.buffer
        (desc_positions psi.buffer (pointer + 5 + PMT_ITEM_DESC_SIZE psi.buffer pointer) n desc),
        psi.buffer (x + 1) ≤ 253) →
      skip + (pointer + 5 + PMT_ITEM_DESC_SIZE psi.buffer pointer - desc) + 255 < 65536 →
      r.2.1 = skip + (copied_descs mod.config.cas psi.buffer
        (desc_positions psi.buffer (pointer + 5 + PMT_ITEM_DESC_SIZE psi.buffer pointer)
          n desc)).length ∧
      ∀ k, k < (copied_descs mod.config.cas psi.buffer
          (desc_positions psi.buffer (pointer + 5 + PMT_ITEM_DESC_SIZE psi.buffer pointer)
            n desc)).length →
        r.1.custom_pmt.buffer (skip + k) = (copied_descs mod.config.cas psi.buffer
          (desc_positions psi.buffer (pointer + 5 + PMT_ITEM_DESC_SIZE psi.buffer pointer)
            n desc)).getD k 0 := by
  intro n
  induction n with
  | zero => intro desc skip ts_type lang mod r h; cases h
  | succ n ih =>
    intro desc skip ts_type lang mod r h hlen hbound
    unfold pmt_item_desc_data at h
    by_cases hend : pointer + 5 + PMT_ITEM_DESC_SIZE psi.buffer pointer ≤ desc
    · simp only [hend, if_true, Option.some.injEq] at h
      subst h
      rw [desc_positions, if_pos hend]
      exact ⟨rfl, fun k hk => absurd hk (Nat.not_lt_zero k)⟩
    · simp only [hend, if_false] at h
      rw [desc_positions, if_neg hend] at hlen ⊢
      by_cases hskip : psi.buffer desc = 0x09 ∧ mod.config.cas = false
      · simp only [hskip, and_self, if_true] at h
        rw [copied_descs_cons_drop _ _ _ _ hskip]
        rw [kept_descs_cons_drop _ _ _ _ hskip] at hlen
        exact ih _ _ _ _ mod r h hlen (by omega)
      · simp only [hskip, if_false] at h
        rw [copied_descs_cons_kept _ _ _ _ hskip]
        rw [kept_descs_cons_kept _ _ _ _ hskip] at hlen
        have hl : psi.buffer (desc + 1) ≤ 253 := hlen desc (List.mem_cons_self _ _)
        have hsz : (psi.buffer (desc + 1) + 2) % 256 = psi.buffer (desc + 1) + 2 :=
          Nat.mod_eq_of_lt (by omega)
        have hlt : skip + (psi.buffer (desc + 1) + 2) < 65536 := by omega
        rw [hsz, Nat.mod_eq_of_lt hlt] at h
        have key : ∀ (m : module_data_t) (j : List Nat) (t : ts_type_t) (l : Option Nat),
            m.config = mod.config →
            Option.map (fun x => (x.1, x.2.1, x.2.2.1, x.2.2.2.1, j ++ x.2.2.2.2))
              (pmt_item_desc_data lib psi pointer item_type n (desc + 2 + psi.buffer (desc + 1))
                (skip + (psi.buffer (desc + 1) + 2)) t l (desc_copy m psi desc skip)) = some r →
            r.2.1 = skip + (desc_bytes psi.buffer desc ++ copied_descs mod.config.cas psi.buffer
              (desc_positions psi.buffer (pointer + 5 + PMT_ITEM_DESC_SIZE psi.buffer pointer) n
                (desc + 2 + psi.buffer (desc + 1)))).length ∧
            ∀ k, k < (desc_bytes psi.buffer desc ++ copied_descs mod.config.cas psi.buffer
                (desc_positions psi.buffer (pointer + 5 + PMT_ITEM_DESC_SIZE psi.buffer pointer) n
                  (desc + 2 + psi.buffer (desc + 1)))).length →
              r.1.custom_pmt.buffer (skip + k) =
                (desc_bytes psi.buffer desc ++ copied_descs mod.config.cas psi.buffer
                  (desc_positions psi.buffer
                    (pointer + 5 + PMT_ITEM_DESC_SIZE psi.buffer pointer) n
                    (desc + 2 + psi.buffer (desc + 1)))).getD k 0 := by
          intro m j t l hm h
          cases hd : pmt_item_desc_data lib psi pointer item_type n
              (desc + 2 + psi.buffer (desc + 1))
              (skip + (psi.buffer (desc + 1) + 2)) t l (desc_copy m psi desc skip) with
          | none => rw [hd] at h; cases h
          | some x =>
            rw [hd] at h
            simp only [Option.map_some', Option.some.injEq] at h
            subst h
            simp only []
            have hcfg : (desc_copy m psi desc skip).config = mod.config := hm
            rw [List.length_append, desc_bytes_length]
            by_cases hnext : pointer + 5 + PMT_ITEM_DESC_SIZE psi.buffer pointer ≤
                desc + 2 + psi.buffer (desc + 1)
            · have hx := hd
              cases n with
              | zero => simp [pmt_item_desc_data] at hx
              | succ n' =>
                unfold pmt_item_desc_data at hx
                simp only [hnext, if_true, Option.some.injEq] at hx
                subst hx
                rw [desc_positions, if_pos hnext]
                simp only [copied_descs, kept_descs, List.filter_nil, List.flatMap_nil,
                  List.length_nil, Nat.add_zero, List.append_nil]
                refine ⟨trivial, fun k hk => ?_⟩
                rw [desc_copy_bytes m psi desc skip k hl hk, desc_bytes_getD _ _ _ hk]
            · have hb2 : skip + (psi.buffer (desc + 1) + 2) +
                  (pointer + 5 + PMT_ITEM_DESC_SIZE psi.buffer pointer -
                    (desc + 2 + psi.buffer (desc + 1))) + 255 < 65536 := by
                omega
              obtain ⟨a1, a2⟩ := ih _ _ _ _ _ x hd (by
                rw [hcfg]
                exact fun y hy => hlen y (List.mem_cons_of_mem _ hy)) hb2
              obtain ⟨_, _, w3⟩ :=
                pmt_item_desc_data_writes lib psi pointer item_type _ _ _ _ _ _ x hd hb2
              rw [hcfg] at a1 a2
              refine ⟨by rw [a1]; omega, fun k hk => ?_⟩
              by_cases hk1 : k < psi.buffer (desc + 1) + 2
              · rw [w3 (skip + k) (by omega), desc_copy_bytes m psi desc skip k hl hk1,
                  List.getD_append _ _ _ _ (by rw [desc_bytes_length]; exact hk1),
                  desc_bytes_getD _ _ _ hk1]
              · have hk2 : skip + k = skip + (psi.buffer (desc + 1) + 2) +
                    (k - (psi.buffer (desc + 1) + 2)) := by omega
                rw [hk2, a2 _ (by omega),
                  List.getD_append_right _ _ _ _ (by rw [desc_bytes_length]; omega),
                  desc_bytes_length]
        by_cases h9 : psi.buffer desc = 0x09
        · simp only [h9, if_true] at h
          exact key _ _ _ _ (ca_data_cas mod psi.buffer desc) h
        · simp only [h9, if_false] at h
          exact key mod [] _ _ rfl h

/-! ## Channel: the PMT loops return -/

theorem pmt_desc_data_total (psi : ts_psi_t) :
    ∀ (n desc skip : Nat) (mod : module_data_t), 0 < n →
      12 + PMT_DESC_SIZE psi ≤ desc + 2 * (n - 1) →
      ∃ r, pmt_desc_data psi n desc skip mod = some r := by
  intro n
  induction n with
  | zero => intro desc skip mod h; exact absurd h (Nat.lt_irrefl 0)
  | succ m ih =>
    intro desc skip mod _ hbud
    unfold pmt_desc_data
    by_cases hend : 12 + PMT_DESC_SIZE psi ≤ desc
    · exact ⟨_, by rw [if_pos hend]⟩
    · rw [if_neg hend]
      simp only [Nat.add_sub_cancel] at hbud
      have hm : 0 < m := by omega
      have hnext : 12 + PMT_DESC_SIZE psi ≤ desc + 2 + psi.buffer (desc + 1) + 2 * (m - 1) := by
        omega
      by_cases hskip : psi.buffer desc = 0x09 ∧ mod.config.cas = false
      · simp only [hskip, and_self, if_true]
        exact ih _ _ _ hm hnext
      · simp only [hskip, if_false]
        obtain ⟨x, hx⟩ := ih (desc + 2 + psi.buffer (desc + 1))
          ((skip + (psi.buffer (desc + 1) + 2) % 256) % 65536)
          (desc_copy (if psi.buffer desc = 0x09 then ca_data mod psi.buffer desc
            else (mod, [])).1 psi desc skip) hm hnext
        exact ⟨_, by rw [hx]; rfl⟩

theorem pmt_item_desc_data_total (lib : mpegts_lib) (psi : ts_psi_t) (pointer item_type : Nat) :
    ∀ (n desc skip : Nat) (ts_type : ts_type_t) (lang : Option Nat) (mod : module_data_t),
      0 < n → pointer + 5 + PMT_ITEM_DESC_SIZE psi.buffer pointer ≤ desc + 2 * (n - 1) →
      ∃ r, pmt_item_desc_data lib psi pointer item_type n desc skip ts_type lang mod = some r := by
  intro n
  induction n with
  | zero => intro desc skip ts_type lang mod h; exact absurd h (Nat.lt_irrefl 0)
  | succ m ih =>
    intro desc skip ts_type lang mod _ hbud
    unfold pmt_item_desc_data
    by_cases hend : pointer + 5 + PMT_ITEM_DESC_SIZE psi.buffer pointer ≤ desc
    · exact ⟨_, by rw [if_pos hend]⟩
    · rw [if_neg hend]
      simp only [Nat.add_sub_cancel] at hbud
      have hm : 0 < m := by omega
      have hnext : pointer + 5 + PMT_ITEM_DESC_SIZE psi.buffer pointer ≤
          desc + 2 + psi.buffer (desc + 1) + 2 * (m - 1) := by
        omega
      by_cases hskip : psi.buffer desc = 0x09 ∧ mod.config.cas = false
      · simp only [hskip, and_self, if_true]
        exact ih _ _ _ _ _ hm hnext
      · simp only [hskip, if_false]
        obtain ⟨x, hx⟩ := ih (desc + 2 + psi.buffer (desc + 1))
          ((skip + (psi.buffer (desc + 1) + 2) % 256) % 65536)
          (if psi.buffer desc ≠ 0x09 ∧ psi.buffer desc ≠ 0x0A ∧ item_type = 0x06 ∧
              ts_type = .DATA then lib.ts_priv_type (psi.buffer desc) else ts_type)
          (if psi.buffer desc = 0x0A then some desc else lang)
          (desc_copy (if psi.buffer desc = 0x09 then ca_data mod psi.buffer desc
            else (mod, [])).1 psi desc skip) hm hnext
        exact ⟨_, by rw [hx]; rfl⟩

theorem pmt_items_data_total (lib : mpegts_lib) (psi : ts_psi_t) (pcr_pid : Nat) :
    ∀ (n pointer skip : Nat) (jp : Bool) (mod : module_data_t), 0 < n →
      psi.buffer_size - CRC32_SIZE ≤ pointer + 5 * (n - 1) →
      ∃ r, pmt_items_data lib psi pcr_pid n pointer skip jp mod = some r := by
  intro n
  induction n with
  | zero => intro pointer skip jp mod h; exact absurd h (Nat.lt_irrefl 0)
  | succ m ih =>
    intro pointer skip jp mod _ hbud
    unfold pmt_items_data
    by_cases hend : psi.buffer_size - CRC32_SIZE ≤ pointer
    · exact ⟨_, by rw [if_pos hend]⟩
    · rw [if_neg hend]
      simp only [Nat.add_sub_cancel] at hbud
      have hm : 0 < m := by omega
      have hnext : psi.buffer_size - CRC32_SIZE ≤
          pointer + 5 + PMT_ITEM_DESC_SIZE psi.buffer pointer + 5 * (m - 1) := by
        omega
      by_cases hf : mod.pid_map (PMT_ITEM_GET_PID psi.buffer pointer) = TS_MAX_PIDS
      · simp only [hf, if_true]
        exact ih _ _ _ _ hm hnext
      · simp only [hf, if_false]
        obtain ⟨y, hy⟩ := pmt_item_desc_data_total lib psi pointer (psi.buffer pointer)
          (PMT_ITEM_DESC_SIZE psi.buffer pointer + 1) (pointer + 5) ((skip + 5) % 65536)
          (lib.ts_stream_type (psi.buffer pointer)) none (item_head mod psi pointer skip)
          (Nat.succ_pos _) (by simp only [Nat.add_sub_cancel]; omega)
        obtain ⟨mod3, skip2, t2, lang, joins⟩ := y
        rw [hy]
        simp only []
        obtain ⟨x, hx⟩ := ih (pointer + 5 + PMT_ITEM_DESC_SIZE psi.buffer pointer) skip2
          (if PMT_ITEM_GET_PID psi.buffer pointer = pcr_pid then false else jp)
          (item_close mod3 psi (PMT_ITEM_GET_PID psi.buffer pointer) skip skip2 t2 lang) hm hnext
        exact ⟨_, by rw [hx]; rfl⟩

/-! ## Channel: the rebuild of the custom PMT -/

theorem pmt_data_total (lib : mpegts_lib) (mod : module_data_t) :
    ∃ r, pmt_data lib mod = some r := by
  unfold pmt_data
  simp only []
  obtain ⟨⟨mod2, skip, joins1⟩, h1⟩ := pmt_desc_data_total mod.pmt (PMT_DESC_SIZE mod.pmt + 1) 12 12
    (pmt_head mod) (Nat.succ_pos _) (by simp only [Nat.add_sub_cancel]; omega)
  rw [h1]
  simp only []
  obtain ⟨⟨mod5, skip2, jp, joins2, copied⟩, h2⟩ := pmt_items_data_total lib mod.pmt
    (PMT_GET_PCR mod.pmt) (mod.pmt.buffer_size + 1) (PMT_ITEMS_FIRST mod.pmt) skip true
    (pmt_info_close mod2 skip) (Nat.succ_pos _)
    (by simp only [Nat.add_sub_cancel, CRC32_SIZE, PMT_ITEMS_FIRST]; omega)
  rw [h2]
  exact ⟨_, rfl⟩

theorem pmt_rebuild_eq {d : Nat → Nat} {fuel : Nat} {s : State} {self : Nat}
    (hr : Ready d fuel s self) (lib : mpegts_lib) (mod : module_data_t)
    (hb : ∀ k, mod.pmt.buffer k < 256) :
    ∃ m joins copied, pmt_data lib mod = some (m, joins, copied) ∧
      (∀ q ∈ joins, q < TS_MAX_PIDS) ∧
      pmt_rebuild lib fuel s self mod =
        .ok (after_demux lib (after_joins fuel s self joins) self m.custom_pmt,
          pmt_sent lib m) ∧
      Ready d fuel (after_demux lib (after_joins fuel s self joins) self m.custom_pmt) self ∧
      pid_refs (after_demux lib (after_joins fuel s self joins) self m.custom_pmt) self =
        joins.foldl incr_step (pid_refs s self) := by
  obtain ⟨⟨m, joins, copied⟩, hdata⟩ := pmt_data_total lib mod
  refine ⟨m, joins, copied, hdata, ?_⟩
  unfold pmt_data at hdata
  simp only [] at hdata
  unfold pmt_rebuild
  simp only []
  obtain ⟨e1, l1⟩ := pmt_desc_loop_eq mod.pmt hb (PMT_DESC_SIZE mod.pmt + 1) 12 12 s
    (pmt_head mod) hr
  rw [e1]
  cases h1 : pmt_desc_data mod.pmt (PMT_DESC_SIZE mod.pmt + 1) 12 12 (pmt_head mod) with
  | none => rw [h1] at hdata; cases hdata
  | some x1 =>
    obtain ⟨mod2, skip, joins1⟩ := x1
    rw [h1] at hdata
    simp only [] at hdata ⊢
    have hj1 : ∀ q ∈ joins1, q < TS_MAX_PIDS := l1 _ h1
    obtain ⟨hr1, hp1⟩ := after_joins_spec joins1 s hr hj1
    obtain ⟨e2, l2⟩ := pmt_items_loop_eq lib mod.pmt (PMT_GET_PCR mod.pmt) hb
      (mod.pmt.buffer_size + 1) (PMT_ITEMS_FIRST mod.pmt) skip true
      (after_joins fuel s self joins1) (pmt_info_close mod2 skip) hr1
    rw [e2]
    cases h2 : pmt_items_data lib mod.pmt (PMT_GET_PCR mod.pmt) (mod.pmt.buffer_size + 1)
        (PMT_ITEMS_FIRST mod.pmt) skip true (pmt_info_close mod2 skip) with
    | none => rw [h2] at hdata; cases hdata
    | some x2 =>
      obtain ⟨mod5, skip2, jp, joins2, cp⟩ := x2
      rw [h2] at hdata
      simp only [Option.some.injEq, Prod.mk.injEq] at hdata
      obtain ⟨hm, hjoins, _⟩ := hdata
      simp only []
      have hj2 : ∀ q ∈ joins2, q < TS_MAX_PIDS := l2 _ h2
      obtain ⟨hr2, hp2⟩ := after_joins_spec joins2 _ hr1 hj2
      have hpcr : PMT_GET_PCR mod.pmt < TS_MAX_PIDS := pid13_lt _ _ (hb _)
      cases jp with
      | true =>
        simp only [if_true] at hm hjoins ⊢
        obtain ⟨hj, hr3, hp3⟩ := join_eq hr2 _ hpcr
        rw [hj]
        simp only []
        rw [psi_demux_eq hr3 lib _ _]
        subst hm
        subst hjoins
        have hst : after_joins fuel s self (joins1 ++ joins2 ++ [PMT_GET_PCR mod.pmt]) =
            after_join fuel (after_joins fuel (after_joins fuel s self joins1) self joins2) self
              (PMT_GET_PCR mod.pmt) := by
          rw [after_joins_append, after_joins_append]
          rfl
        refine ⟨?_, ?_, ?_, ?_⟩
        · intro q hq
          rcases List.mem_append.mp hq with hq | hq
          · rcases List.mem_append.mp hq with hq | hq
            · exact hj1 q hq
            · exact hj2 q hq
          · rw [List.mem_singleton.mp hq]; exact hpcr
        · rw [hst]; rfl
        · rw [hst]; exact after_demux_ready hr3 lib _
        · rw [hst, after_demux_refs hr3 lib _, hp3, hp2, hp1]
          simp only [List.foldl_append, List.foldl_cons, List.foldl_nil]
      | false =>
        simp only [Bool.false_eq_true, if_false, List.append_nil] at hm hjoins ⊢
        rw [psi_demux_eq hr2 lib _ _]
        subst hm
        subst hjoins
        have hst : after_joins fuel s self (joins1 ++ joins2) =
            after_joins fuel (after_joins fuel s self joins1) self joins2 :=
          after_joins_append _ _ _ _ _
        refine ⟨?_, ?_, ?_, ?_⟩
        · intro q hq
          rcases List.mem_append.mp hq with hq | hq
          · exact hj1 q hq
          · exact hj2 q hq
        · rw [hst]; rfl
        · rw [hst]; exact after_demux_ready hr2 lib _
        · rw [hst, after_demux_refs hr2 lib _, hp2, hp1]
          simp only [List.foldl_append]

theorem on_pmt_new_eq (lib : mpegts_lib) (fuel : Nat) (s : State) (self : Nat)
    (mod : module_data_t) (h : pmt_is_new mod) :
    on_pmt lib fuel s self mod = pmt_rebuild lib fuel s self (pmt_latched mod) :=
  on_pmt_first_seen lib fuel s self mod h.1 h.2.1 h.2.2.1 h.2.2.2.1 h.2.2.2.2

/-! ## Channel: the custom PMT against the inbound section -/

/-- Claim C28, the code at a failing input: with `cas` enabled and no filter,
map or `set_pnr`, the custom PMT built from the 21-byte PMT `pmt_plain` has
21 bytes and differs from the inbound section before the CRC in exactly one
byte: byte 15, the first `ES_info_length` byte of the entry, is `0xF0` in the
section (reserved bits set, length 0) and `0x00` in the custom PMT, while
byte 10, the first `program_info_length` byte, is `0xF0` in both. -/
theorem custom_pmt_clears_reserved_bits :
    (match on_pmt demo_lib 4 chan_tree_pat 1 (load_pmt chan_mod_cas pmt_plain) with
      | .ok (_, m) =>
        some (m.custom_pmt.buffer_size,
          (List.range 17).filter (fun k => m.custom_pmt.buffer k ≠ pmt_plain.getD k 0),
          pmt_plain.getD 15 0, m.custom_pmt.buffer 15, pmt_plain.getD 10 0,
          m.custom_pmt.buffer 10)
      | .error _ => none) = some (21, [15], 0xF0, 0x00, 0xF0, 0xF0) := by
  rw [on_pmt_first_seen demo_lib 4 chan_tree_pat 1 (load_pmt chan_mod_cas pmt_plain)
    (by decide!) (by decide!) (by decide!)
    (by rw [PSI_CALC_CRC32, crc32b_eq_loop]; decide!) (by decide!)]
  decide!

/-- Claim C22, the code at a failing input: `stream_reload` keeps `pid_map`
(the record `chan_mod_map`, in which the rule `video` had sent PID `0x101` to
`0x200`, is reloaded with `pid_map[0x101] = 0x200` and the rule free again).
When the next PMT lists `0x101` as an audio stream and `0x102` as the video
stream, `on_pmt` keeps the PID `0x101` in the first entry of the custom PMT
and writes `0x200` in the second, and `on_ts` then re-emits a packet received
on `0x101` with the PID `0x200`. -/
theorem stale_pid_map_after_reload :
    (∃ s', stream_reload 4 (chan_tree_refs refs_twice) 1 chan_mod_map =
        .ok (s', reload_data chan_mod_map)) ∧
    (reload_data chan_mod_map).pid_map 0x101 = 0x200 ∧
    (reload_data chan_mod_map).map =
      some [{ type := str_video, origin_pid := 0, custom_pid := 0x200, is_set := false }] ∧
    (match on_pmt demo_lib 4 chan_tree_pat 1
        (load_pmt (reload_data chan_mod_map) pmt_swapped) with
      | .ok (s1, m1) =>
        match on_ts demo_lib 4 s1 1 m1 (demo_packet 0x101) [] with
        | .ok (_, m2) =>
          some (PMT_ITEM_GET_PID m1.custom_pmt.buffer 12, PMT_ITEM_GET_PID m1.custom_pmt.buffer 17,
            m2.out.getLast?.map (fun e => match e with | .send ts => TS_GET_PID ts | _ => 0))
        | .error _ => none
      | .error _ => none) = some (0x101, 0x200, some 0x200) := by
  refine ⟨?_, by decide, by decide, ?_⟩
  · have hr : Ready id 4 (chan_tree_refs refs_twice) 1 :=
      chan_tree_refs_ready refs_twice
        (fun p => by unfold refs_twice; split <;> [decide; (split <;> decide)])
    obtain ⟨s', h1, _, _⟩ := stream_reload_spec hr chan_mod_map
    exact ⟨s', h1⟩
  · rw [on_pmt_first_seen demo_lib 4 chan_tree_pat 1
      (load_pmt (reload_data chan_mod_map) pmt_swapped)
      (by decide!) (by decide!) (by decide!)
      (by rw [PSI_CALC_CRC32, crc32b_eq_loop]; decide!) (by decide!)]
    decide!

/-! ## Channel: the bytes of a copied PMT entry -/

theorem map_custom_pid_custom (mod : module_data_t) (pid : Nat) (type : List Nat) :
    (map_custom_pid mod pid type).1.custom_pmt = mod.custom_pmt := by
  unfold map_custom_pid
  split
  · rfl
  · split <;> rfl

theorem pmt_item_map_custom (mod : module_data_t) (psi : ts_psi_t) (pid : Nat)
    (ts_type : ts_type_t) (lang : Option Nat) :
    (pmt_item_map mod psi pid ts_type lang).1.custom_pmt = mod.custom_pmt := by
  unfold pmt_item_map
  cases ts_type <;> simp only [] <;> try exact map_custom_pid_custom _ _ _
  cases lang with
  | none =>
    simp only [if_true]
    exact map_custom_pid_custom _ _ _
  | some dd =>
    simp only []
    split
    · rw [map_custom_pid_custom, map_custom_pid_custom]
    · exact map_custom_pid_custom _ _ _

theorem item_close_buffer (mod : module_data_t) (psi : ts_psi_t) (pid skip_last skip : Nat)
    (ts_type : ts_type_t) (lang : Option Nat) (o : Nat) (h3 : o ≠ skip_last + 3)
    (h4 : o ≠ skip_last + 4)
    (h12 : mod.map = none ∨ (o ≠ skip_last + 1 ∧ o ≠ skip_last + 2)) :
    (item_close mod psi pid skip_last skip ts_type lang).custom_pmt.buffer o =
      mod.custom_pmt.buffer o := by
  unfold item_close
  simp only []
  by_cases hm : mod.map.isSome
  · simp only [hm, if_true]
    have hne : mod.map ≠ none := fun c => by rw [c] at hm; cases hm
    have h12' : o ≠ skip_last + 1 ∧ o ≠ skip_last + 2 := by
      rcases h12 with h | h
      · exact absurd h hne
      · exact h
    split
    · simp only [PMT_ITEM_SET_PID]
      rw [Function.update_noteq h12'.2, Function.update_noteq h12'.1, pmt_item_map_custom]
      simp only []
      rw [Function.update_noteq h4, Function.update_noteq h3]
    · rw [pmt_item_map_custom]
      simp only []
      rw [Function.update_noteq h4, Function.update_noteq h3]
  · simp only [hm, Bool.false_eq_true, if_false]
    rw [Function.update_noteq h4, Function.update_noteq h3]

theorem pmt_entry_bytes (lib : mpegts_lib) (psi : ts_psi_t) (pointer skip : Nat)
    (mod mod3 : module_data_t) (skip2 : Nat) (t2 : ts_type_t) (lang : Option Nat)
    (joins : List Nat)
    (hd : pmt_item_desc_data lib psi pointer (psi.buffer pointer)
      (PMT_ITEM_DESC_SIZE psi.buffer pointer + 1) (pointer + 5) (skip + 5)
      (lib.ts_stream_type (psi.buffer pointer)) none (item_head mod psi pointer skip) =
        some (mod3, skip2, t2, lang, joins))
    (hbound : skip + 5 + PMT_ITEM_DESC_SIZE psi.buffer pointer + 255 < 65536) (pid : Nat) :
    skip + 5 ≤ skip2 ∧ skip2 ≤ skip + 5 + PMT_ITEM_DESC_SIZE psi.buffer pointer + 255 ∧
    (∀ o < skip, (item_close mod3 psi pid skip skip2 t2 lang).custom_pmt.buffer o =
      mod.custom_pmt.buffer o) ∧
    (item_close mod3 psi pid skip skip2 t2 lang).custom_pmt.buffer skip = psi.buffer pointer ∧
    (mod.map = none →
      (item_close mod3 psi pid skip skip2 t2 lang).custom_pmt.buffer (skip + 1) =
        psi.buffer (pointer + 1) ∧
      (item_close mod3 psi pid skip skip2 t2 lang).custom_pmt.buffer (skip + 2) =
        psi.buffer (pointer + 2)) ∧
    ((∀ y ∈ kept_descs mod.config.cas psi.buffer (item_descs psi pointer),
        psi.buffer (y + 1) ≤ 253) →
      skip2 = skip + 5 + (copied_descs mod.config.cas psi.buffer (item_descs psi pointer)).length ∧
      ∀ k, k < (copied_descs mod.config.cas psi.buffer (item_descs psi pointer)).length →
        (item_close mod3 psi pid skip skip2 t2 lang).custom_pmt.buffer (skip + 5 + k) =
          (copied_descs mod.config.cas psi.buffer (item_descs psi pointer)).getD k 0) := by
  have hb1 : skip + 5 + (pointer + 5 + PMT_ITEM_DESC_SIZE psi.buffer pointer - (pointer + 5)) + 255
      < 65536 := by omega
  obtain ⟨w1, w2, w3⟩ := pmt_item_desc_data_writes lib psi pointer (psi.buffer pointer) _ _ _ _ _
    _ _ hd hb1
  have w1' : skip + 5 ≤ skip2 := w1
  have w2' : skip2 ≤ skip + 5 + PMT_ITEM_DESC_SIZE psi.buffer pointer + 255 := by
    have : skip2 ≤ skip + 5 +
      (pointer + 5 + PMT_ITEM_DESC_SIZE psi.buffer pointer - (pointer + 5)) + 255 := w2
    omega
  have w3' : ∀ o < skip + 5, mod3.custom_pmt.buffer o =
      (item_head mod psi pointer skip).custom_pmt.buffer o := w3
  have hstep := pmt_item_desc_data_step (fun _ => False) lib psi pointer (psi.buffer pointer)
    _ _ _ _ _ _ _ hd (Or.inr (fun _ _ h => h))
  have hmap3 : mod.map = none → mod3.map = none := by
    intro h
    have h1 : mod3.map.isSome = (item_head mod psi pointer skip).map.isSome := hstep.map_some
    have h2 : (item_head mod psi pointer skip).map = mod.map := rfl
    rw [h2, h] at h1
    cases hm : mod3.map with
    | none => rfl
    | some l => rw [hm] at h1; cases h1
  refine ⟨w1', w2', fun o ho => ?_, ?_, fun hnone => ⟨?_, ?_⟩, fun hlen => ?_⟩
  · rw [item_close_buffer _ _ _ _ _ _ _ o (by omega) (by omega) (Or.inr ⟨by omega, by omega⟩),
      w3' o (by omega)]
    simp only [item_head, memcpy]
    rw [if_neg (by omega)]
  · rw [item_close_buffer _ _ _ _ _ _ _ skip (by omega) (by omega)
      (Or.inr ⟨by omega, by omega⟩), w3' skip (by omega)]
    simp only [item_head, memcpy]
    rw [if_pos ⟨Nat.le_refl _, by omega⟩, Nat.sub_self, Nat.add_zero]
  · rw [item_close_buffer _ _ _ _ _ _ _ (skip + 1) (by omega) (by omega)
      (Or.inl (hmap3 hnone)), w3' (skip + 1) (by omega)]
    simp only [item_head, memcpy]
    rw [if_pos ⟨by omega, by omega⟩, Nat.add_sub_cancel_left]
  · rw [item_close_buffer _ _ _ _ _ _ _ (skip + 2) (by omega) (by omega)
      (Or.inl (hmap3 hnone)), w3' (skip + 2) (by omega)]
    simp only [item_head, memcpy]
    rw [if_pos ⟨by omega, by omega⟩, Nat.add_sub_cancel_left]
  · have hcfg : (item_head mod psi pointer skip).config = mod.config := rfl
    obtain ⟨a1, a2⟩ := pmt_item_desc_data_bytes lib psi pointer (psi.buffer pointer) _ _ _ _ _
      _ _ hd (by rw [hcfg]; exact hlen) hb1
    rw [hcfg] at a1 a2
    refine ⟨a1, fun k hk => ?_⟩
    rw [item_close_buffer _ _ _ _ _ _ _ (skip + 5 + k) (by omega) (by omega)
      (Or.inr ⟨by omega, by omega⟩)]
    exact a2 k hk

theorem isSome_eq_none {α : Type} {a b : Option α} (h : b.isSome = a.isSome) (ha : a = none) :
    b = none := by
  subst ha
  cases b with
  | none => rfl
  | some x => cases h

/-- Where the entry loop of `on_pmt` writes, for a section of at most 1024
bytes: the write offset never wraps, nothing below the starting offset is
written, and every copied entry keeps its place: its type byte, its PID bytes
(without a map) and the bytes of its kept descriptors (when each has at most
253 payload bytes) are in the final buffer. -/
theorem pmt_items_data_layout (lib : mpegts_lib) (psi : ts_psi_t) (pcr_pid : Nat)
    (hb : ∀ k, psi.buffer k < 256) (hsize : psi.buffer_size ≤ 1024) :
    ∀ (n pointer skip : Nat) (jp : Bool) (mod : module_data_t)
      (r : module_data_t × Nat × Bool × List Nat × List (Nat × Nat)),
      pmt_items_data lib psi pcr_pid n pointer skip jp mod = some r →
      skip ≤ 52 * pointer → skip ≤ 57343 →
      skip ≤ r.2.1 ∧ r.2.1 ≤ 57343 ∧
      (∀ o < skip, r.1.custom_pmt.buffer o = mod.custom_pmt.buffer o) ∧
      r.2.2.2.2.Pairwise (fun a b => a.2 + 5 ≤ b.2) ∧
      ∀ x ∈ r.2.2.2.2, skip ≤ x.2 ∧ x.2 + 5 ≤ r.2.1 ∧
        r.1.custom_pmt.buffer x.2 = psi.buffer x.1 ∧
        (mod.map = none →
          r.1.custom_pmt.buffer (x.2 + 1) = psi.buffer (x.1 + 1) ∧
          r.1.custom_pmt.buffer (x.2 + 2) = psi.buffer (x.1 + 2)) ∧
        ((∀ y ∈ kept_descs mod.config.cas psi.buffer (item_descs psi x.1),
            psi.buffer (y + 1) ≤ 253) →
          x.2 + 5 + (copied_descs mod.config.cas psi.buffer (item_descs psi x.1)).length
            ≤ r.2.1 ∧
          ∀ k, k < (copied_descs mod.config.cas psi.buffer (item_descs psi x.1)).length →
            r.1.custom_pmt.buffer (x.2 + 5 + k) =
              (copied_descs mod.config.cas psi.buffer (item_descs psi x.1)).getD k 0) := by
  intro n
  induction n with
  | zero => intro pointer skip jp mod r h; cases h
  | succ n ih =>
    intro pointer skip jp mod r h h52 hmax
    unfold pmt_items_data at h
    by_cases hend : psi.buffer_size - CRC32_SIZE ≤ pointer
    · simp only [hend, if_true, Option.some.injEq] at h
      subst h
      exact ⟨Nat.le_refl _, hmax, fun _ _ => rfl, List.Pairwise.nil, fun x hx => by cases hx⟩
    · simp only [hend, if_false] at h
      have hD : PMT_ITEM_DESC_SIZE psi.buffer pointer < 4096 := len12_lt _ _ (hb _)
      have hptr : pointer ≤ 1019 := by simp only [CRC32_SIZE] at hend; omega
      by_cases hf : mod.pid_map (PMT_ITEM_GET_PID psi.buffer pointer) = TS_MAX_PIDS
      · simp only [hf, if_true] at h
        exact ih _ _ _ mod r h (by omega) hmax
      · simp only [hf, if_false] at h
        rw [Nat.mod_eq_of_lt (by omega : skip + 5 < 65536)] at h
        cases hd : pmt_item_desc_data lib psi pointer (psi.buffer pointer)
            (PMT_ITEM_DESC_SIZE psi.buffer pointer + 1) (pointer + 5) (skip + 5)
            (lib.ts_stream_type (psi.buffer pointer)) none (item_head mod psi pointer skip) with
        | none => rw [hd] at h; cases h
        | some y =>
          obtain ⟨mod3, skip2, t2, lang, joins⟩ := y
          rw [hd] at h
          simp only [] at h
          obtain ⟨e1, e2, e3, e4, e5, e6⟩ := pmt_entry_bytes lib psi pointer skip mod mod3 skip2
            t2 lang joins hd (by omega) (PMT_ITEM_GET_PID psi.buffer pointer)
          have hs1 := pmt_item_desc_data_step (fun _ => False) lib psi pointer (psi.buffer pointer)
            _ _ _ _ _ _ _ hd (Or.inr (fun _ _ h => h))
          have hs2 := pmtStep_close (fun _ => False) mod3 psi (PMT_ITEM_GET_PID psi.buffer pointer)
            skip skip2 t2 lang (fun h => h)
          have hcfg : (item_close mod3 psi (PMT_ITEM_GET_PID psi.buffer pointer) skip skip2 t2
              lang).config = mod.config := hs2.config.trans hs1.config
          have hmap : mod.map = none →
              (item_close mod3 psi (PMT_ITEM_GET_PID psi.buffer pointer) skip skip2 t2
                lang).map = none := fun hn =>
            isSome_eq_none hs2.map_some (isSome_eq_none hs1.map_some hn)
          cases hrest : pmt_items_data lib psi pcr_pid n
              (pointer + 5 + PMT_ITEM_DESC_SIZE psi.buffer pointer) skip2
              (if PMT_ITEM_GET_PID psi.buffer pointer = pcr_pid then false else jp)
              (item_close mod3 psi (PMT_ITEM_GET_PID psi.buffer pointer) skip skip2 t2
                lang) with
          | none => rw [hrest] at h; cases h
          | some z =>
            rw [hrest] at h
            simp only [Option.map_some', Option.some.injEq] at h
            subst h
            obtain ⟨i1, i2, i3, i4, i5⟩ := ih _ _ _ _ z hrest (by omega) (by omega)
            rw [hcfg] at i5
            simp only []
            refine ⟨by omega, i2, fun o ho => ?_, ?_, fun x hx => ?_⟩
            · rw [i3 o (by omega)]
              exact e3 o ho
            · refine List.Pairwise.cons (fun y hy => ?_) i4
              have := (i5 y hy).1
              show skip + 5 ≤ y.2
              omega
            · rcases List.mem_cons.mp hx with hx | hx
              · subst hx
                simp only []
                refine ⟨Nat.le_refl _, by omega, ?_, fun hn => ⟨?_, ?_⟩, fun hlen => ?_⟩
                · show z.1.custom_pmt.buffer skip = _
                  rw [i3 skip (by omega)]
                  exact e4
                · show z.1.custom_pmt.buffer (skip + 1) = _
                  rw [i3 (skip + 1) (by omega)]
                  exact (e5 hn).1
                · show z.1.custom_pmt.buffer (skip + 2) = _
                  rw [i3 (skip + 2) (by omega)]
                  exact (e5 hn).2
                · obtain ⟨f1, f2⟩ := e6 hlen
                  refine ⟨by omega, fun k hk => ?_⟩
                  show z.1.custom_pmt.buffer (skip + 5 + k) = _
                  rw [i3 (skip + 5 + k) (by omega)]
                  exact f2 k hk
              · obtain ⟨g1, g2, g3, g4, g5⟩ := i5 x hx
                exact ⟨by omega, g2, g3, fun hn => g4 (hmap hn), g5⟩

/-! ## Channel: the layout of the rebuilt custom PMT -/

theorem pid_field_mod (u p : Nat) (hu : u &&& 0x1F = 0) :
    (((u ||| ((p >>> 8) &&& 0x1F)) &&& 0x1F) <<< 8) ||| (p &&& 0xFF) = p % 8192 := by
  rw [or_and_mask, hu, Nat.zero_or, Nat.and_assoc]
  have h1 : (0x1F : Nat) &&& 0x1F = 2 ^ 5 - 1 := by decide
  have h2 : (0xFF : Nat) = 2 ^ 8 - 1 := by decide
  rw [h1, h2, Nat.and_pow_two_sub_one_eq_mod, Nat.and_pow_two_sub_one_eq_mod,
    Nat.shiftRight_eq_div_pow, Nat.shiftLeft_eq, Nat.mul_comm,
    ← Nat.mul_add_lt_is_or (Nat.mod_lt _ (by decide))]
  omega

theorem pmt_seal_frame (mod : module_data_t) (pcr_pid : Nat) :
    (pmt_seal mod pcr_pid).custom_pmt.buffer_size = mod.custom_pmt.buffer_size ∧
    (pmt_seal mod pcr_pid).custom_pmt.pid = mod.custom_pmt.pid ∧
    (pmt_seal mod pcr_pid).custom_pmt.cc = mod.custom_pmt.cc ∧
    (pmt_seal mod pcr_pid).config = mod.config ∧ (pmt_seal mod pcr_pid).pmt = mod.pmt ∧
    (pmt_seal mod pcr_pid).out = mod.out ∧ (pmt_seal mod pcr_pid).map = mod.map ∧
    (pmt_seal mod pcr_pid).pid_map = mod.pid_map ∧
    (pmt_seal mod pcr_pid).stream = mod.stream := by
  unfold pmt_seal
  simp only []
  split <;> exact ⟨rfl, rfl, rfl, rfl, rfl, rfl, rfl, rfl, rfl⟩

theorem pmt_seal_buffer (mod : module_data_t) (pcr_pid o : Nat) (h1 : o ≠ 1) (h2 : o ≠ 2)
    (h8 : o ≠ 8) (h9 : o ≠ 9) (ho : o < mod.custom_pmt.buffer_size - CRC32_SIZE) :
    (pmt_seal mod pcr_pid).custom_pmt.buffer o = mod.custom_pmt.buffer o := by
  unfold pmt_seal
  simp only []
  rw [PSI_SET_CRC32_below _ o (by
    have : ∀ c : ts_psi_t, (PSI_SET_SIZE c).buffer_size = c.buffer_size := fun _ => rfl
    rw [this]
    split <;> exact ho)]
  simp only [PSI_SET_SIZE]
  rw [Function.update_noteq h2, Function.update_noteq h1]
  split
  · simp only [PMT_SET_PCR]
    rw [Function.update_noteq h9, Function.update_noteq h8]
  · rfl

theorem pmt_seal_pcr (mod : module_data_t) (pcr_pid : Nat)
    (hs : 14 ≤ mod.custom_pmt.buffer_size) :
    PMT_GET_PCR (pmt_seal mod pcr_pid).custom_pmt =
      if mod.map.isSome ∧ mod.pid_map pcr_pid ≠ 0 then mod.pid_map pcr_pid % 8192
      else PMT_GET_PCR mod.custom_pmt := by
  have hsz : ∀ c : ts_psi_t, (PSI_SET_SIZE c).buffer_size = c.buffer_size := fun _ => rfl
  unfold pmt_seal PMT_GET_PCR
  simp only []
  by_cases hc : mod.map.isSome ∧ mod.pid_map pcr_pid ≠ 0
  · rw [if_pos hc, if_pos hc,
      PSI_SET_CRC32_below _ 8 (by rw [hsz]; simp only [PMT_SET_PCR, CRC32_SIZE]; omega),
      PSI_SET_CRC32_below _ 9 (by rw [hsz]; simp only [PMT_SET_PCR, CRC32_SIZE]; omega)]
    simp only [PSI_SET_SIZE, PMT_SET_PCR]
    rw [Function.update_noteq (by decide), Function.update_noteq (by decide),
      Function.update_noteq (by decide), Function.update_same,
      Function.update_noteq (by decide), Function.update_noteq (by decide), Function.update_same]
    exact pid_field_mod 0xE0 _ (by decide)
  · rw [if_neg hc, if_neg hc,
      PSI_SET_CRC32_below _ 8 (by rw [hsz]; simp only [CRC32_SIZE]; omega),
      PSI_SET_CRC32_below _ 9 (by rw [hsz]; simp only [CRC32_SIZE]; omega)]
    simp only [PSI_SET_SIZE]
    rw [Function.update_noteq (by decide), Function.update_noteq (by decide),
      Function.update_noteq (by decide), Function.update_noteq (by decide)]

theorem pcr_mark_frame (mod : module_data_t) (pcr_pid : Nat) :
    (pcr_mark mod pcr_pid).custom_pmt = mod.custom_pmt ∧
    (pcr_mark mod pcr_pid).config = mod.config ∧ (pcr_mark mod pcr_pid).pmt = mod.pmt ∧
    (pcr_mark mod pcr_pid).out = mod.out ∧ (pcr_mark mod pcr_pid).map = mod.map ∧
    (pcr_mark mod pcr_pid).stream pcr_pid = .PES ∧
    (pcr_mark mod pcr_pid).pid_map pcr_pid =
      (if mod.pid_map pcr_pid = TS_MAX_PIDS then 0 else mod.pid_map pcr_pid) ∧
    (∀ q, q ≠ pcr_pid → (pcr_mark mod pcr_pid).stream q = mod.stream q ∧
      (pcr_mark mod pcr_pid).pid_map q = mod.pid_map q) := by
  unfold pcr_mark
  simp only []
  split
  · refine ⟨rfl, rfl, rfl, rfl, rfl, Function.update_same _ _ _, Function.update_same _ _ _,
      fun q hq => ⟨Function.update_noteq hq _ _, Function.update_noteq hq _ _⟩⟩
  · exact ⟨rfl, rfl, rfl, rfl, rfl, Function.update_same _ _ _, rfl,
      fun q hq => ⟨Function.update_noteq hq _ _, rfl⟩⟩

theorem pmt_info_close_frame (mod : module_data_t) (skip : Nat) :
    (pmt_info_close mod skip).config = mod.config ∧ (pmt_info_close mod skip).pmt = mod.pmt ∧
    (pmt_info_close mod skip).out = mod.out ∧ (pmt_info_close mod skip).map = mod.map ∧
    (pmt_info_close mod skip).pid_map = mod.pid_map ∧
    (pmt_info_close mod skip).stream = mod.stream ∧
    (pmt_info_close mod skip).custom_pmt.pid = mod.custom_pmt.pid ∧
    (pmt_info_close mod skip).custom_pmt.cc = mod.custom_pmt.cc ∧
    ∀ o, o ≠ 3 → o ≠ 4 → o ≠ 10 → o ≠ 11 →
      (pmt_info_close mod skip).custom_pmt.buffer o = mod.custom_pmt.buffer o := by
  unfold pmt_info_close
  simp only []
  split
  · refine ⟨rfl, rfl, rfl, rfl, rfl, rfl, rfl, rfl, fun o h3 h4 h10 h11 => ?_⟩
    simp only [PMT_SET_PNR]
    rw [Function.update_noteq h4, Function.update_noteq h3, Function.update_noteq h11,
      Function.update_noteq h10]
  · refine ⟨rfl, rfl, rfl, rfl, rfl, rfl, rfl, rfl, fun o _ _ h10 h11 => ?_⟩
    simp only [Function.update_noteq h11, Function.update_noteq h10]

/-- The parts of `pmt_data`: the two loops, then the PCR block and the
seal. -/
theorem pmt_data_parts (lib : mpegts_lib) (mod m : module_data_t) (joins : List Nat)
    (copied : List (Nat × Nat)) (h : pmt_data lib mod = some (m, joins, copied)) :
    ∃ mod2 skip j1 mod5 skip2 jp j2,
      pmt_desc_data mod.pmt (PMT_DESC_SIZE mod.pmt + 1) 12 12 (pmt_head mod) =
        some (mod2, skip, j1) ∧
      pmt_items_data lib mod.pmt (PMT_GET_PCR mod.pmt) (mod.pmt.buffer_size + 1)
        (PMT_ITEMS_FIRST mod.pmt) skip true (pmt_info_close mod2 skip) =
        some (mod5, skip2, jp, j2, copied) ∧
      joins = j1 ++ j2 ++ (if jp then [PMT_GET_PCR mod.pmt] else []) ∧
      m = pmt_seal
        (if jp then pcr_mark { mod5 with custom_pmt := { mod5.custom_pmt with
            buffer_size := skip2 + CRC32_SIZE } } (PMT_GET_PCR mod.pmt)
          else { mod5 with custom_pmt := { mod5.custom_pmt with
            buffer_size := skip2 + CRC32_SIZE } }) (PMT_GET_PCR mod.pmt) := by
  unfold pmt_data at h
  simp only [] at h
  cases h1 : pmt_desc_data mod.pmt (PMT_DESC_SIZE mod.pmt + 1) 12 12 (pmt_head mod) with
  | none => rw [h1] at h; cases h
  | some x1 =>
    obtain ⟨mod2, skip, j1⟩ := x1
    rw [h1] at h
    simp only [] at h
    cases h2 : pmt_items_data lib mod.pmt (PMT_GET_PCR mod.pmt) (mod.pmt.buffer_size + 1)
        (PMT_ITEMS_FIRST mod.pmt) skip true (pmt_info_close mod2 skip) with
    | none => rw [h2] at h; cases h
    | some x2 =>
      obtain ⟨mod5, skip2, jp, j2, cp⟩ := x2
      rw [h2] at h
      simp only [Option.some.injEq, Prod.mk.injEq] at h
      obtain ⟨hm, hj, hc⟩ := h
      subst hc
      exact ⟨mod2, skip, j1, mod5, skip2, jp, j2, rfl, h2, hj.symm, hm.symm⟩

/-! ## Channel: what the rebuild of the custom PMT keeps -/

theorem pmtStep_of_frame (P : Nat → Prop) (mod mod' : module_data_t)
    (h1 : mod'.config = mod.config) (h2 : mod'.pmt = mod.pmt) (h3 : mod'.out = mod.out)
    (h4 : mod'.custom_pmt.pid = mod.custom_pmt.pid) (h5 : mod'.custom_pmt.cc = mod.custom_pmt.cc)
    (h6 : mod'.map = mod.map) (h7 : mod'.pid_map = mod.pid_map)
    (h8 : mod'.stream = mod.stream) : PmtStep P mod mod' [] :=
  ⟨h1, h2, h3, ⟨h4, h5⟩, by rw [h6], fun h l hl => h l (by rw [← h6]; exact hl),
    fun _ _ => by rw [h7], fun _ _ => by rw [h8], fun _ h => (by cases h),
    fun _ q h => by rw [h7]; exact h, fun q h => by rw [h8]; exact h⟩

theorem pmtStep_pmt_head (P : Nat → Prop) (mod : module_data_t) : PmtStep P mod (pmt_head mod) [] :=
  pmtStep_of_frame P mod _ rfl rfl rfl rfl rfl rfl rfl rfl

theorem pmtStep_info_close (P : Nat → Prop) (mod : module_data_t) (skip : Nat) :
    PmtStep P mod (pmt_info_close mod skip) [] := by
  obtain ⟨h1, h2, h3, h4, h5, h6, h7, h8, _⟩ := pmt_info_close_frame mod skip
  exact pmtStep_of_frame P mod _ h1 h2 h3 h7 h8 h4 h5 h6

theorem pmtStep_seal (P : Nat → Prop) (mod : module_data_t) (pcr_pid : Nat) :
    PmtStep P mod (pmt_seal mod pcr_pid) [] := by
  obtain ⟨_, h2, h3, h4, h5, h6, h7, h8, h9⟩ := pmt_seal_frame mod pcr_pid
  exact pmtStep_of_frame P mod _ h4 h5 h6 h2 h3 h7 h8 h9

theorem pmtStep_pcr_mark (P : Nat → Prop) (mod : module_data_t) (pcr_pid : Nat)
    (hp : ¬ P pcr_pid) : PmtStep P mod (pcr_mark mod pcr_pid) [pcr_pid] := by
  obtain ⟨h1, h2, h3, h4, h5, h6, h7, h8⟩ := pcr_mark_frame mod pcr_pid
  refine ⟨h2, h3, h4, ⟨by rw [h1], by rw [h1]⟩, by rw [h5],
    fun h l hl => h l (by rw [← h5]; exact hl), fun q hq => ?_, fun q hq => ?_,
    fun q hq => ?_, fun _ q hq => ?_, fun q hq => ?_⟩
  · exact (h8 q (fun c => hp (c ▸ hq))).2
  · exact (h8 q (fun c => hp (c ▸ hq))).1
  · rw [List.mem_singleton.mp hq]; exact hp
  · by_cases hc : q = pcr_pid
    · subst hc
      rw [h7]
      split
      · decide
      · exact hq
    · rw [(h8 q hc).2]; exact hq
  · by_cases hc : q = pcr_pid
    · subst hc; exact h6
    · rw [(h8 q hc).1]; exact hq

/-- The two loops of the rebuild of the custom PMT, relative to a set `P` of
filtered PIDs that no CA descriptor names while `cas` is on. -/
theorem pmt_loops_step (P : Nat → Prop) (lib : mpegts_lib) (mod mod2 mod5 : module_data_t)
    (skip skip2 : Nat) (jp : Bool) (j1 j2 : List Nat) (copied : List (Nat × Nat))
    (h1 : pmt_desc_data mod.pmt (PMT_DESC_SIZE mod.pmt + 1) 12 12 (pmt_head mod) =
      some (mod2, skip, j1))
    (h2 : pmt_items_data lib mod.pmt (PMT_GET_PCR mod.pmt) (mod.pmt.buffer_size + 1)
      (PMT_ITEMS_FIRST mod.pmt) skip true (pmt_info_close mod2 skip) =
      some (mod5, skip2, jp, j2, copied))
    (hP : ∀ q, P q → mod.pid_map q = TS_MAX_PIDS)
    (hca : mod.config.cas = false ∨ ∀ q ∈ pmt_ca_pids mod.pmt, ¬ P q) :
    PmtStep P mod (pmt_info_close mod2 skip) j1 ∧
    PmtStep P (pmt_info_close mod2 skip) mod5 j2 ∧
    (∀ x ∈ copied, ¬ P (PMT_ITEM_GET_PID mod.pmt.buffer x.1)) ∧
    (∀ x ∈ copied, PMT_ITEM_GET_PID mod.pmt.buffer x.1 ∈ j2) ∧
    (MapOk mod → (∀ q, mod.pid_map q = TS_MAX_PIDS → P q) →
      copied.map Prod.fst = (pmt_items mod.pmt).filter
        (fun ptr => decide (mod.pid_map (PMT_ITEM_GET_PID mod.pmt.buffer ptr) ≠ TS_MAX_PIDS))) := by
  have s0 := pmtStep_pmt_head P mod
  have s1 : PmtStep P (pmt_head mod) mod2 j1 :=
    pmt_desc_data_step P mod.pmt _ _ _ _ _ h1 (by
      rcases hca with h | h
      · exact Or.inl h
      · refine Or.inr (fun q hq => h q ?_)
        unfold pmt_ca_pids
        exact List.mem_append_left _ hq)
  have s2 := pmtStep_info_close P mod2 skip
  have s012 : PmtStep P mod (pmt_info_close mod2 skip) j1 := by
    have := (s0.trans s1).trans s2
    simpa using this
  obtain ⟨t1, t2, t3, t4⟩ := pmt_items_data_step P lib mod.pmt (PMT_GET_PCR mod.pmt) _ _ _ _ _ _
    h2 (fun q hq => by rw [s012.marker q hq]; exact hP q hq) (by
      rcases hca with h | h
      · exact Or.inl (by rw [s012.config]; exact h)
      · refine Or.inr (fun q hq => h q ?_)
        unfold pmt_ca_pids
        exact List.mem_append_right _ hq)
  refine ⟨s012, t1, t2, t3, fun hok hall => ?_⟩
  have hiff : ∀ q, (pmt_info_close mod2 skip).pid_map q = TS_MAX_PIDS ↔
      mod.pid_map q = TS_MAX_PIDS := by
    intro q
    constructor
    · intro hq
      by_contra hc
      exact s012.nf hok q hc hq
    · intro hq
      rw [s012.marker q (hall q hq)]
      exact hq
  have h4 := t4 (s012.map_ok hok) (fun q hq => hall q ((hiff q).mp hq))
  rw [h4]
  unfold pmt_items
  apply List.filter_congr
  intro ptr _
  simp only [decide_eq_decide, ne_eq, not_iff_not]
  exact hiff _

/-- The layout of the custom PMT after the two loops, for a section of at most
1024 bytes: header bytes, program descriptors from offset 12, and the copied
entries, each at its own offset. -/
theorem pmt_loops_layout (lib : mpegts_lib) (mod mod2 mod5 : module_data_t)
    (skip skip2 : Nat) (jp : Bool) (j1 j2 : List Nat) (copied : List (Nat × Nat))
    (h1 : pmt_desc_data mod.pmt (PMT_DESC_SIZE mod.pmt + 1) 12 12 (pmt_head mod) =
      some (mod2, skip, j1))
    (h2 : pmt_items_data lib mod.pmt (PMT_GET_PCR mod.pmt) (mod.pmt.buffer_size + 1)
      (PMT_ITEMS_FIRST mod.pmt) skip true (pmt_info_close mod2 skip) =
      some (mod5, skip2, jp, j2, copied))
    (hb : ∀ k, mod.pmt.buffer k < 256) (hsize : mod.pmt.buffer_size ≤ 1024) :
    12 ≤ skip ∧ skip ≤ skip2 ∧ skip2 ≤ 57343 ∧
    (∀ o, o < 10 → o ≠ 3 → o ≠ 4 → mod5.custom_pmt.buffer o = mod.pmt.buffer o) ∧
    copied.Pairwise (fun a b => a.2 + 5 ≤ b.2) ∧
    (∀ x ∈ copied, skip ≤ x.2 ∧ x.2 + 5 ≤ skip2 ∧
      mod5.custom_pmt.buffer x.2 = mod.pmt.buffer x.1 ∧
      (mod.map = none →
        mod5.custom_pmt.buffer (x.2 + 1) = mod.pmt.buffer (x.1 + 1) ∧
        mod5.custom_pmt.buffer (x.2 + 2) = mod.pmt.buffer (x.1 + 2)) ∧
      ((∀ y ∈ kept_descs mod.config.cas mod.pmt.buffer (item_descs mod.pmt x.1),
          mod.pmt.buffer (y + 1) ≤ 253) →
        x.2 + 5 + (copied_descs mod.config.cas mod.pmt.buffer (item_descs mod.pmt x.1)).length
          ≤ skip2 ∧
        ∀ k, k < (copied_descs mod.config.cas mod.pmt.buffer (item_descs mod.pmt x.1)).length →
          mod5.custom_pmt.buffer (x.2 + 5 + k) =
            (copied_descs mod.config.cas mod.pmt.buffer (item_descs mod.pmt x.1)).getD k 0)) ∧
    ((∀ y ∈ kept_descs mod.config.cas mod.pmt.buffer (pmt_descs mod.pmt),
        mod.pmt.buffer (y + 1) ≤ 253) →
      skip = 12 + (copied_descs mod.config.cas mod.pmt.buffer (pmt_descs mod.pmt)).length ∧
      ∀ k, k < (copied_descs mod.config.cas mod.pmt.buffer (pmt_descs mod.pmt)).length →
        mod5.custom_pmt.buffer (12 + k) =
          (copied_descs mod.config.cas mod.pmt.buffer (pmt_descs mod.pmt)).getD k 0) := by
  have hDp : PMT_DESC_SIZE mod.pmt < 4096 := len12_lt _ _ (hb _)
  have hbd : 12 + (12 + PMT_DESC_SIZE mod.pmt - 12) + 255 < 65536 := by omega
  obtain ⟨w1, w2, w3⟩ := pmt_desc_data_writes mod.pmt _ _ _ _ _ h1 hbd
  have w1' : 12 ≤ skip := w1
  have w2' : skip ≤ 12 + PMT_DESC_SIZE mod.pmt + 255 := by
    have : skip ≤ 12 + (12 + PMT_DESC_SIZE mod.pmt - 12) + 255 := w2
    omega
  have w3' : ∀ o < 12, mod2.custom_pmt.buffer o = (pmt_head mod).custom_pmt.buffer o := w3
  obtain ⟨c1, _, _, c4, _, _, _, _, c9⟩ := pmt_info_close_frame mod2 skip
  have sd := pmt_desc_data_step (fun _ => False) mod.pmt _ _ _ _ _ h1 (Or.inr (fun _ _ h => h))
  have hcfg : (pmt_info_close mod2 skip).config = mod.config := by
    rw [c1, sd.config]; rfl
  have hmap : mod.map = none → (pmt_info_close mod2 skip).map = none := fun hn => by
    rw [c4]
    exact isSome_eq_none sd.map_some (by show mod.map = none; exact hn)
  obtain ⟨i1, i2, i3, i4, i5⟩ := pmt_items_data_layout lib mod.pmt (PMT_GET_PCR mod.pmt) hb hsize
    _ _ _ _ _ _ h2 (by simp only [PMT_ITEMS_FIRST]; omega) (by omega)
  rw [hcfg] at i5
  refine ⟨w1', i1, i2, fun o ho h3 h4 => ?_, i4, fun x hx => ?_, fun hlen => ?_⟩
  · have e1 : mod5.custom_pmt.buffer o = (pmt_info_close mod2 skip).custom_pmt.buffer o :=
      i3 o (by omega)
    rw [e1, c9 o h3 h4 (by omega) (by omega), w3' o (by omega)]
    simp only [pmt_head, memcpy]
    rw [if_pos ⟨Nat.zero_le _, by omega⟩, Nat.zero_add, Nat.sub_zero]
  · obtain ⟨g1, g2, g3, g4, g5⟩ := i5 x hx
    exact ⟨g1, g2, g3, fun hn => g4 (hmap hn), g5⟩
  · have hcfg0 : (pmt_head mod).config = mod.config := rfl
    obtain ⟨a1, a2⟩ := pmt_desc_data_bytes mod.pmt _ _ _ _ _ h1
      (by rw [hcfg0]; exact hlen) hbd
    rw [hcfg0] at a1 a2
    refine ⟨a1, fun k hk => ?_⟩
    have hk' : 12 + k < skip := by
      have : skip = 12 + (copied_descs mod.config.cas mod.pmt.buffer (pmt_descs mod.pmt)).length :=
        a1
      omega
    have e1 : mod5.custom_pmt.buffer (12 + k) =
        (pmt_info_close mod2 skip).custom_pmt.buffer (12 + k) := i3 _ hk'
    rw [e1, c9 (12 + k) (by omega) (by omega) (by omega) (by omega)]
    exact a2 k hk

/-- The custom PMT after the seal: size, bytes kept from the loops, and the PCR
PID field. -/
theorem pmt_sealed_layout (mod5 : module_data_t) (skip2 pcr_pid : Nat) (jp : Bool)
    (hs : 12 ≤ skip2) :
    let m := pmt_seal
      (if jp then pcr_mark { mod5 with custom_pmt := { mod5.custom_pmt with
          buffer_size := skip2 + CRC32_SIZE } } pcr_pid
        else { mod5 with custom_pmt := { mod5.custom_pmt with
          buffer_size := skip2 + CRC32_SIZE } }) pcr_pid
    m.custom_pmt.buffer_size = skip2 + CRC32_SIZE ∧
    (∀ o, o < skip2 → o ≠ 1 → o ≠ 2 → o ≠ 8 → o ≠ 9 →
      m.custom_pmt.buffer o = mod5.custom_pmt.buffer o) ∧
    PMT_GET_PCR m.custom_pmt =
      (if m.map.isSome ∧ m.pid_map pcr_pid ≠ 0 then m.pid_map pcr_pid % 8192
        else PMT_GET_PCR mod5.custom_pmt) := by
  intro m
  have hcp : (if jp then pcr_mark { mod5 with custom_pmt := { mod5.custom_pmt with
          buffer_size := skip2 + CRC32_SIZE } } pcr_pid
        else { mod5 with custom_pmt := { mod5.custom_pmt with
          buffer_size := skip2 + CRC32_SIZE } }).custom_pmt =
      { mod5.custom_pmt with buffer_size := skip2 + CRC32_SIZE } := by
    cases jp
    · rfl
    · exact (pcr_mark_frame _ _).1
  obtain ⟨f1, _, _, _, _, _, f7, f8, _⟩ := pmt_seal_frame
    (if jp then pcr_mark { mod5 with custom_pmt := { mod5.custom_pmt with
          buffer_size := skip2 + CRC32_SIZE } } pcr_pid
        else { mod5 with custom_pmt := { mod5.custom_pmt with
          buffer_size := skip2 + CRC32_SIZE } }) pcr_pid
  refine ⟨?_, fun o ho o1 o2 o8 o9 => ?_, ?_⟩
  · show (pmt_seal _ _).custom_pmt.buffer_size = _
    rw [f1, hcp]
  · show (pmt_seal _ _).custom_pmt.buffer o = _
    rw [pmt_seal_buffer _ _ o o1 o2 o8 o9 (by rw [hcp]; simp only [CRC32_SIZE]; omega), hcp]
  · show PMT_GET_PCR (pmt_seal _ _).custom_pmt = _
    rw [pmt_seal_pcr _ _ (by rw [hcp]; simp only [CRC32_SIZE]; omega)]
    have e1 : m.map = _ := f7
    have e2 : m.pid_map = _ := f8
    rw [e1, e2, hcp]
    rfl

/-! ## Channel: invariants of the PMT loops -/

theorem pmt_desc_data_inv (I : module_data_t → Prop)
    (hca : ∀ m buf desc, I m → I (ca_data m buf desc).1)
    (hcopy : ∀ m psi desc skip, I m → I (desc_copy m psi desc skip)) (psi : ts_psi_t) :
    ∀ (n desc skip : Nat) (mod : module_data_t) (r : module_data_t × Nat × List Nat),
      pmt_desc_data psi n desc skip mod = some r → I mod → I r.1 := by
  intro n
  induction n with
  | zero => intro desc skip mod r h; cases h
  | succ n ih =>
    intro desc skip mod r h hI
    unfold pmt_desc_data at h
    by_cases hend : 12 + PMT_DESC_SIZE psi ≤ desc
    · simp only [hend, if_true, Option.some.injEq] at h
      subst h
      exact hI
    · simp only [hend, if_false] at h
      by_cases hskip : psi.buffer desc = 0x09 ∧ mod.config.cas = false
      · simp only [hskip, and_self, if_true] at h
        exact ih _ _ mod r h hI
      · simp only [hskip, if_false] at h
        cases hd : pmt_desc_data psi n (desc + 2 + psi.buffer (desc + 1))
            ((skip + (psi.buffer (desc + 1) + 2) % 256) % 65536)
            (desc_copy (if psi.buffer desc = 0x09 then ca_data mod psi.buffer desc
              else (mod, [])).1 psi desc skip) with
        | none => rw [hd] at h; cases h
        | some x =>
          rw [hd] at h
          simp only [Option.map_some', Option.some.injEq] at h
          subst h
          refine ih _ _ _ x hd (hcopy _ _ _ _ ?_)
          split
          · exact hca _ _ _ hI
          · exact hI

theorem pmt_item_desc_data_inv (I : module_data_t → Prop)
    (hca : ∀ m buf desc, I m → I (ca_data m buf desc).1)
    (hcopy : ∀ m psi desc skip, I m → I (desc_copy m psi desc skip))
    (lib : mpegts_lib) (psi : ts_psi_t) (pointer item_type : Nat) :
    ∀ (n desc skip : Nat) (ts_type : ts_type_t) (lang : Option Nat) (mod : module_data_t)
      (r : module_data_t × Nat × ts_type_t × Option Nat × List Nat),
      pmt_item_desc_data lib psi pointer item_type n desc skip ts_type lang mod = some r →
      I mod → I r.1 := by
  intro n
  induction n with
  | zero => intro desc skip ts_type lang mod r h; cases h
  | succ n ih =>
    intro desc skip ts_type lang mod r h hI
    unfold pmt_item_desc_data at h
    by_cases hend : pointer + 5 + PMT_ITEM_DESC_SIZE psi.buffer pointer ≤ desc
    · simp only [hend, if_true, Option.some.injEq] at h
      subst h
      exact hI
    · simp only [hend, if_false] at h
      by_cases hskip : psi.buffer desc = 0x09 ∧ mod.config.cas = false
      · simp only [hskip, and_self, if_true] at h
        exact ih _ _ _ _ mod r h hI
      · simp only [hskip, if_false] at h
        cases hd : pmt_item_desc_data lib psi pointer item_type n
            (desc + 2 + psi.buffer (desc + 1))
            ((skip + (psi.buffer (desc + 1) + 2) % 256) % 65536)
            (if psi.buffer desc ≠ 0x09 ∧ psi.buffer desc ≠ 0x0A ∧ item_type = 0x06 ∧
                ts_type = .DATA then lib.ts_priv_type (psi.buffer desc) else ts_type)
            (if psi.buffer desc = 0x0A then some desc else lang)
            (desc_copy (if psi.buffer desc = 0x09 then ca_data mod psi.buffer desc
              else (mod, [])).1 psi desc skip) with
        | none => rw [hd] at h; cases h
        | some x =>
          rw [hd] at h
          simp only [Option.map_some', Option.some.injEq] at h
          subst h
          refine ih _ _ _ _ _ x hd (hcopy _ _ _ _ ?_)
          split
          · exact hca _ _ _ hI
          · exact hI

theorem pmt_items_data_inv (I : module_data_t → Prop)
    (hca : ∀ m buf desc, I m → I (ca_data m buf desc).1)
    (hcopy : ∀ m psi desc skip, I m → I (desc_copy m psi desc skip))
    (hhead : ∀ m psi pointer skip, I m → I (item_head m psi pointer skip))
    (hclose : ∀ m psi pid sl sk t l, I m → I (item_close m psi pid sl sk t l))
    (lib : mpegts_lib) (psi : ts_psi_t) (pcr_pid : Nat) :
    ∀ (n pointer skip : Nat) (jp : Bool) (mod : module_data_t)
      (r : module_data_t × Nat × Bool × List Nat × List (Nat × Nat)),
      pmt_items_data lib psi pcr_pid n pointer skip jp mod = some r → I mod → I r.1 := by
  intro n
  induction n with
  | zero => intro pointer skip jp mod r h; cases h
  | succ n ih =>
    intro pointer skip jp mod r h hI
    unfold pmt_items_data at h
    by_cases hend : psi.buffer_size - CRC32_SIZE ≤ pointer
    · simp only [hend, if_true, Option.some.injEq] at h
      subst h
      exact hI
    · simp only [hend, if_false] at h
      by_cases hf : mod.pid_map (PMT_ITEM_GET_PID psi.buffer pointer) = TS_MAX_PIDS
      · simp only [hf, if_true] at h
        exact ih _ _ _ mod r h hI
      · simp only [hf, if_false] at h
        cases hd : pmt_item_desc_data lib psi pointer (psi.buffer pointer)
            (PMT_ITEM_DESC_SIZE psi.buffer pointer + 1) (pointer + 5) ((skip + 5) % 65536)
            (lib.ts_stream_type (psi.buffer pointer)) none (item_head mod psi pointer skip) with
        | none => rw [hd] at h; cases h
        | some y =>
          obtain ⟨mod3, skip2, t2, lang, joins⟩ := y
          rw [hd] at h
          simp only [] at h
          have h3 : I mod3 := pmt_item_desc_data_inv I hca hcopy lib psi pointer _ _ _ _ _ _ _ _
            hd (hhead _ _ _ _ hI)
          cases hrest : pmt_items_data lib psi pcr_pid n
              (pointer + 5 + PMT_ITEM_DESC_SIZE psi.buffer pointer) skip2
              (if PMT_ITEM_GET_PID psi.buffer pointer = pcr_pid then false else jp)
              (item_close mod3 psi (PMT_ITEM_GET_PID psi.buffer pointer) skip skip2 t2
                lang) with
          | none => rw [hrest] at h; cases h
          | some z =>
            rw [hrest] at h
            simp only [Option.map_some', Option.some.injEq] at h
            subst h
            exact ih _ _ _ _ z hrest (hclose _ _ _ _ _ _ _ h3)

theorem map_custom_pid_bound (mod : module_data_t) (pid : Nat) (type : List Nat)
    (h : MapOk mod ∧ PidMapOk mod) :
    MapOk (map_custom_pid mod pid type).1 ∧ PidMapOk (map_custom_pid mod pid type).1 := by
  refine ⟨(pmtStep_map (fun _ => False) mod pid type (fun c => c)).map_ok h.1, ?_⟩
  unfold map_custom_pid
  cases hm : mod.map with
  | none => exact h.2
  | some l =>
    simp only []
    cases ht : map_take l pid type with
    | none => exact h.2
    | some x =>
      obtain ⟨l1, c⟩ := x
      simp only []
      intro q
      show Function.update mod.pid_map pid c q ≤ TS_MAX_PIDS
      by_cases hq : q = pid
      · subst hq
        rw [Function.update_same]
        obtain ⟨item, hi, hc⟩ := map_take_pid _ _ l l1 c ht
        rw [← hc]
        exact Nat.le_of_lt (h.1 l hm item hi)
      · rw [Function.update_noteq hq]
        exact h.2 q

theorem pmt_item_map_bound (mod : module_data_t) (psi : ts_psi_t) (pid : Nat)
    (ts_type : ts_type_t) (lang : Option Nat) (h : MapOk mod ∧ PidMapOk mod) :
    MapOk (pmt_item_map mod psi pid ts_type lang).1 ∧
      PidMapOk (pmt_item_map mod psi pid ts_type lang).1 := by
  unfold pmt_item_map
  cases ts_type <;> simp only [] <;> try exact map_custom_pid_bound _ _ _ h
  cases lang with
  | none =>
    simp only [if_true]
    exact map_custom_pid_bound _ _ _ h
  | some dd =>
    simp only []
    split
    · exact map_custom_pid_bound _ _ _ (map_custom_pid_bound _ _ _ h)
    · exact map_custom_pid_bound _ _ _ h

theorem item_close_bound (mod : module_data_t) (psi : ts_psi_t) (pid sl sk : Nat)
    (t : ts_type_t) (l : Option Nat) (h : MapOk mod ∧ PidMapOk mod) :
    MapOk (item_close mod psi pid sl sk t l) ∧ PidMapOk (item_close mod psi pid sl sk t l) := by
  unfold item_close
  simp only []
  split
  · split
    · exact pmt_item_map_bound _ psi pid t l h
    · exact pmt_item_map_bound _ psi pid t l h
  · exact h

theorem ca_data_bound (mod : module_data_t) (buf : Nat → Nat) (desc : Nat)
    (h : MapOk mod ∧ PidMapOk mod) :
    MapOk (ca_data mod buf desc).1 ∧ PidMapOk (ca_data mod buf desc).1 := by
  refine ⟨(pmtStep_ca (fun _ => False) mod buf desc (fun c => c)).map_ok h.1, ?_⟩
  unfold ca_data
  by_cases hc : mod.stream (DESC_CA_PID buf desc) = .UNKNOWN ∧ DESC_CA_PID buf desc ≠ TS_NULL_PID
  · simp only [hc, ne_eq, not_false_eq_true, and_self, if_true]
    unfold ca_mark
    simp only []
    split
    · intro q
      show Function.update mod.pid_map _ 0 q ≤ TS_MAX_PIDS
      by_cases hq : q = DESC_CA_PID buf desc
      · rw [hq, Function.update_same]; exact Nat.zero_le _
      · rw [Function.update_noteq hq]; exact h.2 q
    · exact h.2
  · simp only [hc, if_false]
    exact h.2

/-- The rebuild of the custom PMT keeps the map values and the entries of
`pid_map` in range. -/
theorem pmt_data_bound (lib : mpegts_lib) (mod m : module_data_t) (joins : List Nat)
    (copied : List (Nat × Nat)) (h : pmt_data lib mod = some (m, joins, copied))
    (hok : MapOk mod ∧ PidMapOk mod) : MapOk m ∧ PidMapOk m := by
  obtain ⟨mod2, skip, j1, mod5, skip2, jp, j2, h1, h2, _, hm⟩ := pmt_data_parts lib mod m joins
    copied h
  have b2 : MapOk mod2 ∧ PidMapOk mod2 :=
    pmt_desc_data_inv (fun x => MapOk x ∧ PidMapOk x) ca_data_bound
      (fun _ _ _ _ hx => hx) mod.pmt _ _ _ _ _ h1 hok
  obtain ⟨_, _, _, c4, c5, _⟩ := pmt_info_close_frame mod2 skip
  have b3 : MapOk (pmt_info_close mod2 skip) ∧ PidMapOk (pmt_info_close mod2 skip) :=
    ⟨fun l hl => b2.1 l (by rw [← c4]; exact hl), fun q => by rw [c5]; exact b2.2 q⟩
  have b5 : MapOk mod5 ∧ PidMapOk mod5 :=
    pmt_items_data_inv (fun x => MapOk x ∧ PidMapOk x) ca_data_bound
      (fun _ _ _ _ hx => hx) (fun _ _ _ _ hx => hx) item_close_bound lib mod.pmt _ _ _ _ _ _ _
      h2 b3
  subst hm
  obtain ⟨_, _, _, _, _, _, f7, f8, _⟩ := pmt_seal_frame
    (if jp then pcr_mark { mod5 with custom_pmt := { mod5.custom_pmt with
          buffer_size := skip2 + CRC32_SIZE } } (PMT_GET_PCR mod.pmt)
        else { mod5 with custom_pmt := { mod5.custom_pmt with
          buffer_size := skip2 + CRC32_SIZE } }) (PMT_GET_PCR mod.pmt)
  have b7 : MapOk (if jp then pcr_mark { mod5 with custom_pmt := { mod5.custom_pmt with
          buffer_size := skip2 + CRC32_SIZE } } (PMT_GET_PCR mod.pmt)
        else { mod5 with custom_pmt := { mod5.custom_pmt with
          buffer_size := skip2 + CRC32_SIZE } }) ∧
      PidMapOk (if jp then pcr_mark { mod5 with custom_pmt := { mod5.custom_pmt with
          buffer_size := skip2 + CRC32_SIZE } } (PMT_GET_PCR mod.pmt)
        else { mod5 with custom_pmt := { mod5.custom_pmt with
          buffer_size := skip2 + CRC32_SIZE } }) := by
    cases jp
    · exact b5
    · simp only [if_true]
      obtain ⟨_, _, _, _, g5, _, g7, g8⟩ := pcr_mark_frame { mod5 with custom_pmt :=
        { mod5.custom_pmt with buffer_size := skip2 + CRC32_SIZE } } (PMT_GET_PCR mod.pmt)
      refine ⟨fun l hl => b5.1 l (by rw [← g5]; exact hl), fun q => ?_⟩
      by_cases hq : q = PMT_GET_PCR mod.pmt
      · rw [hq, g7]
        split
        · exact Nat.zero_le _
        · exact b5.2 _
      · rw [(g8 q hq).2]; exact b5.2 q
  exact ⟨fun l hl => b7.1 l (by rw [← f7]; exact hl), fun q => by rw [f8]; exact b7.2 q⟩

/-! ## Channel: the PCR PID of a PMT -/

theorem foldl_incr_count :
    ∀ (joins : List Nat) (pl : Nat → Nat) (p : Nat), pl p + joins.count p < 256 →
      joins.foldl incr_step pl p = pl p + joins.count p := by
  intro joins
  induction joins with
  | nil => intro pl p _; rfl
  | cons q rest ih =>
    intro pl p h
    rw [List.foldl_cons]
    by_cases hq : q = p
    · subst hq
      rw [List.count_cons_self] at h ⊢
      have h1 : incr_step pl q q = pl q + 1 := by
        unfold incr_step
        rw [Function.update_same, Nat.mod_eq_of_lt (by omega)]
      rw [ih (incr_step pl q) q (by rw [h1]; omega), h1]
      omega
    · rw [List.count_cons_of_ne (fun c => hq c.symm)] at h ⊢
      have h1 : incr_step pl q p = pl p := by
        unfold incr_step
        rw [Function.update_noteq (fun c => hq c.symm)]
      rw [ih (incr_step pl q) p (by rw [h1]; exact h), h1]

theorem PMT_GET_PCR_congr (a b : ts_psi_t) (h : a.buffer = b.buffer) :
    PMT_GET_PCR a = PMT_GET_PCR b := by
  unfold PMT_GET_PCR
  rw [h]

/-- When the entry loop of `on_pmt` ends with `join_pcr` cleared, an entry with
the PCR PID has been copied: the PID has been joined, is marked `PES` and is
not filtered. -/
theorem pmt_items_data_pcr (lib : mpegts_lib) (psi : ts_psi_t) (pcr_pid : Nat) :
    ∀ (n pointer skip : Nat) (jp : Bool) (mod : module_data_t)
      (r : module_data_t × Nat × Bool × List Nat × List (Nat × Nat)),
      pmt_items_data lib psi pcr_pid n pointer skip jp mod = some r →
      r.2.2.1 = false →
      jp = false ∨ (pcr_pid ∈ r.2.2.2.1 ∧ r.1.stream pcr_pid = .PES ∧
        (MapOk mod → r.1.pid_map pcr_pid ≠ TS_MAX_PIDS)) := by
  intro n
  induction n with
  | zero => intro pointer skip jp mod r h; cases h
  | succ n ih =>
    intro pointer skip jp mod r h hr
    unfold pmt_items_data at h
    by_cases hend : psi.buffer_size - CRC32_SIZE ≤ pointer
    · simp only [hend, if_true, Option.some.injEq] at h
      subst h
      exact Or.inl hr
    · simp only [hend, if_false] at h
      by_cases hf : mod.pid_map (PMT_ITEM_GET_PID psi.buffer pointer) = TS_MAX_PIDS
      · simp only [hf, if_true] at h
        exact ih _ _ _ mod r h hr
      · simp only [hf, if_false] at h
        cases hd : pmt_item_desc_data lib psi pointer (psi.buffer pointer)
            (PMT_ITEM_DESC_SIZE psi.buffer pointer + 1) (pointer + 5) ((skip + 5) % 65536)
            (lib.ts_stream_type (psi.buffer pointer)) none (item_head mod psi pointer skip) with
        | none => rw [hd] at h; cases h
        | some y =>
          obtain ⟨mod3, skip2, t2, lang, joins⟩ := y
          rw [hd] at h
          simp only [] at h
          have s0 := pmtStep_head (fun _ => False) mod psi pointer skip (fun c => c)
          have s1 := pmt_item_desc_data_step (fun _ => False) lib psi pointer (psi.buffer pointer)
            _ _ _ _ _ _ _ hd (Or.inr (fun _ _ h => h))
          have s2 := pmtStep_close (fun _ => False) mod3 psi (PMT_ITEM_GET_PID psi.buffer pointer)
            skip skip2 t2 lang (fun c => c)
          have s012 := (s0.trans s1).trans s2
          cases hrest : pmt_items_data lib psi pcr_pid n
              (pointer + 5 + PMT_ITEM_DESC_SIZE psi.buffer pointer) skip2
              (if PMT_ITEM_GET_PID psi.buffer pointer = pcr_pid then false else jp)
              (item_close mod3 psi (PMT_ITEM_GET_PID psi.buffer pointer) skip skip2 t2
                lang) with
          | none => rw [hrest] at h; cases h
          | some z =>
            rw [hrest] at h
            simp only [Option.map_some', Option.some.injEq] at h
            subst h
            simp only [] at hr ⊢
            obtain ⟨t1, _, _, _⟩ := pmt_items_data_step (fun _ => False) lib psi pcr_pid _ _ _ _
              _ _ hrest (fun _ c => c.elim) (Or.inr (fun _ _ c => c))
            by_cases hp : PMT_ITEM_GET_PID psi.buffer pointer = pcr_pid
            · refine Or.inr ⟨by rw [← hp]; exact List.mem_cons_self _ _, ?_, fun hok => ?_⟩
              · apply t1.pes
                apply s2.pes
                apply s1.pes
                rw [← hp]
                exact Function.update_same _ _ _
              · apply t1.nf (s012.map_ok hok)
                apply s012.nf hok
                rw [← hp]
                exact hf
            · rw [if_neg hp] at hrest
              rcases ih _ _ _ _ z hrest hr with h1 | ⟨h1, h2, h3⟩
              · exact Or.inl h1
              · exact Or.inr ⟨List.mem_cons_of_mem _ (List.mem_append_right _ h1), h2,
                  fun hok => h3 (s012.map_ok hok)⟩

theorem pmt_sent_frame (lib : mpegts_lib) (m : module_data_t) :
    (pmt_sent lib m).pid_map = m.pid_map ∧ (pmt_sent lib m).map = m.map ∧
    (pmt_sent lib m).config = m.config ∧ (pmt_sent lib m).pmt = m.pmt ∧
    (pmt_sent lib m).custom_pmt.buffer = m.custom_pmt.buffer ∧
    (pmt_sent lib m).custom_pmt.buffer_size = m.custom_pmt.buffer_size ∧
    (pmt_sent lib m).out = m.out ++ [.psi m.custom_pmt.pid m.custom_pmt.cc
      ((List.range m.custom_pmt.buffer_size).map m.custom_pmt.buffer)] ∧
    (∀ q, (pmt_sent lib m).stream q =
      if m.config.no_reload = true ∧ q = m.pmt.pid then .UNKNOWN else m.stream q) := by
  unfold pmt_sent pmt_finish
  simp only []
  by_cases h : m.config.no_reload = true
  · rw [if_pos h]
    refine ⟨rfl, rfl, rfl, rfl, rfl, rfl, rfl, fun q => ?_⟩
    by_cases hq : q = m.pmt.pid
    · rw [hq, if_pos ⟨h, rfl⟩]
      exact Function.update_same _ _ _
    · rw [if_neg (fun c => hq c.2)]
      exact Function.update_noteq hq _ _
  · rw [if_neg h]
    exact ⟨rfl, rfl, rfl, rfl, rfl, rfl, rfl, fun q => by rw [if_neg (fun c => h c.1)]⟩

/-- The rebuild of the custom PMT, relative to a set `P` of filtered PIDs that
neither a CA descriptor (while `cas` is on) nor the PCR PID field names. -/
theorem pmt_data_step (P : Nat → Prop) (lib : mpegts_lib) (mod m : module_data_t)
    (joins : List Nat) (copied : List (Nat × Nat))
    (h : pmt_data lib mod = some (m, joins, copied))
    (hP : ∀ q, P q → mod.pid_map q = TS_MAX_PIDS)
    (hca : mod.config.cas = false ∨ ∀ q ∈ pmt_ca_pids mod.pmt, ¬ P q)
    (hpcr : ¬ P (PMT_GET_PCR mod.pmt)) : PmtStep P mod m joins := by
  obtain ⟨mod2, skip, j1, mod5, skip2, jp, j2, h1, h2, hj, hm⟩ := pmt_data_parts lib mod m joins
    copied h
  obtain ⟨q1, q2, _⟩ := pmt_loops_step P lib mod mod2 mod5 skip skip2 jp j1 j2 copied h1 h2 hP hca
  have q3 : PmtStep P mod5 { mod5 with custom_pmt := { mod5.custom_pmt with
      buffer_size := skip2 + CRC32_SIZE } } [] :=
    pmtStep_of_frame P mod5 _ rfl rfl rfl rfl rfl rfl rfl rfl
  subst hm
  subst hj
  cases jp with
  | true =>
    simp only [if_true]
    have := (((q1.trans q2).trans q3).trans (pmtStep_pcr_mark P _ _ hpcr)).trans
      (pmtStep_seal P _ (PMT_GET_PCR mod.pmt))
    simpa using this
  | false =>
    simp only [Bool.false_eq_true, if_false]
    have := ((q1.trans q2).trans q3).trans (pmtStep_seal P _ (PMT_GET_PCR mod.pmt))
    simpa using this

/-- The PCR PID after the rebuild of the custom PMT of a section of at most
1024 bytes: joined, marked `PES`, not filtered, and written in the header as
`pid_map` says. -/
theorem pmt_data_pcr (lib : mpegts_lib) (mod m : module_data_t) (joins : List Nat)
    (copied : List (Nat × Nat)) (hdata : pmt_data lib mod = some (m, joins, copied))
    (hb : ∀ k, mod.pmt.buffer k < 256) (hsize : mod.pmt.buffer_size ≤ 1024)
    (hok : MapOk mod) (hpm : PidMapOk mod) :
    PMT_GET_PCR mod.pmt ∈ joins ∧ m.stream (PMT_GET_PCR mod.pmt) = .PES ∧
    m.pid_map (PMT_GET_PCR mod.pmt) ≠ TS_MAX_PIDS ∧
    PMT_GET_PCR m.custom_pmt =
      (if m.map.isSome ∧ m.pid_map (PMT_GET_PCR mod.pmt) ≠ 0 then
        m.pid_map (PMT_GET_PCR mod.pmt) else PMT_GET_PCR mod.pmt) := by
  obtain ⟨mod2, skip, j1, mod5, skip2, jp, j2, h1, h2, hj, hm⟩ :=
    pmt_data_parts lib mod m joins copied hdata
  obtain ⟨l1, l2, l3, l4, _, _, _⟩ := pmt_loops_layout lib mod mod2 mod5 skip skip2
    jp j1 j2 copied h1 h2 hb hsize
  obtain ⟨q1, q2, _⟩ := pmt_loops_step (fun _ => False) lib mod mod2 mod5 skip
    skip2 jp j1 j2 copied h1 h2 (fun _ c => c.elim) (Or.inr (fun _ _ c => c))
  obtain ⟨z1, z2, z3⟩ := pmt_sealed_layout mod5 skip2 (PMT_GET_PCR mod.pmt) jp (by omega)
  obtain ⟨bm, bp⟩ := pmt_data_bound lib mod m joins copied hdata ⟨hok, hpm⟩
  have hfacts : PMT_GET_PCR mod.pmt ∈ joins ∧ m.stream (PMT_GET_PCR mod.pmt) = .PES ∧
      m.pid_map (PMT_GET_PCR mod.pmt) ≠ TS_MAX_PIDS := by
    obtain ⟨_, _, _, _, _, _, _, s8, s9⟩ := pmt_seal_frame
      (if jp then pcr_mark { mod5 with custom_pmt := { mod5.custom_pmt with
          buffer_size := skip2 + CRC32_SIZE } } (PMT_GET_PCR mod.pmt)
        else { mod5 with custom_pmt := { mod5.custom_pmt with
          buffer_size := skip2 + CRC32_SIZE } }) (PMT_GET_PCR mod.pmt)
    rw [hm, s8, s9, hj]
    cases jp with
    | true =>
      simp only [if_true]
      obtain ⟨_, _, _, _, _, g6, g7, _⟩ := pcr_mark_frame { mod5 with custom_pmt :=
        { mod5.custom_pmt with buffer_size := skip2 + CRC32_SIZE } } (PMT_GET_PCR mod.pmt)
      refine ⟨List.mem_append_right _ (List.mem_singleton.mpr rfl), g6, ?_⟩
      rw [g7]
      split
      · decide
      · assumption
    | false =>
      simp only [Bool.false_eq_true, if_false, List.append_nil]
      rcases pmt_items_data_pcr lib _ _ _ _ _ _ _ _ h2 rfl with hc | ⟨p1, p2, p3⟩
      · cases hc
      · exact ⟨List.mem_append_right _ p1, p2, p3 (q1.map_ok hok)⟩
  refine ⟨hfacts.1, hfacts.2.1, hfacts.2.2, ?_⟩
  rw [hm, z3]
  have hhead : PMT_GET_PCR mod5.custom_pmt = PMT_GET_PCR mod.pmt := by
    unfold PMT_GET_PCR
    rw [l4 8 (by decide) (by decide) (by decide), l4 9 (by decide) (by decide) (by decide)]
  rw [hhead, ← hm]
  have hlt : m.pid_map (PMT_GET_PCR mod.pmt) < 8192 :=
    Nat.lt_of_le_of_ne (bp _) hfacts.2.2
  rw [Nat.mod_eq_of_lt hlt]

/-- Claim C30, amended: on a first-seen valid PMT of at most 1024 bytes
`on_pmt` returns, and the inbound PCR PID has been joined (so it is
subscribed unless its 8-bit counter wraps), is not marked FILTERED, and has
stream type `PES`, unless `no_reload` is set and the PCR PID is the PID of the
PMT itself, in which case the closing `no_reload` statement has marked it
`UNKNOWN`; the PCR PID field of the custom PMT is `pid_map[pcr_pid]` when a
map is configured and that value is not 0, and the inbound PCR PID
otherwise. -/
theorem pcr_pid_joined_and_written {d : Nat → Nat} {fuel : Nat} {s : State} {self : Nat}
    (hr : Ready d fuel s self) (lib : mpegts_lib) (mod : module_data_t)
    (hb : ∀ k, mod.pmt.buffer k < 256) (hnew : pmt_is_new mod)
    (hsize : mod.pmt.buffer_size ≤ 1024) (hok : MapOk mod) (hpm : PidMapOk mod) :
    ∃ s' mod', ∃ joins : List Nat, on_pmt lib fuel s self mod = .ok (s', mod') ∧
      pid_refs s' self = joins.foldl incr_step (pid_refs s self) ∧
      PMT_GET_PCR mod.pmt ∈ joins ∧
      (pid_refs s self (PMT_GET_PCR mod.pmt) + joins.count (PMT_GET_PCR mod.pmt) < 256 →
        module_demux_check s' self (PMT_GET_PCR mod.pmt) = .ok true) ∧
      mod'.stream (PMT_GET_PCR mod.pmt) =
        (if mod.config.no_reload = true ∧ PMT_GET_PCR mod.pmt = mod.pmt.pid then .UNKNOWN
          else .PES) ∧
      mod'.pid_map (PMT_GET_PCR mod.pmt) ≠ TS_MAX_PIDS ∧
      PMT_GET_PCR mod'.custom_pmt =
        (if mod'.map.isSome ∧ mod'.pid_map (PMT_GET_PCR mod.pmt) ≠ 0 then
          mod'.pid_map (PMT_GET_PCR mod.pmt) else PMT_GET_PCR mod.pmt) := by
  have hpcr : PMT_GET_PCR mod.pmt < TS_MAX_PIDS := pid13_lt _ _ (hb _)
  obtain ⟨m, joins, copied, hdata, _, heq, hr', hrefs⟩ :=
    pmt_rebuild_eq hr lib (pmt_latched mod) hb
  have hfacts : PMT_GET_PCR mod.pmt ∈ joins ∧ m.stream (PMT_GET_PCR mod.pmt) = .PES ∧
      m.pid_map (PMT_GET_PCR mod.pmt) ≠ TS_MAX_PIDS ∧
      PMT_GET_PCR m.custom_pmt =
        (if m.map.isSome ∧ m.pid_map (PMT_GET_PCR mod.pmt) ≠ 0 then
          m.pid_map (PMT_GET_PCR mod.pmt) else PMT_GET_PCR mod.pmt) :=
    pmt_data_pcr lib (pmt_latched mod) m joins copied hdata hb hsize hok hpm
  obtain ⟨f1, f2, f3, f4, f5, _, _, f8⟩ := pmt_sent_frame lib m
  have hstep := pmt_data_step (fun _ => False) lib (pmt_latched mod) m joins copied hdata
    (fun _ c => c.elim) (Or.inr (fun _ _ c => c)) (fun c => c)
  have hmcfg : m.config = mod.config := hstep.config
  have hmpmt : m.pmt.pid = mod.pmt.pid := by rw [hstep.pmt]; rfl
  refine ⟨_, _, joins, (on_pmt_new_eq lib fuel s self mod hnew).trans heq, hrefs, hfacts.1,
    fun hcnt => ?_, ?_, ?_, ?_⟩
  · rw [ready_check hr' _ hpcr, hrefs, foldl_incr_count joins _ _ hcnt]
    have : 0 < joins.count (PMT_GET_PCR mod.pmt) := List.count_pos_iff.mpr hfacts.1
    simp only [decide_eq_true_eq, Except.ok.injEq]
    omega
  · rw [f8, hmcfg, hmpmt, hfacts.2.1]
  · rw [f1]; exact hfacts.2.2.1
  · rw [PMT_GET_PCR_congr _ m.custom_pmt f5, f1, f2]
    exact hfacts.2.2.2

/-- Claim C30, the counterexample: with `no_reload`, a PMT whose PCR PID is the
PID of the PMT itself (`0x100`) leaves the PCR PID joined but with stream type
`UNKNOWN`, not `PES`. -/
theorem pcr_on_pmt_pid_marked_unknown :
    (match on_pmt demo_lib 4 chan_tree_pat 1
        (load_pmt chan_mod_pat_no_reload pmt_pcr_on_pmt_pid) with
      | .ok (s, m) =>
        some (PMT_GET_PCR (load_pmt chan_mod_pat_no_reload pmt_pcr_on_pmt_pid).pmt,
          m.stream 0x100, pid_refs s 1 0x100)
      | .error _ => none) = some (0x100, .UNKNOWN, 2) := by
  rw [on_pmt_first_seen demo_lib 4 chan_tree_pat 1
    (load_pmt chan_mod_pat_no_reload pmt_pcr_on_pmt_pid)
    (by decide!) (by decide!) (by decide!)
    (by rw [PSI_CALC_CRC32, crc32b_eq_loop]; decide!) (by decide!)]
  decide!

theorem pmt_plain_new : pmt_is_new (load_pmt chan_mod_pat pmt_plain) :=
  ⟨by decide, by decide, by decide, by rw [PSI_CALC_CRC32, crc32b_eq_loop]; decide!,
    by decide⟩

/-- Witness for C30: the PMT of the example with PCR on PID `0x101`. -/
theorem pcr_pid_joined_and_written_witness :
    ∃ s' mod', on_pmt demo_lib 4 (chan_tree_refs refs_init) 1 (load_pmt chan_mod_pat pmt_plain) =
        .ok (s', mod') ∧
      mod'.stream 0x101 = .PES ∧ mod'.pid_map 0x101 ≠ TS_MAX_PIDS ∧
      PMT_GET_PCR mod'.custom_pmt = (if mod'.map.isSome ∧ mod'.pid_map 0x101 ≠ 0 then
        mod'.pid_map 0x101 else 0x101) := by
  obtain ⟨s', mod', _, h1, _, _, _, h5, h6, h7⟩ :=
    pcr_pid_joined_and_written (chan_tree_refs_ready refs_init refs_init_lt) demo_lib
      (load_pmt chan_mod_pat pmt_plain) (getD_byte pmt_plain (by decide)) pmt_plain_new
      (by decide) (fun l hl => by cases hl) (fun q => Nat.zero_le _)
  exact ⟨s', mod', h1, h5, h6, h7⟩

/-! ## Channel: the descriptors of the custom PMT -/

theorem item_positions_congr (a b : ts_psi_t) (h1 : a.buffer = b.buffer)
    (h2 : a.buffer_size = b.buffer_size) :
    ∀ n pointer, item_positions a n pointer = item_positions b n pointer := by
  intro n
  induction n with
  | zero => intro _; rfl
  | succ n ih =>
    intro pointer
    unfold item_positions
    rw [h1, h2, ih]

theorem pmt_items_latched (mod : module_data_t) :
    pmt_items (pmt_latched mod).pmt = pmt_items mod.pmt := by
  unfold pmt_items
  exact item_positions_congr (pmt_latched mod).pmt mod.pmt rfl rfl _ _

theorem pmt_items_data_mem (lib : mpegts_lib) (psi : ts_psi_t) (pcr_pid : Nat) :
    ∀ (n pointer skip : Nat) (jp : Bool) (mod : module_data_t)
      (r : module_data_t × Nat × Bool × List Nat × List (Nat × Nat)),
      pmt_items_data lib psi pcr_pid n pointer skip jp mod = some r →
      ∀ x ∈ r.2.2.2.2, x.1 ∈ item_positions psi n pointer := by
  intro n
  induction n with
  | zero => intro pointer skip jp mod r h; cases h
  | succ n ih =>
    intro pointer skip jp mod r h x hx
    unfold pmt_items_data at h
    by_cases hend : psi.buffer_size - CRC32_SIZE ≤ pointer
    · simp only [hend, if_true, Option.some.injEq] at h
      subst h
      cases hx
    · simp only [hend, if_false] at h
      rw [item_positions, if_neg hend]
      by_cases hf : mod.pid_map (PMT_ITEM_GET_PID psi.buffer pointer) = TS_MAX_PIDS
      · simp only [hf, if_true] at h
        exact List.mem_cons_of_mem _ (ih _ _ _ mod r h x hx)
      · simp only [hf, if_false] at h
        cases hd : pmt_item_desc_data lib psi pointer (psi.buffer pointer)
            (PMT_ITEM_DESC_SIZE psi.buffer pointer + 1) (pointer + 5) ((skip + 5) % 65536)
            (lib.ts_stream_type (psi.buffer pointer)) none (item_head mod psi pointer skip) with
        | none => rw [hd] at h; cases h
        | some y =>
          obtain ⟨mod3, skip2, t2, lang, joins⟩ := y
          rw [hd] at h
          simp only [] at h
          cases hrest : pmt_items_data lib psi pcr_pid n
              (pointer + 5 + PMT_ITEM_DESC_SIZE psi.buffer pointer) skip2
              (if PMT_ITEM_GET_PID psi.buffer pointer = pcr_pid then false else jp)
              (item_close mod3 psi (PMT_ITEM_GET_PID psi.buffer pointer) skip skip2 t2
                lang) with
          | none => rw [hrest] at h; cases h
          | some z =>
            rw [hrest] at h
            simp only [Option.map_some', Option.some.injEq] at h
            subst h
            rcases List.mem_cons.mp hx with hx | hx
            · subst hx
              exact List.mem_cons_self _ _
            · exact List.mem_cons_of_mem _ (ih _ _ _ _ z hrest x hx)

/-- The descriptors in the rebuilt custom PMT of a section of at most 1024
bytes whose kept descriptors have at most 253 payload bytes each. -/
theorem pmt_data_descs (lib : mpegts_lib) (mod m : module_data_t) (joins : List Nat)
    (copied : List (Nat × Nat)) (hdata : pmt_data lib mod = some (m, joins, copied))
    (hb : ∀ k, mod.pmt.buffer k < 256) (hsize : mod.pmt.buffer_size ≤ 1024)
    (hlen : ∀ y ∈ kept_descs mod.config.cas mod.pmt.buffer (pmt_descs mod.pmt),
      mod.pmt.buffer (y + 1) ≤ 253)
    (hlen2 : ∀ ptr ∈ pmt_items mod.pmt,
      ∀ y ∈ kept_descs mod.config.cas mod.pmt.buffer (item_descs mod.pmt ptr),
        mod.pmt.buffer (y + 1) ≤ 253) :
    (∀ k, k < (copied_descs mod.config.cas mod.pmt.buffer (pmt_descs mod.pmt)).length →
      m.custom_pmt.buffer (12 + k) =
        (copied_descs mod.config.cas mod.pmt.buffer (pmt_descs mod.pmt)).getD k 0) ∧
    copied.Pairwise (fun a b => a.2 + 5 ≤ b.2) ∧
    ∀ x ∈ copied, x.1 ∈ pmt_items mod.pmt ∧
      12 + (copied_descs mod.config.cas mod.pmt.buffer (pmt_descs mod.pmt)).length ≤ x.2 ∧
      x.2 + 5 + (copied_descs mod.config.cas mod.pmt.buffer (item_descs mod.pmt x.1)).length + 4
        ≤ m.custom_pmt.buffer_size ∧
      ∀ k, k < (copied_descs mod.config.cas mod.pmt.buffer (item_descs mod.pmt x.1)).length →
        m.custom_pmt.buffer (x.2 + 5 + k) =
          (copied_descs mod.config.cas mod.pmt.buffer (item_descs mod.pmt x.1)).getD k 0 := by
  obtain ⟨mod2, skip, j1, mod5, skip2, jp, j2, h1, h2, hj, hm⟩ :=
    pmt_data_parts lib mod m joins copied hdata
  obtain ⟨l1, l2, l3, l4, l5, l6, l7⟩ := pmt_loops_layout lib mod mod2 mod5 skip skip2
    jp j1 j2 copied h1 h2 hb hsize
  obtain ⟨z1, z2, z3⟩ := pmt_sealed_layout mod5 skip2 (PMT_GET_PCR mod.pmt) jp (by omega)
  obtain ⟨p1, p2⟩ := l7 hlen
  have hmem := pmt_items_data_mem lib mod.pmt (PMT_GET_PCR mod.pmt) _ _ _ _ _ _ h2
  rw [hm]
  refine ⟨fun k hk => ?_, l5, fun x hx => ?_⟩
  · rw [z2 (12 + k) (by omega) (by omega) (by omega) (by omega) (by omega)]
    exact p2 k hk
  · obtain ⟨g1, g2, _, _, g5⟩ := l6 x hx
    have hx1 : x.1 ∈ pmt_items mod.pmt := hmem x hx
    obtain ⟨e1, e2⟩ := g5 (hlen2 x.1 hx1)
    refine ⟨hx1, by omega, by rw [z1]; simp only [CRC32_SIZE]; omega, fun k hk => ?_⟩
    rw [z2 (x.2 + 5 + k) (by omega) (by omega) (by omega) (by omega) (by omega)]
    exact e2 k hk

/-- Claim C21, amended: for a first-seen valid PMT of at most 1024 bytes
`on_pmt` returns, and when every descriptor it keeps has at most 253 payload
bytes, the custom PMT holds from offset 12 the bytes of the kept program
descriptors, one after the other in inbound order, and after the five header
bytes of every copied entry the bytes of the kept descriptors of that entry,
in inbound order; the kept descriptors are all descriptors when `cas` is
enabled and all but the CA descriptors (tag `0x09`) when it is not; the copied
entries are entries of the inbound PMT, at increasing offsets. -/
theorem pmt_descriptors_copied {d : Nat → Nat} {fuel : Nat} {s : State} {self : Nat}
    (hr : Ready d fuel s self) (lib : mpegts_lib) (mod : module_data_t)
    (hb : ∀ k, mod.pmt.buffer k < 256) (hnew : pmt_is_new mod)
    (hsize : mod.pmt.buffer_size ≤ 1024)
    (hlen : ∀ y ∈ kept_descs mod.config.cas mod.pmt.buffer (pmt_descs mod.pmt),
      mod.pmt.buffer (y + 1) ≤ 253)
    (hlen2 : ∀ ptr ∈ pmt_items mod.pmt,
      ∀ y ∈ kept_descs mod.config.cas mod.pmt.buffer (item_descs mod.pmt ptr),
        mod.pmt.buffer (y + 1) ≤ 253) :
    ∃ s' mod' m, ∃ joins : List Nat, ∃ copied : List (Nat × Nat),
      pmt_data lib (pmt_latched mod) = some (m, joins, copied) ∧
      on_pmt lib fuel s self mod = .ok (s', mod') ∧
      (∀ k, k < (copied_descs mod.config.cas mod.pmt.buffer (pmt_descs mod.pmt)).length →
        mod'.custom_pmt.buffer (12 + k) =
          (copied_descs mod.config.cas mod.pmt.buffer (pmt_descs mod.pmt)).getD k 0) ∧
      copied.Pairwise (fun a b => a.2 + 5 ≤ b.2) ∧
      ∀ x ∈ copied, x.1 ∈ pmt_items mod.pmt ∧
        12 + (copied_descs mod.config.cas mod.pmt.buffer (pmt_descs mod.pmt)).length ≤ x.2 ∧
        x.2 + 5 + (copied_descs mod.config.cas mod.pmt.buffer (item_descs mod.pmt x.1)).length
          + 4 ≤ mod'.custom_pmt.buffer_size ∧
        ∀ k, k < (copied_descs mod.config.cas mod.pmt.buffer (item_descs mod.pmt x.1)).length →
          mod'.custom_pmt.buffer (x.2 + 5 + k) =
            (copied_descs mod.config.cas mod.pmt.buffer (item_descs mod.pmt x.1)).getD k 0 := by
  obtain ⟨m, joins, copied, hdata, _, heq, _, _⟩ := pmt_rebuild_eq hr lib (pmt_latched mod) hb
  have hpi := pmt_items_latched mod
  obtain ⟨a1, a2, a3⟩ := pmt_data_descs lib (pmt_latched mod) m joins copied hdata hb hsize hlen
    (by rw [hpi]; exact hlen2)
  obtain ⟨_, _, _, _, f5, f6, _⟩ := pmt_sent_frame lib m
  refine ⟨_, _, m, joins, copied, hdata, (on_pmt_new_eq lib fuel s self mod hnew).trans heq,
    ?_, a2, fun x hx => ?_⟩
  · rw [f5]; exact a1
  · obtain ⟨b1, b2, b3, b4⟩ := a3 x hx
    rw [hpi] at b1
    rw [f5, f6]
    exact ⟨b1, b2, b3, b4⟩

/-- Claim C21, the counterexample: without `cas`, the program-level CA
descriptor of `pmt_ca_prog` (6 bytes) is not appended: the custom PMT has 21
bytes, `program_info_length` 0, and the entry at offset 12; and the
descriptor with 254 payload bytes of `pmt_desc_254` is not appended either
(with or without `cas`): the `uint8_t` size `254 + 2` is 0, and the custom PMT
has 21 bytes where the section has 277. -/
theorem ca_and_long_descriptors_dropped :
    (match on_pmt demo_lib 4 chan_tree_pat 1 (load_pmt chan_mod_pat pmt_ca_prog) with
      | .ok (_, m) =>
        some (m.custom_pmt.buffer_size, PMT_DESC_SIZE m.custom_pmt, m.custom_pmt.buffer 12,
          PMT_DESC_SIZE (load_pmt chan_mod_pat pmt_ca_prog).pmt)
      | .error _ => none) = some (21, 0, 0x02, 6) ∧
    (match on_pmt demo_lib 4 chan_tree_pat 1 (load_pmt chan_mod_cas pmt_desc_254) with
      | .ok (_, m) => some (m.custom_pmt.buffer_size, pmt_desc_254.length)
      | .error _ => none) = some (21, 277) := by
  constructor
  · rw [on_pmt_first_seen demo_lib 4 chan_tree_pat 1 (load_pmt chan_mod_pat pmt_ca_prog)
      (by decide!) (by decide!) (by decide!)
      (by rw [PSI_CALC_CRC32, crc32b_eq_loop]; decide!) (by decide!)]
    decide!
  · rw [on_pmt_first_seen demo_lib 4 chan_tree_pat 1 (load_pmt chan_mod_cas pmt_desc_254)
      (by decide!) (by decide!) (by decide!)
      (by rw [PSI_CALC_CRC32, crc32b_eq_loop]; decide!) (by decide!)]
    decide!

theorem pmt_ca_prog_new : pmt_is_new (load_pmt chan_mod_cas pmt_ca_prog) :=
  ⟨by decide, by decide, by decide, by rw [PSI_CALC_CRC32, crc32b_eq_loop]; decide!,
    by decide⟩

/-- Witness for C21: with `cas`, the CA descriptor of `pmt_ca_prog` is in the
custom PMT at offset 12. -/
theorem pmt_descriptors_copied_witness :
    ∃ s' mod', on_pmt demo_lib 4 (chan_tree_refs refs_init) 1 (load_pmt chan_mod_cas pmt_ca_prog) =
        .ok (s', mod') ∧
      (List.range 6).map (fun k => mod'.custom_pmt.buffer (12 + k)) =
        [0x09, 0x04, 0x00, 0x01, 0xE2, 0x00] := by
  obtain ⟨s', mod', _, _, _, _, h1, h2, _⟩ :=
    pmt_descriptors_copied (chan_tree_refs_ready refs_init refs_init_lt) demo_lib
      (load_pmt chan_mod_cas pmt_ca_prog) (getD_byte pmt_ca_prog (by decide)) pmt_ca_prog_new
      (by decide) (by decide) (by decide)
  refine ⟨s', mod', h1, ?_⟩
  have hL : copied_descs (load_pmt chan_mod_cas pmt_ca_prog).config.cas
      (load_pmt chan_mod_cas pmt_ca_prog).pmt.buffer
      (pmt_descs (load_pmt chan_mod_cas pmt_ca_prog).pmt) = [0x09, 0x04, 0x00, 0x01, 0xE2, 0x00] := by
    decide
  rw [hL] at h2
  simp only [List.range, List.range.loop, List.map_cons, List.map_nil]
  rw [h2 0 (by decide), h2 1 (by decide), h2 2 (by decide), h2 3 (by decide), h2 4 (by decide),
    h2 5 (by decide)]
  rfl

/-! ## Channel: the entries of the custom PMT -/

/-- Every entry that the entry loop of `on_pmt` copies has its PID marked
`PES` when the loop ends. -/
theorem pmt_items_data_pes (lib : mpegts_lib) (psi : ts_psi_t) (pcr_pid : Nat) :
    ∀ (n pointer skip : Nat) (jp : Bool) (mod : module_data_t)
      (r : module_data_t × Nat × Bool × List Nat × List (Nat × Nat)),
      pmt_items_data lib psi pcr_pid n pointer skip jp mod = some r →
      ∀ x ∈ r.2.2.2.2, r.1.stream (PMT_ITEM_GET_PID psi.buffer x.1) = .PES := by
  intro n
  induction n with
  | zero => intro pointer skip jp mod r h; cases h
  | succ n ih =>
    intro pointer skip jp mod r h x hx
    unfold pmt_items_data at h
    by_cases hend : psi.buffer_size - CRC32_SIZE ≤ pointer
    · simp only [hend, if_true, Option.some.injEq] at h
      subst h
      cases hx
    · simp only [hend, if_false] at h
      by_cases hf : mod.pid_map (PMT_ITEM_GET_PID psi.buffer pointer) = TS_MAX_PIDS
      · simp only [hf, if_true] at h
        exact ih _ _ _ mod r h x hx
      · simp only [hf, if_false] at h
        cases hd : pmt_item_desc_data lib psi pointer (psi.buffer pointer)
            (PMT_ITEM_DESC_SIZE psi.buffer pointer + 1) (pointer + 5) ((skip + 5) % 65536)
            (lib.ts_stream_type (psi.buffer pointer)) none (item_head mod psi pointer skip) with
        | none => rw [hd] at h; cases h
        | some y =>
          obtain ⟨mod3, skip2, t2, lang, joins⟩ := y
          rw [hd] at h
          simp only [] at h
          have s1 := pmt_item_desc_data_step (fun _ => False) lib psi pointer (psi.buffer pointer)
            _ _ _ _ _ _ _ hd (Or.inr (fun _ _ h => h))
          have s2 := pmtStep_close (fun _ => False) mod3 psi (PMT_ITEM_GET_PID psi.buffer pointer)
            skip skip2 t2 lang (fun c => c)
          cases hrest : pmt_items_data lib psi pcr_pid n
              (pointer + 5 + PMT_ITEM_DESC_SIZE psi.buffer pointer) skip2
              (if PMT_ITEM_GET_PID psi.buffer pointer = pcr_pid then false else jp)
              (item_close mod3 psi (PMT_ITEM_GET_PID psi.buffer pointer) skip skip2 t2
                lang) with
          | none => rw [hrest] at h; cases h
          | some z =>
            rw [hrest] at h
            simp only [Option.map_some', Option.some.injEq] at h
            subst h
            obtain ⟨t1, _, _, _⟩ := pmt_items_data_step (fun _ => False) lib psi pcr_pid _ _ _ _
              _ _ hrest (fun _ c => c.elim) (Or.inr (fun _ _ c => c))
            rcases List.mem_cons.mp hx with hx | hx
            · subst hx
              apply t1.pes
              apply s2.pes
              apply s1.pes
              exact Function.update_same _ _ _
            · exact ih _ _ _ _ z hrest x hx

theorem pmt_ca_pids_latched (mod : module_data_t) :
    pmt_ca_pids (pmt_latched mod).pmt = pmt_ca_pids mod.pmt := by
  unfold pmt_ca_pids
  rw [pmt_items_latched]
  rfl

/-- The entries in the rebuilt custom PMT of a section of at most 1024 bytes in
which no CA descriptor names a filtered PID while `cas` is enabled. -/
theorem pmt_data_entries (lib : mpegts_lib) (mod m : module_data_t) (joins : List Nat)
    (copied : List (Nat × Nat)) (hdata : pmt_data lib mod = some (m, joins, copied))
    (hb : ∀ k, mod.pmt.buffer k < 256) (hsize : mod.pmt.buffer_size ≤ 1024) (hok : MapOk mod)
    (hca : mod.config.cas = false ∨ ∀ q ∈ pmt_ca_pids mod.pmt, mod.pid_map q ≠ TS_MAX_PIDS) :
    ∃ mod2 skip mod5 skip2 jp, ∃ j1 j2 : List Nat,
      pmt_desc_data mod.pmt (PMT_DESC_SIZE mod.pmt + 1) 12 12 (pmt_head mod) =
        some (mod2, skip, j1) ∧
      pmt_items_data lib mod.pmt (PMT_GET_PCR mod.pmt) (mod.pmt.buffer_size + 1)
        (PMT_ITEMS_FIRST mod.pmt) skip true (pmt_info_close mod2 skip) =
        some (mod5, skip2, jp, j2, copied) ∧
      joins = j1 ++ j2 ++ (if jp then [PMT_GET_PCR mod.pmt] else []) ∧
      copied.map Prod.fst = (pmt_items mod.pmt).filter
        (fun ptr => decide (mod.pid_map (PMT_ITEM_GET_PID mod.pmt.buffer ptr) ≠ TS_MAX_PIDS)) ∧
      copied.Pairwise (fun a b => a.2 + 5 ≤ b.2) ∧
      (∀ x ∈ copied, 12 ≤ x.2 ∧ x.2 + 5 + CRC32_SIZE ≤ m.custom_pmt.buffer_size ∧
        m.custom_pmt.buffer x.2 = mod.pmt.buffer x.1 ∧
        PMT_ITEM_GET_PID mod.pmt.buffer x.1 ∈ j2 ∧
        m.stream (PMT_ITEM_GET_PID mod.pmt.buffer x.1) = .PES) ∧
      ∀ q, mod.pid_map q = TS_MAX_PIDS → q ∉ j1 ++ j2 := by
  obtain ⟨mod2, skip, j1, mod5, skip2, jp, j2, h1, h2, hj, hm⟩ :=
    pmt_data_parts lib mod m joins copied hdata
  obtain ⟨l1, l2, l3, _, l5, l6, _⟩ := pmt_loops_layout lib mod mod2 mod5 skip skip2
    jp j1 j2 copied h1 h2 hb hsize
  obtain ⟨q1, q2, q3, q4, q5⟩ := pmt_loops_step (fun q => mod.pid_map q = TS_MAX_PIDS) lib
    mod mod2 mod5 skip skip2 jp j1 j2 copied h1 h2 (fun _ h => h) hca
  obtain ⟨z1, z2, _⟩ := pmt_sealed_layout mod5 skip2 (PMT_GET_PCR mod.pmt) jp (by omega)
  have hpes := pmt_items_data_pes lib _ _ _ _ _ _ _ _ h2
  have hkeep : ∀ q, mod5.stream q = .PES → m.stream q = .PES := by
    intro q hq
    rw [hm, (pmt_seal_frame _ _).2.2.2.2.2.2.2.2]
    cases jp
    · exact hq
    · exact (pmtStep_pcr_mark (fun _ => False) _ _ (fun c => c)).pes q hq
  refine ⟨mod2, skip, mod5, skip2, jp, j1, j2, h1, h2, hj, q5 hok (fun _ h => h), l5,
    fun x hx => ?_, fun q hq hmem => ?_⟩
  · obtain ⟨g1, g2, g3, _, _⟩ := l6 x hx
    refine ⟨by omega, by rw [hm, z1]; omega, ?_, q4 x hx, hkeep _ (hpes x hx)⟩
    rw [hm, z2 x.2 (by omega) (by omega) (by omega) (by omega) (by omega)]
    exact g3
  · rcases List.mem_append.mp hmem with h | h
    · exact q1.fresh q h hq
    · exact q2.fresh q h hq

theorem shl8_and_0F (a : Nat) : (a <<< 8) &&& 0x0F = 0 := by
  have h : (0x0F : Nat) = 2 ^ 4 - 1 := by decide
  rw [h, Nat.and_pow_two_sub_one_eq_mod, Nat.shiftLeft_eq]
  omega

theorem es_info_length_written (buf : Nat → Nat) (pointer size : Nat)
    (h3 : buf (pointer + 3) = (size <<< 8) &&& 0x0F) (h4 : buf (pointer + 4) = size &&& 0xFF) :
    PMT_ITEM_DESC_SIZE buf pointer = size % 256 := by
  unfold PMT_ITEM_DESC_SIZE
  rw [h3, h4, shl8_and_0F]
  have h : (0xFF : Nat) = 2 ^ 8 - 1 := by decide
  rw [h, Nat.and_pow_two_sub_one_eq_mod]
  simp

theorem desc_sizes_cons_drop (cas : Bool) (buf : Nat → Nat) (x : Nat) (rest : List Nat)
    (h : buf x = 0x09 ∧ cas = false) :
    desc_sizes cas buf (x :: rest) = desc_sizes cas buf rest := by
  unfold desc_sizes
  rw [kept_descs_cons_drop _ _ _ _ h]

theorem desc_sizes_cons_kept (cas : Bool) (buf : Nat → Nat) (x : Nat) (rest : List Nat)
    (h : ¬ (buf x = 0x09 ∧ cas = false)) :
    desc_sizes cas buf (x :: rest) = (buf (x + 1) + 2) % 256 + desc_sizes cas buf rest := by
  unfold desc_sizes
  rw [kept_descs_cons_kept _ _ _ _ h, List.map_cons, List.sum_cons]

/-- The write offset after the descriptor loop of an entry: the `uint8_t`
sizes of the kept descriptors are added. -/
theorem pmt_item_desc_data_skip (lib : mpegts_lib) (psi : ts_psi_t) (pointer item_type : Nat) :
    ∀ (n desc skip : Nat) (ts_type : ts_type_t) (lang : Option Nat) (mod : module_data_t)
      (r : module_data_t × Nat × ts_type_t × Option Nat × List Nat),
      pmt_item_desc_data lib psi pointer item_type n desc skip ts_type lang mod = some r →
      skip + (pointer + 5 + PMT_ITEM_DESC_SIZE psi.buffer pointer - desc) + 255 < 65536 →
      r.2.1 = skip + desc_sizes mod.config.cas psi.buffer
        (desc_positions psi.buffer (pointer + 5 + PMT_ITEM_DESC_SIZE psi.buffer pointer)
          n desc) := by
  intro n
  induction n with
  | zero => intro desc skip ts_type lang mod r h; cases h
  | succ n ih =>
    intro desc skip ts_type lang mod r h hbound
    unfold pmt_item_desc_data at h
    by_cases hend : pointer + 5 + PMT_ITEM_DESC_SIZE psi.buffer pointer ≤ desc
    · simp only [hend, if_true, Option.some.injEq] at h
      subst h
      rw [desc_positions, if_pos hend]
      rfl
    · simp only [hend, if_false] at h
      rw [desc_positions, if_neg hend]
      by_cases hskip : psi.buffer desc = 0x09 ∧ mod.config.cas = false
      · simp only [hskip, and_self, if_true] at h
        rw [desc_sizes_cons_drop _ _ _ _ hskip]
        exact ih _ _ _ _ mod r h (by omega)
      · simp only [hskip, if_false] at h
        rw [desc_sizes_cons_kept _ _ _ _ hskip]
        have hsz : (psi.buffer (desc + 1) + 2) % 256 ≤ 255 := by omega
        have hsz2 : (psi.buffer (desc + 1) + 2) % 256 ≤ psi.buffer (desc + 1) + 2 :=
          Nat.mod_le _ _
        have hlt : skip + (psi.buffer (desc + 1) + 2) % 256 < 65536 := by omega
        rw [Nat.mod_eq_of_lt hlt] at h
        have key : ∀ (m : module_data_t) (j : List Nat) (t : ts_type_t) (l : Option Nat),
            m.config = mod.config →
            Option.map (fun x => (x.1, x.2.1, x.2.2.1, x.2.2.2.1, j ++ x.2.2.2.2))
              (pmt_item_desc_data lib psi pointer item_type n (desc + 2 + psi.buffer (desc + 1))
                (skip + (psi.buffer (desc + 1) + 2) % 256) t l (desc_copy m psi desc skip)) =
                some r →
            r.2.1 = skip + ((psi.buffer (desc + 1) + 2) % 256 +
              desc_sizes mod.config.cas psi.buffer
                (desc_positions psi.buffer (pointer + 5 + PMT_ITEM_DESC_SIZE psi.buffer pointer)
                  n (desc + 2 + psi.buffer (desc + 1)))) := by
          intro m j t l hm h
          cases hd : pmt_item_desc_data lib psi pointer item_type n
              (desc + 2 + psi.buffer (desc + 1))
              (skip + (psi.buffer (desc + 1) + 2) % 256) t l (desc_copy m psi desc skip) with
          | none => rw [hd] at h; cases h
          | some x =>
            rw [hd] at h
            simp only [Option.map_some', Option.some.injEq] at h
            subst h
            simp only []
            have hcfg : (desc_copy m psi desc skip).config = mod.config := hm
            by_cases hnext : pointer + 5 + PMT_ITEM_DESC_SIZE psi.buffer pointer ≤
                desc + 2 + psi.buffer (desc + 1)
            · have hx := hd
              cases n with
              | zero => simp [pmt_item_desc_data] at hx
              | succ n' =>
                unfold pmt_item_desc_data at hx
                simp only [hnext, if_true, Option.some.injEq] at hx
                subst hx
                rw [desc_positions, if_pos hnext]
                simp [desc_sizes, kept_descs]
            · have := ih _ _ _ _ _ x hd (by omega)
              rw [hcfg] at this
              rw [this]
              omega
        by_cases h9 : psi.buffer desc = 0x09
        · simp only [h9, if_true] at h
          exact key _ _ _ _ (ca_data_cas mod psi.buffer desc) h
        · simp only [h9, if_false] at h
          exact key mod [] _ _ rfl h

theorem ca_data_vals (Q : Nat → Prop) (mod : module_data_t) (buf : Nat → Nat) (desc : Nat)
    (h : MapVals Q mod) : MapVals Q (ca_data mod buf desc).1 := by
  have e : (ca_data mod buf desc).1.map = mod.map := by
    unfold ca_data
    by_cases hc : mod.stream (DESC_CA_PID buf desc) = .UNKNOWN ∧ DESC_CA_PID buf desc ≠ TS_NULL_PID
    · simp only [hc, ne_eq, not_false_eq_true, and_self, if_true]
      unfold ca_mark
      simp only []
      split <;> rfl
    · simp only [hc, if_false]
  intro l hl
  rw [e] at hl
  exact h l hl

theorem map_custom_pid_vals (Q : Nat → Prop) (mod : module_data_t) (pid : Nat) (type : List Nat)
    (h : MapVals Q mod) :
    MapVals Q (map_custom_pid mod pid type).1 ∧
      ((map_custom_pid mod pid type).2 = 0 ∨ Q (map_custom_pid mod pid type).2) := by
  unfold map_custom_pid
  cases hm : mod.map with
  | none => exact ⟨h, Or.inl rfl⟩
  | some l =>
    simp only []
    cases ht : map_take l pid type with
    | none => exact ⟨h, Or.inl rfl⟩
    | some x =>
      obtain ⟨l1, c⟩ := x
      simp only []
      refine ⟨fun l' hl' item hi => ?_, Or.inr ?_⟩
      · have e : l1 = l' := Option.some.inj hl'
        subst e
        obtain ⟨y, hy, hc⟩ := map_take_mem pid type l l1 c ht item hi
        rw [← hc]
        exact h l hm y hy
      · obtain ⟨y, hy, hc⟩ := map_take_pid pid type l l1 c ht
        rw [← hc]
        exact h l hm y hy

theorem pmt_item_map_vals (Q : Nat → Prop) (mod : module_data_t) (psi : ts_psi_t) (pid : Nat)
    (ts_type : ts_type_t) (lang : Option Nat) (h : MapVals Q mod) :
    MapVals Q (pmt_item_map mod psi pid ts_type lang).1 ∧
      ((pmt_item_map mod psi pid ts_type lang).2 = 0 ∨
        Q (pmt_item_map mod psi pid ts_type lang).2) := by
  unfold pmt_item_map
  cases ts_type <;> simp only [] <;> try exact map_custom_pid_vals Q _ _ _ h
  cases lang with
  | none =>
    simp only [if_true]
    exact map_custom_pid_vals Q _ _ _ h
  | some dd =>
    simp only []
    split
    · exact map_custom_pid_vals Q _ _ _ (map_custom_pid_vals Q _ _ _ h).1
    · exact map_custom_pid_vals Q _ _ _ h

theorem item_close_vals (Q : Nat → Prop) (mod : module_data_t) (psi : ts_psi_t)
    (pid sl sk : Nat) (t : ts_type_t) (l : Option Nat) (h : MapVals Q mod) :
    MapVals Q (item_close mod psi pid sl sk t l) := by
  unfold item_close
  simp only []
  have hv := pmt_item_map_vals Q
    ({ mod with custom_pmt := { mod.custom_pmt with
      buffer := Function.update
        (Function.update mod.custom_pmt.buffer (sl + 3)
          ((((sk + 2 * 65536 - sl - 5) % 65536) <<< 8) &&& 0x0F))
        (sl + 4) (((sk + 2 * 65536 - sl - 5) % 65536) &&& 0xFF) } } : module_data_t)
    psi pid t l h
  split
  · split
    · intro l' hl'
      exact hv.1 l' hl'
    · exact hv.1
  · exact h

/-- The two `ES_info_length` bytes that `item_close` writes stay as written. -/
theorem item_close_tail (mod : module_data_t) (psi : ts_psi_t) (pid sl sk : Nat)
    (t : ts_type_t) (l : Option Nat) :
    (item_close mod psi pid sl sk t l).custom_pmt.buffer (sl + 3) =
        (((sk + 2 * 65536 - sl - 5) % 65536) <<< 8) &&& 0x0F ∧
      (item_close mod psi pid sl sk t l).custom_pmt.buffer (sl + 4) =
        ((sk + 2 * 65536 - sl - 5) % 65536) &&& 0xFF := by
  have h34 : sl + 3 ≠ sl + 4 := by omega
  unfold item_close
  simp only []
  split
  · split
    · simp only [PMT_ITEM_SET_PID]
      rw [Function.update_noteq (by omega), Function.update_noteq (by omega),
        Function.update_noteq (by omega), Function.update_noteq (by omega), pmt_item_map_custom]
      simp only []
      rw [Function.update_noteq h34, Function.update_same, Function.update_same]
      exact ⟨rfl, rfl⟩
    · rw [pmt_item_map_custom]
      simp only []
      rw [Function.update_noteq h34, Function.update_same, Function.update_same]
      exact ⟨rfl, rfl⟩
  · simp only []
    rw [Function.update_noteq h34, Function.update_same, Function.update_same]
    exact ⟨rfl, rfl⟩

theorem pmt_item_pid_congr (b1 b2 : Nat → Nat) (p1 p2 : Nat) (h1 : b1 (p1 + 1) = b2 (p2 + 1))
    (h2 : b1 (p1 + 2) = b2 (p2 + 2)) : PMT_ITEM_GET_PID b1 p1 = PMT_ITEM_GET_PID b2 p2 := by
  unfold PMT_ITEM_GET_PID
  rw [h1, h2]

/-- The PID of an entry after `item_close`: the one copied, or the custom PID
of a map rule. -/
theorem item_close_pid (Q : Nat → Prop) (mod : module_data_t) (psi : ts_psi_t)
    (pid sl sk : Nat) (t : ts_type_t) (l : Option Nat) (h : MapVals Q mod) :
    PMT_ITEM_GET_PID (item_close mod psi pid sl sk t l).custom_pmt.buffer sl =
        PMT_ITEM_GET_PID mod.custom_pmt.buffer sl ∨
      ∃ q, Q q ∧ PMT_ITEM_GET_PID (item_close mod psi pid sl sk t l).custom_pmt.buffer sl =
        q % 8192 := by
  unfold item_close
  simp only []
  have hv := pmt_item_map_vals Q
    ({ mod with custom_pmt := { mod.custom_pmt with
      buffer := Function.update
        (Function.update mod.custom_pmt.buffer (sl + 3)
          ((((sk + 2 * 65536 - sl - 5) % 65536) <<< 8) &&& 0x0F))
        (sl + 4) (((sk + 2 * 65536 - sl - 5) % 65536) &&& 0xFF) } } : module_data_t)
    psi pid t l h
  split
  · split
    · rename_i hne
      right
      rcases hv.2 with h0 | hq
      · exact absurd h0 hne
      · refine ⟨_, hq, ?_⟩
        simp only [PMT_ITEM_SET_PID, PMT_ITEM_GET_PID]
        rw [Function.update_noteq (by omega), Function.update_same, Function.update_same]
        exact pid_field_mod _ _ (and_E0_1F _)
    · left
      rw [pmt_item_map_custom]
      refine pmt_item_pid_congr _ _ sl sl ?_ ?_
      · simp only []
        rw [Function.update_noteq (by omega), Function.update_noteq (by omega)]
      · simp only []
        rw [Function.update_noteq (by omega), Function.update_noteq (by omega)]
  · left
    refine pmt_item_pid_congr _ _ sl sl ?_ ?_
    · simp only []
      rw [Function.update_noteq (by omega), Function.update_noteq (by omega)]
    · simp only []
      rw [Function.update_noteq (by omega), Function.update_noteq (by omega)]

/-- The entries of the buffer that the entry loop of `on_pmt` has written, read
back with the entry macros: when the descriptors copied for each entry take
fewer than 256 bytes, the entries found from the starting offset up to the
final offset are exactly the copies, and the PID of each copy is the PID of
the inbound entry or the custom PID of a map rule. -/
theorem pmt_items_data_parse (Q : Nat → Prop) (lib : mpegts_lib) (psi : ts_psi_t)
    (pcr_pid : Nat) (hb : ∀ k, psi.buffer k < 256) (hsize : psi.buffer_size ≤ 1024) :
    ∀ (n pointer skip : Nat) (jp : Bool) (mod : module_data_t)
      (r : module_data_t × Nat × Bool × List Nat × List (Nat × Nat)),
      pmt_items_data lib psi pcr_pid n pointer skip jp mod = some r →
      skip ≤ 52 * pointer → skip ≤ 57343 → MapVals Q mod →
      (∀ x ∈ r.2.2.2.2, desc_sizes mod.config.cas psi.buffer (item_descs psi x.1) < 256) →
      ∀ (c : ts_psi_t) (N : Nat), c.buffer_size = r.2.1 + CRC32_SIZE →
        (∀ o, skip ≤ o → o < r.2.1 → c.buffer o = r.1.custom_pmt.buffer o) →
        r.2.1 < skip + N →
        item_positions c N skip = r.2.2.2.2.map Prod.snd ∧
        ∀ x ∈ r.2.2.2.2,
          PMT_ITEM_GET_PID c.buffer x.2 = PMT_ITEM_GET_PID psi.buffer x.1 ∨
          ∃ q, Q q ∧ PMT_ITEM_GET_PID c.buffer x.2 = q % 8192 := by
  intro n
  induction n with
  | zero => intro pointer skip jp mod r h; cases h
  | succ n ih =>
    intro pointer skip jp mod r h h52 hmax hq hshort c N hcs hc hN
    unfold pmt_items_data at h
    by_cases hend : psi.buffer_size - CRC32_SIZE ≤ pointer
    · simp only [hend, if_true, Option.some.injEq] at h
      subst h
      simp only [] at hcs hN ⊢
      refine ⟨?_, fun x hx => by cases hx⟩
      cases N with
      | zero => rfl
      | succ N' =>
        rw [item_positions, if_pos (by rw [hcs]; simp only [CRC32_SIZE]; omega)]
        rfl
    · simp only [hend, if_false] at h
      have hD : PMT_ITEM_DESC_SIZE psi.buffer pointer < 4096 := len12_lt _ _ (hb _)
      have hptr : pointer ≤ 1019 := by simp only [CRC32_SIZE] at hend; omega
      by_cases hf : mod.pid_map (PMT_ITEM_GET_PID psi.buffer pointer) = TS_MAX_PIDS
      · simp only [hf, if_true] at h
        exact ih _ _ _ mod r h (by omega) hmax hq hshort c N hcs hc hN
      · simp only [hf, if_false] at h
        rw [Nat.mod_eq_of_lt (by omega : skip + 5 < 65536)] at h
        cases hd : pmt_item_desc_data lib psi pointer (psi.buffer pointer)
            (PMT_ITEM_DESC_SIZE psi.buffer pointer + 1) (pointer + 5) (skip + 5)
            (lib.ts_stream_type (psi.buffer pointer)) none (item_head mod psi pointer skip) with
        | none => rw [hd] at h; cases h
        | some y =>
          obtain ⟨mod3, skip2, t2, lang, joins⟩ := y
          rw [hd] at h
          simp only [] at h
          have hb1 : skip + 5 + (pointer + 5 + PMT_ITEM_DESC_SIZE psi.buffer pointer -
              (pointer + 5)) + 255 < 65536 := by omega
          obtain ⟨w1, w2, w3⟩ := pmt_item_desc_data_writes lib psi pointer (psi.buffer pointer)
            _ _ _ _ _ _ _ hd hb1
          have w1' : skip + 5 ≤ skip2 := w1
          have w2' : skip2 ≤ skip + 5 + PMT_ITEM_DESC_SIZE psi.buffer pointer + 255 := by
            have : skip2 ≤ skip + 5 +
              (pointer + 5 + PMT_ITEM_DESC_SIZE psi.buffer pointer - (pointer + 5)) + 255 := w2
            omega
          have w3' : ∀ o < skip + 5, mod3.custom_pmt.buffer o =
              (item_head mod psi pointer skip).custom_pmt.buffer o := w3
          have hsk : skip2 = skip + 5 + desc_sizes mod.config.cas psi.buffer
              (item_descs psi pointer) :=
            pmt_item_desc_data_skip lib psi pointer (psi.buffer pointer) _ _ _ _ _ _ _ hd hb1
          have hs1 := pmt_item_desc_data_step (fun _ => False) lib psi pointer (psi.buffer pointer)
            _ _ _ _ _ _ _ hd (Or.inr (fun _ _ h => h))
          have hs2 := pmtStep_close (fun _ => False) mod3 psi (PMT_ITEM_GET_PID psi.buffer pointer)
            skip skip2 t2 lang (fun h => h)
          have hcfg : (item_close mod3 psi (PMT_ITEM_GET_PID psi.buffer pointer) skip skip2 t2
              lang).config = mod.config := hs2.config.trans hs1.config
          have hq3 : MapVals Q mod3 :=
            pmt_item_desc_data_inv (MapVals Q) (fun m buf desc hm => ca_data_vals Q m buf desc hm)
              (fun _ _ _ _ hx => hx) lib psi pointer _ _ _ _ _ _ _ _ hd hq
          have hq4 := item_close_vals Q mod3 psi (PMT_ITEM_GET_PID psi.buffer pointer) skip skip2
            t2 lang hq3
          cases hrest : pmt_items_data lib psi pcr_pid n
              (pointer + 5 + PMT_ITEM_DESC_SIZE psi.buffer pointer) skip2
              (if PMT_ITEM_GET_PID psi.buffer pointer = pcr_pid then false else jp)
              (item_close mod3 psi (PMT_ITEM_GET_PID psi.buffer pointer) skip skip2 t2
                lang) with
          | none => rw [hrest] at h; cases h
          | some z =>
            rw [hrest] at h
            simp only [Option.map_some', Option.some.injEq] at h
            subst h
            simp only [] at hshort hcs hc hN ⊢
            obtain ⟨i1, _, i3, _, _⟩ := pmt_items_data_layout lib psi pcr_pid hb hsize _ _ _ _ _ z
              hrest (by omega) (by omega)
            have hsz : desc_sizes mod.config.cas psi.buffer (item_descs psi pointer) < 256 :=
              hshort (pointer, skip) (List.mem_cons_self _ _)
            obtain ⟨t3, t4⟩ := item_close_tail mod3 psi (PMT_ITEM_GET_PID psi.buffer pointer) skip
              skip2 t2 lang
            have hsize2 : (skip2 + 2 * 65536 - skip - 5) % 65536 =
                desc_sizes mod.config.cas psi.buffer (item_descs psi pointer) := by
              omega
            have hlen : PMT_ITEM_DESC_SIZE c.buffer skip =
                desc_sizes mod.config.cas psi.buffer (item_descs psi pointer) := by
              rw [es_info_length_written c.buffer skip ((skip2 + 2 * 65536 - skip - 5) % 65536)
                (by rw [hc (skip + 3) (by omega) (by omega), i3 (skip + 3) (by omega)]; exact t3)
                (by rw [hc (skip + 4) (by omega) (by omega), i3 (skip + 4) (by omega)]; exact t4),
                hsize2]
              exact Nat.mod_eq_of_lt hsz
            obtain ⟨k1, k2⟩ := ih _ _ _ _ z hrest (by omega) (by omega) hq4
              (fun x hx => by rw [hcfg]; exact hshort x (List.mem_cons_of_mem _ hx)) c (N - 1) hcs
              (fun o ho1 ho2 => hc o (by omega) ho2) (by omega)
            refine ⟨?_, fun x hx => ?_⟩
            · obtain ⟨N', rfl⟩ : ∃ N', N = N' + 1 := ⟨N - 1, by omega⟩
              rw [item_positions, if_neg (by rw [hcs]; simp only [CRC32_SIZE]; omega), hlen,
                ← hsk]
              simp only [Nat.add_sub_cancel] at k1
              rw [k1]
              rfl
            · rcases List.mem_cons.mp hx with hx | hx
              · subst hx
                simp only []
                have e1 : c.buffer (skip + 1) = (item_close mod3 psi
                    (PMT_ITEM_GET_PID psi.buffer pointer) skip skip2 t2 lang).custom_pmt.buffer
                    (skip + 1) := by
                  rw [hc (skip + 1) (by omega) (by omega), i3 (skip + 1) (by omega)]
                have e2 : c.buffer (skip + 2) = (item_close mod3 psi
                    (PMT_ITEM_GET_PID psi.buffer pointer) skip skip2 t2 lang).custom_pmt.buffer
                    (skip + 2) := by
                  rw [hc (skip + 2) (by omega) (by omega), i3 (skip + 2) (by omega)]
                rw [pmt_item_pid_congr _ _ skip skip e1 e2]
                have e3 : PMT_ITEM_GET_PID mod3.custom_pmt.buffer skip =
                    PMT_ITEM_GET_PID psi.buffer pointer := by
                  refine pmt_item_pid_congr _ _ skip pointer ?_ ?_
                  · rw [w3' (skip + 1) (by omega)]
                    simp only [item_head, memcpy]
                    rw [if_pos ⟨by omega, by omega⟩, Nat.add_sub_cancel_left]
                  · rw [w3' (skip + 2) (by omega)]
                    simp only [item_head, memcpy]
                    rw [if_pos ⟨by omega, by omega⟩, Nat.add_sub_cancel_left]
                rw [← e3]
                exact item_close_pid Q mod3 psi _ skip skip2 t2 lang hq3
              · exact k2 x hx

theorem len_field_mod (u s : Nat) (hu : u &&& 0x0F = 0) :
    (((u ||| ((s >>> 8) &&& 0x0F)) &&& 0x0F) <<< 8) ||| (s &&& 0xFF) = s % 4096 := by
  rw [or_and_mask, hu, Nat.zero_or, Nat.and_assoc]
  have h1 : (0x0F : Nat) &&& 0x0F = 2 ^ 4 - 1 := by decide
  have h2 : (0xFF : Nat) = 2 ^ 8 - 1 := by decide
  rw [h1, h2, Nat.and_pow_two_sub_one_eq_mod, Nat.and_pow_two_sub_one_eq_mod,
    Nat.shiftRight_eq_div_pow, Nat.shiftLeft_eq, Nat.mul_comm,
    ← Nat.mul_add_lt_is_or (Nat.mod_lt _ (by decide))]
  omega

theorem and_F0_0F (x : Nat) : (x &&& 0xF0) &&& 0x0F = 0 := by
  rw [Nat.and_assoc]
  exact Nat.and_zero x

/-- The `program_info_length` that `pmt_info_close` writes reads back as the
number of bytes between offset 12 and `skip`. -/
theorem pmt_info_close_first (mod : module_data_t) (skip : Nat) (h1 : 12 ≤ skip)
    (h2 : skip < 4108) :
    12 + (((pmt_info_close mod skip).custom_pmt.buffer 10 &&& 0x0F) <<< 8 |||
      (pmt_info_close mod skip).custom_pmt.buffer 11) = skip := by
  have e : ∀ b : Nat → Nat,
      b 10 = (mod.pmt.buffer 10 &&& 0xF0) ||| ((((skip + 65536 - 12) % 65536) >>> 8) &&& 0x0F) →
      b 11 = ((skip + 65536 - 12) % 65536) &&& 0xFF →
      12 + ((b 10 &&& 0x0F) <<< 8 ||| b 11) = skip := by
    intro b e10 e11
    rw [e10, e11, len_field_mod _ _ (and_F0_0F _)]
    omega
  unfold pmt_info_close
  simp only []
  split
  · refine e _ ?_ ?_
    · simp only [PMT_SET_PNR]
      rw [Function.update_noteq (by decide), Function.update_noteq (by decide),
        Function.update_noteq (by decide), Function.update_same]
    · simp only [PMT_SET_PNR]
      rw [Function.update_noteq (by decide), Function.update_noteq (by decide),
        Function.update_same]
  · refine e _ ?_ ?_
    · simp only []
      rw [Function.update_noteq (by decide), Function.update_same]
    · simp only []
      rw [Function.update_same]

/-- The entries of the rebuilt custom PMT, read back with the entry macros:
for a section of at most 1024 bytes whose program descriptors end inside the
section and in which the descriptors copied for each copied entry take fewer
than 256 bytes, they are exactly the copies that the entry loop has made, and the PID of each is the PID of the inbound entry or
the custom PID of a map rule. -/
theorem pmt_data_parse (Q : Nat → Prop) (lib : mpegts_lib) (mod m : module_data_t)
    (joins : List Nat) (copied : List (Nat × Nat))
    (hdata : pmt_data lib mod = some (m, joins, copied))
    (hb : ∀ k, mod.pmt.buffer k < 256) (hsize : mod.pmt.buffer_size ≤ 1024)
    (hinfo : PMT_ITEMS_FIRST mod.pmt ≤ mod.pmt.buffer_size) (hq : MapVals Q mod)
    (hshort : ∀ x ∈ copied,
      desc_sizes mod.config.cas mod.pmt.buffer (item_descs mod.pmt x.1) < 256) :
    pmt_items m.custom_pmt = copied.map Prod.snd ∧
    ∀ x ∈ copied,
      PMT_ITEM_GET_PID m.custom_pmt.buffer x.2 = PMT_ITEM_GET_PID mod.pmt.buffer x.1 ∨
      ∃ q, Q q ∧ PMT_ITEM_GET_PID m.custom_pmt.buffer x.2 = q % 8192 := by
  obtain ⟨mod2, skip, j1, mod5, skip2, jp, j2, h1, h2, _, hm⟩ :=
    pmt_data_parts lib mod m joins copied hdata
  obtain ⟨l1, l2, l3, _, _, _, _⟩ := pmt_loops_layout lib mod mod2 mod5 skip skip2
    jp j1 j2 copied h1 h2 hb hsize
  obtain ⟨z1, z2, _⟩ := pmt_sealed_layout mod5 skip2 (PMT_GET_PCR mod.pmt) jp (by omega)
  rw [← hm] at z1 z2
  have hDp : PMT_DESC_SIZE mod.pmt ≤ 1012 := by
    simp only [PMT_ITEMS_FIRST] at hinfo
    omega
  have hbd : 12 + (12 + PMT_DESC_SIZE mod.pmt - 12) + 255 < 65536 := by omega
  obtain ⟨_, w2, _⟩ := pmt_desc_data_writes mod.pmt _ _ _ _ _ h1 hbd
  have w2' : skip ≤ 12 + PMT_DESC_SIZE mod.pmt + 255 := by
    have : skip ≤ 12 + (12 + PMT_DESC_SIZE mod.pmt - 12) + 255 := w2
    omega
  obtain ⟨c1, _, _, c4, _, _, _, _, _⟩ := pmt_info_close_frame mod2 skip
  have sd := pmt_desc_data_step (fun _ => False) mod.pmt _ _ _ _ _ h1 (Or.inr (fun _ _ h => h))
  have hcfg : (pmt_info_close mod2 skip).config = mod.config := by
    rw [c1, sd.config]; rfl
  have hq2 : MapVals Q mod2 :=
    pmt_desc_data_inv (MapVals Q) (fun m buf desc hx => ca_data_vals Q m buf desc hx)
      (fun _ _ _ _ hx => hx) mod.pmt _ _ _ _ _ h1 hq
  have hq3 : MapVals Q (pmt_info_close mod2 skip) := fun l hl => hq2 l (by rw [← c4]; exact hl)
  obtain ⟨_, _, i3, _, _⟩ := pmt_items_data_layout lib mod.pmt (PMT_GET_PCR mod.pmt) hb hsize
    _ _ _ _ _ _ h2 (by simp only [PMT_ITEMS_FIRST]; omega) (by omega)
  have hfirst : PMT_ITEMS_FIRST m.custom_pmt = skip := by
    unfold PMT_ITEMS_FIRST PMT_DESC_SIZE
    rw [z2 10 (by omega) (by decide) (by decide) (by decide) (by decide),
      z2 11 (by omega) (by decide) (by decide) (by decide) (by decide)]
    have e10 : mod5.custom_pmt.buffer 10 = (pmt_info_close mod2 skip).custom_pmt.buffer 10 :=
      i3 10 (by omega)
    have e11 : mod5.custom_pmt.buffer 11 = (pmt_info_close mod2 skip).custom_pmt.buffer 11 :=
      i3 11 (by omega)
    rw [e10, e11]
    exact pmt_info_close_first mod2 skip l1 (by omega)
  have key := pmt_items_data_parse Q lib mod.pmt (PMT_GET_PCR mod.pmt) hb hsize _ _ _ _ _ _ h2
    (by simp only [PMT_ITEMS_FIRST]; omega) (by omega) hq3
    (fun x hx => by rw [hcfg]; exact hshort x hx) m.custom_pmt (m.custom_pmt.buffer_size + 1) z1
    (fun o ho1 ho2 => z2 o ho2 (by omega) (by omega) (by omega) (by omega))
    (by rw [z1]; simp only [CRC32_SIZE]; omega)
  unfold pmt_items
  rw [hfirst]
  exact key

/-- Claim C19, amended: for a first-seen valid PMT of at most 1024 bytes whose
program descriptors end inside the section, in which no CA descriptor names a
filtered PID while `cas` is enabled and the descriptors copied for each kept
entry take fewer than 256 bytes, `on_pmt` returns, and the entries of the
custom PMT (read with the entry macros, from the end of its program
descriptors to its CRC) correspond one to one, in order, to the inbound
entries whose PID is not marked FILTERED in `pid_map`: each has the inbound
`stream_type` byte and the inbound PID or the custom PID of a map rule; the
PID of each kept entry is joined by the entry loop and has stream type `PES`
(unless `no_reload` is set and it is the PID of the PMT itself), and no
filtered PID is joined by the descriptor loop or the entry loop.  The list
`copied` pairs the offset of each kept entry in the section with the offset
of its copy.  The loops run on the section with its CRC latched. -/
theorem pmt_entries_filtered {d : Nat → Nat} {fuel : Nat} {s : State} {self : Nat}
    (hr : Ready d fuel s self) (lib : mpegts_lib) (mod : module_data_t)
    (hb : ∀ k, mod.pmt.buffer k < 256) (hnew : pmt_is_new mod)
    (hsize : mod.pmt.buffer_size ≤ 1024)
    (hinfo : PMT_ITEMS_FIRST mod.pmt ≤ mod.pmt.buffer_size) (hok : MapOk mod)
    (hca : mod.config.cas = false ∨ ∀ q ∈ pmt_ca_pids mod.pmt, mod.pid_map q ≠ TS_MAX_PIDS)
    (hshort : ∀ ptr ∈ pmt_items mod.pmt,
      mod.pid_map (PMT_ITEM_GET_PID mod.pmt.buffer ptr) ≠ TS_MAX_PIDS →
      desc_sizes mod.config.cas mod.pmt.buffer (item_descs mod.pmt ptr) < 256) :
    ∃ s' mod' mod2 skip mod5 skip2 jp, ∃ j1 j2 : List Nat, ∃ copied : List (Nat × Nat),
      on_pmt lib fuel s self mod = .ok (s', mod') ∧
      pmt_desc_data (pmt_latched mod).pmt (PMT_DESC_SIZE mod.pmt + 1) 12 12
        (pmt_head (pmt_latched mod)) = some (mod2, skip, j1) ∧
      pmt_items_data lib (pmt_latched mod).pmt (PMT_GET_PCR mod.pmt) (mod.pmt.buffer_size + 1)
        (PMT_ITEMS_FIRST mod.pmt) skip true (pmt_info_close mod2 skip) =
        some (mod5, skip2, jp, j2, copied) ∧
      pid_refs s' self = (j1 ++ j2 ++ (if jp then [PMT_GET_PCR mod.pmt] else [])).foldl
        incr_step (pid_refs s self) ∧
      List.Forall₂
        (fun o i =>
          mod'.custom_pmt.buffer o = mod.pmt.buffer i ∧
          (PMT_ITEM_GET_PID mod'.custom_pmt.buffer o = PMT_ITEM_GET_PID mod.pmt.buffer i ∨
            ∃ l item, mod.map = some l ∧ item ∈ l ∧
              PMT_ITEM_GET_PID mod'.custom_pmt.buffer o = item.custom_pid) ∧
          PMT_ITEM_GET_PID mod.pmt.buffer i ∈ j2 ∧
          mod'.stream (PMT_ITEM_GET_PID mod.pmt.buffer i) =
            (if mod.config.no_reload = true ∧ PMT_ITEM_GET_PID mod.pmt.buffer i = mod.pmt.pid
              then .UNKNOWN else .PES))
        (pmt_items mod'.custom_pmt)
        ((pmt_items mod.pmt).filter
          (fun ptr => decide (mod.pid_map (PMT_ITEM_GET_PID mod.pmt.buffer ptr) ≠ TS_MAX_PIDS))) ∧
      copied.map Prod.fst = (pmt_items mod.pmt).filter
        (fun ptr => decide (mod.pid_map (PMT_ITEM_GET_PID mod.pmt.buffer ptr) ≠ TS_MAX_PIDS)) ∧
      copied.map Prod.snd = pmt_items mod'.custom_pmt ∧
      copied.Pairwise (fun a b => a.2 + 5 ≤ b.2) ∧
      (∀ x ∈ copied, 12 ≤ x.2 ∧ x.2 + 5 + CRC32_SIZE ≤ mod'.custom_pmt.buffer_size) ∧
      ∀ q, mod.pid_map q = TS_MAX_PIDS → q ∉ j1 ++ j2 := by
  obtain ⟨m, joins, copied, hdata, _, heq, _, hrefs⟩ := pmt_rebuild_eq hr lib (pmt_latched mod) hb
  obtain ⟨mod2, skip, mod5, skip2, jp, j1, j2, h1, h2, hj, h4, h5, h6, h7⟩ :=
    pmt_data_entries lib (pmt_latched mod) m joins copied hdata hb hsize hok
      (by rw [pmt_ca_pids_latched]; exact hca)
  rw [pmt_items_latched] at h4
  have h4 : copied.map Prod.fst = (pmt_items mod.pmt).filter
      (fun ptr => decide (mod.pid_map (PMT_ITEM_GET_PID mod.pmt.buffer ptr) ≠ TS_MAX_PIDS)) := h4
  obtain ⟨_, _, _, _, f5, f6, _, f8⟩ := pmt_sent_frame lib m
  have hstep := pmt_data_step (fun _ => False) lib (pmt_latched mod) m joins copied hdata
    (fun _ c => c.elim) (Or.inr (fun _ _ c => c)) (fun c => c)
  have hmcfg : m.config = mod.config := hstep.config
  have hmpmt : m.pmt.pid = mod.pmt.pid := by rw [hstep.pmt]; rfl
  have hmem : ∀ x ∈ copied, x.1 ∈ pmt_items mod.pmt ∧
      mod.pid_map (PMT_ITEM_GET_PID mod.pmt.buffer x.1) ≠ TS_MAX_PIDS := by
    intro x hx
    have : x.1 ∈ copied.map Prod.fst := List.mem_map_of_mem _ hx
    rw [h4, List.mem_filter] at this
    exact ⟨this.1, of_decide_eq_true this.2⟩
  obtain ⟨p1, p2⟩ := pmt_data_parse
    (fun q => (∃ l item, mod.map = some l ∧ item ∈ l ∧ item.custom_pid = q) ∧ q < TS_MAX_PIDS)
    lib (pmt_latched mod) m joins copied hdata hb hsize hinfo
    (fun l hl item hi => ⟨⟨l, item, hl, hi, rfl⟩, hok l hl item hi⟩)
    (fun x hx => hshort x.1 (hmem x hx).1 (hmem x hx).2)
  have hitems : pmt_items (pmt_sent lib m).custom_pmt = pmt_items m.custom_pmt := by
    unfold pmt_items PMT_ITEMS_FIRST PMT_DESC_SIZE
    rw [item_positions_congr _ _ f5 f6, f5, f6]
  have hentry : ∀ x ∈ copied,
      (pmt_sent lib m).custom_pmt.buffer x.2 = mod.pmt.buffer x.1 ∧
      (PMT_ITEM_GET_PID (pmt_sent lib m).custom_pmt.buffer x.2 =
          PMT_ITEM_GET_PID mod.pmt.buffer x.1 ∨
        ∃ l item, mod.map = some l ∧ item ∈ l ∧
          PMT_ITEM_GET_PID (pmt_sent lib m).custom_pmt.buffer x.2 = item.custom_pid) ∧
      PMT_ITEM_GET_PID mod.pmt.buffer x.1 ∈ j2 ∧
      (pmt_sent lib m).stream (PMT_ITEM_GET_PID mod.pmt.buffer x.1) =
        (if mod.config.no_reload = true ∧ PMT_ITEM_GET_PID mod.pmt.buffer x.1 = mod.pmt.pid
          then .UNKNOWN else .PES) := by
    intro x hx
    obtain ⟨g1, g2, g3, g4, g5⟩ := h6 x hx
    refine ⟨by rw [f5]; exact g3, ?_, g4, ?_⟩
    · rw [f5]
      rcases p2 x hx with e | ⟨q, ⟨⟨l, item, hl, hi, hc⟩, hlt⟩, e⟩
      · exact Or.inl e
      · refine Or.inr ⟨l, item, hl, hi, ?_⟩
        rw [e, hc]
        exact Nat.mod_eq_of_lt hlt
    · rw [f8, hmcfg, hmpmt]
      have g5' : m.stream (PMT_ITEM_GET_PID mod.pmt.buffer x.1) = .PES := g5
      rw [g5']
  refine ⟨_, _, mod2, skip, mod5, skip2, jp, j1, j2, copied,
    (on_pmt_new_eq lib fuel s self mod hnew).trans heq, h1, h2, by rw [hrefs, hj]; rfl, ?_, h4,
    by rw [hitems]; exact p1.symm, h5, fun x hx => ?_, h7⟩
  · rw [hitems, p1, ← h4, List.forall₂_map_left_iff, List.forall₂_map_right_iff,
      List.forall₂_same]
    exact hentry
  · obtain ⟨g1, g2, _⟩ := h6 x hx
    exact ⟨g1, by rw [f6]; exact g2⟩

/-- Claim C19, the counterexample: with `cas` enabled and PID `0x102` filtered,
the CA descriptor of the first entry of `pmt_ca_names_entry` names `0x102`;
the entry loop joins `0x102`, clears its marker, and then copies the entry of
`0x102` as well (second entry of the custom PMT, at offset 23; the PID is
joined twice).  And with `no_reload`, an entry on the PID of the PMT itself
(`0x100`) is copied and joined but left with stream type `UNKNOWN`. -/
theorem ca_descriptor_unfilters_entry :
    chan_mod_cas_filter.pid_map 0x102 = TS_MAX_PIDS ∧
    (match on_pmt demo_lib 4 chan_tree_pat 1 (load_pmt chan_mod_cas_filter pmt_ca_names_entry) with
      | .ok (s, m) =>
        some (m.custom_pmt.buffer_size, PMT_ITEM_GET_PID m.custom_pmt.buffer 23,
          m.pid_map 0x102, pid_refs s 1 0x102)
      | .error _ => none) = some (32, 0x102, 0, 2) ∧
    (match on_pmt demo_lib 4 chan_tree_pat 1
        (load_pmt chan_mod_pat_no_reload pmt_entry_on_pmt_pid) with
      | .ok (s, m) =>
        some (PMT_ITEM_GET_PID m.custom_pmt.buffer 17, m.stream 0x100, pid_refs s 1 0x100)
      | .error _ => none) = some (0x100, .UNKNOWN, 2) := by
  refine ⟨by decide, ?_, ?_⟩
  · rw [on_pmt_first_seen demo_lib 4 chan_tree_pat 1
      (load_pmt chan_mod_cas_filter pmt_ca_names_entry)
      (by decide!) (by decide!) (by decide!)
      (by rw [PSI_CALC_CRC32, crc32b_eq_loop]; decide!) (by decide!)]
    decide!
  · rw [on_pmt_first_seen demo_lib 4 chan_tree_pat 1
      (load_pmt chan_mod_pat_no_reload pmt_entry_on_pmt_pid)
      (by decide!) (by decide!) (by decide!)
      (by rw [PSI_CALC_CRC32, crc32b_eq_loop]; decide!) (by decide!)]
    decide!

theorem pmt_swapped_new : pmt_is_new (load_pmt chan_mod_filter pmt_swapped) :=
  ⟨by decide, by decide, by decide, by rw [PSI_CALC_CRC32, crc32b_eq_loop]; decide!,
    by decide⟩

/-- Witness for C19: with PID `0x102` filtered, the custom PMT built from
`pmt_swapped` has one entry, the copy of the entry of `0x101` (at offset 12 of
the section), with the same `stream_type` byte and the same PID. -/
theorem pmt_entries_filtered_witness :
    ∃ s' mod' o,
      on_pmt demo_lib 4 (chan_tree_refs refs_init) 1 (load_pmt chan_mod_filter pmt_swapped) =
        .ok (s', mod') ∧
      pmt_items mod'.custom_pmt = [o] ∧
      mod'.custom_pmt.buffer o = pmt_swapped.getD 12 0 ∧
      PMT_ITEM_GET_PID mod'.custom_pmt.buffer o = 0x101 := by
  obtain ⟨s', mod', _, _, _, _, _, _, _, copied, h1, _, _, _, hF, _⟩ :=
    pmt_entries_filtered (chan_tree_refs_ready refs_init refs_init_lt) demo_lib
      (load_pmt chan_mod_filter pmt_swapped) (getD_byte pmt_swapped (by decide)) pmt_swapped_new
      (by decide) (by decide) (fun l hl => by cases hl) (Or.inl rfl) (by decide)
  have hfil : (pmt_items (load_pmt chan_mod_filter pmt_swapped).pmt).filter
      (fun ptr => decide ((load_pmt chan_mod_filter pmt_swapped).pid_map
        (PMT_ITEM_GET_PID (load_pmt chan_mod_filter pmt_swapped).pmt.buffer ptr) ≠ TS_MAX_PIDS)) =
      [12] := by decide
  rw [hfil] at hF
  obtain ⟨o, rest, ho, hrest, hcons⟩ := List.forall₂_cons_right_iff.mp hF
  have hnil : rest = [] := List.forall₂_nil_right_iff.mp hrest
  subst hnil
  refine ⟨s', mod', o, h1, hcons, ho.1, ?_⟩
  rcases ho.2.1 with e | ⟨l, item, hl, _⟩
  · rw [e]
    decide
  · cases hl

/-! ## Channel: a filtered PID stays filtered -/

theorem sameCustom_refl (mod : module_data_t) : SameCustom mod mod :=
  ⟨fun _ h => h, rfl, rfl⟩

theorem sameCustom_trans {a b c : module_data_t} (h1 : SameCustom a b) (h2 : SameCustom b c) :
    SameCustom a c :=
  ⟨fun Q h => h2.rules Q (h1.rules Q h), h2.buffer.trans h1.buffer, h2.size.trans h1.size⟩

theorem sameCustom_of_eq (mod mod' : module_data_t) (h1 : mod'.map = mod.map)
    (h2 : mod'.custom_pmt.buffer = mod.custom_pmt.buffer)
    (h3 : mod'.custom_pmt.buffer_size = mod.custom_pmt.buffer_size) : SameCustom mod mod' :=
  ⟨fun _ h l hl => h l (by rw [← h1]; exact hl), h2, h3⟩

theorem sameCustom_left {a a' b : module_data_t} (h : SameCustom a' b) (h1 : a'.map = a.map)
    (h2 : a'.custom_pmt.buffer = a.custom_pmt.buffer)
    (h3 : a'.custom_pmt.buffer_size = a.custom_pmt.buffer_size) : SameCustom a b :=
  sameCustom_trans (sameCustom_of_eq a a' h1 h2 h3) h

theorem sameCustom_right {a b b' : module_data_t} (h : SameCustom a b) (h1 : b'.map = b.map)
    (h2 : b'.custom_pmt.buffer = b.custom_pmt.buffer)
    (h3 : b'.custom_pmt.buffer_size = b.custom_pmt.buffer_size) : SameCustom a b' :=
  sameCustom_trans h (sameCustom_of_eq b b' h1 h2 h3)

theorem pmt_lists_congr (a b : ts_psi_t) (p : Nat) (h1 : a.buffer = b.buffer)
    (h2 : a.buffer_size = b.buffer_size) : pmt_lists a p ↔ pmt_lists b p := by
  unfold pmt_lists pmt_items PMT_ITEMS_FIRST PMT_DESC_SIZE
  rw [item_positions_congr a b h1 h2, h1, h2]

theorem spared_of_same {p : Nat} {mod mod' : module_data_t} (h : Spared p mod)
    (hm : mod'.pid_map p = mod.pid_map p) (hs : SameCustom mod mod') : Spared p mod' :=
  ⟨hm.trans h.marker, hs.rules _ h.rules,
    fun c => h.unlisted ((pmt_lists_congr _ _ p hs.buffer hs.size).mp c)⟩

theorem ca_data_same (mod : module_data_t) (buf : Nat → Nat) (desc : Nat) :
    SameCustom mod (ca_data mod buf desc).1 :=
  ⟨fun Q h => ca_data_vals Q mod buf desc h, by rw [ca_data_custom], by rw [ca_data_custom]⟩

theorem reload_data_same (mod : module_data_t) : SameCustom mod (reload_data mod) := by
  refine ⟨fun Q h l hl item hi => ?_, rfl, rfl⟩
  cases hm : mod.map with
  | none =>
    have : (reload_data mod).map = none := by simp [reload_data, hm]
    rw [this] at hl
    cases hl
  | some l0 =>
    have : (reload_data mod).map =
        some (l0.map (fun item => { item with is_set := false })) := by
      simp [reload_data, hm]
    rw [this] at hl
    have e := Option.some.inj hl
    subst e
    obtain ⟨y, hy, hc⟩ := List.mem_map.mp hi
    subst hc
    exact h l0 hm y hy
theorem cat_desc_loop_keeps {d : Nat → Nat} {fuel : Nat} {self : Nat} (p : Nat)
    (psi : ts_psi_t) (hb : ∀ k, psi.buffer k < 256) :
    ∀ (n desc : Nat) (s : State) (mod : module_data_t), Ready d fuel s self → 0 < n →
      psi.buffer_size - CRC32_SIZE ≤ desc + 2 * (n - 1) →
      p ∉ ca_pids_at psi.buffer
        (desc_positions psi.buffer (psi.buffer_size - CRC32_SIZE) n desc) →
      ∃ s' mod', cat_desc_loop fuel self psi n desc s mod = .ok (s', mod') ∧
        Ready d fuel s' self ∧ mod'.pid_map p = mod.pid_map p ∧ SameCustom mod mod' := by
  intro n
  induction n with
  | zero => intro desc s mod _ h; exact absurd h (Nat.lt_irrefl 0)
  | succ m ih =>
    intro desc s mod hr _ hbud hp
    unfold cat_desc_loop
    by_cases hend : psi.buffer_size - CRC32_SIZE ≤ desc
    · exact ⟨s, mod, by rw [if_pos hend], hr, rfl, sameCustom_refl mod⟩
    · rw [if_neg hend]
      rw [desc_positions, if_neg hend] at hp
      simp only [Nat.add_sub_cancel] at hbud
      have hm : 0 < m := by omega
      have hnext : psi.buffer_size - CRC32_SIZE ≤ desc + 2 + psi.buffer (desc + 1) + 2 * (m - 1) := by
        omega
      have hp' : p ∉ ca_pids_at psi.buffer (desc_positions psi.buffer
          (psi.buffer_size - CRC32_SIZE) m (desc + 2 + psi.buffer (desc + 1))) :=
        fun c => hp (ca_pids_at_tail _ _ _ _ c)
      by_cases h9 : psi.buffer desc = 0x09
      · simp only [h9, if_true]
        obtain ⟨e1, e2⟩ := ca_join_eq hr mod psi.buffer desc hb
        rw [e1]
        simp only []
        obtain ⟨hr1, _⟩ := after_joins_spec _ s hr e2
        obtain ⟨s', mod', k1, k2, k3, k4⟩ :=
          ih _ _ (ca_data mod psi.buffer desc).1 hr1 hm hnext hp'
        have hstep := pmtStep_ca (fun q => q = p) mod psi.buffer desc
          (fun c => hp (c ▸ mem_ca_pids_at _ _ desc (List.mem_cons_self _ _) h9))
        refine ⟨s', mod', k1, k2, ?_, sameCustom_trans (ca_data_same mod psi.buffer desc) k4⟩
        rw [k3]
        exact hstep.marker p rfl
      · simp only [h9, if_false]
        exact ih _ _ mod hr hm hnext hp'

theorem reload_keeps {d : Nat → Nat} {fuel : Nat} {s : State} {self : Nat}
    (hr : Ready d fuel s self) (mod : module_data_t) :
    ∃ s' mod', stream_reload fuel s self mod = .ok (s', mod') ∧ Ready d fuel s' self ∧
      mod'.pid_map = mod.pid_map ∧ SameCustom mod mod' := by
  obtain ⟨s', h1, h2, _⟩ := stream_reload_spec hr mod
  exact ⟨s', _, h1, h2, rfl, reload_data_same mod⟩

theorem on_cat_keeps {d : Nat → Nat} {fuel : Nat} {s : State} {self : Nat}
    (hr : Ready d fuel s self) (lib : mpegts_lib) (mod : module_data_t) (p : Nat)
    (hs : cat_spares p mod) :
    ∃ s' mod', on_cat lib fuel s self mod = .ok (s', mod') ∧ Ready d fuel s' self ∧
      mod'.pid_map p = mod.pid_map p ∧ SameCustom mod mod' := by
  obtain ⟨hb, hp⟩ := hs
  unfold on_cat
  simp only []
  by_cases h0 : mod.cat.buffer 0 = 0x01
  · simp only [h0, ne_eq, not_true_eq_false, if_false]
    by_cases h1 : PSI_GET_CRC32 mod.cat = mod.cat.crc32
    · rw [if_pos h1, psi_demux_eq hr lib _ _]
      exact ⟨_, _, rfl, after_demux_ready hr lib _, rfl, sameCustom_of_eq _ _ rfl rfl rfl⟩
    · rw [if_neg h1]
      by_cases h2 : PSI_GET_CRC32 mod.cat = PSI_CALC_CRC32 mod.cat
      · simp only [h2, not_true_eq_false, if_false]
        by_cases h3 : mod.cat.crc32 = 0
        · simp only [h3, not_true_eq_false, if_false]
          obtain ⟨s1, mod1, k1, k2, k3, k4⟩ := @cat_desc_loop_keeps d fuel self p
            ({ mod.cat with crc32 := PSI_CALC_CRC32 mod.cat } : ts_psi_t) hb
            (mod.cat.buffer_size + 1) 8 s
            { mod with cat := { mod.cat with crc32 := PSI_CALC_CRC32 mod.cat } } hr
            (Nat.succ_pos _) (by simp only [Nat.add_sub_cancel, CRC32_SIZE]; omega)
            (hp ⟨h0, h1, h2, h3⟩)
          rw [k1]
          simp only []
          rw [psi_demux_eq k2 lib _ _]
          simp only []
          have k4' : SameCustom mod mod1 := sameCustom_left k4 rfl rfl rfl
          refine ⟨_, _, rfl, after_demux_ready k2 lib _, ?_, ?_⟩
          · split <;> exact k3
          · split
            · exact sameCustom_right k4' rfl rfl rfl
            · exact sameCustom_right k4' rfl rfl rfl
        · simp only [h3, not_false_eq_true, if_true]
          obtain ⟨s', mod', r1, r2, r3, r4⟩ := reload_keeps hr
            { mod with out := mod.out ++ [.log "CAT changed. Reload stream info"] }
          exact ⟨s', mod', r1, r2, by rw [r3], sameCustom_left r4 rfl rfl rfl⟩
      · simp only [h2, not_false_eq_true, if_true]
        exact ⟨_, _, rfl, hr, rfl, sameCustom_of_eq _ _ rfl rfl rfl⟩
  · simp only [h0, ne_eq, not_false_eq_true, if_true]
    exact ⟨_, _, rfl, hr, rfl, sameCustom_refl mod⟩
theorem pat_build_pid_map_other (mod : module_data_t) (pointer q : Nat)
    (hq : q ≠ mod.pmt.pid) : (pat_build mod pointer).pid_map q = mod.pid_map q := by
  unfold pat_build
  by_cases hs : mod.config.set_pnr = 0
  · cases hm : mod.map with
    | none => simp [hm, hs]
    | some l =>
      cases ht : map_take l mod.pmt.pid str_pmt with
      | none => simp [hm, hs, ht]
      | some x => simp [hm, hs, ht, Function.update_noteq hq]
  · cases hm : mod.map with
    | none => simp [hm, hs]
    | some l =>
      cases ht : map_take l mod.pmt.pid str_pmt with
      | none => simp [hm, hs, ht]
      | some x => simp [hm, hs, ht, Function.update_noteq hq]

theorem pat_base_same (mod : module_data_t) : SameCustom mod (pat_base mod) := by
  unfold pat_base
  simp only []
  split
  · exact sameCustom_right (sameCustom_left (reload_data_same
      { mod with out := mod.out ++ [.log "PAT changed. Reload stream info"] }) rfl rfl rfl)
      rfl rfl rfl
  · exact sameCustom_of_eq _ _ rfl rfl rfl

theorem pat_build_same (mod : module_data_t) (pointer : Nat) :
    SameCustom mod (pat_build mod pointer) := by
  have key : ∀ l l1 c, mod.map = some l → map_take l mod.pmt.pid str_pmt = some (l1, c) →
      ∀ Q : Nat → Prop, MapVals Q mod → ∀ item ∈ l1, Q item.custom_pid := by
    intro l l1 c hm ht Q h item hi
    obtain ⟨y, hy, hc⟩ := map_take_mem mod.pmt.pid str_pmt l l1 c ht item hi
    rw [← hc]
    exact h l hm y hy
  unfold pat_build
  by_cases hs : mod.config.set_pnr = 0
  · cases hm : mod.map with
    | none =>
      refine ⟨fun Q h l hl => ?_, by simp [hm, hs], by simp [hm, hs]⟩
      simp [hm, hs] at hl
    | some l =>
      cases ht : map_take l mod.pmt.pid str_pmt with
      | none =>
        refine ⟨fun Q h l' hl' => ?_, by simp [hm, hs, ht], by simp [hm, hs, ht]⟩
        simp [hm, hs, ht] at hl'
        subst hl'
        exact h l hm
      | some x =>
        refine ⟨fun Q h l' hl' => ?_, by simp [hm, hs, ht], by simp [hm, hs, ht]⟩
        simp [hm, hs, ht] at hl'
        subst hl'
        exact key l x.1 x.2 hm ht Q h
  · cases hm : mod.map with
    | none =>
      refine ⟨fun Q h l hl => ?_, by simp [hm, hs], by simp [hm, hs]⟩
      simp [hm, hs] at hl
    | some l =>
      cases ht : map_take l mod.pmt.pid str_pmt with
      | none =>
        refine ⟨fun Q h l' hl' => ?_, by simp [hm, hs, ht], by simp [hm, hs, ht]⟩
        simp [hm, hs, ht] at hl'
        subst hl'
        exact h l hm
      | some x =>
        refine ⟨fun Q h l' hl' => ?_, by simp [hm, hs, ht], by simp [hm, hs, ht]⟩
        simp [hm, hs, ht] at hl'
        subst hl'
        exact key l x.1 x.2 hm ht Q h

theorem pat_sent_same (lib : mpegts_lib) (mod : module_data_t) (pointer : Nat) :
    SameCustom mod (pat_sent lib mod pointer) := by
  obtain ⟨_, _, _, _, _, f6, _, _, f9, _⟩ := pat_sent_frame lib mod pointer
  exact sameCustom_right (pat_build_same mod pointer) f6 (by rw [f9]) (by rw [f9])

theorem on_pat_keeps {d : Nat → Nat} {fuel : Nat} {s : State} {self : Nat}
    (hr : Ready d fuel s self) (lib : mpegts_lib) (mod : module_data_t) (p : Nat)
    (hs : pat_spares p mod) :
    ∃ s' mod', on_pat lib fuel s self mod = .ok (s', mod') ∧ Ready d fuel s' self ∧
      mod'.pid_map p = mod.pid_map p ∧ SameCustom mod mod' := by
  obtain ⟨hb, hp⟩ := hs
  obtain ⟨s', mod', h1, h2, h3⟩ := on_pat_spec hr lib mod hb
  refine ⟨s', mod', h1, h2, ?_⟩
  rcases h3 with ⟨_, _, h | h | h⟩ | ⟨_, _, _, h⟩ | ⟨hnew, k, hsel, _, h⟩
  · rw [h]
    exact ⟨rfl, sameCustom_refl mod⟩
  · rw [h]
    exact ⟨rfl, sameCustom_of_eq _ _ rfl rfl rfl⟩
  · rw [h]
    exact ⟨rfl, sameCustom_of_eq _ _ rfl rfl rfl⟩
  · rw [h]
    exact ⟨congrFun (pat_base_frame mod).2.2.2.2.2.1 p,
      sameCustom_right (pat_base_same mod) rfl rfl rfl⟩
  · rw [h]
    have hm : SameCustom mod (pat_matched (pat_base mod) (pat_base mod).pat (8 + 4 * k)) :=
      sameCustom_right (pat_base_same mod) rfl rfl rfl
    refine ⟨?_, sameCustom_trans hm (pat_sent_same lib _ _)⟩
    rw [(pat_sent_frame lib _ _).2.2.2.2.2.2.1]
    by_cases hpid : PAT_ITEM_GET_PID (pat_base mod).pat (8 + 4 * k) = p
    · rw [(pat_build_map_none _ _ (fun l hl => by
        show map_take l (PAT_ITEM_GET_PID (pat_base mod).pat (8 + 4 * k)) str_pmt = none
        rw [hpid]
        exact hp hnew k hsel hpid l hl)).2.2.1]
      exact congrFun (pat_base_frame mod).2.2.2.2.2.1 p
    · rw [pat_build_pid_map_other _ _ p (fun c => hpid c.symm)]
      exact congrFun (pat_base_frame mod).2.2.2.2.2.1 p
theorem pmt_ca_pids_congr (a b : ts_psi_t) (h1 : a.buffer = b.buffer)
    (h2 : a.buffer_size = b.buffer_size) : pmt_ca_pids a = pmt_ca_pids b := by
  unfold pmt_ca_pids pmt_items pmt_descs item_descs PMT_ITEMS_FIRST PMT_DESC_SIZE
  rw [item_positions_congr a b h1 h2, h1, h2]

/-- The rebuild of the custom PMT keeps every property of the custom PIDs of
the map rules. -/
theorem pmt_data_vals (Q : Nat → Prop) (lib : mpegts_lib) (mod m : module_data_t)
    (joins : List Nat) (copied : List (Nat × Nat))
    (h : pmt_data lib mod = some (m, joins, copied)) (hq : MapVals Q mod) : MapVals Q m := by
  obtain ⟨mod2, skip, j1, mod5, skip2, jp, j2, h1, h2, _, hm⟩ := pmt_data_parts lib mod m joins
    copied h
  have b2 : MapVals Q mod2 :=
    pmt_desc_data_inv (MapVals Q) (fun x buf desc hx => ca_data_vals Q x buf desc hx)
      (fun _ _ _ _ hx => hx) mod.pmt _ _ _ _ _ h1 hq
  obtain ⟨_, _, _, c4, _⟩ := pmt_info_close_frame mod2 skip
  have b3 : MapVals Q (pmt_info_close mod2 skip) := fun l hl => b2 l (by rw [← c4]; exact hl)
  have b5 : MapVals Q mod5 :=
    pmt_items_data_inv (MapVals Q) (fun x buf desc hx => ca_data_vals Q x buf desc hx)
      (fun _ _ _ _ hx => hx) (fun _ _ _ _ hx => hx)
      (fun x psi pid sl sk t l hx => item_close_vals Q x psi pid sl sk t l hx)
      lib mod.pmt _ _ _ _ _ _ _ h2 b3
  subst hm
  obtain ⟨_, _, _, _, _, _, f7, _⟩ := pmt_seal_frame
    (if jp then pcr_mark { mod5 with custom_pmt := { mod5.custom_pmt with
          buffer_size := skip2 + CRC32_SIZE } } (PMT_GET_PCR mod.pmt)
        else { mod5 with custom_pmt := { mod5.custom_pmt with
          buffer_size := skip2 + CRC32_SIZE } }) (PMT_GET_PCR mod.pmt)
  intro l hl
  rw [f7] at hl
  cases jp
  · exact b5 l hl
  · simp only [if_true] at hl
    rw [(pcr_mark_frame _ _).2.2.2.2.1] at hl
    exact b5 l hl

theorem on_pmt_keeps {d : Nat → Nat} {fuel : Nat} {s : State} {self : Nat}
    (hr : Ready d fuel s self) (lib : mpegts_lib) (mod : module_data_t) (p : Nat)
    (hp : mod.pid_map p = TS_MAX_PIDS) (hs : pmt_spares p mod) :
    ∃ s' mod', on_pmt lib fuel s self mod = .ok (s', mod') ∧ Ready d fuel s' self ∧
      mod'.pid_map p = mod.pid_map p ∧
      (SameCustom mod mod' ∨
        (pmt_is_new mod ∧ ∃ m, ∃ joins : List Nat, ∃ copied : List (Nat × Nat),
          pmt_data lib (pmt_latched mod) = some (m, joins, copied) ∧ mod' = pmt_sent lib m ∧
          ∀ x ∈ copied, PMT_ITEM_GET_PID mod.pmt.buffer x.1 ≠ p)) := by
  obtain ⟨hb, hcond⟩ := hs
  by_cases hnew : pmt_is_new mod
  · obtain ⟨hpcr, hca⟩ := hcond hnew
    obtain ⟨m, joins, copied, e1, _, e2, e3, _⟩ := pmt_rebuild_eq hr lib (pmt_latched mod) hb
    have hca' : (pmt_latched mod).config.cas = false ∨
        ∀ q ∈ pmt_ca_pids (pmt_latched mod).pmt, ¬ q = p := by
      rcases hca with h | h
      · exact Or.inl h
      · refine Or.inr (fun q hq c => h ?_)
        rw [← c, ← pmt_ca_pids_latched]
        exact hq
    obtain ⟨mod2, skip, j1, mod5, skip2, jp, j2, h1, h2, _, _⟩ :=
      pmt_data_parts lib (pmt_latched mod) m joins copied e1
    refine ⟨_, _, (on_pmt_new_eq lib fuel s self mod hnew).trans e2, e3, ?_,
      Or.inr ⟨hnew, m, joins, copied, e1, rfl, ?_⟩⟩
    · rw [(pmt_sent_frame lib m).1]
      exact (pmt_data_step (fun q => q = p) lib _ m joins copied e1
        (fun q hq => by rw [hq]; exact hp) hca' hpcr).marker p rfl
    · exact (pmt_loops_step (fun q => q = p) lib (pmt_latched mod) mod2 mod5 skip skip2 jp j1 j2
        copied h1 h2 (fun q hq => by rw [hq]; exact hp) hca').2.2.1
  · unfold on_pmt
    simp only []
    by_cases h0 : mod.pmt.buffer 0 = 0x02
    · simp only [h0, ne_eq, not_true_eq_false, if_false]
      by_cases hn : PMT_GET_PNR mod.pmt = mod.config.pnr
      · simp only [hn, not_true_eq_false, if_false]
        by_cases h1 : PSI_GET_CRC32 mod.pmt = mod.pmt.crc32
        · rw [if_pos h1, psi_demux_eq hr lib _ _]
          exact ⟨_, _, rfl, after_demux_ready hr lib _, rfl,
            Or.inl (sameCustom_of_eq _ _ rfl rfl rfl)⟩
        · rw [if_neg h1]
          by_cases h2 : PSI_GET_CRC32 mod.pmt = PSI_CALC_CRC32 mod.pmt
          · simp only [h2, not_true_eq_false, if_false]
            by_cases h3 : mod.pmt.crc32 = 0
            · exact absurd ⟨h0, hn, h3, h2, fun c => h1 (c.trans h3.symm)⟩ hnew
            · simp only [h3, not_false_eq_true, if_true]
              obtain ⟨s', mod', r1, r2, r3, r4⟩ := reload_keeps hr
                { mod with out := mod.out ++ [.log "PMT changed. Reload stream info"] }
              exact ⟨s', mod', r1, r2, by rw [r3], Or.inl (sameCustom_left r4 rfl rfl rfl)⟩
          · simp only [h2, not_false_eq_true, if_true]
            exact ⟨_, _, rfl, hr, rfl, Or.inl (sameCustom_of_eq _ _ rfl rfl rfl)⟩
      · simp only [hn, not_false_eq_true, if_true]
        exact ⟨_, _, rfl, hr, rfl, Or.inl (sameCustom_refl mod)⟩
    · simp only [h0, ne_eq, not_false_eq_true, if_true]
      exact ⟨_, _, rfl, hr, rfl, Or.inl (sameCustom_refl mod)⟩

theorem on_eit_keeps {d : Nat → Nat} {fuel : Nat} {s : State} {self : Nat}
    (hr : Ready d fuel s self) (lib : mpegts_lib) (mod : module_data_t) :
    ∃ s' mod', on_eit lib s self mod = .ok (s', mod') ∧ Ready d fuel s' self ∧
      mod'.pid_map = mod.pid_map ∧ SameCustom mod mod' := by
  unfold on_eit
  simp only []
  split
  · exact ⟨_, _, rfl, hr, rfl, sameCustom_refl mod⟩
  · split
    · exact ⟨_, _, rfl, hr, rfl, sameCustom_refl mod⟩
    · split
      · exact ⟨_, _, rfl, hr, rfl, sameCustom_refl mod⟩
      · rw [psi_demux_eq hr lib _ _]
        exact ⟨_, _, rfl, after_demux_ready hr lib _, rfl, sameCustom_of_eq _ _ rfl rfl rfl⟩

theorem sdt_base_same (mod : module_data_t) : SameCustom mod (sdt_base mod) := by
  unfold sdt_base
  split
  · exact sameCustom_refl mod
  · exact sameCustom_of_eq _ _ rfl rfl rfl

theorem on_sdt_keeps {d : Nat → Nat} {fuel : Nat} {s : State} {self : Nat}
    (hr : Ready d fuel s self) (lib : mpegts_lib) (mod : module_data_t) :
    ∃ s' mod', on_sdt lib fuel s self mod = .ok (s', mod') ∧ Ready d fuel s' self ∧
      mod'.pid_map = mod.pid_map ∧ SameCustom mod mod' := by
  have hbase : (sdt_base mod).pid_map = mod.pid_map := by
    unfold sdt_base
    split <;> rfl
  have hsame := sdt_base_same mod
  by_cases hv : sdt_valid mod
  · rw [on_sdt_valid_eq lib fuel s self mod hv]
    by_cases hn : (sdt_base mod).sdt_max_section_id < sdt_section mod
    · rw [if_pos hn]
      exact ⟨_, _, rfl, hr, hbase, sameCustom_right hsame rfl rfl rfl⟩
    · rw [if_neg hn]
      by_cases hc : sdt_stored mod (sdt_section mod) = PSI_GET_CRC32 mod.sdt
      · rw [if_pos hc]
        by_cases ho : (sdt_base mod).sdt_original_section_id = sdt_section mod
        · rw [if_pos ho, psi_demux_eq hr lib _ _]
          exact ⟨_, _, rfl, after_demux_ready hr lib _, hbase,
            sameCustom_right hsame rfl rfl rfl⟩
        · rw [if_neg ho]
          exact ⟨_, _, rfl, hr, hbase, hsame⟩
      · rw [if_neg hc]
        by_cases h0 : sdt_stored mod (sdt_section mod) = 0
        · rw [if_neg (fun c => c h0)]
          simp only []
          cases hl : sdt_items_loop mod.sdt mod.config.pnr (mod.sdt.buffer_size + 1) 11 with
          | error e =>
            obtain ⟨ptr, hptr, _⟩ := sdt_items_loop_found mod.sdt mod.config.pnr
            rw [hptr] at hl
            cases hl
          | ok pointer =>
            simp only []
            split
            · exact ⟨_, _, rfl, hr, hbase, sameCustom_right hsame rfl rfl rfl⟩
            · rw [psi_demux_eq hr lib _ _]
              simp only []
              refine ⟨_, _, rfl, after_demux_ready hr lib _, ?_, ?_⟩
              · split <;> exact hbase
              · split
                · exact sameCustom_right hsame rfl rfl rfl
                · exact sameCustom_right hsame rfl rfl rfl
        · rw [if_pos h0]
          obtain ⟨s', mod', r1, r2, r3, r4⟩ := reload_keeps hr
            { sdt_base mod with out := mod.out ++ [.log "SDT changed. Reload stream info"] }
          exact ⟨s', mod', r1, r2, by rw [r3]; exact hbase,
            sameCustom_trans hsame (sameCustom_left r4 rfl rfl rfl)⟩
  · unfold sdt_valid at hv
    unfold on_sdt
    by_cases h1 : mod.sdt.buffer 0 = 0x42
    · by_cases h2 : mod.tsid = SDT_GET_TSID mod.sdt
      · have h3 : PSI_GET_CRC32 mod.sdt ≠ PSI_CALC_CRC32 mod.sdt := fun c => hv ⟨h1, h2, c⟩
        simp only [h1, ne_eq, not_true_eq_false, if_false, h2, h3, not_false_eq_true, if_true]
        exact ⟨_, _, rfl, hr, rfl, sameCustom_of_eq _ _ rfl rfl rfl⟩
      · simp only [h1, ne_eq, not_true_eq_false, if_false, h2, not_false_eq_true, if_true]
        exact ⟨_, _, rfl, hr, rfl, sameCustom_refl mod⟩
    · simp only [ne_eq, h1, not_false_eq_true, if_true]
      exact ⟨_, _, rfl, hr, rfl, sameCustom_refl mod⟩

theorem ts_forward_keeps {d : Nat → Nat} {fuel : Nat} {s : State} {self : Nat}
    (hr : Ready d fuel s self) (mod : module_data_t) (ts : List Nat) (pid : Nat) :
    ∃ s' mod', ts_forward s self mod ts pid = .ok (s', mod') ∧ Ready d fuel s' self ∧
      mod'.pid_map = mod.pid_map ∧ SameCustom mod mod' := by
  by_cases h : mod.pid_map pid = TS_MAX_PIDS
  · exact ⟨s, mod, by unfold ts_forward; rw [if_pos h], hr, rfl, sameCustom_refl mod⟩
  · obtain ⟨st, hst⟩ := hr.self_ok
    obtain ⟨s', pkt, e1, e2, _⟩ := ts_forward_spec s self mod ts pid st hst
      (fun c hc => hr.sinks st c hst hc) h
    exact ⟨s', _, e1, Ready.of_stream hr e2, rfl, sameCustom_of_eq _ _ rfl rfl rfl⟩

theorem ts_forward_drops (s : State) (self : Nat) (mod : module_data_t) (ts : List Nat)
    (pid : Nat) (h : mod.pid_map pid = TS_MAX_PIDS) :
    ts_forward s self mod ts pid = .ok (s, mod) := by
  unfold ts_forward
  rw [if_pos h]
theorem psi_mux_total {d : Nat → Nat} {fuel : Nat} {self : Nat} (I : module_data_t → Prop)
    (load : module_data_t → (Nat → Nat) × Nat → module_data_t)
    (callback : State → module_data_t → Except Fault (State × module_data_t))
    (hcb : ∀ s m sec, Ready d fuel s self → I m →
      ∃ s' m', callback s (load m sec) = .ok (s', m') ∧ Ready d fuel s' self ∧ I m') :
    ∀ (secs : List ((Nat → Nat) × Nat)) (s : State) (mod : module_data_t),
      Ready d fuel s self → I mod →
      ∃ s' mod', ts_psi_mux load callback secs s mod = .ok (s', mod') ∧
        Ready d fuel s' self ∧ I mod' := by
  intro secs
  induction secs with
  | nil => intro s mod hr hp; exact ⟨s, mod, rfl, hr, hp⟩
  | cons sec rest ih =>
    intro s mod hr hp
    obtain ⟨s1, m1, e1, r1, p1⟩ := hcb s mod sec hr hp
    obtain ⟨s2, m2, e2, r2, p2⟩ := ih s1 m1 r1 p1
    refine ⟨s2, m2, ?_, r2, p2⟩
    unfold ts_psi_mux
    rw [e1]
    exact e2

theorem psi_mux_inv {d : Nat → Nat} {fuel : Nat} {self : Nat} (I : module_data_t → Prop)
    (load : module_data_t → (Nat → Nat) × Nat → module_data_t)
    (callback : State → module_data_t → Except Fault (State × module_data_t))
    (C : module_data_t → Prop)
    (hload : ∀ m sec, I m → I (load m sec))
    (hcb : ∀ s m, Ready d fuel s self → I m → C m →
      ∃ s' m', callback s m = .ok (s', m') ∧ Ready d fuel s' self ∧ I m') :
    ∀ (secs : List ((Nat → Nat) × Nat)) (s : State) (mod : module_data_t),
      Ready d fuel s self → I mod → psi_mux_spares load callback C secs s mod →
      ∃ s' mod', ts_psi_mux load callback secs s mod = .ok (s', mod') ∧
        Ready d fuel s' self ∧ I mod' := by
  intro secs
  induction secs with
  | nil => intro s mod hr hp _; exact ⟨s, mod, rfl, hr, hp⟩
  | cons sec rest ih =>
    intro s mod hr hp hq
    unfold psi_mux_spares at hq
    obtain ⟨hc, hrest⟩ := hq
    obtain ⟨s1, m1, e1, r1, p1⟩ := hcb s (load mod sec) hr (hload mod sec hp) hc
    rw [e1] at hrest
    obtain ⟨s2, m2, e2, r2, p2⟩ := ih s1 m1 r1 p1 hrest
    refine ⟨s2, m2, ?_, r2, p2⟩
    unfold ts_psi_mux
    rw [e1]
    exact e2

theorem psi_mux_spares_and (load : module_data_t → (Nat → Nat) × Nat → module_data_t)
    (callback : State → module_data_t → Except Fault (State × module_data_t))
    (C1 C2 : module_data_t → Prop) :
    ∀ (secs : List ((Nat → Nat) × Nat)) (s : State) (mod : module_data_t),
      psi_mux_spares load callback C1 secs s mod → psi_mux_spares load callback C2 secs s mod →
      psi_mux_spares load callback (fun m => C1 m ∧ C2 m) secs s mod := by
  intro secs
  induction secs with
  | nil => intro s mod _ _; trivial
  | cons sec rest ih =>
    intro s mod h1 h2
    unfold psi_mux_spares at h1 h2 ⊢
    refine ⟨⟨h1.1, h2.1⟩, ?_⟩
    cases hcb : callback s (load mod sec) with
    | error e => trivial
    | ok r =>
      obtain ⟨s1, m1⟩ := r
      have a1 := h1.2
      have a2 := h2.2
      rw [hcb] at a1 a2
      exact ih s1 m1 a1 a2

/-- The function `on_ts` keeps a property `I` of the channel record that the
handlers keep for the sections that the packet completes and that does not
depend on the inbound sections. -/
theorem on_ts_inv {d : Nat → Nat} {fuel : Nat} {s : State} {self : Nat}
    (I Cpat Ccat Cpmt : module_data_t → Prop) (lib : mpegts_lib)
    (hframe : ∀ m m' : module_data_t, I m → m'.pid_map = m.pid_map → SameCustom m m' → I m')
    (hpat : ∀ s1 m, Ready d fuel s1 self → I m → Cpat m →
      ∃ s' m', on_pat lib fuel s1 self m = .ok (s', m') ∧ Ready d fuel s' self ∧ I m')
    (hcat : ∀ s1 m, Ready d fuel s1 self → I m → Ccat m →
      ∃ s' m', on_cat lib fuel s1 self m = .ok (s', m') ∧ Ready d fuel s' self ∧ I m')
    (hpmt : ∀ s1 m, Ready d fuel s1 self → I m → Cpmt m →
      ∃ s' m', on_pmt lib fuel s1 self m = .ok (s', m') ∧ Ready d fuel s' self ∧ I m')
    (hr : Ready d fuel s self) (mod : module_data_t) (ts : List Nat)
    (secs : List ((Nat → Nat) × Nat)) (hI : I mod) (hts : ∀ b ∈ ts, b < 256)
    (hsP : mod.stream (TS_GET_PID ts) = .PAT → psi_mux_spares
      (fun m sec => { m with pat := { m.pat with buffer := sec.1, buffer_size := sec.2 } })
      (fun s1 m => on_pat lib fuel s1 self m) Cpat secs s mod)
    (hsC : mod.stream (TS_GET_PID ts) = .CAT → psi_mux_spares
      (fun m sec => { m with cat := { m.cat with buffer := sec.1, buffer_size := sec.2 } })
      (fun s1 m => on_cat lib fuel s1 self m) Ccat secs s mod)
    (hsM : mod.stream (TS_GET_PID ts) = .PMT → psi_mux_spares
      (fun m sec => { m with pmt := { m.pmt with buffer := sec.1, buffer_size := sec.2 } })
      (fun s1 m => on_pmt lib fuel s1 self m) Cpmt secs s mod) :
    ∃ s' mod', on_ts lib fuel s self mod ts secs = .ok (s', mod') ∧ Ready d fuel s' self ∧
      I mod' := by
  have hfw : ∃ s' mod', ts_forward s self mod ts (TS_GET_PID ts) = .ok (s', mod') ∧
      Ready d fuel s' self ∧ I mod' := by
    obtain ⟨s', mod', e1, e2, e3, e4⟩ := ts_forward_keeps hr mod ts (TS_GET_PID ts)
    exact ⟨s', mod', e1, e2, hframe mod mod' hI e3 e4⟩
  unfold on_ts
  simp only []
  rw [ready_check hr _ (TS_GET_PID_lt ts hts)]
  by_cases hsub : 0 < pid_refs s self (TS_GET_PID ts)
  · rw [decide_eq_true hsub]
    simp only []
    by_cases hnull : TS_GET_PID ts = TS_NULL_PID
    · rw [if_pos hnull]
      exact ⟨s, mod, rfl, hr, hI⟩
    · rw [if_neg hnull]
      cases hty : mod.stream (TS_GET_PID ts) with
      | UNKNOWN => exact ⟨s, mod, rfl, hr, hI⟩
      | PAT =>
        simp only []
        refine psi_mux_inv I _ _ Cpat ?_ hpat secs s mod hr hI (hsP hty)
        exact fun m sec h => hframe m _ h rfl (sameCustom_of_eq _ _ rfl rfl rfl)
      | CAT =>
        simp only []
        refine psi_mux_inv I _ _ Ccat ?_ hcat secs s mod hr hI (hsC hty)
        exact fun m sec h => hframe m _ h rfl (sameCustom_of_eq _ _ rfl rfl rfl)
      | PMT =>
        simp only []
        refine psi_mux_inv I _ _ Cpmt ?_ hpmt secs s mod hr hI (hsM hty)
        exact fun m sec h => hframe m _ h rfl (sameCustom_of_eq _ _ rfl rfl rfl)
      | SDT =>
        simp only []
        by_cases hpass : mod.config.pass_sdt = true
        · rw [if_pos hpass]
          exact hfw
        · rw [if_neg hpass]
          refine psi_mux_total I _ _ ?_ secs s mod hr hI
          intro s1 m sec hr1 hI1
          obtain ⟨s', m', e1, e2, e3, e4⟩ := on_sdt_keeps hr1 lib
            { m with sdt := { m.sdt with buffer := sec.1, buffer_size := sec.2 } }
          exact ⟨s', m', e1, e2, hframe m m' hI1 e3 (sameCustom_left e4 rfl rfl rfl)⟩
      | EIT =>
        simp only []
        by_cases hpass : mod.config.pass_eit = true
        · rw [if_pos hpass]
          exact hfw
        · rw [if_neg hpass]
          refine psi_mux_total I _ _ ?_ secs s mod hr hI
          intro s1 m sec hr1 hI1
          obtain ⟨s', m', e1, e2, e3, e4⟩ := on_eit_keeps hr1 lib
            { m with eit := { m.eit with buffer := sec.1, buffer_size := sec.2 } }
          exact ⟨s', m', e1, e2, hframe m m' hI1 e3 (sameCustom_left e4 rfl rfl rfl)⟩
      | TDT => exact hfw
      | PES => exact hfw
      | VIDEO => exact hfw
      | AUDIO => exact hfw
      | SUB => exact hfw
      | DATA => exact hfw
      | CA => exact hfw
  · rw [decide_eq_false hsub]
    exact ⟨s, mod, rfl, hr, hI⟩

theorem on_ts_keeps {d : Nat → Nat} {fuel : Nat} {s : State} {self : Nat}
    (hr : Ready d fuel s self) (lib : mpegts_lib) (mod : module_data_t) (p : Nat)
    (ts : List Nat) (secs : List ((Nat → Nat) × Nat))
    (hp : mod.pid_map p = TS_MAX_PIDS)
    (hs : packet_spares lib fuel s self mod p ts secs) :
    ∃ s' mod', on_ts lib fuel s self mod ts secs = .ok (s', mod') ∧ Ready d fuel s' self ∧
      mod'.pid_map p = TS_MAX_PIDS := by
  obtain ⟨hts, hs⟩ := hs
  refine on_ts_inv (fun m => m.pid_map p = TS_MAX_PIDS) (pat_spares p) (cat_spares p)
    (pmt_spares p) lib
    (fun m m' h e _ => (congrFun e p).trans h) ?_ ?_ ?_ hr mod ts secs hp hts
    ?_ ?_ ?_
  · intro s1 m hr1 hp1 hq
    obtain ⟨s', m', e1, e2, e3, _⟩ := on_pat_keeps hr1 lib m p hq
    exact ⟨s', m', e1, e2, e3.trans hp1⟩
  · intro s1 m hr1 hp1 hq
    obtain ⟨s', m', e1, e2, e3, _⟩ := on_cat_keeps hr1 lib m p hq
    exact ⟨s', m', e1, e2, e3.trans hp1⟩
  · intro s1 m hr1 hp1 hq
    obtain ⟨s', m', e1, e2, e3, _⟩ := on_pmt_keeps hr1 lib m p hp1 hq
    exact ⟨s', m', e1, e2, e3.trans hp1⟩
  · intro hty
    rw [hty] at hs
    exact hs
  · intro hty
    rw [hty] at hs
    exact hs
  · intro hty
    rw [hty] at hs
    exact hs

theorem chan_run_keeps {d : Nat → Nat} {fuel : Nat} {self : Nat} (lib : mpegts_lib) (p : Nat) :
    ∀ (run : List (List Nat × List ((Nat → Nat) × Nat))) (s : State) (mod : module_data_t),
      Ready d fuel s self → mod.pid_map p = TS_MAX_PIDS → run_spares lib fuel self p run s mod →
      ∃ s' mod', chan_run lib fuel self run s mod = .ok (s', mod') ∧ Ready d fuel s' self ∧
        mod'.pid_map p = TS_MAX_PIDS := by
  intro run
  induction run with
  | nil => intro s mod hr hp _; exact ⟨s, mod, rfl, hr, hp⟩
  | cons x rest ih =>
    intro s mod hr hp hs
    unfold run_spares at hs
    obtain ⟨hsec, hrest⟩ := hs
    obtain ⟨s1, m1, e1, r1, p1⟩ := on_ts_keeps hr lib mod p x.1 x.2 hp hsec
    rw [e1] at hrest
    obtain ⟨s2, m2, e2, r2, p2⟩ := ih s1 m1 r1 p1 hrest
    refine ⟨s2, m2, ?_, r2, p2⟩
    unfold chan_run
    rw [e1]
    exact e2

/-- A rebuild of the custom PMT from a short section in which `p` is spared
gives a custom PMT that does not list `p`. -/
theorem pmt_data_unlisted (lib : mpegts_lib) (mod m : module_data_t) (p : Nat)
    (joins : List Nat) (copied : List (Nat × Nat))
    (hdata : pmt_data lib (pmt_latched mod) = some (m, joins, copied))
    (hb : ∀ k, mod.pmt.buffer k < 256) (hsize : mod.pmt.buffer_size ≤ 1024)
    (hinfo : PMT_ITEMS_FIRST mod.pmt ≤ mod.pmt.buffer_size)
    (hshort : ∀ ptr ∈ pmt_items mod.pmt,
      desc_sizes mod.config.cas mod.pmt.buffer (item_descs mod.pmt ptr) < 256)
    (hq : MapVals (fun q => q ≠ p ∧ q < TS_MAX_PIDS) mod)
    (hcop : ∀ x ∈ copied, PMT_ITEM_GET_PID mod.pmt.buffer x.1 ≠ p) :
    ¬ pmt_lists m.custom_pmt p := by
  obtain ⟨mod2, skip, j1, mod5, skip2, jp, j2, h1, h2, _, _⟩ :=
    pmt_data_parts lib (pmt_latched mod) m joins copied hdata
  have hmem : ∀ x ∈ copied, x.1 ∈ pmt_items mod.pmt := by
    intro x hx
    have := pmt_items_data_mem lib _ _ _ _ _ _ _ _ h2 x hx
    rw [← pmt_items_latched]
    exact this
  obtain ⟨p1, p2⟩ := pmt_data_parse (fun q => q ≠ p ∧ q < TS_MAX_PIDS) lib (pmt_latched mod) m
    joins copied hdata hb hsize hinfo hq (fun x hx => hshort x.1 (hmem x hx))
  rintro ⟨o, ho, hpid⟩
  rw [p1] at ho
  obtain ⟨x, hx, rfl⟩ := List.mem_map.mp ho
  rcases p2 x hx with e | ⟨q, ⟨hne, hlt⟩, e⟩
  · exact hcop x hx (e.symm.trans hpid)
  · have hlt' : q < 8192 := hlt
    rw [e, Nat.mod_eq_of_lt hlt'] at hpid
    exact hne hpid

theorem on_pmt_spared {d : Nat → Nat} {fuel : Nat} {s : State} {self : Nat}
    (hr : Ready d fuel s self) (lib : mpegts_lib) (mod : module_data_t) (p : Nat)
    (hI : Spared p mod) (hs : pmt_spares p mod) (hshort : pmt_short mod) :
    ∃ s' mod', on_pmt lib fuel s self mod = .ok (s', mod') ∧ Ready d fuel s' self ∧
      Spared p mod' := by
  obtain ⟨s', mod', e1, e2, e3, e4⟩ := on_pmt_keeps hr lib mod p hI.marker hs
  refine ⟨s', mod', e1, e2, ?_⟩
  rcases e4 with h | ⟨hnew, m, joins, copied, hdata, hm, hcop⟩
  · exact spared_of_same hI e3 h
  · obtain ⟨hsize, hinfo, hsh⟩ := hshort hnew
    obtain ⟨_, f2, _, _, f5, f6, _⟩ := pmt_sent_frame lib m
    refine ⟨e3.trans hI.marker, ?_, ?_⟩
    · subst hm
      intro l hl
      rw [f2] at hl
      have hq : MapVals (fun q => q ≠ p ∧ q < TS_MAX_PIDS) (pmt_latched mod) :=
        fun a ha => hI.rules a ha
      exact pmt_data_vals _ lib (pmt_latched mod) m joins copied hdata hq l hl
    · subst hm
      intro c
      exact pmt_data_unlisted lib mod m p joins copied hdata hs.1 hsize hinfo hsh hI.rules hcop
        ((pmt_lists_congr _ _ p f5 f6).mp c)

theorem on_ts_spared {d : Nat → Nat} {fuel : Nat} {s : State} {self : Nat}
    (hr : Ready d fuel s self) (lib : mpegts_lib) (mod : module_data_t) (p : Nat)
    (ts : List Nat) (secs : List ((Nat → Nat) × Nat)) (hI : Spared p mod)
    (hs : packet_spares lib fuel s self mod p ts secs)
    (hshort : packet_short lib fuel s self mod ts secs) :
    ∃ s' mod', on_ts lib fuel s self mod ts secs = .ok (s', mod') ∧ Ready d fuel s' self ∧
      Spared p mod' := by
  obtain ⟨hts, hs⟩ := hs
  unfold packet_short at hshort
  refine on_ts_inv (Spared p) (pat_spares p) (cat_spares p)
    (fun m => pmt_spares p m ∧ pmt_short m) lib
    (fun m m' h e hc => spared_of_same h (congrFun e p) hc) ?_ ?_ ?_ hr mod ts secs hI hts
    ?_ ?_ ?_
  · intro s1 m hr1 hI1 hq
    obtain ⟨s', m', e1, e2, e3, e4⟩ := on_pat_keeps hr1 lib m p hq
    exact ⟨s', m', e1, e2, spared_of_same hI1 e3 e4⟩
  · intro s1 m hr1 hI1 hq
    obtain ⟨s', m', e1, e2, e3, e4⟩ := on_cat_keeps hr1 lib m p hq
    exact ⟨s', m', e1, e2, spared_of_same hI1 e3 e4⟩
  · intro s1 m hr1 hI1 hq
    exact on_pmt_spared hr1 lib m p hI1 hq.1 hq.2
  · intro hty
    rw [hty] at hs
    exact hs
  · intro hty
    rw [hty] at hs
    exact hs
  · intro hty
    rw [hty] at hs hshort
    exact psi_mux_spares_and _ _ _ _ secs s mod hs hshort

theorem chan_run_spared {d : Nat → Nat} {fuel : Nat} {self : Nat} (lib : mpegts_lib) (p : Nat) :
    ∀ (run : List (List Nat × List ((Nat → Nat) × Nat))) (s : State) (mod : module_data_t),
      Ready d fuel s self → Spared p mod → run_spares lib fuel self p run s mod →
      run_short lib fuel self run s mod →
      ∃ s' mod', chan_run lib fuel self run s mod = .ok (s', mod') ∧ Ready d fuel s' self ∧
        Spared p mod' := by
  intro run
  induction run with
  | nil => intro s mod hr hp _ _; exact ⟨s, mod, rfl, hr, hp⟩
  | cons x rest ih =>
    intro s mod hr hp hs hsh
    unfold run_spares at hs
    unfold run_short at hsh
    obtain ⟨hsec, hrest⟩ := hs
    obtain ⟨hsec2, hrest2⟩ := hsh
    obtain ⟨s1, m1, e1, r1, p1⟩ := on_ts_spared hr lib mod p x.1 x.2 hp hsec hsec2
    rw [e1] at hrest hrest2
    obtain ⟨s2, m2, e2, r2, p2⟩ := ih s1 m1 r1 p1 hrest hrest2
    refine ⟨s2, m2, ?_, r2, p2⟩
    unfold chan_run
    rw [e1]
    exact e2
theorem on_ts_filtered {d : Nat → Nat} {fuel : Nat} {s : State} {self : Nat}
    (hr : Ready d fuel s self) (lib : mpegts_lib) (mod : module_data_t)
    (ts : List Nat) (secs : List ((Nat → Nat) × Nat)) (hts : ∀ b ∈ ts, b < 256)
    (hp : mod.pid_map (TS_GET_PID ts) = TS_MAX_PIDS) :
    (mod.stream (TS_GET_PID ts) ≠ .PAT → mod.stream (TS_GET_PID ts) ≠ .CAT →
      mod.stream (TS_GET_PID ts) ≠ .PMT →
      (mod.stream (TS_GET_PID ts) = .SDT → mod.config.pass_sdt = true) →
      (mod.stream (TS_GET_PID ts) = .EIT → mod.config.pass_eit = true) →
      on_ts lib fuel s self mod ts secs = .ok (s, mod)) ∧
    ∀ ts2, TS_GET_PID ts2 = TS_GET_PID ts →
      on_ts lib fuel s self mod ts2 secs = on_ts lib fuel s self mod ts secs := by
  have hfw := ts_forward_drops s self mod ts (TS_GET_PID ts) hp
  constructor
  · intro h1 h2 h3 h4 h5
    unfold on_ts
    simp only []
    rw [ready_check hr _ (TS_GET_PID_lt ts hts)]
    by_cases hsub : 0 < pid_refs s self (TS_GET_PID ts)
    · rw [decide_eq_true hsub]
      simp only []
      by_cases hnull : TS_GET_PID ts = TS_NULL_PID
      · rw [if_pos hnull]
      · rw [if_neg hnull]
        cases hty : mod.stream (TS_GET_PID ts) with
        | UNKNOWN => rfl
        | PAT => exact absurd hty h1
        | CAT => exact absurd hty h2
        | PMT => exact absurd hty h3
        | SDT =>
          simp only []
          rw [if_pos (h4 hty)]
          exact hfw
        | EIT =>
          simp only []
          rw [if_pos (h5 hty)]
          exact hfw
        | TDT => exact hfw
        | PES => exact hfw
        | VIDEO => exact hfw
        | AUDIO => exact hfw
        | SUB => exact hfw
        | DATA => exact hfw
        | CA => exact hfw
    · rw [decide_eq_false hsub]
  · intro ts2 h2
    unfold on_ts
    simp only []
    rw [h2]
    have hfw2 : ts_forward s self mod ts2 (TS_GET_PID ts) = .ok (s, mod) :=
      ts_forward_drops s self mod ts2 (TS_GET_PID ts) hp
    rw [hfw, hfw2]

theorem packet_spares_nil (lib : mpegts_lib) (fuel : Nat) (s : State) (self : Nat)
    (mod : module_data_t) (p : Nat) (ts : List Nat) (hts : ∀ b ∈ ts, b < 256) :
    packet_spares lib fuel s self mod p ts [] := by
  unfold packet_spares
  refine ⟨hts, ?_⟩
  split <;> trivial

theorem packet_short_nil (lib : mpegts_lib) (fuel : Nat) (s : State) (self : Nat)
    (mod : module_data_t) (ts : List Nat) : packet_short lib fuel s self mod ts [] := by
  unfold packet_short
  split <;> trivial

/-- Claim C14, amended: a PID `p` that is marked FILTERED in `pid_map` stays
marked through every run of packets that spares it, that is, in which no PMT
that `on_pmt` rebuilds from has `p` as its PCR PID or, with `cas` enabled, as
the CA PID of a CA descriptor, no CAT that `on_cat` walks has `p` as the CA
PID of a CA descriptor, and no PAT that `on_pat` processes selects an entry
with the PID `p` while a map rule applies to that PID.  The run returns, and
in the state it reaches: the forwarding part of `on_ts` returns for a packet
on `p` without sending anything; `on_ts` leaves the state unchanged for such a
packet unless the PID carries a table that the channel parses, and its result
never depends on the packet; and the custom PMT does not list `p` (none of its
entries, read with the entry macros, has the PID `p`), provided that no map
rule has `p` as its custom PID (the custom PIDs being PIDs), that the custom
PMT did not list `p` before the run, and that the PMT sections that `on_pmt`
rebuilds from in the run are short (`run_short`: at most 1024 bytes, program
descriptors inside the section, fewer than 256 bytes of copied descriptors
for each entry). -/
theorem filtered_pid_stays_dropped {d : Nat → Nat} {fuel : Nat} {s : State} {self : Nat}
    (hr : Ready d fuel s self) (lib : mpegts_lib) (mod : module_data_t) (p : Nat)
    (run : List (List Nat × List ((Nat → Nat) × Nat)))
    (hp : mod.pid_map p = TS_MAX_PIDS) (hs : run_spares lib fuel self p run s mod) :
    ∃ s' mod', chan_run lib fuel self run s mod = .ok (s', mod') ∧
      mod'.pid_map p = TS_MAX_PIDS ∧
      (∀ ts secs, (∀ b ∈ ts, b < 256) → TS_GET_PID ts = p →
        ts_forward s' self mod' ts p = .ok (s', mod') ∧
        (mod'.stream p ≠ .PAT → mod'.stream p ≠ .CAT → mod'.stream p ≠ .PMT →
          (mod'.stream p = .SDT → mod'.config.pass_sdt = true) →
          (mod'.stream p = .EIT → mod'.config.pass_eit = true) →
          on_ts lib fuel s' self mod' ts secs = .ok (s', mod')) ∧
        ∀ ts2, TS_GET_PID ts2 = p →
          on_ts lib fuel s' self mod' ts2 secs = on_ts lib fuel s' self mod' ts secs) ∧
      (MapOk mod → MapVals (fun q => q ≠ p) mod → ¬ pmt_lists mod.custom_pmt p →
        run_short lib fuel self run s mod → ¬ pmt_lists mod'.custom_pmt p) := by
  obtain ⟨s', mod', e1, r1, p1⟩ := chan_run_keeps lib p run s mod hr hp hs
  refine ⟨s', mod', e1, p1, ?_, ?_⟩
  · intro ts secs hts hpid
    have hp2 : mod'.pid_map (TS_GET_PID ts) = TS_MAX_PIDS := by rw [hpid]; exact p1
    obtain ⟨f1, f2⟩ := on_ts_filtered r1 lib mod' ts secs hts hp2
    rw [hpid] at f1 f2
    exact ⟨ts_forward_drops s' self mod' ts p p1, f1, f2⟩
  · intro hok hmv hun hsh
    obtain ⟨s2, m2, e2, _, sp⟩ := chan_run_spared lib p run s mod hr
      ⟨hp, fun l hl item hi => ⟨hmv l hl item hi, hok l hl item hi⟩, hun⟩ hs hsh
    rw [e1] at e2
    cases e2
    exact sp.unlisted

/-- With PID `0x102` filtered, the PMT `pmt_desc_as_entry` has one entry (on
PID `0x101`, PCR on `0x101`, no CA descriptor), and its 256 descriptor bytes
are copied under an `ES_info_length` of 0: the marker of `0x102` stays in
place, but the custom PMT reads as two entries, the second of which (at offset
17, inside the copied descriptors) has the PID `0x102`. -/
theorem long_descriptors_read_as_entry :
    pmt_items (load_pmt chan_mod_filter pmt_desc_as_entry).pmt = [12] ∧
    (match on_pmt demo_lib 4 chan_tree_pat 1 (load_pmt chan_mod_filter pmt_desc_as_entry) with
      | .ok (_, m) =>
        some (m.pid_map 0x102, pmt_items m.custom_pmt, PMT_ITEM_GET_PID m.custom_pmt.buffer 17)
      | .error _ => none) = some (TS_MAX_PIDS, [12, 17], 0x102) := by
  refine ⟨by decide!, ?_⟩
  rw [on_pmt_first_seen demo_lib 4 chan_tree_pat 1 (load_pmt chan_mod_filter pmt_desc_as_entry)
    (by decide!) (by decide!) (by decide!)
    (by rw [PSI_CALC_CRC32, crc32b_eq_loop]; decide!) (by decide!)]
  decide!

/-- Claim C14, counterexamples: five runs from a state in which a PID is
marked FILTERED.  (1) With PID `0x102` filtered, the PMT `pmt_swapped` has its
PCR on `0x102`: the entry of `0x102` is not copied, but the `join_pcr` block
of `on_pmt` clears the marker, and `on_ts` then forwards a packet received on
`0x102`.  (2) With `cas` enabled and PID `0x102` filtered, a CA descriptor of
`pmt_ca_names_entry` names `0x102`: the marker is cleared, the later entry of
`0x102` is copied to the custom PMT (at offset 23), and the packet is
forwarded.  (3) With PID `0x100` filtered and a map rule `pmt`, `on_pat` binds
the rule to the PMT PID `0x100`, which overwrites the marker with `0x300`; the
PMT `pmt_entry_on_pmt_pid` lists `0x100` as an audio stream, the entry is
copied (at offset 17), and a packet received on `0x100` is forwarded with the
PID `0x300`.  (4) With `cas` enabled and PID `0x102` filtered, the CA
descriptor of the CAT `cat_demo` names `0x102`: `on_cat` clears the marker,
and `on_ts` then forwards a packet received on `0x102`.  (5) With PID `0x200`
filtered and a map rule `video` whose custom PID is `0x200`, the marker of
`0x200` stays in place through the PMT `pmt_plain` and a packet received on
`0x200` is dropped, but the custom PMT lists `0x200`: its only entry (at
offset 12) is the video stream of PID `0x101` under its custom PID. -/
theorem filter_marker_cleared :
    chan_mod_filter.pid_map 0x102 = TS_MAX_PIDS ∧
    (match on_pmt demo_lib 4 chan_tree_pat 1 (load_pmt chan_mod_filter pmt_swapped) with
      | .ok (s1, m1) =>
        match on_ts demo_lib 4 s1 1 m1 (demo_packet 0x102) [] with
        | .ok (_, m2) => some (m1.pid_map 0x102, m2.out.getLast?)
        | .error _ => none
      | .error _ => none) = some (0, some (.send (demo_packet 0x102))) ∧
    chan_mod_cas_filter.pid_map 0x102 = TS_MAX_PIDS ∧
    (match on_pmt demo_lib 4 chan_tree_pat 1
        (load_pmt chan_mod_cas_filter pmt_ca_names_entry) with
      | .ok (s1, m1) =>
        match on_ts demo_lib 4 s1 1 m1 (demo_packet 0x102) [] with
        | .ok (_, m2) => some (m1.pid_map 0x102, PMT_ITEM_GET_PID m1.custom_pmt.buffer 23,
            m1.custom_pmt.buffer_size, m2.out.getLast?)
        | .error _ => none
      | .error _ => none) = some (0, 0x102, 32, some (.send (demo_packet 0x102))) ∧
    chan_mod_pmt_rule.pid_map 0x100 = TS_MAX_PIDS ∧
    (match on_pat demo_lib 4 chan_tree 1 (load_pat chan_mod_pmt_rule pat_demo) with
      | .ok (s1, m1) =>
        match on_pmt demo_lib 4 s1 1 (load_pmt m1 pmt_entry_on_pmt_pid) with
        | .ok (s2, m2) =>
          match on_ts demo_lib 4 s2 1 m2 (demo_packet 0x100) [] with
          | .ok (_, m3) => some (m1.pid_map 0x100, PMT_ITEM_GET_PID m2.custom_pmt.buffer 17,
              m2.custom_pmt.buffer_size, m3.out.getLast?)
          | .error _ => none
        | .error _ => none
      | .error _ => none) =
      some (0x300, 0x100, 26, some (.send (TS_SET_PID (demo_packet 0x100) 0x300))) ∧
    (match on_cat demo_lib 4 chan_tree_pat 1 (load_cat chan_mod_cas_filter cat_demo) with
      | .ok (s1, m1) =>
        match on_ts demo_lib 4 s1 1 m1 (demo_packet 0x102) [] with
        | .ok (_, m2) => some (m1.pid_map 0x102, m2.out.getLast?)
        | .error _ => none
      | .error _ => none) = some (0, some (.send (demo_packet 0x102))) ∧
    chan_mod_map_target.pid_map 0x200 = TS_MAX_PIDS ∧
    (match on_pmt demo_lib 4 chan_tree_pat 1 (load_pmt chan_mod_map_target pmt_plain) with
      | .ok (s1, m1) =>
        match on_ts demo_lib 4 s1 1 m1 (demo_packet 0x200) [] with
        | .ok (_, m2) => some (m1.pid_map 0x200, pmt_items m1.custom_pmt,
            PMT_ITEM_GET_PID m1.custom_pmt.buffer 12, m1.custom_pmt.buffer_size,
            decide (m2.out = m1.out))
        | .error _ => none
      | .error _ => none) = some (TS_MAX_PIDS, [12], 0x200, 21, true) := by
  refine ⟨by decide, ?_, by decide, ?_, by decide, ?_, ?_, by decide, ?_⟩
  · simp only [on_pmt, PSI_CALC_CRC32, crc32b_eq_loop]
    decide!
  · simp only [on_pmt, PSI_CALC_CRC32, crc32b_eq_loop]
    decide!
  · simp only [on_pat, on_pmt, PSI_CALC_CRC32, crc32b_eq_loop]
    decide!
  · simp only [on_cat, PSI_CALC_CRC32, crc32b_eq_loop]
    decide!
  · simp only [on_pmt, PSI_CALC_CRC32, crc32b_eq_loop]
    decide!

/-- Witness for C14: with PID `0x102` filtered, the run `run_demo` (the PMT
`pmt_plain`, whose PCR PID is `0x101`, then a packet on `0x102`) returns with
the marker of `0x102` in place, the forwarding part of `on_ts` returns
without sending, and the custom PMT does not list `0x102`. -/
theorem filtered_pid_stays_dropped_witness :
    ∃ s' mod', chan_run demo_lib 4 1 run_demo chan_tree_pat chan_mod_filter = .ok (s', mod') ∧
      mod'.pid_map 0x102 = TS_MAX_PIDS ∧
      ts_forward s' 1 mod' (demo_packet 0x102) 0x102 = .ok (s', mod') ∧
      ¬ pmt_lists mod'.custom_pmt 0x102 := by
  have hr : Ready id 4 chan_tree_pat 1 :=
    chan_tree_refs_ready
      (fun p => if p = 0 ∨ p = 0x11 ∨ p = 0x12 ∨ p = 0x14 ∨ p = 0x100 then 1 else 0)
      (fun p => by beta_reduce; split <;> decide)
  have hty : chan_mod_filter.stream (TS_GET_PID (demo_packet 0x100)) = .PMT := by decide
  have hs : run_spares demo_lib 4 1 0x102 run_demo chan_tree_pat chan_mod_filter := by
    unfold run_demo run_spares
    refine ⟨⟨demo_packet_bytes 0x100, ?_⟩, ?_⟩
    · simp only [hty]
      unfold psi_mux_spares
      refine ⟨⟨getD_byte pmt_plain (by decide), fun _ => ⟨by decide, Or.inl rfl⟩⟩, ?_⟩
      split
      · trivial
      · unfold psi_mux_spares
        trivial
    · split
      · trivial
      · unfold run_spares
        refine ⟨packet_spares_nil _ _ _ _ _ _ _ (demo_packet_bytes 0x102), ?_⟩
        split
        · trivial
        · unfold run_spares
          trivial
  have hsh : run_short demo_lib 4 1 run_demo chan_tree_pat chan_mod_filter := by
    unfold run_demo run_short
    refine ⟨?_, ?_⟩
    · unfold packet_short
      simp only [hty]
      unfold psi_mux_spares
      refine ⟨fun _ => ⟨by decide, by decide, by decide⟩, ?_⟩
      split
      · trivial
      · unfold psi_mux_spares
        trivial
    · split
      · trivial
      · unfold run_short
        refine ⟨packet_short_nil _ _ _ _ _ _, ?_⟩
        split
        · trivial
        · unfold run_short
          trivial
  obtain ⟨s', mod', h1, h2, h3, h4⟩ :=
    filtered_pid_stays_dropped hr demo_lib chan_mod_filter 0x102 run_demo (by decide) hs
  exact ⟨s', mod', h1, h2, (h3 (demo_packet 0x102) [] (demo_packet_bytes 0x102) (by decide)).1,
    h4 (fun l hl => by cases hl) (fun l hl => by cases hl) (by unfold pmt_lists; decide) hsh⟩

/-! ## Channel: `stream_reload` and `pid_map` -/

/-- Claim C34: in a tree in which the channel can run, `stream_reload`
returns, and the channel record it leaves has the `pid_map` it started with,
entry by entry (remap targets, filter markers and cleared markers alike),
while every rule of the map has `is_set = false`. -/
theorem stream_reload_keeps_pid_map {d : Nat → Nat} {fuel : Nat} {s : State} {self : Nat}
    (hr : Ready d fuel s self) (mod : module_data_t) :
    ∃ s' mod', stream_reload fuel s self mod = .ok (s', mod') ∧
      (∀ p, mod'.pid_map p = mod.pid_map p) ∧
      mod'.map = mod.map.map (fun l => l.map (fun item => { item with is_set := false })) ∧
      (∀ l, mod'.map = some l → ∀ item ∈ l, item.is_set = false) := by
  obtain ⟨s', h1, _, _⟩ := stream_reload_spec hr mod
  refine ⟨s', reload_data mod, h1, fun _ => rfl, rfl, ?_⟩
  intro l hl item hitem
  have hl' : mod.map.map (fun l => l.map (fun item => { item with is_set := false })) = some l := hl
  cases hm : mod.map with
  | none => rw [hm] at hl'; cases hl'
  | some l0 =>
    rw [hm] at hl'
    simp only [Option.map_some', Option.some.injEq] at hl'
    subst hl'
    obtain ⟨x, _, hx⟩ := List.mem_map.mp hitem
    rw [← hx]

/-- Witness for C34: the record `chan_mod_map_filter` is reloaded in the example
tree; PID `0x101` keeps its target `0x200`, PID `0x102` keeps its filter
marker, and the rule `video` is free again. -/
theorem stream_reload_keeps_pid_map_witness :
    ∃ s' mod', stream_reload 4 (chan_tree_refs refs_twice) 1 chan_mod_map_filter = .ok (s', mod') ∧
      mod'.pid_map 0x101 = 0x200 ∧ mod'.pid_map 0x102 = TS_MAX_PIDS ∧
      mod'.map =
        some [{ type := str_video, origin_pid := 0, custom_pid := 0x200, is_set := false }] := by
  have hr : Ready id 4 (chan_tree_refs refs_twice) 1 :=
    chan_tree_refs_ready refs_twice
      (fun p => by unfold refs_twice; split <;> [decide; (split <;> decide)])
  obtain ⟨s', mod', h1, h2, h3, _⟩ := stream_reload_keeps_pid_map hr chan_mod_map_filter
  refine ⟨s', mod', h1, by rw [h2]; decide, by rw [h2]; decide, ?_⟩
  rw [h3]
  decide

/-! ## Re-parenting and cycles -/

theorem parent_shape {s s' : State} (h : SameShape s s') {n q : Nat} (hp : Parent s' n q) :
    Parent s n q := by
  obtain ⟨st', hst', hpar⟩ := hp
  obtain ⟨st, hst, hsh⟩ := h.back hst'
  refine ⟨st, hst, ?_⟩
  have := congrArg Prod.fst hsh
  simp only [shape] at this
  rw [this, hpar]

/-- The parent links after `module_stream_attach`: those of the other modules
as before, and the link of the child to the new parent. -/
theorem attach_parents {fuel : Nat} {s s' : State} {mod : Option Nat} {child : Nat}
    (h : module_stream_attach fuel s mod child = .ok s') (n q : Nat) (hp : Parent s' n q) :
    (n ≠ child ∧ Parent s n q) ∨ (n = child ∧ mod = some q) := by
  unfold module_stream_attach at h
  split at h
  · cases h
  · rename_i s1 saved hs1
    have sh1 := leave_all_shape _ _ _ _ _ _ _ hs1
    split at h
    · cases h
    · rename_i s2 hs2
      split at h
      · cases h
      · rename_i s3 hs3
        have sh3 := join_all_shape _ _ _ _ _ _ h
        have hp3 := parent_shape sh3 hp
        obtain ⟨cs, hcs, -, hnone, hsome⟩ := detach_parent_stream hs2
        have h2 : ∀ n q, Parent s2 n q → n ≠ child ∧ Parent s1 n q := by
          intro n q ⟨st, hst, hpar⟩
          cases hcp : cs.parent with
          | none =>
            rw [hnone hcp] at hst
            refine ⟨?_, st, hst, hpar⟩
            intro e
            subst e
            rw [hcs] at hst
            cases hst
            rw [hcp] at hpar
            cases hpar
          | some par =>
            have hn := (hsome par hcp).2 n
            rw [hst] at hn
            cases h1 : s1.stream n with
            | none => rw [h1] at hn; cases hn
            | some st1 =>
              rw [h1] at hn
              simp only [Option.map_some', Option.some.injEq] at hn
              subst hn
              by_cases hnc : n = child
              · simp [hnc] at hpar
              · simp only [hnc, if_false] at hpar
                exact ⟨hnc, st1, h1, hpar⟩
        cases mod with
        | none =>
          simp only [attach_parent, Except.ok.injEq] at hs3
          subst hs3
          obtain ⟨hnc, hp1⟩ := h2 n q hp3
          exact Or.inl ⟨hnc, parent_shape sh1 hp1⟩
        | some m =>
          obtain ⟨cs2, hcs2, -, -, -, hstr⟩ := attach_parent_stream hs3
          obtain ⟨st3, hst3, hpar3⟩ := hp3
          have hn := hstr n
          rw [hst3] at hn
          cases h2n : s2.stream n with
          | none => rw [h2n] at hn; cases hn
          | some st2 =>
            rw [h2n] at hn
            simp only [Option.map_some', Option.some.injEq] at hn
            subst hn
            by_cases hnc : n = child
            · simp only [hnc, if_true, Option.some.injEq] at hpar3
              exact Or.inr ⟨hnc, by rw [hpar3]⟩
            · simp only [hnc, if_false] at hpar3
              obtain ⟨_, hp1⟩ := h2 n q ⟨st2, h2n, hpar3⟩
              exact Or.inl ⟨hnc, parent_shape sh1 hp1⟩

/-- Replacing the outgoing link of one node by a link to a node from which it
cannot be reached keeps a relation acyclic. -/
theorem acyclic_relink {P Q : Nat → Nat → Prop} {child : Nat} {mod : Option Nat}
    (hedge : ∀ n q, Q n q → (n ≠ child ∧ P n q) ∨ (n = child ∧ mod = some q))
    (hac : ∀ n, ¬ Relation.TransGen P n n)
    (hmod : ∀ m, mod = some m → ¬ Relation.ReflTransGen P m child) :
    ∀ n, ¬ Relation.TransGen Q n n := by
  have hA : ∀ a, Relation.ReflTransGen Q a child → Relation.ReflTransGen P a child := by
    intro a ha
    induction ha using Relation.ReflTransGen.head_induction_on with
    | refl => exact Relation.ReflTransGen.refl
    | head hab _ ih =>
      rcases hedge _ _ hab with ⟨_, hP⟩ | ⟨hc, _⟩
      · exact Relation.ReflTransGen.head hP ih
      · rw [hc]
  have hB : ∀ a b, Relation.TransGen Q a b →
      Relation.TransGen P a b ∨ (Relation.ReflTransGen Q a child ∧ Relation.TransGen Q child b) := by
    intro a b hab
    induction hab using Relation.TransGen.head_induction_on with
    | base hab =>
      rcases hedge _ _ hab with ⟨_, hP⟩ | ⟨hc, _⟩
      · exact Or.inl (Relation.TransGen.single hP)
      · subst hc
        exact Or.inr ⟨Relation.ReflTransGen.refl, Relation.TransGen.single hab⟩
    | ih hac' hcb ih =>
      rcases hedge _ _ hac' with ⟨_, hP⟩ | ⟨hc, _⟩
      · rcases ih with h | ⟨h1, h2⟩
        · exact Or.inl (Relation.TransGen.head hP h)
        · exact Or.inr ⟨Relation.ReflTransGen.head hac' h1, h2⟩
      · subst hc
        exact Or.inr ⟨Relation.ReflTransGen.refl, Relation.TransGen.head hac' hcb⟩
  have hC : ¬ Relation.TransGen Q child child := by
    intro hcc
    rcases Relation.TransGen.head'_iff.mp hcc with ⟨y, hy, hrest⟩
    rcases hedge _ _ hy with ⟨hne, _⟩ | ⟨_, hm⟩
    · exact hne rfl
    · exact hmod y hm (hA y hrest)
  intro n hn
  rcases hB n n hn with h | ⟨h1, h2⟩
  · exact hac n h
  · exact hC (Relation.TransGen.trans_left h2 h1)

theorem acyclic_of_wf {d : Nat → Nat} {s : State} (hw : WF d s) : Acyclic s := by
  have h : ∀ a b, Relation.TransGen (Parent s) a b → d b < d a := by
    intro a b hab
    induction hab with
    | single hab =>
      obtain ⟨st, hst, hpar⟩ := hab
      exact (hw.ranked _ st _ hst hpar).2
    | tail _ hbc ih =>
      obtain ⟨st, hst, hpar⟩ := hbc
      have := (hw.ranked _ st _ hst hpar).2
      omega
  intro n hn
  exact Nat.lt_irrefl _ (h n n hn)

theorem leave_all_idle (fuel : Nat) (hfuel : 0 < fuel) :
    ∀ (pids : List Nat) (s : State) (mod : Nat) (saved : Nat → Nat) (st : module_stream_t),
      s.stream mod = some st → (∀ p ∈ pids, p < TS_MAX_PIDS ∧ st.pid_list p = 0) →
      leave_all fuel pids s mod saved = .ok (s, saved) := by
  intro pids
  induction pids with
  | nil => intro s mod saved st _ _; rfl
  | cons i rest ih =>
    intro s mod saved st hst hz
    obtain ⟨hi, h0⟩ := hz i (List.mem_cons_self _ _)
    have hw : leave_while fuel fuel s mod i (saved i) = .ok (s, saved i) := by
      obtain ⟨n, rfl⟩ : ∃ n, fuel = n + 1 := ⟨fuel - 1, by omega⟩
      simp [leave_while, module_demux_check, ts_pid_valid, hi, hst, h0]
    simp only [leave_all, hw, Function.update_eq_self]
    exact ih s mod saved st hst (fun p hp => hz p (List.mem_cons_of_mem _ hp))

theorem join_all_idle (fuel : Nat) :
    ∀ (pids : List Nat) (s : State) (child : Nat) (saved : Nat → Nat),
      (∀ p ∈ pids, saved p = 0) → join_all fuel pids s child saved = .ok s := by
  intro pids
  induction pids with
  | nil => intro s child saved _; rfl
  | cons i rest ih =>
    intro s child saved hz
    simp only [join_all, hz i (List.mem_cons_self _ _), join_times]
    exact ih s child saved (fun p hp => hz p (List.mem_cons_of_mem _ hp))

/-- For a child without subscriptions `module_stream_attach` is the "switch
parents" block. -/
theorem attach_idle {fuel : Nat} {s : State} {child : Nat} {cs : module_stream_t}
    (mod : Option Nat) (hfuel : 0 < fuel) (hcs : s.stream child = some cs)
    (hz : ∀ p, p < TS_MAX_PIDS → cs.pid_list p = 0) :
    module_stream_attach fuel s mod child =
      match detach_parent s child with
      | .error e => .error e
      | .ok s2 => attach_parent s2 mod child := by
  unfold module_stream_attach
  rw [leave_all_idle fuel hfuel _ s child _ cs hcs
    (fun p hp => ⟨List.mem_range.mp hp, hz p (List.mem_range.mp hp)⟩)]
  simp only []
  cases detach_parent s child with
  | error e => rfl
  | ok s2 =>
    simp only []
    cases attach_parent s2 mod child with
    | error e => rfl
    | ok s3 =>
      simp only []
      exact join_all_idle fuel _ s3 child _ (fun _ _ => rfl)

theorem demo_idle_wf : WF (fun n => n) demo_idle := by
  constructor
  · intro n st m hn hp
    simp only [demo_idle] at hn
    split at hn
    · cases hn
      simp [fresh] at hp
    · split at hn
      · rename_i h1
        cases hn
        simp only [fresh, Option.some.injEq] at hp
        subst hp
        subst h1
        exact ⟨⟨{ fresh (some 10) with children := [1] }, by simp [demo_idle]⟩, by decide⟩
      · cases hn
  · intro n st p hn
    simp only [demo_idle] at hn
    split at hn
    · cases hn; simp [fresh]
    · split at hn
      · cases hn; simp [fresh]
      · cases hn

/-- Claim C31, amended: when the parent links are acyclic and the new parent
is `NULL` or a module from which the child cannot be reached by following
parent links (so neither the child itself nor one of its descendants), every
call of `module_stream_attach` that returns leaves the parent links
acyclic. -/
theorem attach_keeps_acyclic (fuel : Nat) (s s' : State) (mod : Option Nat) (child : Nat)
    (hac : Acyclic s)
    (hmod : ∀ m, mod = some m → ¬ Relation.ReflTransGen (Parent s) m child)
    (h : module_stream_attach fuel s mod child = .ok s') : Acyclic s' :=
  acyclic_relink (attach_parents h) hac hmod

/-- Claim C31, counterexamples: `module_stream_attach` has no check of the new
parent.  In the forest `demo` the root 2 is attached to itself: the call
returns and module 2 is its own parent.  In the forest `demo_idle` the root 0
is attached to its child 1: the call returns, and the parent links lead from 0
to 1 and from 1 back to 0.  Both forests were acyclic. -/
theorem attach_creates_cycle :
    Acyclic demo ∧
    (∃ s', module_stream_attach 1 demo (some 2) 2 = .ok s' ∧ Parent s' 2 2 ∧ ¬ Acyclic s') ∧
    Acyclic demo_idle ∧
    (∃ s', module_stream_attach 1 demo_idle (some 1) 0 = .ok s' ∧ Parent s' 0 1 ∧
      Parent s' 1 0 ∧ ¬ Acyclic s') := by
  refine ⟨acyclic_of_wf demo_wf, ?_, acyclic_of_wf demo_idle_wf, ?_⟩
  · rw [attach_idle (some 2) (by decide) demo_stream_other (fun _ _ => rfl)]
    have h2 : detach_parent demo 2 = .ok demo := by
      simp [detach_parent, demo_stream_other, fresh]
    rw [h2]
    simp only [attach_parent, demo_stream_other, fresh]
    refine ⟨_, rfl, ?_, ?_⟩
    · exact ⟨_, by simp [modify_stream, demo_stream_other, fresh]; rfl, rfl⟩
    · intro hac
      exact hac 2 (Relation.TransGen.single
        ⟨_, by simp [modify_stream, demo_stream_other, fresh]; rfl, rfl⟩)
  · have h0 : demo_idle.stream 0 = some { fresh (some 10) with children := [1] } := by
      simp [demo_idle]
    have h1 : demo_idle.stream 1 = some { fresh (some 11) with parent := some 0 } := by
      simp [demo_idle]
    rw [attach_idle (some 1) (by decide) h0 (fun _ _ => rfl)]
    have h2 : detach_parent demo_idle 0 = .ok demo_idle := by
      simp [detach_parent, h0, fresh]
    rw [h2]
    simp only [attach_parent, h0, h1, fresh]
    have e0 : Parent (((demo_idle.modify 0 (fun c => { c with parent := some 1 })).modify 1
        (fun ps => { ps with children := asc_list_insert_tail ps.children 0 }))) 0 1 :=
      ⟨_, by simp [modify_stream, h0, fresh]; rfl, rfl⟩
    have e1 : Parent (((demo_idle.modify 0 (fun c => { c with parent := some 1 })).modify 1
        (fun ps => { ps with children := asc_list_insert_tail ps.children 0 }))) 1 0 :=
      ⟨_, by simp [modify_stream, h1, fresh]; rfl, rfl⟩
    exact ⟨_, rfl, e0, e1, fun hac => hac 0
      (Relation.TransGen.head e0 (Relation.TransGen.single e1))⟩

/-- Witness for C31: in the forest `demo` module 1 is moved from the root 0 to
the root 2, from which it cannot be reached; the call returns and the parent
links are acyclic. -/
theorem attach_keeps_acyclic_witness :
    ∃ s', module_stream_attach 300 demo (some 2) 1 = .ok s' ∧ Acyclic s' := by
  obtain ⟨s', _, _, hs', _⟩ := @attach_summary
    (fun n => if n = 1 then 3 else if n = 3 then 4 else n) 300 demo (some 2) 1 demo_child
    demo_wf_top demo_stream_child (by decide) (by decide)
    (fun m hm => by
      cases hm
      exact ⟨⟨_, demo_stream_other⟩, by decide, by decide⟩)
  refine ⟨s', hs', attach_keeps_acyclic 300 demo s' (some 2) 1 (acyclic_of_wf demo_wf) ?_ hs'⟩
  intro m hm hreach
  cases hm
  rcases Relation.ReflTransGen.cases_head hreach with h | ⟨c, ⟨st, hst, hpar⟩, _⟩
  · exact absurd h (by decide)
  · rw [demo_stream_other] at hst
    cases hst
    cases hpar

/-! ## Tree consistency -/

theorem linked_shape {s s' : State} (h : SameShape s s') (hl : Linked s) : Linked s' := by
  intro c cs' p hc hpar
  obtain ⟨cs, hcs, hsh⟩ := h.back hc
  simp only [shape, Prod.mk.injEq] at hsh
  obtain ⟨ps, hps, hmem⟩ := hl c cs p hcs (by rw [hsh.1, hpar])
  obtain ⟨ps', hps', hsh'⟩ := h.fwd hps
  simp only [shape, Prod.mk.injEq] at hsh'
  exact ⟨ps', hps', by rw [hsh'.2.2.1]; exact hmem⟩

theorem detach_parent_linked {s s2 : State} {child : Nat} (hl : Linked s)
    (h : detach_parent s child = .ok s2) : Linked s2 := by
  obtain ⟨cs, hcs, -, hnone, hsome⟩ := detach_parent_stream h
  cases hpar : cs.parent with
  | none => rw [hnone hpar]; exact hl
  | some par =>
    obtain ⟨-, hst⟩ := hsome par hpar
    intro c cs2 p hc hp
    rw [hst] at hc
    cases hc0 : s.stream c with
    | none => rw [hc0] at hc; cases hc
    | some cs0 =>
      rw [hc0] at hc
      simp only [Option.map_some', Option.some.injEq] at hc
      subst hc
      by_cases hcc : c = child
      · simp [hcc] at hp
      · simp only [hcc, if_false] at hp
        obtain ⟨ps, hps, hmem⟩ := hl c cs0 p hc0 hp
        refine ⟨_, by rw [hst, hps]; rfl, ?_⟩
        show c ∈ (if p = par then asc_list_remove_item ps.children child else ps.children)
        split
        · exact (List.mem_erase_of_ne hcc).mpr hmem
        · exact hmem

theorem attach_parent_linked {s s3 : State} {mod : Option Nat} {child : Nat} (hl : Linked s)
    (h : attach_parent s mod child = .ok s3) : Linked s3 := by
  cases mod with
  | none =>
    simp only [attach_parent, Except.ok.injEq] at h
    subst h
    exact hl
  | some m =>
    obtain ⟨cs, hcs, -, ⟨ms, hms⟩, -, hst⟩ := attach_parent_stream h
    intro c cs3 p hc hp
    rw [hst] at hc
    cases hc0 : s.stream c with
    | none => rw [hc0] at hc; cases hc
    | some cs0 =>
      rw [hc0] at hc
      simp only [Option.map_some', Option.some.injEq] at hc
      subst hc
      by_cases hcc : c = child
      · simp only [hcc, if_true, Option.some.injEq] at hp
        subst hp
        refine ⟨_, by rw [hst, hms]; rfl, ?_⟩
        simp [asc_list_insert_tail, hcc]
      · simp only [hcc, if_false] at hp
        obtain ⟨ps, hps, hmem⟩ := hl c cs0 p hc0 hp
        refine ⟨_, by rw [hst, hps]; rfl, ?_⟩
        show c ∈ (if p = m then asc_list_insert_tail ps.children child else ps.children)
        split
        · exact List.mem_append_left _ hmem
        · exact hmem

theorem attach_linked {fuel : Nat} {s s' : State} {mod : Option Nat} {child : Nat}
    (hl : Linked s) (h : module_stream_attach fuel s mod child = .ok s') : Linked s' := by
  unfold module_stream_attach at h
  split at h
  · cases h
  · rename_i s1 saved hs1
    split at h
    · cases h
    · rename_i s2 hs2
      split at h
      · cases h
      · rename_i s3 hs3
        exact linked_shape (join_all_shape _ _ _ _ _ _ h)
          (attach_parent_linked (detach_parent_linked
            (linked_shape (leave_all_shape _ _ _ _ _ _ _ hs1) hl) hs2) hs3)

theorem destroy_linked {fuel : Nat} {s s' : State} {mod : Nat}
    (hl : Linked s) (h : module_stream_destroy fuel s mod = .ok s') : Linked s' := by
  simp only [module_stream_destroy] at h
  split at h
  · cases h; exact hl
  · split at h
    · cases h
    · rename_i s1 saved hs1
      split at h
      · cases h
      · rename_i s2 hs2
        split at h
        · cases h
        · rename_i st hst
          split at h
          · cases h
          · rename_i s3 hs3
            simp only [Except.ok.injEq] at h
            subst h
            have sh1 := leave_all_shape _ _ _ _ _ _ _ hs1
            have l2 := attach_linked (linked_shape sh1 hl) hs2
            obtain ⟨-, hst3⟩ := clear_parents_spec _ _ _ hs3
            intro c cs' p hc' hp
            have hcm : c ≠ mod := by
              intro e
              subst e
              simp at hc'
            have hc3 : s3.stream c = some cs' := by
              have h0 : (Function.update s3.stream mod none) c = some cs' := hc'
              rw [Function.update_noteq hcm] at h0
              exact h0
            rw [hst3] at hc3
            have hcn : c ∉ st.children := by
              intro hin
              rw [if_pos hin] at hc3
              cases h2c : s2.stream c with
              | none => rw [h2c] at hc3; cases hc3
              | some cs2 =>
                rw [h2c] at hc3
                simp only [Option.map_some', Option.some.injEq] at hc3
                subst hc3
                cases hp
            rw [if_neg hcn] at hc3
            obtain ⟨ps, hps, hmem⟩ := l2 c cs' p hc3 hp
            have hpm : p ≠ mod := by
              intro e
              subst e
              rw [hst] at hps
              cases hps
              exact hcn hmem
            by_cases hpin : p ∈ st.children
            · refine ⟨{ ps with parent := none }, ?_, hmem⟩
              show (Function.update s3.stream mod none) p = _
              rw [Function.update_noteq hpm, hst3, if_pos hpin, hps]
              rfl
            · refine ⟨ps, ?_, hmem⟩
              show (Function.update s3.stream mod none) p = _
              rw [Function.update_noteq hpm, hst3, if_neg hpin, hps]

theorem api_linked {fuel : Nat} {s s' : State} (c : ApiCall)
    (hl : Linked s) (h : api fuel s c = .ok s') : Linked s' := by
  cases c with
  | init mod on_ts =>
    simp only [api, module_stream_init] at h
    split at h
    · cases h
    · rename_i hnone
      simp only [Except.ok.injEq] at h
      subst h
      intro c cs p hcs hp
      by_cases hcm : c = mod
      · subst hcm
        simp only [State.set, Function.update_same, Option.some.injEq] at hcs
        subst hcs
        cases hp
      · simp only [State.set, Function.update_noteq hcm] at hcs
        obtain ⟨ps, hps, hmem⟩ := hl c cs p hcs hp
        have hpm : p ≠ mod := by
          intro e
          subst e
          rw [hnone] at hps
          cases hps
        exact ⟨ps, by simp only [State.set, Function.update_noteq hpm]; exact hps, hmem⟩
  | destroy mod =>
    simp only [api] at h
    exact destroy_linked hl h
  | attach parent child =>
    simp only [api] at h
    exact attach_linked hl h
  | demux_set mod j l =>
    simp only [api, module_demux_set] at h
    split at h
    · cases h
    · rename_i st hst
      simp only [Except.ok.injEq] at h
      subst h
      have hget : ∀ n st', (s.set mod { st with join_pid := j, leave_pid := l }).stream n
          = some st' → ∃ st0, s.stream n = some st0 ∧ st'.children = st0.children ∧
            st'.parent = st0.parent := by
        intro n st' hn
        by_cases hnm : n = mod
        · subst hnm
          simp only [State.set, Function.update_same, Option.some.injEq] at hn
          subst hn
          exact ⟨st, hst, rfl, rfl⟩
        · simp only [State.set, Function.update_noteq hnm] at hn
          exact ⟨st', hn, rfl, rfl⟩
      intro c cs p hcs hp
      obtain ⟨cs0, hcs0, -, hpar0⟩ := hget c cs hcs
      obtain ⟨ps, hps, hmem⟩ := hl c cs0 p hcs0 (by rw [← hpar0, hp])
      by_cases hpm : p = mod
      · subst hpm
        rw [hst] at hps
        cases hps
        exact ⟨{ st with join_pid := j, leave_pid := l },
          by simp only [State.set, Function.update_same], hmem⟩
      · exact ⟨ps, by simp only [State.set, Function.update_noteq hpm]; exact hps, hmem⟩
  | join mod pid =>
    simp only [api] at h
    exact linked_shape ((demux_shape fuel s mod pid s').1 h) hl
  | leave mod pid =>
    simp only [api] at h
    exact linked_shape ((demux_shape fuel s mod pid s').2 h) hl
  | send mod ts =>
    simp only [api, module_stream_send] at h
    split at h
    · cases h
    · rename_i st hst
      have hsame : ∀ (l : List Nat) (t t' : State), send_children t mod ts l = .ok t' →
          SameShape t t' := by
        intro l
        induction l with
        | nil => intro t t' ht; cases ht; exact sameShape_refl _
        | cons c rest ih =>
          intro t t' ht
          simp only [send_children] at ht
          split at ht
          · cases ht
          · split at ht
            · cases ht
            · exact sameShape_trans (sameShape_emit _ _) (ih _ _ ht)
      exact linked_shape (hsame _ _ _ h) hl

theorem reachable_treeOk {s : State} (h : Reachable s) : TreeOk s := by
  refine ⟨reachable_childrenOk h, ?_⟩
  induction h with
  | start => intro c cs p hc; cases hc
  | call fuel c _ hstep ih => exact api_linked c ih hstep

theorem treeOk_consistent {s : State} (h : TreeOk s) : Consistent s := by
  intro c p cs ps hcs hps
  refine ⟨⟨?_, ?_⟩, ?_⟩
  · intro hmem
    obtain ⟨cs', hcs', hpar, -⟩ := h.lists.member p ps c hps hmem
    rw [hcs] at hcs'
    cases hcs'
    exact hpar
  · intro hpar
    obtain ⟨ps', hps', hmem⟩ := h.linked c cs p hcs hpar
    rw [hps] at hps'
    cases hps'
    exact hmem
  · intro hmem
    exact List.count_eq_one_of_mem (h.lists.nodup p ps hps) hmem

/-- After `module_stream_attach` to a parent has returned, the child is the
last entry of the children list of the parent, and its parent pointer is the
parent. -/
theorem attach_tail {fuel : Nat} {s s' : State} {p c : Nat}
    (h : module_stream_attach fuel s (some p) c = .ok s') :
    ∃ ps cs, s'.stream p = some ps ∧ s'.stream c = some cs ∧ cs.parent = some p ∧
      ps.children.getLast? = some c := by
  unfold module_stream_attach at h
  split at h
  · cases h
  · rename_i s1 saved hs1
    split at h
    · cases h
    · rename_i s2 hs2
      split at h
      · cases h
      · rename_i s3 hs3
        have sh3 := join_all_shape _ _ _ _ _ _ h
        obtain ⟨cs2, hcs2, -, ⟨ps2, hps2⟩, -, hst⟩ := attach_parent_stream hs3
        have hp3 := hst p
        rw [hps2] at hp3
        have hc3 := hst c
        rw [hcs2] at hc3
        obtain ⟨ps', hps', hshp⟩ := sh3.fwd hp3
        obtain ⟨cs', hcs', hshc⟩ := sh3.fwd hc3
        simp only [shape, Prod.mk.injEq, if_true] at hshp hshc
        refine ⟨ps', cs', hps', hcs', by rw [hshc.1], ?_⟩
        rw [hshp.2.2.1]
        simp [asc_list_insert_tail]

theorem demo_treeOk : TreeOk demo := by
  refine ⟨demo_childrenOk, ?_⟩
  intro c cs p hc hp
  rcases demo_cases hc with ⟨rfl, rfl⟩ | ⟨rfl, rfl⟩ | ⟨rfl, rfl⟩ | ⟨rfl, rfl⟩
  · simp [demo_root, fresh] at hp
  · simp only [demo_child, fresh, Option.some.injEq] at hp
    subst hp
    exact ⟨_, demo_stream_root, by simp [demo_root]⟩
  · simp [fresh] at hp
  · simp only [demo_leaf, fresh, Option.some.injEq] at hp
    subst hp
    exact ⟨_, demo_stream_child, by simp [demo_child]⟩

/-- Claim C32: tree consistency is an invariant.  In a state `s` with
consistent children lists and parent pointers (`TreeOk`, which holds in every
state that the API reaches from the empty heap): for all live nodes `c` and
`p`, `c` is in the children list of `p` exactly when its parent pointer is
`p`, and then exactly once; every `module_stream_init`,
`module_stream_attach` and `module_stream_destroy` that returns leaves a state
with `TreeOk` again; and after `module_stream_attach(p, c)` has returned, `c`
is the last entry of the children list of `p`, its parent pointer is `p`, and
it is in the children list of no other node. -/
theorem tree_consistency (s : State) (h : TreeOk s) :
    Consistent s ∧
    (∀ mod on_ts s', module_stream_init s mod on_ts = .ok s' → TreeOk s') ∧
    (∀ fuel mod child s', module_stream_attach fuel s mod child = .ok s' → TreeOk s') ∧
    (∀ fuel mod s', module_stream_destroy fuel s mod = .ok s' → TreeOk s') ∧
    (∀ fuel p c s', module_stream_attach fuel s (some p) c = .ok s' →
      ∃ ps cs, s'.stream p = some ps ∧ s'.stream c = some cs ∧ cs.parent = some p ∧
        ps.children.getLast? = some c ∧
        ∀ q qs, q ≠ p → s'.stream q = some qs → c ∉ qs.children) ∧
    (∀ t, Reachable t → TreeOk t) := by
  refine ⟨treeOk_consistent h, ?_, ?_, ?_, ?_, fun t ht => reachable_treeOk ht⟩
  · intro mod on_ts s' hs'
    exact ⟨@api_childrenOk 0 s s' (.init mod on_ts) h.lists hs',
      @api_linked 0 s s' (.init mod on_ts) h.linked hs'⟩
  · intro fuel mod child s' hs'
    exact ⟨(attach_childrenOk h.lists hs').1, attach_linked h.linked hs'⟩
  · intro fuel mod s' hs'
    exact ⟨destroy_childrenOk h.lists hs', destroy_linked h.linked hs'⟩
  · intro fuel p c s' hs'
    obtain ⟨ps, cs, hps, hcs, hpar, hlast⟩ := attach_tail hs'
    refine ⟨ps, cs, hps, hcs, hpar, hlast, ?_⟩
    intro q qs hq hqs hmem
    obtain ⟨cs', hcs', hpar', -⟩ := (attach_childrenOk h.lists hs').1.member q qs c hqs hmem
    rw [hcs] at hcs'
    cases hcs'
    rw [hpar] at hpar'
    cases hpar'
    exact hq rfl

/-- Witness for C32: the forest `demo` is consistent; moving module 1 from the
root 0 to the root 2 returns, keeps the invariant, and leaves 1 as the last
child of 2. -/
theorem tree_consistency_witness :
    TreeOk demo ∧ Consistent demo ∧
    ∃ s' ps, module_stream_attach 300 demo (some 2) 1 = .ok s' ∧ TreeOk s' ∧
      s'.stream 2 = some ps ∧ ps.children.getLast? = some 1 := by
  obtain ⟨h1, _, h3, _, h5, _⟩ := tree_consistency demo demo_treeOk
  obtain ⟨s', _, _, hs', _⟩ := @attach_summary
    (fun n => if n = 1 then 3 else if n = 3 then 4 else n) 300 demo (some 2) 1 demo_child
    demo_wf_top demo_stream_child (by decide) (by decide)
    (fun m hm => by
      cases hm
      exact ⟨⟨_, demo_stream_other⟩, by decide, by decide⟩)
  obtain ⟨ps, _, hps, _, _, hlast, _⟩ := h5 300 2 1 s' hs'
  exact ⟨demo_treeOk, h1, s', ps, hs', h3 300 (some 2) 1 s' hs', hps, hlast⟩

/-! ## Reference counts in a forest with the default hooks -/

theorem countP_change (a : Nat) (f f' : Nat → Bool) (h : ∀ x, x ≠ a → f' x = f x) :
    ∀ l : List Nat, l.Nodup →
      (l.countP f' : Int) = l.countP f +
        (if a ∈ l then ((if f' a then 1 else 0) - (if f a then 1 else 0) : Int) else 0) := by
  intro l
  induction l with
  | nil => intro _; simp
  | cons x rest ih =>
    intro hnd
    rw [List.nodup_cons] at hnd
    obtain ⟨hx, hrest⟩ := hnd
    have ih' := ih hrest
    by_cases hxa : x = a
    · subst hxa
      simp only [List.countP_cons, List.mem_cons, true_or, if_true, hx, if_false] at ih' ⊢
      push_cast
      rw [ih']
      cases f' x <;> cases f x <;> simp
    · have hax : a ≠ x := fun e => hxa e.symm
      simp only [List.countP_cons, List.mem_cons, hax, false_or, h x hxa]
      push_cast
      rw [ih']
      ring

theorem counted_iff (s : State) (g : Nat → Nat → Nat) :
    Counted s g ↔ ∀ n st p, s.stream n = some st → p < TS_MAX_PIDS → excess s n p = g n p := by
  constructor
  · intro h n st p hst hp
    simp only [excess, hst]
    rw [h n st p hst hp]
    push_cast
    ring
  · intro h n st p hst hp
    have := h n st p hst hp
    simp only [excess, hst] at this
    omega

theorem pid_refs_live {s : State} {n : Nat} {st : module_stream_t} (h : s.stream n = some st) :
    pid_refs s n = st.pid_list := by
  simp only [pid_refs, h]

/-- The effect on the counts of writing `v` in the counter of `p` on the node
`a`: the count of `a` changes by the difference, and the count of the parent
of `a` goes the other way when `a` starts or stops being subscribed. -/
theorem excess_local {d : Nat → Nat} {s s1 : State} {a p v : Nat} {st st1 : module_stream_t}
    (hw : WF d s) (ht : TreeOk s) (hst : s.stream a = some st)
    (h1 : s1.stream = Function.update s.stream a (some st1))
    (hsh : shape st1 = shape st) (hpl : st1.pid_list = Function.update st.pid_list p v)
    (m q : Nat) :
    excess s1 m q = excess s m q +
        (if m = a ∧ q = p then (v : Int) - st.pid_list p else 0) -
        (if st.parent = some m ∧ q = p then
          ((if 0 < v then 1 else 0) - (if 0 < st.pid_list p then 1 else 0) : Int) else 0) := by
  simp only [shape, Prod.mk.injEq] at hsh
  have hrefs : ∀ x, x ≠ a → pid_refs s1 x = pid_refs s x := by
    intro x hx
    simp only [pid_refs, h1, Function.update_noteq hx]
  have hrefa : pid_refs s1 a = Function.update st.pid_list p v := by
    simp only [pid_refs, h1, Function.update_same, hpl]
  have hrefa0 : pid_refs s a = st.pid_list := pid_refs_live hst
  have hself : st.parent ≠ some a := by
    intro e
    exact Nat.lt_irrefl _ (hw.ranked a st a hst e).2
  -- the number of subscribed entries of a list after the write
  have hwant : ∀ l : List Nat, l.Nodup → (wanting s1 l q : Int) = wanting s l q +
      (if a ∈ l then ((if decide (0 < pid_refs s1 a q) then 1 else 0) -
        (if decide (0 < pid_refs s a q) then 1 else 0) : Int) else 0) := by
    intro l hnd
    exact countP_change a _ _ (fun x hx => by rw [hrefs x hx]) l hnd
  by_cases hma : m = a
  · subst hma
    have hnotin : m ∉ st.children := by
      intro hin
      obtain ⟨cs, hcs, hpar, -⟩ := ht.lists.member m st m hst hin
      rw [hst] at hcs
      cases hcs
      exact hself hpar
    have e1 : s1.stream m = some st1 := by rw [h1, Function.update_same]
    by_cases hq : q = p
    · subst hq
      rw [if_pos ⟨rfl, rfl⟩, if_neg (fun c => hself c.1)]
      simp only [excess, e1, hst, hsh.2.2.1, hpl, Function.update_same]
      rw [hwant st.children (ht.lists.nodup m st hst), if_neg hnotin]
      ring
    · rw [if_neg (fun c => hq c.2), if_neg (fun c => hself c.1)]
      simp only [excess, e1, hst, hsh.2.2.1, hpl, Function.update_noteq hq]
      rw [hwant st.children (ht.lists.nodup m st hst), if_neg hnotin]
      ring
  · rw [if_neg (fun c => hma c.1)]
    cases hm : s.stream m with
    | none =>
      have e1 : s1.stream m = none := by rw [h1, Function.update_noteq hma, hm]
      have hpar : st.parent ≠ some m := by
        intro e
        obtain ⟨ps, hps, -⟩ := ht.linked a st m hst e
        rw [hm] at hps
        cases hps
      simp only [excess, e1, hm]
      rw [if_neg (fun c => hpar c.1)]
      ring
    | some ms =>
      have e1 : s1.stream m = some ms := by rw [h1, Function.update_noteq hma, hm]
      simp only [excess, e1, hm]
      rw [hwant ms.children (ht.lists.nodup m ms hm)]
      have hmem : a ∈ ms.children ↔ st.parent = some m := ((treeOk_consistent ht) a m st ms hst hm).1
      by_cases hpar : st.parent = some m
      · rw [if_pos (hmem.mpr hpar), hrefa, hrefa0]
        by_cases hq : q = p
        · subst hq
          simp only [Function.update_same, decide_eq_true_eq, hpar, true_and, if_true]
          ring
        · simp only [Function.update_noteq hq, hq, and_false, if_false]
          ring
      · rw [if_neg (fun c => hpar (hmem.mp c)), if_neg (fun c => hpar c.1)]
        ring

theorem excess_congr {s s' : State} (h : s'.stream = s.stream) (m q : Nat) :
    excess s' m q = excess s m q := by
  simp only [excess, wanting, pid_refs, h]

theorem treeOk_shape {s s' : State} (h : SameShape s s') (ht : TreeOk s) : TreeOk s' :=
  ⟨childrenOk_shape h ht.lists, linked_shape h ht.linked⟩

theorem defaultHooks_shape {s s' : State} (h : SameShape s s') (hh : DefaultHooks s) :
    DefaultHooks s' := by
  intro n st' hn
  obtain ⟨st, hst, hsh⟩ := h.back hn
  simp only [shape, Prod.mk.injEq] at hsh
  obtain ⟨h1, h2⟩ := hh n st hst
  exact ⟨by rw [← hsh.2.2.2.1, h1], by rw [← hsh.2.2.2.2, h2]⟩

theorem wanting_pos {s : State} {l : List Nat} {a p : Nat} (hmem : a ∈ l)
    (hsub : 0 < pid_refs s a p) : 0 < wanting s l p := by
  unfold wanting
  rw [List.countP_pos_iff]
  exact ⟨a, hmem, by simpa using hsub⟩

/-- The counts after `module_demux_join(a, p)` in a forest with the default
hooks, when no counter wraps: the count of `p` on `a` is one higher, every
other count is as before. -/
theorem join_excess (d : Nat → Nat) :
    ∀ (fuel : Nat) (s : State) (a p : Nat) (st : module_stream_t) (s' : State),
      WF d s → TreeOk s → DefaultHooks s → s.stream a = some st → st.pid_list p < 255 →
      (st.pid_list p = 0 → ∀ m ms, s.stream m = some ms → ms.pid_list p < 255) →
      module_demux_join fuel s a p = .ok s' →
      (∀ m q, excess s' m q = excess s m q + (if m = a ∧ q = p then 1 else 0)) ∧
      (∀ m q, q ≠ p → pid_refs s' m q = pid_refs s m q) := by
  intro fuel
  induction fuel with
  | zero => intro s a p st s' _ _ _ _ _ _ h; simp [module_demux_join] at h
  | succ fuel ih =>
    intro s a p st s' hw ht hh hst hlt hall h
    by_cases hvalid0 : ts_pid_valid p = false
    · simp [module_demux_join, hvalid0] at h
    have hvalid : ts_pid_valid p = true := by simpa using hvalid0
    have hv : (st.pid_list p + 1) % 256 = st.pid_list p + 1 := Nat.mod_eq_of_lt (by omega)
    have hpl : (pid_incr st p).pid_list = Function.update st.pid_list p (st.pid_list p + 1) := by
      simp only [pid_incr, hv]
    have h1s : (s.set a (pid_incr st p)).stream = Function.update s.stream a (some (pid_incr st p)) :=
      rfl
    have hloc := fun m q => excess_local hw ht hst h1s (shape_pid_incr st p) hpl m q
    have hrefs1 : ∀ m q, q ≠ p → pid_refs (s.set a (pid_incr st p)) m q = pid_refs s m q := by
      intro m q hq
      by_cases hma : m = a
      · subst hma
        simp only [pid_refs, State.set, Function.update_same, hst, hpl, Function.update_noteq hq]
      · simp only [pid_refs, State.set, Function.update_noteq hma]
    simp only [module_demux_join, hvalid, hst, Bool.true_eq_false, if_false] at h
    by_cases hone : (pid_incr st p).pid_list p = 1
    · have h0 : st.pid_list p = 0 := by
        rw [hpl, Function.update_same] at hone
        omega
      simp only [hone, if_true] at h
      cases hpar : st.parent with
      | none =>
        have hp1 : (pid_incr st p).parent = none := hpar
        simp only [hp1, Except.ok.injEq] at h
        subst h
        refine ⟨fun m q => ?_, hrefs1⟩
        rw [hloc m q, hpar]
        simp
      | some par =>
        have hp1 : (pid_incr st p).parent = some par := hpar
        obtain ⟨⟨ps, hps⟩, hlt2⟩ := hw.ranked a st par hst hpar
        have hne : par ≠ a := fun e => by subst e; exact Nat.lt_irrefl _ hlt2
        have hps1 : (s.set a (pid_incr st p)).stream par = some ps := by
          simp [State.set, Function.update_noteq hne, hps]
        have hj : ps.join_pid = .demux_join := (hh par ps hps).1
        simp only [hp1, hps1, hj, demux_invoke] at h
        simp only [reduceCtorEq, if_false] at h
        have sh1 : SameShape s ((s.set a (pid_incr st p)).emit (.join_pid a par p)) :=
          sameShape_trans (sameShape_set hst (shape_pid_incr st p)) (sameShape_emit _ _)
        have hb1 : ∀ n st0 q, ((s.set a (pid_incr st p)).emit (.join_pid a par p)).stream n =
            some st0 → st0.pid_list q < 256 := by
          intro n st0 q hn
          by_cases hna : n = a
          · subst hna
            simp only [State.emit, State.set, Function.update_same, Option.some.injEq] at hn
            subst hn
            rw [hpl]
            by_cases hq : q = p
            · subst hq; rw [Function.update_same]; omega
            · rw [Function.update_noteq hq]; exact hw.bytes n st q hst
          · simp only [State.emit, State.set, Function.update_noteq hna] at hn
            exact hw.bytes n st0 q hn
        have hall1 : ∀ m ms, ((s.set a (pid_incr st p)).emit (.join_pid a par p)).stream m =
            some ms → ms.pid_list p < 255 := by
          intro m ms hm
          by_cases hma : m = a
          · subst hma
            simp only [State.emit, State.set, Function.update_same, Option.some.injEq] at hm
            subst hm
            rw [hone]
            decide
          · simp only [State.emit, State.set, Function.update_noteq hma] at hm
            exact hall h0 m ms hm
        obtain ⟨i1, i2⟩ := ih _ par p ps s' (hw.of_shape sh1 hb1) (treeOk_shape sh1 ht)
          (defaultHooks_shape sh1 hh) (by simpa [State.emit] using hps1)
          (hall h0 par ps hps) (fun _ => hall1) h
        refine ⟨fun m q => ?_, fun m q hq => ?_⟩
        · rw [i1 m q, @excess_congr (s.set a (pid_incr st p))
            ((s.set a (pid_incr st p)).emit (.join_pid a par p)) rfl m q, hloc m q, hpar, h0]
          by_cases hq : q = p
          · by_cases hmp : m = par
            · have hma : m ≠ a := fun e => hne (hmp ▸ e)
              simp [hq, hmp, hne]
            · have : ¬ (some par = some m) := fun e => hmp (Option.some.inj e).symm
              simp [hq, hmp, this]
          · simp [hq]
        · rw [i2 m q hq]
          exact hrefs1 m q hq
    · have hpos : 0 < st.pid_list p := by
        rw [hpl, Function.update_same] at hone
        omega
      simp only [hone, if_false, Except.ok.injEq] at h
      subst h
      refine ⟨fun m q => ?_, hrefs1⟩
      rw [hloc m q]
      have h1 : (0 : Nat) < st.pid_list p + 1 := Nat.succ_pos _
      simp only [h1, hpos, if_true, sub_self, ite_self, sub_zero]
      push_cast
      by_cases hc : m = a ∧ q = p
      · simp [hc]
      · simp [hc]

/-- The counts after `module_demux_leave(a, p)` in a forest with the default
hooks in which the counts of `p` on the modules ranked below `a` are not
negative: the count of `p` on `a` is one lower when the counter was positive,
every other count is as before; and no counter grows. -/
theorem leave_excess (d : Nat → Nat) :
    ∀ (fuel : Nat) (s : State) (a p : Nat) (st : module_stream_t) (s' : State),
      WF d s → TreeOk s → DefaultHooks s → s.stream a = some st →
      (∀ m, d m < d a → 0 ≤ excess s m p) →
      module_demux_leave fuel s a p = .ok s' →
      (∀ m q, excess s' m q = excess s m q -
        (if m = a ∧ q = p ∧ 0 < st.pid_list p then 1 else 0)) ∧
      (∀ m q, q ≠ p → pid_refs s' m q = pid_refs s m q) ∧
      (∀ m, pid_refs s' m p ≤ pid_refs s m p) := by
  intro fuel
  induction fuel with
  | zero => intro s a p st s' _ _ _ _ _ h; simp [module_demux_leave] at h
  | succ fuel ih =>
    intro s a p st s' hw ht hh hst hnn h
    by_cases hvalid0 : ts_pid_valid p = false
    · simp [module_demux_leave, hvalid0] at h
    have hvalid : ts_pid_valid p = true := by simpa using hvalid0
    simp only [module_demux_leave, hvalid, hst, Bool.true_eq_false, if_false] at h
    by_cases hpos : 0 < st.pid_list p
    · have hpl : (pid_decr st p).pid_list = Function.update st.pid_list p (st.pid_list p - 1) :=
        rfl
      have h1s : (s.set a (pid_decr st p)).stream =
          Function.update s.stream a (some (pid_decr st p)) := rfl
      have hloc := fun m q => excess_local hw ht hst h1s (shape_pid_decr st p) hpl m q
      have hrefs1 : ∀ m q, q ≠ p → pid_refs (s.set a (pid_decr st p)) m q = pid_refs s m q := by
        intro m q hq
        by_cases hma : m = a
        · subst hma
          simp only [pid_refs, State.set, Function.update_same, hst, hpl, Function.update_noteq hq]
        · simp only [pid_refs, State.set, Function.update_noteq hma]
      have hle1 : ∀ m, pid_refs (s.set a (pid_decr st p)) m p ≤ pid_refs s m p := by
        intro m
        by_cases hma : m = a
        · subst hma
          simp only [pid_refs, State.set, Function.update_same, hst, hpl]
          omega
        · simp only [pid_refs, State.set, Function.update_noteq hma]
          exact Nat.le_refl _
      simp only [hpos, if_true] at h
      by_cases hzero : (pid_decr st p).pid_list p = 0
      · have h1 : st.pid_list p = 1 := by
          rw [hpl, Function.update_same] at hzero
          omega
        simp only [hzero, if_true] at h
        cases hpar : st.parent with
        | none =>
          have hp1 : (pid_decr st p).parent = none := hpar
          simp only [hp1, Except.ok.injEq] at h
          subst h
          refine ⟨fun m q => ?_, hrefs1, hle1⟩
          rw [hloc m q, hpar, h1]
          by_cases hc : m = a ∧ q = p
          · simp [hc]
            omega
          · have hc' : ¬ (m = a ∧ q = p ∧ 0 < 1) := fun c => hc ⟨c.1, c.2.1⟩
            simp [hc, hc']
        | some par =>
          have hp1 : (pid_decr st p).parent = some par := hpar
          obtain ⟨⟨ps, hps⟩, hlt2⟩ := hw.ranked a st par hst hpar
          have hne : par ≠ a := fun e => by subst e; exact Nat.lt_irrefl _ hlt2
          have hps1 : (s.set a (pid_decr st p)).stream par = some ps := by
            simp [State.set, Function.update_noteq hne, hps]
          have hl : ps.leave_pid = .demux_leave := (hh par ps hps).2
          simp only [hp1, hps1, hl, demux_invoke] at h
          simp only [reduceCtorEq, if_false] at h
          have sh1 : SameShape s ((s.set a (pid_decr st p)).emit (.leave_pid a par p)) :=
            sameShape_trans (sameShape_set hst (shape_pid_decr st p)) (sameShape_emit _ _)
          have hb1 : ∀ n st0 q, ((s.set a (pid_decr st p)).emit (.leave_pid a par p)).stream n =
              some st0 → st0.pid_list q < 256 := by
            intro n st0 q hn
            by_cases hna : n = a
            · subst hna
              simp only [State.emit, State.set, Function.update_same, Option.some.injEq] at hn
              subst hn
              exact decr_lt _ _ _ (hw.bytes n st q hst)
            · simp only [State.emit, State.set, Function.update_noteq hna] at hn
              exact hw.bytes n st0 q hn
          have hex1 : ∀ m q, excess ((s.set a (pid_decr st p)).emit (.leave_pid a par p)) m q =
              excess (s.set a (pid_decr st p)) m q := fun m q => excess_congr rfl m q
          have hnn1 : ∀ m, d m < d par →
              0 ≤ excess ((s.set a (pid_decr st p)).emit (.leave_pid a par p)) m p := by
            intro m hm
            rw [hex1, hloc m p]
            have hma : m ≠ a := fun e => by subst e; omega
            have hmp : ¬ (some par = some m) := fun e => by
              have := Option.some.inj e
              subst this
              exact Nat.lt_irrefl _ hm
            rw [hpar, if_neg (fun c => hma c.1), if_neg (fun c => hmp c.1)]
            have := hnn m (by omega)
            omega
          -- the parent holds a reference for the child
          have hppos : 0 < ps.pid_list p := by
            have hmem : a ∈ ps.children :=
              ((treeOk_consistent ht) a par st ps hst hps).1.mpr hpar
            have hw1 : 0 < wanting s ps.children p :=
              wanting_pos hmem (by rw [pid_refs_live hst]; exact hpos)
            have := hnn par hlt2
            simp only [excess, hps] at this
            omega
          obtain ⟨i1, i2, i3⟩ := ih _ par p ps s' (hw.of_shape sh1 hb1) (treeOk_shape sh1 ht)
            (defaultHooks_shape sh1 hh) (by simpa [State.emit] using hps1) hnn1 h
          refine ⟨fun m q => ?_, fun m q hq => ?_, fun m => ?_⟩
          · rw [i1 m q, hex1, hloc m q, hpar, h1]
            by_cases hq : q = p
            · by_cases hmp : m = par
              · have hma : m ≠ a := fun e => hne (hmp ▸ e)
                simp [hq, hmp, hne, hppos]
              · have : ¬ (some par = some m) := fun e => hmp (Option.some.inj e).symm
                by_cases hma : m = a
                · simp [hq, hmp, this, hma]
                  omega
                · simp [hq, hmp, this, hma]
            · simp [hq]
          · rw [i2 m q hq]
            exact hrefs1 m q hq
          · exact Nat.le_trans (i3 m) (hle1 m)
      · have hpos2 : 0 < st.pid_list p - 1 := by
          rw [hpl, Function.update_same] at hzero
          omega
        simp only [hzero, if_false, Except.ok.injEq] at h
        subst h
        refine ⟨fun m q => ?_, hrefs1, hle1⟩
        rw [hloc m q]
        simp only [hpos2, hpos, if_true, sub_self, ite_self, sub_zero, and_true]
        by_cases hc : m = a ∧ q = p
        · simp only [hc, and_self, if_true]
          have : ((st.pid_list p - 1 : Nat) : Int) = (st.pid_list p : Int) - 1 := by omega
          rw [this]
          ring
        · simp [hc]
    · simp only [hpos, if_false, Except.ok.injEq] at h
      subst h
      refine ⟨fun m q => ?_, fun m q _ => rfl, fun m => Nat.le_refl _⟩
      have : ¬ (m = a ∧ q = p ∧ 0 < st.pid_list p) := fun c => hpos c.2.2
      rw [if_neg this, @excess_congr s (s.emit (.double_leave a p)) rfl m q]
      omega

/-! ## Reference counts through the loops of attach and destroy -/

theorem drained_refl {d : Nat → Nat} {s : State} (c : Nat) (hw : WF d s) : Drained d c s s :=
  ⟨sameShape_refl s, hw, fun _ _ _ => rfl, fun _ _ => Nat.le_refl _⟩

theorem drained_trans {d : Nat → Nat} {c : Nat} {s s1 s2 : State}
    (h1 : Drained d c s s1) (h2 : Drained d c s1 s2) : Drained d c s s2 :=
  ⟨sameShape_trans h1.shape h2.shape, h2.wf,
    fun m q hm => (h2.keep m q hm).trans (h1.keep m q hm),
    fun m q => Nat.le_trans (h2.le m q) (h1.le m q)⟩

theorem refilled_refl {d : Nat → Nat} {s : State} (c : Nat) (P : Nat → Prop) (hw : WF d s) :
    Refilled d c P s s :=
  ⟨sameShape_refl s, hw, fun _ _ _ => rfl, fun _ _ _ => rfl⟩

theorem refilled_trans {d : Nat → Nat} {c : Nat} {P : Nat → Prop} {s s1 s2 : State}
    (h1 : Refilled d c P s s1) (h2 : Refilled d c P s1 s2) : Refilled d c P s s2 :=
  ⟨sameShape_trans h1.shape h2.shape, h2.wf,
    fun m q hm => (h2.keep m q hm).trans (h1.keep m q hm),
    fun m q hq => (h2.frame m q hq).trans (h1.frame m q hq)⟩

theorem refilled_mono {d : Nat → Nat} {c : Nat} {P Q : Nat → Prop} {s s' : State}
    (h : Refilled d c P s s') (hPQ : ∀ q, P q → Q q) : Refilled d c Q s s' :=
  ⟨h.shape, h.wf, h.keep, fun m q hq => h.frame m q (fun hp => hq (hPQ q hp))⟩

/-- One `module_demux_leave` on `c`, as a drain step. -/
theorem leave_drained {d : Nat → Nat} {fuel : Nat} {s s1 : State} {c i : Nat}
    {st : module_stream_t} (hw : WF d s) (ht : TreeOk s) (hh : DefaultHooks s)
    (hst : s.stream c = some st) (hi : i < TS_MAX_PIDS) (hfuel : d c < fuel)
    (hnn : ∀ m q, q < TS_MAX_PIDS → d m < d c → 0 ≤ excess s m q)
    (h : module_demux_leave fuel s c i = .ok s1) : Drained d c s s1 := by
  obtain ⟨s1', hs1', he1⟩ := (demux_effect d fuel s c i st hw hi hst hfuel).2
  rw [h] at hs1'
  cases hs1'
  obtain ⟨e1, e2, e3⟩ := leave_excess d fuel s c i st s1 hw ht hh hst
    (fun m hm => hnn m i hi hm) h
  refine ⟨he1.shape, he1.wf hw, fun m q hm => ?_, fun m q => ?_⟩
  · rw [e1 m q, if_neg (fun c' => hm c'.1)]
    omega
  · by_cases hq : q = i
    · subst hq; exact e3 m
    · rw [e2 m q hq]

theorem leave_while_drained (d : Nat → Nat) (fuel : Nat) :
    ∀ (n : Nat) (s : State) (c i saved : Nat) (st : module_stream_t) (s' : State) (k : Nat),
      WF d s → TreeOk s → DefaultHooks s → s.stream c = some st → i < TS_MAX_PIDS →
      d c < fuel → (∀ m q, q < TS_MAX_PIDS → d m < d c → 0 ≤ excess s m q) →
      leave_while fuel n s c i saved = .ok (s', k) → Drained d c s s' := by
  intro n
  induction n with
  | zero => intro s c i saved st s' k _ _ _ _ _ _ _ h; simp [leave_while] at h
  | succ n ih =>
    intro s c i saved st s' k hw ht hh hst hi hfuel hnn h
    have hvalid : ts_pid_valid i = true := by simp [ts_pid_valid, hi]
    simp only [leave_while, module_demux_check, hvalid, hst, Bool.true_eq_false, if_false] at h
    by_cases hpos : 0 < st.pid_list i
    · simp only [hpos, decide_True] at h
      obtain ⟨s1, hs1, he1⟩ := (demux_effect d fuel s c i st hw hi hst hfuel).2
      simp only [hs1] at h
      have d1 := leave_drained hw ht hh hst hi hfuel hnn hs1
      obtain ⟨st1, hst1, -⟩ := he1.self st hst
      have hnn1 : ∀ m q, q < TS_MAX_PIDS → d m < d c → 0 ≤ excess s1 m q := by
        intro m q hq hm
        rw [d1.keep m q (fun e => by subst e; omega)]
        exact hnn m q hq hm
      exact drained_trans d1 (ih s1 c i _ st1 s' k d1.wf (treeOk_shape d1.shape ht)
        (defaultHooks_shape d1.shape hh) hst1 hi hfuel hnn1 h)
    · simp only [hpos, decide_False, Except.ok.injEq, Prod.mk.injEq] at h
      rw [← h.1]
      exact drained_refl c hw

theorem leave_all_drained (d : Nat → Nat) (fuel : Nat) :
    ∀ (pids : List Nat) (s : State) (c : Nat) (saved : Nat → Nat) (st : module_stream_t)
      (s' : State) (saved' : Nat → Nat),
      WF d s → TreeOk s → DefaultHooks s → s.stream c = some st →
      (∀ i ∈ pids, i < TS_MAX_PIDS) → d c < fuel → (∀ m q, q < TS_MAX_PIDS → d m < d c → 0 ≤ excess s m q) →
      leave_all fuel pids s c saved = .ok (s', saved') → Drained d c s s' := by
  intro pids
  induction pids with
  | nil =>
    intro s c saved st s' saved' hw _ _ _ _ _ _ h
    simp only [leave_all, Except.ok.injEq, Prod.mk.injEq] at h
    rw [← h.1]
    exact drained_refl c hw
  | cons i rest ih =>
    intro s c saved st s' saved' hw ht hh hst hpids hfuel hnn h
    simp only [leave_all] at h
    split at h
    · cases h
    · rename_i s1 k hs1
      have d1 := leave_while_drained d fuel fuel s c i (saved i) st s1 k hw ht hh hst
        (hpids i (List.mem_cons_self _ _)) hfuel hnn hs1
      obtain ⟨st1, hst1, -⟩ := d1.shape.fwd hst
      have hnn1 : ∀ m q, q < TS_MAX_PIDS → d m < d c → 0 ≤ excess s1 m q := by
        intro m q hq hm
        rw [d1.keep m q (fun e => by subst e; omega)]
        exact hnn m q hq hm
      exact drained_trans d1 (ih s1 c _ st1 s' saved' d1.wf (treeOk_shape d1.shape ht)
        (defaultHooks_shape d1.shape hh) hst1
        (fun j hj => hpids j (List.mem_cons_of_mem _ hj)) hfuel hnn1 h)

/-- One `module_demux_join` on `c`, as a refill step. -/
theorem join_refilled {d : Nat → Nat} {fuel : Nat} {s s1 : State} {c i : Nat}
    {st : module_stream_t} (hw : WF d s) (ht : TreeOk s) (hh : DefaultHooks s)
    (hst : s.stream c = some st) (hi : i < TS_MAX_PIDS) (hfuel : d c < fuel)
    (hlt : st.pid_list i < 255)
    (hall : st.pid_list i = 0 → ∀ m ms, s.stream m = some ms → ms.pid_list i < 255)
    (h : module_demux_join fuel s c i = .ok s1) :
    Refilled d c (fun q => q = i) s s1 ∧
      ∃ st1, s1.stream c = some st1 ∧ st1.pid_list i = st.pid_list i + 1 := by
  obtain ⟨s1', hs1', he1⟩ := (demux_effect d fuel s c i st hw hi hst hfuel).1
  rw [h] at hs1'
  cases hs1'
  obtain ⟨e1, e2⟩ := join_excess d fuel s c i st s1 hw ht hh hst hlt hall h
  obtain ⟨st1, hst1, hpl1⟩ := he1.self st hst
  refine ⟨⟨he1.shape, he1.wf hw, fun m q hm => ?_, fun m q hq => e2 m q hq⟩, st1, hst1, ?_⟩
  · rw [e1 m q, if_neg (fun c' => hm c'.1)]
    omega
  · rw [hpl1]
    simp only [incr_step, Function.update_same]
    omega

theorem join_times_refilled (d : Nat → Nat) (fuel : Nat) :
    ∀ (k : Nat) (s : State) (c i : Nat) (st : module_stream_t) (s' : State),
      WF d s → TreeOk s → DefaultHooks s → s.stream c = some st → i < TS_MAX_PIDS →
      d c < fuel → st.pid_list i + k < 256 →
      (st.pid_list i = 0 → ∀ m ms, s.stream m = some ms → ms.pid_list i < 255) →
      join_times fuel k s c i = .ok s' → Refilled d c (fun q => q = i) s s' := by
  intro k
  induction k with
  | zero =>
    intro s c i st s' hw _ _ _ _ _ _ _ h
    simp only [join_times, Except.ok.injEq] at h
    rw [← h]
    exact refilled_refl c _ hw
  | succ k ih =>
    intro s c i st s' hw ht hh hst hi hfuel hk hall h
    simp only [join_times] at h
    split at h
    · cases h
    · rename_i s1 hs1
      obtain ⟨r1, st1, hst1, hpl1⟩ := join_refilled hw ht hh hst hi hfuel (by omega) hall hs1
      exact refilled_trans r1 (ih s1 c i st1 s' r1.wf (treeOk_shape r1.shape ht)
        (defaultHooks_shape r1.shape hh) hst1 hi hfuel (by omega)
        (fun h0 => by omega) h)

theorem join_all_refilled (d : Nat → Nat) (fuel : Nat) :
    ∀ (pids : List Nat) (s : State) (c : Nat) (saved : Nat → Nat) (st : module_stream_t)
      (s' : State),
      WF d s → TreeOk s → DefaultHooks s → s.stream c = some st → d c < fuel → pids.Nodup →
      (∀ i ∈ pids, i < TS_MAX_PIDS ∧ st.pid_list i = 0 ∧ saved i < 255 ∧
        ∀ m ms, s.stream m = some ms → ms.pid_list i < 255) →
      join_all fuel pids s c saved = .ok s' → Refilled d c (fun q => q ∈ pids) s s' := by
  intro pids
  induction pids with
  | nil =>
    intro s c saved st s' hw _ _ _ _ _ _ h
    simp only [join_all, Except.ok.injEq] at h
    rw [← h]
    exact refilled_refl c _ hw
  | cons i rest ih =>
    intro s c saved st s' hw ht hh hst hfuel hnd hpre h
    rw [List.nodup_cons] at hnd
    obtain ⟨hi1, hi2, hi3, hi4⟩ := hpre i (List.mem_cons_self _ _)
    simp only [join_all] at h
    split at h
    · cases h
    · rename_i s1 hs1
      have r1 := join_times_refilled d fuel (saved i) s c i st s1 hw ht hh hst hi1 hfuel
        (by omega) (fun _ => hi4) hs1
      obtain ⟨st1, hst1, -⟩ := r1.shape.fwd hst
      have hpre1 : ∀ j ∈ rest, j < TS_MAX_PIDS ∧ st1.pid_list j = 0 ∧ saved j < 255 ∧
          ∀ m ms, s1.stream m = some ms → ms.pid_list j < 255 := by
        intro j hj
        obtain ⟨j1, j2, j3, j4⟩ := hpre j (List.mem_cons_of_mem _ hj)
        have hji : ¬ j = i := fun e => hnd.1 (e ▸ hj)
        refine ⟨j1, ?_, j3, ?_⟩
        · have := r1.frame c j hji
          rw [pid_refs_live hst1, pid_refs_live hst] at this
          rw [this, j2]
        · intro m ms1 hm1
          obtain ⟨ms, hms, -⟩ := r1.shape.back hm1
          have := r1.frame m j hji
          rw [pid_refs_live hm1, pid_refs_live hms] at this
          rw [this]
          exact j4 m ms hms
      have r2 := ih s1 c saved st1 s' r1.wf (treeOk_shape r1.shape ht)
        (defaultHooks_shape r1.shape hh) hst1 hfuel hnd.2 hpre1 h
      exact refilled_trans (refilled_mono r1 (fun q hq => by rw [hq]; exact List.mem_cons_self _ _))
        (refilled_mono r2 (fun q hq => List.mem_cons_of_mem _ hq))

theorem countP_erase_of_false (f : Nat → Bool) (c : Nat) (hf : f c = false) :
    ∀ l : List Nat, (l.erase c).countP f = l.countP f := by
  intro l
  induction l with
  | nil => rfl
  | cons x rest ih =>
    by_cases hx : x = c
    · subst hx
      simp [List.countP_cons, hf]
    · have hbeq : (x == c) = false := by simpa using hx
      rw [List.erase_cons, hbeq]
      simp only [Bool.false_eq_true, if_false, List.countP_cons, ih]

theorem pid_refs_relink {s1 s3 : State} {c : Nat} {old new : Option Nat}
    (hst3 : ∀ n, s3.stream n = (s1.stream n).map (fun st => relink st n c old new)) (x : Nat) :
    pid_refs s3 x = pid_refs s1 x := by
  simp only [pid_refs, hst3 x]
  cases s1.stream x <;> rfl

/-- Moving a module that is subscribed to nothing between children lists
changes no count. -/
theorem relink_excess {s1 s3 : State} {c : Nat} {old new : Option Nat}
    (hst3 : ∀ n, s3.stream n = (s1.stream n).map (fun st => relink st n c old new))
    (q : Nat) (hz : pid_refs s1 c q = 0) (m : Nat) : excess s3 m q = excess s1 m q := by
  have hw : ∀ l : List Nat, wanting s3 l q = wanting s1 l q := by
    intro l
    unfold wanting
    apply List.countP_congr
    intro x _
    rw [pid_refs_relink hst3 x]
  have hf : (fun x => decide (0 < pid_refs s1 x q)) c = false := by
    simp only [hz, Nat.lt_irrefl, decide_False]
  have herase : ∀ l : List Nat, wanting s1 (asc_list_remove_item l c) q = wanting s1 l q :=
    fun l => countP_erase_of_false _ c hf l
  have htail : ∀ l : List Nat, wanting s1 (asc_list_insert_tail l c) q = wanting s1 l q := by
    intro l
    unfold wanting asc_list_insert_tail
    rw [List.countP_append]
    simp only [List.countP_cons, List.countP_nil, hz, Nat.lt_irrefl, decide_False,
      Bool.false_eq_true, if_false, Nat.add_zero]
  simp only [excess, hst3 m]
  cases hm : s1.stream m with
  | none => rfl
  | some ms =>
    simp only [Option.map_some', relink, hw]
    by_cases h1 : new = some m
    · by_cases h2 : old = some m
      · simp only [h1, h2, if_true, htail, herase]
      · simp only [h1, h2, if_true, if_false, htail]
    · by_cases h2 : old = some m
      · simp only [h1, h2, if_true, if_false, herase]
      · simp only [h1, h2, if_false]

/-- The counts through `module_stream_attach` in a ranked forest with the
default hooks: when the counts of the modules ranked below the child are not
negative and no counter is at 255, the call returns and every count of a
valid PID is as before. -/
theorem attach_excess {d : Nat → Nat} {fuel : Nat} {s : State} {mod : Option Nat} {c : Nat}
    {cs : module_stream_t} (hw : WF d s) (ht : TreeOk s) (hh : DefaultHooks s)
    (hcs : s.stream c = some cs) (hfuel : d c < fuel) (h256 : 256 ≤ fuel)
    (hmod : ∀ m, mod = some m → (∃ ps, s.stream m = some ps) ∧ cs.on_ts ≠ none ∧ d m < d c)
    (hnn : ∀ m q, q < TS_MAX_PIDS → d m < d c → 0 ≤ excess s m q)
    (hnw : ∀ m ms q, s.stream m = some ms → q < TS_MAX_PIDS → ms.pid_list q < 255) :
    ∃ s', module_stream_attach fuel s mod c = .ok s' ∧ WF d s' ∧ TreeOk s' ∧ DefaultHooks s' ∧
      (∀ m q, q < TS_MAX_PIDS → excess s' m q = excess s m q) ∧
      (∃ cs', s'.stream c = some cs' ∧ cs'.pid_list = cs.pid_list) ∧
      (∀ n, s.stream n = none → s'.stream n = none) := by
  have hval : ∀ i ∈ List.range TS_MAX_PIDS, i < TS_MAX_PIDS := fun i hi => List.mem_range.mp hi
  have hnd : (List.range TS_MAX_PIDS).Nodup := List.nodup_range _
  -- the drain
  obtain ⟨s1, saved, hs1, he1, hsv⟩ := leave_all_effect d fuel (List.range TS_MAX_PIDS) s c
    (fun _ => 0) cs hw hval hnd hcs hfuel h256 (fun _ _ => rfl)
  have D1 := leave_all_drained d fuel _ s c _ cs s1 saved hw ht hh hcs hval hfuel hnn hs1
  have hw1 : WF d s1 := D1.wf
  have ht1 : TreeOk s1 := treeOk_shape D1.shape ht
  obtain ⟨cs1, hcs1, hpl1⟩ := he1.self cs hcs
  have hsh1 : shape cs1 = shape cs := by
    have := he1.shape c
    rw [hcs1, hcs] at this
    simpa using this
  simp only [shape, Prod.mk.injEq] at hsh1
  obtain ⟨hpar1, hon1, hch1, -⟩ := hsh1
  have hmod1 : ∀ m, mod = some m →
      (∃ ps, s1.stream m = some ps) ∧ cs1.on_ts ≠ none ∧ d m < d c := by
    intro m hm
    obtain ⟨⟨ps, hps⟩, hon, hlt⟩ := hmod m hm
    obtain ⟨ps1, hps1, _⟩ := he1.shape.fwd hps
    exact ⟨⟨ps1, hps1⟩, by rw [hon1]; exact hon, hlt⟩
  -- the switch of parents
  obtain ⟨s2, s3, hs2, hs3, -, hst3⟩ := relink_spec hw1 hcs1 hmod1
  rw [hpar1] at hst3
  have hw3 : WF d s3 := relink_wf hw1 (fun m hm => ⟨(hmod1 m hm).1, (hmod1 m hm).2.2⟩) hst3
  have ht3 : TreeOk s3 := by
    obtain ⟨c2, hd2⟩ := detach_parent_ok ht1.lists hs2
    exact ⟨(attach_parent_ok c2 hd2 hs3).1,
      attach_parent_linked (detach_parent_linked ht1.linked hs2) hs3⟩
  have hh3 : DefaultHooks s3 := by
    intro n st3 hn
    rw [hst3] at hn
    cases hn1 : s1.stream n with
    | none => rw [hn1] at hn; cases hn
    | some st1 =>
      rw [hn1] at hn
      simp only [Option.map_some', Option.some.injEq] at hn
      subst hn
      exact defaultHooks_shape D1.shape hh n st1 hn1
  have hcs3 : s3.stream c = some (relink cs1 c c cs.parent mod) := by
    rw [hst3, hcs1]; rfl
  have hzero : ∀ q, q < TS_MAX_PIDS → pid_refs s1 c q = 0 := by
    intro q hq
    rw [pid_refs_live hcs1, hpl1]
    simp only [List.mem_range, hq, if_true]
  -- the replay
  have hsaved : ∀ i, saved i < 256 := by
    intro i
    rw [hsv i]
    split
    · exact hw.bytes c cs i hcs
    · omega
  obtain ⟨s', hs', he3⟩ := join_all_effect d fuel (List.range TS_MAX_PIDS) s3 c saved _ hw3
    hval hnd hcs3 hfuel
    (by
      intro i hi
      show cs1.pid_list i = 0
      rw [hpl1]; simp only [hi, if_true])
    hsaved
  have R := join_all_refilled d fuel _ s3 c saved _ s' hw3 ht3 hh3 hcs3 hfuel hnd
    (by
      intro i hi
      have hi' := hval i hi
      refine ⟨hi', ?_, ?_, ?_⟩
      · show cs1.pid_list i = 0
        rw [hpl1]; simp only [hi, if_true]
      · rw [hsv i]
        simp only [hi, if_true]
        exact hnw c cs i hcs hi'
      · intro m ms3 hm3
        obtain ⟨ms, hms⟩ : ∃ ms, s.stream m = some ms := by
          cases hms : s.stream m with
          | none =>
            have h1n : s1.stream m = none := by
              have := D1.shape m
              rw [hms] at this
              simpa using this
            rw [hst3, h1n] at hm3
            cases hm3
          | some ms => exact ⟨ms, rfl⟩
        have e3 : ms3.pid_list i = pid_refs s1 m i := by
          rw [← pid_refs_relink hst3 m, pid_refs_live hm3]
        have := D1.le m i
        rw [pid_refs_live hms] at this
        have := hnw m ms i hms hi'
        omega)
    hs'
  have hall : module_stream_attach fuel s mod c = .ok s' := by
    simp only [module_stream_attach, hs1, hs2, hs3, hs']
  -- the record of the child, from the summary of attach
  obtain ⟨s'', -, cs', hs'', -, -, hshape, hnone, hcs', hpl', -, hhigh⟩ :=
    attach_summary hw hcs hfuel h256 hmod
  rw [hall] at hs''
  cases hs''
  refine ⟨s', hall, R.wf, treeOk_shape R.shape ht3, defaultHooks_shape R.shape hh3, ?_,
    ⟨cs', hcs', hpl'⟩, hnone⟩
  · intro m q hq
    by_cases hmc : m = c
    · subst hmc
      obtain ⟨st', hst', hsh'⟩ := hshape m cs hcs
      rw [hcs'] at hst'
      cases hst'
      have h2 : cs.parent ≠ some m := fun hp => by
        have := (hw.ranked m cs m hcs hp).2
        omega
      have h3 : mod ≠ some m := fun hp => by
        have := (hmod m hp).2.2
        omega
      have hch' : cs'.children = cs.children := by
        simp only [shape, Prod.mk.injEq] at hsh'
        rw [hsh'.2.2.1]
        simp only [relink, h2, h3, if_false]
      simp only [excess, hcs', hcs, hpl', hch']
      have : wanting s' cs.children q = wanting s cs.children q := by
        unfold wanting
        apply List.countP_congr
        intro x hx
        obtain ⟨xs, hxs, hxp, -⟩ := ht.lists.member m cs x hcs hx
        have hdx := (hw.ranked x xs m hxs hxp).2
        have hxm : x ≠ m := fun e => by subst e; omega
        simp only [pid_refs, hhigh x hxm (Nat.le_of_lt hdx)]
      rw [this]
    · rw [R.keep m q hmc, relink_excess hst3 q (hzero q hq) m, D1.keep m q hmc]

/-- The counts through `module_stream_destroy` in a ranked forest with the
default hooks: the call returns, the module is gone, and every count of a
valid PID on another module is as before. -/
theorem destroy_excess {d : Nat → Nat} {fuel : Nat} {s : State} {c : Nat}
    {cs : module_stream_t} (hw : WF d s) (ht : TreeOk s) (hh : DefaultHooks s)
    (hcs : s.stream c = some cs) (hfuel : d c < fuel) (h256 : 256 ≤ fuel)
    (hnn : ∀ m q, q < TS_MAX_PIDS → d m < d c → 0 ≤ excess s m q)
    (hnw : ∀ m ms q, s.stream m = some ms → q < TS_MAX_PIDS → ms.pid_list q < 255) :
    ∃ s', module_stream_destroy fuel s c = .ok s' ∧ WF d s' ∧ TreeOk s' ∧ DefaultHooks s' ∧
      s'.stream c = none ∧
      (∀ m q, m ≠ c → q < TS_MAX_PIDS → excess s' m q = excess s m q) ∧
      (∀ n, s.stream n = none → s'.stream n = none) := by
  have hval : ∀ i ∈ List.range TS_MAX_PIDS, i < TS_MAX_PIDS := fun i hi => List.mem_range.mp hi
  -- leave all joined pids
  obtain ⟨s1, saved, hs1, he1, -⟩ := leave_all_effect d fuel (List.range TS_MAX_PIDS) s c
    (fun _ => 0) cs hw hval (List.nodup_range _) hcs hfuel h256 (fun _ _ => rfl)
  have D1 := leave_all_drained d fuel _ s c _ cs s1 saved hw ht hh hcs hval hfuel hnn hs1
  have ht1 : TreeOk s1 := treeOk_shape D1.shape ht
  have hh1 : DefaultHooks s1 := defaultHooks_shape D1.shape hh
  obtain ⟨cs1, hcs1, -⟩ := he1.self cs hcs
  have hnn1 : ∀ m q, q < TS_MAX_PIDS → d m < d c → 0 ≤ excess s1 m q := by
    intro m q hq hm
    rw [D1.keep m q (fun e => by subst e; omega)]
    exact hnn m q hq hm
  have hnw1 : ∀ m ms q, s1.stream m = some ms → q < TS_MAX_PIDS → ms.pid_list q < 255 := by
    intro m ms1 q hm1 hq
    obtain ⟨ms, hms, -⟩ := D1.shape.back hm1
    have := D1.le m q
    rw [pid_refs_live hm1, pid_refs_live hms] at this
    have := hnw m ms q hms hq
    omega
  -- detach from upstream
  obtain ⟨s2, hs2, hw2, ht2, hh2, hex2, ⟨st2, hst2, -⟩, hnone2⟩ :=
    @attach_excess d fuel s1 none c cs1 D1.wf ht1 hh1 hcs1 hfuel h256
      (fun m hm => by cases hm) hnn1 hnw1
  have hd2 : Detached s2 c := (attach_childrenOk ht1.lists hs2).2 rfl
  -- detach children
  obtain ⟨s3, hs3⟩ := clear_parents_total st2.children s2 (fun x hx => by
    obtain ⟨xs, hxs, -, -⟩ := ht2.lists.member c st2 x hst2 hx
    exact ⟨xs, hxs⟩)
  obtain ⟨-, hst3⟩ := clear_parents_spec _ _ _ hs3
  have hall : module_stream_destroy fuel s c =
      .ok { s3 with stream := Function.update s3.stream c none } := by
    simp only [module_stream_destroy, hcs, hs1, hs2, hst2, hs3]
  -- the records that are left
  have hrec : ∀ n, n ≠ c → ∀ st', (Function.update s3.stream c none) n = some st' →
      ∃ st, s2.stream n = some st ∧ st'.children = st.children ∧ st'.pid_list = st.pid_list ∧
        st'.join_pid = st.join_pid ∧ st'.leave_pid = st.leave_pid ∧
        (∀ m, st'.parent = some m → st.parent = some m ∧ n ∉ st2.children) := by
    intro n hn st' hst'
    rw [Function.update_noteq hn, hst3] at hst'
    cases h2n : s2.stream n with
    | none => rw [h2n] at hst'; simp at hst'
    | some st =>
      rw [h2n] at hst'
      by_cases hin : n ∈ st2.children
      · simp only [hin, if_true, Option.map_some', Option.some.injEq] at hst'
        subst hst'
        exact ⟨st, rfl, rfl, rfl, rfl, rfl, fun m hm => by cases hm⟩
      · simp only [hin, if_false, Option.some.injEq] at hst'
        subst hst'
        exact ⟨_, rfl, rfl, rfl, rfl, rfl, fun m hm => ⟨hm, hin⟩⟩
  have hrefs : ∀ x, x ≠ c →
      pid_refs { s3 with stream := Function.update s3.stream c none } x = pid_refs s2 x := by
    intro x hx
    simp only [pid_refs, Function.update_noteq hx, hst3]
    by_cases hin : x ∈ st2.children
    · rw [if_pos hin]
      cases s2.stream x <;> rfl
    · rw [if_neg hin]
  refine ⟨_, hall, ⟨?_, ?_⟩, ⟨destroy_childrenOk ht.lists hall, destroy_linked ht.linked hall⟩,
    ?_, by simp, ?_, ?_⟩
  · intro n st' m hn hp
    have hnc : n ≠ c := by
      intro e
      subst e
      simp at hn
    obtain ⟨st, hst, -, -, -, -, hpar⟩ := hrec n hnc st' hn
    obtain ⟨hp2, hnin⟩ := hpar m hp
    obtain ⟨⟨ps, hps⟩, hlt⟩ := hw2.ranked n st m hst hp2
    have hmc : m ≠ c := by
      intro e
      subst e
      obtain ⟨ps', hps', hmem⟩ := ht2.linked n st m hst hp2
      rw [hst2] at hps'
      cases hps'
      exact hnin hmem
    refine ⟨?_, hlt⟩
    show ∃ ps, (Function.update s3.stream c none) m = some ps
    rw [Function.update_noteq hmc, hst3, hps]
    split
    · exact ⟨_, rfl⟩
    · exact ⟨_, rfl⟩
  · intro n st' p hn
    have hnc : n ≠ c := by
      intro e
      subst e
      simp at hn
    obtain ⟨st, hst, -, hpl, -⟩ := hrec n hnc st' hn
    rw [hpl]
    exact hw2.bytes n st p hst
  · intro n st' hn
    have hnc : n ≠ c := by
      intro e
      subst e
      simp at hn
    obtain ⟨st, hst, -, -, hj, hl, -⟩ := hrec n hnc st' hn
    rw [hj, hl]
    exact hh2 n st hst
  · intro m q hmc hq
    rw [← D1.keep m q hmc, ← hex2 m q hq]
    cases hm' : (Function.update s3.stream c none) m with
    | none =>
      have h2m : s2.stream m = none := by
        rw [Function.update_noteq hmc, hst3] at hm'
        cases h2 : s2.stream m with
        | none => rfl
        | some ms => rw [h2] at hm'; split at hm' <;> cases hm'
      simp only [excess, hm', h2m]
    | some st' =>
      obtain ⟨st, hst, hch, hpl, -⟩ := hrec m hmc st' hm'
      simp only [excess, hm', hst, hch, hpl]
      have : wanting { s3 with stream := Function.update s3.stream c none } st.children q =
          wanting s2 st.children q := by
        unfold wanting
        apply List.countP_congr
        intro x hx
        have hxc : x ≠ c := fun e => hd2.unlisted m st hst (e ▸ hx)
        rw [hrefs x hxc]
      rw [this]
  · intro n hn
    by_cases hnc : n = c
    · subst hnc
      simp
    · have h1n : s1.stream n = none := by
        have := D1.shape n
        rw [hn] at this
        simpa using this
      show (Function.update s3.stream c none) n = none
      rw [Function.update_noteq hnc, hst3, hnone2 n h1n]
      split <;> rfl

/-! ## The reference-count invariant -/

theorem counted_nonneg {s : State} {g : Nat → Nat → Nat} (hc : Counted s g) (m q : Nat)
    (hq : q < TS_MAX_PIDS) : 0 ≤ excess s m q := by
  cases hm : s.stream m with
  | none => simp [excess, hm]
  | some ms =>
    rw [(counted_iff s g).mp hc m ms q hm hq]
    exact Int.natCast_nonneg _

theorem join_counted {d : Nat → Nat} {fuel : Nat} {s : State} {g : Nat → Nat → Nat}
    (hf : Forest d s g) (n p : Nat) (st : module_stream_t) (hst : s.stream n = some st)
    (hp : p < TS_MAX_PIDS) (hfuel : d n < fuel)
    (hnw : ∀ m ms, s.stream m = some ms → ms.pid_list p < 255) :
    ∃ s', module_demux_join fuel s n p = .ok s' ∧ Forest d s' (bump g n p) := by
  obtain ⟨s', hs', he⟩ := (demux_effect d fuel s n p st hf.wf hp hst hfuel).1
  obtain ⟨e1, -⟩ := join_excess d fuel s n p st s' hf.wf hf.tree hf.hooks hst (hnw n st hst)
    (fun _ => hnw) hs'
  refine ⟨s', hs', he.wf hf.wf, treeOk_shape he.shape hf.tree,
    defaultHooks_shape he.shape hf.hooks, ?_⟩
  rw [counted_iff]
  intro m ms' q hm hq
  obtain ⟨ms, hms, -⟩ := he.shape.back hm
  rw [e1 m q, (counted_iff s g).mp hf.counted m ms q hms hq]
  unfold bump
  split <;> simp

theorem leave_counted {d : Nat → Nat} {fuel : Nat} {s : State} {g : Nat → Nat → Nat}
    (hf : Forest d s g) (n p : Nat) (st : module_stream_t) (hst : s.stream n = some st)
    (hp : p < TS_MAX_PIDS) (hfuel : d n < fuel)
    (hm : 0 < g n p ∨ st.pid_list p = 0) :
    ∃ s', module_demux_leave fuel s n p = .ok s' ∧ Forest d s' (unbump g n p) := by
  obtain ⟨s', hs', he⟩ := (demux_effect d fuel s n p st hf.wf hp hst hfuel).2
  obtain ⟨e1, -, -⟩ := leave_excess d fuel s n p st s' hf.wf hf.tree hf.hooks hst
    (fun m _ => counted_nonneg hf.counted m p hp) hs'
  refine ⟨s', hs', he.wf hf.wf, treeOk_shape he.shape hf.tree,
    defaultHooks_shape he.shape hf.hooks, ?_⟩
  rw [counted_iff]
  intro m ms' q hm' hq
  obtain ⟨ms, hms, -⟩ := he.shape.back hm'
  rw [e1 m q, (counted_iff s g).mp hf.counted m ms q hms hq]
  have hcn := hf.counted n st p hst hp
  unfold unbump
  by_cases hc : m = n ∧ q = p
  · obtain ⟨rfl, rfl⟩ := hc
    rcases hm with hpos | hz
    · have : 0 < st.pid_list q := by omega
      simp only [this, and_self, if_true]
      omega
    · have hg : g m q = 0 := by omega
      simp only [hz, Nat.lt_irrefl, and_false, if_false, and_self, if_true, hg]
      omega
  · have hc' : ¬ (m = n ∧ q = p ∧ 0 < st.pid_list p) := fun c => hc ⟨c.1, c.2.1⟩
    simp only [hc, hc', if_false]
    omega

theorem attach_counted {d : Nat → Nat} {fuel : Nat} {s : State} {g : Nat → Nat → Nat}
    (hf : Forest d s g) (mod : Option Nat) (c : Nat) (cs : module_stream_t)
    (hcs : s.stream c = some cs) (hfuel : d c < fuel) (h256 : 256 ≤ fuel)
    (hmod : ∀ m, mod = some m → (∃ ps, s.stream m = some ps) ∧ cs.on_ts ≠ none ∧ d m < d c)
    (hnw : ∀ m ms q, s.stream m = some ms → q < TS_MAX_PIDS → ms.pid_list q < 255) :
    ∃ s', module_stream_attach fuel s mod c = .ok s' ∧ Forest d s' g := by
  obtain ⟨s', hs', hw', ht', hh', hex, -, hnone⟩ := attach_excess hf.wf hf.tree hf.hooks hcs
    hfuel h256 hmod (fun m q hq _ => counted_nonneg hf.counted m q hq) hnw
  refine ⟨s', hs', hw', ht', hh', ?_⟩
  rw [counted_iff]
  intro m ms' q hm hq
  cases hms : s.stream m with
  | none => rw [hnone m hms] at hm; cases hm
  | some ms => rw [hex m q hq, (counted_iff s g).mp hf.counted m ms q hms hq]

theorem destroy_counted {d : Nat → Nat} {fuel : Nat} {s : State} {g : Nat → Nat → Nat}
    (hf : Forest d s g) (c : Nat) (cs : module_stream_t)
    (hcs : s.stream c = some cs) (hfuel : d c < fuel) (h256 : 256 ≤ fuel)
    (hnw : ∀ m ms q, s.stream m = some ms → q < TS_MAX_PIDS → ms.pid_list q < 255) :
    ∃ s', module_stream_destroy fuel s c = .ok s' ∧ s'.stream c = none ∧ Forest d s' g := by
  obtain ⟨s', hs', hw', ht', hh', hgone, hex, hnone⟩ := destroy_excess hf.wf hf.tree hf.hooks
    hcs hfuel h256 (fun m q hq _ => counted_nonneg hf.counted m q hq) hnw
  refine ⟨s', hs', hgone, hw', ht', hh', ?_⟩
  rw [counted_iff]
  intro m ms' q hm hq
  have hmc : m ≠ c := by
    intro e
    subst e
    rw [hgone] at hm
    cases hm
  have hex' := hex m q hmc hq
  cases hms : s.stream m with
  | none => rw [hnone m hms] at hm; cases hm
  | some ms => rw [hex', (counted_iff s g).mp hf.counted m ms q hms hq]

/-- In a forest of bounded height whose counts add up, a node is subscribed
to `p` exactly when it, or a node below it, holds a direct join of `p`. -/
theorem subscribed_iff_wanted {d : Nat → Nat} {s : State} {g : Nat → Nat → Nat}
    (hf : Forest d s g) (D : Nat) (hD : ∀ n st, s.stream n = some st → d n ≤ D)
    (n p : Nat) (st : module_stream_t) (hst : s.stream n = some st) (hp : p < TS_MAX_PIDS) :
    0 < st.pid_list p ↔
      ∃ m ms, Relation.ReflTransGen (Parent s) m n ∧ s.stream m = some ms ∧ 0 < g m p := by
  constructor
  · have key : ∀ k n st, D - d n ≤ k → s.stream n = some st → 0 < st.pid_list p →
        ∃ m ms, Relation.ReflTransGen (Parent s) m n ∧ s.stream m = some ms ∧ 0 < g m p := by
      intro k
      induction k with
      | zero =>
        intro n st hk hn hpos
        have hc := hf.counted n st p hn hp
        by_cases hg : 0 < g n p
        · exact ⟨n, st, Relation.ReflTransGen.refl, hn, hg⟩
        · have hwp : 0 < wanting s st.children p := by omega
          unfold wanting at hwp
          rw [List.countP_pos_iff] at hwp
          obtain ⟨x, hx, _⟩ := hwp
          obtain ⟨xs, hxs, hxp, -⟩ := hf.tree.lists.member n st x hn hx
          have h1 := (hf.wf.ranked x xs n hxs hxp).2
          have h2 := hD x xs hxs
          omega
      | succ k ih =>
        intro n st hk hn hpos
        have hc := hf.counted n st p hn hp
        by_cases hg : 0 < g n p
        · exact ⟨n, st, Relation.ReflTransGen.refl, hn, hg⟩
        · have hwp : 0 < wanting s st.children p := by omega
          unfold wanting at hwp
          rw [List.countP_pos_iff] at hwp
          obtain ⟨x, hx, hxpos⟩ := hwp
          obtain ⟨xs, hxs, hxp, -⟩ := hf.tree.lists.member n st x hn hx
          have h1 := (hf.wf.ranked x xs n hxs hxp).2
          have h2 := hD x xs hxs
          have hxpos' : 0 < xs.pid_list p := by
            rw [pid_refs_live hxs] at hxpos
            simpa using hxpos
          obtain ⟨m, ms, hreach, hm, hgm⟩ := ih x xs (by omega) hxs hxpos'
          exact ⟨m, ms, Relation.ReflTransGen.tail hreach ⟨xs, hxs, hxp⟩, hm, hgm⟩
    exact key (D - d n) n st (Nat.le_refl _) hst
  · rintro ⟨m, ms, hreach, hm, hgm⟩
    have key : ∀ a, Relation.ReflTransGen (Parent s) a n →
        ∀ as, s.stream a = some as → 0 < as.pid_list p → 0 < st.pid_list p := by
      intro a ha
      induction ha using Relation.ReflTransGen.head_induction_on with
      | refl =>
        intro as has hpos
        rw [hst] at has
        cases has
        exact hpos
      | head hab _ ih =>
        intro as has hpos
        obtain ⟨as', has', hpar⟩ := hab
        rw [has] at has'
        cases has'
        obtain ⟨bs, hbs, hmem⟩ := hf.tree.linked _ as _ has hpar
        have hw1 : 0 < wanting s bs.children p :=
          wanting_pos hmem (by rw [pid_refs_live has]; exact hpos)
        have hc := hf.counted _ bs p hbs hp
        exact ih bs hbs (by omega)
    have hc := hf.counted m ms p hm hp
    exact key m hreach ms hm (by omega)

theorem demo_hooks : DefaultHooks demo := by
  intro n st hn
  rcases demo_cases hn with ⟨rfl, rfl⟩ | ⟨rfl, rfl⟩ | ⟨rfl, rfl⟩ | ⟨rfl, rfl⟩ <;> exact ⟨rfl, rfl⟩

theorem demo_refs_child : pid_refs demo 1 = demo_child.pid_list :=
  pid_refs_live demo_stream_child

theorem demo_refs_leaf : pid_refs demo 3 = demo_leaf.pid_list :=
  pid_refs_live demo_stream_leaf

theorem demo_counted : Counted demo demo_direct := by
  intro n st p hn _
  rcases demo_cases hn with ⟨rfl, rfl⟩ | ⟨rfl, rfl⟩ | ⟨rfl, rfl⟩ | ⟨rfl, rfl⟩
  · simp only [demo_root, fresh, wanting, demo_direct, List.countP_cons, List.countP_nil,
      demo_refs_child, demo_child]
    by_cases h5 : p = 5
    · subst h5; decide
    · by_cases h6 : p = 6
      · subst h6; decide
      · simp [h5, h6]
  · simp only [demo_child, fresh, wanting, demo_direct, List.countP_cons, List.countP_nil,
      demo_refs_leaf, demo_leaf]
    by_cases h5 : p = 5
    · subst h5; decide
    · by_cases h6 : p = 6
      · subst h6; decide
      · simp [h5, h6]
  · simp [fresh, wanting, demo_direct]
  · simp only [demo_leaf, fresh, wanting, demo_direct, List.countP_nil]
    by_cases h5 : p = 5
    · subst h5; decide
    · simp [h5]

theorem demo_forest (d : Nat → Nat) (h01 : d 0 < d 1) (h13 : d 1 < d 3) :
    Forest d demo demo_direct :=
  ⟨demo_wf_of d h01 h13, demo_treeOk, demo_hooks, demo_counted⟩

theorem demo_no_wrap (m : Nat) (ms : module_stream_t) (q : Nat) (hm : demo.stream m = some ms) :
    ms.pid_list q < 255 := by
  rcases demo_cases hm with ⟨rfl, rfl⟩ | ⟨rfl, rfl⟩ | ⟨rfl, rfl⟩ | ⟨rfl, rfl⟩
  · simp only [demo_root, fresh]; split_ifs <;> omega
  · simp only [demo_child, fresh]; split_ifs <;> omega
  · simp [fresh]
  · simp only [demo_leaf, fresh]; split_ifs <;> omega

/-- Claim C33, amended: in a forest ranked by `d` (so acyclic) with consistent
children lists in which every node has the default hooks and every counter of
a valid PID is the number `g n p` of outstanding direct joins plus the number
of children subscribed to `p` (`Forest d s g`), with enough fuel: (1)
`module_demux_join(n, p)`, when no counter of `p` is at 255, returns and the
equality holds with one more direct join on `(n, p)`; (2)
`module_demux_leave(n, p)`, when it cancels an outstanding direct join on
`(n, p)` or finds the counter at zero, returns and the equality holds with one
direct join less; (3) `module_stream_attach`, to `NULL` or to a live node
ranked below a child that can receive TS, when no counter is at 255, returns
and the equality holds with the same direct joins; (4)
`module_stream_destroy`, when no counter is at 255, returns, the node is
gone, and the equality holds for the remaining nodes; (5) when the ranks are
bounded, a node is subscribed to `p` exactly when it or a node below it holds
a direct join of `p`. -/
theorem pid_refs_count_invariant {d : Nat → Nat} {s : State} {g : Nat → Nat → Nat}
    (fuel : Nat) (hf : Forest d s g) (h256 : 256 ≤ fuel) :
    (∀ n st p, s.stream n = some st → p < TS_MAX_PIDS → d n < fuel →
      (∀ m ms, s.stream m = some ms → ms.pid_list p < 255) →
      ∃ s', module_demux_join fuel s n p = .ok s' ∧ Forest d s' (bump g n p)) ∧
    (∀ n st p, s.stream n = some st → p < TS_MAX_PIDS → d n < fuel →
      (0 < g n p ∨ st.pid_list p = 0) →
      ∃ s', module_demux_leave fuel s n p = .ok s' ∧ Forest d s' (unbump g n p)) ∧
    (∀ mod c cs, s.stream c = some cs → d c < fuel →
      (∀ m, mod = some m → (∃ ps, s.stream m = some ps) ∧ cs.on_ts ≠ none ∧ d m < d c) →
      (∀ m ms q, s.stream m = some ms → q < TS_MAX_PIDS → ms.pid_list q < 255) →
      ∃ s', module_stream_attach fuel s mod c = .ok s' ∧ Forest d s' g) ∧
    (∀ c cs, s.stream c = some cs → d c < fuel →
      (∀ m ms q, s.stream m = some ms → q < TS_MAX_PIDS → ms.pid_list q < 255) →
      ∃ s', module_stream_destroy fuel s c = .ok s' ∧ s'.stream c = none ∧ Forest d s' g) ∧
    (∀ D, (∀ n st, s.stream n = some st → d n ≤ D) →
      ∀ n st p, s.stream n = some st → p < TS_MAX_PIDS →
        (0 < st.pid_list p ↔
          ∃ m ms, Relation.ReflTransGen (Parent s) m n ∧ s.stream m = some ms ∧ 0 < g m p)) :=
  ⟨fun n st p hst hp hfuel hnw => join_counted hf n p st hst hp hfuel hnw,
   fun n st p hst hp hfuel hm => leave_counted hf n p st hst hp hfuel hm,
   fun mod c cs hcs hfuel hmod hnw => attach_counted hf mod c cs hcs hfuel h256 hmod hnw,
   fun c cs hcs hfuel hnw => destroy_counted hf c cs hcs hfuel h256 hnw,
   fun D hD n st p hst hp => subscribed_iff_wanted hf D hD n p st hst hp⟩

/-- Claim C33, counterexample: in the forest `demo` the counters add up with
the direct joins `demo_direct`, none of them on the root 0, whose counter of
PID 5 is 1 for its child 1.  `module_demux_leave(0, 5)` returns with that
counter at 0 while module 1, still the only child of 0, holds 2 references on
PID 5: the equality holds for no assignment of direct joins, and the root is
not subscribed to a PID that a node below it wants. -/
theorem unmatched_leave_breaks_count :
    Forest (fun n => n) demo demo_direct ∧ demo_direct 0 5 = 0 ∧
    ∃ s' st', module_demux_leave 1 demo 0 5 = .ok s' ∧ s'.stream 0 = some st' ∧
      st'.pid_list 5 = 0 ∧ st'.children = [1] ∧ pid_refs s' 1 5 = 2 ∧
      ∀ g, ¬ Counted s' g := by
  refine ⟨demo_forest _ (by decide) (by decide), by decide, demo.set 0 (pid_decr demo_root 5),
    pid_decr demo_root 5, ?_, ?_, by decide, rfl, ?_, ?_⟩
  · simp [module_demux_leave, ts_pid_valid, TS_MAX_PIDS, demo_stream_root, demo_root, fresh,
      pid_decr]
  · simp [State.set]
  · have : (demo.set 0 (pid_decr demo_root 5)).stream 1 = some demo_child := by
      simp [State.set, demo_stream_child]
    rw [pid_refs_live this]
    decide
  · intro g hc
    have h0 : (demo.set 0 (pid_decr demo_root 5)).stream 0 = some (pid_decr demo_root 5) := by
      simp [State.set]
    have h1 : (demo.set 0 (pid_decr demo_root 5)).stream 1 = some demo_child := by
      simp [State.set, demo_stream_child]
    have h2 : pid_refs (demo.set 0 (pid_decr demo_root 5)) 1 5 = 2 := by
      rw [pid_refs_live h1]
      decide
    have hch : (pid_decr demo_root 5).children = [1] := rfl
    have hpl : (pid_decr demo_root 5).pid_list 5 = 0 := by decide
    have := hc 0 _ 5 h0 (by decide)
    rw [hpl, hch] at this
    simp [wanting, h2] at this

/-- Witness for C33: in the forest `demo`, ranked with module 1 above the root
2, moving module 1 from the root 0 to the root 2 returns, and the counters of
the result add up with the same direct joins. -/
theorem pid_refs_count_invariant_witness :
    ∃ s', module_stream_attach 300 demo (some 2) 1 = .ok s' ∧
      Forest (fun n => if n = 1 then 3 else if n = 3 then 4 else n) s' demo_direct := by
  obtain ⟨-, -, h3, -, -⟩ := pid_refs_count_invariant 300
    (demo_forest (fun n => if n = 1 then 3 else if n = 3 then 4 else n) (by decide) (by decide))
    (by decide)
  exact h3 (some 2) 1 demo_child demo_stream_child (by decide)
    (fun m hm => by
      cases hm
      exact ⟨⟨_, demo_stream_other⟩, by decide, by decide⟩)
    (fun m ms q hm _ => demo_no_wrap m ms q hm)

end Astra
